import Mathlib

/-!
# Storage engine and SQL front end: page codec, data file, LRU-K replacer,
buffer pool, lexer, parser and validator

A shallow embedding of the Go sources under `internal/disk_manager`,
`internal/buffer_bool` and `internal/parser`.

Conventions of the embedding
* a Go call either returns a value, returns an `error`, panics at run time
  (slice bounds, nil dereference, failed type assertion) or does not return: `Res`;
* `uint32` values are natural numbers, every arithmetic step that can wrap is
  written with an explicit `% 2^32` (`u32`);
* a byte is a `Fin 256`; a `[]byte` of which only the contents matter is a
  `List Byte`; a `[]byte` that is re-sliced keeps the bytes up to its
  capacity (`Slice`);
* Go `int` counters are mathematical integers;
* a Go `string` of the SQL front end is the list of its bytes.
-/

namespace CustomDB

/-! ## Results of Go calls -/

/-- Outcome of a Go call: a value, a returned `error`, a run-time panic, or no
return at all (a loop that never ends). -/
inductive Res (α : Type) where
  | ok (a : α)
  | error (msg : String)
  | panic
  | diverge
  deriving DecidableEq, Repr

/-- Sequencing of Go statements: an error, a panic or a loop that never ends
stops the function. -/
def Res.bind {α β : Type} (r : Res α) (f : α → Res β) : Res β :=
  match r with
  | .ok a => f a
  | .error m => .error m
  | .panic => .panic
  | .diverge => .diverge

instance : Monad Res where
  pure := Res.ok
  bind := Res.bind

/-- The call returned a value. -/
def Res.isOk {α : Type} : Res α → Bool
  | .ok _ => true
  | _ => false

/-- The call returned a Go `error`. -/
def Res.isError {α : Type} : Res α → Bool
  | .error _ => true
  | _ => false

/-- `fmt.Errorf(prefix + ": %w", err)` applied to the error branch of a result. -/
def Res.wrapErr {α : Type} (pre : String) : Res α → Res α
  | .error m => .error (pre ++ m)
  | r => r

/-! ## Bytes, unsigned 32-bit integers, slices -/

/-- A byte. -/
abbrev Byte := Fin 256

/-- Conversion of an integer to `byte` (truncation). -/
def toByte (n : Nat) : Byte := ⟨n % 256, Nat.mod_lt _ (by decide)⟩

/-- Conversion to `uint32` or result of a `uint32` operation (wrap-around). -/
def u32 (n : Nat) : Nat := n % 4294967296

/-- Subtraction of `uint32` values (wrap-around). -/
def u32sub (a b : Nat) : Nat := (a + 4294967296 - b % 4294967296) % 4294967296

/-- Conversion `uint32(x)` of an `int32` value. -/
def int32ToU32 (v : Int) : Nat := (v % 4294967296).toNat

/-- Conversion `int32(x)` of a `uint32` value. -/
def u32ToInt32 (n : Nat) : Int :=
  if n % 4294967296 < 2147483648 then ((n % 4294967296 : Nat) : Int)
  else ((n % 4294967296 : Nat) : Int) - 4294967296

/-- The four bytes `binary.BigEndian.PutUint32` writes. -/
def beBytes (v : Nat) : List Byte :=
  [toByte (v / 16777216), toByte (v / 65536), toByte (v / 256), toByte v]

/-- The value `binary.BigEndian.Uint32` reads from the first four bytes. -/
def beVal (bs : List Byte) : Nat :=
  match bs with
  | b0 :: b1 :: b2 :: b3 :: _ => b0.val * 16777216 + b1.val * 65536 + b2.val * 256 + b3.val
  | _ => 0

/-- A Go `[]byte` value seen from its first element: `mem` holds the bytes of
the backing array from the slice start up to the capacity, `len` is the
slice length (`len ≤ mem.length`). -/
structure Slice where
  mem : List Byte
  len : Nat
  deriving DecidableEq, Repr

/-- A freshly made or fully owned slice: capacity equals length. -/
def Slice.ofBytes (l : List Byte) : Slice := ⟨l, l.length⟩

/-- The visible contents of a slice. -/
def Slice.bytes (s : Slice) : List Byte := s.mem.take s.len

/-- The slice expression `s[lo:hi]`: panics unless `lo ≤ hi ≤ cap(s)`. -/
def Slice.reslice (s : Slice) (lo hi : Nat) : Res Slice :=
  if lo ≤ hi ∧ hi ≤ s.mem.length then .ok ⟨s.mem.drop lo, hi - lo⟩ else .panic

/-- The call `binary.BigEndian.Uint32(s)`: panics when `len(s) < 4`. -/
def Slice.uint32 (s : Slice) : Res Nat :=
  if 4 ≤ s.len then .ok (beVal s.bytes) else .panic

/-- The slice expression `l[lo:hi]` on a slice whose capacity equals its length,
keeping only the contents. -/
def sliceList (l : List Byte) (lo hi : Nat) : Res (List Byte) :=
  if lo ≤ hi ∧ hi ≤ l.length then .ok ((l.drop lo).take (hi - lo)) else .panic

/-- Overwrite `buf` from position `off` with `src` (no bounds check; callers
establish `off + src.length ≤ buf.length`). -/
def writeAt (buf : List Byte) (off : Nat) (src : List Byte) : List Byte :=
  buf.take off ++ src ++ buf.drop (off + src.length)

/-- The statement `copy(buf[lo:hi], src)` on a buffer whose capacity equals its
length: panics on a bad slice expression, copies `min (hi - lo) (len src)` bytes. -/
def copyInto (buf : List Byte) (lo hi : Nat) (src : List Byte) : Res (List Byte) :=
  if lo ≤ hi ∧ hi ≤ buf.length then .ok (writeAt buf lo (src.take (hi - lo))) else .panic

/-- The statement `binary.BigEndian.PutUint32(buf[lo:hi], v)`: panics on a bad
slice expression or when the slice is shorter than four bytes. -/
def putUint32 (buf : List Byte) (lo hi : Nat) (v : Nat) : Res (List Byte) :=
  if lo ≤ hi ∧ hi ≤ buf.length then
    if 4 ≤ hi - lo then .ok (writeAt buf lo (beBytes v)) else .panic
  else .panic

/-- The expression `make([]byte, n)`. -/
def makeBytes (n : Nat) : List Byte := List.replicate n 0

/-! ## `internal/disk_manager/consts.go`, `page.go` constants -/

def PAGE_SIZE : Nat := 4096
def PAGE_INITIAL_ID : Nat := 1
def MAX_TABLE_COLUMNS_AMOUNT : Nat := 32
def PAGE_HEADER_SIZE : Nat := 16
def SLOT_SIZE : Nat := 12
def TUPLE_LENGTH_FIELD_SIZE : Nat := 4
def TUPLE_NULL_BITMAP_SIZE : Nat := 4
def DATA_FILE_HEADER_SIZE : Nat := 12
def DATA_FILE_MAGIC_NUMBER : Nat := 0x12345678

/-! ## `internal/disk_manager/models.go` -/

def INT_32_TYPE : Nat := 1
def TEXT_TYPE : Nat := 2

/-- The dynamic value held by `DataCell.Data` (an `interface{}`): `nil`, an
`int32`, or a `string` (its bytes). -/
inductive CellData where
  | null
  | int32 (v : Int)
  | str (s : List Byte)
  deriving DecidableEq, Repr

/-- The struct `DataCell`. -/
structure DataCell where
  dataType : Nat
  data : CellData
  isNull : Bool
  deriving DecidableEq, Repr

/-- The type `Row`. -/
abbrev Row := List DataCell

/-- The struct `ColumnInfo` of `meta.go`. -/
structure ColumnInfo where
  columnNameLength : Nat
  dataType : Nat
  isNullable : Nat
  isPrimaryKey : Nat
  isAutoIncrement : Nat
  defaultValue : Nat
  columnName : List Byte
  deriving DecidableEq, Repr

/-- The struct `RawTuple` of `page.go`; the two byte slices are kept by contents. -/
structure RawTuple where
  length : Nat
  nullBitmapSize : Nat
  nullBitmap : List Byte
  data : List Byte
  deriving DecidableEq, Repr

/-- The function `CalculateNullBitmapSize`. -/
def CalculateNullBitmapSize (columnCount : Int) : Res Nat :=
  if columnCount ≤ 0 then .error "column count must be positive"
  else if columnCount > (MAX_TABLE_COLUMNS_AMOUNT : Int) then
    .error "column count exceeds maximum allowed (%d)"
  else .ok (u32 ((columnCount + 7) / 8).toNat)

/-- The method `DataCell.serializeInt32`: the type assertion panics unless the
value is an `int32`. -/
def DataCell.serializeInt32 (cell : DataCell) : Res (List Byte) :=
  match cell.data with
  | .int32 v => putUint32 (makeBytes 4) 0 4 (int32ToU32 v)
  | _ => .panic

/-- The method `DataCell.serializeText`. -/
def DataCell.serializeText (cell : DataCell) : Res (List Byte) :=
  match cell.data with
  | .str s => do
      let length := u32 s.length
      let data := makeBytes (u32 (4 + length))
      let data ← putUint32 data 0 4 length
      copyInto data 4 data.length s
  | _ => .panic

/-- The method `DataCell.SerializeData`. -/
def DataCell.SerializeData (cell : DataCell) : Res (List Byte) :=
  if cell.isNull then .ok []
  else if cell.dataType = INT_32_TYPE then cell.serializeInt32
  else if cell.dataType = TEXT_TYPE then cell.serializeText
  else .ok []

/-- The method `DataCell.GetSize`. -/
def DataCell.GetSize (cell : DataCell) : Res Nat :=
  if cell.isNull then .ok 0
  else if cell.dataType = INT_32_TYPE then .ok 4
  else if cell.dataType = TEXT_TYPE then
    match cell.data with
    | .str s => .ok (u32 (4 + u32 s.length))
    | _ => .panic
  else .ok 0

/-- The method `Row.GetSize`. -/
def Row.GetSize (r : Row) : Res Nat := do
  let size ← r.foldlM (fun (size : Nat) cell => do
    let c ← cell.GetSize
    pure (u32 (size + c))) 0
  let nullBitmapSize :=
    match CalculateNullBitmapSize r.length with
    | .ok n => n
    | _ => 1
  pure (u32 (size + (TUPLE_LENGTH_FIELD_SIZE + TUPLE_NULL_BITMAP_SIZE + nullBitmapSize)))

/-- The method `DataCell.deserializeInt32` on the cell bytes. -/
def deserializeInt32 (cell : DataCell) (data : List Byte) : Res DataCell :=
  if data.length < 4 then .error "insufficient data for INT_32_TYPE: need 4 bytes, got %d"
  else do
    let b ← sliceList data 0 4
    pure { cell with data := .int32 (u32ToInt32 (beVal b)) }

/-- The method `DataCell.deserializeText` on the cell bytes. -/
def deserializeText (cell : DataCell) (data : List Byte) : Res DataCell :=
  if data.length < 4 then
    .error "insufficient data for TEXT_TYPE: need at least 4 bytes for length, got %d"
  else do
    let b ← sliceList data 0 4
    let length := beVal b
    if data.length < u32 (4 + length) then
      .error "insufficient data for TEXT_TYPE: need %d bytes, got %d"
    else do
      let s ← sliceList data 4 (u32 (4 + length))
      pure { cell with data := .str s }

/-- The function `DeserializeDataCell`. -/
def DeserializeDataCell (data : List Byte) (dataType : Nat) (isNull : Bool) : Res DataCell :=
  let cell : DataCell := { dataType := dataType, data := .null, isNull := isNull }
  if isNull then .ok cell
  else if dataType = INT_32_TYPE then deserializeInt32 cell data
  else if dataType = TEXT_TYPE then deserializeText cell data
  else .error "unsupported data type: %d"

/-- The null test of `ConvertRawTupleToRow` for column `i`: bit `i % 8` of byte
`i / 8` of the bitmap, read as clear when the bitmap is too short. -/
def nullBit (bitmap : List Byte) (i : Nat) : Bool :=
  match bitmap.get? (i / 8) with
  | some b => (b.val &&& ((1 <<< (i % 8)) % 256)) ≠ 0
  | none => false

/-- One iteration of the column loop of `ConvertRawTupleToRow`: column `i`,
current `dataOffset`; returns the cell and the new offset. -/
def convertColumn (rawTuple : RawTuple) (i : Nat) (column : ColumnInfo) (dataOffset : Nat) :
    Res (DataCell × Nat) :=
  if nullBit rawTuple.nullBitmap i then
    .ok ({ dataType := column.dataType, data := .null, isNull := true }, dataOffset)
  else do
    let cellDataSize ←
      if column.dataType = INT_32_TYPE then (Res.ok 4 : Res Nat)
      else if column.dataType = TEXT_TYPE then
        if u32 (dataOffset + 4) > u32 rawTuple.data.length then
          Res.error "insufficient data for TEXT_TYPE length field at offset %d"
        else do
          let b ← sliceList rawTuple.data dataOffset (u32 (dataOffset + 4))
          pure (u32 (4 + beVal b))
      else Res.error "unsupported data type: %d"
    if u32 (dataOffset + cellDataSize) > u32 rawTuple.data.length then
      .error "insufficient data for column %d at offset %d"
    else do
      let cellData ← sliceList rawTuple.data dataOffset (u32 (dataOffset + cellDataSize))
      let cell ← (DeserializeDataCell cellData column.dataType false).wrapErr
        "failed to deserialize cell %d: "
      pure (cell, u32 (dataOffset + cellDataSize))

/-- The column loop of `ConvertRawTupleToRow` from column index `i` on. -/
def convertColumns (rawTuple : RawTuple) : Nat → List ColumnInfo → Nat → Res Row
  | _, [], _ => .ok []
  | i, column :: rest, dataOffset => do
      let (cell, off) ← convertColumn rawTuple i column dataOffset
      let row ← convertColumns rawTuple (i + 1) rest off
      pure (cell :: row)

/-- The function `ConvertRawTupleToRow`. -/
def ConvertRawTupleToRow (rawTuple : RawTuple) (columns : List ColumnInfo) : Res Row :=
  convertColumns rawTuple 0 columns 0

/-- The statement `nullBitmap[i/8] |= (1 << (i%8))`: panics when the index is
outside the bitmap. -/
def setNullBit (bitmap : List Byte) (i : Nat) : Res (List Byte) :=
  match bitmap.get? (i / 8) with
  | some b => .ok (bitmap.set (i / 8) (toByte (b.val ||| ((1 <<< (i % 8)) % 256))))
  | none => .panic

/-- The bitmap loop of `ConvertRowToRawTuple` from cell index `i` on. -/
def fillNullBitmap : Nat → Row → List Byte → Res (List Byte)
  | _, [], bitmap => .ok bitmap
  | i, cell :: rest, bitmap =>
      if cell.isNull then do
        let bitmap ← setNullBit bitmap i
        fillNullBitmap (i + 1) rest bitmap
      else fillNullBitmap (i + 1) rest bitmap

/-- The payload loop of `ConvertRowToRawTuple`: `data = append(data, cell.SerializeData()...)`. -/
def serializeCells : Row → Res (List Byte)
  | [] => .ok []
  | cell :: rest => do
      let d ← cell.SerializeData
      let ds ← serializeCells rest
      pure (d ++ ds)

/-- The function `ConvertRowToRawTuple`. -/
def ConvertRowToRawTuple (row : Row) : Res RawTuple := do
  let columnCount := row.length
  let nullBitmapSize :=
    if columnCount = 0 then 1
    else
      match CalculateNullBitmapSize columnCount with
      | .ok n => n
      | _ => 1
  let nullBitmap ← fillNullBitmap 0 row (makeBytes nullBitmapSize)
  let _ ← Row.GetSize row
  let data ← serializeCells row
  let totalLength :=
    u32 (TUPLE_LENGTH_FIELD_SIZE + TUPLE_NULL_BITMAP_SIZE + nullBitmapSize + u32 data.length)
  pure { length := totalLength, nullBitmapSize := nullBitmapSize,
         nullBitmap := nullBitmap, data := data }

/-! ## Rows over a schema -/

/-- The number of payload bytes of a cell. -/
def cellSize (cell : DataCell) : Nat :=
  if cell.isNull then 0
  else match cell.data with
    | .int32 _ => 4
    | .str s => 4 + s.length
    | .null => 0

/-- The number of payload bytes of a row. -/
def payloadSize (row : Row) : Nat := (row.map cellSize).sum

/-- A cell of the type of its column. -/
def CellMatches (column : ColumnInfo) (cell : DataCell) : Prop :=
  cell.dataType = column.dataType ∧
  (cell.isNull = true → cell.data = .null) ∧
  (cell.isNull = false →
    (column.dataType = INT_32_TYPE ∧ ∃ v : Int, cell.data = .int32 v ∧
        -2147483648 ≤ v ∧ v < 2147483648) ∨
    (column.dataType = TEXT_TYPE ∧ ∃ s, cell.data = .str s))

/-- Whether cell `k` of the row exists and is null. -/
def rowNull (row : Row) (k : Nat) : Bool :=
  match row.get? k with
  | some c => c.isNull
  | none => false

/-- A two-column schema: an Int32 column and a Text column. -/
def exampleColumns : List ColumnInfo :=
  [ { columnNameLength := 2, dataType := INT_32_TYPE, isNullable := 0, isPrimaryKey := 1,
      isAutoIncrement := 1, defaultValue := 0, columnName := [105, 100] },
    { columnNameLength := 1, dataType := TEXT_TYPE, isNullable := 1, isPrimaryKey := 0,
      isAutoIncrement := 0, defaultValue := 0, columnName := [110] } ]

/-- A row over `exampleColumns`. -/
def exampleRow : Row :=
  [ { dataType := INT_32_TYPE, data := .int32 (-3), isNull := false },
    { dataType := TEXT_TYPE, data := .str [104, 105], isNull := false } ]

/-- A string of 2^32 zero bytes. -/
def hugeText : List Byte := List.replicate 4294967296 0

/-- A non-null Text cell holding `hugeText`. -/
def hugeTextCell : DataCell := { dataType := TEXT_TYPE, data := .str hugeText, isNull := false }

/-- A one-column schema: a Text column. -/
def textColumn : ColumnInfo :=
  { columnNameLength := 1, dataType := TEXT_TYPE, isNullable := 1, isPrimaryKey := 0,
    isAutoIncrement := 0, defaultValue := 0, columnName := [116] }

/-! ## `internal/disk_manager/page.go` -/

/-- The struct `PageHeader`. -/
structure PageHeader where
  pageID : Nat
  recordCount : Nat
  lower : Nat
  upper : Nat
  deriving DecidableEq, Repr

/-- The function `newPageHeader`. -/
def newPageHeader (pageID : Nat) : PageHeader :=
  { pageID := pageID, recordCount := 0, lower := PAGE_HEADER_SIZE, upper := PAGE_SIZE }

/-- The method `PageHeader.Serialize`. -/
def PageHeader.Serialize (header : PageHeader) : Res (List Byte) := do
  let data := makeBytes PAGE_HEADER_SIZE
  let data ← putUint32 data 0 4 header.pageID
  let data ← putUint32 data 4 8 header.recordCount
  let data ← putUint32 data 8 12 header.lower
  let data ← putUint32 data 12 16 header.upper
  pure data

/-- The method `PageHeader.Deserialize`. -/
def PageHeader.Deserialize (data : Slice) : Res PageHeader :=
  if data.len < PAGE_HEADER_SIZE then .error "insufficient data for page header"
  else do
    let pageID ← (← data.reslice 0 4).uint32
    let recordCount ← (← data.reslice 4 8).uint32
    let lower ← (← data.reslice 8 12).uint32
    let upper ← (← data.reslice 12 16).uint32
    pure { pageID := pageID, recordCount := recordCount, lower := lower, upper := upper }

/-- The struct `PageSlot`. -/
structure PageSlot where
  offset : Nat
  length : Nat
  flags : Nat
  deriving DecidableEq, Repr

/-- The method `PageSlot.Serialize`. -/
def PageSlot.Serialize (slot : PageSlot) : Res (List Byte) := do
  let data := makeBytes SLOT_SIZE
  let data ← putUint32 data 0 4 slot.offset
  let data ← putUint32 data 4 8 slot.length
  let data ← putUint32 data 8 12 slot.flags
  pure data

/-- The method `PageSlot.Deserialize`. -/
def PageSlot.Deserialize (data : Slice) : Res PageSlot :=
  if data.len < SLOT_SIZE then .error "insufficient data for page slot"
  else do
    let offset ← (← data.reslice 0 4).uint32
    let length ← (← data.reslice 4 8).uint32
    let flags ← (← data.reslice 8 12).uint32
    pure { offset := offset, length := length, flags := flags }

/-- The method `RawTuple.Serialize`. -/
def RawTuple.Serialize (tuple : RawTuple) : Res (List Byte) := do
  let data := makeBytes tuple.length
  let data ← putUint32 data 0 4 tuple.length
  let data ← putUint32 data 4 8 tuple.nullBitmapSize
  let data ← copyInto data 8 (u32 (8 + tuple.nullBitmapSize)) tuple.nullBitmap
  let data ← copyInto data (u32 (8 + tuple.nullBitmapSize)) tuple.length tuple.data
  pure data

/-- The method `RawTuple.Deserialize`. -/
def RawTuple.Deserialize (data : Slice) : Res RawTuple :=
  if data.len < 8 then .error "insufficient data for data tuple"
  else do
    let length ← (← data.reslice 0 4).uint32
    let nullBitmapSize ← (← data.reslice 4 8).uint32
    if data.len < length then .error "insufficient data for data tuple"
    else do
      let nullBitmap ← data.reslice 8 (u32 (8 + nullBitmapSize))
      let payload ← data.reslice (u32 (8 + nullBitmapSize)) length
      pure { length := length, nullBitmapSize := nullBitmapSize,
             nullBitmap := nullBitmap.bytes, data := payload.bytes }

/-- The struct `RawPage`. -/
structure RawPage where
  header : PageHeader
  slots : List PageSlot
  rawTuples : List RawTuple
  deriving DecidableEq, Repr

/-- The function `newPage`. -/
def newPage (pageID : Nat) : RawPage :=
  { header := newPageHeader pageID, slots := [], rawTuples := [] }

/-- The slot loop of `RawPage.Serialize`, from slot index `i` on. -/
def serializeSlots : Nat → List PageSlot → List Byte → Res (List Byte)
  | _, [], data => .ok data
  | i, slot :: rest, data => do
      let slotOffset := PAGE_HEADER_SIZE + i * SLOT_SIZE
      let data ← copyInto data slotOffset (slotOffset + SLOT_SIZE) (← slot.Serialize)
      serializeSlots (i + 1) rest data

/-- The tuple loop of `RawPage.Serialize`, from tuple index `i` on; `slots` is
the whole slot array, `page.Slots[i]` panics when `i` is out of range. -/
def serializeTuples (slots : List PageSlot) : Nat → List RawTuple → List Byte → Res (List Byte)
  | _, [], data => .ok data
  | i, tuple :: rest, data =>
      match slots.get? i with
      | none => .panic
      | some slot => do
          let startOffset := slot.offset
          let endOffset := u32 (slot.offset + slot.length)
          let data ← copyInto data startOffset endOffset (← tuple.Serialize)
          serializeTuples slots (i + 1) rest data

/-- The method `RawPage.Serialize`. -/
def RawPage.Serialize (page : RawPage) : Res (List Byte) := do
  let data := makeBytes PAGE_SIZE
  let data ← copyInto data 0 PAGE_HEADER_SIZE (← page.header.Serialize)
  let data ← serializeSlots 0 page.slots data
  let data ← serializeTuples page.slots 0 page.rawTuples data
  pure data

/-- The slot loop of `RawPage.Deserialize`: `n` iterations from index `i` on. -/
def deserializeSlots (data : Slice) : Nat → Nat → Res (List PageSlot)
  | 0, _ => .ok []
  | n + 1, i => do
      let slotOffset := PAGE_HEADER_SIZE + i * SLOT_SIZE
      let slot ← PageSlot.Deserialize (← data.reslice slotOffset (slotOffset + SLOT_SIZE))
      let rest ← deserializeSlots data n (i + 1)
      pure (slot :: rest)

/-- The tuple loop of `RawPage.Deserialize` over the slots read before. -/
def deserializeTuples (data : Slice) : List PageSlot → Res (List RawTuple)
  | [] => .ok []
  | slot :: rest => do
      let startOffset := slot.offset
      let endOffset := u32 (slot.offset + slot.length)
      let tuple ← RawTuple.Deserialize (← data.reslice startOffset endOffset)
      let tuples ← deserializeTuples data rest
      pure (tuple :: tuples)

/-- The method `RawPage.Deserialize`. -/
def RawPage.Deserialize (data : Slice) : Res RawPage :=
  if data.len < PAGE_SIZE then .error "insufficient data for page"
  else do
    let header ← PageHeader.Deserialize (← data.reslice 0 PAGE_HEADER_SIZE)
    let slots ← deserializeSlots data header.recordCount 0
    let tuples ← deserializeTuples data slots
    pure { header := header, slots := slots, rawTuples := tuples }

/-- The extents of two slots do not overlap. -/
def PageSlot.Disjoint (a b : PageSlot) : Prop :=
  a.offset + a.length ≤ b.offset ∨ b.offset + b.length ≤ a.offset

/-- A valid `RawPage`: the header fields and slot flags are `uint32` values;
`record_count` is the number of slots and of tuples; every tuple has a bitmap of
`null_bitmap_size` bytes and `length = 8 + null_bitmap_size + len(payload)`;
slot `i` has the length of tuple `i`; every slot extent lies inside
`[16 + 12 * record_count, 4096)` and the extents are pairwise disjoint. -/
structure RawPage.Valid (p : RawPage) : Prop where
  pageID_lt : p.header.pageID < 4294967296
  lower_lt : p.header.lower < 4294967296
  upper_lt : p.header.upper < 4294967296
  count_slots : p.header.recordCount = p.slots.length
  tuple_ok : ∀ t ∈ p.rawTuples, t.nullBitmap.length = t.nullBitmapSize ∧
    t.length = 8 + t.nullBitmapSize + t.data.length
  slot_tuple : List.Forall₂ (fun (s : PageSlot) (t : RawTuple) => s.length = t.length)
    p.slots p.rawTuples
  slot_ok : ∀ s ∈ p.slots, s.flags < 4294967296 ∧
    PAGE_HEADER_SIZE + SLOT_SIZE * p.header.recordCount ≤ s.offset ∧
    s.offset + s.length ≤ PAGE_SIZE
  disjoint : p.slots.Pairwise PageSlot.Disjoint

/-- The page of `TestDeserializePage/2`: one slot, one tuple of 20 bytes. -/
def examplePage : RawPage :=
  { header := { pageID := 2, recordCount := 1, lower := 28, upper := 4076 },
    slots := [{ offset := 4076, length := 20, flags := 0 }],
    rawTuples := [{ length := 20, nullBitmapSize := 4, nullBitmap := [0, 1, 0, 1],
                    data := [1, 2, 3, 4, 5, 6, 7, 8] }] }

/-- The `n` bytes of `buf` from position `off` on. -/
def window (buf : List Byte) (off n : Nat) : List Byte := (buf.drop off).take n

/-- The 16 bytes of a serialized page header. -/
def PageHeader.bytes (h : PageHeader) : List Byte :=
  beBytes h.pageID ++ beBytes h.recordCount ++ beBytes h.lower ++ beBytes h.upper

/-- The 12 bytes of a serialized slot. -/
def PageSlot.bytes (s : PageSlot) : List Byte :=
  beBytes s.offset ++ beBytes s.length ++ beBytes s.flags

/-- The bytes of a serialized tuple: length, bitmap size, bitmap, payload. -/
def RawTuple.bytes (t : RawTuple) : List Byte :=
  beBytes t.length ++ beBytes t.nullBitmapSize ++ t.nullBitmap ++ t.data

/-! ## `internal/disk_manager/data_file.go` -/

/-- The files on disk: the contents stored under each path, if any. -/
abbrev FS := String → Option (List Byte)

/-- The path `fmt.Sprintf(DATA_FILE_PATH, tableName)`. -/
def dataFilePath (tableName : String) : String := "tables/" ++ tableName ++ ".data"

/-- The call `file.WriteAt(b, off)` on a file holding `file`: the bytes from
`off` on are overwritten, the file is extended (zero-filled) when it is shorter
than `off + len(b)`. -/
def fileWriteAt (file : List Byte) (off : Nat) (b : List Byte) : List Byte :=
  writeAt (file ++ List.replicate (off + b.length - file.length) 0) off b

/-- The struct `DataFileHeader`. -/
structure DataFileHeader where
  magicNumber : Nat
  pagesCount : Nat
  recordCount : Nat
  deriving DecidableEq, Repr

/-- The struct `DataFile`. -/
structure DataFile where
  header : DataFileHeader
  pages : List RawPage
  deriving DecidableEq, Repr

/-- The offset `DATA_FILE_HEADER_SIZE + (pageID.PageNumber-1)*PAGE_SIZE`,
computed in `uint32`. -/
def pageOffset (pageID : Nat) : Nat :=
  u32 (DATA_FILE_HEADER_SIZE + u32 (u32sub pageID 1 * PAGE_SIZE))

/-- The method `DataFile.readPage`; `os.ReadFile` returns the whole file. -/
def DataFile.readPage (df : DataFile) (fs : FS) (tableName : String) (pageID : Nat) :
    Res RawPage :=
  if pageID > df.header.pagesCount then .error "page id %d is out of range"
  else
    match fs (dataFilePath tableName) with
    | none => .error "data file for table %s not found"
    | some bytes => do
        let data := Slice.ofBytes bytes
        let offset := pageOffset pageID
        let s ← data.reslice offset (u32 (offset + PAGE_SIZE))
        (RawPage.Deserialize s).wrapErr "failed to deserialize page: "

/-- The method `DataFile.writePage`; the result is the file system after the call. -/
def DataFile.writePage (_df : DataFile) (fs : FS) (tableName : String) (pageID : Nat)
    (page : RawPage) : Res FS :=
  match fs (dataFilePath tableName) with
  | none => .error "failed to open data file: "
  | some bytes => do
      let offset := pageOffset pageID
      let b ← page.Serialize
      pure (Function.update fs (dataFilePath tableName) (some (fileWriteAt bytes offset b)))

/-- A data file of two pages whose first page is damaged: its only slot
`(offset 4092, length 12)` runs 8 bytes past the end of the page; the second
page is the empty page 2. -/
def damagedFile : List Byte :=
  (beBytes DATA_FILE_MAGIC_NUMBER ++ beBytes 2 ++ beBytes 0) ++
  ((beBytes 1 ++ beBytes 1 ++ beBytes 28 ++ beBytes 4092) ++
    (beBytes 4092 ++ beBytes 12 ++ beBytes 0) ++ List.replicate 4064 0 ++ beBytes 12) ++
  ((beBytes 2 ++ beBytes 0 ++ beBytes 16 ++ beBytes 4096) ++ List.replicate 4080 0)

/-- A file system holding `damagedFile` as the data file of table `t`. -/
def damagedFS : FS := fun path => if path = dataFilePath "t" then some damagedFile else none

/-- The `DataFile` of `damagedFile`: two pages. -/
def damagedDF : DataFile :=
  { header := { magicNumber := DATA_FILE_MAGIC_NUMBER, pagesCount := 2, recordCount := 0 },
    pages := [] }

/-- What `readPage` returns for page 1 of `damagedFile`: the tuple of its slot
holds bytes 4 to 8 of page 2 as bitmap and payload. -/
def damagedPageBefore : RawPage :=
  { header := { pageID := 1, recordCount := 1, lower := 28, upper := 4092 },
    slots := [{ offset := 4092, length := 12, flags := 0 }],
    rawTuples := [{ length := 12, nullBitmapSize := 2, nullBitmap := [0, 0], data := [0, 0] }] }

/-- What `readPage` returns for page 1 once `examplePage` (record count 1) has
been written as page 2. -/
def damagedPageAfter : RawPage :=
  { header := { pageID := 1, recordCount := 1, lower := 28, upper := 4092 },
    slots := [{ offset := 4092, length := 12, flags := 0 }],
    rawTuples := [{ length := 12, nullBitmapSize := 2, nullBitmap := [0, 0], data := [0, 1] }] }

/-- A 4096-byte buffer whose header declares 341 records (`16 + 12 * 341 > 4096`). -/
def bufferTooManyRecords : List Byte :=
  (beBytes 1 ++ beBytes 341 ++ beBytes 16 ++ beBytes 4096) ++ List.replicate 4080 0

/-- A 4096-byte buffer with one slot `(offset 4090, length 8)`, which ends past
the buffer. -/
def bufferSlotPastEnd : List Byte :=
  (beBytes 1 ++ beBytes 1 ++ beBytes 28 ++ beBytes 4090) ++
    (beBytes 4090 ++ beBytes 8 ++ beBytes 0) ++ List.replicate 4068 0

/-- A 4096-byte buffer with one slot `(offset 4088, length 8)` whose tuple
declares `length = 8` and `null_bitmap_size = 1`. -/
def bufferShortTuple : List Byte :=
  (beBytes 1 ++ beBytes 1 ++ beBytes 28 ++ beBytes 4088) ++
    (beBytes 4088 ++ beBytes 8 ++ beBytes 0) ++ List.replicate 4060 0 ++
    (beBytes 8 ++ beBytes 1)

/-! ## Go maps keyed by `PageID` -/

/-- A Go `map[PageID]V`: the entries, at most one per key (`PageID` is a struct
with the single field `PageNumber`, kept as a number). -/
abbrev GoMap (V : Type) := List (Nat × V)

/-- The lookup `m[k]` with its `exists` flag. -/
def mapGet {V : Type} (m : GoMap V) (k : Nat) : Option V :=
  match m with
  | [] => none
  | (k', v) :: rest => if k' = k then some v else mapGet rest k

/-- The statement `delete(m, k)`. -/
def mapDel {V : Type} (m : GoMap V) (k : Nat) : GoMap V :=
  match m with
  | [] => []
  | (k', v) :: rest => if k' = k then mapDel rest k else (k', v) :: mapDel rest k

/-- The statement `m[k] = v`. -/
def mapSet {V : Type} (m : GoMap V) (k : Nat) (v : V) : GoMap V :=
  (k, v) :: mapDel m k

/-- The expression `len(m)`. -/
def mapLen {V : Type} (m : GoMap V) : Int := (m.length : Int)

/-- The keys of a map. -/
def mapKeys {V : Type} (m : GoMap V) : List Nat := m.map Prod.fst

/-! ## `internal/buffer_bool/lru_k.go`

`*Node` pointers are addresses into a store of allocated nodes (`heap`,
`nextAddr` is the first address not yet allocated); `nil` is `none`.
`*PageEntry` and `*AccessHistory` objects are reachable only through their
map, so the maps hold them by value and a mutated object is stored back.
`time.Now()` is the argument `now` of `Access`. The `int` fields count calls
and list nodes; they are unbounded integers here, 2^63 calls being out of
reach. -/

/-- The struct `Node`. -/
structure Node where
  pageID : Nat
  lastUsedTime : Nat
  prev : Option Nat
  next : Option Nat
  deriving DecidableEq, Repr, Inhabited

/-- The struct `LRUList`. -/
structure LRUList where
  head : Option Nat
  tail : Option Nat
  size : Int
  deriving DecidableEq, Repr

/-- The struct `PageEntry`. -/
structure PageEntry where
  pageID : Nat
  accessCount : Int
  lastAccess : Nat
  isInHotList : Bool
  node : Option Nat
  deriving DecidableEq, Repr

/-- The struct `AccessHistory`. -/
structure AccessHistory where
  pageID : Nat
  accesses : List Nat
  count : Int
  deriving DecidableEq, Repr

/-- The struct `LRUKCache`, with the store of its list nodes. -/
structure LRUKCache where
  K : Int
  pageEntries : GoMap PageEntry
  accessHistory : GoMap AccessHistory
  hotList : LRUList
  coldList : LRUList
  maxSize : Int
  currentSize : Int
  heap : Nat → Node
  nextAddr : Nat

/-- The function `NewLRUKCache`. -/
def NewLRUKCache (k maxSize : Int) : LRUKCache :=
  { K := k, pageEntries := [], accessHistory := [],
    hotList := { head := none, tail := none, size := 0 },
    coldList := { head := none, tail := none, size := 0 },
    maxSize := maxSize, currentSize := 0,
    heap := fun _ => default, nextAddr := 0 }

/-- The history object `updateAccessHistory` works on: the stored one, or a
new one; `make([]time.Time, 0, cache.K)` panics for a negative `K` (the
allocation is taken to succeed for every other `K`). -/
def LRUKCache.historyFor (cache : LRUKCache) (pageID : Nat) : Res AccessHistory :=
  match mapGet cache.accessHistory pageID with
  | some h => .ok h
  | none =>
      if cache.K < 0 then .panic
      else .ok { pageID := pageID, accesses := [], count := 0 }

/-- The method `updateAccessHistory`. -/
def LRUKCache.updateAccessHistory (cache : LRUKCache) (pageID : Nat) (accessTime : Nat) :
    Res LRUKCache := do
  let history ← cache.historyFor pageID
  let history := { history with accesses := history.accesses ++ [accessTime],
                                count := history.count + 1 }
  let history :=
    if history.count > cache.K then
      { history with accesses := history.accesses.drop 1, count := cache.K }
    else history
  pure { cache with accessHistory := mapSet cache.accessHistory pageID history }

/-- The body shared by `addToHotList` and `addToColdList`: a new node becomes
the head of `list`. Returns the list, the store and the address of the node. -/
def listPushHead (list : LRUList) (heap : Nat → Node) (nextAddr : Nat) (entry : PageEntry) :
    LRUList × (Nat → Node) × Nat :=
  let node : Node := { pageID := entry.pageID, lastUsedTime := entry.lastAccess,
                       next := none, prev := list.head }
  let addr := nextAddr
  let heap := Function.update heap addr node
  match list.head with
  | some h =>
      let heap := Function.update heap h { heap h with next := some addr }
      ({ list with head := some addr, size := list.size + 1 }, heap, addr)
  | none =>
      ({ list with tail := some addr, head := some addr, size := list.size + 1 }, heap, addr)

/-- The body shared by `removeFromHotList` and `removeFromColdList` for a
non-nil `entry.Node`: the node at `addr` is unlinked from `list`. -/
def listUnlink (list : LRUList) (heap : Nat → Node) (addr : Nat) : LRUList × (Nat → Node) :=
  let r : LRUList × (Nat → Node) :=
    match (heap addr).prev with
    | some p => (list, Function.update heap p { heap p with next := (heap addr).next })
    | none => ({ list with tail := (heap addr).next }, heap)
  let r : LRUList × (Nat → Node) :=
    match (r.2 addr).next with
    | some n => (r.1, Function.update r.2 n { r.2 n with prev := (r.2 addr).prev })
    | none => ({ r.1 with head := (r.2 addr).prev }, r.2)
  ({ r.1 with size := r.1.size - 1 }, r.2)

/-- The method `addToHotList`. -/
def LRUKCache.addToHotList (cache : LRUKCache) (entry : PageEntry) : LRUKCache × PageEntry :=
  let r := listPushHead cache.hotList cache.heap cache.nextAddr entry
  ({ cache with hotList := r.1, heap := r.2.1, nextAddr := cache.nextAddr + 1 },
   { entry with node := some r.2.2 })

/-- The method `addToColdList`. -/
def LRUKCache.addToColdList (cache : LRUKCache) (entry : PageEntry) : LRUKCache × PageEntry :=
  let r := listPushHead cache.coldList cache.heap cache.nextAddr entry
  ({ cache with coldList := r.1, heap := r.2.1, nextAddr := cache.nextAddr + 1 },
   { entry with node := some r.2.2 })

/-- The method `removeFromHotList`. -/
def LRUKCache.removeFromHotList (cache : LRUKCache) (entry : PageEntry) :
    LRUKCache × PageEntry :=
  match entry.node with
  | none => (cache, entry)
  | some addr =>
      let r := listUnlink cache.hotList cache.heap addr
      ({ cache with hotList := r.1, heap := r.2 }, { entry with node := none })

/-- The method `removeFromColdList`. -/
def LRUKCache.removeFromColdList (cache : LRUKCache) (entry : PageEntry) :
    LRUKCache × PageEntry :=
  match entry.node with
  | none => (cache, entry)
  | some addr =>
      let r := listUnlink cache.coldList cache.heap addr
      ({ cache with coldList := r.1, heap := r.2 }, { entry with node := none })

/-- The method `moveToHotList`. -/
def LRUKCache.moveToHotList (cache : LRUKCache) (entry : PageEntry) : LRUKCache × PageEntry :=
  let r := if entry.node ≠ none then cache.removeFromColdList entry else (cache, entry)
  let r := r.1.addToHotList r.2
  (r.1, { r.2 with isInHotList := true })

/-- The method `updatePosition`. -/
def LRUKCache.updatePosition (cache : LRUKCache) (entry : PageEntry) : LRUKCache × PageEntry :=
  if entry.node = none then (cache, entry)
  else if entry.isInHotList then
    let r := cache.removeFromHotList entry
    r.1.addToHotList r.2
  else
    let r := cache.removeFromColdList entry
    r.1.addToColdList r.2

/-- The entry `Access` works on: the stored one, or a new one (then
`CurrentSize` is incremented). -/
def LRUKCache.entryFor (cache : LRUKCache) (pageID : Nat) (now : Nat) : LRUKCache × PageEntry :=
  match mapGet cache.pageEntries pageID with
  | some e => (cache, e)
  | none =>
      ({ cache with currentSize := cache.currentSize + 1 },
       { pageID := pageID, accessCount := 0, lastAccess := now, isInHotList := false,
         node := none })

/-- The three `if` statements of `Access` that put the entry in a list. -/
def LRUKCache.place (cache : LRUKCache) (entry : PageEntry) (shouldBeInHotList : Bool) :
    LRUKCache × PageEntry :=
  if shouldBeInHotList && !entry.isInHotList then cache.moveToHotList entry
  else if entry.node ≠ none then cache.updatePosition entry
  else if shouldBeInHotList then cache.addToHotList entry
  else cache.addToColdList entry

/-- The body of `Access` after the call of `updateAccessHistory`. -/
def LRUKCache.accessEntry (cache : LRUKCache) (pageID : Nat) (now : Nat) : LRUKCache :=
  let r := cache.entryFor pageID now
  let entry := { r.2 with accessCount := r.2.accessCount + 1, lastAccess := now }
  let shouldBeInHotList : Bool := decide (entry.accessCount ≥ r.1.K)
  let r := r.1.place entry shouldBeInHotList
  { r.1 with pageEntries := mapSet r.1.pageEntries pageID r.2 }

/-- The method `Access`. -/
def LRUKCache.Access (cache : LRUKCache) (pageID : Nat) (now : Nat) : Res LRUKCache := do
  let cache ← cache.updateAccessHistory pageID now
  pure (cache.accessEntry pageID now)

/-- The method `Evict`: the cache after the call and the returned flag. -/
def LRUKCache.Evict (cache : LRUKCache) (pageID : Nat) : LRUKCache × Bool :=
  match mapGet cache.pageEntries pageID with
  | none => (cache, false)
  | some entry =>
      let r :=
        if entry.isInHotList then cache.removeFromHotList entry
        else cache.removeFromColdList entry
      ({ r.1 with pageEntries := mapDel r.1.pageEntries pageID,
                  accessHistory := mapDel r.1.accessHistory pageID,
                  currentSize := r.1.currentSize - 1 }, true)

/-- The loop `for current != nil` of `GetVictim`: the first page from
`current` along the `Next` pointers that is not pinned, `none` when the loop
ends at `nil`. Every allocated node is visited at most once unless the list is
cyclic, so a walk that outlasts `fuel` = number of allocated nodes never ends. -/
def victimWalk (heap : Nat → Node) (checkPinStatus : Nat → Bool) :
    Nat → Option Nat → Res (Option Nat)
  | _, none => .ok none
  | 0, some _ => .diverge
  | fuel + 1, some a =>
      if !checkPinStatus (heap a).pageID then .ok (some (heap a).pageID)
      else victimWalk heap checkPinStatus fuel (heap a).next

/-- One of the two searches of `GetVictim`: `if list.Size > 0` walk from
`list.Tail`. -/
def listVictim (list : LRUList) (heap : Nat → Node) (checkPinStatus : Nat → Bool) (fuel : Nat) :
    Res (Option Nat) :=
  if list.size > 0 then victimWalk heap checkPinStatus fuel list.tail else .ok none

/-- The method `GetVictim`; a nil `checkPinStatus` is `none`, the empty
`PageID` is 0. -/
def LRUKCache.GetVictim (cache : LRUKCache) (checkPinStatus : Option (Nat → Bool)) : Res Nat :=
  match checkPinStatus with
  | none =>
      if cache.coldList.size > 0 then
        match cache.coldList.tail with
        | some a => .ok (cache.heap a).pageID
        | none => .panic
      else if cache.hotList.size > 0 then
        match cache.hotList.tail with
        | some a => .ok (cache.heap a).pageID
        | none => .panic
      else .ok 0
  | some pinned => do
      let found ← listVictim cache.coldList cache.heap pinned cache.nextAddr
      match found with
      | some pageID => pure pageID
      | none =>
          let found ← listVictim cache.hotList cache.heap pinned cache.nextAddr
          match found with
          | some pageID => pure pageID
          | none => pure 0

/-! ## Well-formed LRU-K states -/

/-- Two consecutive nodes of a list: `x.Next = y` and `y.Prev = x`. -/
def Linked (heap : Nat → Node) (x y : Nat) : Prop :=
  (heap x).next = some y ∧ (heap y).prev = some x

/-- The nodes at `addrs`, in this order from `Tail` to `Head`, form the
doubly-linked list `list`: consecutive nodes are linked both ways, the first
has no `Prev`, the last no `Next`, `Tail` and `Head` point to the first and the
last, and `Size` is the number of nodes. -/
structure IsDLL (heap : Nat → Node) (list : LRUList) (addrs : List Nat) : Prop where
  chain : List.Chain' (Linked heap) addrs
  first_prev : ∀ a, addrs.head? = some a → (heap a).prev = none
  last_next : ∀ a, addrs.getLast? = some a → (heap a).next = none
  tail_eq : list.tail = addrs.head?
  head_eq : list.head = addrs.getLast?
  size_eq : list.size = (addrs.length : Int)

/-- The list part of the invariant of the LRU-K replacer: `cold` and `hot` are
the nodes of the two lists from tail to head, no node is in both or twice, and
every node has been allocated. -/
structure LRUKCache.ListsInv (c : LRUKCache) (cold hot : List Nat) : Prop where
  cold_dll : IsDLL c.heap c.coldList cold
  hot_dll : IsDLL c.heap c.hotList hot
  nodup : (cold ++ hot).Nodup
  alloc : ∀ a ∈ cold ++ hot, a < c.nextAddr

/-- The part of the invariant that relates `PageEntries` and the lists: every
entry has its node in the list named by its `IsInHotList` flag, every node
belongs to an entry, and `CurrentSize = len(PageEntries)` is the number of
nodes. -/
structure LRUKCache.EntriesInv (c : LRUKCache) (cold hot : List Nat) : Prop where
  lists : c.ListsInv cold hot
  keys_nodup : (mapKeys c.pageEntries).Nodup
  entry_node : ∀ pid e, mapGet c.pageEntries pid = some e →
    e.pageID = pid ∧ ∃ a, e.node = some a ∧ (c.heap a).pageID = pid ∧
      (if e.isInHotList then a ∈ hot else a ∈ cold)
  node_entry : ∀ a ∈ cold ++ hot,
    ∃ e, mapGet c.pageEntries (c.heap a).pageID = some e ∧ e.node = some a
  size_eq : c.currentSize = mapLen c.pageEntries
  count_eq : mapLen c.pageEntries = (cold.length : Int) + (hot.length : Int)

/-- The invariant of the LRU-K replacer: `EntriesInv`, and `AccessHistory` has
the keys of `PageEntries`. -/
structure LRUKCache.Inv (c : LRUKCache) (cold hot : List Nat) : Prop where
  entries : c.EntriesInv cold hot
  hist_nodup : (mapKeys c.accessHistory).Nodup
  hist_keys : ∀ pid, (mapGet c.accessHistory pid).isSome = (mapGet c.pageEntries pid).isSome

/-- The access counters of the entries agree with the counters `cnt`: a tracked
page has `AccessCount = cnt p >= 1` and is flagged hot exactly when
`AccessCount >= K`; an untracked page has `cnt p = 0`. -/
def LRUKCache.CountInv (c : LRUKCache) (cnt : Nat → Nat) : Prop :=
  ∀ p, match mapGet c.pageEntries p with
    | some e => e.accessCount = (cnt p : Int) ∧ 1 ≤ cnt p ∧
        (e.isInHotList = true ↔ c.K ≤ e.accessCount)
    | none => cnt p = 0

/-- A call of the replacer: `Access(pageID)` at time `now`, or `Evict(pageID)`. -/
inductive LRUOp where
  | access (pageID : Nat) (now : Nat)
  | evict (pageID : Nat)
  deriving DecidableEq, Repr

/-- The cache after one call. -/
def LRUKCache.apply (c : LRUKCache) : LRUOp → Res LRUKCache
  | .access pageID now => c.Access pageID now
  | .evict pageID => .ok (c.Evict pageID).1

/-- The cache after a sequence of calls. -/
def LRUKCache.run (c : LRUKCache) : List LRUOp → Res LRUKCache
  | [] => .ok c
  | op :: ops => do
      let c ← c.apply op
      c.run ops

/-- One call applied to the per-page counters "number of `Access` calls since
the page was last evicted". -/
def countStep (cnt : Nat → Nat) : LRUOp → Nat → Nat
  | .access q _ => fun p => if p = q then cnt p + 1 else cnt p
  | .evict q => fun p => if p = q then 0 else cnt p

/-- The number of `Access(p)` calls in `ops` since the last `Evict(p)` (since
the start when there is none). -/
def accessesSince (ops : List LRUOp) (p : Nat) : Nat :=
  (ops.foldl countStep (fun _ => 0)) p

/-- The page ids of the nodes at `addrs`. -/
def pagesOf (heap : Nat → Node) (addrs : List Nat) : List Nat := addrs.map fun a => (heap a).pageID

/-- The victim `GetVictim` is specified to return: the first unpinned page of
the cold list from its tail, else of the hot list from its tail, else the empty
`PageID`. -/
def victimSpec (pinned : Nat → Bool) (coldPages hotPages : List Nat) : Nat :=
  match coldPages.find? (fun p => !pinned p) with
  | some p => p
  | none =>
      match hotPages.find? (fun p => !pinned p) with
      | some p => p
      | none => 0

/-- The fields of the cache that the list methods do not touch are equal. -/
structure LRUKCache.SameMaps (c c' : LRUKCache) : Prop where
  K_eq : c'.K = c.K
  entries_eq : c'.pageEntries = c.pageEntries
  history_eq : c'.accessHistory = c.accessHistory
  maxSize_eq : c'.maxSize = c.maxSize
  size_eq : c'.currentSize = c.currentSize

/-- A node list without the node at `o`, if there is one. -/
def eraseNode (o : Option Nat) (l : List Nat) : List Nat :=
  match o with
  | some a => l.erase a
  | none => l

/-- The node lists after `Access(p)`: the old node of `p`, if any, leaves its
list and a new node is the head of the list `p` now belongs to (the hot list
when it was hot or its access count reaches `K`). -/
def accessLists (c : LRUKCache) (p : Nat) (cold hot : List Nat) : List Nat × List Nat :=
  let old := mapGet c.pageEntries p
  let count : Int := (match old with | some e => e.accessCount | none => 0) + 1
  let nowHot : Bool := (match old with | some e => e.isInHotList | none => false) ||
    decide (count ≥ c.K)
  let oldNode := old.bind (fun e => e.node)
  (eraseNode oldNode cold ++ (if nowHot then [] else [c.nextAddr]),
   eraseNode oldNode hot ++ (if nowHot then [c.nextAddr] else []))

/-- The node lists after `Evict(p)`: the node of `p`, if any, leaves its list. -/
def evictLists (c : LRUKCache) (p : Nat) (cold hot : List Nat) : List Nat × List Nat :=
  match (mapGet c.pageEntries p).bind (fun e => e.node) with
  | some a => (cold.erase a, hot.erase a)
  | none => (cold, hot)

/-- The field `LastAccess` of the entry of page `p` (0 for an untracked page). -/
def LRUKCache.lastAccessOf (c : LRUKCache) (p : Nat) : Nat :=
  match mapGet c.pageEntries p with
  | some e => e.lastAccess
  | none => 0

/-- The clock does not run backwards: the `Access` calls of `ops` happen at
times that do not decrease, none before `t`. -/
def ClockOrdered : Nat → List LRUOp → Prop
  | _, [] => True
  | t, .access _ now :: ops => t ≤ now ∧ ClockOrdered now ops
  | t, .evict _ :: ops => ClockOrdered t ops

/-- The nodes at `addrs` are in the order of the last access to their pages,
the least recently accessed first. -/
def LRUKCache.ByLastAccess (c : LRUKCache) (addrs : List Nat) : Prop :=
  addrs.Pairwise fun a b =>
    c.lastAccessOf (c.heap a).pageID ≤ c.lastAccessOf (c.heap b).pageID

/-- Both lists are in the order of last access from tail to head, and no page
has been accessed after `t`. -/
structure LRUKCache.RecencyInv (c : LRUKCache) (cold hot : List Nat) (t : Nat) : Prop where
  bound : ∀ p, c.lastAccessOf p ≤ t
  cold_sorted : c.ByLastAccess cold
  hot_sorted : c.ByLastAccess hot

/-! ## Example call sequences of the replacer -/

/-- The state after `ops` on `NewLRUKCache(K, maxSize)` (the new cache itself
when a call panics). -/
def stateAfter (K maxSize : Int) (ops : List LRUOp) : LRUKCache :=
  match (NewLRUKCache K maxSize).run ops with
  | .ok c => c
  | _ => NewLRUKCache K maxSize

/-- The calls `Access(1); Access(1); Access(2)` at times 0, 1, 2. -/
def lruOps : List LRUOp := [.access 1 0, .access 1 1, .access 2 2]

/-- Page 1 accessed twice, pages 2, 3 and 4 once, and page 5 accessed and
evicted. -/
def lruVictimOps : List LRUOp :=
  [.access 1 0, .access 5 1, .access 1 2, .access 2 3, .access 3 4, .evict 5, .access 4 5]

/-! ## `internal/buffer_bool/buffer_pool.go`

The pool calls the disk manager through its interface; the answers the disk
manager gives during one call of the pool are the argument `disk`. The fields
`MetaInfo`, `TableList`, `DiskManager` and `DiskScheduler` are not read by the
methods embedded here and are left out. `time.Now()` is the argument `now`.
As in the replacer, the `int` counters are unbounded integers. -/

/-- The struct `Page` of `models.go`. -/
structure Page where
  header : PageHeader
  slots : List PageSlot
  rows : List Row
  columns : List ColumnInfo
  deriving DecidableEq, Repr

/-- The struct `BufferFrame`. -/
structure BufferFrame where
  pageID : Nat
  tableName : String
  page : Page
  isDirty : Bool
  isPinned : Bool
  lastAccessed : Nat
  pinCount : Int
  deriving DecidableEq, Repr

/-- The results of the `DiskManager` methods the pool calls. -/
structure Disk where
  readPage : String → Nat → Res Page
  writePage : String → Nat → Page → Res Page
  addNewPage : String → Nat → Res Page

/-- The struct `BufferPool`. -/
structure BufferPool where
  pages : GoMap BufferFrame
  maxSize : Int
  lruKCache : LRUKCache
  dirtyPages : GoMap Bool
  pinCounts : GoMap Int

/-- The function `NewBufferPool` (when `CreateDataBase` and the reading of the
catalog succeed). -/
def NewBufferPool (maxSize k : Int) : BufferPool :=
  { pages := [], maxSize := maxSize, lruKCache := NewLRUKCache k maxSize,
    dirtyPages := [], pinCounts := [] }

/-- The expression `bp.PinCounts[pageID]`: 0 for a missing key. -/
def BufferPool.pinCountOf (bp : BufferPool) (pageID : Nat) : Int :=
  (mapGet bp.pinCounts pageID).getD 0

/-- The write-back of `evictPage`: `if frame.IsDirty` the page is written; the
result is the error to return, `none` when there is none. -/
def writeBack (disk : Disk) (frame : BufferFrame) (victimPageID : Nat) : Res (Option String) :=
  if frame.isDirty then
    match disk.writePage frame.tableName victimPageID frame.page with
    | .ok _ => .ok none
    | .error e => .ok (some ("failed to write dirty page: " ++ e))
    | .panic => .panic
    | .diverge => .diverge
  else .ok none

/-- The method `evictPage`: the pool after the call and the returned error
(`none` for `nil`). -/
def BufferPool.evictPage (bp : BufferPool) (disk : Disk) : Res (BufferPool × Option String) := do
  let checkPinStatus := fun (pageID : Nat) => decide (bp.pinCountOf pageID > 0)
  let victimPageID ← bp.lruKCache.GetVictim (some checkPinStatus)
  if victimPageID = 0 then
    pure (bp, some "no evictable pages found (all pages are pinned)")
  else
    match mapGet bp.pages victimPageID with
    | none => pure (bp, some "victim page not found in buffer pool")
    | some frame => do
        let err ← writeBack disk frame victimPageID
        match err with
        | some e => pure (bp, some e)
        | none =>
            pure ({ bp with pages := mapDel bp.pages victimPageID,
                            dirtyPages := mapDel bp.dirtyPages victimPageID,
                            pinCounts := mapDel bp.pinCounts victimPageID,
                            lruKCache := (bp.lruKCache.Evict victimPageID).1 }, none)

/-- The statement `if len(bp.Pages) >= bp.MaxSize` of `GetPage` and
`AddNewPage`: a full pool evicts a page. -/
def BufferPool.evictIfFull (bp : BufferPool) (disk : Disk) : Res (BufferPool × Option String) :=
  if mapLen bp.pages ≥ bp.maxSize then bp.evictPage disk else .ok (bp, none)

/-- The method `GetPage`: the pool after the call and the returned frame or error. -/
def BufferPool.GetPage (bp : BufferPool) (disk : Disk) (tableName : String) (pageID : Nat)
    (now : Nat) : Res (BufferPool × Res BufferFrame) :=
  match mapGet bp.pages pageID with
  | some frame => do
      let lru ← bp.lruKCache.Access pageID now
      let frame := { frame with lastAccessed := now, pinCount := frame.pinCount + 1,
                                isPinned := true }
      pure ({ bp with lruKCache := lru, pages := mapSet bp.pages pageID frame,
                      pinCounts := mapSet bp.pinCounts pageID (bp.pinCountOf pageID + 1) },
            .ok frame)
  | none => do
      let (bp, err) ← bp.evictIfFull disk
      match err with
      | some e => pure (bp, .error e)
      | none =>
          match disk.readPage tableName pageID with
          | .error e => pure (bp, .error ("failed to read page from disk: " ++ e))
          | .panic => .panic
          | .diverge => .diverge
          | .ok page => do
              let frame : BufferFrame :=
                { pageID := pageID, tableName := tableName, page := page, isDirty := false,
                  isPinned := true, lastAccessed := now, pinCount := 1 }
              let bp := { bp with pages := mapSet bp.pages pageID frame,
                                  pinCounts := mapSet bp.pinCounts pageID 1 }
              let lru ← bp.lruKCache.Access pageID now
              pure ({ bp with lruKCache := lru }, .ok frame)

/-- The method `MarkDirty`. -/
def BufferPool.MarkDirty (bp : BufferPool) (_tableName : String) (pageID : Nat) : BufferPool :=
  match mapGet bp.pages pageID with
  | some frame =>
      { bp with pages := mapSet bp.pages pageID { frame with isDirty := true },
                dirtyPages := mapSet bp.dirtyPages pageID true }
  | none => bp

/-- The method `Unpin`. -/
def BufferPool.Unpin (bp : BufferPool) (_tableName : String) (pageID : Nat) : BufferPool :=
  match mapGet bp.pages pageID with
  | some frame =>
      let frame := { frame with pinCount := frame.pinCount - 1 }
      let pinCounts := mapSet bp.pinCounts pageID (bp.pinCountOf pageID - 1)
      if frame.pinCount ≤ 0 then
        { bp with pages := mapSet bp.pages pageID { frame with isPinned := false },
                  pinCounts := mapSet pinCounts pageID 0 }
      else
        { bp with pages := mapSet bp.pages pageID frame, pinCounts := pinCounts }
  | none => bp

/-- The method `AddNewPage`: the pool after the call and the returned frame or error. -/
def BufferPool.AddNewPage (bp : BufferPool) (disk : Disk) (tableName : String) (pageID : Nat)
    (now : Nat) : Res (BufferPool × Res BufferFrame) :=
  match disk.addNewPage tableName pageID with
  | .error e => pure (bp, .error e)
  | .panic => .panic
  | .diverge => .diverge
  | .ok page => do
      let (bp, err) ← bp.evictIfFull disk
      match err with
      | some e => pure (bp, .error e)
      | none => do
          let frame : BufferFrame :=
            { pageID := pageID, tableName := tableName, page := page, isDirty := false,
              isPinned := true, lastAccessed := now, pinCount := 1 }
          let bp := { bp with pages := mapSet bp.pages pageID frame,
                              pinCounts := mapSet bp.pinCounts pageID 1,
                              dirtyPages := mapSet bp.dirtyPages pageID false }
          let lru ← bp.lruKCache.Access pageID now
          pure ({ bp with lruKCache := lru }, .ok frame)

/-- One iteration of the write loop of `flushDirtyPages`. -/
def BufferPool.flushOne (disk : Disk) (bp : BufferPool) (pageID : Nat) : Res BufferPool :=
  match mapGet bp.pages pageID with
  | none => pure bp
  | some frame =>
      match disk.writePage frame.tableName pageID frame.page with
      | .ok _ =>
          pure { bp with pages := mapSet bp.pages pageID { frame with isDirty := false },
                         dirtyPages := mapDel bp.dirtyPages pageID }
      | .error _ => pure bp
      | .panic => .panic
      | .diverge => .diverge

/-- The method `flushDirtyPages`; the keys of `DirtyPages` are visited in the
order of the map's entries. -/
def BufferPool.flushDirtyPages (bp : BufferPool) (disk : Disk) : Res BufferPool :=
  (mapKeys bp.dirtyPages).foldlM (BufferPool.flushOne disk) bp

/-- A call on the pool, with the answers of the disk manager during the call. -/
inductive BPOp where
  | getPage (disk : Disk) (tableName : String) (pageID : Nat) (now : Nat)
  | addNewPage (disk : Disk) (tableName : String) (pageID : Nat) (now : Nat)
  | markDirty (tableName : String) (pageID : Nat)
  | unpin (tableName : String) (pageID : Nat)
  | evictPage (disk : Disk)
  | flushDirtyPages (disk : Disk)

/-- The pool after one call (the returned frame or error is dropped). -/
def BufferPool.apply (bp : BufferPool) : BPOp → Res BufferPool
  | .getPage disk tableName pageID now => do
      let r ← bp.GetPage disk tableName pageID now
      pure r.1
  | .addNewPage disk tableName pageID now => do
      let r ← bp.AddNewPage disk tableName pageID now
      pure r.1
  | .markDirty tableName pageID => pure (bp.MarkDirty tableName pageID)
  | .unpin tableName pageID => pure (bp.Unpin tableName pageID)
  | .evictPage disk => do
      let r ← bp.evictPage disk
      pure r.1
  | .flushDirtyPages disk => bp.flushDirtyPages disk

/-- The pool after a sequence of calls. -/
def BufferPool.run (bp : BufferPool) : List BPOp → Res BufferPool
  | [] => .ok bp
  | op :: ops => do
      let bp ← bp.apply op
      bp.run ops

/-- The shadow counter is never below the pin count of the resident frame. -/
def BufferPool.PinInv (bp : BufferPool) : Prop :=
  ∀ pageID frame, mapGet bp.pages pageID = some frame → frame.pinCount ≤ bp.pinCountOf pageID

/-- The empty page `diskManager.AddNewPage` returns for page id `pageID`. -/
def emptyPage (pageID : Nat) : Page :=
  { header := newPageHeader pageID, slots := [], rows := [], columns := [] }

/-- A disk manager on which every call succeeds and every page is empty. -/
def healthyDisk : Disk :=
  { readPage := fun _ pageID => .ok (emptyPage pageID),
    writePage := fun _ _ page => .ok page,
    addNewPage := fun _ pageID => .ok (emptyPage pageID) }

/-- The invariant of the frame table used for the pin and capacity properties: one
frame per page id, at most `MaxSize` frames (none for a negative `MaxSize`),
and `PinInv`. -/
structure BufferPool.Inv (bp : BufferPool) (maxSize : Int) : Prop where
  keys_nodup : (mapKeys bp.pages).Nodup
  len_le : mapLen bp.pages ≤ max bp.maxSize 0
  max_eq : bp.maxSize = maxSize
  pin : bp.PinInv

/-- The calls of the pin scenario: page 1 is added (pinned once) and unpinned. -/
def pinScenario : List BPOp :=
  [.addNewPage healthyDisk "t" 1 0, .unpin "t" 1]

/-- The pool of capacity 1 (K = 2) after `pinScenario`. -/
def poolBeforeEvict : BufferPool :=
  match (NewBufferPool 1 2).run pinScenario with
  | .ok bp => bp
  | _ => NewBufferPool 1 2

/-- The pool `poolBeforeEvict` after `evictPage`. -/
def poolAfterEvict : BufferPool :=
  match poolBeforeEvict.evictPage healthyDisk with
  | .ok (bp, _) => bp
  | _ => poolBeforeEvict

/-- The pin count and pinned flag of the frame of page `pageID` after the calls
`ops` on a new pool of capacity 5 with K = 2. -/
def pinStateAfter (ops : List BPOp) (pageID : Nat) : Option (Int × Bool) :=
  match (NewBufferPool 5 2).run ops with
  | .ok bp => (mapGet bp.pages pageID).map fun f => (f.pinCount, f.isPinned)
  | _ => none

/-! ## Go strings and 64-bit fields -/

/-- The UTF-8 encoding of the code point `c`. -/
def utf8Bytes (c : Nat) : List Byte :=
  if c < 128 then [toByte c]
  else if c < 2048 then [toByte (192 + c / 64), toByte (128 + c % 64)]
  else if c < 65536 then
    [toByte (224 + c / 4096), toByte (128 + c / 64 % 64), toByte (128 + c % 64)]
  else
    [toByte (240 + c / 262144), toByte (128 + c / 4096 % 64), toByte (128 + c / 64 % 64),
      toByte (128 + c % 64)]

/-- The bytes of the Go string holding the text `s`: `[]byte(s)`, and `len(s)`
is their number. -/
def goBytes (s : String) : List Byte := s.data.flatMap fun c => utf8Bytes c.toNat

/-- The eight bytes `binary.BigEndian.PutUint64` writes. -/
def beBytes64 (v : Nat) : List Byte := beBytes (v / 4294967296) ++ beBytes v

/-- The value `binary.BigEndian.Uint64` reads from the first eight bytes. -/
def beVal64 (bs : List Byte) : Nat := beVal bs * 4294967296 + beVal (bs.drop 4)

/-- The call `binary.BigEndian.Uint64(s)`: panics when `len(s) < 8`. -/
def Slice.uint64 (s : Slice) : Res Nat :=
  if 8 ≤ s.len then .ok (beVal64 s.bytes) else .panic

/-- The statement `binary.BigEndian.PutUint64(buf[lo:hi], v)`. -/
def putUint64 (buf : List Byte) (lo hi : Nat) (v : Nat) : Res (List Byte) :=
  if lo ≤ hi ∧ hi ≤ buf.length then
    if 8 ≤ hi - lo then .ok (writeAt buf lo (beBytes64 v)) else .panic
  else .panic

/-! ## `consts.go`: paths, magic numbers, limits -/

def META_FILE_MAGIC_NUMBER : Nat := 0x9ABCDEF0
def PAGE_DIRECTORY_MAGIC_NUMBER : Nat := 0x8ABCDEF1
def TABLES_LIST_MAGIC_NUMBER : Nat := 0x7ABCDEF2
def TABLE_NAME_MAX_LENGTH : Nat := 32
def COLUMN_NAME_MAX_LENGTH : Nat := 32
def TABLE_LIST_FILE_PATH : String := "tables/list/table_list.bin"

/-- The path `fmt.Sprintf(META_FILE_PATH, tableName)`. -/
def metaFilePath (tableName : String) : String := "tables/" ++ tableName ++ ".meta"

/-- The path `fmt.Sprintf(PAGE_DIRECTORY_FILE_PATH, tableName)`. -/
def pageDirectoryFilePath (tableName : String) : String := "tables/" ++ tableName ++ ".dir"

/-! ## `data_file.go`: the header record -/

/-- The method `DataFileHeader.Serialize`. -/
def DataFileHeader.Serialize (header : DataFileHeader) : Res (List Byte) := do
  let data := makeBytes DATA_FILE_HEADER_SIZE
  let data ← putUint32 data 0 4 header.magicNumber
  let data ← putUint32 data 4 8 header.pagesCount
  let data ← putUint32 data 8 12 header.recordCount
  pure data

/-- The method `DataFileHeader.Deserialize`. -/
def DataFileHeader.Deserialize (data : Slice) : Res DataFileHeader :=
  if data.len < DATA_FILE_HEADER_SIZE then .error "insufficient data for data file header"
  else do
    let magicNumber ← (← data.reslice 0 4).uint32
    let pagesCount ← (← data.reslice 4 8).uint32
    let recordCount ← (← data.reslice 8 12).uint32
    pure { magicNumber := magicNumber, pagesCount := pagesCount, recordCount := recordCount }

/-! ## `page_directory.go`: the records -/

def PAGE_DIRECTORY_HEADER_SIZE : Nat := 12
def PAGE_DIRECTORY_ENTRY_SIZE : Nat := 12

/-- The struct `PageDirectoryHeader`. -/
structure PageDirectoryHeader where
  magicNumber : Nat
  pageCount : Nat
  nextPageID : Nat
  deriving DecidableEq, Repr

/-- The method `PageDirectoryHeader.Serialize`. -/
def PageDirectoryHeader.Serialize (header : PageDirectoryHeader) : Res (List Byte) := do
  let data := makeBytes PAGE_DIRECTORY_HEADER_SIZE
  let data ← putUint32 data 0 4 header.magicNumber
  let data ← putUint32 data 4 8 header.pageCount
  let data ← putUint32 data 8 12 header.nextPageID
  pure data

/-- The method `PageDirectoryHeader.Deserialize`. -/
def PageDirectoryHeader.Deserialize (data : Slice) : Res PageDirectoryHeader :=
  if data.len < PAGE_DIRECTORY_HEADER_SIZE then
    .error "insufficient data for page directory header"
  else do
    let magicNumber ← (← data.reslice 0 4).uint32
    let pageCount ← (← data.reslice 4 8).uint32
    let nextPageID ← (← data.reslice 8 12).uint32
    pure { magicNumber := magicNumber, pageCount := pageCount, nextPageID := nextPageID }

/-- The struct `PageDirectoryEntry`. -/
structure PageDirectoryEntry where
  pageID : Nat
  freeSpace : Nat
  flags : Nat
  deriving DecidableEq, Repr

/-- The method `PageDirectoryEntry.Serialize`. -/
def PageDirectoryEntry.Serialize (entry : PageDirectoryEntry) : Res (List Byte) := do
  let data := makeBytes PAGE_DIRECTORY_ENTRY_SIZE
  let data ← putUint32 data 0 4 entry.pageID
  let data ← putUint32 data 4 8 entry.freeSpace
  let data ← putUint32 data 8 12 entry.flags
  pure data

/-- The method `PageDirectoryEntry.Deserialize`. -/
def PageDirectoryEntry.Deserialize (data : Slice) : Res PageDirectoryEntry :=
  if data.len < PAGE_DIRECTORY_ENTRY_SIZE then
    .error "insufficient data for page directory entry"
  else do
    let pageID ← (← data.reslice 0 4).uint32
    let freeSpace ← (← data.reslice 4 8).uint32
    let flags ← (← data.reslice 8 12).uint32
    pure { pageID := pageID, freeSpace := freeSpace, flags := flags }

/-- The struct `PageDirectory`. -/
structure PageDirectory where
  tableName : String
  header : PageDirectoryHeader
  entries : List PageDirectoryEntry
  deriving DecidableEq, Repr

/-! ## `meta.go`: the records -/

def META_FILE_HEADER_SIZE : Nat := 52
def COLUMN_INFO_SIZE : Nat := 56

/-- The struct `MetaDataHeader`; the Go string `TableName` is kept by its bytes. -/
structure MetaDataHeader where
  magicNumber : Nat
  tableNameLen : Nat
  columnCount : Nat
  tableName : List Byte
  nextRowID : Nat
  deriving DecidableEq, Repr

/-- The function `newMetaFileHeader`. -/
def newMetaFileHeader (tableName : List Byte) (columnCount : Nat) : MetaDataHeader :=
  let tableName :=
    if tableName.length > TABLE_NAME_MAX_LENGTH then tableName.take TABLE_NAME_MAX_LENGTH
    else tableName
  { magicNumber := META_FILE_MAGIC_NUMBER, tableNameLen := u32 tableName.length,
    columnCount := columnCount, nextRowID := 0, tableName := tableName }

/-- The method `MetaDataHeader.Serialize`. -/
def MetaDataHeader.Serialize (meta : MetaDataHeader) : Res (List Byte) := do
  let data := makeBytes META_FILE_HEADER_SIZE
  let data ← putUint32 data 0 4 meta.magicNumber
  let data ← putUint32 data 4 8 meta.tableNameLen
  let data ← putUint32 data 8 12 meta.columnCount
  let tableNameBytes := meta.tableName
  let data ← copyInto data 12 (12 + tableNameBytes.length) tableNameBytes
  let data ← putUint64 data (12 + TABLE_NAME_MAX_LENGTH) (12 + TABLE_NAME_MAX_LENGTH + 8)
    meta.nextRowID
  pure data

/-- The method `MetaDataHeader.Deserialize`. -/
def MetaDataHeader.Deserialize (data : Slice) : Res MetaDataHeader :=
  if data.len < META_FILE_HEADER_SIZE then .error "insufficient data for meta file header"
  else do
    let magicNumber ← (← data.reslice 0 4).uint32
    let tableNameLen ← (← data.reslice 4 8).uint32
    let columnCount ← (← data.reslice 8 12).uint32
    let nextRowID ← (← data.reslice (12 + TABLE_NAME_MAX_LENGTH)
      (12 + TABLE_NAME_MAX_LENGTH + 8)).uint64
    let tableNameBytes ← data.reslice 12 (u32 (12 + tableNameLen))
    pure { magicNumber := magicNumber, tableNameLen := tableNameLen,
           columnCount := columnCount, nextRowID := nextRowID,
           tableName := tableNameBytes.bytes }

/-- The method `ColumnInfo.Serialize`. -/
def ColumnInfo.Serialize (column : ColumnInfo) : Res (List Byte) := do
  let data := makeBytes COLUMN_INFO_SIZE
  let actualLength := u32 column.columnName.length
  let actualLength :=
    if actualLength > COLUMN_NAME_MAX_LENGTH then COLUMN_NAME_MAX_LENGTH else actualLength
  let data ← putUint32 data 0 4 actualLength
  let data ← putUint32 data 4 8 column.dataType
  let data ← putUint32 data 8 12 column.isNullable
  let data ← putUint32 data 12 16 column.isPrimaryKey
  let data ← putUint32 data 16 20 column.isAutoIncrement
  let data ← putUint32 data 20 24 column.defaultValue
  let columnNameBytes := column.columnName
  let columnNameBytes :=
    if columnNameBytes.length > COLUMN_NAME_MAX_LENGTH then
      columnNameBytes.take COLUMN_NAME_MAX_LENGTH
    else columnNameBytes
  let copyLength := columnNameBytes.length
  let copyLength := if copyLength > COLUMN_NAME_MAX_LENGTH then COLUMN_NAME_MAX_LENGTH
    else copyLength
  let copyLength := if 24 + copyLength > COLUMN_INFO_SIZE then COLUMN_INFO_SIZE - 24
    else copyLength
  let data ← copyInto data 24 (24 + copyLength) columnNameBytes
  pure data

/-- The method `ColumnInfo.Deserialize`. -/
def ColumnInfo.Deserialize (data : Slice) : Res ColumnInfo :=
  if data.len < COLUMN_INFO_SIZE then .error "insufficient data for column info"
  else do
    let columnNameLength ← (← data.reslice 0 4).uint32
    let dataType ← (← data.reslice 4 8).uint32
    let isNullable ← (← data.reslice 8 12).uint32
    let isPrimaryKey ← (← data.reslice 12 16).uint32
    let isAutoIncrement ← (← data.reslice 16 20).uint32
    let defaultValue ← (← data.reslice 20 24).uint32
    let columnNameBytes ← data.reslice 24 (u32 (24 + columnNameLength))
    pure { columnNameLength := columnNameLength, dataType := dataType,
           isNullable := isNullable, isPrimaryKey := isPrimaryKey,
           isAutoIncrement := isAutoIncrement, defaultValue := defaultValue,
           columnName := columnNameBytes.bytes }

/-- The struct `MetaData`. -/
structure MetaData where
  header : MetaDataHeader
  columns : List ColumnInfo
  deriving DecidableEq, Repr

/-! ## `internal/disk_manager/table_list.go` -/

def TABLES_LIST_HEADER_SIZE : Nat := 4
def TABLES_LIST_ENTRY_SIZE : Nat := 40

/-- The struct `TablesListHeader`. -/
structure TablesListHeader where
  magicNumber : Nat
  deriving DecidableEq, Repr

/-- The method `TablesListHeader.Serialize`. -/
def TablesListHeader.Serialize (header : TablesListHeader) : Res (List Byte) := do
  let data := makeBytes TABLES_LIST_HEADER_SIZE
  let data ← putUint32 data 0 4 header.magicNumber
  pure data

/-- The method `TablesListHeader.Deserialize`. -/
def TablesListHeader.Deserialize (data : Slice) : Res TablesListHeader :=
  if data.len < TABLES_LIST_HEADER_SIZE then .error "insufficient data for tables list header"
  else do
    let magicNumber ← (← data.reslice 0 4).uint32
    pure { magicNumber := magicNumber }

/-- The struct `TableEntry`; `tableName` holds the 32 bytes of the array
`TableName`, `fileID` the field of the struct `FileID`. -/
structure TableEntry where
  tableNameLength : Nat
  tableName : List Byte
  fileID : Nat
  deriving DecidableEq, Repr

/-- The contents of `dst` after `copy(dst, src)`: the first
`min (len dst) (len src)` bytes are those of `src`. -/
def goCopy (dst src : List Byte) : List Byte := src.take dst.length ++ dst.drop src.length

/-- The statements `var a [32]byte; copy(a[:], src)`: the first 32 bytes of
`src`, padded with zero bytes. -/
def nameArray (src : List Byte) : List Byte := goCopy (makeBytes TABLE_NAME_MAX_LENGTH) src

/-- The method `TableEntry.Serialize`; the slice expression
`entry.TableName[:entry.TableNameLength]` panics beyond the 32 bytes of the array. -/
def TableEntry.Serialize (entry : TableEntry) : Res (List Byte) := do
  let data := makeBytes TABLES_LIST_ENTRY_SIZE
  let data ← putUint32 data 0 4 entry.tableNameLength
  let name ← sliceList entry.tableName 0 entry.tableNameLength
  let data ← copyInto data 4 (u32 (4 + entry.tableNameLength)) name
  let data ← putUint32 data 36 40 entry.fileID
  pure data

/-- The method `TableEntry.Deserialize`. -/
def TableEntry.Deserialize (data : Slice) : Res TableEntry :=
  if data.len < TABLES_LIST_ENTRY_SIZE then .error "insufficient data for table entry"
  else do
    let tableNameLength ← (← data.reslice 0 4).uint32
    if tableNameLength > TABLE_NAME_MAX_LENGTH then .error "table name length exceeds maximum"
    else do
      let src ← data.reslice 4 (u32 (4 + tableNameLength))
      let tableNameBytes := goCopy (makeBytes tableNameLength) src.bytes
      let tableName := nameArray tableNameBytes
      let fileID ← (← data.reslice 36 40).uint32
      pure { tableNameLength := tableNameLength, tableName := tableName, fileID := fileID }

/-- A Go `map[string]FileID`: table names (byte strings) with their file id,
each name at most once; the order of the list is the order in which `range`
visits the map. -/
abbrev NameMap := List (List Byte × Nat)

/-- The expression `m[name]` with its presence flag. -/
def nameGet (m : NameMap) (name : List Byte) : Option Nat :=
  match m with
  | [] => none
  | (k, v) :: rest => if k = name then some v else nameGet rest name

/-- The map without the entry of `name`. -/
def nameDel (m : NameMap) (name : List Byte) : NameMap :=
  match m with
  | [] => []
  | (k, v) :: rest => if k = name then nameDel rest name else (k, v) :: nameDel rest name

/-- The statement `m[name] = id`. -/
def nameSet (m : NameMap) (name : List Byte) (id : Nat) : NameMap :=
  (name, id) :: nameDel m name

/-- The struct `TablesList`. -/
structure TablesList where
  header : TablesListHeader
  tables : NameMap
  deriving DecidableEq, Repr

/-- The function `NewTablesList`. -/
def NewTablesList : TablesList :=
  { header := { magicNumber := TABLES_LIST_MAGIC_NUMBER }, tables := [] }

/-- The loop `for tableName, fileID := range tl.Tables` of `TablesList.Serialize`
from byte position `offset` on. -/
def serializeEntries : List (List Byte × Nat) → Nat → List Byte → Res (List Byte)
  | [], _, data => .ok data
  | (tableName, fileID) :: rest, offset, data => do
      let tableNameBytes := nameArray tableName
      let entry : TableEntry :=
        { tableNameLength := u32 tableName.length, tableName := tableNameBytes,
          fileID := fileID }
      let data ← copyInto data offset (offset + TABLES_LIST_ENTRY_SIZE) (← entry.Serialize)
      serializeEntries rest (offset + TABLES_LIST_ENTRY_SIZE) data

/-- The method `TablesList.Serialize`. -/
def TablesList.Serialize (tl : TablesList) : Res (List Byte) := do
  let entryCount := tl.tables.length
  let data := makeBytes (TABLES_LIST_HEADER_SIZE + entryCount * TABLES_LIST_ENTRY_SIZE)
  let headerData ← tl.header.Serialize
  let data ← copyInto data 0 TABLES_LIST_HEADER_SIZE headerData
  serializeEntries tl.tables TABLES_LIST_HEADER_SIZE data

/-- The loop of `TablesList.Deserialize`: `n` entries from index `i` on are
added to `tables`. -/
def deserializeEntries (remainingData : Slice) : Nat → Nat → NameMap → Res NameMap
  | 0, _, tables => .ok tables
  | n + 1, i, tables => do
      let offset := i * TABLES_LIST_ENTRY_SIZE
      let entryData ← remainingData.reslice offset (offset + TABLES_LIST_ENTRY_SIZE)
      let entry ← (TableEntry.Deserialize entryData).wrapErr "failed to deserialize entry %d: "
      let tableName ← sliceList entry.tableName 0 entry.tableNameLength
      deserializeEntries remainingData n (i + 1) (nameSet tables tableName entry.fileID)

/-- The method `TablesList.Deserialize`; the result is the receiver after the call. -/
def TablesList.Deserialize (data : Slice) : Res TablesList :=
  if data.len < TABLES_LIST_HEADER_SIZE then .error "insufficient data for table list"
  else do
    let header ← (TablesListHeader.Deserialize (← data.reslice 0 TABLES_LIST_HEADER_SIZE)).wrapErr
      "failed to deserialize table list header: "
    if header.magicNumber ≠ TABLES_LIST_MAGIC_NUMBER then
      .error "invalid table list magic number: expected 0x%X, got 0x%X"
    else do
      let remainingData ← data.reslice TABLES_LIST_HEADER_SIZE data.len
      let entryCount := remainingData.len / TABLES_LIST_ENTRY_SIZE
      let tables ← deserializeEntries remainingData entryCount 0 []
      pure { header := header, tables := tables }

/-! ## Files

The file system is a map from paths to contents: `os.Stat` succeeds exactly for
the paths that hold a file, `os.Create`, `os.WriteFile` and the writes to an
open file succeed, and a function that only reads returns no file system. -/

/-- The call `file.Read(buf)` with `len(buf) = n > 0` on a file read so far up
to `pos`: the bytes read (fewer than `n` at the end of the file), or `io.EOF`
(`none`) when no byte is left. -/
def fileRead (file : List Byte) (pos n : Nat) : Option (List Byte) :=
  if file.length ≤ pos then none else some ((file.drop pos).take n)

/-- A call that changes files and then hands over to `k`; when the call fails
the files are as before it. -/
def thenOn {α β : Type} (fs : FS) (r : Res (FS × α)) (k : FS → α → FS × Res β) : FS × Res β :=
  match r with
  | .ok (fs', a) => k fs' a
  | .error m => (fs, .error m)
  | .panic => (fs, .panic)
  | .diverge => (fs, .diverge)

/-- A call that only reads and then hands over to `k`. -/
def thenRead {α β : Type} (fs : FS) (r : Res α) (k : α → FS × Res β) : FS × Res β :=
  match r with
  | .ok a => k a
  | .error m => (fs, .error m)
  | .panic => (fs, .panic)
  | .diverge => (fs, .diverge)

/-! ### `data_file.go` -/

/-- The function `createDataFile`. -/
def createDataFile (fs : FS) (tableName : String) : Res (FS × DataFile) :=
  match fs (dataFilePath tableName) with
  | some _ => .error "data file for table %s already exists"
  | none => do
      let header : DataFileHeader :=
        { magicNumber := DATA_FILE_MAGIC_NUMBER, pagesCount := 0, recordCount := 0 }
      let bytes ← header.Serialize
      pure (Function.update fs (dataFilePath tableName) (some bytes),
            { header := header, pages := [] })

/-- The function `readDataFileHeader`: `ReadAt` fails with `io.EOF` when the
file holds fewer than 12 bytes. -/
def readDataFileHeader (fs : FS) (tableName : String) : Res DataFile :=
  match fs (dataFilePath tableName) with
  | none => .error "data file for table %s not found"
  | some file =>
      if file.length < DATA_FILE_HEADER_SIZE then .error "failed to read data file: EOF"
      else do
        let headerBytes := Slice.ofBytes (file.take DATA_FILE_HEADER_SIZE)
        let magic ← (← headerBytes.reslice 0 4).uint32
        if magic ≠ DATA_FILE_MAGIC_NUMBER then .error "invalid magic number"
        else if headerBytes.len < DATA_FILE_HEADER_SIZE then .error "data file too small"
        else do
          let header ← (DataFileHeader.Deserialize headerBytes).wrapErr
            "failed to deserialize header: "
          pure { header := header, pages := [] }

/-- The method `DataFile.addPage`: the files and the `DataFile` after the call. -/
def DataFile.addPage (df : DataFile) (fs : FS) (tableName : String) : Res (FS × DataFile) :=
  match fs (dataFilePath tableName) with
  | none => .error "data file for table %s not found"
  | some file => do
      let header := { df.header with pagesCount := u32 (df.header.pagesCount + 1) }
      let page := newPage header.pagesCount
      let file := fileWriteAt file (pageOffset header.pagesCount) (← page.Serialize)
      let file := fileWriteAt file 0 (← header.Serialize)
      pure (Function.update fs (dataFilePath tableName) (some file),
            { df with header := header })

/-! ### `meta.go` -/

/-- The column loop of `createMetaFile`: the bytes written for the columns. -/
def serializeColumns : List ColumnInfo → Res (List Byte)
  | [] => .ok []
  | column :: rest => do
      let column := { column with columnNameLength := u32 column.columnName.length }
      let b ← column.Serialize
      let bs ← serializeColumns rest
      pure (b ++ bs)

/-- The function `createMetaFile`. -/
def createMetaFile (fs : FS) (tableName : String) (columns : List ColumnInfo) :
    Res (FS × MetaData) :=
  match fs (metaFilePath tableName) with
  | some _ => .error "table %s already exists"
  | none => do
      let header := newMetaFileHeader (goBytes tableName) (u32 columns.length)
      let headerBytes ← header.Serialize
      let columnBytes ← serializeColumns columns
      pure (Function.update fs (metaFilePath tableName) (some (headerBytes ++ columnBytes)),
            { header := header, columns := columns })

/-- The column loop of `readMetaFile`: `n` columns from index `i` on, the file
read so far up to `pos`. -/
def readColumns (file : List Byte) : Nat → Nat → Nat → Res (List ColumnInfo)
  | 0, _, _ => .ok []
  | n + 1, i, pos =>
      match fileRead file pos COLUMN_INFO_SIZE with
      | none => .error "failed to read column %d: EOF"
      | some columnBytes =>
          if columnBytes.length ≠ COLUMN_INFO_SIZE then
            .error "incomplete column %d read: got %d bytes, expected %d"
          else do
            let column ← (ColumnInfo.Deserialize (Slice.ofBytes columnBytes)).wrapErr
              "failed to deserialize column %d: "
            let rest ← readColumns file n (i + 1) (pos + COLUMN_INFO_SIZE)
            pure (column :: rest)

/-- The function `readMetaFile`. -/
def readMetaFile (fs : FS) (tableName : String) : Res MetaData :=
  match fs (metaFilePath tableName) with
  | none => .error "table %s not found"
  | some file =>
      match fileRead file 0 META_FILE_HEADER_SIZE with
      | none => .error "failed to read header: EOF"
      | some headerBytes =>
          if headerBytes.length ≠ META_FILE_HEADER_SIZE then
            .error "incomplete header read: got %d bytes, expected %d"
          else do
            let headerBytes := Slice.ofBytes headerBytes
            let magic ← (← headerBytes.reslice 0 4).uint32
            if magic ≠ META_FILE_MAGIC_NUMBER then .error "invalid magic number"
            else do
              let header ← (MetaDataHeader.Deserialize headerBytes).wrapErr
                "failed to deserialize header: "
              let columns ← readColumns file header.columnCount 0 META_FILE_HEADER_SIZE
              pure { header := header, columns := columns }

/-! ### `page_directory.go` -/

/-- The function `createPageDirectoryFile`. -/
def createPageDirectoryFile (fs : FS) (tableName : String) : Res (FS × PageDirectory) :=
  match fs (pageDirectoryFilePath tableName) with
  | some _ => .error "page directory for table %s already exists"
  | none => do
      let header : PageDirectoryHeader :=
        { magicNumber := PAGE_DIRECTORY_MAGIC_NUMBER, pageCount := 0,
          nextPageID := PAGE_INITIAL_ID }
      let bytes ← header.Serialize
      pure (Function.update fs (pageDirectoryFilePath tableName) (some bytes),
            { tableName := tableName, header := header, entries := [] })

/-- The entry loop of `readPageDirectory`: `n` entries from index `i` on, the
file read so far up to `pos`. -/
def readEntries (file : List Byte) : Nat → Nat → Nat → Res (List PageDirectoryEntry)
  | 0, _, _ => .ok []
  | n + 1, i, pos =>
      match fileRead file pos PAGE_DIRECTORY_ENTRY_SIZE with
      | none => .error "failed to read entry %d: EOF"
      | some entryBytes =>
          if entryBytes.length ≠ PAGE_DIRECTORY_ENTRY_SIZE then
            .error "incomplete entry %d read: got %d bytes, expected %d"
          else do
            let entry ← (PageDirectoryEntry.Deserialize (Slice.ofBytes entryBytes)).wrapErr
              "failed to deserialize entry %d: "
            let rest ← readEntries file n (i + 1) (pos + PAGE_DIRECTORY_ENTRY_SIZE)
            pure (entry :: rest)

/-- The function `readPageDirectory`. -/
def readPageDirectory (fs : FS) (tableName : String) : Res PageDirectory :=
  match fs (pageDirectoryFilePath tableName) with
  | none => .error "page directory for table %s not found"
  | some file =>
      match fileRead file 0 PAGE_DIRECTORY_HEADER_SIZE with
      | none => .error "failed to read header: EOF"
      | some headerBytes =>
          if headerBytes.length ≠ PAGE_DIRECTORY_HEADER_SIZE then
            .error "incomplete header read: got %d bytes, expected %d"
          else do
            let headerBytes := Slice.ofBytes headerBytes
            let magic ← (← headerBytes.reslice 0 4).uint32
            if magic ≠ PAGE_DIRECTORY_MAGIC_NUMBER then .error "invalid magic number"
            else do
              let header ← (PageDirectoryHeader.Deserialize headerBytes).wrapErr
                "failed to deserialize header: "
              let entries ← readEntries file header.pageCount 0 PAGE_DIRECTORY_HEADER_SIZE
              pure { tableName := tableName, header := header, entries := entries }

/-! ### `table_list.go` -/

/-- The function `createTableListFile`. -/
def createTableListFile (fs : FS) : Res (FS × TablesList) :=
  match fs TABLE_LIST_FILE_PATH with
  | some _ => .error "tables list file already exists"
  | none => do
      let tableList := NewTablesList
      let bytes ← tableList.header.Serialize
      pure (Function.update fs TABLE_LIST_FILE_PATH (some bytes), tableList)

/-- The function `readTableListFile`. -/
def readTableListFile (fs : FS) : Res TablesList :=
  match fs TABLE_LIST_FILE_PATH with
  | none => .error "stat tables/list/table_list.bin: no such file or directory"
  | some data =>
      (TablesList.Deserialize (Slice.ofBytes data)).wrapErr
        "failed to deserialize tables list: "

/-- The function `writeTablesListFile`. -/
def writeTablesListFile (fs : FS) (tablesList : TablesList) : Res (FS × TablesList) := do
  let data ← tablesList.Serialize
  pure (Function.update fs TABLE_LIST_FILE_PATH (some data), tablesList)

/-- The function `addTableInList`. -/
def addTableInList (fs : FS) (tableName : String) : Res (FS × TablesList) := do
  let tablesList ← (readTableListFile fs).wrapErr "failed to read tables list: "
  let nextFileID := u32 (tablesList.tables.length + 1)
  if (goBytes tableName).length > TABLE_NAME_MAX_LENGTH then
    .error "table name too long: %d bytes, maximum %d"
  else
    let tablesList :=
      { tablesList with tables := nameSet tablesList.tables (goBytes tableName) nextFileID }
    (writeTablesListFile fs tablesList).wrapErr "failed to write tables list: "

/-! ## `internal/disk_manager/disk_manager.go` -/

/-- The loop of `diskManager.ReadPage` that converts the tuples of the page. -/
def convertTuples (columns : List ColumnInfo) : List RawTuple → Res (List Row)
  | [] => .ok []
  | tuple :: rest => do
      let rowData ← ConvertRawTupleToRow tuple columns
      let rows ← convertTuples columns rest
      pure (rowData :: rows)

/-- The method `diskManager.ReadPage`. -/
def diskManager.ReadPage (fs : FS) (tableName : String) (pageID : Nat) : Res Page := do
  let df ← readDataFileHeader fs tableName
  let page ← df.readPage fs tableName pageID
  let metaData ← readMetaFile fs tableName
  let rows ← convertTuples metaData.columns page.rawTuples
  pure { header := page.header, slots := page.slots, rows := rows,
         columns := metaData.columns }

/-- The method `diskManager.AddNewPage`: the files after the call and what it
returns. -/
def diskManager.AddNewPage (fs : FS) (tableName : String) (pageID : Nat) : FS × Res Page :=
  thenRead fs (readDataFileHeader fs tableName) fun df =>
  thenOn fs (df.addPage fs tableName) fun fs _ =>
  (fs, diskManager.ReadPage fs tableName pageID)

/-- The method `diskManager.CreateDataBase`. -/
def diskManager.CreateDataBase (fs : FS) : FS × Res Unit :=
  thenOn fs (createTableListFile fs) fun fs _ => (fs, .ok ())

/-- The method `diskManager.CreateTable`: the files after the call and what it
returns. -/
def diskManager.CreateTable (fs : FS) (tableName : String) (columns : List ColumnInfo) : FS × Res Unit :=
  thenOn fs (createMetaFile fs tableName columns) fun fs _ =>
  thenOn fs (createPageDirectoryFile fs tableName) fun fs _ =>
  thenOn fs (createDataFile fs tableName) fun fs _ =>
  thenRead fs (readPageDirectory fs tableName) fun _ =>
  thenOn fs ((addTableInList fs tableName).wrapErr "failed to update tables list: ")
    fun fs _ => (fs, .ok ())

/-! ## Example tables and tuples -/

/-- No file at all. -/
def emptyFS : FS := fun _ => none

/-- The files after `CreateDataBase()` on `emptyFS`. -/
def newDataBaseFS : FS := (diskManager.CreateDataBase emptyFS).1

/-- The files after `CreateTable("users", exampleColumns)` on `newDataBaseFS`. -/
def usersFS : FS := (diskManager.CreateTable newDataBaseFS "users" exampleColumns).1

/-- The files after `AddNewPage("users", 1)` on `usersFS`: the table has one page. -/
def usersOnePageFS : FS := (diskManager.AddNewPage usersFS "users" 1).1

/-- A tuple over `exampleColumns` whose Text length field holds `2^32 - 8`:
the payload is the Int32 value 1 and that length field. -/
def overflowTuple : RawTuple :=
  { length := 17, nullBitmapSize := 1, nullBitmap := [0],
    data := [0, 0, 0, 1, 255, 255, 255, 248] }

/-- The tuple `overflowTuple` with the Text `"hi"` in place of the length field. -/
def plainTuple : RawTuple :=
  { length := 19, nullBitmapSize := 1, nullBitmap := [0],
    data := [0, 0, 0, 1, 0, 0, 0, 2, 104, 105] }

/-- The tuple `plainTuple` whose Text length field holds 3 for 2 bytes of text. -/
def shortTuple : RawTuple :=
  { length := 19, nullBitmapSize := 1, nullBitmap := [0],
    data := [0, 0, 0, 1, 0, 0, 0, 3, 104, 105] }

/-- A name of 33 bytes. -/
def longName : String := "aaaaaaaaaaaaaaaaaaaaaaaaaaaaaaaaa"

/-- The `DataFile` that `readDataFileHeader` returns for `usersOnePageFS`. -/
def usersOnePageDF : DataFile :=
  { header := { magicNumber := DATA_FILE_MAGIC_NUMBER, pagesCount := 1, recordCount := 0 },
    pages := [] }

/-- The files of `usersOnePageFS` with the first four bytes of the data file of
`users` set to zero. -/
def badMagicFS : FS := fun path =>
  if path = dataFilePath "users" then
    (usersOnePageFS path).map fun file => [0, 0, 0, 0] ++ file.drop 4
  else usersOnePageFS path

/-! ## The bytes of the fixed-size records -/

/-- The 12 bytes of a serialized data file header. -/
def DataFileHeader.bytes (h : DataFileHeader) : List Byte :=
  beBytes h.magicNumber ++ beBytes h.pagesCount ++ beBytes h.recordCount

/-- The 12 bytes of a serialized page directory header. -/
def PageDirectoryHeader.bytes (h : PageDirectoryHeader) : List Byte :=
  beBytes h.magicNumber ++ beBytes h.pageCount ++ beBytes h.nextPageID

/-- The 12 bytes of a serialized page directory entry. -/
def PageDirectoryEntry.bytes (e : PageDirectoryEntry) : List Byte :=
  beBytes e.pageID ++ beBytes e.freeSpace ++ beBytes e.flags

/-- A name in its field of 32 bytes, padded with zero bytes. -/
def padName (name : List Byte) : List Byte := name ++ List.replicate (32 - name.length) 0

/-- The 52 bytes of a serialized meta file header whose name has at most 32 bytes. -/
def MetaDataHeader.bytes (h : MetaDataHeader) : List Byte :=
  beBytes h.magicNumber ++ beBytes h.tableNameLen ++ beBytes h.columnCount ++
    padName h.tableName ++ beBytes64 h.nextRowID

/-- The 56 bytes of a serialized column whose name has at most 32 bytes. -/
def ColumnInfo.bytes (c : ColumnInfo) : List Byte :=
  beBytes c.columnName.length ++ beBytes c.dataType ++ beBytes c.isNullable ++
    beBytes c.isPrimaryKey ++ beBytes c.isAutoIncrement ++ beBytes c.defaultValue ++
    padName c.columnName

/-- The 40 bytes of the catalog entry of a name of at most 32 bytes. -/
def entryBytes (name : List Byte) (fileID : Nat) : List Byte :=
  beBytes name.length ++ padName name ++ beBytes fileID

/-- A meta file header whose name ends in zero bytes. -/
def exampleMetaHeader : MetaDataHeader :=
  { magicNumber := META_FILE_MAGIC_NUMBER, tableNameLen := 3, columnCount := 2,
    tableName := [97, 0, 0], nextRowID := 4294967297 }

/-- A column whose name ends in a zero byte. -/
def exampleColumn : ColumnInfo :=
  { columnNameLength := 2, dataType := TEXT_TYPE, isNullable := 1, isPrimaryKey := 0,
    isAutoIncrement := 0, defaultValue := 7, columnName := [110, 0] }

/-- A catalog of two tables, `users` with file id 1 and `t` with file id 2. -/
def exampleCatalog : TablesList :=
  { header := { magicNumber := TABLES_LIST_MAGIC_NUMBER },
    tables := [([117, 115, 101, 114, 115], 1), ([116], 2)] }

/-- The 4096 bytes of the empty page `newPage pageID`: the header and 4080 zero
bytes. -/
def emptyPageBytes (pageID : Nat) : List Byte :=
  (newPageHeader pageID).bytes ++ List.replicate 4080 0

/-- The last three characters of a path, last first. -/
def pathEnd (path : String) : List Char := path.data.reverse.take 3

/-- The contents of a data file after `addPage`, for the header read before the
call: the new page is written at its offset, then the header at offset 0. -/
def addPageFile (header : DataFileHeader) (file : List Byte) : List Byte :=
  fileWriteAt
    (fileWriteAt file (pageOffset (u32 (header.pagesCount + 1)))
      (emptyPageBytes (u32 (header.pagesCount + 1))))
    0 (DataFileHeader.bytes ⟨header.magicNumber, u32 (header.pagesCount + 1), header.recordCount⟩)

/-- The bytes of `m` empty pages with the page ids `i`, `i + 1`, ... -/
def emptyPages : Nat → Nat → List Byte
  | _, 0 => []
  | i, m + 1 => emptyPageBytes i ++ emptyPages (i + 1) m

/-- A catalog map as `TablesList.Deserialize` builds it: the names are pairwise
distinct and have at most 32 bytes, the file ids are `uint32` values. -/
def GoodMap (m : NameMap) : Prop :=
  (m.map Prod.fst).Nodup ∧ ∀ e ∈ m, e.1.length ≤ 32 ∧ e.2 < 4294967296

/-- What a call of `CreateTable` on the files `fs` leaves: after an error the
catalog file is as before, every other file is as before or is one of the three
files of the table that did not exist, and nothing has changed when the meta
file existed; after a success the three files, absent before, exist and the
catalog read from its file holds the name. -/
def CreateTableOutcome (fs : FS) (tableName : String) (r : FS × Res Unit) : Prop :=
  (∀ msg, r.2 = .error msg →
    r.1 TABLE_LIST_FILE_PATH = fs TABLE_LIST_FILE_PATH ∧
    (∀ path, r.1 path = fs path ∨
      (fs path = none ∧ (path = metaFilePath tableName ∨
        path = pageDirectoryFilePath tableName ∨ path = dataFilePath tableName))) ∧
    ((fs (metaFilePath tableName)).isSome → r.1 = fs)) ∧
  (r.2 = .ok () →
    (fs (metaFilePath tableName) = none ∧ fs (pageDirectoryFilePath tableName) = none ∧
      fs (dataFilePath tableName) = none) ∧
    (r.1 (metaFilePath tableName)).isSome ∧ (r.1 (pageDirectoryFilePath tableName)).isSome ∧
    (r.1 (dataFilePath tableName)).isSome ∧
    ∃ catalog id, readTableListFile r.1 = .ok catalog ∧
      nameGet catalog.tables (goBytes tableName) = some id)

/-! ## A data file at the end of the `uint32` offsets -/

/-- A data file of 1048575 empty pages: 4294963212 bytes. -/
def bigFile : List Byte :=
  DataFileHeader.bytes ⟨DATA_FILE_MAGIC_NUMBER, 1048575, 0⟩ ++ emptyPages 1 1048575

/-- The files of `usersFS` with `bigFile` as the data file of `users`. -/
def bigFS : FS := Function.update usersFS (dataFilePath "users") (some bigFile)

/-! ## The tuple of a row -/

/-- A cell that carries a value of its type: a non-null Int32 cell an `int32`,
a non-null Text cell a string. -/
def CellTyped (cell : DataCell) : Prop :=
  cell.isNull = false →
    (cell.dataType = INT_32_TYPE →
      ∃ v : Int, cell.data = .int32 v ∧ -2147483648 ≤ v ∧ v < 2147483648) ∧
    (cell.dataType = TEXT_TYPE → ∃ s, cell.data = .str s)

/-- The payload bytes of a cell as the tuple format describes them: none for a
null cell, 4 big-endian bytes for an Int32, the 4-byte big-endian length and
the bytes for a Text, none for a cell of another type. -/
def cellBytes (cell : DataCell) : List Byte :=
  if cell.isNull then []
  else if cell.dataType = INT_32_TYPE then
    match cell.data with
    | .int32 v => beBytes (int32ToU32 v)
    | _ => []
  else if cell.dataType = TEXT_TYPE then
    match cell.data with
    | .str s => beBytes s.length ++ s
    | _ => []
  else []

/-- A row of the three cells Int32 7, Text NULL, Text "hi". -/
def mixedRow : Row :=
  [ { dataType := INT_32_TYPE, data := .int32 7, isNull := false },
    { dataType := TEXT_TYPE, data := .null, isNull := true },
    { dataType := TEXT_TYPE, data := .str [104, 105], isNull := false } ]

/-- An Int32 cell whose value is a string. -/
def illTypedCell : DataCell := { dataType := INT_32_TYPE, data := .str [104], isNull := false }


/-! ## `diskManager.WritePage` -/

/-- The row loop of `ConvertPageToRawPage`. -/
def convertRows : List Row → Res (List RawTuple)
  | [] => .ok []
  | row :: rest => do
      let tuple ← ConvertRowToRawTuple row
      let tuples ← convertRows rest
      pure (tuple :: tuples)

/-- The function `ConvertPageToRawPage`. -/
def ConvertPageToRawPage (page : Page) : Res RawPage := do
  let rawTuples ← convertRows page.rows
  pure { header := page.header, slots := page.slots, rawTuples := rawTuples }

/-- The method `diskManager.WritePage`: the files after the call and what it
returns. -/
def diskManager.WritePage (fs : FS) (tableName : String) (pageID : Nat) (page : Page) :
    FS × Res Page :=
  thenRead fs (readDataFileHeader fs tableName) fun df =>
  thenRead fs (ConvertPageToRawPage page) fun rawPage =>
  match df.writePage fs tableName pageID rawPage with
  | .ok fs' => (fs', diskManager.ReadPage fs' tableName pageID)
  | .error m => (fs, .error m)
  | .panic => (fs, .panic)
  | .diverge => (fs, .diverge)

/-- The slotted-page invariant of a header and its slots: `lower <= upper`,
the byte range of every slot lies inside `[upper, 4096)`, and the ranges of
distinct slots do not overlap. -/
def SlottedInv (header : PageHeader) (slots : List PageSlot) : Prop :=
  header.lower ≤ header.upper ∧
  (∀ s ∈ slots, header.upper ≤ s.offset ∧ s.offset + s.length ≤ PAGE_SIZE) ∧
  slots.Pairwise PageSlot.Disjoint

/-- The header and the slots hold `uint32` values. -/
def PageFieldsU32 (header : PageHeader) (slots : List PageSlot) : Prop :=
  header.pageID < 4294967296 ∧ header.recordCount < 4294967296 ∧
  header.lower < 4294967296 ∧ header.upper < 4294967296 ∧
  ∀ s ∈ slots, s.offset < 4294967296 ∧ s.length < 4294967296 ∧ s.flags < 4294967296

/-- A page without slots and rows whose header has `lower = 100 > upper = 50`. -/
def crossedPage : Page :=
  { header := { pageID := 1, recordCount := 0, lower := 100, upper := 50 },
    slots := [], rows := [], columns := [] }

/-- A page of two rows whose two slots name the same 19 bytes. -/
def overlapPage : Page :=
  { header := { pageID := 1, recordCount := 2, lower := 40, upper := 4077 },
    slots := [{ offset := 4077, length := 19, flags := 0 },
              { offset := 4077, length := 19, flags := 0 }],
    rows := [[{ dataType := INT_32_TYPE, data := .int32 1, isNull := false },
              { dataType := TEXT_TYPE, data := .str [104, 105], isNull := false }],
             [{ dataType := INT_32_TYPE, data := .int32 1, isNull := false },
              { dataType := TEXT_TYPE, data := .str [104, 105], isNull := false }]],
    columns := [] }

/-- A page of one row in one slot at the end of the page. -/
def oneRowPage : Page :=
  { header := { pageID := 1, recordCount := 1, lower := 28, upper := 4077 },
    slots := [{ offset := 4077, length := 19, flags := 0 }],
    rows := [[{ dataType := INT_32_TYPE, data := .int32 1, isNull := false },
              { dataType := TEXT_TYPE, data := .str [104, 105], isNull := false }]],
    columns := [] }


/-! ## The pages of a list of the replacer -/

/-- The pages of the nodes at `addrs` (from tail to head) read from the head
to the tail. -/
def headToTail (heap : Nat → Node) (addrs : List Nat) : List Nat := (pagesOf heap addrs).reverse

/-- The access pattern 1, 2, 1, 3, 2, 4, 5, 1, 2, 3 at the times 0 to 9. -/
def complexOps : List LRUOp :=
  [.access 1 0, .access 2 1, .access 1 2, .access 3 3, .access 2 4, .access 4 5,
   .access 5 6, .access 1 7, .access 2 8]

/-- The calls `Access(1); Access(1); Access(2); Access(3)` at the times 0 to 3. -/
def evictOps : List LRUOp := [.access 1 0, .access 1 1, .access 2 2, .access 3 3]

/-- The state after `complexOps` and `Access(3)` at time 9, with `K = 2`. -/
def complexState : LRUKCache := stateAfter 2 5 (complexOps ++ [.access 3 9])


/-! ## The bookkeeping of the buffer pool -/

/-- The bookkeeping structures of the pool agree: `PinCounts` and the entries
of the replacer have the keys of `Pages`, the keys of `DirtyPages` are keys of
`Pages`, every dirty frame has its page in `DirtyPages`, the replacer is
well-formed, and `K >= 0` once a page is resident. -/
structure BufferPool.Agree (bp : BufferPool) : Prop where
  pins_keys : ∀ p, (mapGet bp.pinCounts p).isSome = (mapGet bp.pages p).isSome
  lru_keys : ∀ p, (mapGet bp.lruKCache.pageEntries p).isSome = (mapGet bp.pages p).isSome
  dirty_sub : ∀ p, (mapGet bp.dirtyPages p).isSome = true → (mapGet bp.pages p).isSome = true
  dirty_flag : ∀ p f, mapGet bp.pages p = some f → f.isDirty = true →
    (mapGet bp.dirtyPages p).isSome = true
  dirty_nodup : (mapKeys bp.dirtyPages).Nodup
  lru_inv : ∃ cold hot cnt, bp.lruKCache.Inv cold hot ∧ bp.lruKCache.CountInv cnt
  k_ok : ∀ p, (mapGet bp.pages p).isSome = true → 0 ≤ bp.lruKCache.K

/-- A disk manager whose `WritePage` fails; the other calls succeed. -/
def failingWriteDisk : Disk :=
  { readPage := fun _ pageID => .ok (emptyPage pageID),
    writePage := fun _ _ _ => .error "disk full",
    addNewPage := fun _ pageID => .ok (emptyPage pageID) }

/-- The calls of the dirty-victim scenario: page 1 is added, marked dirty and
unpinned. -/
def dirtyScenario : List BPOp :=
  [.addNewPage healthyDisk "t" 1 0, .markDirty "t" 1, .unpin "t" 1]

/-- The pool of capacity 1 (K = 2) after `dirtyScenario`. -/
def dirtyPool : BufferPool :=
  match (NewBufferPool 1 2).run dirtyScenario with
  | .ok bp => bp
  | _ => NewBufferPool 1 2

/-- The frame of page 1 in `dirtyPool`. -/
def dirtyFrame : BufferFrame :=
  { pageID := 1, tableName := "t", page := emptyPage 1, isDirty := true, isPinned := false,
    lastAccessed := 0, pinCount := 0 }

/-- The pool of capacity 5 (K = 2) after `AddNewPage("t", 1)`. -/
def onePagePool : BufferPool :=
  match (NewBufferPool 5 2).run [.addNewPage healthyDisk "t" 1 0] with
  | .ok bp => bp
  | _ => NewBufferPool 5 2

/-- The frame of page 1 in `onePagePool`. -/
def onePageFrame : BufferFrame :=
  { pageID := 1, tableName := "t", page := emptyPage 1, isDirty := false, isPinned := true,
    lastAccessed := 0, pinCount := 1 }

/-- The frame stored for page `pageID` after the write loop of
`flushDirtyPages` has visited the page: the dirty flag is cleared when
`WritePage` succeeded. -/
def flushedFrame (disk : Disk) (pageID : Nat) (frame : Option BufferFrame) : Option BufferFrame :=
  match frame with
  | none => none
  | some f =>
      match disk.writePage f.tableName pageID f.page with
      | .ok _ => some { f with isDirty := false }
      | _ => some f

/-- The entry of page `pageID` in `DirtyPages` after the write loop has
visited the page: deleted when the page is resident and `WritePage` succeeded. -/
def flushedDirty (disk : Disk) (pageID : Nat) (frame : Option BufferFrame)
    (entry : Option Bool) : Option Bool :=
  match frame with
  | none => entry
  | some f =>
      match disk.writePage f.tableName pageID f.page with
      | .ok _ => none
      | _ => entry

/-- The call `WritePage` of the frame returns (a page or an error). -/
def writeReturns (disk : Disk) (pageID : Nat) (f : BufferFrame) : Prop :=
  (∃ r, disk.writePage f.tableName pageID f.page = .ok r) ∨
  (∃ e, disk.writePage f.tableName pageID f.page = .error e)

/-- A disk manager whose `WritePage` fails for page 2 only. -/
def page2FailsDisk : Disk :=
  { readPage := fun _ pageID => .ok (emptyPage pageID),
    writePage := fun _ pageID page => if pageID = 2 then .error "disk full" else .ok page,
    addNewPage := fun _ pageID => .ok (emptyPage pageID) }

/-- The calls of the flush scenario: pages 1, 2 and 3 are added, pages 1 and 2
are marked dirty. -/
def flushScenario : List BPOp :=
  [.addNewPage healthyDisk "t" 1 0, .addNewPage healthyDisk "t" 2 1,
   .addNewPage healthyDisk "t" 3 2, .markDirty "t" 1, .markDirty "t" 2]

/-- The pool of capacity 5 (K = 2) after `flushScenario`. -/
def flushPool : BufferPool :=
  match (NewBufferPool 5 2).run flushScenario with
  | .ok bp => bp
  | _ => NewBufferPool 5 2

/-- The frame `GetPage` (on a miss) and `AddNewPage` create for a page. -/
def newFrame (tableName : String) (pageID : Nat) (page : Page) (now : Nat) : BufferFrame :=
  { pageID := pageID, tableName := tableName, page := page, isDirty := false,
    isPinned := true, lastAccessed := now, pinCount := 1 }

/-- The pool `bp'` is the pool `bp` with page `q` removed from every structure
and page `pid` installed with the frame `frame`, pinned once; the other pages
are untouched. -/
def EvictedAndInstalled (bp bp' : BufferPool) (q pid : Nat) (frame : BufferFrame) : Prop :=
  mapGet bp'.pages q = none ∧ mapGet bp'.pinCounts q = none ∧
  mapGet bp'.dirtyPages q = none ∧ mapGet bp'.lruKCache.pageEntries q = none ∧
  mapGet bp'.pages pid = some frame ∧ mapGet bp'.pinCounts pid = some 1 ∧
  (mapGet bp'.lruKCache.pageEntries pid).isSome = true ∧
  (∀ p, p ≠ q → p ≠ pid →
    mapGet bp'.pages p = mapGet bp.pages p ∧ mapGet bp'.pinCounts p = mapGet bp.pinCounts p ∧
    mapGet bp'.dirtyPages p = mapGet bp.dirtyPages p ∧
    mapGet bp'.lruKCache.pageEntries p = mapGet bp.lruKCache.pageEntries p) ∧
  mapLen bp'.pages = mapLen bp.pages ∧ bp'.maxSize = bp.maxSize

/-- The calls of the full-pool scenario: pages 1 and 2 are added (each pinned
once). -/
def fullScenario : List BPOp :=
  [.addNewPage healthyDisk "t" 1 0, .addNewPage healthyDisk "t" 2 1]

/-- The pool of capacity 2 (K = 2) after `fullScenario`. -/
def fullPool : BufferPool :=
  match (NewBufferPool 2 2).run fullScenario with
  | .ok bp => bp
  | _ => NewBufferPool 2 2

/-- The pool `fullPool` after `Unpin("t", 1)`. -/
def fullPoolUnpinned : BufferPool := fullPool.Unpin "t" 1


/-! ## Page offsets and record names: examples -/

/-- The exact file offset of page `pageID`: `12 + (pageID - 1) * 4096`. -/
def exactPageOffset (pageID : Nat) : Nat := 12 + (pageID - 1) * 4096

/-- A 52-byte meta header buffer whose name length field holds `nameLen`; bytes
12..43 (the name field) are `1`, bytes 44..51 (`NextRowID`) are `255`. -/
def metaHeaderBuffer (nameLen : Nat) : List Byte :=
  beBytes 0xFEDCBA98 ++ beBytes nameLen ++ beBytes 0 ++ List.replicate 32 1 ++
    List.replicate 8 255

/-- A 56-byte column buffer whose name length field holds `nameLen`. -/
def columnBuffer (nameLen : Nat) : List Byte :=
  beBytes nameLen ++ beBytes 1 ++ beBytes 0 ++ beBytes 0 ++ beBytes 0 ++ beBytes 0 ++
    List.replicate 32 1

/-- A 40-byte catalog entry buffer whose name length field holds `nameLen`. -/
def entryBuffer (nameLen : Nat) : List Byte :=
  beBytes nameLen ++ List.replicate 32 1 ++ beBytes 7

/-! ## Tuples: examples -/

/-- A tuple for the schema (Text, Text): the first text is empty, the length
field of the second holds `2^32 - 8`. -/
def wrapTextTuple : RawTuple :=
  { length := 17, nullBitmapSize := 1, nullBitmap := [0],
    data := [0, 0, 0, 0, 255, 255, 255, 248] }

/-- A tuple without bitmap bytes whose payload is the Int32 7. -/
def noBitmapTuple : RawTuple :=
  { length := 12, nullBitmapSize := 0, nullBitmap := [], data := [0, 0, 0, 7] }

/-- A one-column schema: an Int32 column. -/
def intColumn : ColumnInfo :=
  { columnNameLength := 1, dataType := INT_32_TYPE, isNullable := 0, isPrimaryKey := 0,
    isAutoIncrement := 0, defaultValue := 0, columnName := [105] }

/-- A string of `2^32 - 13` zero bytes. -/
def nearHugeText : List Byte := List.replicate 4294967283 0

/-- A non-null Text cell holding `nearHugeText`. -/
def nearHugeCell : DataCell :=
  { dataType := TEXT_TYPE, data := .str nearHugeText, isNull := false }

/-- The size of the null bitmap `Row.GetSize` and `ConvertRowToRawTuple` use
for a row of `n <= 32` cells: `ceil(n/8)`, and 1 for the empty row. -/
def bitmapSizeOf (n : Nat) : Nat := if n = 0 then 1 else (n + 7) / 8


/-! ## The buffer pool: further scenarios -/

/-- A disk manager whose `ReadPage` fails; the other calls succeed. -/
def failingReadDisk : Disk :=
  { readPage := fun _ _ => .error "page id %d is out of range",
    writePage := fun _ _ page => .ok page,
    addNewPage := fun _ pageID => .ok (emptyPage pageID) }

/-- The pool of capacity 5 (K = 2) after `GetPage("a", 1)` on a miss. -/
def tablePool : BufferPool :=
  match (NewBufferPool 5 2).run [.getPage healthyDisk "a" 1 0] with
  | .ok bp => bp
  | _ => NewBufferPool 5 2

/-- The pool `dirtyPool` (capacity 1, page 1 resident, dirty and unpinned)
after `AddNewPage("t", 1)` on a disk manager on which every call succeeds. -/
def replacedPool : BufferPool :=
  match dirtyPool.AddNewPage healthyDisk "t" 1 5 with
  | .ok (bp, _) => bp
  | _ => dirtyPool

/-- Kind of a token (`TokenKind`). -/
inductive TokenKind where
  | KeywordToken
  | SymbolToken
  | IdentifierToken
  | StringToken
  | NumericToken
  | NullToken
  | MathOperatorToken
  | LogicalOperatorToken
  deriving DecidableEq, Repr

/-- A token (`Token`); `value` holds the bytes of the Go string. -/
structure Token where
  value : List Byte
  kind : TokenKind
  deriving DecidableEq, Repr

/-- What a lexer function returns: the token (`nil` is `none`), the new
position, and whether it matched. -/
abbrev LexResult := Option Token × Nat × Bool

/-- The list `Keywords`, in the order of the source. -/
def Keywords : List (List Byte) :=
  [goBytes "select", goBytes "insert", goBytes "create", goBytes "drop", goBytes "values",
   goBytes "table", goBytes "from", goBytes "into", goBytes "int", goBytes "text"]

/-- The list `symbols`: `,` `(` `)` `;` `*`. -/
def symbols : List (List Byte) :=
  [goBytes ",", goBytes "(", goBytes ")", goBytes ";", goBytes "*"]

/-- The constant `NullValueKeyword`. -/
def NullValueKeyword : List Byte := goBytes "null"

/-- The list `mathOperators`: `=` `!=` `>` `<`. -/
def mathOperators : List (List Byte) :=
  [goBytes "=", goBytes "!=", goBytes ">", goBytes "<"]

/-- Lower case of an ASCII byte. -/
def lowerByte (b : Byte) : Byte :=
  if 65 ≤ b.val ∧ b.val ≤ 90 then toByte (b.val + 32) else b

/-- Upper case of an ASCII byte. -/
def upperByte (b : Byte) : Byte :=
  if 97 ≤ b.val ∧ b.val ≤ 122 then toByte (b.val - 32) else b

/-- The bytes of `strings.ToLower(string(b))` for one byte `b` of the source:
`string(b)` is the UTF-8 encoding of the code point `b`, one byte below 128 and
two bytes from 128 on; of the code points 128..255 those in 192..214 and
216..222 have a lower case, 32 higher. -/
def lowerOfByte (b : Byte) : List Byte :=
  if b.val < 128 then [lowerByte b]
  else utf8Bytes
    (if (192 ≤ b.val ∧ b.val ≤ 214) ∨ (216 ≤ b.val ∧ b.val ≤ 222) then b.val + 32 else b.val)

/-- The function `maxOptionLength`. -/
def maxOptionLength (options : List (List Byte)) : Nat :=
  options.foldl (fun maxLen option => if option.length > maxLen then option.length else maxLen) 0

/-- The inner loop of `longestMatch`: every option equal to the accumulated
value replaces the match when it is longer. -/
def updateMatch (options : List (List Byte)) (currentValue : List Byte) (m : List Byte) :
    List Byte :=
  options.foldl
    (fun m option =>
      if option = currentValue then (if option.length > m.length then option else m) else m) m

/-- The outer loop of `longestMatch` over the bytes `source[pointer:]`, with
the accumulated value and the match so far. -/
def longestMatchLoop (options : List (List Byte)) (maxLen : Nat) :
    List Byte → List Byte → List Byte → List Byte
  | [], _, m => m
  | c :: rest, currentValue, m =>
    if (currentValue ++ lowerOfByte c).length > maxLen then
      updateMatch options (currentValue ++ lowerOfByte c) m
    else
      longestMatchLoop options maxLen rest (currentValue ++ lowerOfByte c)
        (updateMatch options (currentValue ++ lowerOfByte c) m)

/-- The function `longestMatch`. -/
def longestMatch (source : List Byte) (startPointer : Nat) (options : List (List Byte)) :
    List Byte :=
  longestMatchLoop options (maxOptionLength options) (source.drop startPointer) [] []

/-- The common body of `lexKeyword`, `lexNull` and `lexMathOperator`, and the
end of `lexSymbol`: the longest option at the position, as a token of the
given kind. -/
def lexOptions (options : List (List Byte)) (kind : TokenKind) (source : List Byte)
    (startPointer : Nat) : LexResult :=
  if longestMatch source startPointer options = [] then (none, startPointer, false)
  else
    (some ⟨longestMatch source startPointer options, kind⟩,
      startPointer + (longestMatch source startPointer options).length, true)

/-- The function `lexKeyword`. -/
def lexKeyword (source : List Byte) (startPointer : Nat) : LexResult :=
  if startPointer ≥ source.length then (none, startPointer, false)
  else lexOptions Keywords .KeywordToken source startPointer

/-- The function `lexSymbol`; a newline, tab or blank is skipped without a
token. -/
def lexSymbol (source : List Byte) (startPointer : Nat) : LexResult :=
  if startPointer ≥ source.length then (none, startPointer, false)
  else if source.getD startPointer 0 = 10 ∨ source.getD startPointer 0 = 9 ∨
      source.getD startPointer 0 = 32 then
    (none, startPointer + 1, true)
  else lexOptions symbols .SymbolToken source startPointer

/-- The function `lexNull`. -/
def lexNull (source : List Byte) (startPointer : Nat) : LexResult :=
  if startPointer ≥ source.length then (none, startPointer, false)
  else lexOptions [NullValueKeyword] .NullToken source startPointer

/-- The function `lexMathOperator`. -/
def lexMathOperator (source : List Byte) (startPointer : Nat) : LexResult :=
  if startPointer ≥ source.length then (none, startPointer, false)
  else lexOptions mathOperators .MathOperatorToken source startPointer

/-- The loop of `lexCharacterDelimited` over the bytes `source[pointer:]`:
`some (value, newPointer)` when the closing delimiter is found, `none` when the
source ends first. -/
def scanDelimited (delimiter : Byte) : List Byte → List Byte → Nat → Option (List Byte × Nat)
  | [], _, _ => none
  | [c], value, pointer => if c = delimiter then some (value, pointer + 1) else none
  | c :: d :: rest, value, pointer =>
    if c = delimiter then
      if d = delimiter then
        scanDelimited delimiter rest (value ++ [delimiter, delimiter]) (pointer + 2)
      else some (value, pointer + 1)
    else scanDelimited delimiter (d :: rest) (value ++ [c]) (pointer + 1)

/-- The function `lexCharacterDelimited`. -/
def lexCharacterDelimited (source : List Byte) (startPointer : Nat) (delimiter : Byte) :
    LexResult :=
  if startPointer ≥ source.length then (none, startPointer, false)
  else if source.getD startPointer 0 ≠ delimiter then (none, startPointer, false)
  else
    match scanDelimited delimiter (source.drop (startPointer + 1)) [] (startPointer + 1) with
    | some (value, newPointer) => (some ⟨value, .StringToken⟩, newPointer, true)
    | none => (none, startPointer, false)

/-- The function `lexString`: the delimiter is the single quote. -/
def lexString (source : List Byte) (startPointer : Nat) : LexResult :=
  lexCharacterDelimited source startPointer 39

/-- The test `isAlphabetical` of `lexIdentifier`: `A`-`Z` or `a`-`z`. -/
def isAlphabetical (c : Byte) : Bool :=
  (65 ≤ c.val && c.val ≤ 90) || (97 ≤ c.val && c.val ≤ 122)

/-- The tests `isNumeric` of `lexIdentifier` and `isDigit` of `lexNumeric`:
`0`-`9`. -/
def isDigit (c : Byte) : Bool := 48 ≤ c.val && c.val ≤ 57

/-- The loop of `lexIdentifier` over the bytes `source[pointer:]`: letters,
digits, `$` and `_` are taken. -/
def identifierLoop : List Byte → List Byte → Nat → List Byte × Nat
  | [], value, pointer => (value, pointer)
  | c :: rest, value, pointer =>
    if isAlphabetical c || isDigit c || c = 36 || c = 95 then
      identifierLoop rest (value ++ [c]) (pointer + 1)
    else (value, pointer)

/-- The function `lexIdentifier`. The value of an unquoted identifier holds
only ASCII bytes, on which `strings.ToLower` works byte by byte. -/
def lexIdentifier (source : List Byte) (startPointer : Nat) : LexResult :=
  if startPointer ≥ source.length then (none, startPointer, false)
  else if (lexCharacterDelimited source startPointer 34).2.2 then
    ((lexCharacterDelimited source startPointer 34).1.map fun token =>
        { token with kind := .IdentifierToken },
      (lexCharacterDelimited source startPointer 34).2.1, true)
  else if !isAlphabetical (source.getD startPointer 0) then (none, startPointer, false)
  else
    (some ⟨(identifierLoop (source.drop (startPointer + 1)) [source.getD startPointer 0]
        (startPointer + 1)).1.map lowerByte, .IdentifierToken⟩,
      (identifierLoop (source.drop (startPointer + 1)) [source.getD startPointer 0]
        (startPointer + 1)).2, true)

/-- The loop of `lexNumeric` after the first byte, over the bytes
`source[pointer:]`: `some pointer` where the literal ends, `none` for a second
period, a second `e`, or an `e` that is the last byte of the source. -/
def numericLoop : List Byte → Nat → Bool → Bool → Option Nat
  | [], pointer, _, _ => some pointer
  | [c], pointer, periodFound, _ =>
    if c = 46 then (if periodFound then none else some (pointer + 1))
    else if c = 101 then none
    else if !isDigit c then some pointer
    else some (pointer + 1)
  | c :: d :: rest, pointer, periodFound, expMarkerFound =>
    if c = 46 then
      (if periodFound then none else numericLoop (d :: rest) (pointer + 1) true expMarkerFound)
    else if c = 101 then
      if expMarkerFound then none
      else if d = 45 ∨ d = 43 then numericLoop rest (pointer + 2) true true
      else numericLoop (d :: rest) (pointer + 1) true true
    else if !isDigit c then some pointer
    else numericLoop (d :: rest) (pointer + 1) periodFound expMarkerFound

/-- The function `lexNumeric`: the first byte is a digit or a period. -/
def lexNumeric (source : List Byte) (startPointer : Nat) : LexResult :=
  if startPointer ≥ source.length then (none, startPointer, false)
  else if !isDigit (source.getD startPointer 0) && source.getD startPointer 0 ≠ 46 then
    (none, startPointer, false)
  else
    match numericLoop (source.drop (startPointer + 1)) (startPointer + 1)
        (source.getD startPointer 0 = 46) false with
    | none => (none, startPointer, false)
    | some pointer =>
      if pointer = startPointer then (none, startPointer, false)
      else (some ⟨window source startPointer (pointer - startPointer), .NumericToken⟩,
        pointer, true)

/-- The lexer functions of `Lex`, in their order of priority. -/
def lexers : List (List Byte → Nat → LexResult) :=
  [lexKeyword, lexSymbol, lexNull, lexMathOperator, lexString, lexNumeric, lexIdentifier]

/-- The inner loop of `Lex`: the result of the first lexer function that
matches at the position. -/
def tryLexers (source : List Byte) (pointer : Nat) :
    List (List Byte → Nat → LexResult) → Option (Option Token × Nat)
  | [] => none
  | lexFunc :: rest =>
    if (lexFunc source pointer).2.2 then
      some ((lexFunc source pointer).1, (lexFunc source pointer).2.1)
    else tryLexers source pointer rest

/-- A token is appended, `nil` is not. -/
def appendToken (tokens : List Token) : Option Token → List Token
  | some token => tokens ++ [token]
  | none => tokens

/-- The outer loop of `Lex`, with a bound on the number of rounds. -/
def lexLoop (source : List Byte) : Nat → List Token → Nat → Res (List Token)
  | 0, tokens, pointer => if pointer < source.length then .diverge else .ok tokens
  | fuel + 1, tokens, pointer =>
    if pointer < source.length then
      match tryLexers source pointer lexers with
      | some (token, newPointer) => lexLoop source fuel (appendToken tokens token) newPointer
      | none => .error "unable to lex token%s, at position %d"
    else .ok tokens

/-- The method `Lex`. Every round moves the position forward, so
`len(source)` rounds are enough. -/
def Lex (source : List Byte) : Res (List Token) :=
  lexLoop source source.length [] 0

/-! ## The parser (`internal/parser/ast`)

A result `(value, newPointer, true)` is `some (value, newPointer)`; a result
`(nil, initialPointer, false)` is `none`. -/

/-- The kinds of statement the parser produces (`AstStatmentKind`). -/
inductive AstStatmentKind where
  | SelectKind
  | CreateTableKind
  | InsertKind
  | DropTableKind
  deriving DecidableEq, Repr

/-- An expression (`Expression`); the only kind is `LiteralKind`. -/
structure Expression where
  literal : Token
  deriving DecidableEq, Repr

/-- A column of `CREATE TABLE` (`columnDefinition`). -/
structure columnDefinition where
  name : Token
  datatype : Token
  deriving DecidableEq, Repr

/-- The statement `CreateTableStatement`. -/
structure CreateTableStatement where
  table : Token
  columns : List columnDefinition
  deriving DecidableEq, Repr

/-- The statement `DropTableStatement`. -/
structure DropTableStatement where
  table : Token
  deriving DecidableEq, Repr

/-- The statement `InsertStatement`. -/
structure InsertStatement where
  table : Token
  values : List Expression
  deriving DecidableEq, Repr

/-- The statement `SelectStatement`. -/
structure SelectStatement where
  table : Token
  selectedColumns : List Expression
  deriving DecidableEq, Repr

/-- One statement (`AstStatement`): its kind and the four pointers, of which
the parser sets the one of that kind. -/
structure AstStatement where
  kind : AstStatmentKind
  selectStatement : Option SelectStatement
  createTableStatement : Option CreateTableStatement
  insertStatement : Option InsertStatement
  dropTableStatement : Option DropTableStatement
  deriving DecidableEq, Repr

/-- The tree `Ast`. -/
structure Ast where
  statements : List AstStatement
  deriving DecidableEq, Repr

/-- The zero value of `Token`: the empty string and kind 0. -/
def zeroToken : Token := ⟨[], .KeywordToken⟩

/-- The function `tokenFromKeyword`. -/
def tokenFromKeyword (k : List Byte) : Token := ⟨k, .KeywordToken⟩

/-- The function `tokenFromSymbol`. -/
def tokenFromSymbol (s : List Byte) : Token := ⟨s, .SymbolToken⟩

/-- The function `expectToken`. -/
def expectToken (tokens : List Token) (pointer : Nat) (expected : Token) : Bool :=
  match tokens[pointer]? with
  | none => false
  | some current => decide (expected = current)

/-- The function `parseToken`. -/
def parseToken (tokens : List Token) (initialPointer : Nat) (kind : TokenKind) :
    Option (Token × Nat) :=
  match tokens[initialPointer]? with
  | none => none
  | some current => if current.kind = kind then some (current, initialPointer + 1) else none

/-- The function `helpMessage`: it prints `tokens[pointer]`, or
`tokens[pointer-1]` when `pointer` is past the end, and panics when that index
(computed in `uint`, 64 bits) is out of range. -/
def helpMessage (tokens : List Token) (pointer : Nat) : Res Unit :=
  if pointer < tokens.length then .ok ()
  else if (pointer + 18446744073709551615) % 18446744073709551616 < tokens.length then .ok ()
  else .panic

/-- A failure that is reported with `helpMessage` first. -/
def failWithHelp {α : Type} (tokens : List Token) (pointer : Nat) : Res (Option α) :=
  (helpMessage tokens pointer).bind fun _ => .ok none

/-- The function `parseExpression`: a token of kind identifier, numeric,
string or null. -/
def parseExpression (tokens : List Token) (initialPointer : Nat) (_ : Token) :
    Option (Expression × Nat) :=
  [TokenKind.IdentifierToken, .NumericToken, .StringToken, .NullToken].findSome? fun kind =>
    (parseToken tokens initialPointer kind).map fun r => (⟨r.1⟩, r.2)

/-- The loop of `parseExpressions`, with a bound on the number of rounds. -/
def parseExpressionsLoop (tokens : List Token) (delimiters : List Token) :
    Nat → Nat → List Expression → Res (Option (List Expression × Nat))
  | 0, _, _ => .diverge
  | fuel + 1, pointer, expressions =>
    match tokens[pointer]? with
    | none => .ok none
    | some current =>
      if delimiters.any (fun delimiter => decide (delimiter = current)) then
        .ok (some (expressions, pointer))
      else if expressions.length > 0 ∧
          expectToken tokens pointer (tokenFromSymbol (goBytes ",")) = false then
        failWithHelp tokens pointer
      else
        match parseExpression tokens (if expressions.length > 0 then pointer + 1 else pointer)
            (tokenFromSymbol (goBytes ",")) with
        | none => failWithHelp tokens (if expressions.length > 0 then pointer + 1 else pointer)
        | some (expression, newCursor) =>
          parseExpressionsLoop tokens delimiters fuel newCursor (expressions ++ [expression])

/-- The function `parseExpressions`. Every round moves the position forward,
so `len(tokens) + 1` rounds are enough. -/
def parseExpressions (tokens : List Token) (initialPointer : Nat) (delimiters : List Token) :
    Res (Option (List Expression × Nat)) :=
  parseExpressionsLoop tokens delimiters (tokens.length + 1) initialPointer []

/-- The end of `parseSelectStatement`, after the column list. -/
def parseSelectFrom (tokens : List Token) (pointer : Nat) (columns : List Expression) :
    Res (Option (SelectStatement × Nat)) :=
  if expectToken tokens pointer (tokenFromKeyword (goBytes "from")) = false then
    .ok (some (⟨zeroToken, columns⟩, pointer))
  else
    match parseToken tokens (pointer + 1) .IdentifierToken with
    | none => failWithHelp tokens (pointer + 1)
    | some (tableName, newCursor) =>
      if expectToken tokens newCursor (tokenFromSymbol (goBytes ";")) = false then
        failWithHelp tokens newCursor
      else .ok (some (⟨tableName, columns⟩, newCursor))

/-- The function `parseSelectStatement`: `SELECT *` leaves the list of
selected columns empty. -/
def parseSelectStatement (tokens : List Token) (initialPointer : Nat) :
    Res (Option (SelectStatement × Nat)) :=
  if expectToken tokens initialPointer (tokenFromKeyword (goBytes "select")) = false then
    .ok none
  else if expectToken tokens (initialPointer + 1) (tokenFromSymbol (goBytes "*")) then
    parseSelectFrom tokens (initialPointer + 2) []
  else
    (parseExpressions tokens (initialPointer + 1)
      [tokenFromKeyword (goBytes "from"), tokenFromSymbol (goBytes ";")]).bind fun r =>
    match r with
    | none => .ok none
    | some (expressions, newCursor) => parseSelectFrom tokens newCursor expressions

/-- The end of `parseInsertStatement`, after the list of values. -/
def parseInsertEnd (tokens : List Token) (tableName : Token) (values : List Expression)
    (pointer : Nat) : Res (Option (InsertStatement × Nat)) :=
  if expectToken tokens pointer (tokenFromSymbol (goBytes ")")) = false then
    failWithHelp tokens pointer
  else if expectToken tokens (pointer + 1) (tokenFromSymbol (goBytes ";")) = false then
    failWithHelp tokens (pointer + 1)
  else .ok (some (⟨tableName, values⟩, pointer + 1))

/-- The function `parseInsertStatement`. -/
def parseInsertStatement (tokens : List Token) (initialPointer : Nat) :
    Res (Option (InsertStatement × Nat)) :=
  if expectToken tokens initialPointer (tokenFromKeyword (goBytes "insert")) = false then
    .ok none
  else if expectToken tokens (initialPointer + 1) (tokenFromKeyword (goBytes "into")) = false then
    failWithHelp tokens (initialPointer + 1)
  else
    match parseToken tokens (initialPointer + 2) .IdentifierToken with
    | none => failWithHelp tokens (initialPointer + 2)
    | some (tableName, newCursor) =>
      if expectToken tokens newCursor (tokenFromKeyword (goBytes "values")) = false then
        failWithHelp tokens newCursor
      else if expectToken tokens (newCursor + 1) (tokenFromSymbol (goBytes "(")) = false then
        failWithHelp tokens (newCursor + 1)
      else
        (parseExpressions tokens (newCursor + 2) [tokenFromSymbol (goBytes ")")]).bind fun r =>
        match r with
        | none => .ok none
        | some (values, cursor) => parseInsertEnd tokens tableName values cursor

/-- The loop of `parseColumnDefinitions`, with a bound on the number of
rounds. -/
def parseColumnDefinitionsLoop (tokens : List Token) (endDelimiter : Token) :
    Nat → Nat → List columnDefinition → Res (Option (List columnDefinition × Nat))
  | 0, _, _ => .diverge
  | fuel + 1, pointer, columnDefs =>
    match tokens[pointer]? with
    | none => .ok none
    | some current =>
      if endDelimiter = current then .ok (some (columnDefs, pointer))
      else if columnDefs.length > 0 ∧
          expectToken tokens pointer (tokenFromSymbol (goBytes ",")) = false then
        failWithHelp tokens pointer
      else
        match parseToken tokens (if columnDefs.length > 0 then pointer + 1 else pointer)
            .IdentifierToken with
        | none => failWithHelp tokens (if columnDefs.length > 0 then pointer + 1 else pointer)
        | some (columnName, newCursor) =>
          match parseToken tokens newCursor .KeywordToken with
          | none => failWithHelp tokens newCursor
          | some (columnType, cursor) =>
            parseColumnDefinitionsLoop tokens endDelimiter fuel cursor
              (columnDefs ++ [⟨columnName, columnType⟩])

/-- The function `parseColumnDefinitions`. Every round moves the position
forward, so `len(tokens) + 1` rounds are enough. -/
def parseColumnDefinitions (tokens : List Token) (initialPointer : Nat) (endDelimiter : Token) :
    Res (Option (List columnDefinition × Nat)) :=
  parseColumnDefinitionsLoop tokens endDelimiter (tokens.length + 1) initialPointer []

/-- The end of `parseCreateTableStatement`, after the column definitions. -/
def parseCreateEnd (tokens : List Token) (tableName : Token) (columns : List columnDefinition)
    (pointer : Nat) : Res (Option (CreateTableStatement × Nat)) :=
  if expectToken tokens pointer (tokenFromSymbol (goBytes ")")) = false then
    failWithHelp tokens pointer
  else if expectToken tokens (pointer + 1) (tokenFromSymbol (goBytes ";")) = false then
    failWithHelp tokens (pointer + 1)
  else .ok (some (⟨tableName, columns⟩, pointer + 1))

/-- The function `parseCreateTableStatement`. -/
def parseCreateTableStatement (tokens : List Token) (initialPointer : Nat) :
    Res (Option (CreateTableStatement × Nat)) :=
  if expectToken tokens initialPointer (tokenFromKeyword (goBytes "create")) = false then
    .ok none
  else if expectToken tokens (initialPointer + 1) (tokenFromKeyword (goBytes "table")) = false then
    .ok none
  else
    match parseToken tokens (initialPointer + 2) .IdentifierToken with
    | none => failWithHelp tokens (initialPointer + 2)
    | some (tableName, newCursor) =>
      if expectToken tokens newCursor (tokenFromSymbol (goBytes "(")) = false then
        failWithHelp tokens newCursor
      else
        (parseColumnDefinitions tokens (newCursor + 1) (tokenFromSymbol (goBytes ")"))).bind
          fun r =>
        match r with
        | none => .ok none
        | some (columns, cursor) => parseCreateEnd tokens tableName columns cursor

/-- The function `parseDropTableStatement`. -/
def parseDropTableStatement (tokens : List Token) (initialPointer : Nat) :
    Res (Option (DropTableStatement × Nat)) :=
  if expectToken tokens initialPointer (tokenFromKeyword (goBytes "drop")) = false then
    .ok none
  else if expectToken tokens (initialPointer + 1) (tokenFromKeyword (goBytes "table")) = false then
    failWithHelp tokens (initialPointer + 1)
  else
    match parseToken tokens (initialPointer + 2) .IdentifierToken with
    | none => failWithHelp tokens (initialPointer + 2)
    | some (tableName, newCursor) =>
      if expectToken tokens newCursor (tokenFromSymbol (goBytes ";")) = false then
        failWithHelp tokens newCursor
      else .ok (some (⟨tableName⟩, newCursor))

/-- The last two attempts of `parseStatement`: `CREATE TABLE`, then
`DROP TABLE`. -/
def parseStatementCreateDrop (tokens : List Token) (initialPointer : Nat) :
    Res (Option (AstStatement × Nat)) :=
  (parseCreateTableStatement tokens initialPointer).bind fun c =>
  match c with
  | some (createStmt, newCursor) =>
    .ok (some (⟨.CreateTableKind, none, some createStmt, none, none⟩, newCursor))
  | none =>
    (parseDropTableStatement tokens initialPointer).bind fun d =>
    match d with
    | some (dropStmt, newCursor) =>
      .ok (some (⟨.DropTableKind, none, none, none, some dropStmt⟩, newCursor))
    | none => .ok none

/-- The function `parseStatement`: `SELECT`, then `INSERT`, then the other
two. -/
def parseStatement (tokens : List Token) (initialPointer : Nat) :
    Res (Option (AstStatement × Nat)) :=
  (parseSelectStatement tokens initialPointer).bind fun s =>
  match s with
  | some (selectStmt, newCursor) =>
    .ok (some (⟨.SelectKind, some selectStmt, none, none, none⟩, newCursor))
  | none =>
    (parseInsertStatement tokens initialPointer).bind fun i =>
    match i with
    | some (insertStmt, newCursor) =>
      .ok (some (⟨.InsertKind, none, none, some insertStmt, none⟩, newCursor))
    | none => parseStatementCreateDrop tokens initialPointer

/-- The number of semicolon tokens at the head of `tokens[pointer:]`, which
the loop `for expectToken(tokens, pointer, ';') { pointer++ }` skips. -/
def countSemicolons : List Token → Nat
  | [] => 0
  | token :: rest =>
    if tokenFromSymbol (goBytes ";") = token then countSemicolons rest + 1 else 0

/-- The loop of `ast.Parse` over the statements, with a bound on the number of
rounds. -/
def parseLoop (tokens : List Token) : Nat → Nat → List AstStatement → Res Ast
  | 0, _, _ => .diverge
  | fuel + 1, pointer, statements =>
    if pointer < tokens.length then
      (parseStatement tokens pointer).bind fun r =>
      match r with
      | none =>
        (helpMessage tokens pointer).bind fun _ => .error "failed to parse, expected statement"
      | some (statement, newCursor) =>
        if countSemicolons (tokens.drop newCursor) = 0 then
          (helpMessage tokens newCursor).bind fun _ =>
            .error "missing semi-colon between statements"
        else
          parseLoop tokens fuel (newCursor + countSemicolons (tokens.drop newCursor))
            (statements ++ [statement])
    else .ok ⟨statements⟩

/-- The method `Parse` of the package `ast`. Every round moves the position
forward, so `len(tokens) + 1` rounds are enough. -/
def ast.Parse (query : List Byte) : Res Ast :=
  (Lex query).bind fun tokens => parseLoop tokens (tokens.length + 1) 0 []

/-! ## The validator (`internal/parser/validator`)

An error is `some message`, `nil` is `none`; the message is the one
`ValidationError.Error` prints. -/

/-- The test `strings.ToUpper(value) == keyword` for a keyword of ASCII capital
letters. `strings.ToUpper` maps code points: an ASCII byte goes to its capital;
of the other code points only U+0131 (bytes 196 177) and U+017F (bytes 197 191)
have an ASCII capital, `I` and `S`; every other code point, and every byte that
is not part of valid UTF-8, gives bytes from 128 on. -/
def upperEquals : List Byte → List Byte → Bool
  | [], [] => true
  | [], _ :: _ => false
  | _ :: _, [] => false
  | c :: rest, k :: ks =>
    if c.val < 128 then upperByte c = k && upperEquals rest ks
    else
      match rest with
      | [] => false
      | d :: rest' =>
        if c = 196 ∧ d = 177 ∧ k = 73 then upperEquals rest' ks
        else if c = 197 ∧ d = 191 ∧ k = 83 then upperEquals rest' ks
        else false

/-- The keywords `validateIdentifier` rejects. -/
def validatorKeywords : List (List Byte) :=
  [goBytes "SELECT", goBytes "FROM", goBytes "INSERT", goBytes "INTO", goBytes "VALUES",
   goBytes "CREATE", goBytes "TABLE", goBytes "DROP", goBytes "INT", goBytes "TEXT",
   goBytes "NULL"]

/-- The bytes of the set that `strings.ContainsAny` looks for in
`validateIdentifier`: blank, tab, newline, carriage return, the round, square
and curly brackets, comma and semicolon. -/
def invalidIdentifierBytes : List Byte := [32, 9, 10, 13, 40, 41, 91, 93, 123, 125, 44, 59]

/-- The method `validateIdentifier`; `context` is "table name" or
"column name". -/
def validateIdentifier (value : List Byte) (context : String) : Option String :=
  if value = [] then some ("Validation error: " ++ context ++ " cannot be empty")
  else if validatorKeywords.any (fun keyword => upperEquals value keyword) then
    some ("Validation error: " ++ context ++ " cannot be a keyword: %s")
  else if value.any (fun b => decide (b ∈ invalidIdentifierBytes)) then
    some ("Validation error: " ++ context ++ " contains invalid characters: %s")
  else none

/-- The method `validateDataType`. -/
def validateDataType (dataType : List Byte) : Option String :=
  if [goBytes "INT", goBytes "TEXT"].any (fun validType => upperEquals dataType validType) then
    none
  else some "Validation error: Invalid data type: %s. Valid types: %s"

/-- The first error of a list of checks, in order. -/
def firstError {α : Type} (check : α → Option String) : List α → Option String
  | [] => none
  | x :: rest =>
    match check x with
    | some e => some e
    | none => firstError check rest

/-- The method `validateSelectStatement`. -/
def validateSelectStatement : Option SelectStatement → Option String
  | none => some "Validation error: SELECT statement is nil"
  | some stmt =>
    if stmt.table.value = [] then some "Validation error: SELECT statement must have FROM clause"
    else
      match validateIdentifier stmt.table.value "table name" with
      | some e => some e
      | none =>
        if stmt.selectedColumns.length = 0 then
          some "Validation error: SELECT statement must specify columns or use *"
        else
          firstError (fun col => validateIdentifier col.literal.value "column name")
            stmt.selectedColumns

/-- The method `validateInsertStatement`. -/
def validateInsertStatement : Option InsertStatement → Option String
  | none => some "Validation error: INSERT statement is nil"
  | some stmt =>
    if stmt.table.value = [] then
      some "Validation error: INSERT statement must specify table name"
    else
      match validateIdentifier stmt.table.value "table name" with
      | some e => some e
      | none =>
        if stmt.values.length = 0 then some "Validation error: INSERT statement must specify values"
        else none

/-- The loop of `validateCreateTableStatement` over the columns, with the names
seen so far. -/
def validateColumns : List columnDefinition → List (List Byte) → Option String
  | [], _ => none
  | col :: rest, columnNames =>
    if col.name.value = [] then some "Validation error: Column %d must have a name"
    else
      match validateIdentifier col.name.value "column name" with
      | some e => some e
      | none =>
        if col.name.value ∈ columnNames then some "Validation error: Duplicate column name: %s"
        else if col.datatype.value = [] then
          some "Validation error: Column %s must have a data type"
        else
          match validateDataType col.datatype.value with
          | some e => some e
          | none => validateColumns rest (col.name.value :: columnNames)

/-- The method `validateCreateTableStatement`. -/
def validateCreateTableStatement : Option CreateTableStatement → Option String
  | none => some "Validation error: CREATE TABLE statement is nil"
  | some stmt =>
    if stmt.table.value = [] then
      some "Validation error: CREATE TABLE statement must specify table name"
    else
      match validateIdentifier stmt.table.value "table name" with
      | some e => some e
      | none =>
        if stmt.columns.length = 0 then
          some "Validation error: CREATE TABLE statement must specify at least one column"
        else validateColumns stmt.columns []

/-- The method `validateDropTableStatement`. -/
def validateDropTableStatement : Option DropTableStatement → Option String
  | none => some "Validation error: DROP TABLE statement is nil"
  | some stmt =>
    if stmt.table.value = [] then
      some "Validation error: DROP TABLE statement must specify table name"
    else validateIdentifier stmt.table.value "table name"

/-- The method `validateStatement`. -/
def validateStatement (statement : AstStatement) : Option String :=
  match statement.kind with
  | .SelectKind => validateSelectStatement statement.selectStatement
  | .InsertKind => validateInsertStatement statement.insertStatement
  | .CreateTableKind => validateCreateTableStatement statement.createTableStatement
  | .DropTableKind => validateDropTableStatement statement.dropTableStatement

/-- The method `ValidateAST`. -/
def ValidateAST (tree : Ast) : Option String :=
  if tree.statements.length = 0 then some "Validation error: No statements found"
  else firstError validateStatement tree.statements

/-- The method `Parse` of the parser service: `ast.Parse`, then the
validator. -/
def Parse (query : List Byte) : Res Ast :=
  (ast.Parse query).bind fun astResult =>
  match ValidateAST astResult with
  | some e => .error e
  | none => .ok astResult


/-! ## The lexer: what the claims speak about -/

/-- The text of a literal between its delimiters, as the dialect describes it:
bytes other than the delimiter, and doubled delimiters. -/
def escapedBody (delimiter : Byte) : List Byte → Bool
  | [] => true
  | [c] => decide (c ≠ delimiter)
  | c :: d :: rest =>
    if c = delimiter then decide (d = delimiter) && escapedBody delimiter rest
    else escapedBody delimiter (d :: rest)

/-- A word: a letter followed by letters, digits, `_` or `$`. -/
def isWord : List Byte → Bool
  | [] => false
  | c :: rest =>
    isAlphabetical c && rest.all fun b => isAlphabetical b || isDigit b || b = 36 || b = 95

/-- The list `s` starts with the list `o`. -/
def startsWith (s o : List Byte) : Bool := decide (s.take o.length = o)

/-- The lower case of a string as `longestMatch` accumulates it, byte by
byte. -/
def lowerAll (s : List Byte) : List Byte := s.flatMap lowerOfByte

/-- A lower-case letter `a`-`z`. -/
def isLowerLetter (c : Byte) : Bool := 97 ≤ c.val && c.val ≤ 122

/-- A byte that may follow the first letter of an identifier. -/
def isWordByte (b : Byte) : Bool := isAlphabetical b || isDigit b || b = 36 || b = 95

/-- The text after a word: the source ends, or the next byte cannot belong to
an identifier. -/
def endsWord : List Byte → Bool
  | [] => true
  | b :: _ => !isWordByte b


/-! ## Results of calls, bytes -/

@[simp] theorem Res_ok_bind {α β : Type} (a : α) (f : α → Res β) : (Res.ok a >>= f) = f a := rfl
@[simp] theorem Res_error_bind {α β : Type} (m : String) (f : α → Res β) :
    ((Res.error m : Res α) >>= f) = Res.error m := rfl
@[simp] theorem Res_panic_bind {α β : Type} (f : α → Res β) :
    ((Res.panic : Res α) >>= f) = Res.panic := rfl
@[simp] theorem Res_diverge_bind {α β : Type} (f : α → Res β) :
    ((Res.diverge : Res α) >>= f) = Res.diverge := rfl
@[simp] theorem Res_pure_eq {α : Type} (a : α) : (pure a : Res α) = Res.ok a := rfl
@[simp] theorem Res_wrapErr_ok {α : Type} (p : String) (a : α) :
    (Res.ok a).wrapErr p = Res.ok a := rfl

theorem u32_of_lt {n : Nat} (h : n < 4294967296) : u32 n = n := by
  unfold u32; omega

theorem beBytes_length (v : Nat) : (beBytes v).length = 4 := rfl

theorem beVal_beBytes_append (v : Nat) (rest : List Byte) :
    beVal (beBytes v ++ rest) = v % 4294967296 := by
  simp only [beBytes, beVal, toByte, List.cons_append, List.nil_append]
  omega

theorem beVal_beBytes (v : Nat) : beVal (beBytes v) = v % 4294967296 := by
  simpa using beVal_beBytes_append v []

theorem u32ToInt32_int32ToU32 (v : Int) (h1 : -2147483648 ≤ v) (h2 : v < 2147483648) :
    u32ToInt32 (int32ToU32 v) = v := by
  unfold u32ToInt32 int32ToU32
  split <;> omega

theorem nullBit_eq_testBit (bm : List Byte) (i : Nat) :
    nullBit bm i = match bm.get? (i / 8) with
      | some b => b.val.testBit (i % 8)
      | none => false := by
  unfold nullBit
  cases h : bm.get? (i / 8) with
  | none => rfl
  | some b =>
    have hm : i % 8 < 8 := Nat.mod_lt _ (by decide)
    have hp : (2:Nat) ^ (i % 8) < 256 := by
      have : (2:Nat) ^ (i % 8) ≤ 2 ^ 7 := Nat.pow_le_pow_right (by decide) (by omega)
      omega
    simp only [Nat.one_shiftLeft, Nat.mod_eq_of_lt hp, Nat.and_two_pow]
    cases hb : b.val.testBit (i % 8) <;> simp [hb]

theorem testBit_lor_mod (x k m : Nat) (hm : m < 8) :
    ((x ||| 2 ^ k) % 256).testBit m = (x.testBit m || decide (k = m)) := by
  have h : ((x ||| 2 ^ k) % 2 ^ 8).testBit m = (x.testBit m || decide (k = m)) := by
    rw [Nat.testBit_mod_two_pow, Nat.testBit_lor, Nat.testBit_two_pow]
    simp [hm]
  exact h

theorem setNullBit_spec (bm : List Byte) (i : Nat) (h : i / 8 < bm.length) :
    ∃ bm', setNullBit bm i = .ok bm' ∧ bm'.length = bm.length ∧
      ∀ j, nullBit bm' j = (decide (j = i) || nullBit bm j) := by
  unfold setNullBit
  have hg : bm.get? (i / 8) = some (bm.get ⟨i / 8, h⟩) := List.get?_eq_get h
  rw [hg]
  refine ⟨_, rfl, by simp, ?_⟩
  intro j
  rw [nullBit_eq_testBit, nullBit_eq_testBit]
  have hm : i % 8 < 8 := Nat.mod_lt _ (by decide)
  have hjm : j % 8 < 8 := Nat.mod_lt _ (by decide)
  have hp : (2:Nat) ^ (i % 8) < 256 := by
    have : (2:Nat) ^ (i % 8) ≤ 2 ^ 7 := Nat.pow_le_pow_right (by decide) (by omega)
    omega
  by_cases hq : j / 8 = i / 8
  · rw [hq, hg]
    simp only [List.get?_eq_getElem?, List.getElem?_set_self h, toByte, Nat.one_shiftLeft,
      Nat.mod_eq_of_lt hp]
    rw [testBit_lor_mod _ _ _ hjm]
    have e2 : decide (i % 8 = j % 8) = decide (j = i) := by
      apply Bool.decide_congr
      constructor
      · intro h'; omega
      · intro h'; rw [h']
    rw [e2]
    simp [Bool.or_comm]
  · have hne : j ≠ i := fun h' => hq (by rw [h'])
    have : (bm.set (i / 8) (toByte ((bm.get ⟨i / 8, h⟩).val ||| 1 <<< (i % 8) % 256))).get? (j / 8)
        = bm.get? (j / 8) := by
      simp only [List.get?_eq_getElem?]
      exact List.getElem?_set_ne (fun h' => hq h'.symm)
    rw [this]
    simp [hne]

theorem fillNullBitmap_spec (row : Row) : ∀ (i : Nat) (bm : List Byte),
    i + row.length ≤ 8 * bm.length →
    ∃ bm', fillNullBitmap i row bm = .ok bm' ∧ bm'.length = bm.length ∧
      ∀ j, nullBit bm' j = (nullBit bm j || (decide (i ≤ j) && rowNull row (j - i))) := by
  induction row with
  | nil =>
    intro i bm _
    refine ⟨bm, rfl, rfl, ?_⟩
    intro j; simp [rowNull]
  | cons cell rest ih =>
    intro i bm hlen
    simp only [List.length_cons] at hlen
    have hrest : ∀ j, (decide (i ≤ j) && rowNull (cell :: rest) (j - i))
        = ((decide (j = i) && cell.isNull) || (decide (i + 1 ≤ j) && rowNull rest (j - (i + 1)))) := by
      intro j
      by_cases h1 : j = i
      · subst h1; simp [rowNull]
      · by_cases h2 : i ≤ j
        · have h3 : i + 1 ≤ j := by omega
          have h4 : j - i = (j - (i + 1)) + 1 := by omega
          simp [h1, h2, h3, rowNull, h4]
        · have h3 : ¬ (i + 1 ≤ j) := by omega
          simp [h1, h2, h3]
    unfold fillNullBitmap
    by_cases hn : cell.isNull = true
    · obtain ⟨bm1, hs, hl1, hb1⟩ := setNullBit_spec bm i (by omega)
      obtain ⟨bm2, hf, hl2, hb2⟩ := ih (i + 1) bm1 (by omega)
      refine ⟨bm2, ?_, by omega, ?_⟩
      · simp [hn, hs, hf]
      · intro j
        rw [hb2, hb1, hrest, hn]
        cases decide (j = i) <;> cases nullBit bm j <;> simp
    · obtain ⟨bm2, hf, hl2, hb2⟩ := ih (i + 1) bm (by omega)
      refine ⟨bm2, ?_, hl2, ?_⟩
      · simp [hn, hf]
      · intro j
        rw [hb2, hrest]
        simp at hn
        simp [hn]

theorem nullBit_makeBytes (n j : Nat) : nullBit (makeBytes n) j = false := by
  rw [nullBit_eq_testBit]
  unfold makeBytes
  cases h : (List.replicate n (0 : Byte)).get? (j / 8) with
  | none => rfl
  | some b =>
    have := List.getElem?_replicate (a := (0 : Byte)) (n := n) (m := j / 8)
    rw [List.get?_eq_getElem?] at h
    rw [h] at this
    split at this
    · cases this; simp
    · cases this

theorem sliceList_mid (pre d post : List Byte) :
    sliceList (pre ++ d ++ post) pre.length (pre.length + d.length) = .ok d := by
  unfold sliceList
  have h : pre.length ≤ pre.length + d.length ∧
      pre.length + d.length ≤ (pre ++ d ++ post).length := by
    simp only [List.length_append]; omega
  rw [if_pos h]
  simp [List.append_assoc, List.drop_left]

theorem sliceList_full (d : List Byte) : sliceList d 0 d.length = .ok d := by
  simpa using sliceList_mid [] d []

theorem sliceList_prefix (d post : List Byte) : sliceList (d ++ post) 0 d.length = .ok d := by
  simpa using sliceList_mid [] d post

theorem sliceList_suffix (pre d : List Byte) :
    sliceList (pre ++ d) pre.length (pre.length + d.length) = .ok d := by
  simpa using sliceList_mid pre d []

theorem serializeInt32_eq (cell : DataCell) (v : Int) (h : cell.data = .int32 v) :
    cell.serializeInt32 = .ok (beBytes (int32ToU32 v)) := by
  unfold DataCell.serializeInt32
  rw [h]
  simp [putUint32, makeBytes, writeAt, beBytes]

theorem serializeText_eq (cell : DataCell) (s : List Byte) (h : cell.data = .str s)
    (hlen : 4 + s.length < 4294967296) :
    cell.serializeText = .ok (beBytes s.length ++ s) := by
  unfold DataCell.serializeText
  rw [h]
  have h1 : u32 s.length = s.length := u32_of_lt (by omega)
  have h2 : u32 (4 + s.length) = 4 + s.length := u32_of_lt hlen
  simp only [h1, h2, putUint32, makeBytes, List.length_replicate]
  have c1 : (0 ≤ 4 ∧ 4 ≤ 4 + s.length) := by omega
  simp only [c1, and_self, if_true, Nat.sub_zero, Nat.le_refl, Res_ok_bind, copyInto]
  have hw : writeAt (List.replicate (4 + s.length) (0 : Byte)) 0 (beBytes s.length)
      = beBytes s.length ++ List.replicate s.length 0 := by
    simp [writeAt, beBytes_length, List.drop_replicate]
  rw [hw]
  have c2 : 4 ≤ (beBytes s.length ++ List.replicate s.length (0 : Byte)).length ∧ True := by
    simp [beBytes_length]
  rw [if_pos c2]
  congr 1
  have hl : (beBytes s.length ++ List.replicate s.length (0 : Byte)).length - 4 = s.length := by
    simp [beBytes_length]
  rw [hl, List.take_length]
  unfold writeAt
  have t4 : List.take 4 (beBytes s.length ++ List.replicate s.length (0 : Byte))
      = beBytes s.length := by
    rw [List.take_append_of_le_length (by simp [beBytes_length])]
    exact List.take_of_length_le (by simp [beBytes_length])
  have d4 : List.drop (4 + s.length) (beBytes s.length ++ List.replicate s.length (0 : Byte))
      = [] := by
    apply List.drop_of_length_le
    simp [beBytes_length]
  rw [t4, d4, List.append_nil]

/-- What `SerializeData` produces for a cell that matches its column. -/
theorem SerializeData_of_matches (column : ColumnInfo) (cell : DataCell)
    (hm : CellMatches column cell) (hsz : cellSize cell < 4294967296) :
    ∃ d, cell.SerializeData = .ok d ∧ d.length = cellSize cell := by
  obtain ⟨ht, hnull, hval⟩ := hm
  unfold DataCell.SerializeData
  cases hn : cell.isNull with
  | true => exact ⟨[], by simp, by simp [cellSize, hn]⟩
  | false =>
    rcases hval hn with ⟨hc, v, hv, _, _⟩ | ⟨hc, s, hs⟩
    · refine ⟨beBytes (int32ToU32 v), ?_, ?_⟩
      · simp [ht, hc, serializeInt32_eq cell v hv]
      · simp [cellSize, hn, hv, beBytes_length]
    · have hsz' : 4 + s.length < 4294967296 := by
        simpa [cellSize, hn, hs] using hsz
      refine ⟨beBytes s.length ++ s, ?_, ?_⟩
      · have : ¬ (TEXT_TYPE = INT_32_TYPE) := by decide
        simp [ht, hc, this, serializeText_eq cell s hs hsz']
      · simp [cellSize, hn, hs, beBytes_length]

theorem deserializeInt32_beBytes (c : DataCell) (n : Nat) :
    deserializeInt32 c (beBytes n) = .ok { c with data := .int32 (u32ToInt32 (beVal (beBytes n))) } := by
  unfold deserializeInt32
  have : sliceList (beBytes n) 0 4 = .ok (beBytes n) := sliceList_full (beBytes n)
  simp [beBytes_length, this]

theorem deserializeText_beBytes (c : DataCell) (s : List Byte) (h : 4 + s.length < 4294967296) :
    deserializeText c (beBytes s.length ++ s) = .ok { c with data := .str s } := by
  unfold deserializeText
  have h0 : sliceList (beBytes s.length ++ s) 0 4 = .ok (beBytes s.length) :=
    sliceList_prefix (beBytes s.length) s
  have hv : beVal (beBytes s.length) = s.length := by
    rw [beVal_beBytes]; omega
  have h2 : u32 (4 + s.length) = 4 + s.length := u32_of_lt h
  have h1 : sliceList (beBytes s.length ++ s) 4 (4 + s.length) = .ok s :=
    sliceList_suffix (beBytes s.length) s
  simp [beBytes_length, h0, hv, h2, h1]

theorem convertColumn_roundtrip (t : RawTuple) (i : Nat) (column : ColumnInfo) (cell : DataCell)
    (pre d post : List Byte) (hm : CellMatches column cell) (hsz : cellSize cell < 4294967296)
    (hd : cell.SerializeData = .ok d) (hdata : t.data = pre ++ d ++ post)
    (hlen : t.data.length < 4294967296) (hbit : nullBit t.nullBitmap i = cell.isNull) :
    convertColumn t i column pre.length = .ok (cell, pre.length + d.length) := by
  obtain ⟨ht, hnull, hval⟩ := hm
  have htl : t.data.length = pre.length + d.length + post.length := by
    rw [hdata]; simp only [List.length_append]
  have hu2 : u32 t.data.length = t.data.length := u32_of_lt hlen
  unfold convertColumn
  cases hn : cell.isNull with
  | true =>
    have hd0 : d = [] := by
      unfold DataCell.SerializeData at hd
      simp [hn] at hd
      exact hd
    have hc : cell = { dataType := column.dataType, data := .null, isNull := true } := by
      cases cell
      simp_all
    simp [hbit, hn, hd0, ← hc]
  | false =>
    rw [hbit, hn]
    simp only [Bool.false_eq_true, if_false]
    rcases hval hn with ⟨hc, v, hv, hv1, hv2⟩ | ⟨hc, s, hs⟩
    · have hd' : d = beBytes (int32ToU32 v) := by
        unfold DataCell.SerializeData at hd
        simp [hn, ht, hc, serializeInt32_eq cell v hv] at hd
        exact hd.symm
      have hdl : d.length = 4 := by rw [hd']; rfl
      have hu : u32 (pre.length + 4) = pre.length + 4 := u32_of_lt (by omega)
      have hsl : sliceList t.data pre.length (pre.length + 4) = .ok d := by
        rw [hdata, ← hdl]; exact sliceList_mid pre d post
      have hcell : cell = { dataType := INT_32_TYPE, data := .int32 v, isNull := false } := by
        cases cell
        simp_all
      have hdec : DeserializeDataCell d INT_32_TYPE false = .ok cell := by
        unfold DeserializeDataCell
        rw [hd']
        simp only [Bool.false_eq_true, if_false, if_true, deserializeInt32_beBytes]
        rw [beVal_beBytes]
        have : int32ToU32 v % 4294967296 = int32ToU32 v := by
          unfold int32ToU32; omega
        rw [this, u32ToInt32_int32ToU32 v hv1 hv2, hcell]
      simp only [hc, if_true, Res_ok_bind, hu, hu2, hsl, hdec, Res_wrapErr_ok, Res_pure_eq, hdl]
      rw [if_neg (by omega)]
    · have hne : ¬ (TEXT_TYPE = INT_32_TYPE) := by decide
      have hsz' : 4 + s.length < 4294967296 := by
        simpa [cellSize, hn, hs] using hsz
      have hd' : d = beBytes s.length ++ s := by
        unfold DataCell.SerializeData at hd
        simp [hn, ht, hc, hne, serializeText_eq cell s hs hsz'] at hd
        exact hd.symm
      have hdl : d.length = 4 + s.length := by rw [hd']; simp [beBytes_length]
      have hu : u32 (pre.length + 4) = pre.length + 4 := u32_of_lt (by omega)
      have hu3 : u32 (4 + s.length) = 4 + s.length := u32_of_lt hsz'
      have hu4 : u32 (pre.length + (4 + s.length)) = pre.length + (4 + s.length) :=
        u32_of_lt (by omega)
      have hsl4 : sliceList t.data pre.length (pre.length + 4) = .ok (beBytes s.length) := by
        have := sliceList_mid pre (beBytes s.length) (s ++ post)
        rw [hdata, hd']
        simpa [List.append_assoc, beBytes_length] using this
      have hv : beVal (beBytes s.length) = s.length := by
        rw [beVal_beBytes]; omega
      have hsl : sliceList t.data pre.length (pre.length + (4 + s.length)) = .ok d := by
        rw [hdata, ← hdl]; exact sliceList_mid pre d post
      have hcell : cell = { dataType := TEXT_TYPE, data := .str s, isNull := false } := by
        cases cell
        simp_all
      have hdec : DeserializeDataCell d TEXT_TYPE false = .ok cell := by
        unfold DeserializeDataCell
        rw [hd']
        simp only [Bool.false_eq_true, if_false, if_true, hne, deserializeText_beBytes _ s hsz']
        rw [hcell]
      simp only [hc, hne, if_false, if_true, hu, hu2, hsl4, Res_ok_bind, Res_pure_eq, hv, hu3, hu4,
        hsl, hdec, Res_wrapErr_ok, hdl]
      rw [if_neg (by omega), if_neg (by omega)]

theorem payloadSize_cons (cell : DataCell) (row : Row) :
    payloadSize (cell :: row) = cellSize cell + payloadSize row := by
  simp [payloadSize]

theorem serializeCells_of_matches : ∀ (cols : List ColumnInfo) (row : Row),
    List.Forall₂ CellMatches cols row → payloadSize row < 4294967296 →
    ∃ d, serializeCells row = .ok d ∧ d.length = payloadSize row := by
  intro cols row h
  induction h with
  | nil => intro _; exact ⟨[], rfl, rfl⟩
  | @cons col cell cols' row' hm _ ih =>
    intro hsz
    rw [payloadSize_cons] at hsz
    obtain ⟨d, hd, hdl⟩ := SerializeData_of_matches col cell hm (by omega)
    obtain ⟨ds, hds, hdsl⟩ := ih (by omega)
    refine ⟨d ++ ds, ?_, ?_⟩
    · simp [serializeCells, hd, hds]
    · simp [List.length_append, hdl, hdsl, payloadSize_cons]

theorem convertColumns_roundtrip (t : RawTuple) (hlen : t.data.length < 4294967296) :
    ∀ (cols : List ColumnInfo) (row : Row), List.Forall₂ CellMatches cols row →
    payloadSize row < 4294967296 →
    ∀ (i : Nat) (pre d : List Byte), serializeCells row = .ok d → t.data = pre ++ d →
    (∀ k, nullBit t.nullBitmap (i + k) = rowNull row k) →
    convertColumns t i cols pre.length = .ok row := by
  intro cols row h
  induction h with
  | nil => intro _ i pre d _ _ _; rfl
  | @cons col cell cols' row' hm hrest ih =>
    intro hsz i pre d hser hdata hbits
    rw [payloadSize_cons] at hsz
    obtain ⟨dc, hdc, hdcl⟩ := SerializeData_of_matches col cell hm (by omega)
    obtain ⟨ds, hds, hdsl⟩ := serializeCells_of_matches cols' row' hrest (by omega)
    have hd : d = dc ++ ds := by
      simp [serializeCells, hdc, hds] at hser
      exact hser.symm
    have hdata' : t.data = pre ++ dc ++ ds := by rw [hdata, hd, List.append_assoc]
    have hb0 : nullBit t.nullBitmap i = cell.isNull := by
      have := hbits 0
      simpa [rowNull] using this
    have hcol := convertColumn_roundtrip t i col cell pre dc ds hm (by omega) hdc hdata' hlen hb0
    have hbits' : ∀ k, nullBit t.nullBitmap (i + 1 + k) = rowNull row' k := by
      intro k
      have := hbits (k + 1)
      have e : i + (k + 1) = i + 1 + k := by omega
      rw [e] at this
      simpa [rowNull] using this
    have hrec := ih (by omega) (i + 1) (pre ++ dc) ds hds hdata' hbits'
    rw [List.length_append] at hrec
    simp [convertColumns, hcol, hrec]

theorem GetSize_of_matches (column : ColumnInfo) (cell : DataCell) (hm : CellMatches column cell) :
    ∃ n, cell.GetSize = .ok n := by
  obtain ⟨ht, _, hval⟩ := hm
  unfold DataCell.GetSize
  cases hn : cell.isNull with
  | true => exact ⟨0, by simp⟩
  | false =>
    rcases hval hn with ⟨hc, _⟩ | ⟨hc, s, hs⟩
    · exact ⟨4, by simp [ht, hc]⟩
    · have hne : ¬ (TEXT_TYPE = INT_32_TYPE) := by decide
      exact ⟨u32 (4 + u32 s.length), by simp [ht, hc, hne, hs]⟩

theorem GetSize_fold_of_matches : ∀ (cols : List ColumnInfo) (row : Row),
    List.Forall₂ CellMatches cols row → ∀ init : Nat,
    ∃ n, row.foldlM (fun (size : Nat) (cell : DataCell) => do
      let c ← cell.GetSize
      pure (u32 (size + c))) init = Res.ok n := by
  intro cols row h
  induction h with
  | nil => intro init; exact ⟨init, rfl⟩
  | @cons col cell cols' row' hm _ ih =>
    intro init
    obtain ⟨c, hc⟩ := GetSize_of_matches col cell hm
    obtain ⟨n, hn⟩ := ih (u32 (init + c))
    refine ⟨n, ?_⟩
    rw [List.foldlM_cons, hc]
    exact hn

theorem RowGetSize_of_matches (cols : List ColumnInfo) (row : Row)
    (h : List.Forall₂ CellMatches cols row) : ∃ n, Row.GetSize row = .ok n := by
  obtain ⟨n, hn⟩ := GetSize_fold_of_matches cols row h 0
  unfold Row.GetSize
  rw [hn]
  exact ⟨_, rfl⟩

theorem CalculateNullBitmapSize_of_range (n : Nat) (h1 : 1 ≤ n) (h2 : n ≤ 32) :
    ∃ k, CalculateNullBitmapSize (n : Int) = .ok k ∧ n ≤ 8 * k := by
  unfold CalculateNullBitmapSize MAX_TABLE_COLUMNS_AMOUNT u32
  rw [if_neg (by omega), if_neg (by push_cast; omega)]
  exact ⟨_, rfl, by omega⟩

/-- C1 (as amended): for every schema of 1 to 32 columns and every row with one
cell per column, each cell of its column's type (a null cell carrying no value,
an Int32 cell an `int32`, a Text cell a string), whose payload is shorter than
2^32 bytes, `ConvertRowToRawTuple` succeeds and `ConvertRawTupleToRow` of its
result under the schema succeeds and returns exactly the row. -/
theorem C1_row_tuple_roundtrip (columns : List ColumnInfo) (row : Row)
    (hcols : 1 ≤ columns.length ∧ columns.length ≤ 32)
    (hm : List.Forall₂ CellMatches columns row)
    (hsz : payloadSize row < 4294967296) :
    ∃ t, ConvertRowToRawTuple row = .ok t ∧ ConvertRawTupleToRow t columns = .ok row := by
  have hlen : row.length = columns.length := hm.length_eq.symm
  obtain ⟨k, hk, hk8⟩ := CalculateNullBitmapSize_of_range row.length (by omega) (by omega)
  obtain ⟨bm, hbm, _, hbits⟩ := fillNullBitmap_spec row 0 (makeBytes k)
    (by simp [makeBytes]; omega)
  obtain ⟨sz, hsz'⟩ := RowGetSize_of_matches columns row hm
  obtain ⟨d, hd, hdl⟩ := serializeCells_of_matches columns row hm hsz
  have hne : row.length ≠ 0 := by omega
  refine ⟨{ length := u32 (TUPLE_LENGTH_FIELD_SIZE + TUPLE_NULL_BITMAP_SIZE + k + u32 d.length),
            nullBitmapSize := k, nullBitmap := bm, data := d }, ?_, ?_⟩
  · unfold ConvertRowToRawTuple
    simp [hne, hk, hbm, hsz', hd]
  · unfold ConvertRawTupleToRow
    have := convertColumns_roundtrip
      { length := u32 (TUPLE_LENGTH_FIELD_SIZE + TUPLE_NULL_BITMAP_SIZE + k + u32 d.length),
        nullBitmapSize := k, nullBitmap := bm, data := d }
      (by simp only [hdl]; exact hsz) columns row hm hsz 0 [] d hd (by simp)
      (by intro j; rw [hbits]; simp [nullBit_makeBytes])
    simpa using this

/-- C1 (witness): the amended round trip at the two-cell row `exampleRow` over
`exampleColumns`. -/
theorem C1_row_tuple_roundtrip_witness :
    ∃ t, ConvertRowToRawTuple exampleRow = .ok t ∧
      ConvertRawTupleToRow t exampleColumns = .ok exampleRow :=
  C1_row_tuple_roundtrip exampleColumns exampleRow (by decide)
    (List.Forall₂.cons
      ⟨rfl, by simp [exampleRow], fun _ => Or.inl ⟨rfl, -3, rfl, by decide, by decide⟩⟩
      (List.Forall₂.cons
        ⟨rfl, by simp [exampleRow], fun _ => Or.inr ⟨rfl, [104, 105], rfl⟩⟩
        List.Forall₂.nil))
    (by decide)

theorem hugeText_length : hugeText.length = 4294967296 := List.length_replicate _ _

theorem serializeText_hugeTextCell : hugeTextCell.serializeText = .ok [0, 0, 0, 0] := by
  unfold DataCell.serializeText
  have hd : hugeTextCell.data = .str hugeText := rfl
  rw [hd]
  have h0 : u32 hugeText.length = 0 := by rw [hugeText_length]; rfl
  simp only [h0]
  have h4 : makeBytes (u32 (4 + 0)) = [0, 0, 0, 0] := rfl
  rw [h4]
  have hp : putUint32 [0, 0, 0, 0] 0 4 0 = .ok [0, 0, 0, 0] := rfl
  rw [hp]
  simp only [Res_ok_bind, copyInto, List.length_cons, List.length_nil]
  rw [if_pos (by decide)]
  have : (0 + 1 + 1 + 1 + 1 - 4) = 0 := rfl
  rw [this, List.take_zero]
  rfl

/-- C1 (counterexample): the one-cell row holding a Text of 2^32 bytes matches
the one-column Text schema, yet converting it to a tuple and back does not
return it: its length prefix wraps to 0 and the decoded text is empty. -/
theorem C1_counterexample_huge_text :
    (1 ≤ [textColumn].length ∧ [textColumn].length ≤ 32) ∧
    List.Forall₂ CellMatches [textColumn] [hugeTextCell] ∧
    ConvertRowToRawTuple [hugeTextCell] =
      .ok { length := 13, nullBitmapSize := 1, nullBitmap := [0], data := [0, 0, 0, 0] } ∧
    ConvertRawTupleToRow
      { length := 13, nullBitmapSize := 1, nullBitmap := [0], data := [0, 0, 0, 0] } [textColumn] =
      .ok [{ dataType := TEXT_TYPE, data := .str [], isNull := false }] ∧
    ¬ ∃ t, ConvertRowToRawTuple [hugeTextCell] = .ok t ∧
      ConvertRawTupleToRow t [textColumn] = .ok [hugeTextCell] := by
  have hconv : ConvertRowToRawTuple [hugeTextCell] =
      .ok { length := 13, nullBitmapSize := 1, nullBitmap := [0], data := [0, 0, 0, 0] } := by
    have hser : hugeTextCell.SerializeData = .ok [0, 0, 0, 0] := by
      unfold DataCell.SerializeData
      have h1 : hugeTextCell.isNull = false := rfl
      have h2 : hugeTextCell.dataType = TEXT_TYPE := rfl
      rw [h1, h2, serializeText_hugeTextCell]
      rfl
    have hgs : hugeTextCell.GetSize = .ok 4 := by
      unfold DataCell.GetSize
      have h1 : hugeTextCell.isNull = false := rfl
      have h2 : hugeTextCell.dataType = TEXT_TYPE := rfl
      have hd : hugeTextCell.data = .str hugeText := rfl
      rw [h1, h2, hd]
      have h0 : u32 hugeText.length = 0 := by rw [hugeText_length]; rfl
      simp only [h0]
      rfl
    have hrs : Row.GetSize [hugeTextCell] = .ok 13 := by
      unfold Row.GetSize
      rw [List.foldlM_cons, hgs]
      rfl
    have hb : fillNullBitmap 0 [hugeTextCell] (makeBytes 1) = .ok [0] := rfl
    have hsc : serializeCells [hugeTextCell] = .ok [0, 0, 0, 0] := by
      unfold serializeCells
      rw [hser]
      rfl
    unfold ConvertRowToRawTuple
    have hk : (if [hugeTextCell].length = 0 then 1
        else match CalculateNullBitmapSize ([hugeTextCell].length : Nat) with
          | .ok n => n
          | _ => 1) = 1 := rfl
    simp only [hk, hb, hrs, hsc, Res_ok_bind]
    rfl
  have hback : ConvertRawTupleToRow
      { length := 13, nullBitmapSize := 1, nullBitmap := [0], data := [0, 0, 0, 0] } [textColumn] =
      .ok [{ dataType := TEXT_TYPE, data := .str [], isNull := false }] := by
    decide
  refine ⟨by decide, ?_, hconv, hback, ?_⟩
  · exact List.Forall₂.cons
      ⟨rfl, (fun h => Bool.noConfusion h), fun _ => Or.inr ⟨rfl, hugeText, rfl⟩⟩ List.Forall₂.nil
  · rintro ⟨t, h1, h2⟩
    rw [hconv] at h1
    have h1' := Res.ok.inj h1
    rw [← h1', hback] at h2
    have h3 : (CellData.str [] : CellData) = CellData.str hugeText :=
      congrArg DataCell.data (List.cons.inj (Res.ok.inj h2)).1
    have h4 : ([] : List Byte).length = hugeText.length :=
      congrArg List.length (CellData.str.inj h3)
    rw [hugeText_length] at h4
    exact absurd h4 (by decide)

/-! ## Byte buffers -/

theorem length_writeAt (buf : List Byte) (off : Nat) (src : List Byte)
    (h : off + src.length ≤ buf.length) : (writeAt buf off src).length = buf.length := by
  unfold writeAt
  simp only [List.length_append, List.length_take, List.length_drop]
  omega

theorem getElem?_writeAt (buf : List Byte) (off : Nat) (src : List Byte)
    (h : off + src.length ≤ buf.length) (i : Nat) :
    (writeAt buf off src)[i]? =
      if off ≤ i ∧ i < off + src.length then src[i - off]? else buf[i]? := by
  unfold writeAt
  have hl : (List.take off buf).length = off := by
    rw [List.length_take]; omega
  by_cases h1 : i < off
  · rw [List.append_assoc, List.getElem?_append_left (by omega), List.getElem?_take_of_lt h1,
      if_neg (by omega)]
  · by_cases h2 : i < off + src.length
    · rw [List.getElem?_append_left (by simp only [List.length_append, hl]; omega),
        List.getElem?_append_right (by omega), hl, if_pos (by omega)]
    · rw [List.getElem?_append_right (by simp only [List.length_append, hl]; omega),
        List.getElem?_drop, if_neg (by omega)]
      congr 1
      simp only [List.length_append, hl]
      omega

theorem getElem?_window (buf : List Byte) (a n i : Nat) :
    (window buf a n)[i]? = if i < n then buf[a + i]? else none := by
  unfold window
  rw [List.getElem?_take, List.getElem?_drop]

theorem length_window (buf : List Byte) (a n : Nat) (h : a + n ≤ buf.length) :
    (window buf a n).length = n := by
  unfold window
  rw [List.length_take, List.length_drop]
  omega

theorem window_writeAt_same (buf : List Byte) (off : Nat) (src : List Byte)
    (h : off + src.length ≤ buf.length) :
    window (writeAt buf off src) off src.length = src := by
  apply List.ext_getElem?
  intro i
  rw [getElem?_window, getElem?_writeAt buf off src h]
  by_cases hi : i < src.length
  · rw [if_pos hi, if_pos (by omega)]
    congr 1
    omega
  · rw [if_neg hi, List.getElem?_eq_none (by omega)]

theorem window_writeAt_disjoint (buf : List Byte) (off : Nat) (src : List Byte)
    (h : off + src.length ≤ buf.length) (a n : Nat)
    (hd : a + n ≤ off ∨ off + src.length ≤ a) :
    window (writeAt buf off src) a n = window buf a n := by
  apply List.ext_getElem?
  intro i
  rw [getElem?_window, getElem?_window, getElem?_writeAt buf off src h]
  by_cases hi : i < n
  · rw [if_pos hi, if_pos hi, if_neg (by omega)]
  · rw [if_neg hi, if_neg hi]

theorem window_window (buf : List Byte) (a n b m : Nat) (h : b + m ≤ n) :
    window (window buf a n) b m = window buf (a + b) m := by
  apply List.ext_getElem?
  intro i
  rw [getElem?_window, getElem?_window, getElem?_window]
  by_cases hi : i < m
  · rw [if_pos hi, if_pos hi, if_pos (by omega)]
    congr 1
    omega
  · rw [if_neg hi, if_neg hi]

theorem window_mid (pre d post : List Byte) :
    window (pre ++ d ++ post) pre.length d.length = d := by
  unfold window
  simp [List.append_assoc, List.drop_left]

theorem window_zero_length (buf : List Byte) : window buf 0 buf.length = buf := by
  simpa using window_mid [] buf []

theorem writeAt_mid (pre x post y : List Byte) (h : x.length = y.length) :
    writeAt (pre ++ x ++ post) pre.length y = pre ++ y ++ post := by
  unfold writeAt
  have h1 : List.take pre.length (pre ++ x ++ post) = pre := by
    rw [List.append_assoc, List.take_left]
  have h2 : List.drop (pre.length + y.length) (pre ++ x ++ post) = post := by
    have : pre.length + y.length = (pre ++ x).length := by
      rw [List.length_append, h]
    rw [this, List.drop_left]
  rw [h1, h2]

theorem copyInto_mid (pre x post y : List Byte) (h : x.length = y.length) :
    copyInto (pre ++ x ++ post) pre.length (pre.length + y.length) y = .ok (pre ++ y ++ post) := by
  unfold copyInto
  rw [if_pos (by simp only [List.length_append, h]; omega)]
  have : pre.length + y.length - pre.length = y.length := by omega
  rw [this, List.take_length, writeAt_mid pre x post y h]

theorem putUint32_mid (pre x post : List Byte) (v : Nat) (h : x.length = 4) :
    putUint32 (pre ++ x ++ post) pre.length (pre.length + 4) v = .ok (pre ++ beBytes v ++ post) := by
  unfold putUint32
  rw [if_pos (by simp only [List.length_append, h]; omega), if_pos (by omega),
    writeAt_mid pre x post (beBytes v) (by rw [h]; rfl)]

/-! ## Serialized forms of headers, slots and tuples -/

theorem PageHeader_Serialize_eq (h : PageHeader) : h.Serialize = .ok h.bytes := by
  unfold PageHeader.Serialize PageHeader.bytes
  simp [putUint32, writeAt, makeBytes, PAGE_HEADER_SIZE, beBytes]

theorem PageSlot_Serialize_eq (s : PageSlot) : s.Serialize = .ok s.bytes := by
  unfold PageSlot.Serialize PageSlot.bytes
  simp [putUint32, writeAt, makeBytes, SLOT_SIZE, beBytes]

theorem PageHeader_length_bytes (h : PageHeader) : h.bytes.length = 16 := rfl

theorem PageSlot_length_bytes (s : PageSlot) : s.bytes.length = 12 := rfl

theorem RawTuple_length_bytes (t : RawTuple) :
    t.bytes.length = 8 + t.nullBitmap.length + t.data.length := by
  unfold RawTuple.bytes
  simp only [List.length_append, beBytes_length]

theorem RawTuple_Serialize_eq (t : RawTuple) (hb : t.nullBitmap.length = t.nullBitmapSize)
    (hl : t.length = 8 + t.nullBitmapSize + t.data.length) (hlt : t.length < 4294967296) :
    t.Serialize = .ok t.bytes := by
  unfold RawTuple.Serialize RawTuple.bytes
  have hu : u32 (8 + t.nullBitmapSize) = 8 + t.nullBitmapSize := u32_of_lt (by omega)
  have h0 : makeBytes t.length = [] ++ List.replicate 4 0 ++
      (List.replicate 4 0 ++ List.replicate t.nullBitmapSize 0 ++ List.replicate t.data.length 0) := by
    unfold makeBytes
    rw [hl]
    simp only [List.nil_append, ← List.replicate_add]
    congr 1
    omega
  have s1 : putUint32 (makeBytes t.length) 0 4 t.length = .ok (beBytes t.length ++
      (List.replicate 4 0 ++ List.replicate t.nullBitmapSize 0 ++ List.replicate t.data.length 0)) := by
    rw [h0]
    exact putUint32_mid [] (List.replicate 4 0) _ t.length (by simp)
  have s2 : putUint32 (beBytes t.length ++
      (List.replicate 4 0 ++ List.replicate t.nullBitmapSize 0 ++ List.replicate t.data.length 0))
      4 8 t.nullBitmapSize = .ok (beBytes t.length ++ beBytes t.nullBitmapSize ++
        List.replicate t.nullBitmapSize 0 ++ List.replicate t.data.length 0) := by
    have := putUint32_mid (beBytes t.length) (List.replicate 4 0)
      (List.replicate t.nullBitmapSize 0 ++ List.replicate t.data.length 0)
      t.nullBitmapSize (by simp)
    simpa only [beBytes_length, List.append_assoc] using this
  have s3 : copyInto (beBytes t.length ++ beBytes t.nullBitmapSize ++
        List.replicate t.nullBitmapSize 0 ++ List.replicate t.data.length 0)
      8 (8 + t.nullBitmapSize) t.nullBitmap = .ok (beBytes t.length ++ beBytes t.nullBitmapSize ++
        t.nullBitmap ++ List.replicate t.data.length 0) := by
    have := copyInto_mid (beBytes t.length ++ beBytes t.nullBitmapSize)
      (List.replicate t.nullBitmapSize 0) (List.replicate t.data.length 0) t.nullBitmap
      (by simp [hb])
    simpa only [List.length_append, beBytes_length, hb] using this
  have s4 : copyInto (beBytes t.length ++ beBytes t.nullBitmapSize ++
        t.nullBitmap ++ List.replicate t.data.length 0)
      (8 + t.nullBitmapSize) t.length t.data = .ok (beBytes t.length ++ beBytes t.nullBitmapSize ++
        t.nullBitmap ++ t.data) := by
    have := copyInto_mid (beBytes t.length ++ beBytes t.nullBitmapSize ++ t.nullBitmap)
      (List.replicate t.data.length 0) [] t.data (by simp)
    simp only [List.length_append, beBytes_length, hb, List.append_nil] at this
    have e : 4 + 4 + t.nullBitmapSize + t.data.length = t.length := by omega
    have e2 : 4 + 4 + t.nullBitmapSize = 8 + t.nullBitmapSize := by omega
    rw [e, e2] at this
    exact this
  simp only [s1, Res_ok_bind, s2, hu, s3, s4, Res_pure_eq]


/-! ## What `RawPage.Serialize` writes -/

theorem copyInto_exact (buf : List Byte) (off : Nat) (src : List Byte)
    (h : off + src.length ≤ buf.length) :
    copyInto buf off (off + src.length) src = .ok (writeAt buf off src) := by
  unfold copyInto
  rw [if_pos (by omega)]
  have : off + src.length - off = src.length := by omega
  rw [this, List.take_length]

theorem serializeSlots_spec : ∀ (slots : List PageSlot) (i : Nat) (data : List Byte),
    16 + 12 * (i + slots.length) ≤ data.length →
    ∃ out, serializeSlots i slots data = .ok out ∧ out.length = data.length ∧
      (∀ j s, slots[j]? = some s → window out (16 + 12 * (i + j)) 12 = s.bytes) ∧
      (∀ a n, (a + n ≤ 16 + 12 * i ∨ 16 + 12 * (i + slots.length) ≤ a) →
        window out a n = window data a n) := by
  intro slots
  induction slots with
  | nil =>
    intro i data _
    exact ⟨data, rfl, rfl, by intro j s h; simp at h, by intro a n _; rfl⟩
  | cons slot rest ih =>
    intro i data hlen
    simp only [List.length_cons] at hlen
    have hw : 16 + i * 12 + slot.bytes.length ≤ data.length := by
      rw [PageSlot_length_bytes]; omega
    have hc := copyInto_exact data (16 + i * 12) slot.bytes hw
    rw [PageSlot_length_bytes] at hc
    have hl1 := length_writeAt data (16 + i * 12) slot.bytes hw
    obtain ⟨out, hout, hlo, hslots, hframe⟩ :=
      ih (i + 1) (writeAt data (16 + i * 12) slot.bytes) (by rw [hl1]; omega)
    refine ⟨out, ?_, by rw [hlo, hl1], ?_, ?_⟩
    · unfold serializeSlots
      simp only [PageSlot_Serialize_eq, Res_ok_bind, PAGE_HEADER_SIZE, SLOT_SIZE, hc, hout]
    · intro j s hj
      cases j with
      | zero =>
        simp only [List.getElem?_cons_zero, Option.some.injEq] at hj
        subst hj
        rw [hframe (16 + 12 * (i + 0)) 12 (Or.inl (by omega))]
        have := window_writeAt_same data (16 + i * 12) slot.bytes hw
        rw [PageSlot_length_bytes] at this
        have e : 16 + 12 * (i + 0) = 16 + i * 12 := by omega
        rw [e]; exact this
      | succ j =>
        simp only [List.getElem?_cons_succ] at hj
        have := hslots j s hj
        have e : 16 + 12 * (i + (j + 1)) = 16 + 12 * (i + 1 + j) := by omega
        rw [e]; exact this
    · intro a n hd
      simp only [List.length_cons] at hd
      rw [hframe a n (by omega)]
      exact window_writeAt_disjoint data (16 + i * 12) slot.bytes hw a n
        (by rw [PageSlot_length_bytes]; omega)

theorem serializeTuples_spec (slots : List PageSlot) :
    ∀ (ss : List PageSlot) (ts : List RawTuple),
    List.Forall₂ (fun (s : PageSlot) (t : RawTuple) => s.length = t.length) ss ts →
    ∀ (pre : List PageSlot) (data : List Byte), slots = pre ++ ss →
    (∀ t ∈ ts, t.nullBitmap.length = t.nullBitmapSize ∧
      t.length = 8 + t.nullBitmapSize + t.data.length) →
    (∀ s ∈ ss, s.offset + s.length ≤ data.length) → data.length < 4294967296 →
    ss.Pairwise PageSlot.Disjoint →
    ∃ out, serializeTuples slots pre.length ts data = .ok out ∧ out.length = data.length ∧
      List.Forall₂ (fun (s : PageSlot) (t : RawTuple) =>
        window out s.offset s.length = t.bytes) ss ts ∧
      (∀ a n, (∀ s ∈ ss, a + n ≤ s.offset ∨ s.offset + s.length ≤ a) →
        window out a n = window data a n) := by
  intro ss ts h
  induction h with
  | nil =>
    intro pre data _ _ _ _ _
    exact ⟨data, rfl, rfl, List.Forall₂.nil, by intro a n _; rfl⟩
  | @cons s t ss' ts' hst _ ih =>
    intro pre data hslots htup hext hlen hdisj
    have hs := hext s (List.mem_cons_self _ _)
    obtain ⟨htb, htl⟩ := htup t (List.mem_cons_self _ _)
    have hget : slots.get? pre.length = some s := by
      rw [hslots, List.get?_eq_getElem?, List.getElem?_append_right (Nat.le_refl _)]
      simp
    have hu : u32 (s.offset + s.length) = s.offset + s.length := u32_of_lt (by omega)
    have hser : t.Serialize = .ok t.bytes := RawTuple_Serialize_eq t htb htl (by omega)
    have hbl : t.bytes.length = s.length := by
      rw [RawTuple_length_bytes, htb, hst]; omega
    have hw : s.offset + t.bytes.length ≤ data.length := by rw [hbl]; exact hs
    have hc := copyInto_exact data s.offset t.bytes hw
    rw [hbl] at hc
    have hl1 := length_writeAt data s.offset t.bytes hw
    rw [List.pairwise_cons] at hdisj
    obtain ⟨out, hout, hlo, hall, hframe⟩ := ih (pre ++ [s]) (writeAt data s.offset t.bytes)
      (by rw [hslots]; simp)
      (fun t' ht' => htup t' (List.mem_cons_of_mem _ ht'))
      (fun s' hs' => by rw [hl1]; exact hext s' (List.mem_cons_of_mem _ hs'))
      (by rw [hl1]; exact hlen) hdisj.2
    have hpl : (pre ++ [s]).length = pre.length + 1 := by simp
    rw [hpl] at hout
    refine ⟨out, ?_, by rw [hlo, hl1], ?_, ?_⟩
    · unfold serializeTuples
      simp only [hget, hser, Res_ok_bind, hu, hc, hout]
    · refine List.Forall₂.cons ?_ hall
      rw [hframe s.offset s.length (fun s' hs' => hdisj.1 s' hs')]
      have := window_writeAt_same data s.offset t.bytes hw
      rw [hbl] at this
      exact this
    · intro a n hd
      rw [hframe a n (fun s' hs' => hd s' (List.mem_cons_of_mem _ hs'))]
      exact window_writeAt_disjoint data s.offset t.bytes hw a n
        (by rw [hbl]; exact hd s (List.mem_cons_self _ _))

/-- The layout of the bytes `RawPage.Serialize` produces for a valid page. -/
theorem RawPage_Serialize_layout (p : RawPage) (hv : p.Valid) :
    ∃ out, p.Serialize = .ok out ∧ out.length = 4096 ∧
      window out 0 16 = p.header.bytes ∧
      (∀ j s, p.slots[j]? = some s → window out (16 + 12 * j) 12 = s.bytes) ∧
      List.Forall₂ (fun (s : PageSlot) (t : RawTuple) =>
        window out s.offset s.length = t.bytes) p.slots p.rawTuples := by
  have hm : (makeBytes PAGE_SIZE).length = 4096 := by
    simp only [makeBytes, PAGE_SIZE, List.length_replicate]
  have hw0 : 0 + p.header.bytes.length ≤ (makeBytes PAGE_SIZE).length := by
    rw [hm, PageHeader_length_bytes]; omega
  have hc0 := copyInto_exact (makeBytes PAGE_SIZE) 0 p.header.bytes hw0
  have hl0 := length_writeAt (makeBytes PAGE_SIZE) 0 p.header.bytes hw0
  rw [hm] at hl0
  have hslotsle : 16 + 12 * p.slots.length ≤ 4096 := by
    cases hs : p.slots with
    | nil => simp
    | cons s rest =>
      have := hv.slot_ok s (by rw [hs]; exact List.mem_cons_self _ _)
      rw [hv.count_slots, hs] at this
      simp only [PAGE_HEADER_SIZE, SLOT_SIZE, PAGE_SIZE] at this
      omega
  obtain ⟨d1, hd1, hl1, hs1, hf1⟩ := serializeSlots_spec p.slots 0
    (writeAt (makeBytes PAGE_SIZE) 0 p.header.bytes) (by rw [hl0]; omega)
  obtain ⟨d2, hd2, hl2, hs2, hf2⟩ := serializeTuples_spec p.slots p.slots p.rawTuples
    hv.slot_tuple [] d1 rfl hv.tuple_ok
    (fun s hs => by
      have := (hv.slot_ok s hs).2.2
      simp only [PAGE_SIZE] at this
      rw [hl1, hl0]; exact this)
    (by rw [hl1, hl0]; decide) hv.disjoint
  have hext : ∀ s ∈ p.slots, 16 + 12 * p.slots.length ≤ s.offset := by
    intro s hs
    have := (hv.slot_ok s hs).2.1
    rw [hv.count_slots] at this
    simpa only [PAGE_HEADER_SIZE, SLOT_SIZE] using this
  refine ⟨d2, ?_, by rw [hl2, hl1, hl0], ?_, ?_, hs2⟩
  · unfold RawPage.Serialize
    simp only [PageHeader_Serialize_eq, Res_ok_bind, Res_pure_eq]
    rw [PageHeader_length_bytes] at hc0
    simp only [PAGE_HEADER_SIZE] at hc0 ⊢
    simp only [hc0, Res_ok_bind, hd1]
    simp only [List.length_nil] at hd2
    rw [hd2]
    rfl
  · rw [hf2 0 16 (fun s hs => Or.inl (by have := hext s hs; omega)),
      hf1 0 16 (Or.inl (by omega))]
    have := window_writeAt_same (makeBytes PAGE_SIZE) 0 p.header.bytes hw0
    rw [PageHeader_length_bytes] at this
    exact this
  · intro j s hj
    have hjl : j < p.slots.length := by
      by_contra hcon
      rw [List.getElem?_eq_none (by omega)] at hj
      cases hj
    rw [hf2 (16 + 12 * j) 12 (fun s' hs' => Or.inl (by have := hext s' hs'; omega))]
    have := hs1 j s hj
    simpa using this


/-! ## Reading from slices -/

theorem Slice_length_bytes (s : Slice) (hwf : s.len ≤ s.mem.length) : s.bytes.length = s.len := by
  unfold Slice.bytes
  rw [List.length_take]
  omega

theorem Slice_reslice_within (s : Slice) (hwf : s.len ≤ s.mem.length) (lo hi : Nat)
    (h1 : lo ≤ hi) (h2 : hi ≤ s.len) :
    ∃ s', s.reslice lo hi = .ok s' ∧ s'.len = hi - lo ∧ s'.len ≤ s'.mem.length ∧
      s'.bytes = window s.bytes lo (hi - lo) := by
  refine ⟨⟨s.mem.drop lo, hi - lo⟩, ?_, rfl, ?_, ?_⟩
  · unfold Slice.reslice
    rw [if_pos ⟨h1, by omega⟩]
  · simp only [List.length_drop]; omega
  · unfold Slice.bytes
    apply List.ext_getElem?
    intro i
    rw [getElem?_window, List.getElem?_take, List.getElem?_drop, List.getElem?_take]
    by_cases hi' : i < hi - lo
    · rw [if_pos hi', if_pos hi', if_pos (by omega)]
    · rw [if_neg hi', if_neg hi']

theorem Slice_read_u32 (s : Slice) (hwf : s.len ≤ s.mem.length) (lo hi : Nat)
    (h : hi = lo + 4) (h2 : hi ≤ s.len) {β : Type} (f : Nat → Res β) :
    (s.reslice lo hi >>= fun x => x.uint32 >>= f) = f (beVal (window s.bytes lo 4)) := by
  obtain ⟨s', hs', hl, _, hb⟩ := Slice_reslice_within s hwf lo hi (by omega) h2
  have e : hi - lo = 4 := by omega
  rw [e] at hl hb
  rw [hs']
  simp only [Res_ok_bind, Slice.uint32, hl, Nat.le_refl, if_true, hb]

theorem window_bytes4 (a b c d : List Byte) (ha : a.length = 4) (hb : b.length = 4)
    (hc : c.length = 4) :
    window (a ++ b ++ c ++ d) 0 4 = a ∧ window (a ++ b ++ c ++ d) 4 4 = b ∧
    window (a ++ b ++ c ++ d) 8 4 = c := by
  refine ⟨?_, ?_, ?_⟩
  · have := window_mid [] a (b ++ c ++ d)
    simpa [ha, List.append_assoc] using this
  · have := window_mid a b (c ++ d)
    simpa [ha, hb, List.append_assoc] using this
  · have := window_mid (a ++ b) c d
    simpa [ha, hb, hc, List.append_assoc] using this

theorem PageHeader_Deserialize_of_bytes (s : Slice) (hwf : s.len ≤ s.mem.length)
    (h : PageHeader) (hb : s.bytes = h.bytes) (h1 : h.pageID < 4294967296)
    (h2 : h.recordCount < 4294967296) (h3 : h.lower < 4294967296)
    (h4 : h.upper < 4294967296) : PageHeader.Deserialize s = .ok h := by
  have hlen : s.len = 16 := by
    rw [← Slice_length_bytes s hwf, hb]; rfl
  unfold PageHeader.Deserialize
  rw [if_neg (by rw [hlen]; decide)]
  rw [Slice_read_u32 s hwf 0 4 rfl (by omega), Slice_read_u32 s hwf 4 8 rfl (by omega),
    Slice_read_u32 s hwf 8 12 rfl (by omega), Slice_read_u32 s hwf 12 16 rfl (by omega), hb]
  obtain ⟨w0, w1, w2⟩ := window_bytes4 (beBytes h.pageID) (beBytes h.recordCount)
    (beBytes h.lower) (beBytes h.upper) rfl rfl rfl
  have w3 : window (beBytes h.pageID ++ beBytes h.recordCount ++ beBytes h.lower ++
      beBytes h.upper) 12 4 = beBytes h.upper := by
    have := window_mid (beBytes h.pageID ++ beBytes h.recordCount ++ beBytes h.lower)
      (beBytes h.upper) []
    simpa [beBytes_length] using this
  unfold PageHeader.bytes
  rw [w0, w1, w2, w3]
  simp only [beVal_beBytes, Nat.mod_eq_of_lt h1, Nat.mod_eq_of_lt h2, Nat.mod_eq_of_lt h3,
    Nat.mod_eq_of_lt h4, Res_pure_eq]


theorem PageSlot_Deserialize_of_bytes (s : Slice) (hwf : s.len ≤ s.mem.length)
    (p : PageSlot) (hb : s.bytes = p.bytes) (h1 : p.offset < 4294967296)
    (h2 : p.length < 4294967296) (h3 : p.flags < 4294967296) :
    PageSlot.Deserialize s = .ok p := by
  have hlen : s.len = 12 := by
    rw [← Slice_length_bytes s hwf, hb]; rfl
  unfold PageSlot.Deserialize
  rw [if_neg (by rw [hlen]; decide)]
  rw [Slice_read_u32 s hwf 0 4 rfl (by omega), Slice_read_u32 s hwf 4 8 rfl (by omega),
    Slice_read_u32 s hwf 8 12 rfl (by omega), hb]
  obtain ⟨w0, w1, w2⟩ := window_bytes4 (beBytes p.offset) (beBytes p.length)
    (beBytes p.flags) [] rfl rfl rfl
  simp only [List.append_nil] at w0 w1 w2
  unfold PageSlot.bytes
  rw [w0, w1, w2]
  simp only [beVal_beBytes, Nat.mod_eq_of_lt h1, Nat.mod_eq_of_lt h2, Nat.mod_eq_of_lt h3,
    Res_pure_eq]

theorem RawTuple_Deserialize_of_bytes (s : Slice) (hwf : s.len ≤ s.mem.length)
    (t : RawTuple) (hb : s.bytes = t.bytes) (hbm : t.nullBitmap.length = t.nullBitmapSize)
    (hl : t.length = 8 + t.nullBitmapSize + t.data.length) (hlt : t.length < 4294967296) :
    RawTuple.Deserialize s = .ok t := by
  have hlen : s.len = t.length := by
    rw [← Slice_length_bytes s hwf, hb, RawTuple_length_bytes, hbm, hl]
  have hu : u32 (8 + t.nullBitmapSize) = 8 + t.nullBitmapSize := u32_of_lt (by omega)
  unfold RawTuple.Deserialize
  rw [if_neg (by omega)]
  rw [Slice_read_u32 s hwf 0 4 rfl (by omega), Slice_read_u32 s hwf 4 8 rfl (by omega), hb]
  obtain ⟨w0, w1, _⟩ := window_bytes4 (beBytes t.length) (beBytes t.nullBitmapSize)
    [0, 0, 0, 0] (t.nullBitmap ++ t.data) rfl rfl rfl
  have w0' : window t.bytes 0 4 = beBytes t.length := by
    apply List.ext_getElem?
    intro i
    have := congrArg (fun l => l[i]?) w0
    simp only [getElem?_window] at this ⊢
    rw [← this]
    unfold RawTuple.bytes
    by_cases hi : i < 4
    · rw [if_pos hi, if_pos hi]
      simp only [List.append_assoc]
      rw [List.getElem?_append_left (by rw [beBytes_length]; omega),
        List.getElem?_append_left (by rw [beBytes_length]; omega)]
    · rw [if_neg hi, if_neg hi]
  have w1' : window t.bytes 4 4 = beBytes t.nullBitmapSize := by
    have := window_mid (beBytes t.length) (beBytes t.nullBitmapSize) (t.nullBitmap ++ t.data)
    unfold RawTuple.bytes
    simpa only [beBytes_length, List.append_assoc] using this
  have w2' : window t.bytes 8 t.nullBitmapSize = t.nullBitmap := by
    have := window_mid (beBytes t.length ++ beBytes t.nullBitmapSize) t.nullBitmap t.data
    unfold RawTuple.bytes
    simpa only [List.length_append, beBytes_length, hbm] using this
  have w3' : window t.bytes (8 + t.nullBitmapSize) t.data.length = t.data := by
    have := window_mid (beBytes t.length ++ beBytes t.nullBitmapSize ++ t.nullBitmap) t.data []
    unfold RawTuple.bytes
    simp only [List.length_append, beBytes_length, hbm, List.append_nil] at this
    have e : 4 + 4 + t.nullBitmapSize = 8 + t.nullBitmapSize := by omega
    rw [e] at this
    exact this
  rw [w0', w1']
  simp only [beVal_beBytes, Nat.mod_eq_of_lt hlt,
    Nat.mod_eq_of_lt (show t.nullBitmapSize < 4294967296 by omega), hu]
  rw [if_neg (by omega)]
  obtain ⟨s1, hs1, _, _, hb1⟩ := Slice_reslice_within s hwf 8 (8 + t.nullBitmapSize)
    (by omega) (by omega)
  obtain ⟨s2, hs2, _, _, hb2⟩ := Slice_reslice_within s hwf (8 + t.nullBitmapSize) t.length
    (by omega) (by omega)
  have e1 : 8 + t.nullBitmapSize - 8 = t.nullBitmapSize := by omega
  have e2 : t.length - (8 + t.nullBitmapSize) = t.data.length := by omega
  rw [e1, hb, w2'] at hb1
  rw [e2, hb, w3'] at hb2
  simp only [hs1, hs2, Res_ok_bind, Res_pure_eq, hb1, hb2]

/-! ## What `RawPage.Deserialize` reads -/

theorem deserializeSlots_spec (data : Slice) (hwf : data.len ≤ data.mem.length) :
    ∀ (slots : List PageSlot) (i : Nat), 16 + 12 * (i + slots.length) ≤ data.len →
    (∀ j s, slots[j]? = some s → window data.bytes (16 + 12 * (i + j)) 12 = s.bytes) →
    (∀ s ∈ slots, s.offset < 4294967296 ∧ s.length < 4294967296 ∧ s.flags < 4294967296) →
    deserializeSlots data slots.length i = .ok slots := by
  intro slots
  induction slots with
  | nil => intro i _ _ _; rfl
  | cons slot rest ih =>
    intro i hlen hwin hrange
    simp only [List.length_cons] at hlen
    obtain ⟨s', hs', _, hwf', hb'⟩ := Slice_reslice_within data hwf (16 + i * 12)
      (16 + i * 12 + 12) (by omega) (by omega)
    have e : 16 + i * 12 + 12 - (16 + i * 12) = 12 := by omega
    have hw0 := hwin 0 slot (by simp)
    have e0 : 16 + 12 * (i + 0) = 16 + i * 12 := by omega
    rw [e, ← e0, hw0] at hb'
    obtain ⟨r1, r2, r3⟩ := hrange slot (List.mem_cons_self _ _)
    have hdes := PageSlot_Deserialize_of_bytes s' hwf' slot hb' r1 r2 r3
    have hrest := ih (i + 1) (by omega)
      (fun j s hj => by
        have := hwin (j + 1) s (by simpa using hj)
        have e : 16 + 12 * (i + (j + 1)) = 16 + 12 * (i + 1 + j) := by omega
        rw [e] at this; exact this)
      (fun s hs => hrange s (List.mem_cons_of_mem _ hs))
    simp only [List.length_cons, deserializeSlots, PAGE_HEADER_SIZE, SLOT_SIZE, hs', Res_ok_bind,
      hdes, hrest, Res_pure_eq]

theorem deserializeTuples_spec (data : Slice) (hwf : data.len ≤ data.mem.length)
    (hlen : data.len < 4294967296) :
    ∀ (ss : List PageSlot) (ts : List RawTuple),
    List.Forall₂ (fun (s : PageSlot) (t : RawTuple) =>
      window data.bytes s.offset s.length = t.bytes) ss ts →
    List.Forall₂ (fun (s : PageSlot) (t : RawTuple) => s.length = t.length) ss ts →
    (∀ s ∈ ss, s.offset + s.length ≤ data.len) →
    (∀ t ∈ ts, t.nullBitmap.length = t.nullBitmapSize ∧
      t.length = 8 + t.nullBitmapSize + t.data.length) →
    deserializeTuples data ss = .ok ts := by
  intro ss ts h
  induction h with
  | nil => intro _ _ _; rfl
  | @cons s t ss' ts' hst _ ih =>
    intro hlens hext htup
    have hs := hext s (List.mem_cons_self _ _)
    obtain ⟨htb, htl⟩ := htup t (List.mem_cons_self _ _)
    rw [List.forall₂_cons] at hlens
    have hu : u32 (s.offset + s.length) = s.offset + s.length := u32_of_lt (by omega)
    obtain ⟨s', hs', _, hwf', hb'⟩ := Slice_reslice_within data hwf s.offset
      (s.offset + s.length) (by omega) hs
    have e : s.offset + s.length - s.offset = s.length := by omega
    rw [e, hst] at hb'
    have hdes := RawTuple_Deserialize_of_bytes s' hwf' t hb' htb htl (by omega)
    have hrest := ih hlens.2 (fun s'' hs'' => hext s'' (List.mem_cons_of_mem _ hs''))
      (fun t' ht' => htup t' (List.mem_cons_of_mem _ ht'))
    simp only [deserializeTuples, hu, hs', Res_ok_bind, hdes, hrest, Res_pure_eq]


theorem Slice_ofBytes_bytes (l : List Byte) : (Slice.ofBytes l).bytes = l := by
  unfold Slice.ofBytes Slice.bytes
  exact List.take_length l

/-- Decoding a 4096-byte buffer that has the layout of a valid page gives the page. -/
theorem RawPage_Deserialize_of_layout (p : RawPage) (hv : p.Valid) (data : Slice)
    (hwf : data.len ≤ data.mem.length) (hlen : data.len = 4096)
    (hh : window data.bytes 0 16 = p.header.bytes)
    (hs : ∀ j s, p.slots[j]? = some s → window data.bytes (16 + 12 * j) 12 = s.bytes)
    (ht : List.Forall₂ (fun (s : PageSlot) (t : RawTuple) =>
        window data.bytes s.offset s.length = t.bytes) p.slots p.rawTuples) :
    RawPage.Deserialize data = .ok p := by
  have hslot : ∀ s ∈ p.slots, s.flags < 4294967296 ∧ 16 + 12 * p.slots.length ≤ s.offset ∧
      s.offset + s.length ≤ 4096 := by
    intro s hs
    have := hv.slot_ok s hs
    rw [hv.count_slots] at this
    simpa only [PAGE_HEADER_SIZE, SLOT_SIZE, PAGE_SIZE] using this
  have hslotsle : 16 + 12 * p.slots.length ≤ 4096 := by
    cases hs' : p.slots with
    | nil => simp
    | cons s rest =>
      have := hslot s (by rw [hs']; exact List.mem_cons_self _ _)
      rw [hs'] at this
      omega
  unfold RawPage.Deserialize
  rw [if_neg (by rw [hlen]; decide)]
  obtain ⟨s0, hs0, _, hwf0, hb0⟩ := Slice_reslice_within data hwf 0 16 (by omega) (by omega)
  rw [hh] at hb0
  have hhdr := PageHeader_Deserialize_of_bytes s0 hwf0 p.header hb0 hv.pageID_lt
    (by rw [hv.count_slots]; omega) hv.lower_lt hv.upper_lt
  have hsl := deserializeSlots_spec data hwf p.slots 0 (by omega)
    (fun j s hj => by simpa using hs j s hj)
    (fun s hs' => by have := hslot s hs'; omega)
  have htu := deserializeTuples_spec data hwf (by omega) p.slots p.rawTuples ht hv.slot_tuple
    (fun s hs' => by have := hslot s hs'; omega) hv.tuple_ok
  rw [← hv.count_slots] at hsl
  simp only [PAGE_HEADER_SIZE, hs0, Res_ok_bind, hhdr, hsl, htu, Res_pure_eq]

/-- C2: for every valid `RawPage` `p`, `p.Serialize()` succeeds with 4096 bytes
and `RawPage.Deserialize` of those bytes succeeds and returns a page equal to
`p` (header, slots and tuples). -/
theorem C2_page_roundtrip (p : RawPage) (hv : p.Valid) :
    ∃ bytes, p.Serialize = .ok bytes ∧ bytes.length = 4096 ∧
      RawPage.Deserialize (Slice.ofBytes bytes) = .ok p := by
  obtain ⟨out, hout, hlen, hh, hs, ht⟩ := RawPage_Serialize_layout p hv
  refine ⟨out, hout, hlen, ?_⟩
  apply RawPage_Deserialize_of_layout p hv (Slice.ofBytes out)
  · exact Nat.le_refl _
  · exact hlen
  · rw [Slice_ofBytes_bytes]; exact hh
  · rw [Slice_ofBytes_bytes]; exact hs
  · rw [Slice_ofBytes_bytes]; exact ht

theorem examplePage_valid : examplePage.Valid where
  pageID_lt := by decide
  lower_lt := by decide
  upper_lt := by decide
  count_slots := rfl
  tuple_ok := by
    intro t ht
    simp only [examplePage, List.mem_singleton] at ht
    subst ht
    exact ⟨rfl, rfl⟩
  slot_tuple := List.Forall₂.cons rfl List.Forall₂.nil
  slot_ok := by
    intro s hs
    simp only [examplePage, List.mem_singleton] at hs
    subst hs
    decide
  disjoint := List.pairwise_singleton _ _

/-- C2 (witness): the round trip at the one-record page of the repository's
page test. -/
theorem C2_page_roundtrip_witness :
    examplePage.Valid ∧
    ∃ bytes, examplePage.Serialize = .ok bytes ∧ bytes.length = 4096 ∧
      RawPage.Deserialize (Slice.ofBytes bytes) = .ok examplePage :=
  ⟨examplePage_valid, C2_page_roundtrip examplePage examplePage_valid⟩

/-! ## The bytes of a serialized page -/

theorem RawPage_Serialize_layout_zero (p : RawPage) (hv : p.Valid) :
    ∃ out, p.Serialize = .ok out ∧ out.length = 4096 ∧
      window out 0 16 = p.header.bytes ∧
      (∀ j s, p.slots[j]? = some s → window out (16 + 12 * j) 12 = s.bytes) ∧
      List.Forall₂ (fun (s : PageSlot) (t : RawTuple) =>
        window out s.offset s.length = t.bytes) p.slots p.rawTuples ∧
      (∀ k, k < 4096 → 16 + 12 * p.slots.length ≤ k →
        (∀ s ∈ p.slots, k < s.offset ∨ s.offset + s.length ≤ k) → out[k]? = some 0) := by
  have hm : (makeBytes PAGE_SIZE).length = 4096 := by
    simp only [makeBytes, PAGE_SIZE, List.length_replicate]
  have hw0 : 0 + p.header.bytes.length ≤ (makeBytes PAGE_SIZE).length := by
    rw [hm, PageHeader_length_bytes]; omega
  have hc0 := copyInto_exact (makeBytes PAGE_SIZE) 0 p.header.bytes hw0
  have hl0 := length_writeAt (makeBytes PAGE_SIZE) 0 p.header.bytes hw0
  rw [hm] at hl0
  have hslotsle : 16 + 12 * p.slots.length ≤ 4096 := by
    cases hs : p.slots with
    | nil => simp
    | cons s rest =>
      have := hv.slot_ok s (by rw [hs]; exact List.mem_cons_self _ _)
      rw [hv.count_slots, hs] at this
      simp only [PAGE_HEADER_SIZE, SLOT_SIZE, PAGE_SIZE] at this
      omega
  obtain ⟨d1, hd1, hl1, hs1, hf1⟩ := serializeSlots_spec p.slots 0
    (writeAt (makeBytes PAGE_SIZE) 0 p.header.bytes) (by rw [hl0]; omega)
  obtain ⟨d2, hd2, hl2, hs2, hf2⟩ := serializeTuples_spec p.slots p.slots p.rawTuples
    hv.slot_tuple [] d1 rfl hv.tuple_ok
    (fun s hs => by
      have := (hv.slot_ok s hs).2.2
      simp only [PAGE_SIZE] at this
      rw [hl1, hl0]; exact this)
    (by rw [hl1, hl0]; decide) hv.disjoint
  have hext : ∀ s ∈ p.slots, 16 + 12 * p.slots.length ≤ s.offset := by
    intro s hs
    have := (hv.slot_ok s hs).2.1
    rw [hv.count_slots] at this
    simpa only [PAGE_HEADER_SIZE, SLOT_SIZE] using this
  refine ⟨d2, ?_, by rw [hl2, hl1, hl0], ?_, ?_, hs2, ?_⟩
  · unfold RawPage.Serialize
    simp only [PageHeader_Serialize_eq, Res_ok_bind, Res_pure_eq]
    rw [PageHeader_length_bytes] at hc0
    simp only [PAGE_HEADER_SIZE] at hc0 ⊢
    simp only [hc0, Res_ok_bind, hd1]
    simp only [List.length_nil] at hd2
    rw [hd2]
    rfl
  · rw [hf2 0 16 (fun s hs => Or.inl (by have := hext s hs; omega)),
      hf1 0 16 (Or.inl (by omega))]
    have := window_writeAt_same (makeBytes PAGE_SIZE) 0 p.header.bytes hw0
    rw [PageHeader_length_bytes] at this
    exact this
  · intro j s hj
    have hjl : j < p.slots.length := by
      by_contra hcon
      rw [List.getElem?_eq_none (by omega)] at hj
      cases hj
    rw [hf2 (16 + 12 * j) 12 (fun s' hs' => Or.inl (by have := hext s' hs'; omega))]
    have := hs1 j s hj
    simpa using this
  · intro k hk hlow hout
    have hw : window d2 k 1 = window (makeBytes PAGE_SIZE) k 1 := by
      rw [hf2 k 1 (fun s hs => by rcases hout s hs with h | h; exact Or.inl (by omega); exact Or.inr h),
        hf1 k 1 (Or.inr (by omega)),
        window_writeAt_disjoint (makeBytes PAGE_SIZE) 0 p.header.bytes hw0 k 1
          (Or.inr (by rw [PageHeader_length_bytes]; omega))]
    have h0 := congrArg (fun l => l[0]?) hw
    simp only [getElem?_window, Nat.lt_one_iff, if_true, Nat.add_zero] at h0
    rw [h0]
    unfold makeBytes PAGE_SIZE
    rw [List.getElem?_replicate]
    simp [hk]


theorem forall₂_getElem? {α β : Type} (R : α → β → Prop) :
    ∀ (l1 : List α) (l2 : List β), List.Forall₂ R l1 l2 →
    ∀ (i : Nat) (a : α) (b : β), l1[i]? = some a → l2[i]? = some b → R a b := by
  intro l1 l2 h
  induction h with
  | nil => intro i a b h1; simp at h1
  | @cons x y xs ys hxy _ ih =>
    intro i a b h1 h2
    cases i with
    | zero =>
      simp only [List.getElem?_cons_zero, Option.some.injEq] at h1 h2
      rw [← h1, ← h2]; exact hxy
    | succ n =>
      simp only [List.getElem?_cons_succ] at h1 h2
      exact ih n a b h1 h2

/-- C20: for every valid `RawPage`, `Serialize` returns exactly 4096 bytes:
bytes `[0, 16)` are the header fields `page_id, record_count, lower, upper` in
big-endian order, bytes `[16 + 12 i, 16 + 12 (i + 1))` are slot `i` as
`offset, length, flags`, bytes `[offset_i, offset_i + length_i)` are tuple `i` as
`length, null_bitmap_size, null_bitmap, payload`, and every byte outside the
header, the slot array and the slot extents is zero. -/
theorem C20_serialize_layout (p : RawPage) (hv : p.Valid) :
    ∃ out, p.Serialize = .ok out ∧ out.length = 4096 ∧
      window out 0 16 = beBytes p.header.pageID ++ beBytes p.header.recordCount ++
        beBytes p.header.lower ++ beBytes p.header.upper ∧
      (∀ (i : Nat) (s : PageSlot), p.slots[i]? = some s →
        window out (16 + 12 * i) 12 = beBytes s.offset ++ beBytes s.length ++ beBytes s.flags) ∧
      (∀ (i : Nat) (s : PageSlot) (t : RawTuple), p.slots[i]? = some s →
        p.rawTuples[i]? = some t →
        window out s.offset s.length =
          beBytes t.length ++ beBytes t.nullBitmapSize ++ t.nullBitmap ++ t.data) ∧
      (∀ k, k < 4096 → 16 + 12 * p.slots.length ≤ k →
        (∀ s ∈ p.slots, k < s.offset ∨ s.offset + s.length ≤ k) → out[k]? = some 0) := by
  obtain ⟨out, h1, h2, h3, h4, h5, h6⟩ := RawPage_Serialize_layout_zero p hv
  exact ⟨out, h1, h2, h3, h4,
    fun i s t hs ht => forall₂_getElem? _ p.slots p.rawTuples h5 i s t hs ht, h6⟩

/-- C20 on `examplePage`: one slot `(4076, 20, 0)` and its tuple of 20 bytes. -/
theorem C20_serialize_layout_witness :
    examplePage.Valid ∧
    ∃ out, examplePage.Serialize = .ok out ∧ out.length = 4096 ∧
      window out 0 16 = [0, 0, 0, 2, 0, 0, 0, 1, 0, 0, 0, 28, 0, 0, 15, 236] ∧
      window out 16 12 = [0, 0, 15, 236, 0, 0, 0, 20, 0, 0, 0, 0] ∧
      window out 4076 20 = [0, 0, 0, 20, 0, 0, 0, 4, 0, 1, 0, 1, 1, 2, 3, 4, 5, 6, 7, 8] ∧
      (∀ k, 28 ≤ k → k < 4076 → out[k]? = some 0) := by
  refine ⟨examplePage_valid, ?_⟩
  obtain ⟨out, h1, h2, h3, h4, h5, h6⟩ := C20_serialize_layout examplePage examplePage_valid
  refine ⟨out, h1, h2, h3, h4 0 _ rfl, h5 0 _ _ rfl rfl, ?_⟩
  intro k hk1 hk2
  refine h6 k (by omega) (by show 16 + 12 * 1 ≤ k; omega) ?_
  intro s hs
  have : s = { offset := 4076, length := 20, flags := 0 } := by
    simpa [examplePage] using hs
  subst this
  exact Or.inl hk2

/-! ## Data file pages -/

theorem pageOffset_eq (i : Nat) (h1 : 1 ≤ i) (h2 : 12 + 4096 * i < 4294967296) :
    pageOffset i = 12 + 4096 * (i - 1) := by
  unfold pageOffset u32sub u32 DATA_FILE_HEADER_SIZE PAGE_SIZE
  omega

/-- Writing a valid page at a page id inside the file and reading that page id
back returns the page. -/
theorem writePage_then_readPage (df : DataFile) (fs : FS) (tableName : String)
    (file : List Byte) (n i : Nat) (p : RawPage)
    (hfile : fs (dataFilePath tableName) = some file)
    (hlen : file.length = 12 + 4096 * n) (hn : 12 + 4096 * n < 4294967296)
    (hi : 1 ≤ i ∧ i ≤ n) (hcount : i ≤ df.header.pagesCount) (hv : p.Valid) :
    ∃ fs', df.writePage fs tableName i p = .ok fs' ∧ df.readPage fs' tableName i = .ok p := by
  obtain ⟨out, hout, holen, hh, hs, ht⟩ := RawPage_Serialize_layout p hv
  have hoff : pageOffset i = 12 + 4096 * (i - 1) := pageOffset_eq i hi.1 (by omega)
  have hfit : 12 + 4096 * (i - 1) + out.length ≤ file.length := by omega
  have hfw : fileWriteAt file (12 + 4096 * (i - 1)) out
      = writeAt file (12 + 4096 * (i - 1)) out := by
    unfold fileWriteAt
    have : 12 + 4096 * (i - 1) + out.length - file.length = 0 := by omega
    rw [this]
    simp
  have hwl := length_writeAt file (12 + 4096 * (i - 1)) out hfit
  refine ⟨Function.update fs (dataFilePath tableName)
    (some (writeAt file (12 + 4096 * (i - 1)) out)), ?_, ?_⟩
  · unfold DataFile.writePage
    simp only [hfile, hout, Res_ok_bind, hoff, hfw, Res_pure_eq]
  · unfold DataFile.readPage
    rw [if_neg (by omega)]
    simp only [Function.update_same, hoff]
    have hu : u32 (12 + 4096 * (i - 1) + PAGE_SIZE) = 12 + 4096 * (i - 1) + 4096 := by
      unfold PAGE_SIZE
      exact u32_of_lt (by omega)
    rw [hu]
    have hwfd : (Slice.ofBytes (writeAt file (12 + 4096 * (i - 1)) out)).len ≤
        (Slice.ofBytes (writeAt file (12 + 4096 * (i - 1)) out)).mem.length := Nat.le_refl _
    obtain ⟨s, hs', hsl, hswf, hsb⟩ := Slice_reslice_within
      (Slice.ofBytes (writeAt file (12 + 4096 * (i - 1)) out)) hwfd
      (12 + 4096 * (i - 1)) (12 + 4096 * (i - 1) + 4096) (by omega)
      (by show _ ≤ (writeAt file (12 + 4096 * (i - 1)) out).length; omega)
    have e : 12 + 4096 * (i - 1) + 4096 - (12 + 4096 * (i - 1)) = 4096 := by omega
    rw [e] at hsl hsb
    rw [Slice_ofBytes_bytes] at hsb
    have hw := window_writeAt_same file (12 + 4096 * (i - 1)) out hfit
    rw [holen] at hw
    rw [hw] at hsb
    have hdes := RawPage_Deserialize_of_layout p hv s hswf hsl (by rw [hsb]; exact hh)
      (by rw [hsb]; exact hs) (by rw [hsb]; exact ht)
    simp only [hs', Res_ok_bind, hdes, Res_wrapErr_ok]

/-- The call `writePage` changes no byte outside the 4096 bytes of the page it writes. -/
theorem fileWriteAt_frame (file : List Byte) (off : Nat) (b : List Byte)
    (hfit : off + b.length ≤ file.length) (a m : Nat) (hd : a + m ≤ off ∨ off + b.length ≤ a) :
    (fileWriteAt file off b).length = file.length ∧
    window (fileWriteAt file off b) a m = window file a m := by
  have hfw : fileWriteAt file off b = writeAt file off b := by
    unfold fileWriteAt
    have : off + b.length - file.length = 0 := by omega
    rw [this]
    simp
  rw [hfw]
  exact ⟨length_writeAt file off b hfit, window_writeAt_disjoint file off b hfit a m hd⟩

/-- C3 (failing input): in the two-page file `damagedFile`, page 1 has a slot
that runs past the end of the page. `readPage(1)` returns `damagedPageBefore`;
after `writePage(2, examplePage)` (a valid page, only the bytes of page 2
change) `readPage(1)` returns `damagedPageAfter`, a different page. -/
theorem C3_readPage_not_framed :
    damagedFile.length = 12 + 4096 * 2 ∧
    DataFile.readPage damagedDF damagedFS "t" 1 = .ok damagedPageBefore ∧
    (DataFile.writePage damagedDF damagedFS "t" 2 examplePage >>= fun fs' =>
      DataFile.readPage damagedDF fs' "t" 1) = .ok damagedPageAfter ∧
    damagedPageBefore ≠ damagedPageAfter := by
  refine ⟨by decide!, by decide!, by decide!, by decide⟩

/-! ## Buffers on which `RawPage.Deserialize` panics -/

theorem PageSlot_Deserialize_total (s : Slice) (hwf : s.len ≤ s.mem.length) (hl : s.len = 12) :
    ∃ slot, PageSlot.Deserialize s = .ok slot := by
  unfold PageSlot.Deserialize
  rw [if_neg (by rw [hl]; decide)]
  rw [Slice_read_u32 s hwf 0 4 rfl (by omega), Slice_read_u32 s hwf 4 8 rfl (by omega),
    Slice_read_u32 s hwf 8 12 rfl (by omega)]
  exact ⟨_, rfl⟩

/-- The slot loop of `RawPage.Deserialize` panics when the slot array it is
asked to read does not fit in a buffer whose capacity is its length. -/
theorem deserializeSlots_panic (buf : List Byte) :
    ∀ (n i : Nat), 1 ≤ n → buf.length < 16 + 12 * (i + n) →
    deserializeSlots (Slice.ofBytes buf) n i = .panic := by
  have hcap : (Slice.ofBytes buf).mem.length = buf.length := rfl
  have hlen : (Slice.ofBytes buf).len = buf.length := rfl
  intro n
  induction n with
  | zero => intro i h _; omega
  | succ n ih =>
    intro i _ hbig
    unfold deserializeSlots
    simp only [PAGE_HEADER_SIZE, SLOT_SIZE]
    by_cases hfit : 16 + i * 12 + 12 ≤ buf.length
    · obtain ⟨s, hs, hsl, hswf, _⟩ := Slice_reslice_within (Slice.ofBytes buf) (by omega)
        (16 + i * 12) (16 + i * 12 + 12) (by omega) (by omega)
      obtain ⟨slot, hslot⟩ := PageSlot_Deserialize_total s hswf (by omega)
      have hn : 1 ≤ n := by omega
      rw [hs]
      simp only [Res_ok_bind, hslot, ih (i + 1) hn (by omega), Res_panic_bind]
    · have : (Slice.ofBytes buf).reslice (16 + i * 12) (16 + i * 12 + 12) = .panic := by
        unfold Slice.reslice
        rw [if_neg (by omega)]
      rw [this]
      rfl

/-- On a buffer of 4096 bytes whose capacity is its length, `RawPage.Deserialize`
panics whenever the record count of the header needs a slot array that ends
past the buffer. -/
theorem RawPage_Deserialize_panic_of_count (buf : List Byte) (hlen : buf.length = 4096)
    (hrc : 4096 < 16 + 12 * beVal (window buf 4 4)) :
    RawPage.Deserialize (Slice.ofBytes buf) = .panic := by
  have hl : (Slice.ofBytes buf).len = 4096 := hlen
  have hwf : (Slice.ofBytes buf).len ≤ (Slice.ofBytes buf).mem.length := Nat.le_refl _
  unfold RawPage.Deserialize
  rw [if_neg (by rw [hl]; decide)]
  obtain ⟨s, hs, hsl, hswf, hsb⟩ := Slice_reslice_within (Slice.ofBytes buf) hwf 0 16
    (by omega) (by omega)
  have hhdr : ∃ h, PageHeader.Deserialize s = .ok h ∧ h.recordCount = beVal (window buf 4 4) := by
    unfold PageHeader.Deserialize
    rw [if_neg (by rw [hsl]; decide)]
    rw [Slice_read_u32 s hswf 0 4 rfl (by omega), Slice_read_u32 s hswf 4 8 rfl (by omega),
      Slice_read_u32 s hswf 8 12 rfl (by omega), Slice_read_u32 s hswf 12 16 rfl (by omega)]
    refine ⟨_, rfl, ?_⟩
    show beVal (window s.bytes 4 4) = _
    rw [hsb, Slice_ofBytes_bytes, window_window buf 0 (16 - 0) 4 4 (by omega)]
  obtain ⟨h, hh, hcount⟩ := hhdr
  have hp := deserializeSlots_panic buf h.recordCount 0 (by omega) (by omega)
  simp only [PAGE_HEADER_SIZE, hs, Res_ok_bind, hh, hp, Res_panic_bind]

theorem bufferTooManyRecords_panics :
    RawPage.Deserialize (Slice.ofBytes bufferTooManyRecords) = .panic :=
  RawPage_Deserialize_panic_of_count bufferTooManyRecords (by decide!) (by decide!)

/-- C10 (failing inputs): three 4096-byte buffers on which `RawPage.Deserialize`
neither returns a page nor an error but panics on a slice expression: a header
with `record_count = 341` (`16 + 12 * 341 > 4096`), a slot with
`offset + length = 4098 > 4096`, and a tuple declaring `length = 8` with
`null_bitmap_size = 1`. -/
theorem C10_deserialize_panics :
    (bufferTooManyRecords.length = 4096 ∧
      RawPage.Deserialize (Slice.ofBytes bufferTooManyRecords) = .panic) ∧
    (bufferSlotPastEnd.length = 4096 ∧
      RawPage.Deserialize (Slice.ofBytes bufferSlotPastEnd) = .panic) ∧
    (bufferShortTuple.length = 4096 ∧
      RawPage.Deserialize (Slice.ofBytes bufferShortTuple) = .panic) :=
  ⟨⟨by decide!, bufferTooManyRecords_panics⟩, by decide!, by decide!⟩

/-! ## Go maps -/

theorem mapGet_mapDel_same {V : Type} (m : GoMap V) (k : Nat) : mapGet (mapDel m k) k = none := by
  induction m with
  | nil => rfl
  | cons e rest ih =>
    obtain ⟨k', v⟩ := e
    by_cases h : k' = k
    · simp only [mapDel, if_pos h, ih]
    · simp only [mapDel, if_neg h, mapGet, ih]

theorem mapGet_mapDel_ne {V : Type} (m : GoMap V) (k j : Nat) (h : j ≠ k) :
    mapGet (mapDel m k) j = mapGet m j := by
  induction m with
  | nil => rfl
  | cons e rest ih =>
    obtain ⟨k', v⟩ := e
    by_cases h' : k' = k
    · have : ¬ k' = j := by rw [h']; exact fun e => h e.symm
      simp only [mapDel, if_pos h', mapGet, if_neg this, ih]
    · simp only [mapDel, if_neg h', mapGet, ih]

theorem mapGet_mapSet_same {V : Type} (m : GoMap V) (k : Nat) (v : V) :
    mapGet (mapSet m k v) k = some v := by
  simp [mapSet, mapGet]

theorem mapGet_mapSet_ne {V : Type} (m : GoMap V) (k j : Nat) (v : V) (h : j ≠ k) :
    mapGet (mapSet m k v) j = mapGet m j := by
  unfold mapSet
  rw [mapGet, if_neg (fun e => h e.symm), mapGet_mapDel_ne m k j h]

theorem mem_mapKeys_iff {V : Type} (m : GoMap V) (k : Nat) :
    k ∈ mapKeys m ↔ (mapGet m k).isSome = true := by
  induction m with
  | nil => simp [mapKeys, mapGet]
  | cons e rest ih =>
    obtain ⟨k', v⟩ := e
    unfold mapKeys at ih ⊢
    by_cases h : k' = k
    · simp [mapGet, h]
    · simp only [List.map_cons, List.mem_cons, mapGet, if_neg h]
      rw [← ih]
      constructor
      · rintro (h' | h')
        · exact absurd h'.symm h
        · exact h'
      · exact Or.inr

theorem not_mem_mapKeys_iff {V : Type} (m : GoMap V) (k : Nat) :
    k ∉ mapKeys m ↔ mapGet m k = none := by
  rw [mem_mapKeys_iff]
  cases mapGet m k <;> simp

theorem mem_mapKeys_mapDel {V : Type} (m : GoMap V) (k j : Nat) :
    j ∈ mapKeys (mapDel m k) ↔ j ∈ mapKeys m ∧ j ≠ k := by
  rw [mem_mapKeys_iff, mem_mapKeys_iff]
  by_cases h : j = k
  · subst h
    simp [mapGet_mapDel_same]
  · rw [mapGet_mapDel_ne m k j h]
    simp [h]

theorem mapKeys_mapDel_nodup {V : Type} (m : GoMap V) (k : Nat) (h : (mapKeys m).Nodup) :
    (mapKeys (mapDel m k)).Nodup := by
  induction m with
  | nil => exact List.nodup_nil
  | cons e rest ih =>
    obtain ⟨k', v⟩ := e
    have hn' : k' ∉ mapKeys rest ∧ (mapKeys rest).Nodup := by
      simpa [mapKeys] using h
    by_cases h' : k' = k
    · simp only [mapDel, if_pos h']
      exact ih hn'.2
    · simp only [mapDel, if_neg h']
      show (k' :: mapKeys (mapDel rest k)).Nodup
      rw [List.nodup_cons]
      refine ⟨?_, ih hn'.2⟩
      rw [mem_mapKeys_mapDel]
      exact fun hh => hn'.1 hh.1

theorem mapKeys_mapSet_nodup {V : Type} (m : GoMap V) (k : Nat) (v : V) (h : (mapKeys m).Nodup) :
    (mapKeys (mapSet m k v)).Nodup := by
  unfold mapSet
  show (k :: mapKeys (mapDel m k)).Nodup
  rw [List.nodup_cons]
  refine ⟨?_, mapKeys_mapDel_nodup m k h⟩
  rw [not_mem_mapKeys_iff]
  exact mapGet_mapDel_same m k

theorem mapDel_of_absent {V : Type} (m : GoMap V) (k : Nat) (h : mapGet m k = none) :
    mapDel m k = m := by
  induction m with
  | nil => rfl
  | cons e rest ih =>
    obtain ⟨k', v⟩ := e
    by_cases h' : k' = k
    · simp [mapGet, h'] at h
    · simp only [mapGet, if_neg h'] at h
      simp only [mapDel, if_neg h', ih h]

theorem mapLen_mapDel_of_present {V : Type} (m : GoMap V) (k : Nat) (v : V)
    (hn : (mapKeys m).Nodup) (h : mapGet m k = some v) :
    mapLen (mapDel m k) = mapLen m - 1 := by
  induction m with
  | nil => simp [mapGet] at h
  | cons e rest ih =>
    obtain ⟨k', v'⟩ := e
    have hn' : k' ∉ mapKeys rest ∧ (mapKeys rest).Nodup := by
      simpa [mapKeys] using hn
    by_cases h' : k' = k
    · have hab : mapGet rest k = none := by
        rw [← not_mem_mapKeys_iff, ← h']; exact hn'.1
      simp only [mapDel, if_pos h', mapDel_of_absent rest k hab, mapLen, List.length_cons]
      push_cast
      omega
    · simp only [mapGet, if_neg h'] at h
      have := ih hn'.2 h
      simp only [mapDel, if_neg h', mapLen, List.length_cons] at this ⊢
      push_cast
      omega

theorem mapLen_mapDel_of_absent {V : Type} (m : GoMap V) (k : Nat) (h : mapGet m k = none) :
    mapLen (mapDel m k) = mapLen m := by
  rw [mapDel_of_absent m k h]

theorem mapLen_mapSet {V : Type} (m : GoMap V) (k : Nat) (v : V) :
    mapLen (mapSet m k v) = mapLen (mapDel m k) + 1 := by
  unfold mapSet mapLen
  simp

theorem mapLen_mapSet_of_present {V : Type} (m : GoMap V) (k : Nat) (v w : V)
    (hn : (mapKeys m).Nodup) (h : mapGet m k = some w) :
    mapLen (mapSet m k v) = mapLen m := by
  rw [mapLen_mapSet, mapLen_mapDel_of_present m k w hn h]
  omega

theorem mapLen_mapSet_of_absent {V : Type} (m : GoMap V) (k : Nat) (v : V)
    (h : mapGet m k = none) : mapLen (mapSet m k v) = mapLen m + 1 := by
  rw [mapLen_mapSet, mapLen_mapDel_of_absent m k h]

theorem mapLen_nonneg {V : Type} (m : GoMap V) : 0 ≤ mapLen m := by
  unfold mapLen
  omega

/-! ## Doubly-linked lists in the node store -/

theorem IsDLL_congr (heap heap' : Nat → Node) (list : LRUList) (addrs : List Nat)
    (hsame : ∀ b ∈ addrs, heap' b = heap b) (h : IsDLL heap list addrs) :
    IsDLL heap' list addrs where
  chain := by
    have := List.Chain'.iff_mem.mp h.chain
    refine this.imp ?_
    intro x y ⟨hx, hy, hxy⟩
    unfold Linked at hxy ⊢
    rw [hsame x hx, hsame y hy]
    exact hxy
  first_prev := by
    intro a ha
    rw [hsame a (List.mem_of_mem_head? ha)]
    exact h.first_prev a ha
  last_next := by
    intro a ha
    rw [hsame a (List.mem_of_mem_getLast? ha)]
    exact h.last_next a ha
  tail_eq := h.tail_eq
  head_eq := h.head_eq
  size_eq := h.size_eq

theorem IsDLL_nil_iff (heap : Nat → Node) (list : LRUList) (addrs : List Nat)
    (h : IsDLL heap list addrs) : list.head = none ↔ addrs = [] := by
  rw [h.head_eq, List.getLast?_eq_none_iff]

/-- Pushing a fresh node at the head of a well-formed list. -/
theorem listPushHead_spec (heap : Nat → Node) (list : LRUList) (addrs : List Nat)
    (new : Nat) (entry : PageEntry) (h : IsDLL heap list addrs) (hnew : new ∉ addrs) :
    IsDLL (listPushHead list heap new entry).2.1 (listPushHead list heap new entry).1
      (addrs ++ [new]) ∧
    (listPushHead list heap new entry).2.2 = new ∧
    ((listPushHead list heap new entry).2.1 new).pageID = entry.pageID ∧
    (∀ b, b ≠ new → ((listPushHead list heap new entry).2.1 b).pageID = (heap b).pageID) ∧
    (∀ b, b ≠ new → b ∉ addrs → (listPushHead list heap new entry).2.1 b = heap b) := by
  unfold listPushHead
  cases hh : list.head with
  | none =>
    have hnil : addrs = [] := (IsDLL_nil_iff heap list addrs h).mp hh
    subst hnil
    simp only [List.nil_append]
    refine ⟨⟨List.chain'_singleton _, ?_, ?_, rfl, rfl, ?_⟩, trivial, ?_, ?_, ?_⟩
    · intro a ha
      simp only [List.head?_cons, Option.some.injEq] at ha
      subst ha
      simp [Function.update_same]
    · intro a ha
      simp only [List.getLast?_singleton, Option.some.injEq] at ha
      subst ha
      simp [Function.update_same]
    · have := h.size_eq
      simp only [List.length_nil, List.length_singleton] at this ⊢
      show list.size + 1 = _
      rw [this]; rfl
    · simp [Function.update_same]
    · intro b hb
      simp [Function.update_noteq hb]
    · intro b hb _
      simp [Function.update_noteq hb]
  | some hd =>
    have hlast : addrs.getLast? = some hd := by rw [← h.head_eq, hh]
    have hmem : hd ∈ addrs := List.mem_of_mem_getLast? hlast
    have hne : hd ≠ new := fun e => hnew (e ▸ hmem)
    have hnonempty : addrs ≠ [] := by
      intro e; rw [e] at hmem; cases hmem
    simp only
    have hnewval : ∀ (x : Node), (Function.update (Function.update heap new x) hd
        { (Function.update heap new x) hd with next := some new }) new = x := by
      intro x
      rw [Function.update_noteq (Ne.symm hne), Function.update_same]
    have hhdval : ∀ (x : Node), (Function.update (Function.update heap new x) hd
        { (Function.update heap new x) hd with next := some new }) hd
        = { heap hd with next := some new } := by
      intro x
      rw [Function.update_same, Function.update_noteq hne]
    have hother : ∀ (x : Node) b, b ≠ new → b ≠ hd →
        (Function.update (Function.update heap new x) hd
        { (Function.update heap new x) hd with next := some new }) b = heap b := by
      intro x b h1 h2
      rw [Function.update_noteq h2, Function.update_noteq h1]
    refine ⟨⟨?_, ?_, ?_, ?_, ?_, ?_⟩, trivial, ?_, ?_, ?_⟩
    · rw [List.chain'_append]
      refine ⟨?_, List.chain'_singleton _, ?_⟩
      · have := List.Chain'.iff_mem.mp h.chain
        refine this.imp ?_
        intro x y ⟨hx, hy, hxy⟩
        unfold Linked at hxy ⊢
        have hxn : x ≠ new := fun e => hnew (e ▸ hx)
        have hyn : y ≠ new := fun e => hnew (e ▸ hy)
        have hxh : x ≠ hd := by
          intro e
          have := h.last_next hd hlast
          rw [e, this] at hxy
          cases hxy.1
        constructor
        · rw [hother _ x hxn hxh]; exact hxy.1
        · by_cases hyh : y = hd
          · rw [hyh, hhdval]
            rw [hyh] at hxy
            exact hxy.2
          · rw [hother _ y hyn hyh]; exact hxy.2
      · intro x hx y hy
        rw [hlast] at hx
        simp only [Option.mem_def, Option.some.injEq] at hx
        simp only [List.head?_cons, Option.mem_def, Option.some.injEq] at hy
        subst hx hy
        unfold Linked
        rw [hhdval, hnewval]
        exact ⟨rfl, rfl⟩
    · intro a ha
      have hah : addrs.head? = some a := by
        rw [List.head?_append] at ha
        cases hq : addrs.head? with
        | none => exact absurd (List.head?_eq_none_iff.mp hq) hnonempty
        | some q => rw [hq] at ha; simpa using ha
      have han : a ≠ new := fun e => hnew (e ▸ List.mem_of_mem_head? hah)
      have := h.first_prev a hah
      by_cases hahd : a = hd
      · rw [hahd, hhdval]
        rw [hahd] at this
        exact this
      · rw [hother _ a han hahd]; exact this
    · intro a ha
      rw [List.getLast?_concat] at ha
      have := Option.some.inj ha
      subst this
      rw [hnewval]
    · show list.tail = _
      rw [h.tail_eq, List.head?_append]
      cases hq : addrs.head? with
      | none => exact absurd (List.head?_eq_none_iff.mp hq) hnonempty
      | some q => rfl
    · rw [List.getLast?_concat]
    · show list.size + 1 = _
      rw [h.size_eq]
      simp
    · rw [hnewval]
    · intro b hb
      by_cases hbh : b = hd
      · rw [hbh, hhdval]
      · rw [hother _ b hb hbh]
    · intro b hb hbm
      have hbh : b ≠ hd := fun e => hbm (e ▸ hmem)
      exact hother _ b hb hbh


theorem IsDLL_prev_next (heap : Nat → Node) (list : LRUList) (l1 l2 : List Nat) (a : Nat)
    (h : IsDLL heap list (l1 ++ a :: l2)) :
    (heap a).prev = l1.getLast? ∧ (heap a).next = l2.head? ∧
    (∀ p, l1.getLast? = some p → (heap p).next = some a) ∧
    (∀ n, l2.head? = some n → (heap n).prev = some a) := by
  have hc := List.chain'_append.mp h.chain
  have hj := hc.2.2
  have hprev : (heap a).prev = l1.getLast? ∧ (∀ p, l1.getLast? = some p → (heap p).next = some a) := by
    cases hp : l1.getLast? with
    | none =>
      have : l1 = [] := List.getLast?_eq_none_iff.mp hp
      subst this
      exact ⟨h.first_prev a rfl, fun p hp' => by cases hp'⟩
    | some p =>
      have := hj p hp a rfl
      exact ⟨this.2, fun q hq => by cases hq; exact this.1⟩
  have hnext : (heap a).next = l2.head? ∧ (∀ n, l2.head? = some n → (heap n).prev = some a) := by
    cases l2 with
    | nil =>
      refine ⟨h.last_next a (by simp), fun n hn => by cases hn⟩
    | cons n rest =>
      have := (List.chain'_cons.mp hc.2.1).1
      exact ⟨this.1, fun q hq => by cases hq; exact this.2⟩
  exact ⟨hprev.1, hnext.1, hprev.2, hnext.2⟩

/-- The list left when the node `a` is taken out of a well-formed list, for any
store that redirects the two neighbours of `a` and keeps the other pointers. -/
theorem IsDLL_unlink (heap heap' : Nat → Node) (list list' : LRUList) (l1 l2 : List Nat)
    (a : Nat) (h : IsDLL heap list (l1 ++ a :: l2)) (hnd : (l1 ++ a :: l2).Nodup)
    (hprev : ∀ b ∈ l1 ++ l2, (heap' b).prev =
      if some b = l2.head? then l1.getLast? else (heap b).prev)
    (hnext : ∀ b ∈ l1 ++ l2, (heap' b).next =
      if some b = l1.getLast? then l2.head? else (heap b).next)
    (htail : list'.tail = (l1 ++ l2).head?) (hhead : list'.head = (l1 ++ l2).getLast?)
    (hsize : list'.size = list.size - 1) : IsDLL heap' list' (l1 ++ l2) := by
  obtain ⟨hap, han, hpa, hna⟩ := IsDLL_prev_next heap list l1 l2 a h
  have hc := List.chain'_append.mp h.chain
  have hnd' := List.nodup_append.mp hnd
  have hnd2 : a ∉ l2 ∧ l2.Nodup := List.nodup_cons.mp hnd'.2.1
  have ha1 : a ∉ l1 := fun hm => hnd'.2.2 hm (List.mem_cons_self _ _)
  have hdisj : ∀ x, x ∈ l1 → x ∈ l2 → False :=
    fun x h1 h2 => hnd'.2.2 h1 (List.mem_cons_of_mem _ h2)
  have hm1 : ∀ b ∈ l1, b ∈ l1 ++ l2 := fun b hb => List.mem_append_left _ hb
  have hm2 : ∀ b ∈ l2, b ∈ l1 ++ l2 := fun b hb => List.mem_append_right _ hb
  refine ⟨?_, ?_, ?_, htail, hhead, ?_⟩
  · rw [List.chain'_append]
    refine ⟨?_, ?_, ?_⟩
    · refine (List.Chain'.iff_mem.mp hc.1).imp ?_
      intro x y ⟨hx, hy, hxy⟩
      unfold Linked at hxy ⊢
      constructor
      · rw [hnext x (hm1 x hx), if_neg]
        · exact hxy.1
        · intro e
          have := hpa x e.symm
          rw [hxy.1] at this
          exact ha1 (Option.some.inj this ▸ hy)
      · rw [hprev y (hm1 y hy), if_neg]
        · exact hxy.2
        · intro e
          exact hdisj y hy (List.mem_of_mem_head? e.symm)
    · have hc2 : List.Chain' (Linked heap) l2 := by
        cases l2 with
        | nil => exact List.chain'_nil
        | cons n rest => exact (List.chain'_cons'.mp hc.2.1).2
      refine (List.Chain'.iff_mem.mp hc2).imp ?_
      intro x y ⟨hx, hy, hxy⟩
      unfold Linked at hxy ⊢
      constructor
      · rw [hnext x (hm2 x hx), if_neg]
        · exact hxy.1
        · intro e
          exact hdisj x (List.mem_of_mem_getLast? e.symm) hx
      · rw [hprev y (hm2 y hy), if_neg]
        · exact hxy.2
        · intro e
          have := hna y e.symm
          rw [hxy.2] at this
          exact hnd2.1 (Option.some.inj this ▸ hx)
    · intro x hx y hy
      unfold Linked
      have hx' : l1.getLast? = some x := hx
      have hy' : l2.head? = some y := hy
      constructor
      · rw [hnext x (hm1 x (List.mem_of_mem_getLast? hx)), if_pos hx'.symm, hy']
      · rw [hprev y (hm2 y (List.mem_of_mem_head? hy)), if_pos hy'.symm, hx']
  · intro f hf
    rw [List.head?_append] at hf
    cases h1 : l1.head? with
    | none =>
      have hl1 : l1 = [] := List.head?_eq_none_iff.mp h1
      rw [h1] at hf
      simp only [Option.or] at hf
      rw [hprev f (hm2 f (List.mem_of_mem_head? hf)), if_pos hf.symm, hl1]
      rfl
    | some q =>
      rw [h1] at hf
      simp only [Option.or, Option.some.injEq] at hf
      subst hf
      have hq1 : q ∈ l1 := List.mem_of_mem_head? h1
      rw [hprev q (hm1 q hq1), if_neg]
      · apply h.first_prev
        rw [List.head?_append, h1]
        rfl
      · intro e
        exact hdisj q hq1 (List.mem_of_mem_head? e.symm)
  · intro f hf
    rw [List.getLast?_append] at hf
    cases h2 : l2.getLast? with
    | none =>
      have hl2 : l2 = [] := List.getLast?_eq_none_iff.mp h2
      rw [h2] at hf
      simp only [Option.or] at hf
      rw [hnext f (hm1 f (List.mem_of_mem_getLast? hf)), if_pos hf.symm, hl2]
      rfl
    | some q =>
      rw [h2] at hf
      simp only [Option.or, Option.some.injEq] at hf
      subst hf
      have hq2 : q ∈ l2 := List.mem_of_mem_getLast? h2
      rw [hnext q (hm2 q hq2), if_neg]
      · apply h.last_next
        rw [List.getLast?_append_cons]
        cases l2 with
        | nil => cases hq2
        | cons n rest => rw [List.getLast?_cons_cons]; exact h2
      · intro e
        exact hdisj q (List.mem_of_mem_getLast? e.symm) hq2
  · rw [hsize, h.size_eq]
    simp only [List.length_append, List.length_cons]
    push_cast
    omega


/-- Unlinking a node of a well-formed list. -/
theorem listUnlink_spec (heap : Nat → Node) (list : LRUList) (l1 l2 : List Nat) (a : Nat)
    (h : IsDLL heap list (l1 ++ a :: l2)) (hnd : (l1 ++ a :: l2).Nodup) :
    IsDLL (listUnlink list heap a).2 (listUnlink list heap a).1 (l1 ++ l2) ∧
    (∀ b, ((listUnlink list heap a).2 b).pageID = (heap b).pageID) ∧
    (∀ b, b ∉ l1 ++ a :: l2 → (listUnlink list heap a).2 b = heap b) := by
  obtain ⟨hap, han, hpa, hna⟩ := IsDLL_prev_next heap list l1 l2 a h
  have hnd' := List.nodup_append.mp hnd
  have hnd2 : a ∉ l2 ∧ l2.Nodup := List.nodup_cons.mp hnd'.2.1
  have ha1 : a ∉ l1 := fun hm => hnd'.2.2 hm (List.mem_cons_self _ _)
  have hdisj : ∀ x, x ∈ l1 → x ∈ l2 → False :=
    fun x h1 h2 => hnd'.2.2 h1 (List.mem_cons_of_mem _ h2)
  have htl : list.tail = (l1 ++ a :: l2).head? := h.tail_eq
  have hhd : list.head = (l1 ++ a :: l2).getLast? := h.head_eq
  cases hp : l1.getLast? with
  | none =>
    have hl1 : l1 = [] := List.getLast?_eq_none_iff.mp hp
    subst hl1
    rw [hp] at hap
    cases hn : l2.head? with
    | none =>
      have hl2 : l2 = [] := List.head?_eq_none_iff.mp hn
      subst hl2
      rw [hn] at han
      have e : listUnlink list heap a
          = ({ list with tail := none, head := none, size := list.size - 1 }, heap) := by
        simp [listUnlink, hap, han]
      rw [e]
      refine ⟨?_, fun b => rfl, fun b _ => rfl⟩
      exact IsDLL_unlink heap heap list _ [] [] a h hnd
        (fun b hb => by cases hb) (fun b hb => by cases hb) rfl rfl rfl
    | some n =>
      rw [hn] at han
      have hn2 : n ∈ l2 := List.mem_of_mem_head? hn
      have hna' : n ≠ a := fun e => hnd2.1 (e ▸ hn2)
      have e : listUnlink list heap a
          = ({ list with tail := some n, size := list.size - 1 },
              Function.update heap n { heap n with prev := none }) := by
        simp [listUnlink, hap, han]
      rw [e]
      dsimp only
      refine ⟨?_, ?_, ?_⟩
      · refine IsDLL_unlink heap _ list _ [] l2 a h hnd ?_ ?_ ?_ ?_ rfl
        · intro b hb
          by_cases hbn : b = n
          · subst hbn
            simp [Function.update_same, hn]
          · rw [Function.update_noteq hbn, if_neg]
            rw [hn]
            exact fun e => hbn (Option.some.inj e)
        · intro b hb
          simp only [List.getLast?_nil]
          rw [if_neg (by simp)]
          by_cases hbn : b = n
          · subst hbn
            simp [Function.update_same]
          · rw [Function.update_noteq hbn]
        · simp [hn]
        · show list.head = _
          rw [hhd]
          simp only [List.nil_append]
          cases l2 with
          | nil => cases hn2
          | cons x rest => rw [List.getLast?_cons_cons]
      · intro b
        by_cases hbn : b = n
        · subst hbn
          simp [Function.update_same]
        · rw [Function.update_noteq hbn]
      · intro b hb
        have hbn : b ≠ n := fun e => hb (by
          rw [e]; exact List.mem_append_right _ (List.mem_cons_of_mem _ hn2))
        rw [Function.update_noteq hbn]
  | some p =>
    rw [hp] at hap
    have hp1 : p ∈ l1 := List.mem_of_mem_getLast? hp
    have hpa' : p ≠ a := fun e => ha1 (e ▸ hp1)
    cases hn : l2.head? with
    | none =>
      have hl2 : l2 = [] := List.head?_eq_none_iff.mp hn
      subst hl2
      rw [hn] at han
      have e : listUnlink list heap a
          = ({ list with head := some p, size := list.size - 1 },
              Function.update heap p { heap p with next := none }) := by
        simp [listUnlink, hap, han, Function.update_noteq (Ne.symm hpa')]
      rw [e]
      dsimp only
      refine ⟨?_, ?_, ?_⟩
      · refine IsDLL_unlink heap _ list _ l1 [] a h hnd ?_ ?_ ?_ ?_ rfl
        · intro b hb
          simp only [List.head?_nil]
          rw [if_neg (by simp)]
          by_cases hbp : b = p
          · subst hbp
            simp [Function.update_same]
          · rw [Function.update_noteq hbp]
        · intro b hb
          by_cases hbp : b = p
          · subst hbp
            simp [Function.update_same, hp]
          · rw [Function.update_noteq hbp, if_neg]
            rw [hp]
            exact fun e => hbp (Option.some.inj e)
        · show list.tail = _
          rw [htl, List.head?_append, List.head?_append]
          cases l1 with
          | nil => cases hp1
          | cons x rest => rfl
        · simp [hp]
      · intro b
        by_cases hbp : b = p
        · subst hbp
          simp [Function.update_same]
        · rw [Function.update_noteq hbp]
      · intro b hb
        have hbp : b ≠ p := fun e => hb (by rw [e]; exact List.mem_append_left _ hp1)
        rw [Function.update_noteq hbp]
    | some n =>
      rw [hn] at han
      have hn2 : n ∈ l2 := List.mem_of_mem_head? hn
      have hna' : n ≠ a := fun e => hnd2.1 (e ▸ hn2)
      have hnp : n ≠ p := fun e => hdisj p hp1 (e ▸ hn2)
      have e : listUnlink list heap a
          = ({ list with size := list.size - 1 },
              Function.update (Function.update heap p { heap p with next := some n }) n
                { heap n with prev := some p }) := by
        simp [listUnlink, hap, han, Function.update_noteq (Ne.symm hpa'),
          Function.update_noteq hnp]
      rw [e]
      dsimp only
      refine ⟨?_, ?_, ?_⟩
      · refine IsDLL_unlink heap _ list _ l1 l2 a h hnd ?_ ?_ ?_ ?_ rfl
        · intro b hb
          by_cases hbn : b = n
          · subst hbn
            simp [Function.update_same, hn, hp]
          · rw [Function.update_noteq hbn, if_neg]
            · by_cases hbp : b = p
              · subst hbp
                simp [Function.update_same]
              · rw [Function.update_noteq hbp]
            · rw [hn]
              exact fun e => hbn (Option.some.inj e)
        · intro b hb
          by_cases hbp : b = p
          · subst hbp
            rw [Function.update_noteq (Ne.symm hnp)]
            simp [Function.update_same, hn, hp]
          · rw [if_neg]
            · by_cases hbn : b = n
              · subst hbn
                simp [Function.update_same]
              · rw [Function.update_noteq hbn, Function.update_noteq hbp]
            · rw [hp]
              exact fun e => hbp (Option.some.inj e)
        · show list.tail = _
          rw [htl, List.head?_append, List.head?_append]
          cases l1 with
          | nil => cases hp1
          | cons x rest => rfl
        · show list.head = _
          rw [hhd, List.getLast?_append_cons, List.getLast?_append]
          cases l2 with
          | nil => cases hn2
          | cons x rest =>
            rw [List.getLast?_cons_cons]
            cases hq : (x :: rest).getLast? with
            | none => exact absurd (List.getLast?_eq_none_iff.mp hq) (by simp)
            | some q => rfl
      · intro b
        by_cases hbn : b = n
        · subst hbn
          simp [Function.update_same]
        · rw [Function.update_noteq hbn]
          by_cases hbp : b = p
          · subst hbp
            simp [Function.update_same]
          · rw [Function.update_noteq hbp]
      · intro b hb
        have hbp : b ≠ p := fun e => hb (by rw [e]; exact List.mem_append_left _ hp1)
        have hbn : b ≠ n := fun e => hb (by
          rw [e]; exact List.mem_append_right _ (List.mem_cons_of_mem _ hn2))
        rw [Function.update_noteq hbn, Function.update_noteq hbp]


/-! ## The list methods of the replacer -/

theorem SameMaps_refl (c : LRUKCache) : c.SameMaps c := ⟨rfl, rfl, rfl, rfl, rfl⟩

theorem SameMaps_trans (a b c : LRUKCache) (h1 : a.SameMaps b) (h2 : b.SameMaps c) :
    a.SameMaps c :=
  ⟨h2.K_eq.trans h1.K_eq, h2.entries_eq.trans h1.entries_eq,
    h2.history_eq.trans h1.history_eq, h2.maxSize_eq.trans h1.maxSize_eq,
    h2.size_eq.trans h1.size_eq⟩

theorem addToHotList_spec (c : LRUKCache) (e : PageEntry) (cold hot : List Nat)
    (h : c.ListsInv cold hot) :
    (c.addToHotList e).1.ListsInv cold (hot ++ [c.nextAddr]) ∧
    (c.addToHotList e).2 = { e with node := some c.nextAddr } ∧
    (c.addToHotList e).1.nextAddr = c.nextAddr + 1 ∧
    ((c.addToHotList e).1.heap c.nextAddr).pageID = e.pageID ∧
    (∀ b, b ≠ c.nextAddr → ((c.addToHotList e).1.heap b).pageID = (c.heap b).pageID) ∧
    c.SameMaps (c.addToHotList e).1 := by
  have hnew : c.nextAddr ∉ hot := fun hm => by
    have := h.alloc _ (List.mem_append_right _ hm); omega
  have hnewc : c.nextAddr ∉ cold := fun hm => by
    have := h.alloc _ (List.mem_append_left _ hm); omega
  obtain ⟨hdll, haddr, hpid, hpids, hframe⟩ :=
    listPushHead_spec c.heap c.hotList hot c.nextAddr e h.hot_dll hnew
  have hnd := List.nodup_append.mp h.nodup
  unfold LRUKCache.addToHotList
  refine ⟨⟨?_, hdll, ?_, ?_⟩, ?_, rfl, hpid, hpids, ⟨rfl, rfl, rfl, rfl, rfl⟩⟩
  · refine IsDLL_congr c.heap _ c.coldList cold ?_ h.cold_dll
    intro b hb
    exact hframe b (fun e' => hnewc (e' ▸ hb)) (fun hm => hnd.2.2 hb hm)
  · rw [← List.append_assoc]
    refine List.nodup_append.mpr ⟨h.nodup, List.nodup_singleton _, ?_⟩
    intro x hx hx'
    simp only [List.mem_singleton] at hx'
    have := h.alloc x hx
    omega
  · intro a ha
    show a < c.nextAddr + 1
    rw [← List.append_assoc, List.mem_append] at ha
    rcases ha with ha | ha
    · have := h.alloc a ha; omega
    · simp only [List.mem_singleton] at ha; omega
  · show ({ e with node := some (listPushHead c.hotList c.heap c.nextAddr e).2.2 } : PageEntry) = _
    rw [haddr]

theorem addToColdList_spec (c : LRUKCache) (e : PageEntry) (cold hot : List Nat)
    (h : c.ListsInv cold hot) :
    (c.addToColdList e).1.ListsInv (cold ++ [c.nextAddr]) hot ∧
    (c.addToColdList e).2 = { e with node := some c.nextAddr } ∧
    (c.addToColdList e).1.nextAddr = c.nextAddr + 1 ∧
    ((c.addToColdList e).1.heap c.nextAddr).pageID = e.pageID ∧
    (∀ b, b ≠ c.nextAddr → ((c.addToColdList e).1.heap b).pageID = (c.heap b).pageID) ∧
    c.SameMaps (c.addToColdList e).1 := by
  have hnew : c.nextAddr ∉ hot := fun hm => by
    have := h.alloc _ (List.mem_append_right _ hm); omega
  have hnewc : c.nextAddr ∉ cold := fun hm => by
    have := h.alloc _ (List.mem_append_left _ hm); omega
  obtain ⟨hdll, haddr, hpid, hpids, hframe⟩ :=
    listPushHead_spec c.heap c.coldList cold c.nextAddr e h.cold_dll hnewc
  have hnd := List.nodup_append.mp h.nodup
  unfold LRUKCache.addToColdList
  refine ⟨⟨hdll, ?_, ?_, ?_⟩, ?_, rfl, hpid, hpids, ⟨rfl, rfl, rfl, rfl, rfl⟩⟩
  · refine IsDLL_congr c.heap _ c.hotList hot ?_ h.hot_dll
    intro b hb
    exact hframe b (fun e' => hnew (e' ▸ hb)) (fun hm => hnd.2.2 hm hb)
  · refine List.nodup_append.mpr ⟨?_, hnd.2.1, ?_⟩
    · refine List.nodup_append.mpr ⟨hnd.1, List.nodup_singleton _, ?_⟩
      intro x hx hx'
      simp only [List.mem_singleton] at hx'
      exact hnewc (hx' ▸ hx)
    · intro x hx hx'
      rw [List.mem_append] at hx
      rcases hx with hx | hx
      · exact hnd.2.2 hx hx'
      · simp only [List.mem_singleton] at hx
        exact hnew (hx ▸ hx')
  · intro a ha
    show a < c.nextAddr + 1
    rw [List.mem_append, List.mem_append] at ha
    rcases ha with (ha | ha) | ha
    · have := h.alloc a (List.mem_append_left _ ha); omega
    · simp only [List.mem_singleton] at ha; omega
    · have := h.alloc a (List.mem_append_right _ ha); omega
  · show ({ e with node := some (listPushHead c.coldList c.heap c.nextAddr e).2.2 } : PageEntry) = _
    rw [haddr]

theorem erase_split (l1 l2 : List Nat) (a : Nat) (h : (l1 ++ a :: l2).Nodup) :
    (l1 ++ a :: l2).erase a = l1 ++ l2 := by
  have hnd := List.nodup_append.mp h
  have ha1 : a ∉ l1 := fun hm => hnd.2.2 hm (List.mem_cons_self _ _)
  rw [List.erase_append_right _ ha1, List.erase_cons_head]

theorem removeFromHotList_spec (c : LRUKCache) (e : PageEntry) (cold hot : List Nat) (a : Nat)
    (h : c.ListsInv cold hot) (hnode : e.node = some a) (ha : a ∈ hot) :
    (c.removeFromHotList e).1.ListsInv cold (hot.erase a) ∧
    (c.removeFromHotList e).2 = { e with node := none } ∧
    (c.removeFromHotList e).1.nextAddr = c.nextAddr ∧
    (∀ b, ((c.removeFromHotList e).1.heap b).pageID = (c.heap b).pageID) ∧
    c.SameMaps (c.removeFromHotList e).1 := by
  obtain ⟨l1, l2, hsplit⟩ := List.append_of_mem ha
  have hnd := List.nodup_append.mp h.nodup
  have hhot := h.hot_dll
  rw [hsplit] at hhot
  have hndh : (l1 ++ a :: l2).Nodup := hsplit ▸ hnd.2.1
  obtain ⟨hdll, hpids, hframe⟩ := listUnlink_spec c.heap c.hotList l1 l2 a hhot hndh
  have her : hot.erase a = l1 ++ l2 := by rw [hsplit]; exact erase_split l1 l2 a hndh
  unfold LRUKCache.removeFromHotList
  rw [hnode]
  refine ⟨⟨?_, ?_, ?_, ?_⟩, rfl, rfl, hpids, ⟨rfl, rfl, rfl, rfl, rfl⟩⟩
  · refine IsDLL_congr c.heap _ c.coldList cold ?_ h.cold_dll
    intro b hb
    exact hframe b (fun hm => hnd.2.2 hb (hsplit ▸ hm))
  · rw [her]; exact hdll
  · refine List.nodup_append.mpr ⟨hnd.1, hnd.2.1.erase a, ?_⟩
    intro x hx hx'
    exact hnd.2.2 hx (List.mem_of_mem_erase hx')
  · intro b hb
    show b < c.nextAddr
    rw [List.mem_append] at hb
    rcases hb with hb | hb
    · exact h.alloc b (List.mem_append_left _ hb)
    · exact h.alloc b (List.mem_append_right _ (List.mem_of_mem_erase hb))

theorem removeFromColdList_spec (c : LRUKCache) (e : PageEntry) (cold hot : List Nat) (a : Nat)
    (h : c.ListsInv cold hot) (hnode : e.node = some a) (ha : a ∈ cold) :
    (c.removeFromColdList e).1.ListsInv (cold.erase a) hot ∧
    (c.removeFromColdList e).2 = { e with node := none } ∧
    (c.removeFromColdList e).1.nextAddr = c.nextAddr ∧
    (∀ b, ((c.removeFromColdList e).1.heap b).pageID = (c.heap b).pageID) ∧
    c.SameMaps (c.removeFromColdList e).1 := by
  obtain ⟨l1, l2, hsplit⟩ := List.append_of_mem ha
  have hnd := List.nodup_append.mp h.nodup
  have hcold := h.cold_dll
  rw [hsplit] at hcold
  have hndh : (l1 ++ a :: l2).Nodup := hsplit ▸ hnd.1
  obtain ⟨hdll, hpids, hframe⟩ := listUnlink_spec c.heap c.coldList l1 l2 a hcold hndh
  have her : cold.erase a = l1 ++ l2 := by rw [hsplit]; exact erase_split l1 l2 a hndh
  unfold LRUKCache.removeFromColdList
  rw [hnode]
  refine ⟨⟨?_, ?_, ?_, ?_⟩, rfl, rfl, hpids, ⟨rfl, rfl, rfl, rfl, rfl⟩⟩
  · rw [her]; exact hdll
  · refine IsDLL_congr c.heap _ c.hotList hot ?_ h.hot_dll
    intro b hb
    exact hframe b (fun hm => hnd.2.2 (hsplit ▸ hm) hb)
  · refine List.nodup_append.mpr ⟨hnd.1.erase a, hnd.2.1, ?_⟩
    intro x hx hx'
    exact hnd.2.2 (List.mem_of_mem_erase hx) hx'
  · intro b hb
    show b < c.nextAddr
    rw [List.mem_append] at hb
    rcases hb with hb | hb
    · exact h.alloc b (List.mem_append_left _ (List.mem_of_mem_erase hb))
    · exact h.alloc b (List.mem_append_right _ hb)


theorem not_mem_hot_of_mem_cold (c : LRUKCache) (cold hot : List Nat) (h : c.ListsInv cold hot)
    (a : Nat) (ha : a ∈ cold) : a ∉ hot :=
  fun hm => (List.nodup_append.mp h.nodup).2.2 ha hm

theorem not_mem_cold_of_mem_hot (c : LRUKCache) (cold hot : List Nat) (h : c.ListsInv cold hot)
    (a : Nat) (ha : a ∈ hot) : a ∉ cold :=
  fun hm => (List.nodup_append.mp h.nodup).2.2 hm ha

/-- What the three `if` statements of `Access` do to the lists: the old node of
the entry leaves its list, a new node becomes the head of the hot list when the
entry is hot or should be, of the cold list otherwise. -/
theorem place_spec (c : LRUKCache) (e : PageEntry) (should : Bool) (cold hot : List Nat)
    (h : c.ListsInv cold hot)
    (hnode : ∀ a, e.node = some a → if e.isInHotList then a ∈ hot else a ∈ cold)
    (hflag : e.isInHotList = true → should = true) :
    (c.place e should).1.ListsInv
      ((match e.node with | some a => cold.erase a | none => cold) ++
        (if (e.isInHotList || should) then [] else [c.nextAddr]))
      ((match e.node with | some a => hot.erase a | none => hot) ++
        (if (e.isInHotList || should) then [c.nextAddr] else [])) ∧
    (c.place e should).2 =
      { e with node := some c.nextAddr, isInHotList := (e.isInHotList || should) } ∧
    (c.place e should).1.nextAddr = c.nextAddr + 1 ∧
    ((c.place e should).1.heap c.nextAddr).pageID = e.pageID ∧
    (∀ b, b ≠ c.nextAddr → ((c.place e should).1.heap b).pageID = (c.heap b).pageID) ∧
    c.SameMaps (c.place e should).1 := by
  unfold LRUKCache.place
  cases hn : e.node with
  | none =>
    cases hh : e.isInHotList with
    | true =>
      have hs : should = true := hflag hh
      subst hs
      simp only [Bool.not_true, Bool.and_false, Bool.false_eq_true, if_false, ne_eq,
        not_true_eq_false, Bool.or_true, if_true, List.append_nil]
      obtain ⟨h1, h2, h3, h4, h5, h6⟩ := addToHotList_spec c e cold hot h
      refine ⟨h1, ?_, h3, h4, h5, h6⟩
      rw [h2]
      cases e
      simp_all
    | false =>
      cases should with
      | true =>
        simp only [Bool.not_false, Bool.and_self, if_true, Bool.or_true, List.append_nil]
        unfold LRUKCache.moveToHotList
        simp only [hn, ne_eq, not_true_eq_false, if_false]
        obtain ⟨h1, h2, h3, h4, h5, h6⟩ := addToHotList_spec c e cold hot h
        refine ⟨h1, ?_, h3, h4, h5, h6⟩
        rw [h2]
      | false =>
        simp only [Bool.not_false, Bool.and_true, Bool.false_eq_true, if_false, ne_eq,
          not_true_eq_false, Bool.or_self, List.append_nil]
        obtain ⟨h1, h2, h3, h4, h5, h6⟩ := addToColdList_spec c e cold hot h
        refine ⟨h1, ?_, h3, h4, h5, h6⟩
        rw [h2]
        cases e
        simp_all
  | some a =>
    have hmem := hnode a hn
    cases hh : e.isInHotList with
    | true =>
      have hs : should = true := hflag hh
      subst hs
      rw [hh] at hmem
      simp only [if_true] at hmem
      simp only [Bool.not_true, Bool.and_false, Bool.false_eq_true, if_false, ne_eq,
        not_false_eq_true, if_true, Bool.or_true, List.append_nil, reduceCtorEq]
      unfold LRUKCache.updatePosition
      simp only [hn, hh, if_true, if_false, reduceCtorEq]
      obtain ⟨r1, r2, r3, r4, r5⟩ := removeFromHotList_spec c e cold hot a h hn hmem
      obtain ⟨h1, h2, h3, h4, h5, h6⟩ :=
        addToHotList_spec (c.removeFromHotList e).1 (c.removeFromHotList e).2 cold
          (hot.erase a) r1
      rw [r3] at h1 h2 h3 h4 h5
      have hc : cold.erase a = cold :=
        List.erase_of_not_mem (not_mem_cold_of_mem_hot c cold hot h a hmem)
      rw [hc]
      refine ⟨h1, ?_, h3, ?_, ?_, SameMaps_trans _ _ _ r5 h6⟩
      · rw [h2, r2]
        cases e
        simp_all
      · rw [h4, r2]
      · intro b hb
        rw [h5 b hb, r4 b]
    | false =>
      rw [hh] at hmem
      simp only [Bool.false_eq_true, if_false] at hmem
      have hhot : hot.erase a = hot :=
        List.erase_of_not_mem (not_mem_hot_of_mem_cold c cold hot h a hmem)
      obtain ⟨r1, r2, r3, r4, r5⟩ := removeFromColdList_spec c e cold hot a h hn hmem
      cases should with
      | true =>
        simp only [Bool.not_false, Bool.and_self, if_true, Bool.or_true, List.append_nil]
        unfold LRUKCache.moveToHotList
        simp only [hn, ne_eq, not_false_eq_true, if_true, reduceCtorEq]
        obtain ⟨h1, h2, h3, h4, h5, h6⟩ :=
          addToHotList_spec (c.removeFromColdList e).1 (c.removeFromColdList e).2
            (cold.erase a) hot r1
        rw [r3] at h1 h2 h3 h4 h5
        rw [hhot]
        refine ⟨h1, ?_, h3, ?_, ?_, SameMaps_trans _ _ _ r5 h6⟩
        · rw [h2, r2]
        · rw [h4, r2]
        · intro b hb
          rw [h5 b hb, r4 b]
      | false =>
        simp only [Bool.not_false, Bool.and_true, Bool.false_eq_true, if_false, ne_eq,
          not_false_eq_true, if_true, Bool.or_self, List.append_nil, reduceCtorEq]
        unfold LRUKCache.updatePosition
        simp only [hn, hh, if_false, Bool.false_eq_true, reduceCtorEq]
        obtain ⟨h1, h2, h3, h4, h5, h6⟩ :=
          addToColdList_spec (c.removeFromColdList e).1 (c.removeFromColdList e).2
            (cold.erase a) hot r1
        rw [r3] at h1 h2 h3 h4 h5
        rw [hhot]
        refine ⟨h1, ?_, h3, ?_, ?_, SameMaps_trans _ _ _ r5 h6⟩
        · rw [h2, r2]
          cases e
          simp_all
        · rw [h4, r2]
        · intro b hb
          rw [h5 b hb, r4 b]


/-! ## `Access` keeps the invariant -/

theorem updateAccessHistory_ok (c : LRUKCache) (p now : Nat) (c1 : LRUKCache)
    (h : c.updateAccessHistory p now = .ok c1) :
    ∃ hst, c1 = { c with accessHistory := mapSet c.accessHistory p hst } := by
  unfold LRUKCache.updateAccessHistory at h
  cases hh : c.historyFor p with
  | ok hst0 =>
    rw [hh] at h
    exact ⟨_, (Res.ok.inj h).symm⟩
  | error m => rw [hh] at h; cases h
  | panic => rw [hh] at h; cases h
  | diverge => rw [hh] at h; cases h

theorem Access_unfold (c : LRUKCache) (p now : Nat) (c' : LRUKCache)
    (h : c.Access p now = .ok c') :
    ∃ hst, c' = ({ c with accessHistory := mapSet c.accessHistory p hst } : LRUKCache).accessEntry
      p now := by
  unfold LRUKCache.Access at h
  cases hu : c.updateAccessHistory p now with
  | ok c1 =>
    obtain ⟨hst, hc1⟩ := updateAccessHistory_ok c p now c1 hu
    rw [hu] at h
    refine ⟨hst, ?_⟩
    rw [← hc1]
    exact (Res.ok.inj h).symm
  | error m => rw [hu] at h; cases h
  | panic => rw [hu] at h; cases h
  | diverge => rw [hu] at h; cases h


theorem length_erase_add (l : List Nat) (a : Nat) (h : a ∈ l) :
    ((l.erase a).length : Int) = (l.length : Int) - 1 := by
  have := List.length_erase_of_mem h
  have hpos : 0 < l.length := List.length_pos_of_mem h
  omega

/-- The invariant after the entry of `p` has been put back with a new node at
the head of its list. -/
theorem EntriesInv_assemble (c c2 : LRUKCache) (p : Nat) (ef : PageEntry)
    (cold hot L1 L2 : List Nat) (aOld : Option Nat)
    (h : c.EntriesInv cold hot) (hl : c2.ListsInv L1 L2)
    (hent : c2.pageEntries = c.pageEntries)
    (hold : aOld = (mapGet c.pageEntries p).bind (fun e => e.node))
    (hL1 : L1 = eraseNode aOld cold ++
      (if ef.isInHotList then [] else [c.nextAddr]))
    (hL2 : L2 = eraseNode aOld hot ++
      (if ef.isInHotList then [c.nextAddr] else []))
    (hefp : ef.pageID = p) (hefn : ef.node = some c.nextAddr)
    (hpidnew : (c2.heap c.nextAddr).pageID = p)
    (hpids : ∀ b, b ≠ c.nextAddr → (c2.heap b).pageID = (c.heap b).pageID)
    (hsize : c2.currentSize =
      if (mapGet c.pageEntries p).isSome then c.currentSize else c.currentSize + 1) :
    LRUKCache.EntriesInv { c2 with pageEntries := mapSet c2.pageEntries p ef } L1 L2 := by
  have hnd := List.nodup_append.mp h.lists.nodup
  -- the old node of `p`
  have hAold : ∀ a, aOld = some a → (c.heap a).pageID = p ∧ a ∈ cold ++ hot ∧
      ∃ e, mapGet c.pageEntries p = some e ∧ e.node = some a := by
    intro a ha
    rw [hold] at ha
    cases hg : mapGet c.pageEntries p with
    | none => rw [hg] at ha; cases ha
    | some e =>
      rw [hg] at ha
      simp only [Option.bind] at ha
      obtain ⟨_, a', hn', hp', hm'⟩ := h.entry_node p e hg
      rw [hn'] at ha
      have := Option.some.inj ha
      subst this
      refine ⟨hp', ?_, e, rfl, hn'⟩
      split at hm'
      · exact List.mem_append_right _ hm'
      · exact List.mem_append_left _ hm'
  have hnone : aOld = none → mapGet c.pageEntries p = none := by
    intro ha
    rw [hold] at ha
    cases hg : mapGet c.pageEntries p with
    | none => rfl
    | some e =>
      rw [hg] at ha
      simp only [Option.bind] at ha
      obtain ⟨_, a', hn', _, _⟩ := h.entry_node p e hg
      rw [hn'] at ha
      cases ha
  -- membership in the new lists
  have hkeep_cold : ∀ b, b ∈ cold → (∀ a, aOld = some a → b ≠ a) →
      b ∈ L1 := by
    intro b hb hne
    rw [hL1]
    apply List.mem_append_left
    cases ha : aOld with
    | none => exact hb
    | some a => exact (List.mem_erase_of_ne (hne a ha)).mpr hb
  have hkeep_hot : ∀ b, b ∈ hot → (∀ a, aOld = some a → b ≠ a) →
      b ∈ L2 := by
    intro b hb hne
    rw [hL2]
    apply List.mem_append_left
    cases ha : aOld with
    | none => exact hb
    | some a => exact (List.mem_erase_of_ne (hne a ha)).mpr hb
  have hback : ∀ b, b ∈ L1 ++ L2 → b = c.nextAddr ∨
      (b ∈ cold ++ hot ∧ ∀ a, aOld = some a → b ≠ a) := by
    intro b hb
    rw [hL1, hL2] at hb
    simp only [List.mem_append] at hb
    have hsingle : ∀ (t : Bool) (x : Nat), (x ∈ (if t = true then ([] : List Nat) else [c.nextAddr])
        ∨ x ∈ (if t = true then [c.nextAddr] else ([] : List Nat))) → x = c.nextAddr := by
      intro t x hx
      cases t <;> simp at hx <;> exact hx
    rcases hb with (hb | hb) | (hb | hb)
    · right
      cases ha : aOld with
      | none =>
        rw [ha] at hb
        exact ⟨List.mem_append_left _ hb, fun a h' => by cases h'⟩
      | some a =>
        rw [ha] at hb
        have := (List.Nodup.mem_erase_iff hnd.1).mp hb
        exact ⟨List.mem_append_left _ this.2, fun a' h' => by cases h'; exact this.1⟩
    · left; exact hsingle _ _ (Or.inl hb)
    · right
      cases ha : aOld with
      | none =>
        rw [ha] at hb
        exact ⟨List.mem_append_right _ hb, fun a h' => by cases h'⟩
      | some a =>
        rw [ha] at hb
        have := (List.Nodup.mem_erase_iff hnd.2.1).mp hb
        exact ⟨List.mem_append_right _ this.2, fun a' h' => by cases h'; exact this.1⟩
    · left; exact hsingle _ _ (Or.inr hb)
  refine ⟨⟨hl.cold_dll, hl.hot_dll, hl.nodup, hl.alloc⟩, ?_, ?_, ?_, ?_, ?_⟩
  · show (mapKeys (mapSet c2.pageEntries p ef)).Nodup
    rw [hent]
    exact mapKeys_mapSet_nodup _ _ _ h.keys_nodup
  · intro pid e' hg
    have hg' : mapGet (mapSet c.pageEntries p ef) pid = some e' := by
      rw [← hent]; exact hg
    by_cases hpp : pid = p
    · subst hpp
      rw [mapGet_mapSet_same] at hg'
      have := Option.some.inj hg'
      subst this
      refine ⟨hefp, c.nextAddr, hefn, hpidnew, ?_⟩
      rw [hL1, hL2]
      cases ef.isInHotList <;> simp
    · rw [mapGet_mapSet_ne _ _ _ _ hpp] at hg'
      obtain ⟨hp1, a', hn', hp', hm'⟩ := h.entry_node pid e' hg'
      have ha'mem : a' ∈ cold ++ hot := by
        split at hm'
        · exact List.mem_append_right _ hm'
        · exact List.mem_append_left _ hm'
      have ha'new : a' ≠ c.nextAddr := by
        have := h.lists.alloc a' ha'mem; omega
      have ha'old : ∀ a, aOld = some a → a' ≠ a := by
        intro a ha e
        have := (hAold a ha).1
        rw [← e, hp'] at this
        exact hpp this
      refine ⟨hp1, a', hn', ?_, ?_⟩
      · show (c2.heap a').pageID = pid
        rw [hpids a' ha'new, hp']
      · split
        · rename_i hhot
          rw [hhot] at hm'
          exact hkeep_hot a' hm' ha'old
        · rename_i hhot
          simp only [hhot] at hm'
          exact hkeep_cold a' hm' ha'old
  · intro b hb
    show ∃ e, mapGet (mapSet c2.pageEntries p ef) (c2.heap b).pageID = some e ∧ e.node = some b
    rw [hent]
    rcases hback b hb with hbn | ⟨hbm, hbo⟩
    · subst hbn
      rw [hpidnew, mapGet_mapSet_same]
      exact ⟨ef, rfl, hefn⟩
    · have hbnew : b ≠ c.nextAddr := by
        have := h.lists.alloc b hbm; omega
      obtain ⟨e, hge, hne⟩ := h.node_entry b hbm
      rw [hpids b hbnew]
      have hq : (c.heap b).pageID ≠ p := by
        intro hq
        rw [hq] at hge
        cases ha : aOld with
        | none =>
          rw [hnone ha] at hge
          cases hge
        | some a =>
          obtain ⟨_, _, e2, hg2, hn2⟩ := hAold a ha
          rw [hg2] at hge
          have := Option.some.inj hge
          subst this
          rw [hn2] at hne
          exact hbo a ha (Option.some.inj hne).symm
      rw [mapGet_mapSet_ne _ _ _ _ hq]
      exact ⟨e, hge, hne⟩
  · show c2.currentSize = mapLen (mapSet c2.pageEntries p ef)
    rw [hsize, hent]
    cases hg : mapGet c.pageEntries p with
    | none =>
      simp only [Option.isSome_none, Bool.false_eq_true, if_false]
      rw [mapLen_mapSet_of_absent _ _ _ hg, h.size_eq]
    | some e =>
      simp only [Option.isSome_some, if_true]
      rw [mapLen_mapSet_of_present _ _ _ e h.keys_nodup hg, h.size_eq]
  · show mapLen (mapSet c2.pageEntries p ef) = _
    rw [hent]
    have hone : (((if ef.isInHotList = true then ([] : List Nat) else [c.nextAddr]).length : Int)
        + ((if ef.isInHotList = true then [c.nextAddr] else ([] : List Nat)).length : Int)) = 1 := by
      cases ef.isInHotList <;> simp
    rw [hL1, hL2]
    simp only [List.length_append]
    push_cast
    cases ha : aOld with
    | none =>
      rw [mapLen_mapSet_of_absent _ _ _ (hnone ha), h.count_eq]
      simp only [eraseNode]
      omega
    | some a =>
      obtain ⟨_, hmem, e, hg, _⟩ := hAold a ha
      rw [mapLen_mapSet_of_present _ _ _ e h.keys_nodup hg, h.count_eq]
      simp only [eraseNode]
      rw [List.mem_append] at hmem
      rcases hmem with hm | hm
      · have hnh : a ∉ hot := fun hm' => hnd.2.2 hm hm'
        rw [List.erase_of_not_mem hnh, length_erase_add cold a hm]
        omega
      · have hnc : a ∉ cold := fun hm' => hnd.2.2 hm' hm
        rw [List.erase_of_not_mem hnc, length_erase_add hot a hm]
        omega

/-! ## `Access` and `Evict` keep the invariant -/

theorem accessEntry_core (c c0 : LRUKCache) (p : Nat) (e1 : PageEntry) (should : Bool)
    (cold hot : List Nat)
    (h : c.EntriesInv cold hot) (h0 : c0.ListsInv cold hot)
    (hent0 : c0.pageEntries = c.pageEntries) (hnext0 : c0.nextAddr = c.nextAddr)
    (hheap0 : c0.heap = c.heap)
    (hnode1 : e1.node = (mapGet c.pageEntries p).bind (fun e => e.node))
    (hpid1 : e1.pageID = p)
    (hmem : ∀ a, e1.node = some a → if e1.isInHotList then a ∈ hot else a ∈ cold)
    (hflag : e1.isInHotList = true → should = true)
    (hsize : c0.currentSize =
      if (mapGet c.pageEntries p).isSome then c.currentSize else c.currentSize + 1) :
    LRUKCache.EntriesInv
      { (c0.place e1 should).1 with
        pageEntries := mapSet (c0.place e1 should).1.pageEntries p (c0.place e1 should).2 }
      (eraseNode e1.node cold ++ if (e1.isInHotList || should) then [] else [c.nextAddr])
      (eraseNode e1.node hot ++ if (e1.isInHotList || should) then [c.nextAddr] else []) ∧
    (c0.place e1 should).2 =
      { e1 with node := some c.nextAddr, isInHotList := (e1.isInHotList || should) } ∧
    (c0.place e1 should).1.nextAddr = c.nextAddr + 1 ∧
    c0.SameMaps (c0.place e1 should).1 := by
  obtain ⟨hP1, hP2, hP3, hP4, hP5, hP6⟩ := place_spec c0 e1 should cold hot h0 hmem hflag
  rw [hnext0] at hP1 hP2 hP3 hP4
  refine ⟨?_, hP2, hP3, hP6⟩
  have hfl : (c0.place e1 should).2.isInHotList = (e1.isInHotList || should) := by rw [hP2]
  refine EntriesInv_assemble c (c0.place e1 should).1 p (c0.place e1 should).2 cold hot _ _
    e1.node h ?_ ?_ hnode1 ?_ ?_ ?_ ?_ ?_ ?_ ?_
  · exact hP1
  · rw [hP6.entries_eq, hent0]
  · rw [hfl]
  · rw [hfl]
  · rw [hP2]; exact hpid1
  · rw [hP2]
  · rw [hP4, hpid1]
  · intro b hb
    rw [hP5 b (by rw [hnext0]; exact hb), hheap0]
  · rw [hP6.size_eq, hsize]


theorem countInv_after (c c' : LRUKCache) (p now : Nat) (cnt : Nat → Nat) (ef : PageEntry)
    (hcnt : c.CountInv cnt) (hK : c'.K = c.K)
    (hent : c'.pageEntries = mapSet c.pageEntries p ef)
    (hcount : ef.accessCount =
      (match mapGet c.pageEntries p with | some e => e.accessCount | none => 0) + 1)
    (hflag : ef.isInHotList =
      ((match mapGet c.pageEntries p with | some e => e.isInHotList | none => false) ||
        decide (ef.accessCount ≥ c.K))) :
    c'.CountInv (countStep cnt (.access p now)) := by
  intro q
  rw [hent]
  by_cases hq : q = p
  · subst hq
    rw [mapGet_mapSet_same]
    have hc := hcnt q
    simp only [countStep, if_true, hK]
    cases hg : mapGet c.pageEntries q with
    | none =>
      rw [hg] at hc hcount hflag
      simp only at hc hcount hflag
      simp only [Bool.false_or] at hflag
      refine ⟨by rw [hcount, hc]; simp, by omega, ?_⟩
      rw [hflag]
      simp
    | some e =>
      rw [hg] at hc hcount hflag
      simp only at hc hcount hflag
      obtain ⟨hc1, hc2, hc3⟩ := hc
      refine ⟨by rw [hcount, hc1]; simp, by omega, ?_⟩
      rw [hflag]
      simp only [Bool.or_eq_true, decide_eq_true_eq, hc3, ge_iff_le]
      constructor
      · rintro (h1 | h1)
        · omega
        · exact h1
      · intro h1; exact Or.inr h1
  · rw [mapGet_mapSet_ne _ _ _ _ hq]
    have hc := hcnt q
    simp only [countStep, if_neg hq, hK]
    exact hc

theorem accessEntry_inv (c : LRUKCache) (p now : Nat) (cold hot : List Nat) (cnt : Nat → Nat)
    (h : c.EntriesInv cold hot) (hcnt : c.CountInv cnt) :
    (c.accessEntry p now).EntriesInv (accessLists c p cold hot).1 (accessLists c p cold hot).2 ∧
    (c.accessEntry p now).CountInv (countStep cnt (.access p now)) ∧
    (c.accessEntry p now).K = c.K ∧ (c.accessEntry p now).maxSize = c.maxSize ∧
    (c.accessEntry p now).accessHistory = c.accessHistory ∧
    (c.accessEntry p now).nextAddr = c.nextAddr + 1 ∧
    ∃ ef, (c.accessEntry p now).pageEntries = mapSet c.pageEntries p ef ∧
      ef.lastAccess = now ∧ ef.node = some c.nextAddr := by
  cases hg : mapGet c.pageEntries p with
  | some e =>
    have hr0 : c.entryFor p now = (c, e) := by
      unfold LRUKCache.entryFor; rw [hg]
    obtain ⟨hep, a, hen, hap, ham⟩ := h.entry_node p e hg
    have hc := hcnt p
    rw [hg] at hc
    obtain ⟨hc1, hc2, hc3⟩ := hc
    obtain ⟨hE, hef, hnx, hsm⟩ := accessEntry_core c c p
      { e with accessCount := e.accessCount + 1, lastAccess := now }
      (decide (e.accessCount + 1 ≥ c.K)) cold hot h h.lists rfl rfl rfl
      (by rw [hg]; rfl) hep
      (by intro a' ha'
          have : a' = a := by
            have : e.node = some a' := ha'
            rw [hen] at this
            exact (Option.some.inj this).symm
          subst this
          exact ham)
      (by intro hf
          have : c.K ≤ e.accessCount := hc3.mp hf
          simp only [ge_iff_le, decide_eq_true_eq]
          omega)
      (by rw [hg]; rfl)
    have hacc : accessLists c p cold hot =
        (eraseNode e.node cold ++
          (if (e.isInHotList || decide (e.accessCount + 1 ≥ c.K)) = true then [] else [c.nextAddr]),
         eraseNode e.node hot ++
          (if (e.isInHotList || decide (e.accessCount + 1 ≥ c.K)) = true then [c.nextAddr] else [])) := by
      simp only [accessLists, hg, Option.bind]
    have hae : c.accessEntry p now = { (c.place
        { e with accessCount := e.accessCount + 1, lastAccess := now }
        (decide (e.accessCount + 1 ≥ c.K))).1 with
        pageEntries := mapSet (c.place
          { e with accessCount := e.accessCount + 1, lastAccess := now }
          (decide (e.accessCount + 1 ≥ c.K))).1.pageEntries p (c.place
          { e with accessCount := e.accessCount + 1, lastAccess := now }
          (decide (e.accessCount + 1 ≥ c.K))).2 } := by
      unfold LRUKCache.accessEntry
      rw [hr0]
    rw [hae, hacc]
    have hpe : mapSet (c.place
          { e with accessCount := e.accessCount + 1, lastAccess := now }
          (decide (e.accessCount + 1 ≥ c.K))).1.pageEntries p (c.place
          { e with accessCount := e.accessCount + 1, lastAccess := now }
          (decide (e.accessCount + 1 ≥ c.K))).2 = mapSet c.pageEntries p (c.place
          { e with accessCount := e.accessCount + 1, lastAccess := now }
          (decide (e.accessCount + 1 ≥ c.K))).2 := by rw [hsm.entries_eq]
    refine ⟨hE, ?_, hsm.K_eq, hsm.maxSize_eq, hsm.history_eq, hnx, _, hpe, by rw [hef],
      by rw [hef]⟩
    refine countInv_after c _ p now cnt _ hcnt hsm.K_eq hpe ?_ ?_
    · rw [hef, hg]
    · rw [hef, hg]
  | none =>
    have hr0 : c.entryFor p now = ({ c with currentSize := c.currentSize + 1 },
       { pageID := p, accessCount := 0, lastAccess := now, isInHotList := false,
         node := none }) := by
      unfold LRUKCache.entryFor; rw [hg]
    have hc := hcnt p
    rw [hg] at hc
    obtain ⟨hE, hef, hnx, hsm⟩ := accessEntry_core c { c with currentSize := c.currentSize + 1 } p
      { pageID := p, accessCount := 0 + 1, lastAccess := now, isInHotList := false, node := none }
      (decide ((0 : Int) + 1 ≥ c.K)) cold hot h
      ⟨h.lists.cold_dll, h.lists.hot_dll, h.lists.nodup, h.lists.alloc⟩ rfl rfl rfl
      (by rw [hg]; rfl) rfl
      (by intro a' ha'; cases ha')
      (by intro hf; cases hf)
      (by rw [hg]; rfl)
    have hacc : accessLists c p cold hot =
        (eraseNode none cold ++
          (if (false || decide ((0 : Int) + 1 ≥ c.K)) = true then [] else [c.nextAddr]),
         eraseNode none hot ++
          (if (false || decide ((0 : Int) + 1 ≥ c.K)) = true then [c.nextAddr] else [])) := by
      simp only [accessLists, hg, Option.bind]
    have hae : c.accessEntry p now = { (LRUKCache.place { c with currentSize := c.currentSize + 1 }
        { pageID := p, accessCount := 0 + 1, lastAccess := now, isInHotList := false, node := none }
        (decide ((0 : Int) + 1 ≥ c.K))).1 with
        pageEntries := mapSet (LRUKCache.place { c with currentSize := c.currentSize + 1 }
          { pageID := p, accessCount := 0 + 1, lastAccess := now, isInHotList := false, node := none }
          (decide ((0 : Int) + 1 ≥ c.K))).1.pageEntries p
          (LRUKCache.place { c with currentSize := c.currentSize + 1 }
          { pageID := p, accessCount := 0 + 1, lastAccess := now, isInHotList := false, node := none }
          (decide ((0 : Int) + 1 ≥ c.K))).2 } := by
      unfold LRUKCache.accessEntry
      rw [hr0]
    rw [hae, hacc]
    have hpe : mapSet (LRUKCache.place { c with currentSize := c.currentSize + 1 }
          { pageID := p, accessCount := 0 + 1, lastAccess := now, isInHotList := false, node := none }
          (decide ((0 : Int) + 1 ≥ c.K))).1.pageEntries p
          (LRUKCache.place { c with currentSize := c.currentSize + 1 }
          { pageID := p, accessCount := 0 + 1, lastAccess := now, isInHotList := false, node := none }
          (decide ((0 : Int) + 1 ≥ c.K))).2 = mapSet c.pageEntries p
          (LRUKCache.place { c with currentSize := c.currentSize + 1 }
          { pageID := p, accessCount := 0 + 1, lastAccess := now, isInHotList := false, node := none }
          (decide ((0 : Int) + 1 ≥ c.K))).2 := by rw [hsm.entries_eq]
    refine ⟨hE, ?_, hsm.K_eq, hsm.maxSize_eq, hsm.history_eq, hnx, _, hpe, by rw [hef],
      by rw [hef]⟩
    refine countInv_after c _ p now cnt _ hcnt hsm.K_eq hpe ?_ ?_
    · rw [hef, hg]
    · rw [hef, hg]


theorem Access_inv (c c' : LRUKCache) (p now : Nat) (cold hot : List Nat) (cnt : Nat → Nat)
    (h : c.Inv cold hot) (hcnt : c.CountInv cnt) (ha : c.Access p now = .ok c') :
    c'.Inv (accessLists c p cold hot).1 (accessLists c p cold hot).2 ∧
    c'.CountInv (countStep cnt (.access p now)) ∧
    c'.K = c.K ∧ c'.maxSize = c.maxSize ∧ c'.nextAddr = c.nextAddr + 1 ∧
    ∃ ef, c'.pageEntries = mapSet c.pageEntries p ef ∧ ef.lastAccess = now ∧
      ef.node = some c.nextAddr := by
  obtain ⟨hst, hc'⟩ := Access_unfold c p now c' ha
  have hE1 : LRUKCache.EntriesInv { c with accessHistory := mapSet c.accessHistory p hst }
      cold hot :=
    ⟨⟨h.entries.lists.cold_dll, h.entries.lists.hot_dll, h.entries.lists.nodup,
      h.entries.lists.alloc⟩, h.entries.keys_nodup, h.entries.entry_node, h.entries.node_entry,
      h.entries.size_eq, h.entries.count_eq⟩
  have hC1 : LRUKCache.CountInv { c with accessHistory := mapSet c.accessHistory p hst } cnt :=
    hcnt
  obtain ⟨hE, hC, hK, hM, hH, hN, ef, hpe, hla, hno⟩ :=
    accessEntry_inv _ p now cold hot cnt hE1 hC1
  rw [← hc'] at hE hC hK hM hH hN hpe
  refine ⟨⟨hE, ?_, ?_⟩, hC, hK, hM, hN, ef, hpe, hla, hno⟩
  · rw [hH]
    exact mapKeys_mapSet_nodup _ _ _ h.hist_nodup
  · intro pid
    rw [hH, hpe]
    show (mapGet (mapSet c.accessHistory p hst) pid).isSome =
      (mapGet (mapSet c.pageEntries p ef) pid).isSome
    by_cases hq : pid = p
    · subst hq
      rw [mapGet_mapSet_same, mapGet_mapSet_same]
      rfl
    · rw [mapGet_mapSet_ne _ _ _ _ hq, mapGet_mapSet_ne _ _ _ _ hq]
      exact h.hist_keys pid

theorem Evict_core (c c2 : LRUKCache) (p a : Nat) (e : PageEntry) (cold hot : List Nat)
    (h : c.Inv cold hot) (hg : mapGet c.pageEntries p = some e) (hen : e.node = some a)
    (hl : c2.ListsInv (cold.erase a) (hot.erase a))
    (hpids : ∀ b, (c2.heap b).pageID = (c.heap b).pageID)
    (hsm : c.SameMaps c2) :
    LRUKCache.Inv { c2 with pageEntries := mapDel c2.pageEntries p,
                            accessHistory := mapDel c2.accessHistory p,
                            currentSize := c2.currentSize - 1 } (cold.erase a) (hot.erase a) := by
  have hnd := List.nodup_append.mp h.entries.lists.nodup
  obtain ⟨hep, a0, hen0, hap, ham⟩ := h.entries.entry_node p e hg
  have ha0 : a0 = a := by
    rw [hen] at hen0
    exact (Option.some.inj hen0).symm
  subst ha0
  have hamem : a0 ∈ cold ++ hot := by
    split at ham
    · exact List.mem_append_right _ ham
    · exact List.mem_append_left _ ham
  refine ⟨⟨⟨hl.cold_dll, hl.hot_dll, hl.nodup, hl.alloc⟩, ?_, ?_, ?_, ?_, ?_⟩, ?_, ?_⟩
  · show (mapKeys (mapDel c2.pageEntries p)).Nodup
    rw [hsm.entries_eq]
    exact mapKeys_mapDel_nodup _ _ h.entries.keys_nodup
  · intro pid e' hg'
    have hg2 : mapGet (mapDel c.pageEntries p) pid = some e' := by
      rw [← hsm.entries_eq]; exact hg'
    have hq : pid ≠ p := by
      intro hq
      rw [hq, mapGet_mapDel_same] at hg2
      cases hg2
    rw [mapGet_mapDel_ne _ _ _ hq] at hg2
    obtain ⟨hp1, a', hn', hp', hm'⟩ := h.entries.entry_node pid e' hg2
    have hne : a' ≠ a0 := by
      intro e1
      rw [e1, hap] at hp'
      exact hq hp'.symm
    refine ⟨hp1, a', hn', ?_, ?_⟩
    · show (c2.heap a').pageID = pid
      rw [hpids, hp']
    · split
      · rename_i hhot
        rw [hhot] at hm'
        exact (List.mem_erase_of_ne hne).mpr hm'
      · rename_i hhot
        simp only [hhot] at hm'
        exact (List.mem_erase_of_ne hne).mpr hm'
  · intro b hb
    show ∃ e', mapGet (mapDel c2.pageEntries p) (c2.heap b).pageID = some e' ∧ e'.node = some b
    rw [hsm.entries_eq, hpids]
    have hb' : b ≠ a0 ∧ b ∈ cold ++ hot := by
      rw [List.mem_append] at hb
      rcases hb with hb | hb
      · have := (List.Nodup.mem_erase_iff hnd.1).mp hb
        exact ⟨this.1, List.mem_append_left _ this.2⟩
      · have := (List.Nodup.mem_erase_iff hnd.2.1).mp hb
        exact ⟨this.1, List.mem_append_right _ this.2⟩
    obtain ⟨e', hge, hne⟩ := h.entries.node_entry b hb'.2
    have hq : (c.heap b).pageID ≠ p := by
      intro hq
      rw [hq, hg] at hge
      have := Option.some.inj hge
      subst this
      rw [hen] at hne
      exact hb'.1 (Option.some.inj hne).symm
    rw [mapGet_mapDel_ne _ _ _ hq]
    exact ⟨e', hge, hne⟩
  · show c2.currentSize - 1 = mapLen (mapDel c2.pageEntries p)
    rw [hsm.size_eq, hsm.entries_eq, mapLen_mapDel_of_present _ _ e h.entries.keys_nodup hg,
      h.entries.size_eq]
  · show mapLen (mapDel c2.pageEntries p) = _
    rw [hsm.entries_eq, mapLen_mapDel_of_present _ _ e h.entries.keys_nodup hg,
      h.entries.count_eq]
    rw [List.mem_append] at hamem
    rcases hamem with hm | hm
    · have hnh : a0 ∉ hot := fun hm' => hnd.2.2 hm hm'
      rw [List.erase_of_not_mem hnh, length_erase_add cold a0 hm]
      omega
    · have hnc : a0 ∉ cold := fun hm' => hnd.2.2 hm' hm
      rw [List.erase_of_not_mem hnc, length_erase_add hot a0 hm]
      omega
  · show (mapKeys (mapDel c2.accessHistory p)).Nodup
    rw [hsm.history_eq]
    exact mapKeys_mapDel_nodup _ _ h.hist_nodup
  · intro pid
    show (mapGet (mapDel c2.accessHistory p) pid).isSome =
      (mapGet (mapDel c2.pageEntries p) pid).isSome
    rw [hsm.history_eq, hsm.entries_eq]
    by_cases hq : pid = p
    · subst hq
      rw [mapGet_mapDel_same, mapGet_mapDel_same]
      rfl
    · rw [mapGet_mapDel_ne _ _ _ hq, mapGet_mapDel_ne _ _ _ hq]
      exact h.hist_keys pid


theorem Evict_inv (c : LRUKCache) (p : Nat) (cold hot : List Nat) (cnt : Nat → Nat)
    (h : c.Inv cold hot) (hcnt : c.CountInv cnt) :
    (c.Evict p).1.Inv (evictLists c p cold hot).1 (evictLists c p cold hot).2 ∧
    (c.Evict p).1.CountInv (countStep cnt (.evict p)) ∧
    (c.Evict p).1.K = c.K ∧ (c.Evict p).1.maxSize = c.maxSize ∧
    (c.Evict p).1.nextAddr = c.nextAddr := by
  cases hg : mapGet c.pageEntries p with
  | none =>
    have hev : c.Evict p = (c, false) := by
      unfold LRUKCache.Evict; rw [hg]
    have hel : evictLists c p cold hot = (cold, hot) := by
      unfold evictLists; rw [hg]; rfl
    rw [hev, hel]
    refine ⟨h, ?_, rfl, rfl, rfl⟩
    intro q
    have hc := hcnt q
    by_cases hq : q = p
    · subst hq
      rw [hg]
      simp [countStep]
    · simp only [countStep, if_neg hq]
      exact hc
  | some e =>
    obtain ⟨hep, a, hen, hap, ham⟩ := h.entries.entry_node p e hg
    have hnd := List.nodup_append.mp h.entries.lists.nodup
    have hel : evictLists c p cold hot = (cold.erase a, hot.erase a) := by
      unfold evictLists; rw [hg]
      simp only [Option.bind, hen]
    have hcount : ∀ c2 : LRUKCache, c.SameMaps c2 →
        LRUKCache.CountInv
          { c2 with pageEntries := mapDel c2.pageEntries p, accessHistory := mapDel c2.accessHistory p, currentSize := c2.currentSize - 1 }
          (countStep cnt (.evict p)) := by
      intro c2 hsm q
      show match mapGet (mapDel c2.pageEntries p) q with
        | some e => e.accessCount = (countStep cnt (.evict p) q : Int) ∧
            1 ≤ countStep cnt (.evict p) q ∧ (e.isInHotList = true ↔ c2.K ≤ e.accessCount)
        | none => countStep cnt (.evict p) q = 0
      rw [hsm.entries_eq, hsm.K_eq]
      by_cases hq : q = p
      · subst hq
        rw [mapGet_mapDel_same]
        simp [countStep]
      · rw [mapGet_mapDel_ne _ _ _ hq]
        simp only [countStep, if_neg hq]
        exact hcnt q
    cases hh : e.isInHotList with
    | true =>
      rw [hh] at ham
      simp only [if_true] at ham
      have hnc : a ∉ cold := fun hm' => hnd.2.2 hm' ham
      obtain ⟨hR1, hR2, hR3, hR4, hR5⟩ := removeFromHotList_spec c e cold hot a h.entries.lists hen ham
      have hev : c.Evict p = ({ (c.removeFromHotList e).1 with
          pageEntries := mapDel (c.removeFromHotList e).1.pageEntries p,
          accessHistory := mapDel (c.removeFromHotList e).1.accessHistory p,
          currentSize := (c.removeFromHotList e).1.currentSize - 1 }, true) := by
        unfold LRUKCache.Evict; rw [hg]; simp only [hh, if_true]
      rw [hev, hel]
      refine ⟨?_, hcount _ hR5, hR5.K_eq, hR5.maxSize_eq, hR3⟩
      refine Evict_core c _ p a e cold hot h hg hen ?_ hR4 hR5
      rw [List.erase_of_not_mem hnc]
      exact hR1
    | false =>
      rw [hh] at ham
      simp only [Bool.false_eq_true, if_false] at ham
      have hnh : a ∉ hot := fun hm' => hnd.2.2 ham hm'
      obtain ⟨hR1, hR2, hR3, hR4, hR5⟩ := removeFromColdList_spec c e cold hot a h.entries.lists hen ham
      have hev : c.Evict p = ({ (c.removeFromColdList e).1 with
          pageEntries := mapDel (c.removeFromColdList e).1.pageEntries p,
          accessHistory := mapDel (c.removeFromColdList e).1.accessHistory p,
          currentSize := (c.removeFromColdList e).1.currentSize - 1 }, true) := by
        unfold LRUKCache.Evict; rw [hg]; simp only [hh, Bool.false_eq_true, if_false]
      rw [hev, hel]
      refine ⟨?_, hcount _ hR5, hR5.K_eq, hR5.maxSize_eq, hR3⟩
      refine Evict_core c _ p a e cold hot h hg hen ?_ hR4 hR5
      rw [List.erase_of_not_mem hnh]
      exact hR1

theorem NewLRUKCache_inv (k maxSize : Int) :
    (NewLRUKCache k maxSize).Inv [] [] ∧ (NewLRUKCache k maxSize).CountInv (fun _ => 0) := by
  refine ⟨⟨⟨⟨?_, ?_, List.nodup_nil, ?_⟩, List.nodup_nil, ?_, ?_, rfl, rfl⟩, List.nodup_nil, ?_⟩, ?_⟩
  · exact ⟨List.chain'_nil, (fun a h => by cases h), (fun a h => by cases h), rfl, rfl, rfl⟩
  · exact ⟨List.chain'_nil, (fun a h => by cases h), (fun a h => by cases h), rfl, rfl, rfl⟩
  · intro a ha; cases ha
  · intro pid e h; cases h
  · intro a ha; cases ha
  · intro pid; rfl
  · intro p; rfl

theorem LRU_apply_inv (c c' : LRUKCache) (op : LRUOp) (cold hot : List Nat) (cnt : Nat → Nat)
    (h : c.Inv cold hot) (hcnt : c.CountInv cnt) (ha : c.apply op = .ok c') :
    (∃ cold' hot', c'.Inv cold' hot') ∧ c'.CountInv (countStep cnt op) ∧
    c'.K = c.K ∧ c'.maxSize = c.maxSize := by
  cases op with
  | access p now =>
    obtain ⟨h1, h2, h3, h4, _, _⟩ := Access_inv c c' p now cold hot cnt h hcnt ha
    exact ⟨⟨_, _, h1⟩, h2, h3, h4⟩
  | evict p =>
    have : (c.Evict p).1 = c' := Res.ok.inj ha
    subst this
    obtain ⟨h1, h2, h3, h4, _⟩ := Evict_inv c p cold hot cnt h hcnt
    exact ⟨⟨_, _, h1⟩, h2, h3, h4⟩

theorem LRU_run_inv (ops : List LRUOp) : ∀ (c c' : LRUKCache) (cold hot : List Nat)
    (cnt : Nat → Nat), c.Inv cold hot → c.CountInv cnt → c.run ops = .ok c' →
    (∃ cold' hot', c'.Inv cold' hot') ∧ c'.CountInv (ops.foldl countStep cnt) ∧
    c'.K = c.K ∧ c'.maxSize = c.maxSize := by
  induction ops with
  | nil =>
    intro c c' cold hot cnt h hcnt hr
    have : c = c' := Res.ok.inj hr
    subst this
    exact ⟨⟨_, _, h⟩, hcnt, rfl, rfl⟩
  | cons op ops ih =>
    intro c c' cold hot cnt h hcnt hr
    unfold LRUKCache.run at hr
    cases ha : c.apply op with
    | ok c1 =>
      rw [ha] at hr
      simp only [Res_ok_bind] at hr
      obtain ⟨⟨cold1, hot1, h1⟩, h2, h3, h4⟩ := LRU_apply_inv c c1 op cold hot cnt h hcnt ha
      obtain ⟨h5, h6, h7, h8⟩ := ih c1 c' cold1 hot1 _ h1 h2 hr
      exact ⟨h5, h6, by rw [h7, h3], by rw [h8, h4]⟩
    | error m => rw [ha] at hr; cases hr
    | panic => rw [ha] at hr; cases hr
    | diverge => rw [ha] at hr; cases hr


/-! ## The walk of `GetVictim` -/

theorem victimWalk_chain (heap : Nat → Node) (pinned : Nat → Bool) :
    ∀ (l : List Nat) (fuel : Nat), List.Chain' (Linked heap) l →
      (∀ a, l.getLast? = some a → (heap a).next = none) → l.length ≤ fuel →
      victimWalk heap pinned fuel l.head? =
        .ok ((pagesOf heap l).find? (fun p => !pinned p)) := by
  intro l
  induction l with
  | nil =>
    intro fuel _ _ _
    cases fuel <;> rfl
  | cons a rest ih =>
    intro fuel hch hlast hlen
    cases fuel with
    | zero => simp at hlen
    | succ n =>
      have hnext : (heap a).next = rest.head? := by
        cases rest with
        | nil => exact hlast a rfl
        | cons b r =>
          have := List.chain'_cons.mp hch
          exact this.1.1
      have hrest := ih n (List.Chain'.tail hch)
        (by intro x hx
            apply hlast x
            cases rest with
            | nil => cases hx
            | cons b r => rw [List.getLast?_cons_cons]; exact hx)
        (by simp only [List.length_cons] at hlen; omega)
      show victimWalk heap pinned (n + 1) (some a) = _
      unfold victimWalk
      simp only [pagesOf, List.map_cons, List.find?_cons]
      cases hp : pinned (heap a).pageID with
      | true =>
        simp only [Bool.not_true, Bool.false_eq_true, if_false]
        rw [hnext, hrest]
        rfl
      | false =>
        simp only [Bool.not_false, if_true]

theorem length_le_of_alloc (l : List Nat) (n : Nat) (hnd : l.Nodup) (h : ∀ a ∈ l, a < n) :
    l.length ≤ n := by
  have h1 : l.toFinset ⊆ Finset.range n := by
    intro a ha
    rw [List.mem_toFinset] at ha
    exact Finset.mem_range.mpr (h a ha)
  have h2 := Finset.card_le_card h1
  rw [List.toFinset_card_of_nodup hnd, Finset.card_range] at h2
  exact h2

theorem listVictim_spec (heap : Nat → Node) (list : LRUList) (l : List Nat)
    (pinned : Nat → Bool) (fuel : Nat) (h : IsDLL heap list l) (hfuel : l.length ≤ fuel) :
    listVictim list heap pinned fuel = .ok ((pagesOf heap l).find? (fun p => !pinned p)) := by
  unfold listVictim
  by_cases hs : list.size > 0
  · rw [if_pos hs, h.tail_eq]
    exact victimWalk_chain heap pinned l fuel h.chain h.last_next hfuel
  · rw [if_neg hs]
    have : l = [] := by
      have := h.size_eq
      cases l with
      | nil => rfl
      | cons a r =>
        simp only [List.length_cons] at this
        omega
    rw [this]
    rfl

theorem GetVictim_spec (c : LRUKCache) (cold hot : List Nat) (h : c.ListsInv cold hot)
    (pinned : Nat → Bool) :
    c.GetVictim (some pinned) =
      .ok (victimSpec pinned (pagesOf c.heap cold) (pagesOf c.heap hot)) := by
  have hnd := List.nodup_append.mp h.nodup
  have hc := listVictim_spec c.heap c.coldList cold pinned c.nextAddr h.cold_dll
    (length_le_of_alloc cold _ hnd.1 (fun a ha => h.alloc a (List.mem_append_left _ ha)))
  have hh := listVictim_spec c.heap c.hotList hot pinned c.nextAddr h.hot_dll
    (length_le_of_alloc hot _ hnd.2.1 (fun a ha => h.alloc a (List.mem_append_right _ ha)))
  unfold LRUKCache.GetVictim victimSpec
  simp only [hc, hh, Res_ok_bind]
  cases (pagesOf c.heap cold).find? (fun p => !pinned p) with
  | some p => rfl
  | none =>
    simp only [Res_ok_bind]
    cases (pagesOf c.heap hot).find? (fun p => !pinned p) with
    | some p => rfl
    | none => rfl

theorem GetVictim_nil_spec (c : LRUKCache) (cold hot : List Nat) (h : c.ListsInv cold hot) :
    c.GetVictim none =
      .ok (victimSpec (fun _ => false) (pagesOf c.heap cold) (pagesOf c.heap hot)) := by
  unfold LRUKCache.GetVictim victimSpec
  simp only
  have hcs := h.cold_dll.size_eq
  have hct := h.cold_dll.tail_eq
  have hhs := h.hot_dll.size_eq
  have hht := h.hot_dll.tail_eq
  cases cold with
  | cons a r =>
    have : c.coldList.size > 0 := by rw [hcs]; simp only [List.length_cons]; omega
    rw [if_pos this, hct]
    rfl
  | nil =>
    have : ¬ c.coldList.size > 0 := by rw [hcs]; simp
    rw [if_neg this]
    cases hot with
    | cons a r =>
      have : c.hotList.size > 0 := by rw [hhs]; simp only [List.length_cons]; omega
      rw [if_pos this, hht]
      rfl
    | nil =>
      have : ¬ c.hotList.size > 0 := by rw [hhs]; simp
      rw [if_neg this]
      rfl


/-! ## Consequences of the invariant -/

theorem entry_flag_of_mem_hot (c : LRUKCache) (cold hot : List Nat) (h : c.EntriesInv cold hot)
    (a : Nat) (ha : a ∈ hot) :
    ∃ e, mapGet c.pageEntries (c.heap a).pageID = some e ∧ e.node = some a ∧
      e.isInHotList = true := by
  obtain ⟨e, hg, hn⟩ := h.node_entry a (List.mem_append_right _ ha)
  obtain ⟨_, a', hn', _, hm'⟩ := h.entry_node _ e hg
  have : a' = a := by rw [hn] at hn'; exact (Option.some.inj hn').symm
  subst this
  refine ⟨e, hg, hn, ?_⟩
  cases hf : e.isInHotList with
  | true => rfl
  | false =>
    rw [hf] at hm'
    simp only [Bool.false_eq_true, if_false] at hm'
    exact absurd ha (not_mem_hot_of_mem_cold c cold hot h.lists a' hm')

theorem entry_flag_of_mem_cold (c : LRUKCache) (cold hot : List Nat) (h : c.EntriesInv cold hot)
    (a : Nat) (ha : a ∈ cold) :
    ∃ e, mapGet c.pageEntries (c.heap a).pageID = some e ∧ e.node = some a ∧
      e.isInHotList = false := by
  obtain ⟨e, hg, hn⟩ := h.node_entry a (List.mem_append_left _ ha)
  obtain ⟨_, a', hn', _, hm'⟩ := h.entry_node _ e hg
  have : a' = a := by rw [hn] at hn'; exact (Option.some.inj hn').symm
  subst this
  refine ⟨e, hg, hn, ?_⟩
  cases hf : e.isInHotList with
  | false => rfl
  | true =>
    rw [hf] at hm'
    simp only [if_true] at hm'
    exact absurd ha (not_mem_cold_of_mem_hot c cold hot h.lists a' hm')

theorem mem_pagesOf_hot_iff (c : LRUKCache) (cold hot : List Nat) (h : c.EntriesInv cold hot)
    (p : Nat) :
    p ∈ pagesOf c.heap hot ↔ ∃ e, mapGet c.pageEntries p = some e ∧ e.isInHotList = true := by
  unfold pagesOf
  rw [List.mem_map]
  constructor
  · rintro ⟨a, ha, hp⟩
    obtain ⟨e, hg, _, hf⟩ := entry_flag_of_mem_hot c cold hot h a ha
    rw [hp] at hg
    exact ⟨e, hg, hf⟩
  · rintro ⟨e, hg, hf⟩
    obtain ⟨_, a, _, hp, hm⟩ := h.entry_node p e hg
    rw [hf] at hm
    exact ⟨a, hm, hp⟩

theorem mem_pagesOf_cold_iff (c : LRUKCache) (cold hot : List Nat) (h : c.EntriesInv cold hot)
    (p : Nat) :
    p ∈ pagesOf c.heap cold ↔ ∃ e, mapGet c.pageEntries p = some e ∧ e.isInHotList = false := by
  unfold pagesOf
  rw [List.mem_map]
  constructor
  · rintro ⟨a, ha, hp⟩
    obtain ⟨e, hg, _, hf⟩ := entry_flag_of_mem_cold c cold hot h a ha
    rw [hp] at hg
    exact ⟨e, hg, hf⟩
  · rintro ⟨e, hg, hf⟩
    obtain ⟨_, a, _, hp, hm⟩ := h.entry_node p e hg
    rw [hf] at hm
    simp only [Bool.false_eq_true, if_false] at hm
    exact ⟨a, hm, hp⟩

theorem pagesOf_nodup (c : LRUKCache) (cold hot : List Nat) (h : c.EntriesInv cold hot) :
    (pagesOf c.heap (cold ++ hot)).Nodup := by
  unfold pagesOf
  refine List.Nodup.map_on ?_ h.lists.nodup
  intro a ha b hb hab
  obtain ⟨e, hg, hn⟩ := h.node_entry a ha
  obtain ⟨e', hg', hn'⟩ := h.node_entry b hb
  rw [hab, hg'] at hg
  have := Option.some.inj hg
  subst this
  rw [hn'] at hn
  exact (Option.some.inj hn).symm

theorem mem_pagesOf_iff_tracked (c : LRUKCache) (cold hot : List Nat)
    (h : c.EntriesInv cold hot) (p : Nat) :
    p ∈ pagesOf c.heap (cold ++ hot) ↔ p ∈ mapKeys c.pageEntries := by
  rw [mem_mapKeys_iff]
  have hsplit : p ∈ pagesOf c.heap (cold ++ hot) ↔
      p ∈ pagesOf c.heap cold ∨ p ∈ pagesOf c.heap hot := by
    unfold pagesOf
    rw [List.map_append, List.mem_append]
  rw [hsplit, mem_pagesOf_hot_iff c cold hot h, mem_pagesOf_cold_iff c cold hot h]
  constructor
  · rintro (⟨e, hg, _⟩ | ⟨e, hg, _⟩) <;> rw [hg] <;> rfl
  · intro hs
    cases hg : mapGet c.pageEntries p with
    | none => rw [hg] at hs; cases hs
    | some e =>
      cases hf : e.isInHotList with
      | true => exact Or.inr ⟨e, rfl, hf⟩
      | false => exact Or.inl ⟨e, rfl, hf⟩

/-! ## Calls never fail for a non-negative `K` -/

theorem Access_total (c : LRUKCache) (p now : Nat) (hK : 0 ≤ c.K) :
    ∃ c', c.Access p now = .ok c' := by
  unfold LRUKCache.Access LRUKCache.updateAccessHistory LRUKCache.historyFor
  cases mapGet c.accessHistory p with
  | some hst => exact ⟨_, rfl⟩
  | none =>
    simp only [if_neg (not_lt.mpr hK)]
    exact ⟨_, rfl⟩

theorem LRU_run_total (ops : List LRUOp) : ∀ (c : LRUKCache) (cold hot : List Nat)
    (cnt : Nat → Nat), c.Inv cold hot → c.CountInv cnt → 0 ≤ c.K →
    ∃ c', c.run ops = .ok c' := by
  induction ops with
  | nil => intro c _ _ _ _ _ _; exact ⟨c, rfl⟩
  | cons op ops ih =>
    intro c cold hot cnt h hcnt hK
    have hstep : ∃ c1, c.apply op = .ok c1 := by
      cases op with
      | access p now => exact Access_total c p now hK
      | evict p => exact ⟨_, rfl⟩
    obtain ⟨c1, hc1⟩ := hstep
    obtain ⟨⟨cold1, hot1, h1⟩, h2, h3, _⟩ := LRU_apply_inv c c1 op cold hot cnt h hcnt hc1
    obtain ⟨c', hc'⟩ := ih c1 cold1 hot1 _ h1 h2 (by rw [h3]; exact hK)
    refine ⟨c', ?_⟩
    unfold LRUKCache.run
    rw [hc1]
    simp only [Res_ok_bind]
    exact hc'

/-! ## Access counts and the list of a page -/

theorem countStep_foldl_mono (p : Nat) (ops : List LRUOp) : ∀ (cnt : Nat → Nat),
    LRUOp.evict p ∉ ops → cnt p ≤ (ops.foldl countStep cnt) p := by
  induction ops with
  | nil => intro cnt _; exact Nat.le_refl _
  | cons op ops ih =>
    intro cnt hne
    rw [List.foldl_cons]
    have h1 : cnt p ≤ countStep cnt op p := by
      cases op with
      | access q now =>
        simp only [countStep]
        split <;> omega
      | evict q =>
        have hq : p ≠ q := by
          intro e
          apply hne
          rw [e]
          exact List.mem_cons_self _ _
        simp only [countStep, if_neg hq]
        exact Nat.le_refl _
    exact Nat.le_trans h1 (ih _ (fun hm => hne (List.mem_cons_of_mem _ hm)))

theorem hot_cold_of_count (c : LRUKCache) (cold hot : List Nat) (cnt : Nat → Nat)
    (h : c.Inv cold hot) (hcnt : c.CountInv cnt) (p : Nat) :
    (p ∈ mapKeys c.pageEntries ↔ 1 ≤ cnt p) ∧
    (∀ e, mapGet c.pageEntries p = some e → e.accessCount = (cnt p : Int)) ∧
    (p ∈ pagesOf c.heap hot ↔ 1 ≤ cnt p ∧ c.K ≤ (cnt p : Int)) ∧
    (p ∈ pagesOf c.heap cold ↔ 1 ≤ cnt p ∧ (cnt p : Int) < c.K) := by
  have hc := hcnt p
  rw [mem_mapKeys_iff, mem_pagesOf_hot_iff c cold hot h.entries,
    mem_pagesOf_cold_iff c cold hot h.entries]
  cases hg : mapGet c.pageEntries p with
  | none =>
    rw [hg] at hc
    simp only at hc
    refine ⟨?_, ?_, ?_, ?_⟩
    · simp [hc]
    · intro e he; cases he
    · simp [hc]
    · simp [hc]
  | some e =>
    rw [hg] at hc
    obtain ⟨hc1, hc2, hc3⟩ := hc
    refine ⟨?_, ?_, ?_, ?_⟩
    · simp [hc2]
    · intro e' he'
      rw [← Option.some.inj he']
      exact hc1
    · constructor
      · rintro ⟨e', he', hf⟩
        rw [← Option.some.inj he'] at hf
        exact ⟨hc2, by rw [← hc1]; exact hc3.mp hf⟩
      · rintro ⟨_, hk⟩
        exact ⟨e, rfl, hc3.mpr (by rw [hc1]; exact hk)⟩
    · constructor
      · rintro ⟨e', he', hf⟩
        rw [← Option.some.inj he'] at hf
        refine ⟨hc2, ?_⟩
        by_contra hk
        have : e.isInHotList = true := hc3.mpr (by rw [hc1]; omega)
        rw [hf] at this
        cases this
      · rintro ⟨_, hk⟩
        refine ⟨e, rfl, ?_⟩
        cases hf : e.isInHotList with
        | false => rfl
        | true =>
          have := hc3.mp hf
          rw [hc1] at this
          omega

/-! ## The nodes of a list are determined by the store -/

theorem next_eq_head_of_chain (heap : Nat → Node) (a : Nat) (rest : List Nat)
    (hch : List.Chain' (Linked heap) (a :: rest))
    (hlast : ∀ x, (a :: rest).getLast? = some x → (heap x).next = none) :
    (heap a).next = rest.head? := by
  cases rest with
  | nil => exact hlast a rfl
  | cons b r => exact (List.chain'_cons.mp hch).1.1

theorem chain_unique (heap : Nat → Node) : ∀ (l1 l2 : List Nat),
    List.Chain' (Linked heap) l1 → List.Chain' (Linked heap) l2 →
    (∀ x, l1.getLast? = some x → (heap x).next = none) →
    (∀ x, l2.getLast? = some x → (heap x).next = none) →
    l1.head? = l2.head? → l1 = l2 := by
  intro l1
  induction l1 with
  | nil =>
    intro l2 _ _ _ _ hh
    cases l2 with
    | nil => rfl
    | cons b r => cases hh
  | cons a r1 ih =>
    intro l2 hc1 hc2 hl1 hl2 hh
    cases l2 with
    | nil => cases hh
    | cons b r2 =>
      have hab : a = b := Option.some.inj hh
      subst hab
      have hn1 := next_eq_head_of_chain heap a r1 hc1 hl1
      have hn2 := next_eq_head_of_chain heap a r2 hc2 hl2
      have hlast : ∀ (r : List Nat), (∀ x, (a :: r).getLast? = some x → (heap x).next = none) →
          ∀ x, r.getLast? = some x → (heap x).next = none := by
        intro r hl x hx
        apply hl x
        cases r with
        | nil => cases hx
        | cons b r => rw [List.getLast?_cons_cons]; exact hx
      rw [ih r2 (List.Chain'.tail hc1) (List.Chain'.tail hc2) (hlast r1 hl1) (hlast r2 hl2)
        (by rw [← hn1, ← hn2])]

/-- The nodes of a well-formed list are determined by the list and the store. -/
theorem IsDLL_unique (heap : Nat → Node) (list : LRUList) (l1 l2 : List Nat)
    (h1 : IsDLL heap list l1) (h2 : IsDLL heap list l2) : l1 = l2 :=
  chain_unique heap l1 l2 h1.chain h2.chain h1.last_next h2.last_next
    (by rw [← h1.tail_eq, ← h2.tail_eq])

/-! ## The lists are in the order of last access -/

theorem lastAccessOf_frame (c c' : LRUKCache) (cold hot L1 L2 : List Nat)
    (h : c.EntriesInv cold hot) (h' : c'.EntriesInv L1 L2) (b : Nat) (hb : b ∈ L1 ++ L2)
    (hent : ∀ q e, mapGet c'.pageEntries q = some e → e.node = some b →
      mapGet c.pageEntries q = some e) :
    c'.lastAccessOf (c'.heap b).pageID = c.lastAccessOf (c.heap b).pageID := by
  obtain ⟨e', hg', hn'⟩ := h'.node_entry b hb
  have hg := hent _ e' hg' hn'
  obtain ⟨_, a, hn, hp, _⟩ := h.entry_node _ e' hg
  have hab : a = b := by rw [hn'] at hn; exact (Option.some.inj hn).symm
  subst hab
  unfold LRUKCache.lastAccessOf
  rw [hp, hg', hg]

theorem byLastAccess_sublist (c c' : LRUKCache) (l l' : List Nat) (hsub : l'.Sublist l)
    (hsame : ∀ b ∈ l', c'.lastAccessOf (c'.heap b).pageID = c.lastAccessOf (c.heap b).pageID)
    (hs : c.ByLastAccess l) : c'.ByLastAccess l' := by
  unfold LRUKCache.ByLastAccess at hs ⊢
  refine (hs.sublist hsub).imp_of_mem ?_
  intro a b ha hb hab
  rw [hsame a ha, hsame b hb]
  exact hab

theorem byLastAccess_push (c c' : LRUKCache) (l l' : List Nat) (new t : Nat) (tail : List Nat)
    (hsub : l'.Sublist l)
    (hsame : ∀ b ∈ l', c'.lastAccessOf (c'.heap b).pageID = c.lastAccessOf (c.heap b).pageID)
    (hs : c.ByLastAccess l) (hbound : ∀ p, c.lastAccessOf p ≤ t)
    (htail : tail = [] ∨ tail = [new])
    (hnew : t ≤ c'.lastAccessOf (c'.heap new).pageID) :
    c'.ByLastAccess (l' ++ tail) := by
  have h1 := byLastAccess_sublist c c' l l' hsub hsame hs
  rcases htail with ht | ht
  · rw [ht, List.append_nil]; exact h1
  · rw [ht]
    unfold LRUKCache.ByLastAccess at h1 ⊢
    rw [List.pairwise_append]
    refine ⟨h1, List.pairwise_singleton _ _, ?_⟩
    intro a ha b hb
    rw [List.mem_singleton] at hb
    subst hb
    rw [hsame a ha]
    exact Nat.le_trans (hbound _) hnew

theorem eraseNode_sublist (o : Option Nat) (l : List Nat) : (eraseNode o l).Sublist l := by
  cases o with
  | none => exact List.Sublist.refl l
  | some a => exact List.erase_sublist a l

theorem Access_recency (c c' : LRUKCache) (p now t : Nat) (cold hot : List Nat)
    (cnt : Nat → Nat) (h : c.Inv cold hot) (hcnt : c.CountInv cnt)
    (hr : c.RecencyInv cold hot t) (ht : t ≤ now) (ha : c.Access p now = .ok c') :
    c'.RecencyInv (accessLists c p cold hot).1 (accessLists c p cold hot).2 now := by
  obtain ⟨hI, _, _, _, _, ef, hpe, hla, hno⟩ := Access_inv c c' p now cold hot cnt h hcnt ha
  have hE := hI.entries
  have hnewp : (c'.heap c.nextAddr).pageID = p := by
    obtain ⟨_, a, hn, hp, _⟩ := hE.entry_node p ef (by rw [hpe, mapGet_mapSet_same])
    rw [hno] at hn
    rw [Option.some.inj hn]
    exact hp
  have hnew : now ≤ c'.lastAccessOf (c'.heap c.nextAddr).pageID := by
    unfold LRUKCache.lastAccessOf
    rw [hnewp, hpe, mapGet_mapSet_same]
    exact Nat.le_of_eq hla.symm
  have hmemL : ∀ b, b ∈ eraseNode ((mapGet c.pageEntries p).bind fun e => e.node) cold ∨
      b ∈ eraseNode ((mapGet c.pageEntries p).bind fun e => e.node) hot →
      b ∈ (accessLists c p cold hot).1 ++ (accessLists c p cold hot).2 ∧ b ≠ c.nextAddr := by
    intro b hb
    constructor
    · simp only [accessLists, List.mem_append]
      rcases hb with hb | hb
      · exact Or.inl (Or.inl hb)
      · exact Or.inr (Or.inl hb)
    · have hbm : b ∈ cold ++ hot := by
        rcases hb with hb | hb
        · exact List.mem_append_left _ ((eraseNode_sublist _ _).subset hb)
        · exact List.mem_append_right _ ((eraseNode_sublist _ _).subset hb)
      have := h.entries.lists.alloc b hbm
      omega
  have hsame : ∀ b, b ∈ eraseNode ((mapGet c.pageEntries p).bind fun e => e.node) cold ∨
      b ∈ eraseNode ((mapGet c.pageEntries p).bind fun e => e.node) hot →
      c'.lastAccessOf (c'.heap b).pageID = c.lastAccessOf (c.heap b).pageID := by
    intro b hb
    obtain ⟨hb1, hb2⟩ := hmemL b hb
    refine lastAccessOf_frame c c' cold hot _ _ h.entries hE b hb1 ?_
    intro q e hq hn
    rw [hpe] at hq
    by_cases hqp : q = p
    · subst hqp
      rw [mapGet_mapSet_same] at hq
      rw [← Option.some.inj hq, hno] at hn
      exact absurd (Option.some.inj hn).symm hb2
    · rw [mapGet_mapSet_ne _ _ _ _ hqp] at hq
      exact hq
  refine ⟨?_, ?_, ?_⟩
  · intro q
    unfold LRUKCache.lastAccessOf
    rw [hpe]
    by_cases hqp : q = p
    · subst hqp
      rw [mapGet_mapSet_same]
      exact Nat.le_of_eq hla
    · rw [mapGet_mapSet_ne _ _ _ _ hqp]
      exact Nat.le_trans (hr.bound q) ht
  · simp only [accessLists]
    refine byLastAccess_push c c' cold _ c.nextAddr t _ (eraseNode_sublist _ _)
      (fun b hb => hsame b (Or.inl hb)) hr.cold_sorted hr.bound ?_ (Nat.le_trans ht hnew)
    split
    · exact Or.inl rfl
    · exact Or.inr rfl
  · simp only [accessLists]
    refine byLastAccess_push c c' hot _ c.nextAddr t _ (eraseNode_sublist _ _)
      (fun b hb => hsame b (Or.inr hb)) hr.hot_sorted hr.bound ?_ (Nat.le_trans ht hnew)
    split
    · exact Or.inr rfl
    · exact Or.inl rfl


theorem removeFromHotList_entries (c : LRUKCache) (e : PageEntry) :
    (c.removeFromHotList e).1.pageEntries = c.pageEntries := by
  unfold LRUKCache.removeFromHotList
  split <;> rfl

theorem removeFromColdList_entries (c : LRUKCache) (e : PageEntry) :
    (c.removeFromColdList e).1.pageEntries = c.pageEntries := by
  unfold LRUKCache.removeFromColdList
  split <;> rfl

theorem Evict_entries (c : LRUKCache) (p : Nat) :
    (c.Evict p).1.pageEntries = mapDel c.pageEntries p := by
  unfold LRUKCache.Evict
  cases hg : mapGet c.pageEntries p with
  | none => exact (mapDel_of_absent _ _ hg).symm
  | some e =>
    show mapDel (if e.isInHotList = true then c.removeFromHotList e
      else c.removeFromColdList e).1.pageEntries p = _
    split
    · rw [removeFromHotList_entries]
    · rw [removeFromColdList_entries]

theorem evictLists_sublist (c : LRUKCache) (p : Nat) (cold hot : List Nat) :
    (evictLists c p cold hot).1.Sublist cold ∧ (evictLists c p cold hot).2.Sublist hot := by
  unfold evictLists
  cases (mapGet c.pageEntries p).bind (fun e => e.node) with
  | none => exact ⟨List.Sublist.refl _, List.Sublist.refl _⟩
  | some a => exact ⟨List.erase_sublist a cold, List.erase_sublist a hot⟩

theorem Evict_recency (c : LRUKCache) (p t : Nat) (cold hot : List Nat)
    (cnt : Nat → Nat) (h : c.Inv cold hot) (hcnt : c.CountInv cnt)
    (hr : c.RecencyInv cold hot t) :
    (c.Evict p).1.RecencyInv (evictLists c p cold hot).1 (evictLists c p cold hot).2 t := by
  obtain ⟨hI, _, _, _, _⟩ := Evict_inv c p cold hot cnt h hcnt
  have hpe := Evict_entries c p
  have hsame : ∀ b, b ∈ (evictLists c p cold hot).1 ++ (evictLists c p cold hot).2 →
      (c.Evict p).1.lastAccessOf ((c.Evict p).1.heap b).pageID =
        c.lastAccessOf (c.heap b).pageID := by
    intro b hb
    refine lastAccessOf_frame c _ cold hot _ _ h.entries hI.entries b hb ?_
    intro q e hq _
    rw [hpe] at hq
    by_cases hqp : q = p
    · subst hqp
      rw [mapGet_mapDel_same] at hq
      cases hq
    · rw [mapGet_mapDel_ne _ _ _ hqp] at hq
      exact hq
  obtain ⟨hs1, hs2⟩ := evictLists_sublist c p cold hot
  refine ⟨?_, ?_, ?_⟩
  · intro q
    unfold LRUKCache.lastAccessOf
    rw [hpe]
    by_cases hqp : q = p
    · subst hqp
      rw [mapGet_mapDel_same]
      exact Nat.zero_le _
    · rw [mapGet_mapDel_ne _ _ _ hqp]
      exact hr.bound q
  · exact byLastAccess_sublist c _ cold _ hs1
      (fun b hb => hsame b (List.mem_append_left _ hb)) hr.cold_sorted
  · exact byLastAccess_sublist c _ hot _ hs2
      (fun b hb => hsame b (List.mem_append_right _ hb)) hr.hot_sorted

theorem LRU_run_recency (ops : List LRUOp) : ∀ (c c' : LRUKCache) (cold hot : List Nat)
    (cnt : Nat → Nat) (t : Nat), c.Inv cold hot → c.CountInv cnt → c.RecencyInv cold hot t →
    ClockOrdered t ops → c.run ops = .ok c' →
    ∃ cold' hot' t', c'.Inv cold' hot' ∧ c'.RecencyInv cold' hot' t' := by
  induction ops with
  | nil =>
    intro c c' cold hot cnt t h _ hr _ hrun
    have : c = c' := Res.ok.inj hrun
    subst this
    exact ⟨cold, hot, t, h, hr⟩
  | cons op ops ih =>
    intro c c' cold hot cnt t h hcnt hr hclock hrun
    unfold LRUKCache.run at hrun
    cases ha : c.apply op with
    | ok c1 =>
      rw [ha] at hrun
      simp only [Res_ok_bind] at hrun
      cases op with
      | access p now =>
        obtain ⟨h1, h2, _, _, _, _⟩ := Access_inv c c1 p now cold hot cnt h hcnt ha
        have hr1 := Access_recency c c1 p now t cold hot cnt h hcnt hr hclock.1 ha
        exact ih c1 c' _ _ _ now h1 h2 hr1 hclock.2 hrun
      | evict p =>
        have hc1 : (c.Evict p).1 = c1 := Res.ok.inj ha
        subst hc1
        obtain ⟨h1, h2, _, _, _⟩ := Evict_inv c p cold hot cnt h hcnt
        have hr1 := Evict_recency c p t cold hot cnt h hcnt hr
        exact ih _ c' _ _ _ t h1 h2 hr1 hclock hrun
    | error m => rw [ha] at hrun; cases hrun
    | panic => rw [ha] at hrun; cases hrun
    | diverge => rw [ha] at hrun; cases hrun

theorem NewLRUKCache_recency (k maxSize : Int) :
    (NewLRUKCache k maxSize).RecencyInv [] [] 0 :=
  ⟨fun _ => Nat.le_refl _, List.Pairwise.nil, List.Pairwise.nil⟩

/-- After calls whose clock does not run backwards, the nodes of each list are
in the order of the last access to their pages from tail to head. -/
theorem lists_by_last_access (K maxSize : Int) (ops : List LRUOp) (c : LRUKCache)
    (cold hot : List Nat) (hclock : ClockOrdered 0 ops)
    (hrun : (NewLRUKCache K maxSize).run ops = .ok c) (hl : c.ListsInv cold hot) :
    c.ByLastAccess cold ∧ c.ByLastAccess hot := by
  obtain ⟨hI0, hC0⟩ := NewLRUKCache_inv K maxSize
  obtain ⟨cold', hot', t', hI, hR⟩ := LRU_run_recency ops (NewLRUKCache K maxSize) c [] []
    _ 0 hI0 hC0 (NewLRUKCache_recency K maxSize) hclock hrun
  have h1 : cold' = cold := IsDLL_unique c.heap c.coldList cold' cold
    hI.entries.lists.cold_dll hl.cold_dll
  have h2 : hot' = hot := IsDLL_unique c.heap c.hotList hot' hot
    hI.entries.lists.hot_dll hl.hot_dll
  rw [← h1, ← h2]
  exact ⟨hR.cold_sorted, hR.hot_sorted⟩

theorem find_least {α : Type} (R : α → α → Prop) (hrefl : ∀ x, R x x) (P : α → Bool) :
    ∀ (l : List α), l.Pairwise R → ∀ v, l.find? P = some v → ∀ q ∈ l, P q = true → R v q := by
  intro l
  induction l with
  | nil => intro _ v hf; cases hf
  | cons x r ih =>
    intro hs v hf q hq hP
    rw [List.pairwise_cons] at hs
    rw [List.find?_cons] at hf
    cases hx : P x with
    | true =>
      rw [hx] at hf
      have hv : x = v := Option.some.inj hf
      subst hv
      rcases List.mem_cons.mp hq with hq | hq
      · rw [hq]; exact hrefl _
      · exact hs.1 q hq
    | false =>
      rw [hx] at hf
      rcases List.mem_cons.mp hq with hq | hq
      · rw [hq, hx] at hP; cases hP
      · exact ih hs.2 v hf q hq hP

theorem victim_least_recent (c : LRUKCache) (l : List Nat) (hs : c.ByLastAccess l)
    (pinned : Nat → Bool) (v : Nat)
    (hf : (pagesOf c.heap l).find? (fun p => !pinned p) = some v) :
    ∀ q ∈ pagesOf c.heap l, pinned q = false → c.lastAccessOf v ≤ c.lastAccessOf q := by
  intro q hq hp
  have hs' : (pagesOf c.heap l).Pairwise (fun p q => c.lastAccessOf p ≤ c.lastAccessOf q) := by
    unfold pagesOf
    rw [List.pairwise_map]
    exact hs
  exact find_least (fun p q => c.lastAccessOf p ≤ c.lastAccessOf q) (fun _ => Nat.le_refl _)
    (fun p => !pinned p) (pagesOf c.heap l) hs' v hf q hq (by simp [hp])

/-! ## The LRU-K replacer: victims, hot pages and the list invariant -/

theorem lruVictimState_lists : (stateAfter 2 10 lruVictimOps).ListsInv [3, 4, 5] [2] := by
  refine ⟨⟨?_, ?_, ?_, rfl, rfl, rfl⟩, ⟨List.chain'_singleton _, ?_, ?_, rfl, rfl, rfl⟩,
    by decide, ?_⟩
  · exact List.chain'_cons.mpr ⟨⟨rfl, rfl⟩, List.chain'_cons.mpr ⟨⟨rfl, rfl⟩,
      List.chain'_singleton _⟩⟩
  · intro a h
    cases h
    rfl
  · intro a h
    cases h
    rfl
  · intro a h
    cases h
    rfl
  · intro a h
    cases h
    rfl
  · intro a h
    have : a = 3 ∨ a = 4 ∨ a = 5 ∨ a = 2 := by simpa using h
    have hn : (stateAfter 2 10 lruVictimOps).nextAddr = 6 := rfl
    rw [hn]
    omega

/-- C7: in every state whose two lists are well-formed (`cold` and `hot` are
their nodes from tail to head), `GetVictim` with a pin predicate returns the
page of the first cold node from the tail whose page is not pinned, else that
of the first such hot node, else the empty `PageID` 0; with a nil predicate it
returns what the always-false predicate gives, the page at the cold tail, else
at the hot tail, else 0. When the state is reached from a new cache by calls
whose clock does not run backwards, the first unpinned page of a list from its
tail is the least recently accessed unpinned page of that list. `GetVictim` is
a function of the cache alone: its body assigns to no field or node. -/
theorem C7_getVictim_first_unpinned (c : LRUKCache) (cold hot : List Nat)
    (h : c.ListsInv cold hot) :
    (∀ pinned : Nat → Bool, c.GetVictim (some pinned) =
      .ok (victimSpec pinned (pagesOf c.heap cold) (pagesOf c.heap hot))) ∧
    c.GetVictim none = c.GetVictim (some fun _ => false) ∧
    c.GetVictim none = .ok (((pagesOf c.heap cold).head?.orElse
      fun _ => (pagesOf c.heap hot).head?).getD 0) ∧
    (∀ K maxSize ops, ClockOrdered 0 ops → (NewLRUKCache K maxSize).run ops = .ok c →
      ∀ (pinned : Nat → Bool) (v : Nat),
        ((pagesOf c.heap cold).find? (fun p => !pinned p) = some v →
          ∀ q ∈ pagesOf c.heap cold, pinned q = false →
            c.lastAccessOf v ≤ c.lastAccessOf q) ∧
        ((pagesOf c.heap hot).find? (fun p => !pinned p) = some v →
          ∀ q ∈ pagesOf c.heap hot, pinned q = false →
            c.lastAccessOf v ≤ c.lastAccessOf q)) := by
  refine ⟨fun pinned => GetVictim_spec c cold hot h pinned, ?_, ?_, ?_⟩
  · rw [GetVictim_nil_spec c cold hot h, GetVictim_spec c cold hot h]
  · rw [GetVictim_nil_spec c cold hot h]
    unfold victimSpec
    cases hc : pagesOf c.heap cold with
    | cons p r => rfl
    | nil =>
      cases hh : pagesOf c.heap hot with
      | cons p r => rfl
      | nil => rfl
  · intro K maxSize ops hclock hrun pinned v
    obtain ⟨hs1, hs2⟩ := lists_by_last_access K maxSize ops c cold hot hclock hrun h
    exact ⟨victim_least_recent c cold hs1 pinned v, victim_least_recent c hot hs2 pinned v⟩

/-- C7 on the state after `lruVictimOps` with `K = 2`: the cold list holds
pages 2, 3, 4 from its tail and the hot list page 1; page 3 is the victim when
page 2 is pinned, page 1 when every cold page is pinned. -/
theorem C7_getVictim_first_unpinned_witness :
    (stateAfter 2 10 lruVictimOps).ListsInv [3, 4, 5] [2] ∧
    pagesOf (stateAfter 2 10 lruVictimOps).heap [3, 4, 5] = [2, 3, 4] ∧
    pagesOf (stateAfter 2 10 lruVictimOps).heap [2] = [1] ∧
    (stateAfter 2 10 lruVictimOps).GetVictim (some fun p => decide (p = 2)) = .ok 3 ∧
    (stateAfter 2 10 lruVictimOps).GetVictim (some fun p => decide (p ≠ 1)) = .ok 1 ∧
    (stateAfter 2 10 lruVictimOps).GetVictim (some fun _ => true) = .ok 0 ∧
    (stateAfter 2 10 lruVictimOps).GetVictim none = .ok 2 :=
  ⟨lruVictimState_lists, by decide, by decide,
    ((C7_getVictim_first_unpinned _ _ _ lruVictimState_lists).1 _).trans (by decide),
    ((C7_getVictim_first_unpinned _ _ _ lruVictimState_lists).1 _).trans (by decide),
    ((C7_getVictim_first_unpinned _ _ _ lruVictimState_lists).1 _).trans (by decide),
    (C7_getVictim_first_unpinned _ _ _ lruVictimState_lists).2.2.1.trans (by decide)⟩

theorem lruOps_run : (NewLRUKCache 2 10).run lruOps = .ok (stateAfter 2 10 lruOps) := rfl

theorem lruOpsState_lists : (stateAfter 2 10 lruOps).ListsInv [2] [1] := by
  refine ⟨⟨List.chain'_singleton _, ?_, ?_, rfl, rfl, rfl⟩,
    ⟨List.chain'_singleton _, ?_, ?_, rfl, rfl, rfl⟩, by decide, ?_⟩
  · intro a h
    cases h
    rfl
  · intro a h
    cases h
    rfl
  · intro a h
    cases h
    rfl
  · intro a h
    cases h
    rfl
  · intro a h
    have : a = 2 ∨ a = 1 := by simpa using h
    have hn : (stateAfter 2 10 lruOps).nextAddr = 3 := rfl
    rw [hn]
    omega

/-- C8: after any sequence of `Access`/`Evict` calls on a new cache with any
`K`, with `accessesSince ops p` the number of `Access(p)` calls since the last
`Evict(p)`: the tracked pages are those with at least one such access, the
`AccessCount` of a tracked page is that number, a tracked page is in the hot
list iff the number is at least `K` and in the cold list iff it is below `K`,
and a page in the hot list is in the hot list and not in the cold list after
any further calls that do not evict it. -/
theorem C8_hot_iff_K_accesses (K maxSize : Int) (ops : List LRUOp) (c : LRUKCache)
    (hrun : (NewLRUKCache K maxSize).run ops = .ok c) :
    ∃ cold hot, c.ListsInv cold hot ∧
      (∀ p, p ∈ mapKeys c.pageEntries ↔ 1 ≤ accessesSince ops p) ∧
      (∀ p e, mapGet c.pageEntries p = some e → e.accessCount = (accessesSince ops p : Int)) ∧
      (∀ p, p ∈ mapKeys c.pageEntries →
        (p ∈ pagesOf c.heap hot ↔ K ≤ (accessesSince ops p : Int)) ∧
        (p ∈ pagesOf c.heap cold ↔ (accessesSince ops p : Int) < K)) ∧
      (∀ p ops2 c2, p ∈ pagesOf c.heap hot → LRUOp.evict p ∉ ops2 → c.run ops2 = .ok c2 →
        ∃ cold2 hot2, c2.ListsInv cold2 hot2 ∧ p ∈ pagesOf c2.heap hot2 ∧
          p ∉ pagesOf c2.heap cold2) := by
  obtain ⟨hI0, hC0⟩ := NewLRUKCache_inv K maxSize
  obtain ⟨⟨cold, hot, hI⟩, hC, hK, _⟩ :=
    LRU_run_inv ops (NewLRUKCache K maxSize) c [] [] _ hI0 hC0 hrun
  have hKc : c.K = K := hK
  have hfacts := hot_cold_of_count c cold hot _ hI hC
  refine ⟨cold, hot, hI.entries.lists, ?_, ?_, ?_, ?_⟩
  · intro p; exact (hfacts p).1
  · intro p e he; exact (hfacts p).2.1 e he
  · intro p hp
    have h1 : 1 ≤ accessesSince ops p := (hfacts p).1.mp hp
    rw [← hKc]
    constructor
    · rw [(hfacts p).2.2.1]
      exact ⟨fun h => h.2, fun h => ⟨h1, h⟩⟩
    · rw [(hfacts p).2.2.2]
      exact ⟨fun h => h.2, fun h => ⟨h1, h⟩⟩
  · intro p ops2 c2 hp hne hrun2
    obtain ⟨⟨cold2, hot2, hI2⟩, hC2, hK2, _⟩ := LRU_run_inv ops2 c c2 cold hot _ hI hC hrun2
    have hmono := countStep_foldl_mono p ops2 (List.foldl countStep (fun _ => 0) ops) hne
    have hfacts2 := hot_cold_of_count c2 cold2 hot2 _ hI2 hC2 p
    have hhot := (hfacts p).2.2.1.mp hp
    have hhot' : 1 ≤ List.foldl countStep (fun _ => 0) ops p ∧
        c.K ≤ (List.foldl countStep (fun _ => 0) ops p : Int) := hhot
    refine ⟨cold2, hot2, hI2.entries.lists, ?_, ?_⟩
    · rw [hfacts2.2.2.1, hK2]
      constructor
      · omega
      · have : (List.foldl countStep (fun _ => 0) ops p : Int) ≤
            (List.foldl countStep (List.foldl countStep (fun _ => 0) ops) ops2 p : Int) := by
          exact_mod_cast hmono
        omega
    · rw [hfacts2.2.2.2, hK2]
      intro hcold
      have : (List.foldl countStep (fun _ => 0) ops p : Int) ≤
          (List.foldl countStep (List.foldl countStep (fun _ => 0) ops) ops2 p : Int) := by
        exact_mod_cast hmono
      omega

/-- C8 for `K = 2` and the calls `Access(1); Access(1); Access(2)`: the hot
list is the node of page 1 and the cold list the node of page 2. -/
theorem C8_hot_iff_K_accesses_witness :
    (NewLRUKCache 2 10).run lruOps = .ok (stateAfter 2 10 lruOps) ∧
    (stateAfter 2 10 lruOps).ListsInv [2] [1] ∧
    pagesOf (stateAfter 2 10 lruOps).heap [2] = [2] ∧
    pagesOf (stateAfter 2 10 lruOps).heap [1] = [1] ∧
    ∃ cold hot, (stateAfter 2 10 lruOps).ListsInv cold hot ∧
      1 ∈ pagesOf (stateAfter 2 10 lruOps).heap hot ∧
      1 ∉ pagesOf (stateAfter 2 10 lruOps).heap cold ∧
      2 ∈ pagesOf (stateAfter 2 10 lruOps).heap cold ∧
      2 ∉ pagesOf (stateAfter 2 10 lruOps).heap hot := by
  refine ⟨lruOps_run, lruOpsState_lists, by decide, by decide, ?_⟩
  obtain ⟨cold, hot, hl, htr, _, hiff, _⟩ :=
    C8_hot_iff_K_accesses 2 10 lruOps (stateAfter 2 10 lruOps) lruOps_run
  have h1 := hiff 1 ((htr 1).mpr (by decide))
  have h2 := hiff 2 ((htr 2).mpr (by decide))
  refine ⟨cold, hot, hl, h1.1.mpr (by decide), ?_, h2.2.mpr (by decide), ?_⟩
  · rw [h1.2]; decide
  · rw [h2.1]; decide

/-- C9: after any sequence of `Access` and `Evict` calls on a new cache there
are node lists `cold` and `hot` (from tail to head) such that both lists of the
cache are well-formed doubly-linked lists over them with `Size` their length,
the pages of the nodes are exactly the keys of `PageEntries`, which are the keys
of `AccessHistory`, no page and no key occurs twice, the node of every entry
carries the page of the entry and is in `hot` iff `IsInHotList` is set and in
`cold` iff it is not, and `CurrentSize = len(PageEntries) = ColdList.Size +
HotList.Size`. -/
theorem C9_lists_and_entries_agree (K maxSize : Int) (ops : List LRUOp) (c : LRUKCache)
    (hrun : (NewLRUKCache K maxSize).run ops = .ok c) :
    ∃ cold hot,
      IsDLL c.heap c.coldList cold ∧ IsDLL c.heap c.hotList hot ∧
      c.coldList.size = (cold.length : Int) ∧ c.hotList.size = (hot.length : Int) ∧
      (∀ pid, pid ∈ pagesOf c.heap (cold ++ hot) ↔ pid ∈ mapKeys c.pageEntries) ∧
      (∀ pid, pid ∈ mapKeys c.accessHistory ↔ pid ∈ mapKeys c.pageEntries) ∧
      (pagesOf c.heap (cold ++ hot)).Nodup ∧ (mapKeys c.pageEntries).Nodup ∧
      (mapKeys c.accessHistory).Nodup ∧
      (∀ pid e, mapGet c.pageEntries pid = some e →
        ∃ a, e.node = some a ∧ (c.heap a).pageID = pid ∧
          (a ∈ hot ↔ e.isInHotList = true) ∧ (a ∈ cold ↔ e.isInHotList = false)) ∧
      c.currentSize = mapLen c.pageEntries ∧
      mapLen c.pageEntries = c.coldList.size + c.hotList.size := by
  obtain ⟨hI0, hC0⟩ := NewLRUKCache_inv K maxSize
  obtain ⟨⟨cold, hot, hI⟩, _, _, _⟩ :=
    LRU_run_inv ops (NewLRUKCache K maxSize) c [] [] _ hI0 hC0 hrun
  have hE := hI.entries
  refine ⟨cold, hot, hE.lists.cold_dll, hE.lists.hot_dll, hE.lists.cold_dll.size_eq,
    hE.lists.hot_dll.size_eq, mem_pagesOf_iff_tracked c cold hot hE, ?_,
    pagesOf_nodup c cold hot hE, hE.keys_nodup, hI.hist_nodup, ?_, hE.size_eq, ?_⟩
  · intro pid
    rw [mem_mapKeys_iff, mem_mapKeys_iff, hI.hist_keys pid]
  · intro pid e he
    obtain ⟨_, a, hn, hp, hm⟩ := hE.entry_node pid e he
    refine ⟨a, hn, hp, ?_, ?_⟩
    · cases hf : e.isInHotList with
      | true =>
        rw [hf] at hm
        exact ⟨fun _ => rfl, fun _ => hm⟩
      | false =>
        rw [hf] at hm
        simp only [Bool.false_eq_true, if_false] at hm
        exact ⟨fun hh => absurd hh (not_mem_hot_of_mem_cold c cold hot hE.lists a hm),
          fun hh => by cases hh⟩
    · cases hf : e.isInHotList with
      | true =>
        rw [hf] at hm
        simp only [if_true] at hm
        exact ⟨fun hh => absurd hh (not_mem_cold_of_mem_hot c cold hot hE.lists a hm),
          fun hh => by cases hh⟩
      | false =>
        rw [hf] at hm
        simp only [Bool.false_eq_true, if_false] at hm
        exact ⟨fun _ => rfl, fun _ => hm⟩
  · rw [hE.count_eq, hE.lists.cold_dll.size_eq, hE.lists.hot_dll.size_eq]

/-- C9 on the state after `lruVictimOps` with `K = 2`. -/
theorem C9_lists_and_entries_agree_witness :
    (NewLRUKCache 2 10).run lruVictimOps = .ok (stateAfter 2 10 lruVictimOps) ∧
    ∃ cold hot,
      IsDLL (stateAfter 2 10 lruVictimOps).heap (stateAfter 2 10 lruVictimOps).coldList cold ∧
      IsDLL (stateAfter 2 10 lruVictimOps).heap (stateAfter 2 10 lruVictimOps).hotList hot ∧
      (∀ pid, pid ∈ pagesOf (stateAfter 2 10 lruVictimOps).heap (cold ++ hot) ↔
        pid ∈ mapKeys (stateAfter 2 10 lruVictimOps).pageEntries) ∧
      (stateAfter 2 10 lruVictimOps).currentSize = 4 := by
  have hrun : (NewLRUKCache 2 10).run lruVictimOps = .ok (stateAfter 2 10 lruVictimOps) := rfl
  obtain ⟨cold, hot, h1, h2, _, _, h5, _, _, _, _, _, _, _⟩ :=
    C9_lists_and_entries_agree 2 10 lruVictimOps _ hrun
  exact ⟨hrun, cold, hot, h1, h2, h5, rfl⟩

/-! ## Victim selection returns unpinned pages only -/

theorem victimWalk_sound (heap : Nat → Node) (pinned : Nat → Bool) :
    ∀ (fuel : Nat) (cur : Option Nat) (id : Nat),
    victimWalk heap pinned fuel cur = .ok (some id) → pinned id = false := by
  intro fuel
  induction fuel with
  | zero =>
    intro cur id h
    cases cur with
    | none => simp [victimWalk] at h
    | some a => simp [victimWalk] at h
  | succ n ih =>
    intro cur id h
    cases cur with
    | none => simp [victimWalk] at h
    | some a =>
      unfold victimWalk at h
      by_cases hp : pinned (heap a).pageID = true
      · simp only [hp, Bool.not_true, Bool.false_eq_true, if_false] at h
        exact ih _ _ h
      · simp only [Bool.not_eq_true] at hp
        simp only [hp, Bool.not_false, if_true, Res.ok.injEq, Option.some.injEq] at h
        rw [← h]; exact hp

theorem listVictim_sound (list : LRUList) (heap : Nat → Node) (pinned : Nat → Bool)
    (fuel id : Nat) (h : listVictim list heap pinned fuel = .ok (some id)) :
    pinned id = false := by
  unfold listVictim at h
  split at h
  · exact victimWalk_sound _ _ _ _ _ h
  · cases h

theorem GetVictim_sound (c : LRUKCache) (pinned : Nat → Bool) (v : Nat)
    (h : c.GetVictim (some pinned) = .ok v) (hv : v ≠ 0) : pinned v = false := by
  unfold LRUKCache.GetVictim at h
  simp only at h
  cases hc : listVictim c.coldList c.heap pinned c.nextAddr with
  | error m => rw [hc] at h; cases h
  | panic => rw [hc] at h; cases h
  | diverge => rw [hc] at h; cases h
  | ok o =>
    rw [hc] at h
    cases o with
    | some id =>
      have := Res.ok.inj h
      rw [← this]
      exact listVictim_sound _ _ _ _ _ hc
    | none =>
      simp only [Res_ok_bind] at h
      cases hh : listVictim c.hotList c.heap pinned c.nextAddr with
      | error m => rw [hh] at h; cases h
      | panic => rw [hh] at h; cases h
      | diverge => rw [hh] at h; cases h
      | ok o =>
        rw [hh] at h
        cases o with
        | some id =>
          have := Res.ok.inj h
          rw [← this]
          exact listVictim_sound _ _ _ _ _ hh
        | none => exact absurd (Res.ok.inj h).symm hv

/-! ## The buffer pool: what `evictPage` does -/

/-- The two ways `evictPage` returns: with an error and the pool unchanged, or
without error after removing a resident, unpinned victim. -/
theorem evictPage_cases (bp : BufferPool) (disk : Disk) (bp' : BufferPool) (err : Option String)
    (h : bp.evictPage disk = .ok (bp', err)) :
    (bp' = bp ∧ err.isSome = true) ∨
    (err = none ∧ ∃ v frame, v ≠ 0 ∧ bp.pinCountOf v ≤ 0 ∧ mapGet bp.pages v = some frame ∧
      bp' = { bp with pages := mapDel bp.pages v, dirtyPages := mapDel bp.dirtyPages v,
                      pinCounts := mapDel bp.pinCounts v,
                      lruKCache := (bp.lruKCache.Evict v).1 }) := by
  unfold BufferPool.evictPage at h
  simp only at h
  cases hv : bp.lruKCache.GetVictim (some fun pageID => decide (bp.pinCountOf pageID > 0)) with
  | error m => rw [hv] at h; cases h
  | panic => rw [hv] at h; cases h
  | diverge => rw [hv] at h; cases h
  | ok v =>
    rw [hv] at h
    simp only [Res_ok_bind] at h
    by_cases hz : v = 0
    · rw [if_pos hz] at h
      have := Res.ok.inj h
      simp only [Res_pure_eq, Prod.mk.injEq] at this
      have := Res.ok.inj h
      left
      cases this
      exact ⟨rfl, rfl⟩
    · rw [if_neg hz] at h
      have hpin := GetVictim_sound _ _ v hv hz
      have hpin' : bp.pinCountOf v ≤ 0 := by
        simpa using hpin
      cases hf : mapGet bp.pages v with
      | none =>
        rw [hf] at h
        left
        have := Res.ok.inj h
        cases this
        exact ⟨rfl, rfl⟩
      | some frame =>
        rw [hf] at h
        simp only at h
        cases hw : writeBack disk frame v with
        | error m => rw [hw] at h; cases h
        | panic => rw [hw] at h; cases h
        | diverge => rw [hw] at h; cases h
        | ok o =>
          rw [hw] at h
          cases o with
          | some e =>
            left
            have := Res.ok.inj h
            cases this
            exact ⟨rfl, rfl⟩
          | none =>
            right
            have := Res.ok.inj h
            cases this
            exact ⟨rfl, v, frame, hz, hpin', hf, rfl⟩


/-! ## The buffer pool: invariants of the frame table -/

theorem mapLen_mapSet_le {V : Type} (m : GoMap V) (k : Nat) (v : V) :
    mapLen (mapSet m k v) ≤ mapLen m + 1 := by
  rw [mapLen_mapSet]
  cases h : mapGet m k with
  | none => rw [mapLen_mapDel_of_absent m k h]
  | some w =>
    have : (mapDel m k).length ≤ m.length := by
      clear h
      induction m with
      | nil => simp [mapDel]
      | cons e rest ih =>
        obtain ⟨k', v'⟩ := e
        by_cases h' : k' = k
        · simp only [mapDel, if_pos h', List.length_cons]; omega
        · simp only [mapDel, if_neg h', List.length_cons]; omega
    unfold mapLen
    omega

theorem pinInv_install (bp : BufferPool) (pid : Nat) (frame : BufferFrame) (n : Int)
    (h : bp.PinInv) (hf : frame.pinCount ≤ n) (dp : GoMap Bool) (lru : LRUKCache) :
    BufferPool.PinInv { bp with pages := mapSet bp.pages pid frame,
                                pinCounts := mapSet bp.pinCounts pid n,
                                dirtyPages := dp, lruKCache := lru } := by
  intro q f hq
  unfold BufferPool.pinCountOf
  by_cases hqp : q = pid
  · subst hqp
    simp only [mapGet_mapSet_same] at hq ⊢
    have := Option.some.inj hq
    rw [← this]
    exact hf
  · simp only [mapGet_mapSet_ne _ _ _ _ hqp] at hq ⊢
    exact h q f hq

theorem inv_install (bp : BufferPool) (maxSize : Int) (pid : Nat) (frame : BufferFrame) (n : Int)
    (h : bp.Inv maxSize) (hlen : mapLen bp.pages < max bp.maxSize 0) (hf : frame.pinCount ≤ n)
    (dp : GoMap Bool) (lru : LRUKCache) :
    BufferPool.Inv { bp with pages := mapSet bp.pages pid frame,
                             pinCounts := mapSet bp.pinCounts pid n,
                             dirtyPages := dp, lruKCache := lru } maxSize where
  keys_nodup := mapKeys_mapSet_nodup _ _ _ h.keys_nodup
  len_le := by
    have := mapLen_mapSet_le bp.pages pid frame
    show mapLen (mapSet bp.pages pid frame) ≤ max bp.maxSize 0
    omega
  max_eq := h.max_eq
  pin := pinInv_install bp pid frame n h.pin hf dp lru

theorem inv_update (bp : BufferPool) (maxSize : Int) (pid : Nat) (old frame : BufferFrame)
    (n : Int) (h : bp.Inv maxSize) (hold : mapGet bp.pages pid = some old)
    (hf : frame.pinCount ≤ n) (dp : GoMap Bool) (lru : LRUKCache) :
    BufferPool.Inv { bp with pages := mapSet bp.pages pid frame,
                             pinCounts := mapSet bp.pinCounts pid n,
                             dirtyPages := dp, lruKCache := lru } maxSize where
  keys_nodup := mapKeys_mapSet_nodup _ _ _ h.keys_nodup
  len_le := by
    show mapLen (mapSet bp.pages pid frame) ≤ max bp.maxSize 0
    rw [mapLen_mapSet_of_present bp.pages pid frame old h.keys_nodup hold]
    exact h.len_le
  max_eq := h.max_eq
  pin := pinInv_install bp pid frame n h.pin hf dp lru

theorem inv_frame_only (bp : BufferPool) (maxSize : Int) (pid : Nat) (old frame : BufferFrame)
    (h : bp.Inv maxSize) (hold : mapGet bp.pages pid = some old)
    (hf : frame.pinCount = old.pinCount) (dp : GoMap Bool) :
    BufferPool.Inv { bp with pages := mapSet bp.pages pid frame, dirtyPages := dp } maxSize where
  keys_nodup := mapKeys_mapSet_nodup _ _ _ h.keys_nodup
  len_le := by
    show mapLen (mapSet bp.pages pid frame) ≤ max bp.maxSize 0
    rw [mapLen_mapSet_of_present bp.pages pid frame old h.keys_nodup hold]
    exact h.len_le
  max_eq := h.max_eq
  pin := by
    intro q f hq
    by_cases hqp : q = pid
    · subst hqp
      simp only [mapGet_mapSet_same] at hq
      have := Option.some.inj hq
      rw [← this, hf]
      exact h.pin q old hold
    · simp only [mapGet_mapSet_ne _ _ _ _ hqp] at hq
      exact h.pin q f hq

theorem inv_lru (bp : BufferPool) (maxSize : Int) (h : bp.Inv maxSize) (lru : LRUKCache) :
    BufferPool.Inv { bp with lruKCache := lru } maxSize :=
  ⟨h.keys_nodup, h.len_le, h.max_eq, h.pin⟩

theorem evictPage_inv (bp : BufferPool) (maxSize : Int) (disk : Disk) (bp' : BufferPool)
    (err : Option String) (h : bp.Inv maxSize) (he : bp.evictPage disk = .ok (bp', err)) :
    bp'.Inv maxSize ∧ (err = none → mapLen bp'.pages = mapLen bp.pages - 1) := by
  rcases evictPage_cases bp disk bp' err he with ⟨hb, hs⟩ | ⟨hn, v, frame, _, _, hf, hb⟩
  · subst hb
    refine ⟨h, ?_⟩
    intro hnone; rw [hnone] at hs; cases hs
  · subst hb
    refine ⟨⟨mapKeys_mapDel_nodup _ _ h.keys_nodup, ?_, h.max_eq, ?_⟩, fun _ => ?_⟩
    · show mapLen (mapDel bp.pages v) ≤ max bp.maxSize 0
      rw [mapLen_mapDel_of_present bp.pages v frame h.keys_nodup hf]
      have := h.len_le
      omega
    · intro q f hq
      by_cases hqv : q = v
      · subst hqv
        simp only [mapGet_mapDel_same] at hq
        cases hq
      · simp only [mapGet_mapDel_ne _ _ _ hqv] at hq
        unfold BufferPool.pinCountOf
        simp only [mapGet_mapDel_ne _ _ _ hqv]
        exact h.pin q f hq
    · exact mapLen_mapDel_of_present bp.pages v frame h.keys_nodup hf

theorem evictIfFull_inv (bp : BufferPool) (maxSize : Int) (disk : Disk) (bp' : BufferPool)
    (err : Option String) (h : bp.Inv maxSize) (he : bp.evictIfFull disk = .ok (bp', err)) :
    bp'.Inv maxSize ∧ (err = none → mapLen bp'.pages < max bp'.maxSize 0) := by
  unfold BufferPool.evictIfFull at he
  by_cases hfull : mapLen bp.pages ≥ bp.maxSize
  · rw [if_pos hfull] at he
    obtain ⟨hi, hl⟩ := evictPage_inv bp maxSize disk bp' err h he
    refine ⟨hi, fun hn => ?_⟩
    have := hl hn
    have h1 := h.len_le
    have h2 := h.max_eq
    have h3 := hi.max_eq
    omega
  · rw [if_neg hfull] at he
    have := Res.ok.inj he
    cases this
    exact ⟨h, fun _ => by omega⟩


theorem GetPage_inv (bp : BufferPool) (maxSize : Int) (disk : Disk) (tableName : String)
    (pageID now : Nat) (bp' : BufferPool) (r : Res BufferFrame) (h : bp.Inv maxSize)
    (hg : bp.GetPage disk tableName pageID now = .ok (bp', r)) : bp'.Inv maxSize := by
  unfold BufferPool.GetPage at hg
  cases hf : mapGet bp.pages pageID with
  | some frame =>
    rw [hf] at hg
    simp only at hg
    cases ha : bp.lruKCache.Access pageID now with
    | error m => rw [ha] at hg; cases hg
    | panic => rw [ha] at hg; cases hg
    | diverge => rw [ha] at hg; cases hg
    | ok lru =>
      rw [ha] at hg
      have := Res.ok.inj hg
      simp only [Prod.mk.injEq] at this
      rw [← this.1]
      exact inv_update bp maxSize pageID frame _ _ h hf
        (by have := h.pin pageID frame hf; show frame.pinCount + 1 ≤ _; omega) bp.dirtyPages lru
  | none =>
    rw [hf] at hg
    simp only at hg
    cases he : bp.evictIfFull disk with
    | error m => rw [he] at hg; cases hg
    | panic => rw [he] at hg; cases hg
    | diverge => rw [he] at hg; cases hg
    | ok res =>
      obtain ⟨bp1, err⟩ := res
      rw [he] at hg
      obtain ⟨hi, hl⟩ := evictIfFull_inv bp maxSize disk bp1 err h he
      cases err with
      | some e =>
        have := Res.ok.inj hg
        simp only [Prod.mk.injEq] at this
        rw [← this.1]; exact hi
      | none =>
        simp only [Res_ok_bind] at hg
        cases hr : disk.readPage tableName pageID with
        | error m =>
          rw [hr] at hg
          have := Res.ok.inj hg
          simp only [Prod.mk.injEq] at this
          rw [← this.1]; exact hi
        | panic => rw [hr] at hg; cases hg
        | diverge => rw [hr] at hg; cases hg
        | ok page =>
          rw [hr] at hg
          simp only at hg
          cases ha : LRUKCache.Access bp1.lruKCache pageID now with
          | error m => rw [ha] at hg; cases hg
          | panic => rw [ha] at hg; cases hg
          | diverge => rw [ha] at hg; cases hg
          | ok lru =>
            rw [ha] at hg
            have := Res.ok.inj hg
            simp only [Prod.mk.injEq] at this
            rw [← this.1]
            exact inv_install bp1 maxSize pageID _ 1 hi (hl rfl) (Int.le_refl _)
              bp1.dirtyPages lru

theorem AddNewPage_inv (bp : BufferPool) (maxSize : Int) (disk : Disk) (tableName : String)
    (pageID now : Nat) (bp' : BufferPool) (r : Res BufferFrame) (h : bp.Inv maxSize)
    (hg : bp.AddNewPage disk tableName pageID now = .ok (bp', r)) : bp'.Inv maxSize := by
  unfold BufferPool.AddNewPage at hg
  cases hd : disk.addNewPage tableName pageID with
  | error m =>
    rw [hd] at hg
    have := Res.ok.inj hg
    simp only [Prod.mk.injEq] at this
    rw [← this.1]; exact h
  | panic => rw [hd] at hg; cases hg
  | diverge => rw [hd] at hg; cases hg
  | ok page =>
    rw [hd] at hg
    simp only at hg
    cases he : bp.evictIfFull disk with
    | error m => rw [he] at hg; cases hg
    | panic => rw [he] at hg; cases hg
    | diverge => rw [he] at hg; cases hg
    | ok res =>
      obtain ⟨bp1, err⟩ := res
      rw [he] at hg
      obtain ⟨hi, hl⟩ := evictIfFull_inv bp maxSize disk bp1 err h he
      cases err with
      | some e =>
        have := Res.ok.inj hg
        simp only [Prod.mk.injEq] at this
        rw [← this.1]; exact hi
      | none =>
        simp only [Res_ok_bind] at hg
        cases ha : LRUKCache.Access bp1.lruKCache pageID now with
        | error m => rw [ha] at hg; cases hg
        | panic => rw [ha] at hg; cases hg
        | diverge => rw [ha] at hg; cases hg
        | ok lru =>
          rw [ha] at hg
          have := Res.ok.inj hg
          simp only [Prod.mk.injEq] at this
          rw [← this.1]
          exact inv_install bp1 maxSize pageID _ 1 hi (hl rfl) (Int.le_refl _) _ lru

theorem MarkDirty_inv (bp : BufferPool) (maxSize : Int) (tableName : String) (pageID : Nat)
    (h : bp.Inv maxSize) : (bp.MarkDirty tableName pageID).Inv maxSize := by
  unfold BufferPool.MarkDirty
  cases hf : mapGet bp.pages pageID with
  | none => exact h
  | some frame =>
    exact inv_frame_only bp maxSize pageID frame { frame with isDirty := true } h hf rfl _

theorem Unpin_inv (bp : BufferPool) (maxSize : Int) (tableName : String) (pageID : Nat)
    (h : bp.Inv maxSize) : (bp.Unpin tableName pageID).Inv maxSize := by
  unfold BufferPool.Unpin
  cases hf : mapGet bp.pages pageID with
  | none => exact h
  | some frame =>
    simp only
    have hp := h.pin pageID frame hf
    by_cases hz : frame.pinCount - 1 ≤ 0
    · rw [if_pos hz]
      have e : mapSet (mapSet bp.pinCounts pageID (bp.pinCountOf pageID - 1)) pageID 0
          = mapSet bp.pinCounts pageID 0 := by
        unfold mapSet
        simp only [mapDel, if_true]
        rw [mapDel_of_absent _ _ (mapGet_mapDel_same bp.pinCounts pageID)]
      rw [e]
      exact inv_update bp maxSize pageID frame _ 0 h hf hz bp.dirtyPages bp.lruKCache
    · rw [if_neg hz]
      exact inv_update bp maxSize pageID frame _ _ h hf
        (by show frame.pinCount - 1 ≤ _; omega) bp.dirtyPages bp.lruKCache

theorem flushOne_inv (disk : Disk) (bp : BufferPool) (maxSize : Int) (pageID : Nat)
    (bp' : BufferPool) (h : bp.Inv maxSize) (hf : BufferPool.flushOne disk bp pageID = .ok bp') :
    bp'.Inv maxSize := by
  unfold BufferPool.flushOne at hf
  cases hg : mapGet bp.pages pageID with
  | none =>
    rw [hg] at hf
    have := Res.ok.inj hf
    rw [← this]; exact h
  | some frame =>
    rw [hg] at hf
    simp only at hf
    cases hw : disk.writePage frame.tableName pageID frame.page with
    | ok p =>
      rw [hw] at hf
      have := Res.ok.inj hf
      rw [← this]
      exact inv_frame_only bp maxSize pageID frame { frame with isDirty := false } h hg rfl _
    | error m =>
      rw [hw] at hf
      have := Res.ok.inj hf
      rw [← this]; exact h
    | panic => rw [hw] at hf; cases hf
    | diverge => rw [hw] at hf; cases hf

theorem flushLoop_inv (disk : Disk) (maxSize : Int) : ∀ (keys : List Nat) (bp bp' : BufferPool),
    bp.Inv maxSize → keys.foldlM (BufferPool.flushOne disk) bp = .ok bp' → bp'.Inv maxSize := by
  intro keys
  induction keys with
  | nil =>
    intro bp bp' h hf
    have := Res.ok.inj hf
    rw [← this]; exact h
  | cons k rest ih =>
    intro bp bp' h hf
    rw [List.foldlM_cons] at hf
    cases h1 : BufferPool.flushOne disk bp k with
    | ok bp1 =>
      rw [h1] at hf
      exact ih bp1 bp' (flushOne_inv disk bp maxSize k bp1 h h1) hf
    | error m => rw [h1] at hf; cases hf
    | panic => rw [h1] at hf; cases hf
    | diverge => rw [h1] at hf; cases hf

theorem apply_inv (bp : BufferPool) (maxSize : Int) (op : BPOp) (bp' : BufferPool)
    (h : bp.Inv maxSize) (ha : bp.apply op = .ok bp') : bp'.Inv maxSize := by
  cases op with
  | getPage disk tableName pageID now =>
    simp only [BufferPool.apply] at ha
    cases hg : bp.GetPage disk tableName pageID now with
    | ok res =>
      obtain ⟨b, r⟩ := res
      rw [hg] at ha
      have := Res.ok.inj ha
      rw [← this]
      exact GetPage_inv bp maxSize disk tableName pageID now b r h hg
    | error m => rw [hg] at ha; cases ha
    | panic => rw [hg] at ha; cases ha
    | diverge => rw [hg] at ha; cases ha
  | addNewPage disk tableName pageID now =>
    simp only [BufferPool.apply] at ha
    cases hg : bp.AddNewPage disk tableName pageID now with
    | ok res =>
      obtain ⟨b, r⟩ := res
      rw [hg] at ha
      have := Res.ok.inj ha
      rw [← this]
      exact AddNewPage_inv bp maxSize disk tableName pageID now b r h hg
    | error m => rw [hg] at ha; cases ha
    | panic => rw [hg] at ha; cases ha
    | diverge => rw [hg] at ha; cases ha
  | markDirty tableName pageID =>
    have := Res.ok.inj ha
    rw [← this]
    exact MarkDirty_inv bp maxSize tableName pageID h
  | unpin tableName pageID =>
    have := Res.ok.inj ha
    rw [← this]
    exact Unpin_inv bp maxSize tableName pageID h
  | evictPage disk =>
    simp only [BufferPool.apply] at ha
    cases hg : bp.evictPage disk with
    | ok res =>
      obtain ⟨b, r⟩ := res
      rw [hg] at ha
      have := Res.ok.inj ha
      rw [← this]
      exact (evictPage_inv bp maxSize disk b r h hg).1
    | error m => rw [hg] at ha; cases ha
    | panic => rw [hg] at ha; cases ha
    | diverge => rw [hg] at ha; cases ha
  | flushDirtyPages disk =>
    exact flushLoop_inv disk maxSize _ bp bp' h ha

theorem run_inv (maxSize : Int) : ∀ (ops : List BPOp) (bp bp' : BufferPool),
    bp.Inv maxSize → bp.run ops = .ok bp' → bp'.Inv maxSize := by
  intro ops
  induction ops with
  | nil =>
    intro bp bp' h hr
    have := Res.ok.inj hr
    rw [← this]; exact h
  | cons op rest ih =>
    intro bp bp' h hr
    unfold BufferPool.run at hr
    cases h1 : bp.apply op with
    | ok bp1 =>
      rw [h1] at hr
      exact ih bp1 bp' (apply_inv bp maxSize op bp1 h h1) hr
    | error m => rw [h1] at hr; cases hr
    | panic => rw [h1] at hr; cases hr
    | diverge => rw [h1] at hr; cases hr

theorem NewBufferPool_inv (maxSize k : Int) :
    (NewBufferPool maxSize k).Inv maxSize where
  keys_nodup := List.nodup_nil
  len_le := by
    show (0 : Int) ≤ max maxSize 0
    omega
  max_eq := rfl
  pin := by intro q f hq; cases hq


/-! ## The buffer pool: pin counts and capacity -/

/-- C4: in every pool state reached from a new pool by calls of `GetPage`,
`AddNewPage`, `MarkDirty`, `Unpin` (and `evictPage`, `flushDirtyPages`), a call
of `evictPage` that returns without error removes only a frame whose `PinCount`
is at most 0: every frame resident before and absent after has
`PinCount <= 0`. -/
theorem C4_evict_never_pinned (maxSize k : Int) (ops : List BPOp) (bp : BufferPool)
    (disk : Disk) (bp' : BufferPool) (err : Option String)
    (hr : (NewBufferPool maxSize k).run ops = .ok bp)
    (he : bp.evictPage disk = .ok (bp', err)) :
    ∀ pageID frame, mapGet bp.pages pageID = some frame → mapGet bp'.pages pageID = none →
      frame.pinCount ≤ 0 := by
  have hinv := run_inv maxSize ops _ bp (NewBufferPool_inv maxSize k) hr
  intro pageID frame hf hgone
  rcases evictPage_cases bp disk bp' err he with ⟨hb, _⟩ | ⟨_, v, vf, _, hpin, hvf, hb⟩
  · rw [hb, hf] at hgone
    cases hgone
  · subst hb
    by_cases hq : pageID = v
    · subst hq
      have := hinv.pin pageID frame hf
      omega
    · simp only [mapGet_mapDel_ne _ _ _ hq] at hgone
      rw [hf] at hgone
      cases hgone

/-- C4 (witness): in the pool of capacity 1 after adding and unpinning page 1,
`evictPage` removes the frame of page 1, whose pin count is 0. -/
theorem C4_evict_never_pinned_witness :
    ((mapGet poolBeforeEvict.pages 1).map fun f => f.pinCount) = some 0 ∧
    mapGet poolAfterEvict.pages 1 = none ∧
    ∀ pageID frame, mapGet poolBeforeEvict.pages pageID = some frame →
      mapGet poolAfterEvict.pages pageID = none → frame.pinCount ≤ 0 :=
  ⟨by decide, by decide,
    C4_evict_never_pinned 1 2 pinScenario poolBeforeEvict healthyDisk poolAfterEvict none
      rfl rfl⟩

/-- C5 (failing input): on a new pool, `AddNewPage` of page 1 followed by two
`Unpin` calls leaves the resident frame with `PinCount = -1`; a following
`GetPage` hit leaves it with `PinCount = 0` and `IsPinned = true`. -/
theorem C5_unpin_below_zero :
    pinStateAfter [.addNewPage healthyDisk "t" 1 0, .unpin "t" 1, .unpin "t" 1] 1
      = some (-1, false) ∧
    pinStateAfter [.addNewPage healthyDisk "t" 1 0, .unpin "t" 1, .unpin "t" 1,
      .getPage healthyDisk "t" 1 1] 1 = some (0, true) := by
  decide

/-- C6: for every pool created with `max_size >= 0`, after every sequence of
calls (each `GetPage` and `AddNewPage` successful or failed) the frame table
holds at most `MaxSize` frames. -/
theorem C6_frames_le_maxSize (maxSize k : Int) (hmax : 0 ≤ maxSize) (ops : List BPOp)
    (bp : BufferPool) (hr : (NewBufferPool maxSize k).run ops = .ok bp) :
    mapLen bp.pages ≤ bp.maxSize ∧ bp.maxSize = maxSize := by
  have hinv := run_inv maxSize ops _ bp (NewBufferPool_inv maxSize k) hr
  have h1 := hinv.len_le
  have h2 := hinv.max_eq
  exact ⟨by omega, h2⟩

/-- C6 (witness): a pool of capacity 1 after adding and unpinning page 1 holds
one frame. -/
theorem C6_frames_le_maxSize_witness :
    mapLen poolBeforeEvict.pages = 1 ∧
    (mapLen poolBeforeEvict.pages ≤ poolBeforeEvict.maxSize ∧ poolBeforeEvict.maxSize = 1) :=
  ⟨by decide, C6_frames_le_maxSize 1 2 (by decide) pinScenario poolBeforeEvict rfl⟩

/-! ## `ConvertRawTupleToRow` on a damaged tuple -/

/-- C11 (failing input): for the schema (Int32, Text) and the 8-byte payload
`00 00 00 01 FF FF FF F8`, both null bits clear, the Text column declares
`2^32 - 8` bytes; `dataOffset + cellDataSize = 4 + (2^32 - 4)` wraps to 0 in
`uint32`, the length check passes and the slice expression `Data[4:0]` panics.
With an honest length field the same tuple converts, and with a length field
one too large the call returns an error. -/
theorem C11_convert_panics_on_overflow :
    ConvertRawTupleToRow overflowTuple exampleColumns = .panic ∧
    ConvertRawTupleToRow plainTuple exampleColumns =
      .ok [{ dataType := INT_32_TYPE, data := .int32 1, isNull := false },
           { dataType := TEXT_TYPE, data := .str [104, 105], isNull := false }] ∧
    ConvertRawTupleToRow shortTuple exampleColumns =
      .error "insufficient data for column %d at offset %d" := by
  decide

/-! ## Reading fields at an offset -/

theorem Slice_read_u32_at (s : Slice) (hwf : s.len ≤ s.mem.length) (pre post : List Byte)
    (v lo hi : Nat) (hb : s.bytes = pre ++ beBytes v ++ post) (hlo : pre.length = lo)
    (hhi : hi = lo + 4) {β : Type} (f : Nat → Res β) :
    (s.reslice lo hi >>= fun x => x.uint32 >>= f) = f (v % 4294967296) := by
  have hlen : s.len = pre.length + 4 + post.length := by
    rw [← Slice_length_bytes s hwf, hb]
    simp only [List.length_append, beBytes_length]
  rw [Slice_read_u32 s hwf lo hi hhi (by omega), hb, ← hlo]
  have := window_mid pre (beBytes v) post
  rw [beBytes_length] at this
  rw [this, beVal_beBytes]

theorem Slice_sub_at (s : Slice) (hwf : s.len ≤ s.mem.length) (pre mid post : List Byte)
    (lo hi : Nat) (hb : s.bytes = pre ++ mid ++ post) (hlo : pre.length = lo)
    (hhi : hi = lo + mid.length) :
    ∃ s', s.reslice lo hi = .ok s' ∧ s'.len ≤ s'.mem.length ∧ s'.bytes = mid := by
  have hlen : s.len = pre.length + mid.length + post.length := by
    rw [← Slice_length_bytes s hwf, hb]
    simp only [List.length_append]
  obtain ⟨s', hs', _, hwf', hb'⟩ := Slice_reslice_within s hwf lo hi (by omega) (by omega)
  refine ⟨s', hs', hwf', ?_⟩
  rw [hb', hb, ← hlo, hhi]
  have e : pre.length + mid.length - pre.length = mid.length := by omega
  rw [← hlo, e]
  exact window_mid pre mid post

theorem Slice_read_bytes_at (s : Slice) (hwf : s.len ≤ s.mem.length) (pre mid post : List Byte)
    (lo hi : Nat) (hb : s.bytes = pre ++ mid ++ post) (hlo : pre.length = lo)
    (hhi : hi = lo + mid.length) :
    ∃ s', s.reslice lo hi = .ok s' ∧ s'.bytes = mid := by
  obtain ⟨s', h1, _, h2⟩ := Slice_sub_at s hwf pre mid post lo hi hb hlo hhi
  exact ⟨s', h1, h2⟩

theorem beVal64_beBytes64 (v : Nat) (h : v < 18446744073709551616) :
    beVal64 (beBytes64 v) = v := by
  unfold beVal64 beBytes64
  rw [beVal_beBytes_append]
  have : (beBytes (v / 4294967296) ++ beBytes v).drop 4 = beBytes v := by
    rw [List.drop_append_of_le_length (by rw [beBytes_length])]
    simp [beBytes]
  rw [this, beVal_beBytes]
  omega

theorem beBytes64_length (v : Nat) : (beBytes64 v).length = 8 := rfl

theorem Slice_read_u64_at (s : Slice) (hwf : s.len ≤ s.mem.length) (pre post : List Byte)
    (v lo hi : Nat) (hv : v < 18446744073709551616)
    (hb : s.bytes = pre ++ beBytes64 v ++ post) (hlo : pre.length = lo)
    (hhi : hi = lo + 8) {β : Type} (f : Nat → Res β) :
    (s.reslice lo hi >>= fun x => x.uint64 >>= f) = f v := by
  obtain ⟨s', hs', hb'⟩ := Slice_read_bytes_at s hwf pre (beBytes64 v) post lo hi hb hlo
    (by rw [beBytes64_length]; exact hhi)
  have hl' : s'.len = 8 := by
    unfold Slice.reslice at hs'
    split at hs'
    · have := Res.ok.inj hs'
      rw [← this]
      show hi - lo = 8
      omega
    · cases hs'
  rw [hs']
  simp only [Res_ok_bind, Slice.uint64, hl', Nat.le_refl, if_true, hb',
    beVal64_beBytes64 v hv]


/-! ## Round trips of the fixed-size records -/

theorem DataFileHeader_Serialize_eq (h : DataFileHeader) : h.Serialize = .ok h.bytes := by
  unfold DataFileHeader.Serialize DataFileHeader.bytes
  simp [putUint32, writeAt, makeBytes, DATA_FILE_HEADER_SIZE, beBytes]

theorem DataFileHeader_length_bytes (h : DataFileHeader) : h.bytes.length = 12 := rfl

theorem DataFileHeader_Deserialize_of_bytes (s : Slice) (hwf : s.len ≤ s.mem.length)
    (h : DataFileHeader) (hb : s.bytes = h.bytes) (h1 : h.magicNumber < 4294967296)
    (h2 : h.pagesCount < 4294967296) (h3 : h.recordCount < 4294967296) :
    DataFileHeader.Deserialize s = .ok h := by
  have hlen : s.len = 12 := by
    rw [← Slice_length_bytes s hwf, hb]; rfl
  unfold DataFileHeader.Deserialize
  rw [if_neg (by rw [hlen]; decide)]
  rw [Slice_read_u32 s hwf 0 4 rfl (by omega), Slice_read_u32 s hwf 4 8 rfl (by omega),
    Slice_read_u32 s hwf 8 12 rfl (by omega), hb]
  obtain ⟨w0, w1, w2⟩ := window_bytes4 (beBytes h.magicNumber) (beBytes h.pagesCount)
    (beBytes h.recordCount) [] rfl rfl rfl
  simp only [List.append_nil] at w0 w1 w2
  unfold DataFileHeader.bytes
  rw [w0, w1, w2]
  simp only [beVal_beBytes, Nat.mod_eq_of_lt h1, Nat.mod_eq_of_lt h2, Nat.mod_eq_of_lt h3,
    Res_pure_eq]

theorem PageDirectoryHeader_Serialize_eq (h : PageDirectoryHeader) : h.Serialize = .ok h.bytes := by
  unfold PageDirectoryHeader.Serialize PageDirectoryHeader.bytes
  simp [putUint32, writeAt, makeBytes, PAGE_DIRECTORY_HEADER_SIZE, beBytes]

theorem PageDirectoryHeader_length_bytes (h : PageDirectoryHeader) : h.bytes.length = 12 := rfl

theorem PageDirectoryHeader_Deserialize_of_bytes (s : Slice) (hwf : s.len ≤ s.mem.length)
    (h : PageDirectoryHeader) (hb : s.bytes = h.bytes) (h1 : h.magicNumber < 4294967296)
    (h2 : h.pageCount < 4294967296) (h3 : h.nextPageID < 4294967296) :
    PageDirectoryHeader.Deserialize s = .ok h := by
  have hlen : s.len = 12 := by
    rw [← Slice_length_bytes s hwf, hb]; rfl
  unfold PageDirectoryHeader.Deserialize
  rw [if_neg (by rw [hlen]; decide)]
  rw [Slice_read_u32 s hwf 0 4 rfl (by omega), Slice_read_u32 s hwf 4 8 rfl (by omega),
    Slice_read_u32 s hwf 8 12 rfl (by omega), hb]
  obtain ⟨w0, w1, w2⟩ := window_bytes4 (beBytes h.magicNumber) (beBytes h.pageCount)
    (beBytes h.nextPageID) [] rfl rfl rfl
  simp only [List.append_nil] at w0 w1 w2
  unfold PageDirectoryHeader.bytes
  rw [w0, w1, w2]
  simp only [beVal_beBytes, Nat.mod_eq_of_lt h1, Nat.mod_eq_of_lt h2, Nat.mod_eq_of_lt h3,
    Res_pure_eq]

theorem PageDirectoryEntry_Serialize_eq (h : PageDirectoryEntry) : h.Serialize = .ok h.bytes := by
  unfold PageDirectoryEntry.Serialize PageDirectoryEntry.bytes
  simp [putUint32, writeAt, makeBytes, PAGE_DIRECTORY_ENTRY_SIZE, beBytes]

theorem PageDirectoryEntry_length_bytes (h : PageDirectoryEntry) : h.bytes.length = 12 := rfl

theorem PageDirectoryEntry_Deserialize_of_bytes (s : Slice) (hwf : s.len ≤ s.mem.length)
    (h : PageDirectoryEntry) (hb : s.bytes = h.bytes) (h1 : h.pageID < 4294967296)
    (h2 : h.freeSpace < 4294967296) (h3 : h.flags < 4294967296) :
    PageDirectoryEntry.Deserialize s = .ok h := by
  have hlen : s.len = 12 := by
    rw [← Slice_length_bytes s hwf, hb]; rfl
  unfold PageDirectoryEntry.Deserialize
  rw [if_neg (by rw [hlen]; decide)]
  rw [Slice_read_u32 s hwf 0 4 rfl (by omega), Slice_read_u32 s hwf 4 8 rfl (by omega),
    Slice_read_u32 s hwf 8 12 rfl (by omega), hb]
  obtain ⟨w0, w1, w2⟩ := window_bytes4 (beBytes h.pageID) (beBytes h.freeSpace)
    (beBytes h.flags) [] rfl rfl rfl
  simp only [List.append_nil] at w0 w1 w2
  unfold PageDirectoryEntry.bytes
  rw [w0, w1, w2]
  simp only [beVal_beBytes, Nat.mod_eq_of_lt h1, Nat.mod_eq_of_lt h2, Nat.mod_eq_of_lt h3,
    Res_pure_eq]


theorem putUint64_mid (pre x post : List Byte) (v : Nat) (h : x.length = 8) :
    putUint64 (pre ++ x ++ post) pre.length (pre.length + 8) v =
      .ok (pre ++ beBytes64 v ++ post) := by
  unfold putUint64
  rw [if_pos (by simp only [List.length_append, h]; omega), if_pos (by omega),
    writeAt_mid pre x post (beBytes64 v) (by rw [h]; rfl)]

theorem padName_length (name : List Byte) (h : name.length ≤ 32) : (padName name).length = 32 := by
  unfold padName
  rw [List.length_append, List.length_replicate]
  omega

theorem MetaDataHeader_length_bytes (h : MetaDataHeader) (hn : h.tableName.length ≤ 32) :
    h.bytes.length = 52 := by
  unfold MetaDataHeader.bytes
  simp only [List.length_append, beBytes_length, beBytes64_length, padName_length _ hn]

theorem MetaDataHeader_Serialize_eq (h : MetaDataHeader) (hn : h.tableName.length ≤ 32) :
    h.Serialize = .ok h.bytes := by
  unfold MetaDataHeader.Serialize MetaDataHeader.bytes padName
  have h0 : makeBytes META_FILE_HEADER_SIZE = [] ++ List.replicate 4 0 ++
      (List.replicate 4 0 ++ (List.replicate 4 0 ++ (List.replicate h.tableName.length 0 ++
        (List.replicate (32 - h.tableName.length) 0 ++ List.replicate 8 0)))) := by
    unfold makeBytes META_FILE_HEADER_SIZE
    simp only [List.nil_append, ← List.replicate_add]
    congr 1
    omega
  have s1 : putUint32 (makeBytes META_FILE_HEADER_SIZE) 0 4 h.magicNumber =
      .ok (beBytes h.magicNumber ++
      (List.replicate 4 0 ++ (List.replicate 4 0 ++ (List.replicate h.tableName.length 0 ++
        (List.replicate (32 - h.tableName.length) 0 ++ List.replicate 8 0))))) := by
    rw [h0]
    exact putUint32_mid [] (List.replicate 4 0) _ h.magicNumber (by simp)
  have s2 : putUint32 (beBytes h.magicNumber ++
      (List.replicate 4 0 ++ (List.replicate 4 0 ++ (List.replicate h.tableName.length 0 ++
        (List.replicate (32 - h.tableName.length) 0 ++ List.replicate 8 0))))) 4 8
      h.tableNameLen = .ok (beBytes h.magicNumber ++ (beBytes h.tableNameLen ++
      (List.replicate 4 0 ++ (List.replicate h.tableName.length 0 ++
        (List.replicate (32 - h.tableName.length) 0 ++ List.replicate 8 0))))) := by
    have := putUint32_mid (beBytes h.magicNumber) (List.replicate 4 0)
      (List.replicate 4 0 ++ (List.replicate h.tableName.length 0 ++
        (List.replicate (32 - h.tableName.length) 0 ++ List.replicate 8 0))) h.tableNameLen
      (by simp)
    simpa only [beBytes_length, List.append_assoc] using this
  have s3 : putUint32 (beBytes h.magicNumber ++ (beBytes h.tableNameLen ++
      (List.replicate 4 0 ++ (List.replicate h.tableName.length 0 ++
        (List.replicate (32 - h.tableName.length) 0 ++ List.replicate 8 0))))) 8 12
      h.columnCount = .ok (beBytes h.magicNumber ++ (beBytes h.tableNameLen ++
      (beBytes h.columnCount ++ (List.replicate h.tableName.length 0 ++
        (List.replicate (32 - h.tableName.length) 0 ++ List.replicate 8 0))))) := by
    have := putUint32_mid (beBytes h.magicNumber ++ beBytes h.tableNameLen)
      (List.replicate 4 0)
      (List.replicate h.tableName.length 0 ++
        (List.replicate (32 - h.tableName.length) 0 ++ List.replicate 8 0)) h.columnCount
      (by simp)
    simpa only [List.length_append, beBytes_length, List.append_assoc] using this
  have s4 : copyInto (beBytes h.magicNumber ++ (beBytes h.tableNameLen ++
      (beBytes h.columnCount ++ (List.replicate h.tableName.length 0 ++
        (List.replicate (32 - h.tableName.length) 0 ++ List.replicate 8 0))))) 12
      (12 + h.tableName.length) h.tableName = .ok (beBytes h.magicNumber ++
      (beBytes h.tableNameLen ++ (beBytes h.columnCount ++ (h.tableName ++
        (List.replicate (32 - h.tableName.length) 0 ++ List.replicate 8 0))))) := by
    have := copyInto_mid (beBytes h.magicNumber ++ beBytes h.tableNameLen ++
      beBytes h.columnCount) (List.replicate h.tableName.length 0)
      (List.replicate (32 - h.tableName.length) 0 ++ List.replicate 8 0) h.tableName (by simp)
    simpa only [List.length_append, beBytes_length, List.append_assoc] using this
  have s5 : putUint64 (beBytes h.magicNumber ++
      (beBytes h.tableNameLen ++ (beBytes h.columnCount ++ (h.tableName ++
        (List.replicate (32 - h.tableName.length) 0 ++ List.replicate 8 0))))) 44 52
      h.nextRowID = .ok (beBytes h.magicNumber ++
      (beBytes h.tableNameLen ++ (beBytes h.columnCount ++ (h.tableName ++
        (List.replicate (32 - h.tableName.length) 0 ++ beBytes64 h.nextRowID))))) := by
    have := putUint64_mid (beBytes h.magicNumber ++ beBytes h.tableNameLen ++
      beBytes h.columnCount ++ h.tableName ++ List.replicate (32 - h.tableName.length) 0)
      (List.replicate 8 0) [] h.nextRowID (by simp)
    have e5 : (beBytes h.magicNumber ++ beBytes h.tableNameLen ++
        beBytes h.columnCount ++ h.tableName ++
        List.replicate (32 - h.tableName.length) 0).length = 44 := by
      simp only [List.length_append, beBytes_length, List.length_replicate]
      omega
    rw [e5] at this
    simpa only [List.append_assoc, List.append_nil] using this
  simp only [TABLE_NAME_MAX_LENGTH, s1, Res_ok_bind, s2, s3, s4, s5, Res_pure_eq,
    List.append_assoc]


theorem MetaDataHeader_Deserialize_of_bytes (s : Slice) (hwf : s.len ≤ s.mem.length)
    (h : MetaDataHeader) (hb : s.bytes = h.bytes) (h1 : h.magicNumber < 4294967296)
    (h2 : h.tableNameLen < 4294967296) (h3 : h.columnCount < 4294967296)
    (h4 : h.nextRowID < 18446744073709551616) (hn : h.tableName.length ≤ 32)
    (hl : h.tableNameLen = h.tableName.length) :
    MetaDataHeader.Deserialize s = .ok h := by
  have hlen : s.len = 52 := by
    rw [← Slice_length_bytes s hwf, hb, MetaDataHeader_length_bytes h hn]
  have hp := padName_length h.tableName hn
  have b1 : s.bytes = [] ++ beBytes h.magicNumber ++ (beBytes h.tableNameLen ++
      beBytes h.columnCount ++ padName h.tableName ++ beBytes64 h.nextRowID) := by
    rw [hb]; unfold MetaDataHeader.bytes; simp only [List.nil_append, List.append_assoc]
  have b2 : s.bytes = beBytes h.magicNumber ++ beBytes h.tableNameLen ++
      (beBytes h.columnCount ++ padName h.tableName ++ beBytes64 h.nextRowID) := by
    rw [hb]; unfold MetaDataHeader.bytes; simp only [List.append_assoc]
  have b3 : s.bytes = (beBytes h.magicNumber ++ beBytes h.tableNameLen) ++
      beBytes h.columnCount ++ (padName h.tableName ++ beBytes64 h.nextRowID) := by
    rw [hb]; unfold MetaDataHeader.bytes; simp only [List.append_assoc]
  have b4 : s.bytes = (beBytes h.magicNumber ++ beBytes h.tableNameLen ++
      beBytes h.columnCount ++ padName h.tableName) ++ beBytes64 h.nextRowID ++ [] := by
    rw [hb]; unfold MetaDataHeader.bytes; simp only [List.append_assoc, List.append_nil]
  have b5 : s.bytes = (beBytes h.magicNumber ++ beBytes h.tableNameLen ++
      beBytes h.columnCount) ++ h.tableName ++
      (List.replicate (32 - h.tableName.length) 0 ++ beBytes64 h.nextRowID) := by
    rw [hb]; unfold MetaDataHeader.bytes padName; simp only [List.append_assoc]
  unfold MetaDataHeader.Deserialize
  rw [if_neg (by rw [hlen]; decide)]
  rw [Slice_read_u32_at s hwf _ _ _ 0 4 b1 rfl rfl,
    Slice_read_u32_at s hwf _ _ _ 4 8 b2 rfl rfl,
    Slice_read_u32_at s hwf _ _ _ 8 12 b3 rfl rfl]
  simp only [TABLE_NAME_MAX_LENGTH]
  rw [Slice_read_u64_at s hwf _ _ _ 44 52 h4 b4
    (by simp only [List.length_append, beBytes_length, hp]) rfl]
  have hu : u32 (12 + h.tableNameLen % 4294967296) = 12 + h.tableName.length := by
    rw [Nat.mod_eq_of_lt h2, hl]
    exact u32_of_lt (by omega)
  rw [hu]
  obtain ⟨s', hs', hb'⟩ := Slice_read_bytes_at s hwf _ h.tableName _ 12
    (12 + h.tableName.length) b5 rfl rfl
  rw [hs']
  simp only [Res_ok_bind, Res_pure_eq, hb', Nat.mod_eq_of_lt h1, Nat.mod_eq_of_lt h2,
    Nat.mod_eq_of_lt h3]


theorem ColumnInfo_length_bytes (c : ColumnInfo) (hn : c.columnName.length ≤ 32) :
    c.bytes.length = 56 := by
  unfold ColumnInfo.bytes
  simp only [List.length_append, beBytes_length, padName_length _ hn]

theorem ColumnInfo_Serialize_eq (c : ColumnInfo) (hn : c.columnName.length ≤ 32) :
    c.Serialize = .ok c.bytes := by
  unfold ColumnInfo.Serialize ColumnInfo.bytes padName
  have hu : u32 c.columnName.length = c.columnName.length := u32_of_lt (by omega)
  have h0 : makeBytes COLUMN_INFO_SIZE = [] ++ List.replicate 4 0 ++ (List.replicate 4 0 ++ (List.replicate 4 0 ++ (List.replicate 4 0 ++ (List.replicate 4 0 ++ (List.replicate 4 0 ++ (List.replicate c.columnName.length 0 ++ (List.replicate (32 - c.columnName.length) 0))))))) := by
    unfold makeBytes COLUMN_INFO_SIZE
    simp only [List.nil_append, ← List.replicate_add]
    congr 1
    omega
  have s1 : putUint32 (makeBytes COLUMN_INFO_SIZE) 0 4 c.columnName.length =
      .ok (beBytes c.columnName.length ++ (List.replicate 4 0 ++ (List.replicate 4 0 ++ (List.replicate 4 0 ++ (List.replicate 4 0 ++ (List.replicate 4 0 ++ (List.replicate c.columnName.length 0 ++ (List.replicate (32 - c.columnName.length) 0)))))))) := by
    rw [h0]
    exact putUint32_mid [] (List.replicate 4 0) _ c.columnName.length (by simp)
  have s2 : putUint32 (beBytes c.columnName.length ++ (List.replicate 4 0 ++ (List.replicate 4 0 ++ (List.replicate 4 0 ++ (List.replicate 4 0 ++ (List.replicate 4 0 ++ (List.replicate c.columnName.length 0 ++ (List.replicate (32 - c.columnName.length) 0)))))))) 4 8 c.dataType =
      .ok (beBytes c.columnName.length ++ (beBytes c.dataType ++ (List.replicate 4 0 ++ (List.replicate 4 0 ++ (List.replicate 4 0 ++ (List.replicate 4 0 ++ (List.replicate c.columnName.length 0 ++ (List.replicate (32 - c.columnName.length) 0)))))))) := by
    have := putUint32_mid (beBytes c.columnName.length) (List.replicate 4 0)
      (List.replicate 4 0 ++ (List.replicate 4 0 ++ (List.replicate 4 0 ++ (List.replicate 4 0 ++ (List.replicate c.columnName.length 0 ++ (List.replicate (32 - c.columnName.length) 0)))))) c.dataType (by simp)
    simpa only [List.length_append, beBytes_length, List.append_assoc] using this
  have s3 : putUint32 (beBytes c.columnName.length ++ (beBytes c.dataType ++ (List.replicate 4 0 ++ (List.replicate 4 0 ++ (List.replicate 4 0 ++ (List.replicate 4 0 ++ (List.replicate c.columnName.length 0 ++ (List.replicate (32 - c.columnName.length) 0)))))))) 8 12 c.isNullable =
      .ok (beBytes c.columnName.length ++ (beBytes c.dataType ++ (beBytes c.isNullable ++ (List.replicate 4 0 ++ (List.replicate 4 0 ++ (List.replicate 4 0 ++ (List.replicate c.columnName.length 0 ++ (List.replicate (32 - c.columnName.length) 0)))))))) := by
    have := putUint32_mid (beBytes c.columnName.length ++ beBytes c.dataType) (List.replicate 4 0)
      (List.replicate 4 0 ++ (List.replicate 4 0 ++ (List.replicate 4 0 ++ (List.replicate c.columnName.length 0 ++ (List.replicate (32 - c.columnName.length) 0))))) c.isNullable (by simp)
    simpa only [List.length_append, beBytes_length, List.append_assoc] using this
  have s4 : putUint32 (beBytes c.columnName.length ++ (beBytes c.dataType ++ (beBytes c.isNullable ++ (List.replicate 4 0 ++ (List.replicate 4 0 ++ (List.replicate 4 0 ++ (List.replicate c.columnName.length 0 ++ (List.replicate (32 - c.columnName.length) 0)))))))) 12 16 c.isPrimaryKey =
      .ok (beBytes c.columnName.length ++ (beBytes c.dataType ++ (beBytes c.isNullable ++ (beBytes c.isPrimaryKey ++ (List.replicate 4 0 ++ (List.replicate 4 0 ++ (List.replicate c.columnName.length 0 ++ (List.replicate (32 - c.columnName.length) 0)))))))) := by
    have := putUint32_mid (beBytes c.columnName.length ++ beBytes c.dataType ++ beBytes c.isNullable) (List.replicate 4 0)
      (List.replicate 4 0 ++ (List.replicate 4 0 ++ (List.replicate c.columnName.length 0 ++ (List.replicate (32 - c.columnName.length) 0)))) c.isPrimaryKey (by simp)
    simpa only [List.length_append, beBytes_length, List.append_assoc] using this
  have s5 : putUint32 (beBytes c.columnName.length ++ (beBytes c.dataType ++ (beBytes c.isNullable ++ (beBytes c.isPrimaryKey ++ (List.replicate 4 0 ++ (List.replicate 4 0 ++ (List.replicate c.columnName.length 0 ++ (List.replicate (32 - c.columnName.length) 0)))))))) 16 20 c.isAutoIncrement =
      .ok (beBytes c.columnName.length ++ (beBytes c.dataType ++ (beBytes c.isNullable ++ (beBytes c.isPrimaryKey ++ (beBytes c.isAutoIncrement ++ (List.replicate 4 0 ++ (List.replicate c.columnName.length 0 ++ (List.replicate (32 - c.columnName.length) 0)))))))) := by
    have := putUint32_mid (beBytes c.columnName.length ++ beBytes c.dataType ++ beBytes c.isNullable ++ beBytes c.isPrimaryKey) (List.replicate 4 0)
      (List.replicate 4 0 ++ (List.replicate c.columnName.length 0 ++ (List.replicate (32 - c.columnName.length) 0))) c.isAutoIncrement (by simp)
    simpa only [List.length_append, beBytes_length, List.append_assoc] using this
  have s6 : putUint32 (beBytes c.columnName.length ++ (beBytes c.dataType ++ (beBytes c.isNullable ++ (beBytes c.isPrimaryKey ++ (beBytes c.isAutoIncrement ++ (List.replicate 4 0 ++ (List.replicate c.columnName.length 0 ++ (List.replicate (32 - c.columnName.length) 0)))))))) 20 24 c.defaultValue =
      .ok (beBytes c.columnName.length ++ (beBytes c.dataType ++ (beBytes c.isNullable ++ (beBytes c.isPrimaryKey ++ (beBytes c.isAutoIncrement ++ (beBytes c.defaultValue ++ (List.replicate c.columnName.length 0 ++ (List.replicate (32 - c.columnName.length) 0)))))))) := by
    have := putUint32_mid (beBytes c.columnName.length ++ beBytes c.dataType ++ beBytes c.isNullable ++ beBytes c.isPrimaryKey ++ beBytes c.isAutoIncrement) (List.replicate 4 0)
      (List.replicate c.columnName.length 0 ++ (List.replicate (32 - c.columnName.length) 0)) c.defaultValue (by simp)
    simpa only [List.length_append, beBytes_length, List.append_assoc] using this
  have s7 : copyInto (beBytes c.columnName.length ++ (beBytes c.dataType ++ (beBytes c.isNullable ++ (beBytes c.isPrimaryKey ++ (beBytes c.isAutoIncrement ++ (beBytes c.defaultValue ++ (List.replicate c.columnName.length 0 ++ (List.replicate (32 - c.columnName.length) 0)))))))) 24 (24 + c.columnName.length) c.columnName =
      .ok (beBytes c.columnName.length ++ (beBytes c.dataType ++ (beBytes c.isNullable ++ (beBytes c.isPrimaryKey ++ (beBytes c.isAutoIncrement ++ (beBytes c.defaultValue ++ (c.columnName ++ (List.replicate (32 - c.columnName.length) 0)))))))) := by
    have := copyInto_mid (beBytes c.columnName.length ++ beBytes c.dataType ++ beBytes c.isNullable ++ beBytes c.isPrimaryKey ++ beBytes c.isAutoIncrement ++ beBytes c.defaultValue) (List.replicate c.columnName.length 0)
      (List.replicate (32 - c.columnName.length) 0) c.columnName (by simp)
    simpa only [List.length_append, beBytes_length, List.append_assoc] using this
  have e1 : ¬ c.columnName.length > COLUMN_NAME_MAX_LENGTH := by
    unfold COLUMN_NAME_MAX_LENGTH; omega
  have e2 : ¬ 24 + c.columnName.length > COLUMN_INFO_SIZE := by
    unfold COLUMN_INFO_SIZE; omega
  simp only [hu, e1, e2, if_false, s1, Res_ok_bind, s2, s3, s4, s5, s6, s7, Res_pure_eq,
    List.append_assoc]

theorem ColumnInfo_Deserialize_of_bytes (s : Slice) (hwf : s.len ≤ s.mem.length)
    (c : ColumnInfo) (hb : s.bytes = c.bytes) (h2 : c.dataType < 4294967296)
    (h3 : c.isNullable < 4294967296) (h4 : c.isPrimaryKey < 4294967296)
    (h5 : c.isAutoIncrement < 4294967296) (h6 : c.defaultValue < 4294967296)
    (hn : c.columnName.length ≤ 32) (hl : c.columnNameLength = c.columnName.length) :
    ColumnInfo.Deserialize s = .ok c := by
  have hlen : s.len = 56 := by
    rw [← Slice_length_bytes s hwf, hb, ColumnInfo_length_bytes c hn]
  have h1 : c.columnName.length < 4294967296 := by omega
  have b1 : s.bytes = [] ++ beBytes c.columnName.length ++ (beBytes c.dataType ++ beBytes c.isNullable ++ beBytes c.isPrimaryKey ++ beBytes c.isAutoIncrement ++ beBytes c.defaultValue ++ padName c.columnName) := by
    rw [hb]; unfold ColumnInfo.bytes; simp only [List.nil_append, List.append_assoc]
  have b2 : s.bytes = (beBytes c.columnName.length) ++ beBytes c.dataType ++ (beBytes c.isNullable ++ beBytes c.isPrimaryKey ++ beBytes c.isAutoIncrement ++ beBytes c.defaultValue ++ padName c.columnName) := by
    rw [hb]; unfold ColumnInfo.bytes; simp only [List.nil_append, List.append_assoc]
  have b3 : s.bytes = (beBytes c.columnName.length ++ beBytes c.dataType) ++ beBytes c.isNullable ++ (beBytes c.isPrimaryKey ++ beBytes c.isAutoIncrement ++ beBytes c.defaultValue ++ padName c.columnName) := by
    rw [hb]; unfold ColumnInfo.bytes; simp only [List.nil_append, List.append_assoc]
  have b4 : s.bytes = (beBytes c.columnName.length ++ beBytes c.dataType ++ beBytes c.isNullable) ++ beBytes c.isPrimaryKey ++ (beBytes c.isAutoIncrement ++ beBytes c.defaultValue ++ padName c.columnName) := by
    rw [hb]; unfold ColumnInfo.bytes; simp only [List.nil_append, List.append_assoc]
  have b5 : s.bytes = (beBytes c.columnName.length ++ beBytes c.dataType ++ beBytes c.isNullable ++ beBytes c.isPrimaryKey) ++ beBytes c.isAutoIncrement ++ (beBytes c.defaultValue ++ padName c.columnName) := by
    rw [hb]; unfold ColumnInfo.bytes; simp only [List.nil_append, List.append_assoc]
  have b6 : s.bytes = (beBytes c.columnName.length ++ beBytes c.dataType ++ beBytes c.isNullable ++ beBytes c.isPrimaryKey ++ beBytes c.isAutoIncrement) ++ beBytes c.defaultValue ++ (padName c.columnName) := by
    rw [hb]; unfold ColumnInfo.bytes; simp only [List.nil_append, List.append_assoc]
  have b7 : s.bytes = (beBytes c.columnName.length ++ beBytes c.dataType ++ beBytes c.isNullable ++ beBytes c.isPrimaryKey ++ beBytes c.isAutoIncrement ++ beBytes c.defaultValue) ++ c.columnName ++
      (List.replicate (32 - c.columnName.length) 0) := by
    rw [hb]; unfold ColumnInfo.bytes padName; simp only [List.append_assoc]
  unfold ColumnInfo.Deserialize
  rw [if_neg (by rw [hlen]; decide)]
  rw [Slice_read_u32_at s hwf _ _ _ 0 4 b1 rfl rfl,
    Slice_read_u32_at s hwf _ _ _ 4 8 b2 rfl rfl,
    Slice_read_u32_at s hwf _ _ _ 8 12 b3 rfl rfl,
    Slice_read_u32_at s hwf _ _ _ 12 16 b4 rfl rfl,
    Slice_read_u32_at s hwf _ _ _ 16 20 b5 rfl rfl,
    Slice_read_u32_at s hwf _ _ _ 20 24 b6 rfl rfl]
  have hu : u32 (24 + c.columnName.length % 4294967296) = 24 + c.columnName.length := by
    rw [Nat.mod_eq_of_lt h1]
    exact u32_of_lt (by omega)
  rw [hu]
  obtain ⟨s', hs', hb'⟩ := Slice_read_bytes_at s hwf _ c.columnName _ 24
    (24 + c.columnName.length) b7 rfl rfl
  rw [hs']
  simp only [Res_ok_bind, Res_pure_eq, hb', Nat.mod_eq_of_lt h1, Nat.mod_eq_of_lt h2,
    Nat.mod_eq_of_lt h3, Nat.mod_eq_of_lt h4, Nat.mod_eq_of_lt h5, Nat.mod_eq_of_lt h6]
  cases c
  simp only at hl
  simp only [hl]


theorem Slice_ofBytes_wf (l : List Byte) : (Slice.ofBytes l).len ≤ (Slice.ofBytes l).mem.length :=
  Nat.le_refl _

/-- C18: for every value of the seven fixed-size record types whose integer
fields are `uint32` values (`NextRowID` a `uint64` value) and, for
`MetaDataHeader` and `ColumnInfo`, whose name has at most 32 bytes and whose
length field is the length of the name: `Serialize` returns exactly 16, 12, 12,
12, 12, 52 and 56 bytes and `Deserialize` of these bytes returns the value. The
name is any byte string, also one that ends in zero bytes. -/
theorem C18_record_roundtrips :
    (∀ x : PageHeader, x.pageID < 4294967296 → x.recordCount < 4294967296 →
      x.lower < 4294967296 → x.upper < 4294967296 →
      ∃ b, x.Serialize = .ok b ∧ b.length = 16 ∧
        PageHeader.Deserialize (Slice.ofBytes b) = .ok x) ∧
    (∀ x : PageSlot, x.offset < 4294967296 → x.length < 4294967296 →
      x.flags < 4294967296 →
      ∃ b, x.Serialize = .ok b ∧ b.length = 12 ∧
        PageSlot.Deserialize (Slice.ofBytes b) = .ok x) ∧
    (∀ x : DataFileHeader, x.magicNumber < 4294967296 → x.pagesCount < 4294967296 →
      x.recordCount < 4294967296 →
      ∃ b, x.Serialize = .ok b ∧ b.length = 12 ∧
        DataFileHeader.Deserialize (Slice.ofBytes b) = .ok x) ∧
    (∀ x : PageDirectoryHeader, x.magicNumber < 4294967296 → x.pageCount < 4294967296 →
      x.nextPageID < 4294967296 →
      ∃ b, x.Serialize = .ok b ∧ b.length = 12 ∧
        PageDirectoryHeader.Deserialize (Slice.ofBytes b) = .ok x) ∧
    (∀ x : PageDirectoryEntry, x.pageID < 4294967296 → x.freeSpace < 4294967296 →
      x.flags < 4294967296 →
      ∃ b, x.Serialize = .ok b ∧ b.length = 12 ∧
        PageDirectoryEntry.Deserialize (Slice.ofBytes b) = .ok x) ∧
    (∀ x : MetaDataHeader, x.magicNumber < 4294967296 → x.columnCount < 4294967296 →
      x.nextRowID < 18446744073709551616 → x.tableName.length ≤ 32 →
      x.tableNameLen = x.tableName.length →
      ∃ b, x.Serialize = .ok b ∧ b.length = 52 ∧
        MetaDataHeader.Deserialize (Slice.ofBytes b) = .ok x) ∧
    (∀ x : ColumnInfo, x.dataType < 4294967296 → x.isNullable < 4294967296 →
      x.isPrimaryKey < 4294967296 → x.isAutoIncrement < 4294967296 →
      x.defaultValue < 4294967296 → x.columnName.length ≤ 32 →
      x.columnNameLength = x.columnName.length →
      ∃ b, x.Serialize = .ok b ∧ b.length = 56 ∧
        ColumnInfo.Deserialize (Slice.ofBytes b) = .ok x) := by
  refine ⟨?_, ?_, ?_, ?_, ?_, ?_, ?_⟩
  · intro x h1 h2 h3 h4
    exact ⟨x.bytes, PageHeader_Serialize_eq x, PageHeader_length_bytes x,
      PageHeader_Deserialize_of_bytes _ (Slice_ofBytes_wf _) x (Slice_ofBytes_bytes _) h1 h2 h3 h4⟩
  · intro x h1 h2 h3
    exact ⟨x.bytes, PageSlot_Serialize_eq x, PageSlot_length_bytes x,
      PageSlot_Deserialize_of_bytes _ (Slice_ofBytes_wf _) x (Slice_ofBytes_bytes _) h1 h2 h3⟩
  · intro x h1 h2 h3
    exact ⟨x.bytes, DataFileHeader_Serialize_eq x, DataFileHeader_length_bytes x,
      DataFileHeader_Deserialize_of_bytes _ (Slice_ofBytes_wf _) x (Slice_ofBytes_bytes _)
        h1 h2 h3⟩
  · intro x h1 h2 h3
    exact ⟨x.bytes, PageDirectoryHeader_Serialize_eq x, PageDirectoryHeader_length_bytes x,
      PageDirectoryHeader_Deserialize_of_bytes _ (Slice_ofBytes_wf _) x (Slice_ofBytes_bytes _)
        h1 h2 h3⟩
  · intro x h1 h2 h3
    exact ⟨x.bytes, PageDirectoryEntry_Serialize_eq x, PageDirectoryEntry_length_bytes x,
      PageDirectoryEntry_Deserialize_of_bytes _ (Slice_ofBytes_wf _) x (Slice_ofBytes_bytes _)
        h1 h2 h3⟩
  · intro x h1 h3 h4 hn hl
    exact ⟨x.bytes, MetaDataHeader_Serialize_eq x hn, MetaDataHeader_length_bytes x hn,
      MetaDataHeader_Deserialize_of_bytes _ (Slice_ofBytes_wf _) x (Slice_ofBytes_bytes _)
        h1 (by omega) h3 h4 hn hl⟩
  · intro x h2 h3 h4 h5 h6 hn hl
    exact ⟨x.bytes, ColumnInfo_Serialize_eq x hn, ColumnInfo_length_bytes x hn,
      ColumnInfo_Deserialize_of_bytes _ (Slice_ofBytes_wf _) x (Slice_ofBytes_bytes _)
        h2 h3 h4 h5 h6 hn hl⟩

/-- C18 on a meta file header and a column whose names end in zero bytes. -/
theorem C18_record_roundtrips_witness :
    (∃ b, exampleMetaHeader.Serialize = .ok b ∧ b.length = 52 ∧
      MetaDataHeader.Deserialize (Slice.ofBytes b) = .ok exampleMetaHeader) ∧
    (∃ b, exampleColumn.Serialize = .ok b ∧ b.length = 56 ∧
      ColumnInfo.Deserialize (Slice.ofBytes b) = .ok exampleColumn) :=
  ⟨C18_record_roundtrips.2.2.2.2.2.1 exampleMetaHeader (by decide) (by decide) (by decide)
      (by decide) (by decide),
    C18_record_roundtrips.2.2.2.2.2.2 exampleColumn (by decide) (by decide) (by decide)
      (by decide) (by decide) (by decide) (by decide)⟩

/-! ## `readPage` outside the page range -/

/-- C13: for every `DataFile` with `pages_count = n` and every `page_id > n`,
`readPage` returns the error "out of range", whatever the files hold (the same
result on every file system: no byte of a file is read). -/
theorem C13_readPage_beyond_count (df : DataFile) (fs : FS) (tableName : String)
    (pageID : Nat) (h : pageID > df.header.pagesCount) :
    df.readPage fs tableName pageID = .error "page id %d is out of range" := by
  unfold DataFile.readPage
  rw [if_pos h]

/-- C13 for the table `users` with one page and `page_id = 2`, with and without
its files. -/
theorem C13_readPage_beyond_count_witness :
    readDataFileHeader usersOnePageFS "users" = .ok usersOnePageDF ∧
    usersOnePageDF.readPage usersOnePageFS "users" 2 = .error "page id %d is out of range" ∧
    usersOnePageDF.readPage emptyFS "users" 2 = .error "page id %d is out of range" :=
  ⟨by decide!, C13_readPage_beyond_count _ _ _ _ (by decide),
    C13_readPage_beyond_count _ _ _ _ (by decide)⟩


theorem readPage_zero (df : DataFile) (fs : FS) (tableName : String) (file : List Byte)
    (hfile : fs (dataFilePath tableName) = some file) :
    df.readPage fs tableName 0 = .panic := by
  unfold DataFile.readPage
  rw [if_neg (by omega)]
  simp only [hfile]
  have h1 : pageOffset 0 = 4294963212 := by decide
  have h2 : u32 (4294963212 + PAGE_SIZE) = 12 := by decide
  rw [h1, h2]
  unfold Slice.reslice
  rw [if_neg (by omega)]
  rfl

/-- C12 (failing input): for every table whose data file exists, `readPage`
with `page_id = 0` passes the range check `0 > pages_count`, computes the offset
`12 + (0 - 1) * 4096` in `uint32` (4294963212, end 12) and panics on the slice
expression `data[4294963212:12]`; `diskManager.ReadPage` panics with it whenever
the header of the data file can be read. -/
theorem C12_readPage_zero_panics (fs : FS) (tableName : String) (file : List Byte)
    (df : DataFile) (hfile : fs (dataFilePath tableName) = some file)
    (hdf : readDataFileHeader fs tableName = .ok df) :
    df.readPage fs tableName 0 = .panic ∧ diskManager.ReadPage fs tableName 0 = .panic := by
  have h := readPage_zero df fs tableName file hfile
  refine ⟨h, ?_⟩
  unfold diskManager.ReadPage
  rw [hdf]
  simp only [Res_ok_bind, h]
  rfl

/-- C12 on the table `users` with one page. -/
theorem C12_readPage_zero_panics_witness :
    (usersOnePageFS (dataFilePath "users")).map List.length = some 4108 ∧
    readDataFileHeader usersOnePageFS "users" = .ok usersOnePageDF ∧
    usersOnePageDF.readPage usersOnePageFS "users" 0 = .panic ∧
    diskManager.ReadPage usersOnePageFS "users" 0 = .panic := by
  have hdf : readDataFileHeader usersOnePageFS "users" = .ok usersOnePageDF := by decide!
  cases hfile : usersOnePageFS (dataFilePath "users") with
  | none =>
    have : (usersOnePageFS (dataFilePath "users")).isSome = true := by decide!
    rw [hfile] at this
    cases this
  | some file =>
    have hlen : (usersOnePageFS (dataFilePath "users")).map List.length = some 4108 := by
      decide!
    rw [hfile] at hlen
    exact ⟨hlen, hdf, C12_readPage_zero_panics usersOnePageFS "users" file usersOnePageDF
      hfile hdf⟩


/-! ## The catalog of tables -/

theorem nameArray_eq (name : List Byte) (hn : name.length ≤ 32) : nameArray name = padName name := by
  unfold nameArray goCopy padName makeBytes TABLE_NAME_MAX_LENGTH
  rw [List.length_replicate, List.take_of_length_le hn, List.drop_replicate]

theorem sliceList_padName (name : List Byte) (hn : name.length ≤ 32) :
    sliceList (padName name) 0 name.length = .ok name := by
  unfold sliceList
  rw [if_pos ⟨Nat.zero_le _, by rw [padName_length name hn]; exact hn⟩]
  unfold padName
  simp

theorem entryBytes_length (name : List Byte) (fileID : Nat) (hn : name.length ≤ 32) :
    (entryBytes name fileID).length = 40 := by
  unfold entryBytes
  simp only [List.length_append, beBytes_length, padName_length name hn]

theorem TableEntry_Serialize_eq (name : List Byte) (fileID : Nat) (hn : name.length ≤ 32) :
    TableEntry.Serialize
      { tableNameLength := u32 name.length, tableName := nameArray name, fileID := fileID } =
      .ok (entryBytes name fileID) := by
  have hu : u32 name.length = name.length := u32_of_lt (by omega)
  have hu2 : u32 (4 + name.length) = 4 + name.length := u32_of_lt (by omega)
  unfold TableEntry.Serialize entryBytes
  simp only [hu, hu2, nameArray_eq name hn, sliceList_padName name hn, Res_ok_bind]
  unfold padName
  have h0 : makeBytes TABLES_LIST_ENTRY_SIZE = [] ++ List.replicate 4 0 ++
      (List.replicate name.length 0 ++ (List.replicate (32 - name.length) 0 ++
        List.replicate 4 0)) := by
    unfold makeBytes TABLES_LIST_ENTRY_SIZE
    simp only [List.nil_append, ← List.replicate_add]
    congr 1
    omega
  have s1 : putUint32 (makeBytes TABLES_LIST_ENTRY_SIZE) 0 4 name.length =
      .ok (beBytes name.length ++ (List.replicate name.length 0 ++
        (List.replicate (32 - name.length) 0 ++ List.replicate 4 0))) := by
    rw [h0]
    exact putUint32_mid [] (List.replicate 4 0) _ name.length (by simp)
  have s2 : copyInto (beBytes name.length ++ (List.replicate name.length 0 ++
        (List.replicate (32 - name.length) 0 ++ List.replicate 4 0))) 4 (4 + name.length) name =
      .ok (beBytes name.length ++ (name ++
        (List.replicate (32 - name.length) 0 ++ List.replicate 4 0))) := by
    have := copyInto_mid (beBytes name.length) (List.replicate name.length 0)
      (List.replicate (32 - name.length) 0 ++ List.replicate 4 0) name (by simp)
    simpa only [beBytes_length, List.append_assoc] using this
  have s3 : putUint32 (beBytes name.length ++ (name ++
        (List.replicate (32 - name.length) 0 ++ List.replicate 4 0))) 36 40 fileID =
      .ok (beBytes name.length ++ (name ++
        (List.replicate (32 - name.length) 0 ++ beBytes fileID))) := by
    have := putUint32_mid (beBytes name.length ++ name ++ List.replicate (32 - name.length) 0)
      (List.replicate 4 0) [] fileID (by simp)
    have e : (beBytes name.length ++ name ++ List.replicate (32 - name.length) 0).length
        = 36 := by
      simp only [List.length_append, beBytes_length, List.length_replicate]
      omega
    rw [e] at this
    simpa only [List.append_assoc, List.append_nil] using this
  simp only [s1, Res_ok_bind, s2, s3, Res_pure_eq, List.append_assoc]


/-- The bytes of the entries of a catalog, in the order of the map. -/
theorem entriesBytes_length (es : NameMap) (hn : ∀ e ∈ es, e.1.length ≤ 32) :
    (es.flatMap fun e => entryBytes e.1 e.2).length = 40 * es.length := by
  induction es with
  | nil => rfl
  | cons e rest ih =>
    rw [List.flatMap_cons, List.length_append,
      entryBytes_length e.1 e.2 (hn e (List.mem_cons_self _ _)),
      ih (fun x hx => hn x (List.mem_cons_of_mem _ hx)), List.length_cons]
    omega

theorem serializeEntries_spec : ∀ (es : NameMap) (pre : List Byte),
    (∀ e ∈ es, e.1.length ≤ 32) →
    serializeEntries es pre.length (pre ++ List.replicate (40 * es.length) 0) =
      .ok (pre ++ es.flatMap fun e => entryBytes e.1 e.2) := by
  intro es
  induction es with
  | nil =>
    intro pre _
    simp [serializeEntries]
  | cons e rest ih =>
    intro pre hn
    obtain ⟨name, fileID⟩ := e
    have hname : name.length ≤ 32 := hn (name, fileID) (List.mem_cons_self _ _)
    unfold serializeEntries
    simp only [TableEntry_Serialize_eq name fileID hname, Res_ok_bind]
    have hsplit : pre ++ List.replicate (40 * ((name, fileID) :: rest).length) 0 =
        pre ++ List.replicate 40 0 ++ List.replicate (40 * rest.length) 0 := by
      rw [List.append_assoc, ← List.replicate_add]
      congr 2
      rw [List.length_cons]
      omega
    have hc := copyInto_mid pre (List.replicate 40 0) (List.replicate (40 * rest.length) 0)
      (entryBytes name fileID) (by rw [entryBytes_length name fileID hname]; simp)
    rw [entryBytes_length name fileID hname] at hc
    rw [hsplit]
    simp only [TABLES_LIST_ENTRY_SIZE, hc, Res_ok_bind]
    have := ih (pre ++ entryBytes name fileID) (fun x hx => hn x (List.mem_cons_of_mem _ hx))
    rw [List.length_append, entryBytes_length name fileID hname] at this
    rw [this, List.flatMap_cons, List.append_assoc]

theorem TablesList_Serialize_eq (tl : TablesList) (hn : ∀ e ∈ tl.tables, e.1.length ≤ 32) :
    tl.Serialize = .ok (beBytes tl.header.magicNumber ++
      tl.tables.flatMap fun e => entryBytes e.1 e.2) := by
  unfold TablesList.Serialize TablesListHeader.Serialize
  have h0 : makeBytes TABLES_LIST_HEADER_SIZE = [] ++ List.replicate 4 0 ++ [] := rfl
  have s1 : putUint32 (makeBytes TABLES_LIST_HEADER_SIZE) 0 4 tl.header.magicNumber =
      .ok (beBytes tl.header.magicNumber) := by
    rw [h0]
    have := putUint32_mid [] (List.replicate 4 0) [] tl.header.magicNumber (by simp)
    simpa using this
  have h1 : makeBytes (TABLES_LIST_HEADER_SIZE + tl.tables.length * TABLES_LIST_ENTRY_SIZE) =
      [] ++ List.replicate 4 0 ++ List.replicate (40 * tl.tables.length) 0 := by
    unfold makeBytes TABLES_LIST_HEADER_SIZE TABLES_LIST_ENTRY_SIZE
    simp only [List.nil_append, ← List.replicate_add]
    congr 1
    omega
  have s2 : copyInto (makeBytes (TABLES_LIST_HEADER_SIZE +
      tl.tables.length * TABLES_LIST_ENTRY_SIZE)) 0 TABLES_LIST_HEADER_SIZE
      (beBytes tl.header.magicNumber) =
      .ok (beBytes tl.header.magicNumber ++ List.replicate (40 * tl.tables.length) 0) := by
    rw [h1]
    have := copyInto_mid [] (List.replicate 4 0) (List.replicate (40 * tl.tables.length) 0)
      (beBytes tl.header.magicNumber) (by rw [beBytes_length]; simp)
    simpa using this
  simp only [s1, Res_ok_bind, Res_pure_eq, s2]
  have := serializeEntries_spec tl.tables (beBytes tl.header.magicNumber) hn
  rw [beBytes_length] at this
  exact this


theorem goCopy_same_length (dst src : List Byte) (h : dst.length = src.length) :
    goCopy dst src = src := by
  unfold goCopy
  rw [h, List.take_length, List.drop_of_length_le (by omega), List.append_nil]

theorem TableEntry_Deserialize_of_bytes (s : Slice) (hwf : s.len ≤ s.mem.length)
    (name : List Byte) (fileID : Nat) (hb : s.bytes = entryBytes name fileID)
    (hn : name.length ≤ 32) (hf : fileID < 4294967296) :
    TableEntry.Deserialize s =
      .ok { tableNameLength := name.length, tableName := padName name, fileID := fileID } := by
  have hlen : s.len = 40 := by
    rw [← Slice_length_bytes s hwf, hb, entryBytes_length name fileID hn]
  have hp := padName_length name hn
  have b1 : s.bytes = [] ++ beBytes name.length ++ (padName name ++ beBytes fileID) := by
    rw [hb]; unfold entryBytes; simp only [List.nil_append, List.append_assoc]
  have b2 : s.bytes = beBytes name.length ++ name ++
      (List.replicate (32 - name.length) 0 ++ beBytes fileID) := by
    rw [hb]; unfold entryBytes padName; simp only [List.append_assoc]
  have b3 : s.bytes = (beBytes name.length ++ padName name) ++ beBytes fileID ++ [] := by
    rw [hb]; unfold entryBytes; simp only [List.append_assoc, List.append_nil]
  have hm : name.length % 4294967296 = name.length := Nat.mod_eq_of_lt (by omega)
  unfold TableEntry.Deserialize
  rw [if_neg (by rw [hlen]; decide)]
  rw [Slice_read_u32_at s hwf _ _ _ 0 4 b1 rfl rfl, hm]
  rw [if_neg (by unfold TABLE_NAME_MAX_LENGTH; omega)]
  have hu : u32 (4 + name.length) = 4 + name.length := u32_of_lt (by omega)
  rw [hu]
  obtain ⟨s', hs', hb'⟩ := Slice_read_bytes_at s hwf _ name _ 4 (4 + name.length) b2 rfl rfl
  rw [hs']
  simp only [Res_ok_bind]
  rw [Slice_read_u32_at s hwf _ _ _ 36 40 b3
    (by simp only [List.length_append, beBytes_length, hp]) rfl]
  rw [hb', goCopy_same_length _ _ (by simp [makeBytes]), nameArray_eq name hn,
    Nat.mod_eq_of_lt hf]
  rfl

theorem deserializeEntries_spec (rd : Slice) (hwf : rd.len ≤ rd.mem.length) :
    ∀ (es : NameMap) (pre : List Byte) (i : Nat) (acc : NameMap),
    rd.bytes = pre ++ (es.flatMap fun e => entryBytes e.1 e.2) → pre.length = 40 * i →
    (∀ e ∈ es, e.1.length ≤ 32 ∧ e.2 < 4294967296) →
    deserializeEntries rd es.length i acc =
      .ok (es.foldl (fun t e => nameSet t e.1 e.2) acc) := by
  intro es
  induction es with
  | nil => intro pre i acc _ _ _; rfl
  | cons e rest ih =>
    intro pre i acc hb hpre hn
    obtain ⟨name, fileID⟩ := e
    obtain ⟨hname, hfile⟩ := hn (name, fileID) (List.mem_cons_self _ _)
    have hb1 : rd.bytes = pre ++ entryBytes name fileID ++
        (rest.flatMap fun e => entryBytes e.1 e.2) := by
      rw [hb, List.flatMap_cons, List.append_assoc]
    obtain ⟨s', hs', hwf', hb'⟩ := Slice_sub_at rd hwf pre (entryBytes name fileID) _
      (i * TABLES_LIST_ENTRY_SIZE) (i * TABLES_LIST_ENTRY_SIZE + TABLES_LIST_ENTRY_SIZE) hb1
      (by rw [hpre]; unfold TABLES_LIST_ENTRY_SIZE; omega)
      (by rw [entryBytes_length name fileID hname]; rfl)
    show deserializeEntries rd (rest.length + 1) i acc = _
    unfold deserializeEntries
    simp only [hs', Res_ok_bind,
      TableEntry_Deserialize_of_bytes s' hwf' name fileID hb' hname hfile, Res_wrapErr_ok,
      sliceList_padName name hname]
    rw [ih (pre ++ entryBytes name fileID) (i + 1) _ hb1
      (by rw [List.length_append, entryBytes_length name fileID hname, hpre]; omega)
      (fun x hx => hn x (List.mem_cons_of_mem _ hx))]
    rfl


/-! ## Lookups in a name map -/

theorem nameGet_nameDel_same (m : NameMap) (k : List Byte) : nameGet (nameDel m k) k = none := by
  induction m with
  | nil => rfl
  | cons e rest ih =>
    obtain ⟨k', v⟩ := e
    by_cases h : k' = k
    · simp only [nameDel, if_pos h, ih]
    · simp only [nameDel, if_neg h, nameGet, ih]

theorem nameGet_nameDel_ne (m : NameMap) (k j : List Byte) (h : j ≠ k) :
    nameGet (nameDel m k) j = nameGet m j := by
  induction m with
  | nil => rfl
  | cons e rest ih =>
    obtain ⟨k', v⟩ := e
    by_cases h' : k' = k
    · have : ¬ k' = j := by rw [h']; exact fun e => h e.symm
      simp only [nameDel, if_pos h', nameGet, if_neg this, ih]
    · simp only [nameDel, if_neg h', nameGet, ih]

theorem nameGet_nameSet_same (m : NameMap) (k : List Byte) (v : Nat) :
    nameGet (nameSet m k v) k = some v := by
  simp [nameSet, nameGet]

theorem nameGet_nameSet_ne (m : NameMap) (k j : List Byte) (v : Nat) (h : j ≠ k) :
    nameGet (nameSet m k v) j = nameGet m j := by
  unfold nameSet
  rw [nameGet, if_neg (fun e => h e.symm), nameGet_nameDel_ne m k j h]

theorem nameGet_none_of_not_mem (m : NameMap) (k : List Byte) (h : k ∉ m.map Prod.fst) :
    nameGet m k = none := by
  induction m with
  | nil => rfl
  | cons e rest ih =>
    obtain ⟨k', v⟩ := e
    simp only [List.map_cons, List.mem_cons, not_or] at h
    unfold nameGet
    rw [if_neg (fun e => h.1 e.symm)]
    exact ih h.2

theorem nameGet_foldl_nameSet : ∀ (es acc : NameMap) (k : List Byte),
    (es.map Prod.fst).Nodup →
    nameGet (es.foldl (fun t e => nameSet t e.1 e.2) acc) k =
      if k ∈ es.map Prod.fst then nameGet es k else nameGet acc k := by
  intro es
  induction es with
  | nil => intro acc k _; simp
  | cons e rest ih =>
    intro acc k hnd
    obtain ⟨k1, v1⟩ := e
    simp only [List.map_cons, List.nodup_cons] at hnd
    rw [List.foldl_cons, ih _ k hnd.2]
    by_cases hk : k = k1
    · subst hk
      rw [if_neg hnd.1, nameGet_nameSet_same]
      simp [nameGet]
    · rw [nameGet_nameSet_ne _ _ _ _ hk]
      have hg : nameGet ((k1, v1) :: rest) k = nameGet rest k := by
        rw [nameGet, if_neg (fun e => hk e.symm)]
      simp only [List.map_cons, List.mem_cons, hk, false_or, hg]

/-! ## `TablesList.Deserialize` -/

theorem TablesList_Deserialize_spec (tl : TablesList)
    (hm : tl.header.magicNumber = TABLES_LIST_MAGIC_NUMBER)
    (hn : ∀ e ∈ tl.tables, e.1.length ≤ 32 ∧ e.2 < 4294967296) :
    TablesList.Deserialize (Slice.ofBytes (beBytes tl.header.magicNumber ++
      tl.tables.flatMap fun e => entryBytes e.1 e.2)) =
      .ok { header := tl.header,
            tables := tl.tables.foldl (fun t e => nameSet t e.1 e.2) [] } := by
  have hel := entriesBytes_length tl.tables (fun e he => (hn e he).1)
  have hwf := Slice_ofBytes_wf (beBytes tl.header.magicNumber ++
      tl.tables.flatMap fun e => entryBytes e.1 e.2)
  have hbytes := Slice_ofBytes_bytes (beBytes tl.header.magicNumber ++
      tl.tables.flatMap fun e => entryBytes e.1 e.2)
  have hlen : (Slice.ofBytes (beBytes tl.header.magicNumber ++
      tl.tables.flatMap fun e => entryBytes e.1 e.2)).len = 4 + 40 * tl.tables.length := by
    show (beBytes tl.header.magicNumber ++ _).length = _
    rw [List.length_append, beBytes_length, hel]
  unfold TablesList.Deserialize
  rw [if_neg (by rw [hlen]; unfold TABLES_LIST_HEADER_SIZE; omega)]
  obtain ⟨s1, hs1, hwf1, hb1⟩ := Slice_sub_at _ hwf [] (beBytes tl.header.magicNumber)
    (tl.tables.flatMap fun e => entryBytes e.1 e.2) 0 TABLES_LIST_HEADER_SIZE
    (by rw [hbytes]; rfl) rfl rfl
  have hl1 : s1.len = 4 := by
    rw [← Slice_length_bytes s1 hwf1, hb1]; rfl
  have hd1 : TablesListHeader.Deserialize s1 = .ok tl.header := by
    unfold TablesListHeader.Deserialize
    rw [if_neg (by rw [hl1]; decide)]
    have b : s1.bytes = [] ++ beBytes tl.header.magicNumber ++ [] := by
      rw [hb1]; simp
    rw [Slice_read_u32_at s1 hwf1 _ _ _ 0 4 b rfl rfl]
    rw [Nat.mod_eq_of_lt (by rw [hm]; decide)]
    rfl
  simp only [hs1, Res_ok_bind, hd1, Res_wrapErr_ok]
  rw [if_neg (by simp [hm])]
  obtain ⟨s2, hs2, hwf2, hb2⟩ := Slice_sub_at _ hwf (beBytes tl.header.magicNumber)
    (tl.tables.flatMap fun e => entryBytes e.1 e.2) [] TABLES_LIST_HEADER_SIZE
    (Slice.ofBytes (beBytes tl.header.magicNumber ++
      tl.tables.flatMap fun e => entryBytes e.1 e.2)).len
    (by rw [hbytes]; simp) rfl (by rw [hlen, hel]; rfl)
  have hl2 : s2.len = 40 * tl.tables.length := by
    rw [← Slice_length_bytes s2 hwf2, hb2, hel]
  simp only [hs2, Res_ok_bind]
  have hcount : s2.len / TABLES_LIST_ENTRY_SIZE = tl.tables.length := by
    rw [hl2]; unfold TABLES_LIST_ENTRY_SIZE; omega
  rw [hcount, deserializeEntries_spec s2 hwf2 tl.tables [] 0 [] (by rw [hb2]; rfl) rfl hn]
  rfl

/-- C19: for every catalog with the magic number of `NewTablesList` whose names
are pairwise distinct byte strings of at most 32 bytes (file ids are `uint32`
values), in whatever order `range` visits the map: `Serialize` returns exactly
`4 + 40 n` bytes for `n` tables, the first four are the magic number
`0x7ABCDEF2`, and `Deserialize` of these bytes returns a catalog with the same
header in which every name has the file id it has in the catalog. -/
theorem C19_catalog_roundtrip (c : TablesList)
    (hm : c.header.magicNumber = TABLES_LIST_MAGIC_NUMBER)
    (hnd : (c.tables.map Prod.fst).Nodup)
    (hn : ∀ e ∈ c.tables, e.1.length ≤ 32 ∧ e.2 < 4294967296) :
    ∃ bytes c', c.Serialize = .ok bytes ∧ bytes.length = 4 + 40 * c.tables.length ∧
      bytes.take 4 = beBytes 0x7ABCDEF2 ∧
      TablesList.Deserialize (Slice.ofBytes bytes) = .ok c' ∧ c'.header = c.header ∧
      ∀ name, nameGet c'.tables name = nameGet c.tables name := by
  refine ⟨_, _, TablesList_Serialize_eq c (fun e he => (hn e he).1), ?_, ?_,
    TablesList_Deserialize_spec c hm hn, rfl, ?_⟩
  · rw [List.length_append, beBytes_length, entriesBytes_length _ (fun e he => (hn e he).1)]
  · rw [List.take_left' (beBytes_length _), hm]
    rfl
  · intro name
    show nameGet (c.tables.foldl (fun t e => nameSet t e.1 e.2) []) name = _
    rw [nameGet_foldl_nameSet c.tables [] name hnd]
    split
    · rfl
    · rename_i h
      rw [nameGet_none_of_not_mem _ _ h]
      rfl


/-- C19 on the catalog of the tables `users` and `t`. -/
theorem C19_catalog_roundtrip_witness :
    ∃ bytes c', exampleCatalog.Serialize = .ok bytes ∧ bytes.length = 84 ∧
      bytes.take 4 = [122, 188, 222, 242] ∧
      TablesList.Deserialize (Slice.ofBytes bytes) = .ok c' ∧
      c'.header = exampleCatalog.header ∧
      nameGet c'.tables [117, 115, 101, 114, 115] = some 1 ∧
      nameGet c'.tables [116] = some 2 ∧ nameGet c'.tables [117] = none := by
  obtain ⟨bytes, c', h1, h2, h3, h4, h5, h6⟩ :=
    C19_catalog_roundtrip exampleCatalog rfl (by decide) (by decide)
  exact ⟨bytes, c', h1, h2, h3, h4, h5, by rw [h6]; rfl, by rw [h6]; rfl, by rw [h6]; rfl⟩

/-! ## Wrong magic numbers -/

theorem beBytes_beVal (bs : List Byte) (h : bs.length = 4) : beBytes (beVal bs) = bs := by
  match bs, h with
  | [a, b, c, d], _ =>
    have ha := a.isLt
    have hb := b.isLt
    have hc := c.isLt
    have hd := d.isLt
    simp only [beVal, beBytes, toByte, List.cons.injEq, and_true]
    refine ⟨?_, ?_, ?_, ?_⟩ <;> apply Fin.ext <;> simp only <;> omega

theorem magic_mismatch (bs : List Byte) (magic : Nat) (hlen : 4 ≤ bs.length)
    (h : bs.take 4 ≠ beBytes magic) : beVal (bs.take 4) ≠ magic := by
  intro e
  apply h
  rw [← e, beBytes_beVal _ (by rw [List.length_take]; omega)]

theorem Slice_read_magic (bs : List Byte) (hlen : 4 ≤ bs.length) {β : Type} (f : Nat → Res β) :
    ((Slice.ofBytes bs).reslice 0 4 >>= fun x => x.uint32 >>= f) = f (beVal (bs.take 4)) := by
  rw [Slice_read_u32 _ (Slice_ofBytes_wf bs) 0 4 rfl hlen, Slice_ofBytes_bytes]
  rfl

theorem TablesList_Deserialize_bad_magic (data : Slice) (hwf : data.len ≤ data.mem.length)
    (h : data.bytes.take 4 ≠ beBytes TABLES_LIST_MAGIC_NUMBER) :
    ∃ msg, TablesList.Deserialize data = .error msg := by
  unfold TablesList.Deserialize
  by_cases hl : data.len < TABLES_LIST_HEADER_SIZE
  · rw [if_pos hl]; exact ⟨_, rfl⟩
  · rw [if_neg hl]
    unfold TABLES_LIST_HEADER_SIZE at hl ⊢
    obtain ⟨s1, hs1, hl1, hwf1, hb1⟩ := Slice_reslice_within data hwf 0 4 (by omega) (by omega)
    have hd1 : TablesListHeader.Deserialize s1 =
        .ok { magicNumber := beVal (window data.bytes 0 4) } := by
      unfold TablesListHeader.Deserialize
      rw [if_neg (by rw [hl1]; decide)]
      rw [Slice_read_u32 s1 hwf1 0 4 rfl (by rw [hl1]), hb1]
      have : window (window data.bytes 0 (4 - 0)) 0 4 = window data.bytes 0 4 := by
        rw [window_window _ _ _ _ _ (by omega)]
      rw [this]
      rfl
    simp only [hs1, Res_ok_bind, hd1, Res_wrapErr_ok]
    have hne : beVal (window data.bytes 0 4) ≠ TABLES_LIST_MAGIC_NUMBER :=
      magic_mismatch data.bytes TABLES_LIST_MAGIC_NUMBER
        (by rw [Slice_length_bytes data hwf]; omega) h
    rw [if_pos hne]
    exact ⟨_, rfl⟩

theorem readDataFileHeader_bad_magic (fs : FS) (tableName : String) (file : List Byte)
    (hfile : fs (dataFilePath tableName) = some file)
    (h : file.take 4 ≠ beBytes DATA_FILE_MAGIC_NUMBER) :
    ∃ msg, readDataFileHeader fs tableName = .error msg := by
  unfold readDataFileHeader
  simp only [hfile]
  by_cases hl : file.length < DATA_FILE_HEADER_SIZE
  · rw [if_pos hl]; exact ⟨_, rfl⟩
  · rw [if_neg hl]
    unfold DATA_FILE_HEADER_SIZE at hl ⊢
    have hl12 : (file.take 12).length = 12 := by rw [List.length_take]; omega
    rw [Slice_read_magic (file.take 12) (by omega)]
    have ht : (file.take 12).take 4 = file.take 4 := by
      rw [List.take_take]; rfl
    rw [ht]
    have hne := magic_mismatch file DATA_FILE_MAGIC_NUMBER (by omega) h
    rw [if_pos hne]
    exact ⟨_, rfl⟩

theorem readMetaFile_bad_magic (fs : FS) (tableName : String) (file : List Byte)
    (hfile : fs (metaFilePath tableName) = some file)
    (h : file.take 4 ≠ beBytes META_FILE_MAGIC_NUMBER) :
    ∃ msg, readMetaFile fs tableName = .error msg := by
  unfold readMetaFile fileRead
  simp only [hfile]
  by_cases h0 : file.length ≤ 0
  · rw [if_pos h0]; exact ⟨_, rfl⟩
  · rw [if_neg h0]
    simp only [List.drop_zero]
    by_cases hl : (file.take META_FILE_HEADER_SIZE).length ≠ META_FILE_HEADER_SIZE
    · rw [if_pos hl]; exact ⟨_, rfl⟩
    · rw [if_neg hl]
      unfold META_FILE_HEADER_SIZE at hl ⊢
      have hl52 : (file.take 52).length = 52 := by omega
      have hfl : 52 ≤ file.length := by
        rw [List.length_take] at hl52; omega
      rw [Slice_read_magic (file.take 52) (by omega)]
      have ht : (file.take 52).take 4 = file.take 4 := by
        rw [List.take_take]; rfl
      rw [ht]
      have hne := magic_mismatch file META_FILE_MAGIC_NUMBER (by omega) h
      rw [if_pos hne]
      exact ⟨_, rfl⟩

theorem readPageDirectory_bad_magic (fs : FS) (tableName : String) (file : List Byte)
    (hfile : fs (pageDirectoryFilePath tableName) = some file)
    (h : file.take 4 ≠ beBytes PAGE_DIRECTORY_MAGIC_NUMBER) :
    ∃ msg, readPageDirectory fs tableName = .error msg := by
  unfold readPageDirectory fileRead
  simp only [hfile]
  by_cases h0 : file.length ≤ 0
  · rw [if_pos h0]; exact ⟨_, rfl⟩
  · rw [if_neg h0]
    simp only [List.drop_zero]
    by_cases hl : (file.take PAGE_DIRECTORY_HEADER_SIZE).length ≠ PAGE_DIRECTORY_HEADER_SIZE
    · rw [if_pos hl]; exact ⟨_, rfl⟩
    · rw [if_neg hl]
      unfold PAGE_DIRECTORY_HEADER_SIZE at hl ⊢
      have hl12 : (file.take 12).length = 12 := by omega
      have hfl : 12 ≤ file.length := by
        rw [List.length_take] at hl12; omega
      rw [Slice_read_magic (file.take 12) (by omega)]
      have ht : (file.take 12).take 4 = file.take 4 := by
        rw [List.take_take]; rfl
      rw [ht]
      have hne := magic_mismatch file PAGE_DIRECTORY_MAGIC_NUMBER (by omega) h
      rw [if_pos hne]
      exact ⟨_, rfl⟩


/-- C17: `TablesList.Deserialize` returns an error for every buffer whose first
four bytes are not the magic number `0x7ABCDEF2` (also for a buffer of fewer than
four bytes), and `readMetaFile`, `readPageDirectory` and `readDataFileHeader`
return an error for every file whose first four bytes are not `0x9ABCDEF0`,
`0x8ABCDEF1` and `0x12345678`; `diskManager.ReadPage` returns the error of
`readDataFileHeader`. -/
theorem C17_wrong_magic_rejected :
    (∀ data : Slice, data.len ≤ data.mem.length →
      data.bytes.take 4 ≠ beBytes 0x7ABCDEF2 →
      ∃ msg, TablesList.Deserialize data = .error msg) ∧
    (∀ (fs : FS) (tableName : String) (file : List Byte),
      fs (metaFilePath tableName) = some file → file.take 4 ≠ beBytes 0x9ABCDEF0 →
      ∃ msg, readMetaFile fs tableName = .error msg) ∧
    (∀ (fs : FS) (tableName : String) (file : List Byte),
      fs (pageDirectoryFilePath tableName) = some file → file.take 4 ≠ beBytes 0x8ABCDEF1 →
      ∃ msg, readPageDirectory fs tableName = .error msg) ∧
    (∀ (fs : FS) (tableName : String) (file : List Byte),
      fs (dataFilePath tableName) = some file → file.take 4 ≠ beBytes 0x12345678 →
      ∃ msg, readDataFileHeader fs tableName = .error msg) ∧
    (∀ (fs : FS) (tableName : String) (file : List Byte) (pageID : Nat),
      fs (dataFilePath tableName) = some file → file.take 4 ≠ beBytes 0x12345678 →
      ∃ msg, diskManager.ReadPage fs tableName pageID = .error msg) := by
  refine ⟨fun data hwf h => TablesList_Deserialize_bad_magic data hwf h,
    fun fs t file hf h => readMetaFile_bad_magic fs t file hf h,
    fun fs t file hf h => readPageDirectory_bad_magic fs t file hf h,
    fun fs t file hf h => readDataFileHeader_bad_magic fs t file hf h, ?_⟩
  intro fs t file pageID hf h
  obtain ⟨msg, hmsg⟩ := readDataFileHeader_bad_magic fs t file hf h
  refine ⟨msg, ?_⟩
  unfold diskManager.ReadPage
  rw [hmsg]
  rfl

/-- C17 on the table `users` whose data file starts with four zero bytes, and
on a catalog buffer of three bytes. -/
theorem C17_wrong_magic_rejected_witness :
    readDataFileHeader badMagicFS "users" = .error "invalid magic number" ∧
    diskManager.ReadPage badMagicFS "users" 1 = .error "invalid magic number" ∧
    (∃ msg, diskManager.ReadPage badMagicFS "users" 1 = .error msg) ∧
    (∃ msg, TablesList.Deserialize (Slice.ofBytes [122, 188, 222]) = .error msg) := by
  have hfile : badMagicFS (dataFilePath "users") =
      some ([0, 0, 0, 0] ++ ((usersOnePageFS (dataFilePath "users")).getD []).drop 4) := by
    have hs : (usersOnePageFS (dataFilePath "users")).isSome = true := by decide!
    unfold badMagicFS
    rw [if_pos rfl]
    cases hx : usersOnePageFS (dataFilePath "users") with
    | none => rw [hx] at hs; cases hs
    | some f => rfl
  exact ⟨by decide!, by decide!,
    C17_wrong_magic_rejected.2.2.2.2 badMagicFS "users" _ 1 hfile (by decide),
    C17_wrong_magic_rejected.1 (Slice.ofBytes [122, 188, 222]) (Nat.le_refl _) (by decide)⟩



/-! ## Adding a page to a data file -/

theorem emptyPageBytes_length (k : Nat) : (emptyPageBytes k).length = 4096 := by
  unfold emptyPageBytes
  rw [List.length_append, PageHeader_length_bytes, List.length_replicate]

theorem newPage_Serialize (k : Nat) : (newPage k).Serialize = .ok (emptyPageBytes k) := by
  have hm : makeBytes PAGE_SIZE = [] ++ List.replicate 16 0 ++ List.replicate 4080 0 := by
    unfold makeBytes PAGE_SIZE
    rw [List.nil_append, ← List.replicate_add]
  have hc := copyInto_mid [] (List.replicate 16 0) (List.replicate 4080 0)
    (newPageHeader k).bytes (by rw [PageHeader_length_bytes, List.length_replicate])
  unfold RawPage.Serialize
  simp only [PageHeader_Serialize_eq, Res_ok_bind, Res_pure_eq, newPage, serializeSlots,
    serializeTuples]
  rw [hm]
  rw [PageHeader_length_bytes] at hc
  have hc' : copyInto ([] ++ List.replicate 16 0 ++ List.replicate 4080 0) 0 16
      (newPageHeader k).bytes = .ok ([] ++ (newPageHeader k).bytes ++ List.replicate 4080 0) := hc
  unfold PAGE_HEADER_SIZE
  rw [hc']
  rfl

theorem newPage_valid (k : Nat) (hk : k < 4294967296) : (newPage k).Valid where
  pageID_lt := hk
  lower_lt := by show PAGE_HEADER_SIZE < 4294967296; decide
  upper_lt := by show PAGE_SIZE < 4294967296; decide
  count_slots := rfl
  tuple_ok := fun t ht => by cases ht
  slot_tuple := List.Forall₂.nil
  slot_ok := fun s hs => by cases hs
  disjoint := List.Pairwise.nil

/-- Decoding a slice whose contents are the bytes of an empty page. -/
theorem RawPage_Deserialize_emptyPage (k : Nat) (hk : k < 4294967296) (s : Slice)
    (hwf : s.len ≤ s.mem.length) (hb : s.bytes = emptyPageBytes k) :
    RawPage.Deserialize s = .ok (newPage k) := by
  have hlen : s.len = 4096 := by
    rw [← Slice_length_bytes s hwf, hb, emptyPageBytes_length]
  refine RawPage_Deserialize_of_layout (newPage k) (newPage_valid k hk) s hwf hlen ?_ ?_ ?_
  · rw [hb]
    unfold emptyPageBytes
    have := window_mid [] (newPageHeader k).bytes (List.replicate 4080 0)
    rw [List.nil_append, List.length_nil, PageHeader_length_bytes] at this
    exact this
  · intro j sl hj
    cases hj
  · exact List.Forall₂.nil

theorem fileWriteAt_end (file b : List Byte) : fileWriteAt file file.length b = file ++ b := by
  unfold fileWriteAt writeAt
  have e : file.length + b.length - file.length = b.length := by omega
  rw [e, List.take_append_of_le_length (Nat.le_refl _), List.take_length,
    List.drop_eq_nil_of_le (by simp), List.append_nil]

theorem fileWriteAt_start (x rest y : List Byte) (h : x.length = y.length) :
    fileWriteAt (x ++ rest) 0 y = y ++ rest := by
  unfold fileWriteAt
  have e : 0 + y.length - (x ++ rest).length = 0 := by
    rw [List.length_append]; omega
  rw [e, List.replicate_zero, List.append_nil]
  have := writeAt_mid [] x rest y h
  simpa using this

theorem readDataFileHeader_of_bytes (fs : FS) (tableName : String) (hdr : DataFileHeader)
    (rest : List Byte) (hfile : fs (dataFilePath tableName) = some (hdr.bytes ++ rest))
    (hm : hdr.magicNumber = DATA_FILE_MAGIC_NUMBER) (hp : hdr.pagesCount < 4294967296)
    (hr : hdr.recordCount < 4294967296) :
    readDataFileHeader fs tableName = .ok { header := hdr, pages := [] } := by
  unfold readDataFileHeader
  simp only [hfile]
  have ht : (hdr.bytes ++ rest).take 12 = hdr.bytes := List.take_left' rfl
  unfold DATA_FILE_HEADER_SIZE
  rw [if_neg (by rw [List.length_append, DataFileHeader_length_bytes]; omega), ht,
    Slice_read_magic hdr.bytes (by rw [DataFileHeader_length_bytes]; omega)]
  have hv : beVal (hdr.bytes.take 4) = DATA_FILE_MAGIC_NUMBER := by
    unfold DataFileHeader.bytes
    rw [List.append_assoc, List.take_left' (beBytes_length _), beVal_beBytes, hm]
    rfl
  rw [hv, if_neg (by simp), if_neg (by
    show ¬ (hdr.bytes.length < 12)
    rw [DataFileHeader_length_bytes]; omega)]
  rw [DataFileHeader_Deserialize_of_bytes _ (Slice_ofBytes_wf _) hdr (Slice_ofBytes_bytes _)
    (by rw [hm]; decide) hp hr]
  rfl


theorem beVal_lt_pow (bs : List Byte) : beVal bs < 4294967296 := by
  unfold beVal
  split
  · rename_i b0 b1 b2 b3 _
    have h0 := b0.isLt
    have h1 := b1.isLt
    have h2 := b2.isLt
    have h3 := b3.isLt
    omega
  · decide

theorem bytes12_split (l : List Byte) (h : 12 ≤ l.length) :
    l = beBytes (beVal (window l 0 4)) ++ beBytes (beVal (window l 4 4)) ++
      beBytes (beVal (window l 8 4)) ++ l.drop 12 := by
  have hw : ∀ a, a + 4 ≤ l.length → (window l a 4).length = 4 := fun a ha =>
    length_window l a 4 ha
  rw [beBytes_beVal _ (hw 0 (by omega)), beBytes_beVal _ (hw 4 (by omega)),
    beBytes_beVal _ (hw 8 (by omega))]
  unfold window
  have e1 : l.drop 12 = (l.drop 8).drop 4 := by rw [List.drop_drop]
  have e2 : l.drop 8 = (l.drop 4).drop 4 := by rw [List.drop_drop]
  rw [List.append_assoc, List.append_assoc, e1, List.take_append_drop, e2,
    List.take_append_drop, List.drop_zero, List.take_append_drop]

theorem readDataFileHeader_inv (fs : FS) (tableName : String) (df : DataFile)
    (h : readDataFileHeader fs tableName = .ok df) :
    ∃ rest, fs (dataFilePath tableName) = some (df.header.bytes ++ rest) ∧
      df.header.magicNumber = DATA_FILE_MAGIC_NUMBER ∧ df.header.pagesCount < 4294967296 ∧
      df.header.recordCount < 4294967296 ∧ df.pages = [] := by
  cases hf : fs (dataFilePath tableName) with
  | none =>
    unfold readDataFileHeader at h
    simp only [hf] at h
    cases h
  | some file =>
    by_cases hl : file.length < 12
    · unfold readDataFileHeader at h
      simp only [hf] at h
      rw [if_pos (show file.length < DATA_FILE_HEADER_SIZE from hl)] at h
      cases h
    · have hsplit := bytes12_split file (by omega)
      by_cases hm : file.take 4 = beBytes DATA_FILE_MAGIC_NUMBER
      · have hm' : beVal (window file 0 4) = DATA_FILE_MAGIC_NUMBER := by
          show beVal ((file.drop 0).take 4) = _
          rw [List.drop_zero, hm, beVal_beBytes]
          rfl
        have hfile : fs (dataFilePath tableName) = some
            (DataFileHeader.bytes ⟨beVal (window file 0 4), beVal (window file 4 4),
              beVal (window file 8 4)⟩ ++ file.drop 12) := by
          rw [hf]
          exact congrArg some hsplit
        have := readDataFileHeader_of_bytes fs tableName _ _ hfile hm' (beVal_lt_pow _)
          (beVal_lt_pow _)
        rw [this] at h
        have e := Res.ok.inj h
        subst e
        exact ⟨file.drop 12, congrArg some hsplit, hm', beVal_lt_pow _, beVal_lt_pow _, rfl⟩
      · obtain ⟨msg, hmsg⟩ := readDataFileHeader_bad_magic fs tableName file hf hm
        rw [hmsg] at h
        cases h


/-! ### The paths of a table are distinct -/

theorem pathEnd_append (a ext : String) (h : 3 ≤ ext.data.length) :
    pathEnd (a ++ ext) = pathEnd ext := by
  unfold pathEnd
  rw [String.data_append, List.reverse_append,
    List.take_append_of_le_length (by rw [List.length_reverse]; exact h)]

theorem pathEnd_meta (t : String) : pathEnd (metaFilePath t) = ['a', 't', 'e'] := by
  unfold metaFilePath
  rw [pathEnd_append _ _ (by decide)]
  rfl

theorem pathEnd_dir (t : String) : pathEnd (pageDirectoryFilePath t) = ['r', 'i', 'd'] := by
  unfold pageDirectoryFilePath
  rw [pathEnd_append _ _ (by decide)]
  rfl

theorem pathEnd_data (t : String) : pathEnd (dataFilePath t) = ['a', 't', 'a'] := by
  unfold dataFilePath
  rw [pathEnd_append _ _ (by decide)]
  rfl

theorem pathEnd_list : pathEnd TABLE_LIST_FILE_PATH = ['n', 'i', 'b'] := rfl

theorem metaFilePath_ne_dataFilePath (a b : String) : metaFilePath a ≠ dataFilePath b := by
  intro h
  have := congrArg pathEnd h
  rw [pathEnd_meta, pathEnd_data] at this
  exact absurd this (by decide)

theorem pageOffset_bounds (k : Nat) : 12 ≤ pageOffset k ∧ pageOffset k < 4294967296 := by
  unfold pageOffset u32 u32sub DATA_FILE_HEADER_SIZE PAGE_SIZE
  omega

theorem addPage_eq (df : DataFile) (fs : FS) (tableName : String) (file : List Byte)
    (hfile : fs (dataFilePath tableName) = some file) :
    df.addPage fs tableName = .ok
      (Function.update fs (dataFilePath tableName) (some
        (fileWriteAt (fileWriteAt file (pageOffset (u32 (df.header.pagesCount + 1)))
          (emptyPageBytes (u32 (df.header.pagesCount + 1)))) 0
          (DataFileHeader.bytes ⟨df.header.magicNumber, u32 (df.header.pagesCount + 1),
            df.header.recordCount⟩))),
       ⟨⟨df.header.magicNumber, u32 (df.header.pagesCount + 1), df.header.recordCount⟩,
        df.pages⟩) := by
  unfold DataFile.addPage
  simp only [hfile, newPage_Serialize, DataFileHeader_Serialize_eq, Res_ok_bind, Res_pure_eq]

/-- The file after the two writes of `addPage`: the new header, the bytes
between the header and the offset of the new page, the new page, and what the
file held behind it. -/
theorem addPage_file_shape (hb0 rest pb hb : List Byte) (off : Nat)
    (hoff : hb0.length ≤ off) (hl : hb0.length = hb.length) :
    ∃ mid post, fileWriteAt (fileWriteAt (hb0 ++ rest) off pb) 0 hb = hb ++ mid ++ pb ++ post ∧
      hb.length + mid.length = off := by
  have hP : off + pb.length ≤
      ((hb0 ++ rest) ++ List.replicate (off + pb.length - (hb0 ++ rest).length) 0).length := by
    rw [List.length_append, List.length_replicate]
    omega
  generalize hPdef : (hb0 ++ rest) ++ List.replicate (off + pb.length - (hb0 ++ rest).length) 0
    = P at hP
  have hpl : (P.take off).length = off := by
    rw [List.length_take]; omega
  have hhead : (P.take off).take hb0.length = hb0 := by
    rw [List.take_take, Nat.min_eq_left hoff, ← hPdef, List.append_assoc,
      List.take_left' rfl]
  have hpre : P.take off = hb0 ++ (P.take off).drop hb0.length := by
    conv_lhs => rw [← List.take_append_drop hb0.length (P.take off), hhead]
  refine ⟨(P.take off).drop hb0.length, P.drop (off + pb.length), ?_, ?_⟩
  · have h1 : fileWriteAt (hb0 ++ rest) off pb =
        hb0 ++ ((P.take off).drop hb0.length ++ pb ++ P.drop (off + pb.length)) := by
      unfold fileWriteAt writeAt
      rw [hPdef]
      conv_lhs => rw [hpre]
      simp only [List.append_assoc]
    rw [h1, fileWriteAt_start _ _ _ hl]
    simp only [List.append_assoc]
  · rw [List.length_drop, hpl]
    omega


theorem readPage_fresh (df : DataFile) (fs : FS) (tableName : String)
    (pre post : List Byte) (k : Nat)
    (hfile : fs (dataFilePath tableName) = some (pre ++ emptyPageBytes k ++ post))
    (hpre : pre.length = pageOffset k) (hk : k ≤ df.header.pagesCount)
    (hk32 : k < 4294967296) (hfit : pageOffset k + 4096 < 4294967296) :
    df.readPage fs tableName k = .ok (newPage k) := by
  unfold DataFile.readPage
  rw [if_neg (by omega)]
  simp only [hfile]
  have hu : u32 (pageOffset k + PAGE_SIZE) = pageOffset k + 4096 := u32_of_lt hfit
  rw [hu]
  obtain ⟨s, hs, hwf, hb⟩ := Slice_sub_at (Slice.ofBytes (pre ++ emptyPageBytes k ++ post))
    (Slice_ofBytes_wf _) pre (emptyPageBytes k) post (pageOffset k) (pageOffset k + 4096)
    (Slice_ofBytes_bytes _) hpre (by rw [emptyPageBytes_length])
  simp only [hs, Res_ok_bind, RawPage_Deserialize_emptyPage k hk32 s hwf hb, Res_wrapErr_ok]

theorem readPage_ok_fit (df : DataFile) (fs : FS) (tableName : String) (k : Nat) (p : RawPage)
    (h : df.readPage fs tableName k = .ok p) :
    k ≤ df.header.pagesCount ∧ pageOffset k + 4096 < 4294967296 := by
  unfold DataFile.readPage at h
  by_cases hk : k > df.header.pagesCount
  · rw [if_pos hk] at h
    cases h
  · rw [if_neg hk] at h
    refine ⟨by omega, ?_⟩
    by_contra hfit
    cases hf : fs (dataFilePath tableName) with
    | none => simp only [hf] at h; cases h
    | some file =>
      simp only [hf] at h
      have hb := pageOffset_bounds k
      have hlt : ¬ (pageOffset k ≤ u32 (pageOffset k + PAGE_SIZE) ∧
          u32 (pageOffset k + PAGE_SIZE) ≤ (Slice.ofBytes file).mem.length) := by
        intro hc
        have := hc.1
        unfold u32 PAGE_SIZE at this
        omega
      unfold Slice.reslice at h
      rw [if_neg hlt] at h
      cases h

theorem convertTuples_nil (columns : List ColumnInfo) : convertTuples columns [] = .ok [] := rfl

theorem readMetaFile_update_data (fs : FS) (tableName : String) (v : Option (List Byte)) :
    readMetaFile (Function.update fs (dataFilePath tableName) v) tableName =
      readMetaFile fs tableName := by
  unfold readMetaFile
  rw [Function.update_noteq (metaFilePath_ne_dataFilePath tableName tableName)]

/-- What `ReadPage` returns once `readDataFileHeader` and `readPage` have
returned: an error of `readMetaFile`, or the page with its rows converted. -/
theorem ReadPage_of_parts (fs : FS) (tableName : String) (pageID : Nat) (df : DataFile)
    (p : RawPage) (hdf : readDataFileHeader fs tableName = .ok df)
    (hp : df.readPage fs tableName pageID = .ok p) :
    diskManager.ReadPage fs tableName pageID =
      (readMetaFile fs tableName >>= fun metaData =>
        convertTuples metaData.columns p.rawTuples >>= fun rows =>
          pure ⟨p.header, p.slots, rows, metaData.columns⟩) := by
  unfold diskManager.ReadPage
  rw [hdf, Res_ok_bind, hp, Res_ok_bind]

theorem ReadPage_ok_inv (fs : FS) (tableName : String) (pageID : Nat) (page : Page)
    (h : diskManager.ReadPage fs tableName pageID = .ok page) :
    ∃ df p metaData, readDataFileHeader fs tableName = .ok df ∧
      df.readPage fs tableName pageID = .ok p ∧ readMetaFile fs tableName = .ok metaData ∧
      (convertTuples metaData.columns p.rawTuples >>= fun rows =>
        (pure ⟨p.header, p.slots, rows, metaData.columns⟩ : Res Page)) = .ok page := by
  unfold diskManager.ReadPage at h
  cases hdf : readDataFileHeader fs tableName with
  | ok df =>
    rw [hdf, Res_ok_bind] at h
    cases hp : df.readPage fs tableName pageID with
    | ok p =>
      rw [hp, Res_ok_bind] at h
      cases hm : readMetaFile fs tableName with
      | ok metaData =>
        rw [hm, Res_ok_bind] at h
        exact ⟨df, p, metaData, rfl, hp, rfl, h⟩
      | error m => rw [hm] at h; cases h
      | panic => rw [hm] at h; cases h
      | diverge => rw [hm] at h; cases h
    | error m => rw [hp] at h; cases h
    | panic => rw [hp] at h; cases h
    | diverge => rw [hp] at h; cases h
  | error m => rw [hdf] at h; cases h
  | panic => rw [hdf] at h; cases h
  | diverge => rw [hdf] at h; cases h



theorem AddNewPage_unfold (fs : FS) (tableName : String) (pageID : Nat) (df : DataFile)
    (file : List Byte) (hdf : readDataFileHeader fs tableName = .ok df)
    (hfile : fs (dataFilePath tableName) = some file) :
    diskManager.AddNewPage fs tableName pageID =
      (Function.update fs (dataFilePath tableName) (some (addPageFile df.header file)),
       diskManager.ReadPage
         (Function.update fs (dataFilePath tableName) (some (addPageFile df.header file)))
         tableName pageID) := by
  unfold diskManager.AddNewPage thenRead
  rw [hdf]
  simp only [addPage_eq df fs tableName file hfile, thenOn]
  rfl

theorem AddNewPage_ok_header (fs : FS) (tableName : String) (pageID : Nat) (page : Page)
    (hok : (diskManager.AddNewPage fs tableName pageID).2 = .ok page) :
    ∃ df, readDataFileHeader fs tableName = .ok df := by
  unfold diskManager.AddNewPage thenRead at hok
  cases hdf : readDataFileHeader fs tableName with
  | ok df => exact ⟨df, rfl⟩
  | error m => rw [hdf] at hok; cases hok
  | panic => rw [hdf] at hok; cases hok
  | diverge => rw [hdf] at hok; cases hok

theorem emptyPages_length : ∀ (m i : Nat), (emptyPages i m).length = 4096 * m
  | 0, _ => rfl
  | m + 1, i => by
    rw [emptyPages, List.length_append, emptyPageBytes_length, emptyPages_length m (i + 1)]
    omega

theorem emptyPages_split : ∀ (m i j : Nat), j < m →
    ∃ pre post, emptyPages i m = pre ++ emptyPageBytes (i + j) ++ post ∧
      pre.length = 4096 * j
  | 0, _, _, h => absurd h (Nat.not_lt_zero _)
  | m + 1, i, 0, _ => ⟨[], emptyPages (i + 1) m, by rw [emptyPages]; rfl, rfl⟩
  | m + 1, i, j + 1, h => by
    obtain ⟨pre, post, he, hl⟩ := emptyPages_split m (i + 1) j (by omega)
    refine ⟨emptyPageBytes i ++ pre, post, ?_, ?_⟩
    · rw [emptyPages, he]
      have : i + 1 + j = i + (j + 1) := by omega
      rw [this]
      simp only [List.append_assoc]
    · rw [List.length_append, emptyPageBytes_length, hl]
      omega


/-- C14 (amended): for every table whose data file holds a header with the
magic number and `pages_count = n` followed by `4096 * n` bytes of pages, with
`12 + 4096 * (n + 1) < 2^32`, and whose meta file `readMetaFile` reads:
`AddNewPage(name, n + 1)` succeeds; the data file then holds the header with
`pages_count = n + 1`, the bytes of the pages 1..n as before and the 4096 bytes
of the empty page `n + 1`; no other file changes; the returned page has the
header `page_id = n + 1`, `record_count = 0`, `lower = 16`, `upper = 4096`, no
slots, no rows, and the columns of the meta file. -/
theorem C14_addNewPage_appends (fs : FS) (tableName : String) (hdr : DataFileHeader)
    (pages : List Byte) (metaData : MetaData)
    (hfile : fs (dataFilePath tableName) = some (hdr.bytes ++ pages))
    (hmagic : hdr.magicNumber = DATA_FILE_MAGIC_NUMBER)
    (hrc : hdr.recordCount < 4294967296)
    (hpages : pages.length = 4096 * hdr.pagesCount)
    (hmeta : readMetaFile fs tableName = .ok metaData)
    (hn : 12 + 4096 * (hdr.pagesCount + 1) < 4294967296) :
    diskManager.AddNewPage fs tableName (hdr.pagesCount + 1) =
      (Function.update fs (dataFilePath tableName)
        (some (DataFileHeader.bytes ⟨hdr.magicNumber, hdr.pagesCount + 1, hdr.recordCount⟩ ++
          pages ++ emptyPageBytes (hdr.pagesCount + 1))),
       .ok ⟨⟨hdr.pagesCount + 1, 0, 16, 4096⟩, [], [], metaData.columns⟩) ∧
    (emptyPageBytes (hdr.pagesCount + 1)).length = 4096 ∧
    RawPage.Deserialize (Slice.ofBytes (emptyPageBytes (hdr.pagesCount + 1))) =
      .ok ⟨⟨hdr.pagesCount + 1, 0, 16, 4096⟩, [], []⟩ ∧
    readDataFileHeader (diskManager.AddNewPage fs tableName (hdr.pagesCount + 1)).1 tableName =
      .ok ⟨⟨hdr.magicNumber, hdr.pagesCount + 1, hdr.recordCount⟩, []⟩ := by
  have hdf := readDataFileHeader_of_bytes fs tableName hdr pages hfile hmagic (by omega) hrc
  have hu : u32 (hdr.pagesCount + 1) = hdr.pagesCount + 1 := u32_of_lt (by omega)
  have hoff : pageOffset (hdr.pagesCount + 1) = (hdr.bytes ++ pages).length := by
    rw [pageOffset_eq _ (by omega) hn, List.length_append, DataFileHeader_length_bytes, hpages]
    rfl
  have hnew : addPageFile hdr (hdr.bytes ++ pages) =
      DataFileHeader.bytes ⟨hdr.magicNumber, hdr.pagesCount + 1, hdr.recordCount⟩ ++
        pages ++ emptyPageBytes (hdr.pagesCount + 1) := by
    unfold addPageFile
    rw [hu, hoff, fileWriteAt_end, List.append_assoc,
      fileWriteAt_start hdr.bytes _
        (DataFileHeader.bytes ⟨hdr.magicNumber, hdr.pagesCount + 1, hdr.recordCount⟩) rfl,
      List.append_assoc]
  have hall := AddNewPage_unfold fs tableName (hdr.pagesCount + 1) _ _ hdf hfile
  rw [hnew] at hall
  obtain ⟨fs', hfs'⟩ : ∃ fs', fs' = Function.update fs (dataFilePath tableName)
      (some (DataFileHeader.bytes ⟨hdr.magicNumber, hdr.pagesCount + 1, hdr.recordCount⟩ ++
          pages ++ emptyPageBytes (hdr.pagesCount + 1))) := ⟨_, rfl⟩
  rw [← hfs'] at hall ⊢
  have hfile' : fs' (dataFilePath tableName) =
      some (DataFileHeader.bytes ⟨hdr.magicNumber, hdr.pagesCount + 1, hdr.recordCount⟩ ++
          pages ++ emptyPageBytes (hdr.pagesCount + 1)) := by
    rw [hfs']
    exact Function.update_same _ _ _
  have hdf' := readDataFileHeader_of_bytes fs' tableName
    ⟨hdr.magicNumber, hdr.pagesCount + 1, hdr.recordCount⟩
    (pages ++ emptyPageBytes (hdr.pagesCount + 1))
    (by rw [hfile', List.append_assoc]) hmagic (by show hdr.pagesCount + 1 < _; omega) hrc
  have hrp := readPage_fresh
    ⟨⟨hdr.magicNumber, hdr.pagesCount + 1, hdr.recordCount⟩, []⟩ fs' tableName
    (DataFileHeader.bytes ⟨hdr.magicNumber, hdr.pagesCount + 1, hdr.recordCount⟩ ++ pages) []
    (hdr.pagesCount + 1) (by rw [hfile', List.append_nil])
    (by rw [hoff, List.length_append, List.length_append]; rfl)
    (Nat.le_refl _) (by omega)
    (by rw [pageOffset_eq _ (by omega) hn]; omega)
  have hread := ReadPage_of_parts fs' tableName (hdr.pagesCount + 1) _ _ hdf' hrp
  have hmeta' : readMetaFile fs' tableName = .ok metaData := by
    rw [hfs', readMetaFile_update_data, hmeta]
  rw [hmeta', Res_ok_bind] at hread
  refine ⟨?_, emptyPageBytes_length _, ?_, ?_⟩
  · rw [hall, hread]
    rfl
  · exact RawPage_Deserialize_emptyPage _ (by omega) _ (Slice_ofBytes_wf _)
      (Slice_ofBytes_bytes _)
  · rw [hall]
    exact hdf'


/-- C14 on the new table `users`: the first page is appended to the 12-byte
data file. -/
theorem C14_addNewPage_appends_witness :
    diskManager.AddNewPage usersFS "users" 1 =
      (Function.update usersFS (dataFilePath "users")
        (some (DataFileHeader.bytes ⟨DATA_FILE_MAGIC_NUMBER, 1, 0⟩ ++ [] ++ emptyPageBytes 1)),
       .ok ⟨⟨1, 0, 16, 4096⟩, [], [], exampleColumns⟩) :=
  (C14_addNewPage_appends usersFS "users" ⟨DATA_FILE_MAGIC_NUMBER, 0, 0⟩ []
    ⟨newMetaFileHeader (goBytes "users") 2, exampleColumns⟩
    (by decide!) rfl (by decide) rfl (by decide!) (by decide)).1

/-- A page whose end offset `offset + PAGE_SIZE` does not fit `uint32`: the
slice expression of `readPage` panics. -/
theorem readPage_wrap (df : DataFile) (fs : FS) (tableName : String) (file : List Byte)
    (k : Nat) (hfile : fs (dataFilePath tableName) = some file)
    (hk : k ≤ df.header.pagesCount) (hw : 4294967296 ≤ pageOffset k + 4096) :
    df.readPage fs tableName k = .panic := by
  unfold DataFile.readPage
  rw [if_neg (by omega)]
  simp only [hfile]
  have hb := pageOffset_bounds k
  have hlt : ¬ (pageOffset k ≤ u32 (pageOffset k + PAGE_SIZE) ∧
      u32 (pageOffset k + PAGE_SIZE) ≤ (Slice.ofBytes file).mem.length) := by
    intro hc
    have := hc.1
    unfold u32 PAGE_SIZE at this
    omega
  unfold Slice.reslice
  rw [if_neg hlt]
  rfl

/-- The call `AddNewPage(name, 1048576)` on a data file that holds 1048575
pages panics in `readPage`. -/
theorem AddNewPage_wrap (fs : FS) (tableName : String) (hdr : DataFileHeader)
    (pages : List Byte) (hfile : fs (dataFilePath tableName) = some (hdr.bytes ++ pages))
    (hmagic : hdr.magicNumber = DATA_FILE_MAGIC_NUMBER) (hcount : hdr.pagesCount = 1048575)
    (hrc : hdr.recordCount < 4294967296) :
    (diskManager.AddNewPage fs tableName 1048576).2 = .panic := by
  have hdf := readDataFileHeader_of_bytes fs tableName hdr pages hfile hmagic (by omega) hrc
  have hall := AddNewPage_unfold fs tableName 1048576 _ _ hdf hfile
  have hu : u32 (hdr.pagesCount + 1) = 1048576 := by rw [hcount]; rfl
  obtain ⟨mid, post, hshape, _⟩ := addPage_file_shape hdr.bytes pages
    (emptyPageBytes (u32 (hdr.pagesCount + 1)))
    (DataFileHeader.bytes ⟨hdr.magicNumber, u32 (hdr.pagesCount + 1), hdr.recordCount⟩)
    (pageOffset (u32 (hdr.pagesCount + 1))) (pageOffset_bounds _).1 rfl
  have hnew : addPageFile hdr (hdr.bytes ++ pages) = _ := hshape
  rw [hnew] at hall
  obtain ⟨fs', hfs'⟩ : ∃ fs', fs' = Function.update fs (dataFilePath tableName)
      (some (DataFileHeader.bytes ⟨hdr.magicNumber, u32 (hdr.pagesCount + 1), hdr.recordCount⟩ ++
        mid ++ emptyPageBytes (u32 (hdr.pagesCount + 1)) ++ post)) := ⟨_, rfl⟩
  rw [← hfs'] at hall
  have hfile' : fs' (dataFilePath tableName) = some
      (DataFileHeader.bytes ⟨hdr.magicNumber, u32 (hdr.pagesCount + 1), hdr.recordCount⟩ ++
        (mid ++ emptyPageBytes (u32 (hdr.pagesCount + 1)) ++ post)) := by
    rw [hfs', Function.update_same]
    simp only [List.append_assoc]
  have hdf' := readDataFileHeader_of_bytes fs' tableName _ _ hfile' hmagic
    (by show u32 (hdr.pagesCount + 1) < _; rw [hu]; decide) hrc
  have hrp := readPage_wrap
    ⟨⟨hdr.magicNumber, u32 (hdr.pagesCount + 1), hdr.recordCount⟩, []⟩ fs' tableName _ 1048576
    hfile' (by show 1048576 ≤ u32 (hdr.pagesCount + 1); rw [hu]) (by decide)
  rw [hall]
  show diskManager.ReadPage fs' tableName 1048576 = .panic
  unfold diskManager.ReadPage
  rw [hdf', Res_ok_bind, hrp]
  rfl

theorem bigFile_length : bigFile.length = 12 + 4096 * 1048575 := by
  unfold bigFile
  rw [List.length_append, DataFileHeader_length_bytes, emptyPages_length]

/-- Every page of `bigFS` is readable: page `i` is the empty page `i`. -/
theorem bigFS_readPage (i : Nat) (h1 : 1 ≤ i) (h2 : i ≤ 1048575) :
    DataFile.readPage ⟨⟨DATA_FILE_MAGIC_NUMBER, 1048575, 0⟩, []⟩ bigFS "users" i =
      .ok (newPage i) := by
  obtain ⟨pre, post, he, hl⟩ := emptyPages_split 1048575 1 (i - 1) (by omega)
  have e : 1 + (i - 1) = i := by omega
  rw [e] at he
  have hoff := pageOffset_eq i h1 (by omega)
  refine readPage_fresh _ bigFS "users"
    (DataFileHeader.bytes ⟨DATA_FILE_MAGIC_NUMBER, 1048575, 0⟩ ++ pre) post i ?_ ?_ h2
    (by omega) (by omega)
  · unfold bigFS bigFile
    rw [Function.update_same, he]
    simp only [List.append_assoc]
  · rw [List.length_append, DataFileHeader_length_bytes, hl, hoff]

/-- C14 (counterexample): the table `users` with a data file of 1048575 empty
pages (4294963212 bytes, header `pages_count = 1048575`; the pages 1 and 1048575
read back as empty pages, the meta file is that of `users`): the call
`AddNewPage("users", 1048576)` does not succeed, it panics. The end offset
`4294963212 + 4096` of the new page is computed in `uint32` and wraps to 12. -/
theorem C14_counterexample_four_gib :
    bigFS (dataFilePath "users") = some bigFile ∧
    bigFile.length = 12 + 4096 * 1048575 ∧
    readDataFileHeader bigFS "users" = .ok ⟨⟨DATA_FILE_MAGIC_NUMBER, 1048575, 0⟩, []⟩ ∧
    DataFile.readPage ⟨⟨DATA_FILE_MAGIC_NUMBER, 1048575, 0⟩, []⟩ bigFS "users" 1 =
      .ok (newPage 1) ∧
    DataFile.readPage ⟨⟨DATA_FILE_MAGIC_NUMBER, 1048575, 0⟩, []⟩ bigFS "users" 1048575 =
      .ok (newPage 1048575) ∧
    readMetaFile bigFS "users" =
      .ok ⟨newMetaFileHeader (goBytes "users") 2, exampleColumns⟩ ∧
    pageOffset 1048576 = 4294963212 ∧ u32 (pageOffset 1048576 + PAGE_SIZE) = 12 ∧
    (diskManager.AddNewPage bigFS "users" 1048576).2 = .panic := by
  have hfile : bigFS (dataFilePath "users") = some bigFile := Function.update_same _ _ _
  refine ⟨hfile, bigFile_length, ?_, bigFS_readPage 1 (by decide) (by decide),
    bigFS_readPage 1048575 (by decide) (by decide), ?_, by decide, by decide, ?_⟩
  · exact readDataFileHeader_of_bytes bigFS "users" ⟨DATA_FILE_MAGIC_NUMBER, 1048575, 0⟩ _
      hfile rfl (by decide) (by decide)
  · unfold bigFS
    rw [readMetaFile_update_data]
    decide!
  · exact AddNewPage_wrap bigFS "users" ⟨DATA_FILE_MAGIC_NUMBER, 1048575, 0⟩ _ hfile rfl rfl
      (by decide)


theorem usersOnePage_header :
    readDataFileHeader usersOnePageFS "users" = .ok ⟨⟨DATA_FILE_MAGIC_NUMBER, 1, 0⟩, []⟩ := by
  decide!

theorem usersOnePage_add_one :
    (diskManager.AddNewPage usersOnePageFS "users" 1).2 =
      .ok ⟨⟨1, 0, 16, 4096⟩, [], [], exampleColumns⟩ := by
  decide!

theorem usersOnePage_add_one_header :
    readDataFileHeader (diskManager.AddNewPage usersOnePageFS "users" 1).1 "users" =
      .ok ⟨⟨DATA_FILE_MAGIC_NUMBER, 2, 0⟩, []⟩ := by
  decide!

theorem usersOnePage_add_one_file :
    ((diskManager.AddNewPage usersOnePageFS "users" 1).1 (dataFilePath "users")).map
        (fun file =>
          (file.length, decide (window file (pageOffset 2) 4096 = emptyPageBytes 2))) =
      some (8204, true) := by
  decide!

theorem usersOnePage_add_three :
    (diskManager.AddNewPage usersOnePageFS "users" 3).2 =
      .error "page id %d is out of range" := by
  decide!

theorem usersOnePage_add_three_header :
    readDataFileHeader (diskManager.AddNewPage usersOnePageFS "users" 3).1 "users" =
      .ok ⟨⟨DATA_FILE_MAGIC_NUMBER, 2, 0⟩, []⟩ := by
  decide!

theorem usersOnePage_add_two :
    (diskManager.AddNewPage usersOnePageFS "users" 2).2 =
      .ok ⟨⟨2, 0, 16, 4096⟩, [], [], exampleColumns⟩ := by
  decide!

/-- Claim C15 (failing input): on the table `users` with one page
(`pages_count = 1`), `AddNewPage("users", 1)` returns successfully although
`page_id = 1` is not the `pages_count` after the increment, which is 2: the
call appends the empty page 2 to the data file (8204 bytes afterwards) and
returns the old page 1 as the new page. Only the upper side is checked, by the
`ReadPage` that ends the call: `AddNewPage("users", 3)` returns the out-of-range
error (after it has appended the page as well), and `AddNewPage("users", 2)`
returns the page it appended. -/
theorem C15_addNewPage_returns_old_page :
    readDataFileHeader usersOnePageFS "users" = .ok ⟨⟨DATA_FILE_MAGIC_NUMBER, 1, 0⟩, []⟩ ∧
    (diskManager.AddNewPage usersOnePageFS "users" 1).2 =
      .ok ⟨⟨1, 0, 16, 4096⟩, [], [], exampleColumns⟩ ∧
    readDataFileHeader (diskManager.AddNewPage usersOnePageFS "users" 1).1 "users" =
      .ok ⟨⟨DATA_FILE_MAGIC_NUMBER, 2, 0⟩, []⟩ ∧
    ((diskManager.AddNewPage usersOnePageFS "users" 1).1 (dataFilePath "users")).map
        (fun file =>
          (file.length, decide (window file (pageOffset 2) 4096 = emptyPageBytes 2))) =
      some (8204, true) ∧
    (diskManager.AddNewPage usersOnePageFS "users" 3).2 =
      .error "page id %d is out of range" ∧
    readDataFileHeader (diskManager.AddNewPage usersOnePageFS "users" 3).1 "users" =
      .ok ⟨⟨DATA_FILE_MAGIC_NUMBER, 2, 0⟩, []⟩ ∧
    (diskManager.AddNewPage usersOnePageFS "users" 2).2 =
      .ok ⟨⟨2, 0, 16, 4096⟩, [], [], exampleColumns⟩ := by
  exact ⟨usersOnePage_header, usersOnePage_add_one, usersOnePage_add_one_header,
    usersOnePage_add_one_file, usersOnePage_add_three, usersOnePage_add_three_header,
    usersOnePage_add_two⟩

/-- What the code does guarantee of a successful `AddNewPage(name, page_id)`:
`page_id` is at most the data file's `pages_count` after the increment (the
check of the `ReadPage` that ends the call), and when `page_id` equals that
`pages_count` the returned page is the empty page written by the call (header
`page_id = page_id`, `record_count = 0`, no slots, no rows). A `page_id` below
the new `pages_count` is not rejected. -/
theorem AddNewPage_within_count (fs : FS) (tableName : String) (pageID : Nat) (page : Page)
    (hok : (diskManager.AddNewPage fs tableName pageID).2 = .ok page) :
    ∃ df df', readDataFileHeader fs tableName = .ok df ∧
      readDataFileHeader (diskManager.AddNewPage fs tableName pageID).1 tableName = .ok df' ∧
      df'.header.pagesCount = u32 (df.header.pagesCount + 1) ∧
      pageID ≤ df'.header.pagesCount ∧
      (pageID = df'.header.pagesCount →
        page.header = ⟨pageID, 0, 16, 4096⟩ ∧ page.slots = [] ∧ page.rows = []) := by
  obtain ⟨df, hdf⟩ := AddNewPage_ok_header fs tableName pageID page hok
  obtain ⟨rest, hfile, hmagic, hpc, hrc, _⟩ := readDataFileHeader_inv fs tableName df hdf
  have hall := AddNewPage_unfold fs tableName pageID _ _ hdf hfile
  obtain ⟨mid, post, hshape, hmid⟩ := addPage_file_shape df.header.bytes rest
    (emptyPageBytes (u32 (df.header.pagesCount + 1)))
    (DataFileHeader.bytes ⟨df.header.magicNumber, u32 (df.header.pagesCount + 1),
      df.header.recordCount⟩)
    (pageOffset (u32 (df.header.pagesCount + 1))) (pageOffset_bounds _).1 rfl
  have hnew : addPageFile df.header (df.header.bytes ++ rest) = _ := hshape
  rw [hnew] at hall
  obtain ⟨fs', hfs'⟩ : ∃ fs', fs' = Function.update fs (dataFilePath tableName)
      (some (DataFileHeader.bytes ⟨df.header.magicNumber, u32 (df.header.pagesCount + 1),
        df.header.recordCount⟩ ++
        mid ++ emptyPageBytes (u32 (df.header.pagesCount + 1)) ++ post)) := ⟨_, rfl⟩
  rw [← hfs'] at hall
  have hfile' : fs' (dataFilePath tableName) = some
      (DataFileHeader.bytes ⟨df.header.magicNumber, u32 (df.header.pagesCount + 1),
        df.header.recordCount⟩ ++
        mid ++ emptyPageBytes (u32 (df.header.pagesCount + 1)) ++ post) := by
    rw [hfs', Function.update_same]
  have hu : u32 (df.header.pagesCount + 1) < 4294967296 := Nat.mod_lt _ (by decide)
  have hdf' := readDataFileHeader_of_bytes fs' tableName
    ⟨df.header.magicNumber, u32 (df.header.pagesCount + 1), df.header.recordCount⟩
    (mid ++ emptyPageBytes (u32 (df.header.pagesCount + 1)) ++ post)
    (by rw [hfile']; simp only [List.append_assoc]) hmagic hu hrc
  rw [hall] at hok ⊢
  have hok' : diskManager.ReadPage fs' tableName pageID = .ok page := hok
  obtain ⟨df2, p, metaData, h1, h2, h3, h4⟩ := ReadPage_ok_inv fs' tableName pageID page hok'
  rw [hdf'] at h1
  have e := Res.ok.inj h1
  subst e
  obtain ⟨hle, hfit⟩ := readPage_ok_fit _ fs' tableName pageID p h2
  refine ⟨df, _, hdf, hdf', rfl, hle, ?_⟩
  intro hpid
  have hpid' : pageID = u32 (df.header.pagesCount + 1) := hpid
  have hfresh := readPage_fresh
    ⟨⟨df.header.magicNumber, u32 (df.header.pagesCount + 1), df.header.recordCount⟩, []⟩
    fs' tableName
    (DataFileHeader.bytes ⟨df.header.magicNumber, u32 (df.header.pagesCount + 1),
      df.header.recordCount⟩ ++ mid) post (u32 (df.header.pagesCount + 1)) hfile'
    (by rw [List.length_append]; exact hmid) (Nat.le_refl _) hu (by rw [← hpid']; exact hfit)
  rw [hpid'] at h2 ⊢
  rw [hfresh] at h2
  have e2 := Res.ok.inj h2
  subst e2
  rw [show (newPage (u32 (df.header.pagesCount + 1))).rawTuples = [] from rfl,
    convertTuples_nil, Res_ok_bind] at h4
  have e4 := Res.ok.inj h4
  subst e4
  exact ⟨rfl, rfl, rfl⟩

/-- The table `users` with one page and `page_id = 2`, the `pages_count` after
the increment: the page returned is the appended one. -/
theorem AddNewPage_within_count_users :
    (diskManager.AddNewPage usersOnePageFS "users" 2).2 =
      .ok ⟨⟨2, 0, 16, 4096⟩, [], [], exampleColumns⟩ ∧
    ∃ df df', readDataFileHeader usersOnePageFS "users" = .ok df ∧
      readDataFileHeader (diskManager.AddNewPage usersOnePageFS "users" 2).1 "users" = .ok df' ∧
      df'.header.pagesCount = u32 (df.header.pagesCount + 1) ∧
      2 ≤ df'.header.pagesCount ∧
      (2 = df'.header.pagesCount →
        (⟨⟨2, 0, 16, 4096⟩, [], [], exampleColumns⟩ : Page).header = ⟨2, 0, 16, 4096⟩ ∧
        (⟨⟨2, 0, 16, 4096⟩, [], [], exampleColumns⟩ : Page).slots = [] ∧
        (⟨⟨2, 0, 16, 4096⟩, [], [], exampleColumns⟩ : Page).rows = []) :=
  ⟨usersOnePage_add_two, AddNewPage_within_count usersOnePageFS "users" 2
    ⟨⟨2, 0, 16, 4096⟩, [], [], exampleColumns⟩ usersOnePage_add_two⟩



/-! ## Creating a table -/

theorem Res_bind_ok {α β : Type} (x : Res α) (f : α → Res β) (b : β)
    (h : (x >>= f) = .ok b) : ∃ a, x = .ok a ∧ f a = .ok b := by
  cases x with
  | ok a => exact ⟨a, rfl, h⟩
  | error m => cases h
  | panic => cases h
  | diverge => cases h

theorem Res_wrapErr_ok_inv {α : Type} (p : String) (x : Res α) (a : α)
    (h : x.wrapErr p = .ok a) : x = .ok a := by
  cases x with
  | ok b => exact h
  | error m => cases h
  | panic => cases h
  | diverge => cases h

theorem mem_nameDel (m : NameMap) (k : List Byte) (e : List Byte × Nat)
    (h : e ∈ nameDel m k) : e ∈ m ∧ e.1 ≠ k := by
  induction m with
  | nil => cases h
  | cons x rest ih =>
    obtain ⟨a, v⟩ := x
    by_cases hk : a = k
    · simp only [nameDel, if_pos hk] at h
      exact ⟨List.mem_cons_of_mem _ (ih h).1, (ih h).2⟩
    · simp only [nameDel, if_neg hk] at h
      rcases List.mem_cons.mp h with h | h
      · subst h
        exact ⟨List.mem_cons_self _ _, hk⟩
      · exact ⟨List.mem_cons_of_mem _ (ih h).1, (ih h).2⟩

theorem nameDel_keys_sublist (m : NameMap) (k : List Byte) :
    ((nameDel m k).map Prod.fst).Sublist (m.map Prod.fst) := by
  induction m with
  | nil => exact List.Sublist.slnil
  | cons x rest ih =>
    obtain ⟨a, v⟩ := x
    by_cases hk : a = k
    · simp only [nameDel, if_pos hk, List.map_cons]
      exact List.Sublist.cons _ ih
    · simp only [nameDel, if_neg hk, List.map_cons]
      exact List.Sublist.cons₂ _ ih

theorem GoodMap_nameSet (m : NameMap) (k : List Byte) (v : Nat) (hm : GoodMap m)
    (hk : k.length ≤ 32) (hv : v < 4294967296) : GoodMap (nameSet m k v) := by
  refine ⟨?_, ?_⟩
  · show ((k, v) :: nameDel m k).map Prod.fst |>.Nodup
    rw [List.map_cons, List.nodup_cons]
    refine ⟨?_, hm.1.sublist (nameDel_keys_sublist m k)⟩
    intro hmem
    obtain ⟨e, he, hek⟩ := List.mem_map.mp hmem
    exact (mem_nameDel m k e he).2 hek
  · intro e he
    rcases List.mem_cons.mp he with h | h
    · subst h
      exact ⟨hk, hv⟩
    · exact hm.2 e (mem_nameDel m k e h).1

theorem GoodMap_nil : GoodMap [] := ⟨List.nodup_nil, fun _ h => by cases h⟩

theorem uint32_ok_lt (s : Slice) (v : Nat) (h : s.uint32 = .ok v) : v < 4294967296 := by
  unfold Slice.uint32 at h
  split at h
  · have := Res.ok.inj h
    rw [← this]
    exact beVal_lt_pow _
  · cases h

theorem TableEntry_Deserialize_inv (data : Slice) (e : TableEntry)
    (h : TableEntry.Deserialize data = .ok e) :
    e.tableNameLength ≤ 32 ∧ e.fileID < 4294967296 := by
  unfold TableEntry.Deserialize at h
  split at h
  · cases h
  · obtain ⟨s1, _, h⟩ := Res_bind_ok _ _ _ h
    obtain ⟨len, _, h⟩ := Res_bind_ok _ _ _ h
    split at h
    · cases h
    · rename_i hlen
      obtain ⟨src, _, h⟩ := Res_bind_ok _ _ _ h
      obtain ⟨s2, _, h⟩ := Res_bind_ok _ _ _ h
      obtain ⟨fid, hfid, h⟩ := Res_bind_ok _ _ _ h
      have := Res.ok.inj h
      subst this
      refine ⟨?_, uint32_ok_lt s2 fid hfid⟩
      show len ≤ 32
      unfold TABLE_NAME_MAX_LENGTH at hlen
      omega

theorem sliceList_ok_length (l : List Byte) (hi : Nat) (r : List Byte)
    (h : sliceList l 0 hi = .ok r) : r.length = hi := by
  unfold sliceList at h
  split at h
  · rename_i hc
    have := Res.ok.inj h
    subst this
    rw [List.drop_zero, List.length_take]
    omega
  · cases h

theorem deserializeEntries_inv (rd : Slice) : ∀ (n i : Nat) (acc t : NameMap),
    deserializeEntries rd n i acc = .ok t → GoodMap acc → GoodMap t
  | 0, _, acc, t, h, hacc => by
    unfold deserializeEntries at h
    have := Res.ok.inj h
    subst this
    exact hacc
  | n + 1, i, acc, t, h, hacc => by
    unfold deserializeEntries at h
    obtain ⟨ed, _, h⟩ := Res_bind_ok _ _ _ h
    obtain ⟨entry, hentry, h⟩ := Res_bind_ok _ _ _ h
    obtain ⟨name, hname, h⟩ := Res_bind_ok _ _ _ h
    have hinv := TableEntry_Deserialize_inv ed entry (Res_wrapErr_ok_inv _ _ _ hentry)
    have hl := sliceList_ok_length _ _ _ hname
    exact deserializeEntries_inv rd n (i + 1) _ t h
      (GoodMap_nameSet acc name entry.fileID hacc (by rw [hl]; exact hinv.1) hinv.2)

theorem TablesList_Deserialize_inv (data : Slice) (c : TablesList)
    (h : TablesList.Deserialize data = .ok c) :
    c.header.magicNumber = TABLES_LIST_MAGIC_NUMBER ∧ GoodMap c.tables := by
  unfold TablesList.Deserialize at h
  split at h
  · cases h
  · obtain ⟨s1, _, h⟩ := Res_bind_ok _ _ _ h
    obtain ⟨hdr, _, h⟩ := Res_bind_ok _ _ _ h
    split at h
    · cases h
    · rename_i hmagic
      obtain ⟨rd, _, h⟩ := Res_bind_ok _ _ _ h
      obtain ⟨tables, ht, h⟩ := Res_bind_ok _ _ _ h
      have := Res.ok.inj h
      subst this
      exact ⟨not_not.mp hmagic, deserializeEntries_inv rd _ 0 [] tables ht GoodMap_nil⟩


theorem readTableListFile_ok_inv (fs : FS) (c : TablesList)
    (h : readTableListFile fs = .ok c) :
    c.header.magicNumber = TABLES_LIST_MAGIC_NUMBER ∧ GoodMap c.tables := by
  unfold readTableListFile at h
  split at h
  · cases h
  · exact TablesList_Deserialize_inv _ c (Res_wrapErr_ok_inv _ _ _ h)

/-- A successful `addTableInList` writes the catalog file only, and the
catalog read back from it holds the name. -/
theorem addTableInList_ok_inv (fs fs' : FS) (tableName : String) (c' : TablesList)
    (h : addTableInList fs tableName = .ok (fs', c')) :
    ∃ bytes c2 id, fs' = Function.update fs TABLE_LIST_FILE_PATH (some bytes) ∧
      readTableListFile fs' = .ok c2 ∧ nameGet c2.tables (goBytes tableName) = some id := by
  unfold addTableInList at h
  obtain ⟨c, hc, h⟩ := Res_bind_ok _ _ _ h
  have hread := Res_wrapErr_ok_inv _ _ _ hc
  obtain ⟨hmagic, hgood⟩ := readTableListFile_ok_inv fs c hread
  split at h
  · cases h
  · rename_i hlen
    have hlen' : (goBytes tableName).length ≤ 32 := by
      unfold TABLE_NAME_MAX_LENGTH at hlen
      omega
    have hw := Res_wrapErr_ok_inv _ _ _ h
    have hgood' := GoodMap_nameSet c.tables (goBytes tableName) (u32 (c.tables.length + 1))
      hgood hlen' (Nat.mod_lt _ (by decide))
    have hser := TablesList_Serialize_eq
      ⟨c.header, nameSet c.tables (goBytes tableName) (u32 (c.tables.length + 1))⟩
      (fun e he => (hgood'.2 e he).1)
    unfold writeTablesListFile at hw
    rw [hser, Res_ok_bind] at hw
    have e := Res.ok.inj hw
    have e1 : Function.update fs TABLE_LIST_FILE_PATH _ = fs' := congrArg Prod.fst e
    refine ⟨_, ⟨c.header, List.foldl (fun t e => nameSet t e.1 e.2) []
      (nameSet c.tables (goBytes tableName) (u32 (c.tables.length + 1)))⟩,
      u32 (c.tables.length + 1), e1.symm, ?_, ?_⟩
    · unfold readTableListFile
      rw [← e1]
      simp only [Function.update_same]
      rw [TablesList_Deserialize_spec
        ⟨c.header, nameSet c.tables (goBytes tableName) (u32 (c.tables.length + 1))⟩
        hmagic hgood'.2]
      rfl
    · show nameGet (List.foldl _ [] _) _ = _
      rw [nameGet_foldl_nameSet _ _ _ hgood'.1, if_pos (by
        show goBytes tableName ∈ ((goBytes tableName, _) :: nameDel _ _).map Prod.fst
        exact List.mem_cons_self _ _)]
      exact nameGet_nameSet_same _ _ _

/-! ### Distinct paths -/

theorem metaFilePath_ne_list (t : String) : metaFilePath t ≠ TABLE_LIST_FILE_PATH := by
  intro h
  have := congrArg pathEnd h
  rw [pathEnd_meta, pathEnd_list] at this
  exact absurd this (by decide)

theorem pageDirectoryFilePath_ne_list (t : String) :
    pageDirectoryFilePath t ≠ TABLE_LIST_FILE_PATH := by
  intro h
  have := congrArg pathEnd h
  rw [pathEnd_dir, pathEnd_list] at this
  exact absurd this (by decide)

theorem dataFilePath_ne_list (t : String) : dataFilePath t ≠ TABLE_LIST_FILE_PATH := by
  intro h
  have := congrArg pathEnd h
  rw [pathEnd_data, pathEnd_list] at this
  exact absurd this (by decide)

theorem metaFilePath_ne_dir (a b : String) : metaFilePath a ≠ pageDirectoryFilePath b := by
  intro h
  have := congrArg pathEnd h
  rw [pathEnd_meta, pathEnd_dir] at this
  exact absurd this (by decide)

theorem dataFilePath_ne_dir (a b : String) : dataFilePath a ≠ pageDirectoryFilePath b := by
  intro h
  have := congrArg pathEnd h
  rw [pathEnd_data, pathEnd_dir] at this
  exact absurd this (by decide)


theorem createMetaFile_ok_inv (fs fs' : FS) (tableName : String) (columns : List ColumnInfo)
    (md : MetaData) (h : createMetaFile fs tableName columns = .ok (fs', md)) :
    fs (metaFilePath tableName) = none ∧
      ∃ bytes, fs' = Function.update fs (metaFilePath tableName) (some bytes) := by
  unfold createMetaFile at h
  split at h
  · cases h
  · rename_i hnone
    obtain ⟨hb, _, h⟩ := Res_bind_ok _ _ _ h
    obtain ⟨cb, _, h⟩ := Res_bind_ok _ _ _ h
    have e := congrArg Prod.fst (Res.ok.inj h)
    exact ⟨hnone, _, e.symm⟩

theorem createPageDirectoryFile_ok_inv (fs fs' : FS) (tableName : String)
    (pd : PageDirectory) (h : createPageDirectoryFile fs tableName = .ok (fs', pd)) :
    fs (pageDirectoryFilePath tableName) = none ∧
      ∃ bytes, fs' = Function.update fs (pageDirectoryFilePath tableName) (some bytes) := by
  unfold createPageDirectoryFile at h
  split at h
  · cases h
  · rename_i hnone
    obtain ⟨hb, _, h⟩ := Res_bind_ok _ _ _ h
    have e := congrArg Prod.fst (Res.ok.inj h)
    exact ⟨hnone, _, e.symm⟩

theorem createDataFile_ok_inv (fs fs' : FS) (tableName : String)
    (df : DataFile) (h : createDataFile fs tableName = .ok (fs', df)) :
    fs (dataFilePath tableName) = none ∧
      ∃ bytes, fs' = Function.update fs (dataFilePath tableName) (some bytes) := by
  unfold createDataFile at h
  split at h
  · cases h
  · rename_i hnone
    obtain ⟨hb, _, h⟩ := Res_bind_ok _ _ _ h
    have e := congrArg Prod.fst (Res.ok.inj h)
    exact ⟨hnone, _, e.symm⟩

theorem createMetaFile_exists (fs : FS) (tableName : String) (columns : List ColumnInfo)
    (h : (fs (metaFilePath tableName)).isSome) :
    createMetaFile fs tableName columns = .error "table %s already exists" := by
  unfold createMetaFile
  cases hf : fs (metaFilePath tableName) with
  | none => rw [hf] at h; cases h
  | some f => rfl

/-- A step of `CreateTable` that fails leaves the files of the steps before it. -/
theorem CreateTableOutcome_fail (fs fs' : FS) (tableName : String) (r : Res Unit)
    (hr : r ≠ .ok ())
    (hlist : fs' TABLE_LIST_FILE_PATH = fs TABLE_LIST_FILE_PATH)
    (hframe : ∀ path, fs' path = fs path ∨
      (fs path = none ∧ (path = metaFilePath tableName ∨
        path = pageDirectoryFilePath tableName ∨ path = dataFilePath tableName)))
    (hmeta : (fs (metaFilePath tableName)).isSome → fs' = fs) :
    CreateTableOutcome fs tableName (fs', r) :=
  ⟨fun _ _ => ⟨hlist, hframe, hmeta⟩, fun h => absurd h hr⟩


theorem frame_update (fs fsA : FS) (tableName : String) (p : String) (v : Option (List Byte))
    (hA : ∀ path, fsA path = fs path ∨
      (fs path = none ∧ (path = metaFilePath tableName ∨
        path = pageDirectoryFilePath tableName ∨ path = dataFilePath tableName)))
    (hp : fs p = none)
    (h3 : p = metaFilePath tableName ∨ p = pageDirectoryFilePath tableName ∨
      p = dataFilePath tableName) :
    ∀ path, Function.update fsA p v path = fs path ∨
      (fs path = none ∧ (path = metaFilePath tableName ∨
        path = pageDirectoryFilePath tableName ∨ path = dataFilePath tableName)) := by
  intro path
  by_cases h : path = p
  · subst h
    exact Or.inr ⟨hp, h3⟩
  · rw [Function.update_noteq h]
    exact hA path

theorem CreateTable_outcome (fs : FS) (tableName : String) (columns : List ColumnInfo) :
    CreateTableOutcome fs tableName (diskManager.CreateTable fs tableName columns) := by
  unfold diskManager.CreateTable
  have hf0 : ∀ path, fs path = fs path ∨
      (fs path = none ∧ (path = metaFilePath tableName ∨
        path = pageDirectoryFilePath tableName ∨ path = dataFilePath tableName)) :=
    fun _ => Or.inl rfl
  cases h1 : createMetaFile fs tableName columns with
  | error m =>
    exact CreateTableOutcome_fail fs fs tableName _ (by intro h; cases h) rfl hf0 (fun _ => rfl)
  | panic =>
    exact CreateTableOutcome_fail fs fs tableName _ (by intro h; cases h) rfl hf0 (fun _ => rfl)
  | diverge =>
    exact CreateTableOutcome_fail fs fs tableName _ (by intro h; cases h) rfl hf0 (fun _ => rfl)
  | ok p1 =>
    obtain ⟨fs1, md⟩ := p1
    obtain ⟨hm0, b1, hfs1⟩ := createMetaFile_ok_inv fs fs1 tableName columns md h1
    have hmeta : (fs (metaFilePath tableName)).isSome → ∀ fsX : FS, fsX = fs := by
      intro h
      rw [hm0] at h
      cases h
    have hl1 : fs1 TABLE_LIST_FILE_PATH = fs TABLE_LIST_FILE_PATH := by
      rw [hfs1, Function.update_noteq (Ne.symm (metaFilePath_ne_list tableName))]
    have hf1 : ∀ path, fs1 path = fs path ∨
        (fs path = none ∧ (path = metaFilePath tableName ∨
          path = pageDirectoryFilePath tableName ∨ path = dataFilePath tableName)) := by
      rw [hfs1]
      exact frame_update fs fs tableName _ _ hf0 hm0 (Or.inl rfl)
    show CreateTableOutcome fs tableName (thenOn fs1 (createPageDirectoryFile fs1 tableName) _)
    cases h2 : createPageDirectoryFile fs1 tableName with
    | error m =>
      exact CreateTableOutcome_fail fs fs1 tableName _ (by intro h; cases h) hl1 hf1
        (fun h => hmeta h fs1)
    | panic =>
      exact CreateTableOutcome_fail fs fs1 tableName _ (by intro h; cases h) hl1 hf1
        (fun h => hmeta h fs1)
    | diverge =>
      exact CreateTableOutcome_fail fs fs1 tableName _ (by intro h; cases h) hl1 hf1
        (fun h => hmeta h fs1)
    | ok p2 =>
      obtain ⟨fs2, pd⟩ := p2
      obtain ⟨hd1, b2, hfs2⟩ := createPageDirectoryFile_ok_inv fs1 fs2 tableName pd h2
      have hd0 : fs (pageDirectoryFilePath tableName) = none := by
        rw [hfs1, Function.update_noteq (Ne.symm (metaFilePath_ne_dir tableName tableName))] at hd1
        exact hd1
      have hl2 : fs2 TABLE_LIST_FILE_PATH = fs TABLE_LIST_FILE_PATH := by
        rw [hfs2, Function.update_noteq (Ne.symm (pageDirectoryFilePath_ne_list tableName)), hl1]
      have hf2 : ∀ path, fs2 path = fs path ∨
          (fs path = none ∧ (path = metaFilePath tableName ∨
            path = pageDirectoryFilePath tableName ∨ path = dataFilePath tableName)) := by
        rw [hfs2]
        exact frame_update fs fs1 tableName _ _ hf1 hd0 (Or.inr (Or.inl rfl))
      show CreateTableOutcome fs tableName (thenOn fs2 (createDataFile fs2 tableName) _)
      cases h3 : createDataFile fs2 tableName with
      | error m =>
        exact CreateTableOutcome_fail fs fs2 tableName _ (by intro h; cases h) hl2 hf2
          (fun h => hmeta h fs2)
      | panic =>
        exact CreateTableOutcome_fail fs fs2 tableName _ (by intro h; cases h) hl2 hf2
          (fun h => hmeta h fs2)
      | diverge =>
        exact CreateTableOutcome_fail fs fs2 tableName _ (by intro h; cases h) hl2 hf2
          (fun h => hmeta h fs2)
      | ok p3 =>
        obtain ⟨fs3, df⟩ := p3
        obtain ⟨ha2, b3, hfs3⟩ := createDataFile_ok_inv fs2 fs3 tableName df h3
        have ha0 : fs (dataFilePath tableName) = none := by
          rw [hfs2, Function.update_noteq (dataFilePath_ne_dir tableName tableName), hfs1,
            Function.update_noteq (Ne.symm (metaFilePath_ne_dataFilePath tableName tableName))]
            at ha2
          exact ha2
        have hl3 : fs3 TABLE_LIST_FILE_PATH = fs TABLE_LIST_FILE_PATH := by
          rw [hfs3, Function.update_noteq (Ne.symm (dataFilePath_ne_list tableName)), hl2]
        have hf3 : ∀ path, fs3 path = fs path ∨
            (fs path = none ∧ (path = metaFilePath tableName ∨
              path = pageDirectoryFilePath tableName ∨ path = dataFilePath tableName)) := by
          rw [hfs3]
          exact frame_update fs fs2 tableName _ _ hf2 ha0 (Or.inr (Or.inr rfl))
        show CreateTableOutcome fs tableName (thenRead fs3 (readPageDirectory fs3 tableName) _)
        cases h4 : readPageDirectory fs3 tableName with
        | error m =>
          exact CreateTableOutcome_fail fs fs3 tableName _ (by intro h; cases h) hl3 hf3
            (fun h => hmeta h fs3)
        | panic =>
          exact CreateTableOutcome_fail fs fs3 tableName _ (by intro h; cases h) hl3 hf3
            (fun h => hmeta h fs3)
        | diverge =>
          exact CreateTableOutcome_fail fs fs3 tableName _ (by intro h; cases h) hl3 hf3
            (fun h => hmeta h fs3)
        | ok pd2 =>
          show CreateTableOutcome fs tableName
            (thenOn fs3 ((addTableInList fs3 tableName).wrapErr "failed to update tables list: ") _)
          cases h5 : addTableInList fs3 tableName with
          | error m =>
            exact CreateTableOutcome_fail fs fs3 tableName _ (by intro h; cases h) hl3 hf3
              (fun h => hmeta h fs3)
          | panic =>
            exact CreateTableOutcome_fail fs fs3 tableName _ (by intro h; cases h) hl3 hf3
              (fun h => hmeta h fs3)
          | diverge =>
            exact CreateTableOutcome_fail fs fs3 tableName _ (by intro h; cases h) hl3 hf3
              (fun h => hmeta h fs3)
          | ok p5 =>
            obtain ⟨fs4, c'⟩ := p5
            obtain ⟨bytes, c2, id, hfs4, hread, hget⟩ :=
              addTableInList_ok_inv fs3 fs4 tableName c' h5
            refine ⟨(fun msg h => by cases h), (fun _ => ⟨⟨hm0, hd0, ha0⟩, ?_, ?_, ?_,
              c2, id, hread, hget⟩)⟩
            · show (fs4 (metaFilePath tableName)).isSome
              rw [hfs4, Function.update_noteq (metaFilePath_ne_list tableName), hfs3,
                Function.update_noteq (metaFilePath_ne_dataFilePath tableName tableName), hfs2,
                Function.update_noteq (metaFilePath_ne_dir tableName tableName), hfs1,
                Function.update_same]
              rfl
            · show (fs4 (pageDirectoryFilePath tableName)).isSome
              rw [hfs4, Function.update_noteq (pageDirectoryFilePath_ne_list tableName), hfs3,
                Function.update_noteq (Ne.symm (dataFilePath_ne_dir tableName tableName)), hfs2,
                Function.update_same]
              rfl
            · show (fs4 (dataFilePath tableName)).isSome
              rw [hfs4, Function.update_noteq (dataFilePath_ne_list tableName), hfs3,
                Function.update_same]
              rfl


/-- C16 (counterexample): on a file system without any file,
`CreateTable("users", exampleColumns)` returns an error (the catalog file cannot
be read) and leaves the three files of the table behind; with the catalog
created, `CreateTable` with a name of 33 bytes returns an error and leaves the
three files of that table behind. -/
theorem C16_counterexample_orphan_files :
    (diskManager.CreateTable emptyFS "users" exampleColumns).2 =
      .error ("failed to update tables list: failed to read tables list: " ++
        "stat tables/list/table_list.bin: no such file or directory") ∧
    emptyFS (metaFilePath "users") = none ∧
    ((diskManager.CreateTable emptyFS "users" exampleColumns).1 (metaFilePath "users")).isSome ∧
    ((diskManager.CreateTable emptyFS "users" exampleColumns).1
      (pageDirectoryFilePath "users")).isSome ∧
    ((diskManager.CreateTable emptyFS "users" exampleColumns).1 (dataFilePath "users")).isSome ∧
    (diskManager.CreateTable newDataBaseFS longName []).2 =
      .error "failed to update tables list: table name too long: %d bytes, maximum %d" ∧
    newDataBaseFS (metaFilePath longName) = none ∧
    ((diskManager.CreateTable newDataBaseFS longName []).1 (metaFilePath longName)).isSome ∧
    ((diskManager.CreateTable newDataBaseFS longName []).1
      (pageDirectoryFilePath longName)).isSome ∧
    ((diskManager.CreateTable newDataBaseFS longName []).1 (dataFilePath longName)).isSome := by
  refine ⟨by decide!, rfl, by decide!, by decide!, by decide!, by decide!, by decide!,
    by decide!, by decide!, by decide!⟩

/-- C16 (amended): for every table name and column list, if `CreateTable`
returns an error then the catalog file is exactly as before the call, every
other file is as before or is one of `<name>.meta`, `<name>.dir`, `<name>.data`
that did not exist before, and when `<name>.meta` existed no file has changed;
if it succeeds, the three files did not exist before, all three exist, and the
catalog read from its file contains the name. -/
theorem C16_createTable_outcomes (fs : FS) (tableName : String) (columns : List ColumnInfo) :
    (∀ msg, (diskManager.CreateTable fs tableName columns).2 = .error msg →
      (diskManager.CreateTable fs tableName columns).1 TABLE_LIST_FILE_PATH =
        fs TABLE_LIST_FILE_PATH ∧
      (∀ path, (diskManager.CreateTable fs tableName columns).1 path = fs path ∨
        (fs path = none ∧ (path = metaFilePath tableName ∨
          path = pageDirectoryFilePath tableName ∨ path = dataFilePath tableName))) ∧
      ((fs (metaFilePath tableName)).isSome →
        (diskManager.CreateTable fs tableName columns).1 = fs)) ∧
    ((diskManager.CreateTable fs tableName columns).2 = .ok () →
      (fs (metaFilePath tableName) = none ∧ fs (pageDirectoryFilePath tableName) = none ∧
        fs (dataFilePath tableName) = none) ∧
      ((diskManager.CreateTable fs tableName columns).1 (metaFilePath tableName)).isSome ∧
      ((diskManager.CreateTable fs tableName columns).1
        (pageDirectoryFilePath tableName)).isSome ∧
      ((diskManager.CreateTable fs tableName columns).1 (dataFilePath tableName)).isSome ∧
      ∃ catalog id, readTableListFile (diskManager.CreateTable fs tableName columns).1 =
          .ok catalog ∧
        nameGet catalog.tables (goBytes tableName) = some id) :=
  CreateTable_outcome fs tableName columns

/-- C16 on the new database: `CreateTable("users", exampleColumns)` succeeds,
and a second call returns an error and changes no file. -/
theorem C16_createTable_outcomes_witness :
    (diskManager.CreateTable newDataBaseFS "users" exampleColumns).2 = .ok () ∧
    ((usersFS (metaFilePath "users")).isSome ∧ (usersFS (pageDirectoryFilePath "users")).isSome ∧
      (usersFS (dataFilePath "users")).isSome ∧
      ∃ catalog id, readTableListFile usersFS = .ok catalog ∧
        nameGet catalog.tables (goBytes "users") = some id) ∧
    (diskManager.CreateTable usersFS "users" exampleColumns).2 =
      .error "table %s already exists" ∧
    (diskManager.CreateTable usersFS "users" exampleColumns).1 = usersFS :=
  ⟨by decide!,
    ((C16_createTable_outcomes newDataBaseFS "users" exampleColumns).2 (by decide!)).2,
    by decide!,
    ((C16_createTable_outcomes usersFS "users" exampleColumns).1 "table %s already exists"
      (by decide!)).2.2
      (by decide!)⟩


/-! ## `CalculateNullBitmapSize` and `ConvertRowToRawTuple` -/

theorem CalculateNullBitmapSize_eq (n : Nat) (h1 : 1 ≤ n) (h2 : n ≤ 32) :
    CalculateNullBitmapSize (n : Int) = .ok ((n + 7) / 8) := by
  unfold CalculateNullBitmapSize MAX_TABLE_COLUMNS_AMOUNT u32
  rw [if_neg (by omega), if_neg (by push_cast; omega)]
  congr 1
  have e : (((n : Int) + 7) / 8).toNat = (n + 7) / 8 := by omega
  rw [e]
  omega

/-- C22: for every integer `n`, `CalculateNullBitmapSize(n)` returns
`ceil(n/8)` (the `k` with `8 (k - 1) < n <= 8 k`, which is `(n + 7) / 8`)
without error if `1 <= n <= 32`, and returns an error if `n <= 0` or `n > 32`. -/
theorem C22_null_bitmap_size (n : Int) :
    (1 ≤ n ∧ n ≤ 32 →
      ∃ k : Nat, CalculateNullBitmapSize n = .ok k ∧ (k : Int) = (n + 7) / 8 ∧
        8 * ((k : Int) - 1) < n ∧ n ≤ 8 * (k : Int)) ∧
    (n ≤ 0 ∨ n > 32 → ∃ msg, CalculateNullBitmapSize n = .error msg) := by
  constructor
  · rintro ⟨h1, h2⟩
    refine ⟨((n + 7) / 8).toNat, ?_, ?_, ?_, ?_⟩
    · unfold CalculateNullBitmapSize MAX_TABLE_COLUMNS_AMOUNT u32
      rw [if_neg (by omega), if_neg (by push_cast; omega)]
      congr 1
      omega
    · omega
    · omega
    · omega
  · intro h
    unfold CalculateNullBitmapSize MAX_TABLE_COLUMNS_AMOUNT
    rcases h with h | h
    · rw [if_pos h]
      exact ⟨_, rfl⟩
    · by_cases h0 : n ≤ 0
      · rw [if_pos h0]
        exact ⟨_, rfl⟩
      · rw [if_neg h0, if_pos (by push_cast; omega)]
        exact ⟨_, rfl⟩

/-- C22 at the column counts 1, 8, 9, 32 (accepted) and 33, 0, -1 (rejected). -/
theorem C22_null_bitmap_size_witness :
    CalculateNullBitmapSize 1 = .ok 1 ∧ CalculateNullBitmapSize 8 = .ok 1 ∧
    CalculateNullBitmapSize 9 = .ok 2 ∧ CalculateNullBitmapSize 32 = .ok 4 ∧
    (∃ msg, CalculateNullBitmapSize 33 = .error msg) ∧
    (∃ msg, CalculateNullBitmapSize 0 = .error msg) ∧
    (∃ msg, CalculateNullBitmapSize (-1) = .error msg) :=
  ⟨by decide, by decide, by decide, by decide,
    (C22_null_bitmap_size 33).2 (Or.inr (by decide)),
    (C22_null_bitmap_size 0).2 (Or.inl (by decide)),
    (C22_null_bitmap_size (-1)).2 (Or.inl (by decide))⟩


theorem cellBytes_length_le (cell : DataCell) (row : Row) (h : cell ∈ row) :
    (cellBytes cell).length ≤ (row.flatMap cellBytes).length := by
  induction row with
  | nil => cases h
  | cons x rest ih =>
    rw [List.flatMap_cons, List.length_append]
    rcases List.mem_cons.mp h with h | h
    · subst h; omega
    · have := ih h; omega

theorem SerializeData_of_typed (cell : DataCell) (ht : CellTyped cell)
    (hsz : 4 + (cellBytes cell).length < 4294967296) :
    cell.SerializeData = .ok (cellBytes cell) := by
  unfold DataCell.SerializeData cellBytes
  unfold cellBytes at hsz
  by_cases hn : cell.isNull = true
  · rw [if_pos hn, if_pos hn]
  · have hn' : cell.isNull = false := by simpa using hn
    rw [if_neg hn, if_neg hn]
    rw [if_neg hn] at hsz
    by_cases h1 : cell.dataType = INT_32_TYPE
    · rw [if_pos h1, if_pos h1]
      obtain ⟨v, hv, _, _⟩ := (ht hn').1 h1
      rw [serializeInt32_eq cell v hv, hv]
    · rw [if_neg h1, if_neg h1]
      rw [if_neg h1] at hsz
      by_cases h2 : cell.dataType = TEXT_TYPE
      · rw [if_pos h2, if_pos h2]
        rw [if_pos h2] at hsz
        obtain ⟨s, hs⟩ := (ht hn').2 h2
        rw [hs] at hsz ⊢
        simp only [List.length_append, beBytes_length] at hsz
        rw [serializeText_eq cell s hs (by omega)]
      · rw [if_neg h2, if_neg h2]

theorem serializeCells_of_typed : ∀ (row : Row), (∀ cell ∈ row, CellTyped cell) →
    4 + (row.flatMap cellBytes).length < 4294967296 →
    serializeCells row = .ok (row.flatMap cellBytes)
  | [], _, _ => rfl
  | cell :: rest, ht, hsz => by
    rw [List.flatMap_cons, List.length_append] at hsz
    unfold serializeCells
    rw [SerializeData_of_typed cell (ht cell (List.mem_cons_self _ _)) (by omega),
      Res_ok_bind,
      serializeCells_of_typed rest (fun c hc => ht c (List.mem_cons_of_mem _ hc)) (by omega)]
    rfl

theorem GetSize_of_typed (cell : DataCell) (ht : CellTyped cell) : ∃ n, cell.GetSize = .ok n := by
  unfold DataCell.GetSize
  by_cases hn : cell.isNull = true
  · rw [if_pos hn]; exact ⟨_, rfl⟩
  · have hn' : cell.isNull = false := by simpa using hn
    rw [if_neg hn]
    by_cases h1 : cell.dataType = INT_32_TYPE
    · rw [if_pos h1]; exact ⟨_, rfl⟩
    · rw [if_neg h1]
      by_cases h2 : cell.dataType = TEXT_TYPE
      · rw [if_pos h2]
        obtain ⟨s, hs⟩ := (ht hn').2 h2
        rw [hs]
        exact ⟨_, rfl⟩
      · rw [if_neg h2]; exact ⟨_, rfl⟩

theorem GetSize_fold_of_typed : ∀ (row : Row), (∀ cell ∈ row, CellTyped cell) →
    ∀ init : Nat, ∃ n, row.foldlM (fun (size : Nat) (cell : DataCell) => do
      let c ← cell.GetSize
      pure (u32 (size + c))) init = Res.ok n
  | [], _, init => ⟨init, rfl⟩
  | cell :: rest, ht, init => by
    obtain ⟨n, hn⟩ := GetSize_of_typed cell (ht cell (List.mem_cons_self _ _))
    obtain ⟨m, hm⟩ := GetSize_fold_of_typed rest (fun c hc => ht c (List.mem_cons_of_mem _ hc))
      (u32 (init + n))
    refine ⟨m, ?_⟩
    rw [List.foldlM_cons, hn]
    exact hm

theorem RowGetSize_of_typed (row : Row) (ht : ∀ cell ∈ row, CellTyped cell) :
    ∃ n, Row.GetSize row = .ok n := by
  obtain ⟨n, hn⟩ := GetSize_fold_of_typed row ht 0
  unfold Row.GetSize
  rw [hn]
  exact ⟨_, rfl⟩

theorem rowNull_of_getElem? (row : Row) (i : Nat) (cell : DataCell) (h : row[i]? = some cell) :
    rowNull row i = cell.isNull := by
  unfold rowNull
  rw [List.get?_eq_getElem?, h]


theorem ConvertRowToRawTuple_hugeText :
    ConvertRowToRawTuple [hugeTextCell] =
      .ok { length := 13, nullBitmapSize := 1, nullBitmap := [0], data := [0, 0, 0, 0] } := by
  have hser : hugeTextCell.SerializeData = .ok [0, 0, 0, 0] := by
    unfold DataCell.SerializeData
    have h1 : hugeTextCell.isNull = false := rfl
    have h2 : hugeTextCell.dataType = TEXT_TYPE := rfl
    rw [h1, h2, serializeText_hugeTextCell]
    rfl
  have hgs : hugeTextCell.GetSize = .ok 4 := by
    unfold DataCell.GetSize
    have h1 : hugeTextCell.isNull = false := rfl
    have h2 : hugeTextCell.dataType = TEXT_TYPE := rfl
    have hd : hugeTextCell.data = .str hugeText := rfl
    rw [h1, h2, hd]
    have h0 : u32 hugeText.length = 0 := by rw [hugeText_length]; rfl
    simp only [h0]
    rfl
  have hrs : Row.GetSize [hugeTextCell] = .ok 13 := by
    unfold Row.GetSize
    rw [List.foldlM_cons, hgs]
    rfl
  have hb : fillNullBitmap 0 [hugeTextCell] (makeBytes 1) = .ok [0] := rfl
  have hsc : serializeCells [hugeTextCell] = .ok [0, 0, 0, 0] := by
    unfold serializeCells
    rw [hser]
    rfl
  unfold ConvertRowToRawTuple
  have hk : (if [hugeTextCell].length = 0 then 1
      else match CalculateNullBitmapSize ([hugeTextCell].length : Nat) with
        | .ok n => n
        | _ => 1) = 1 := rfl
  simp only [hk, hb, hrs, hsc, Res_ok_bind]
  rfl

/-- C21 (counterexample): the one-cell row holding a Text of 2^32 bytes is
converted to a tuple whose payload is the four bytes `00 00 00 00`, not the
length followed by the 2^32 bytes of the text, and whose length is 13; and a
non-null Int32 cell that holds a string makes the conversion panic. -/
theorem C21_counterexample_huge_text :
    (1 ≤ [hugeTextCell].length ∧ [hugeTextCell].length ≤ 32) ∧
    hugeTextCell.isNull = false ∧ hugeTextCell.dataType = TEXT_TYPE ∧
    hugeTextCell.data = .str hugeText ∧ hugeText.length = 4294967296 ∧
    ConvertRowToRawTuple [hugeTextCell] =
      .ok { length := 13, nullBitmapSize := 1, nullBitmap := [0], data := [0, 0, 0, 0] } ∧
    ConvertRowToRawTuple [illTypedCell] = .panic :=
  ⟨by decide, rfl, rfl, rfl, hugeText_length, ConvertRowToRawTuple_hugeText, by decide⟩

/-- C21 (amended): for every row of `n` cells with `1 <= n <= 32` whose
non-null cells carry a value of their type and whose tuple fits the `uint32`
length field (`8 + ceil(n/8) + len(payload) < 2^32`), `ConvertRowToRawTuple`
returns a tuple with `null_bitmap_size = ceil(n/8)`, a bitmap of that many bytes
in which bit `i mod 8` of byte `i div 8` is set iff cell `i` is null, a payload
equal to the concatenation in column order of the serialized non-null cells
(`cellBytes`), and `length = 8 + null_bitmap_size + len(payload)`. -/
theorem C21_row_to_tuple (row : Row) (hn : 1 ≤ row.length ∧ row.length ≤ 32)
    (ht : ∀ cell ∈ row, CellTyped cell)
    (hsz : 8 + (row.length + 7) / 8 + (row.flatMap cellBytes).length < 4294967296) :
    ∃ t, ConvertRowToRawTuple row = .ok t ∧
      t.nullBitmapSize = (row.length + 7) / 8 ∧
      8 * (t.nullBitmapSize - 1) < row.length ∧ row.length ≤ 8 * t.nullBitmapSize ∧
      t.nullBitmap.length = t.nullBitmapSize ∧
      (∀ (i : Nat) (cell : DataCell), row[i]? = some cell →
        ∃ b, t.nullBitmap[i / 8]? = some b ∧ b.val.testBit (i % 8) = cell.isNull) ∧
      t.data = row.flatMap cellBytes ∧
      t.length = 8 + t.nullBitmapSize + t.data.length := by
  have hk := CalculateNullBitmapSize_eq row.length hn.1 hn.2
  obtain ⟨bm, hbm, hbl, hbits⟩ := fillNullBitmap_spec row 0 (makeBytes ((row.length + 7) / 8))
    (by simp only [makeBytes, List.length_replicate]; omega)
  have hbl' : bm.length = (row.length + 7) / 8 := by
    rw [hbl]; simp only [makeBytes, List.length_replicate]
  obtain ⟨sz, hgs⟩ := RowGetSize_of_typed row ht
  have hd := serializeCells_of_typed row ht (by omega)
  have hne : row.length ≠ 0 := by omega
  refine ⟨{ length := u32 (TUPLE_LENGTH_FIELD_SIZE + TUPLE_NULL_BITMAP_SIZE +
              (row.length + 7) / 8 + u32 (row.flatMap cellBytes).length),
            nullBitmapSize := (row.length + 7) / 8, nullBitmap := bm,
            data := row.flatMap cellBytes }, ?_, rfl, ?_, ?_, hbl', ?_, rfl, ?_⟩
  · unfold ConvertRowToRawTuple
    simp [hne, hk, hbm, hgs, hd]
  · show 8 * ((row.length + 7) / 8 - 1) < row.length
    omega
  · show row.length ≤ 8 * ((row.length + 7) / 8)
    omega
  · intro i cell hi
    have hil : i < row.length := by
      by_contra hcon
      rw [List.getElem?_eq_none (by omega)] at hi
      cases hi
    have hb := hbits i
    rw [nullBit_makeBytes, Bool.false_or, Nat.sub_zero, rowNull_of_getElem? row i cell hi,
      nullBit_eq_testBit] at hb
    simp only [Nat.zero_le, decide_True, Bool.true_and] at hb
    have hlt : i / 8 < bm.length := by rw [hbl']; omega
    refine ⟨bm[i / 8], List.getElem?_eq_getElem hlt, ?_⟩
    rw [List.get?_eq_getElem?, List.getElem?_eq_getElem hlt] at hb
    exact hb
  · show u32 (TUPLE_LENGTH_FIELD_SIZE + TUPLE_NULL_BITMAP_SIZE + (row.length + 7) / 8 +
        u32 (row.flatMap cellBytes).length) = 8 + (row.length + 7) / 8 +
        (row.flatMap cellBytes).length
    unfold TUPLE_LENGTH_FIELD_SIZE TUPLE_NULL_BITMAP_SIZE
    rw [u32_of_lt (show (row.flatMap cellBytes).length < 4294967296 by omega),
      u32_of_lt (by omega)]

theorem mixedRow_typed : ∀ cell ∈ mixedRow, CellTyped cell := by
  intro cell hc
  simp only [mixedRow, List.mem_cons, List.mem_singleton, List.mem_nil_iff, or_false] at hc
  rcases hc with h | h | h
  · subst h
    exact fun _ => ⟨fun _ => ⟨7, rfl, by decide, by decide⟩, fun h => absurd h (by decide)⟩
  · subst h
    exact fun h => absurd h (by decide)
  · subst h
    exact fun _ => ⟨fun h => absurd h (by decide), fun _ => ⟨[104, 105], rfl⟩⟩

/-- C21 on the row (Int32 7, Text NULL, Text "hi"): bit 1 of the bitmap byte is
set, the payload is the Int32 and the Text, the length is 19. -/
theorem C21_row_to_tuple_witness :
    ConvertRowToRawTuple mixedRow =
      .ok { length := 19, nullBitmapSize := 1, nullBitmap := [2],
            data := [0, 0, 0, 7, 0, 0, 0, 2, 104, 105] } ∧
    ∃ t, ConvertRowToRawTuple mixedRow = .ok t ∧
      t.nullBitmapSize = (mixedRow.length + 7) / 8 ∧
      8 * (t.nullBitmapSize - 1) < mixedRow.length ∧ mixedRow.length ≤ 8 * t.nullBitmapSize ∧
      t.nullBitmap.length = t.nullBitmapSize ∧
      (∀ (i : Nat) (cell : DataCell), mixedRow[i]? = some cell →
        ∃ b, t.nullBitmap[i / 8]? = some b ∧ b.val.testBit (i % 8) = cell.isNull) ∧
      t.data = mixedRow.flatMap cellBytes ∧
      t.length = 8 + t.nullBitmapSize + t.data.length :=
  ⟨by decide, C21_row_to_tuple mixedRow (by decide) mixedRow_typed (by decide)⟩


/-! ## Header and slots through `WritePage` and `ReadPage` -/

theorem copyInto_frame (buf : List Byte) (lo hi : Nat) (src out : List Byte)
    (h : copyInto buf lo hi src = .ok out) :
    out.length = buf.length ∧ ∀ a n, a + n ≤ lo → window out a n = window buf a n := by
  unfold copyInto at h
  split at h
  · rename_i hc
    have e := Res.ok.inj h
    subst e
    have hfit : lo + (src.take (hi - lo)).length ≤ buf.length := by
      rw [List.length_take]; omega
    exact ⟨length_writeAt _ _ _ hfit,
      fun a n ha => window_writeAt_disjoint buf lo _ hfit a n (Or.inl ha)⟩
  · cases h

theorem serializeTuples_frame (slots : List PageSlot) (lo : Nat)
    (hlo : ∀ s ∈ slots, lo ≤ s.offset) :
    ∀ (ts : List RawTuple) (i : Nat) (data out : List Byte),
    serializeTuples slots i ts data = .ok out →
    out.length = data.length ∧ ∀ a n, a + n ≤ lo → window out a n = window data a n
  | [], _, data, out, h => by
    unfold serializeTuples at h
    have e := Res.ok.inj h
    subst e
    exact ⟨rfl, fun _ _ _ => rfl⟩
  | t :: rest, i, data, out, h => by
    unfold serializeTuples at h
    cases hg : slots.get? i with
    | none => rw [hg] at h; cases h
    | some slot =>
      rw [hg] at h
      obtain ⟨b, _, h⟩ := Res_bind_ok _ _ _ h
      obtain ⟨d1, hd1, h⟩ := Res_bind_ok _ _ _ h
      have hmem : slot ∈ slots := List.get?_mem hg
      obtain ⟨hl1, hf1⟩ := copyInto_frame _ _ _ _ _ hd1
      obtain ⟨hl2, hf2⟩ := serializeTuples_frame slots lo hlo rest (i + 1) d1 out h
      refine ⟨by rw [hl2, hl1], fun a n ha => ?_⟩
      rw [hf2 a n ha, hf1 a n (by have := hlo slot hmem; omega)]

/-- The header and the slot array in the bytes of a serialized page whose slot
ranges lie behind the slot array. -/
theorem RawPage_Serialize_header_slots (p : RawPage) (out : List Byte)
    (h : p.Serialize = .ok out)
    (hs : ∀ s ∈ p.slots, 16 + 12 * p.slots.length ≤ s.offset ∧ s.offset + s.length ≤ 4096) :
    out.length = 4096 ∧ window out 0 16 = p.header.bytes ∧
    ∀ j s, p.slots[j]? = some s → window out (16 + 12 * j) 12 = s.bytes := by
  have hm : (makeBytes PAGE_SIZE).length = 4096 := by
    simp only [makeBytes, PAGE_SIZE, List.length_replicate]
  have hw0 : 0 + p.header.bytes.length ≤ (makeBytes PAGE_SIZE).length := by
    rw [hm, PageHeader_length_bytes]; omega
  have hc0 := copyInto_exact (makeBytes PAGE_SIZE) 0 p.header.bytes hw0
  have hl0 := length_writeAt (makeBytes PAGE_SIZE) 0 p.header.bytes hw0
  rw [hm] at hl0
  have hslotsle : 16 + 12 * p.slots.length ≤ 4096 := by
    cases hsl : p.slots with
    | nil => simp
    | cons s rest =>
      have := hs s (by rw [hsl]; exact List.mem_cons_self _ _)
      rw [hsl] at this
      omega
  obtain ⟨d1, hd1, hl1, hs1, hf1⟩ := serializeSlots_spec p.slots 0
    (writeAt (makeBytes PAGE_SIZE) 0 p.header.bytes) (by rw [hl0]; omega)
  unfold RawPage.Serialize at h
  rw [PageHeader_Serialize_eq, Res_ok_bind] at h
  rw [PageHeader_length_bytes] at hc0
  have hc0' : copyInto (makeBytes PAGE_SIZE) 0 PAGE_HEADER_SIZE p.header.bytes =
      .ok (writeAt (makeBytes PAGE_SIZE) 0 p.header.bytes) := hc0
  rw [hc0', Res_ok_bind, hd1, Res_ok_bind] at h
  obtain ⟨out', hout', h⟩ := Res_bind_ok _ _ _ h
  have e := Res.ok.inj h
  subst e
  obtain ⟨hl2, hf2⟩ := serializeTuples_frame p.slots (16 + 12 * p.slots.length)
    (fun s hsm => (hs s hsm).1) p.rawTuples 0 d1 _ hout'
  refine ⟨by rw [hl2, hl1, hl0], ?_, ?_⟩
  · rw [hf2 0 16 (by omega), hf1 0 16 (Or.inl (by omega))]
    have := window_writeAt_same (makeBytes PAGE_SIZE) 0 p.header.bytes hw0
    rw [PageHeader_length_bytes] at this
    exact this
  · intro j s hj
    have hjl : j < p.slots.length := by
      by_contra hcon
      rw [List.getElem?_eq_none (by omega)] at hj
      cases hj
    rw [hf2 (16 + 12 * j) 12 (by omega)]
    have := hs1 j s hj
    simpa using this

/-- The header and the slots of a decoded page are those whose bytes the
buffer holds. -/
theorem RawPage_Deserialize_header_slots (data : Slice) (hwf : data.len ≤ data.mem.length)
    (hlen : data.len = 4096) (p : RawPage) (h : RawPage.Deserialize data = .ok p)
    (header : PageHeader) (slots : List PageSlot) (hu : PageFieldsU32 header slots)
    (hc : header.recordCount = slots.length) (hfit : 16 + 12 * slots.length ≤ 4096)
    (hh : window data.bytes 0 16 = header.bytes)
    (hs : ∀ j s, slots[j]? = some s → window data.bytes (16 + 12 * j) 12 = s.bytes) :
    p.header = header ∧ p.slots = slots := by
  unfold RawPage.Deserialize at h
  rw [if_neg (by rw [hlen]; decide)] at h
  obtain ⟨s0, hs0, _, hwf0, hb0⟩ := Slice_reslice_within data hwf 0 16 (by omega) (by omega)
  rw [hh] at hb0
  have hhdr := PageHeader_Deserialize_of_bytes s0 hwf0 header hb0 hu.1 hu.2.1 hu.2.2.1 hu.2.2.2.1
  have hsl := deserializeSlots_spec data hwf slots 0 (by omega)
    (fun j s hj => by simpa using hs j s hj) hu.2.2.2.2
  have hs0' : data.reslice 0 PAGE_HEADER_SIZE = .ok s0 := hs0
  rw [hs0', Res_ok_bind, hhdr, Res_ok_bind, hc, hsl, Res_ok_bind] at h
  obtain ⟨tuples, _, h⟩ := Res_bind_ok _ _ _ h
  have e := Res.ok.inj h
  subst e
  exact ⟨rfl, rfl⟩


theorem fileWriteAt_window (file : List Byte) (off : Nat) (b : List Byte) :
    off + b.length ≤ (fileWriteAt file off b).length ∧
    window (fileWriteAt file off b) off b.length = b := by
  unfold fileWriteAt
  have hfit : off + b.length ≤
      (file ++ List.replicate (off + b.length - file.length) 0).length := by
    rw [List.length_append, List.length_replicate]; omega
  rw [length_writeAt _ _ _ hfit]
  exact ⟨hfit, window_writeAt_same _ _ _ hfit⟩

theorem convertRows_header (page : Page) (raw : RawPage) (h : ConvertPageToRawPage page = .ok raw) :
    raw.header = page.header ∧ raw.slots = page.slots := by
  unfold ConvertPageToRawPage at h
  obtain ⟨ts, _, h⟩ := Res_bind_ok _ _ _ h
  have e := Res.ok.inj h
  subst e
  exact ⟨rfl, rfl⟩

/-- What a successful `WritePage` went through. -/
theorem WritePage_ok_inv (fs : FS) (tableName : String) (pageID : Nat) (page result : Page)
    (h : (diskManager.WritePage fs tableName pageID page).2 = .ok result) :
    ∃ df raw fs', readDataFileHeader fs tableName = .ok df ∧
      ConvertPageToRawPage page = .ok raw ∧
      df.writePage fs tableName pageID raw = .ok fs' ∧
      (diskManager.WritePage fs tableName pageID page).1 = fs' ∧
      diskManager.ReadPage fs' tableName pageID = .ok result := by
  unfold diskManager.WritePage thenRead at h ⊢
  cases hdf : readDataFileHeader fs tableName with
  | ok df =>
    rw [hdf] at h
    simp only [hdf] at h ⊢
    cases hraw : ConvertPageToRawPage page with
    | ok raw =>
      simp only [hraw] at h ⊢
      cases hw : df.writePage fs tableName pageID raw with
      | ok fs' =>
        simp only [hw] at h ⊢
        exact ⟨df, raw, fs', rfl, rfl, hw, rfl, h⟩
      | error m => simp only [hw] at h; cases h
      | panic => simp only [hw] at h; cases h
      | diverge => simp only [hw] at h; cases h
    | error m => simp only [hraw] at h; cases h
    | panic => simp only [hraw] at h; cases h
    | diverge => simp only [hraw] at h; cases h
  | error m => rw [hdf] at h; cases h
  | panic => rw [hdf] at h; cases h
  | diverge => rw [hdf] at h; cases h

theorem writePage_ok_inv (df : DataFile) (fs fs' : FS) (tableName : String) (pageID : Nat)
    (raw : RawPage) (h : df.writePage fs tableName pageID raw = .ok fs') :
    ∃ file out, fs (dataFilePath tableName) = some file ∧ raw.Serialize = .ok out ∧
      fs' = Function.update fs (dataFilePath tableName)
        (some (fileWriteAt file (pageOffset pageID) out)) := by
  unfold DataFile.writePage at h
  cases hf : fs (dataFilePath tableName) with
  | none => simp only [hf] at h; cases h
  | some file =>
    simp only [hf] at h
    obtain ⟨out, hout, h⟩ := Res_bind_ok _ _ _ h
    exact ⟨file, out, rfl, hout, (Res.ok.inj h).symm⟩

/-- A successful `readPage` decoded the 4096 bytes at the offset of the page. -/
theorem readPage_ok_inv (df : DataFile) (fs : FS) (tableName : String) (pageID : Nat)
    (file : List Byte) (p : RawPage) (hfile : fs (dataFilePath tableName) = some file)
    (hlen : pageOffset pageID + 4096 ≤ file.length)
    (h : df.readPage fs tableName pageID = .ok p) :
    ∃ s : Slice, s.len ≤ s.mem.length ∧ s.len = 4096 ∧
      s.bytes = window file (pageOffset pageID) 4096 ∧ RawPage.Deserialize s = .ok p := by
  obtain ⟨_, hfit⟩ := readPage_ok_fit df fs tableName pageID p h
  unfold DataFile.readPage at h
  split at h
  · cases h
  · simp only [hfile] at h
    have hu : u32 (pageOffset pageID + PAGE_SIZE) = pageOffset pageID + 4096 := u32_of_lt hfit
    rw [hu] at h
    obtain ⟨s, hs, hsl, hswf, hsb⟩ := Slice_reslice_within (Slice.ofBytes file)
      (Slice_ofBytes_wf _) (pageOffset pageID) (pageOffset pageID + 4096) (by omega)
      (by show _ ≤ file.length; exact hlen)
    rw [hs, Res_ok_bind] at h
    have e : pageOffset pageID + 4096 - pageOffset pageID = 4096 := by omega
    rw [e] at hsl hsb
    rw [Slice_ofBytes_bytes] at hsb
    exact ⟨s, hswf, hsl, hsb, Res_wrapErr_ok_inv _ _ _ h⟩


/-- C30 (counterexample): two pages written to page 1 of the table `users`
with `WritePage` and decoded again with `ReadPage`. The first has
`lower = 100 > upper = 50`; the second has two slots with the same byte range
`[4077, 4096)`. `WritePage` succeeds for both and the decoded pages have the
same header and slots. -/
theorem C30_counterexample_unchecked_page :
    (diskManager.WritePage usersOnePageFS "users" 1 crossedPage).2 =
      .ok { crossedPage with columns := exampleColumns } ∧
    diskManager.ReadPage (diskManager.WritePage usersOnePageFS "users" 1 crossedPage).1
      "users" 1 = .ok { crossedPage with columns := exampleColumns } ∧
    crossedPage.header.lower = 100 ∧ crossedPage.header.upper = 50 ∧
    (diskManager.WritePage usersOnePageFS "users" 1 overlapPage).2 =
      .ok { overlapPage with columns := exampleColumns } ∧
    diskManager.ReadPage (diskManager.WritePage usersOnePageFS "users" 1 overlapPage).1
      "users" 1 = .ok { overlapPage with columns := exampleColumns } ∧
    overlapPage.slots = [{ offset := 4077, length := 19, flags := 0 },
                         { offset := 4077, length := 19, flags := 0 }] := by
  refine ⟨by decide!, by decide!, rfl, rfl, by decide!, by decide!, rfl⟩

/-- C30 (amended): every page whose header and slots hold `uint32` values and
satisfy the slotted-page invariant with `record_count` slots whose array ends at
or before `lower`, and that `WritePage` stores successfully, is decoded again by
`ReadPage` with the same header and slots, and so satisfies the slotted-page
invariant: `lower <= upper`, every slot range inside `[upper, 4096)`, distinct
slot ranges not overlapping. -/
theorem C30_slotted_invariant_kept (fs : FS) (tableName : String) (pageID : Nat)
    (page result : Page)
    (hu : PageFieldsU32 page.header page.slots)
    (hcount : page.header.recordCount = page.slots.length)
    (hlower : 16 + 12 * page.slots.length ≤ page.header.lower)
    (hinv : SlottedInv page.header page.slots)
    (hok : (diskManager.WritePage fs tableName pageID page).2 = .ok result) :
    diskManager.ReadPage (diskManager.WritePage fs tableName pageID page).1 tableName pageID =
      .ok result ∧
    result.header = page.header ∧ result.slots = page.slots ∧
    result.header.lower ≤ result.header.upper ∧
    (∀ s ∈ result.slots, result.header.upper ≤ s.offset ∧ s.offset + s.length ≤ 4096) ∧
    result.slots.Pairwise PageSlot.Disjoint := by
  obtain ⟨df, raw, fs', hdf, hraw, hw, hfs, hread⟩ :=
    WritePage_ok_inv fs tableName pageID page result hok
  obtain ⟨hrh, hrs⟩ := convertRows_header page raw hraw
  obtain ⟨file, out, hfile, hout, hfs'⟩ := writePage_ok_inv df fs fs' tableName pageID raw hw
  have hslots : ∀ s ∈ raw.slots,
      16 + 12 * raw.slots.length ≤ s.offset ∧ s.offset + s.length ≤ 4096 := by
    intro s hs
    rw [hrs] at hs ⊢
    have := hinv.2.1 s hs
    have h1 := hinv.1
    unfold PAGE_SIZE at this
    omega
  obtain ⟨hol, hoh, hos⟩ := RawPage_Serialize_header_slots raw out hout hslots
  obtain ⟨df', p, metaData, _, hp, _, hconv⟩ := ReadPage_ok_inv fs' tableName pageID result hread
  have hfile' : fs' (dataFilePath tableName) =
      some (fileWriteAt file (pageOffset pageID) out) := by
    rw [hfs', Function.update_same]
  obtain ⟨hwl, hww⟩ := fileWriteAt_window file (pageOffset pageID) out
  rw [hol] at hwl hww
  obtain ⟨s, hswf, hsl, hsb, hdes⟩ := readPage_ok_inv df' fs' tableName pageID _ p hfile' hwl hp
  rw [hww] at hsb
  have hfit : 16 + 12 * page.slots.length ≤ 4096 := by
    cases hsl' : page.slots with
    | nil => simp
    | cons x rest =>
      have := hslots x (by rw [hrs, hsl']; exact List.mem_cons_self _ _)
      rw [hrs, hsl'] at this
      rw [List.length_cons]
      rw [List.length_cons] at this
      omega
  obtain ⟨hph, hps⟩ := RawPage_Deserialize_header_slots s hswf hsl p hdes page.header page.slots
    hu hcount hfit (by rw [hsb, hoh, hrh])
    (fun j sl hj => by rw [hsb]; exact hos j sl (by rw [hrs]; exact hj))
  obtain ⟨rows, _, hres⟩ := Res_bind_ok _ _ _ hconv
  have e := Res.ok.inj hres
  subst e
  have h1 : (⟨p.header, p.slots, rows, metaData.columns⟩ : Page).header = page.header := hph
  have h2 : (⟨p.header, p.slots, rows, metaData.columns⟩ : Page).slots = page.slots := hps
  refine ⟨by rw [hfs]; exact hread, h1, h2, ?_, ?_, ?_⟩
  · rw [h1]; exact hinv.1
  · rw [h1, h2]; exact hinv.2.1
  · rw [h2]; exact hinv.2.2

theorem oneRowPage_fields : PageFieldsU32 oneRowPage.header oneRowPage.slots := by
  refine ⟨by decide, by decide, by decide, by decide, ?_⟩
  intro s hs
  have : s = { offset := 4077, length := 19, flags := 0 } := by
    simpa [oneRowPage] using hs
  subst this
  exact ⟨by decide, by decide, by decide⟩

theorem oneRowPage_inv : SlottedInv oneRowPage.header oneRowPage.slots := by
  refine ⟨by decide, ?_, List.pairwise_singleton _ _⟩
  intro s hs
  have : s = { offset := 4077, length := 19, flags := 0 } := by
    simpa [oneRowPage] using hs
  subst this
  exact ⟨by decide, by decide⟩

/-- C30 on page 1 of the table `users`: a page of one row in the slot
`(4077, 19)`. -/
theorem C30_slotted_invariant_kept_witness :
    (diskManager.WritePage usersOnePageFS "users" 1 oneRowPage).2 =
      .ok { oneRowPage with columns := exampleColumns } ∧
    ({ oneRowPage with columns := exampleColumns } : Page).header = oneRowPage.header ∧
    ({ oneRowPage with columns := exampleColumns } : Page).header.lower ≤
      ({ oneRowPage with columns := exampleColumns } : Page).header.upper := by
  have hok : (diskManager.WritePage usersOnePageFS "users" 1 oneRowPage).2 =
      .ok { oneRowPage with columns := exampleColumns } := by decide!
  have h := C30_slotted_invariant_kept usersOnePageFS "users" 1 oneRowPage
    { oneRowPage with columns := exampleColumns } oneRowPage_fields rfl (by decide)
    oneRowPage_inv hok
  exact ⟨hok, h.2.1, h.2.2.2.1⟩


/-! ## `Access` and `Evict` on the pages of the lists -/

theorem pageID_frame (c c' : LRUKCache) (cold hot L1 L2 : List Nat)
    (h : c.EntriesInv cold hot) (h' : c'.EntriesInv L1 L2) (b : Nat) (hb : b ∈ L1 ++ L2)
    (hent : ∀ q e, mapGet c'.pageEntries q = some e → e.node = some b →
      mapGet c.pageEntries q = some e) :
    (c'.heap b).pageID = (c.heap b).pageID := by
  obtain ⟨e', hg', hn'⟩ := h'.node_entry b hb
  have hg := hent _ e' hg' hn'
  obtain ⟨_, a, hn, hp, _⟩ := h.entry_node _ e' hg
  have hab : a = b := by rw [hn'] at hn; exact (Option.some.inj hn).symm
  subst hab
  exact hp.symm

theorem pagesOf_congr (heap heap' : Nat → Node) (l : List Nat)
    (h : ∀ b ∈ l, (heap' b).pageID = (heap b).pageID) : pagesOf heap' l = pagesOf heap l := by
  unfold pagesOf
  exact List.map_congr_left h

theorem pagesOf_erase (heap : Nat → Node) (a : Nat) : ∀ (l : List Nat), l.Nodup →
    (∀ b ∈ l, (heap b).pageID = (heap a).pageID → b = a) →
    pagesOf heap (l.erase a) = (pagesOf heap l).filter (fun q => decide (q ≠ (heap a).pageID))
  | [], _, _ => rfl
  | x :: xs, hnd, hinj => by
    have hndx := List.nodup_cons.mp hnd
    by_cases hx : x = a
    · subst hx
      rw [List.erase_cons_head]
      unfold pagesOf
      rw [List.map_cons, List.filter_cons_of_neg (by simp)]
      symm
      rw [List.filter_eq_self]
      intro q hq
      obtain ⟨b, hb, hbq⟩ := List.mem_map.mp hq
      have hne : (heap b).pageID ≠ (heap x).pageID := by
        intro heq
        have := hinj b (List.mem_cons_of_mem _ hb) heq
        subst this
        exact hndx.1 hb
      rw [← hbq]
      simpa using hne
    · have hne : (heap x).pageID ≠ (heap a).pageID := fun heq =>
        hx (hinj x (List.mem_cons_self _ _) heq)
      rw [List.erase_cons_tail (by simpa using hx)]
      have ih := pagesOf_erase heap a xs hndx.2
        (fun b hb => hinj b (List.mem_cons_of_mem _ hb))
      unfold pagesOf at ih ⊢
      rw [List.map_cons, List.map_cons, List.filter_cons_of_pos (by simpa using hne), ih]

/-- The pages of a list without the node of page `p`: the pages of the list
without `p`. -/
theorem pagesOf_eraseNode (c : LRUKCache) (cold hot : List Nat) (h : c.EntriesInv cold hot)
    (p : Nat) (l : List Nat) (hl : l = cold ∨ l = hot) :
    pagesOf c.heap (eraseNode ((mapGet c.pageEntries p).bind fun e => e.node) l) =
      (pagesOf c.heap l).filter (fun q => decide (q ≠ p)) := by
  have hlsub : ∀ b ∈ l, b ∈ cold ++ hot := by
    intro b hb
    rcases hl with hl | hl <;> subst hl
    · exact List.mem_append_left _ hb
    · exact List.mem_append_right _ hb
  have hlnd : l.Nodup := by
    have := h.lists.nodup
    rw [List.nodup_append] at this
    rcases hl with hl | hl <;> subst hl
    · exact this.1
    · exact this.2.1
  have hpn := pagesOf_nodup c cold hot h
  cases hg : mapGet c.pageEntries p with
  | none =>
    rw [Option.none_bind]
    show pagesOf c.heap l = _
    symm
    rw [List.filter_eq_self]
    intro q hq
    have hqt : q ∈ pagesOf c.heap (cold ++ hot) := by
      obtain ⟨b, hb, hbq⟩ := List.mem_map.mp hq
      exact List.mem_map.mpr ⟨b, hlsub b hb, hbq⟩
    rw [mem_pagesOf_iff_tracked c cold hot h, mem_mapKeys_iff] at hqt
    have : q ≠ p := by
      intro e
      subst e
      rw [hg] at hqt
      cases hqt
    simpa using this
  | some e =>
    obtain ⟨_, a, hn, hp, hmem⟩ := h.entry_node p e hg
    rw [Option.some_bind, hn]
    show pagesOf c.heap (l.erase a) = _
    have ha : a ∈ cold ++ hot := by
      split at hmem
      · exact List.mem_append_right _ hmem
      · exact List.mem_append_left _ hmem
    rw [← hp]
    exact pagesOf_erase c.heap a l hlnd
      (fun b hb heq => List.inj_on_of_nodup_map hpn (hlsub b hb) ha heq)


theorem accessLists_eq (c : LRUKCache) (p : Nat) (cold hot : List Nat) :
    ∃ nowHot : Bool, accessLists c p cold hot =
      (eraseNode ((mapGet c.pageEntries p).bind fun e => e.node) cold ++
        (if nowHot then [] else [c.nextAddr]),
       eraseNode ((mapGet c.pageEntries p).bind fun e => e.node) hot ++
        (if nowHot then [c.nextAddr] else [])) :=
  ⟨_, rfl⟩

/-- The pages of the two lists after `Access(p)`, from tail to head: `p` is the
last page of one list, the other pages keep their list and their order. -/
theorem Access_pages (c c' : LRUKCache) (p now : Nat) (cold hot : List Nat) (cnt : Nat → Nat)
    (h : c.Inv cold hot) (hcnt : c.CountInv cnt) (ha : c.Access p now = .ok c') :
    ∃ cold' hot', c'.Inv cold' hot' ∧
      ((pagesOf c'.heap cold' = (pagesOf c.heap cold).filter (fun q => decide (q ≠ p)) ++ [p] ∧
        pagesOf c'.heap hot' = (pagesOf c.heap hot).filter (fun q => decide (q ≠ p))) ∨
       (pagesOf c'.heap cold' = (pagesOf c.heap cold).filter (fun q => decide (q ≠ p)) ∧
        pagesOf c'.heap hot' =
          (pagesOf c.heap hot).filter (fun q => decide (q ≠ p)) ++ [p])) := by
  obtain ⟨hinv', _, _, _, _, ef, hent, _, hnode⟩ := Access_inv c c' p now cold hot cnt h hcnt ha
  obtain ⟨nowHot, hL⟩ := accessLists_eq c p cold hot
  rw [hL] at hinv'
  refine ⟨_, _, hinv', ?_⟩
  have hnew : (c'.heap c.nextAddr).pageID = p := by
    obtain ⟨_, a, hn, hp, _⟩ := hinv'.entries.entry_node p ef
      (by rw [hent, mapGet_mapSet_same])
    rw [hnode] at hn
    rw [Option.some.inj hn]
    exact hp
  have hold : ∀ (l : List Nat), l = cold ∨ l = hot →
      pagesOf c'.heap (eraseNode ((mapGet c.pageEntries p).bind fun e => e.node) l) =
        (pagesOf c.heap l).filter (fun q => decide (q ≠ p)) := by
    intro l hl
    rw [← pagesOf_eraseNode c cold hot h.entries p l hl]
    apply pagesOf_congr
    intro b hb
    have hbl : b ∈ l := (eraseNode_sublist _ l).subset hb
    have hball : b ∈ cold ++ hot := by
      rcases hl with hl | hl <;> subst hl
      · exact List.mem_append_left _ hbl
      · exact List.mem_append_right _ hbl
    have hlt : b < c.nextAddr := h.entries.lists.alloc b hball
    refine pageID_frame c c' cold hot _ _ h.entries hinv'.entries b ?_ ?_
    · rcases hl with hl | hl <;> subst hl
      · exact List.mem_append_left _ (List.mem_append_left _ hb)
      · exact List.mem_append_right _ (List.mem_append_left _ hb)
    · intro q e hq hen
      rw [hent] at hq
      by_cases hqp : q = p
      · subst hqp
        rw [mapGet_mapSet_same] at hq
        have := Option.some.inj hq
        subst this
        rw [hnode] at hen
        have := Option.some.inj hen
        omega
      · rw [mapGet_mapSet_ne _ _ _ _ hqp] at hq
        exact hq
  have hone : pagesOf c'.heap [c.nextAddr] = [p] := by
    show [(c'.heap c.nextAddr).pageID] = [p]
    rw [hnew]
  have happ : ∀ (x y : List Nat), pagesOf c'.heap (x ++ y) =
      pagesOf c'.heap x ++ pagesOf c'.heap y := fun x y => List.map_append _ x y
  cases nowHot with
  | false =>
    left
    dsimp only
    refine ⟨?_, ?_⟩
    · rw [if_neg (by decide), happ, hone, hold cold (Or.inl rfl)]
    · rw [if_neg (by decide), happ, hold hot (Or.inr rfl)]
      exact List.append_nil _
  | true =>
    right
    dsimp only
    refine ⟨?_, ?_⟩
    · rw [if_pos rfl, happ, hold cold (Or.inl rfl)]
      exact List.append_nil _
    · rw [if_pos rfl, happ, hone, hold hot (Or.inr rfl)]


theorem evictLists_eq (c : LRUKCache) (p : Nat) (cold hot : List Nat) :
    evictLists c p cold hot =
      (eraseNode ((mapGet c.pageEntries p).bind fun e => e.node) cold,
       eraseNode ((mapGet c.pageEntries p).bind fun e => e.node) hot) := by
  unfold evictLists eraseNode
  cases (mapGet c.pageEntries p).bind fun e => e.node <;> rfl

/-- The pages of the two lists after `Evict(p)`, from tail to head: the pages
before without `p`, in the same order. -/
theorem Evict_pages (c : LRUKCache) (p : Nat) (cold hot : List Nat) (cnt : Nat → Nat)
    (h : c.Inv cold hot) (hcnt : c.CountInv cnt) :
    ∃ cold' hot', (c.Evict p).1.Inv cold' hot' ∧
      (c.Evict p).1.CountInv (countStep cnt (.evict p)) ∧
      pagesOf (c.Evict p).1.heap cold' =
        (pagesOf c.heap cold).filter (fun q => decide (q ≠ p)) ∧
      pagesOf (c.Evict p).1.heap hot' =
        (pagesOf c.heap hot).filter (fun q => decide (q ≠ p)) := by
  obtain ⟨hinv', hcnt', _, _, _⟩ := Evict_inv c p cold hot cnt h hcnt
  rw [evictLists_eq] at hinv'
  refine ⟨_, _, hinv', hcnt', ?_, ?_⟩
  all_goals
    dsimp only
    first
    | rw [← pagesOf_eraseNode c cold hot h.entries p cold (Or.inl rfl)]
    | rw [← pagesOf_eraseNode c cold hot h.entries p hot (Or.inr rfl)]
    apply pagesOf_congr
    intro b hb
    refine pageID_frame c (c.Evict p).1 cold hot _ _ h.entries hinv'.entries b ?_ ?_
    · first
      | exact List.mem_append_left _ hb
      | exact List.mem_append_right _ hb
    · intro q e hq hen
      rw [Evict_entries] at hq
      by_cases hqp : q = p
      · subst hqp
        rw [mapGet_mapDel_same] at hq
        cases hq
      · rw [mapGet_mapDel_ne _ _ _ hqp] at hq
        exact hq

theorem LRU_run_append (ops1 ops2 : List LRUOp) : ∀ (c c1 : LRUKCache),
    c.run ops1 = .ok c1 → c.run (ops1 ++ ops2) = c1.run ops2 := by
  induction ops1 with
  | nil =>
    intro c c1 h
    have := Res.ok.inj h
    subst this
    rfl
  | cons op rest ih =>
    intro c c1 h
    unfold LRUKCache.run at h
    obtain ⟨cm, hcm, h⟩ := Res_bind_ok _ _ _ h
    rw [List.cons_append]
    show (c.apply op >>= fun c => c.run (rest ++ ops2)) = _
    rw [hcm, Res_ok_bind]
    exact ih cm c1 h

theorem headToTail_sorted (c : LRUKCache) (l : List Nat) (h : c.ByLastAccess l) :
    (headToTail c.heap l).Pairwise fun x y => c.lastAccessOf y ≤ c.lastAccessOf x := by
  unfold headToTail pagesOf
  rw [List.pairwise_reverse, List.pairwise_map]
  exact h

theorem Evict_history (c : LRUKCache) (p : Nat) :
    (c.Evict p).1.accessHistory =
      if (mapGet c.pageEntries p).isSome then mapDel c.accessHistory p else c.accessHistory := by
  unfold LRUKCache.Evict
  cases hg : mapGet c.pageEntries p with
  | none => rfl
  | some e =>
    simp only [Option.isSome_some, if_true]
    by_cases hh : e.isInHotList = true
    · rw [if_pos hh]
      unfold LRUKCache.removeFromHotList
      cases e.node <;> rfl
    · rw [if_neg hh]
      unfold LRUKCache.removeFromColdList
      cases e.node <;> rfl

theorem Evict_size (c : LRUKCache) (p : Nat) :
    (c.Evict p).1.currentSize =
      if (mapGet c.pageEntries p).isSome then c.currentSize - 1 else c.currentSize := by
  unfold LRUKCache.Evict
  cases hg : mapGet c.pageEntries p with
  | none => rfl
  | some e =>
    simp only [Option.isSome_some, if_true]
    by_cases hh : e.isInHotList = true
    · rw [if_pos hh]
      unfold LRUKCache.removeFromHotList
      cases e.node <;> rfl
    · rw [if_neg hh]
      unfold LRUKCache.removeFromColdList
      cases e.node <;> rfl

theorem Evict_flag (c : LRUKCache) (p : Nat) :
    (c.Evict p).2 = (mapGet c.pageEntries p).isSome := by
  unfold LRUKCache.Evict
  cases mapGet c.pageEntries p <;> rfl

theorem Evict_untracked (c : LRUKCache) (p : Nat) (h : mapGet c.pageEntries p = none) :
    c.Evict p = (c, false) := by
  unfold LRUKCache.Evict
  rw [h]


theorem headToTail_push (heap : Nat → Node) (l : List Nat) (x : List Nat) (p : Nat)
    (h : pagesOf heap l = x.filter (fun q => decide (q ≠ p)) ++ [p]) :
    headToTail heap l = p :: x.reverse.filter (fun q => decide (q ≠ p)) := by
  unfold headToTail
  rw [h, List.reverse_append, List.filter_reverse]
  rfl

theorem headToTail_filter (heap : Nat → Node) (l : List Nat) (x : List Nat) (p : Nat)
    (h : pagesOf heap l = x.filter (fun q => decide (q ≠ p))) :
    headToTail heap l = x.reverse.filter (fun q => decide (q ≠ p)) := by
  unfold headToTail
  rw [h, List.filter_reverse]

/-- C28: in every state reached from a new cache by `Access` and `Evict`
calls, after `Access(p)` page `p` is at the head of one of the two lists, and
each list read from head to tail holds its other pages in the order they had
before (the pages before without `p`); when the clock of the calls does not run
backwards, each list read from head to tail is ordered from the most recently
to the least recently accessed page. -/
theorem C28_access_moves_to_head (K maxSize : Int) (ops : List LRUOp) (c c' : LRUKCache)
    (p now : Nat) (hrun : (NewLRUKCache K maxSize).run ops = .ok c)
    (hacc : c.Access p now = .ok c') :
    ∃ cold hot cold' hot', c.ListsInv cold hot ∧ c'.ListsInv cold' hot' ∧
      ((headToTail c'.heap cold' =
          p :: (headToTail c.heap cold).filter (fun q => decide (q ≠ p)) ∧
        headToTail c'.heap hot' = (headToTail c.heap hot).filter (fun q => decide (q ≠ p))) ∨
       (headToTail c'.heap hot' =
          p :: (headToTail c.heap hot).filter (fun q => decide (q ≠ p)) ∧
        headToTail c'.heap cold' =
          (headToTail c.heap cold).filter (fun q => decide (q ≠ p)))) ∧
      (ClockOrdered 0 (ops ++ [.access p now]) →
        ((headToTail c'.heap cold').Pairwise fun x y => c'.lastAccessOf y ≤ c'.lastAccessOf x) ∧
        ((headToTail c'.heap hot').Pairwise fun x y => c'.lastAccessOf y ≤ c'.lastAccessOf x)) := by
  obtain ⟨hI0, hC0⟩ := NewLRUKCache_inv K maxSize
  obtain ⟨⟨cold, hot, hI⟩, hC, _, _⟩ :=
    LRU_run_inv ops (NewLRUKCache K maxSize) c [] [] _ hI0 hC0 hrun
  obtain ⟨cold', hot', hI', hpages⟩ := Access_pages c c' p now cold hot _ hI hC hacc
  refine ⟨cold, hot, cold', hot', hI.entries.lists, hI'.entries.lists, ?_, ?_⟩
  · rcases hpages with ⟨h1, h2⟩ | ⟨h1, h2⟩
    · exact Or.inl ⟨headToTail_push _ _ _ _ h1, headToTail_filter _ _ _ _ h2⟩
    · exact Or.inr ⟨headToTail_push _ _ _ _ h2, headToTail_filter _ _ _ _ h1⟩
  · intro hclock
    have hrun' : (NewLRUKCache K maxSize).run (ops ++ [.access p now]) = .ok c' := by
      rw [LRU_run_append ops [.access p now] _ c hrun]
      show (c.Access p now >>= fun c => c.run []) = _
      rw [hacc]
      rfl
    obtain ⟨hs1, hs2⟩ := lists_by_last_access K maxSize _ c' cold' hot' hclock hrun'
      hI'.entries.lists
    exact ⟨headToTail_sorted c' cold' hs1, headToTail_sorted c' hot' hs2⟩


theorem complexState_lists : complexState.ListsInv [5, 6] [7, 8, 9] := by
  refine ⟨⟨?_, ?_, ?_, rfl, rfl, rfl⟩, ⟨?_, ?_, ?_, rfl, rfl, rfl⟩, by decide, ?_⟩
  · exact List.chain'_cons.mpr ⟨⟨rfl, rfl⟩, List.chain'_singleton _⟩
  · intro a h
    cases h
    rfl
  · intro a h
    cases h
    rfl
  · exact List.chain'_cons.mpr ⟨⟨rfl, rfl⟩, List.chain'_cons.mpr ⟨⟨rfl, rfl⟩,
      List.chain'_singleton _⟩⟩
  · intro a h
    cases h
    rfl
  · intro a h
    cases h
    rfl
  · intro a h
    have : a = 5 ∨ a = 6 ∨ a = 7 ∨ a = 8 ∨ a = 9 := by simpa using h
    have hn : complexState.nextAddr = 10 := rfl
    rw [hn]
    omega

/-- C28 for `K = 2` and the access pattern 1, 2, 1, 3, 2, 4, 5, 1, 2, 3: after
the last `Access(3)` the hot list is 3, 2, 1 and the cold list 5, 4 from head
to tail; before it the hot list is 2, 1 and the cold list 5, 4, 3. -/
theorem C28_access_moves_to_head_witness :
    (stateAfter 2 5 complexOps).Access 3 9 = .ok complexState ∧
    complexState.ListsInv [5, 6] [7, 8, 9] ∧
    headToTail complexState.heap [7, 8, 9] = [3, 2, 1] ∧
    headToTail complexState.heap [5, 6] = [5, 4] ∧
    headToTail (stateAfter 2 5 complexOps).heap [7, 8] = [2, 1] ∧
    headToTail (stateAfter 2 5 complexOps).heap [3, 5, 6] = [5, 4, 3] ∧
    ∃ cold hot cold' hot', (stateAfter 2 5 complexOps).ListsInv cold hot ∧
      complexState.ListsInv cold' hot' ∧
      ((headToTail complexState.heap cold' =
          3 :: (headToTail (stateAfter 2 5 complexOps).heap cold).filter
            (fun q => decide (q ≠ 3)) ∧
        headToTail complexState.heap hot' =
          (headToTail (stateAfter 2 5 complexOps).heap hot).filter
            (fun q => decide (q ≠ 3))) ∨
       (headToTail complexState.heap hot' =
          3 :: (headToTail (stateAfter 2 5 complexOps).heap hot).filter
            (fun q => decide (q ≠ 3)) ∧
        headToTail complexState.heap cold' =
          (headToTail (stateAfter 2 5 complexOps).heap cold).filter
            (fun q => decide (q ≠ 3)))) := by
  obtain ⟨cold, hot, cold', hot', h1, h2, h3, _⟩ :=
    C28_access_moves_to_head 2 5 complexOps (stateAfter 2 5 complexOps) complexState 3 9 rfl rfl
  exact ⟨rfl, complexState_lists, rfl, rfl, rfl, rfl, cold, hot, cold', hot', h1, h2, h3⟩


/-- C29: in every state reached from a new cache by `Access` and `Evict`
calls: `Evict(p)` returns true iff `p` was tracked; afterwards `p` is absent
from `PageEntries`, `AccessHistory` and both lists; `CurrentSize` has decreased
by 1 exactly when true was returned; every other page keeps its entry (access
count and hot flag), its history, its list and its place among the other pages;
an `Access(p)` after the `Evict(p)` succeeds for `K > 1` and leaves `p` with
access count 1 at the head of the cold list; `Evict` on an untracked page
returns the cache as it was. -/
theorem C29_evict_forgets_page (K maxSize : Int) (ops : List LRUOp) (c : LRUKCache) (p : Nat)
    (hrun : (NewLRUKCache K maxSize).run ops = .ok c) :
    ((c.Evict p).2 = true ↔ p ∈ mapKeys c.pageEntries) ∧
    mapGet (c.Evict p).1.pageEntries p = none ∧
    mapGet (c.Evict p).1.accessHistory p = none ∧
    (c.Evict p).1.currentSize = c.currentSize - (if (c.Evict p).2 then 1 else 0) ∧
    (∀ q, q ≠ p → mapGet (c.Evict p).1.pageEntries q = mapGet c.pageEntries q ∧
      mapGet (c.Evict p).1.accessHistory q = mapGet c.accessHistory q) ∧
    (∃ cold hot cold' hot', c.ListsInv cold hot ∧ (c.Evict p).1.ListsInv cold' hot' ∧
      headToTail (c.Evict p).1.heap cold' =
        (headToTail c.heap cold).filter (fun q => decide (q ≠ p)) ∧
      headToTail (c.Evict p).1.heap hot' =
        (headToTail c.heap hot).filter (fun q => decide (q ≠ p)) ∧
      p ∉ headToTail (c.Evict p).1.heap cold' ∧ p ∉ headToTail (c.Evict p).1.heap hot') ∧
    (p ∉ mapKeys c.pageEntries → c.Evict p = (c, false)) ∧
    (1 < K → ∀ now, ∃ c2 e cold2 hot2, (c.Evict p).1.Access p now = .ok c2 ∧
      mapGet c2.pageEntries p = some e ∧ e.accessCount = 1 ∧ e.isInHotList = false ∧
      c2.ListsInv cold2 hot2 ∧ (headToTail c2.heap cold2).head? = some p) := by
  obtain ⟨hI0, hC0⟩ := NewLRUKCache_inv K maxSize
  obtain ⟨⟨cold, hot, hI⟩, hC, hK, _⟩ :=
    LRU_run_inv ops (NewLRUKCache K maxSize) c [] [] _ hI0 hC0 hrun
  have hKc : c.K = K := hK
  obtain ⟨cold', hot', hI', hC', hp1, hp2⟩ := Evict_pages c p cold hot _ hI hC
  have hKe : (c.Evict p).1.K = c.K := (Evict_inv c p cold hot _ hI hC).2.2.1
  have hent : mapGet (c.Evict p).1.pageEntries p = none := by
    rw [Evict_entries, mapGet_mapDel_same]
  have hhist : mapGet (c.Evict p).1.accessHistory p = none := by
    have := hI'.hist_keys p
    rw [hent] at this
    cases hh : mapGet (c.Evict p).1.accessHistory p with
    | none => rfl
    | some x => rw [hh] at this; cases this
  refine ⟨?_, hent, hhist, ?_, ?_, ?_, ?_, ?_⟩
  · rw [Evict_flag, mem_mapKeys_iff]
  · rw [Evict_size, Evict_flag]
    cases (mapGet c.pageEntries p).isSome <;> simp
  · intro q hq
    refine ⟨by rw [Evict_entries, mapGet_mapDel_ne _ _ _ hq], ?_⟩
    rw [Evict_history]
    split
    · rw [mapGet_mapDel_ne _ _ _ hq]
    · rfl
  · have e1 := headToTail_filter _ _ _ _ hp1
    have e2 := headToTail_filter _ _ _ _ hp2
    refine ⟨cold, hot, cold', hot', hI.entries.lists, hI'.entries.lists, e1, e2, ?_, ?_⟩
    · rw [e1]
      intro hm
      have := (List.mem_filter.mp hm).2
      simp at this
    · rw [e2]
      intro hm
      have := (List.mem_filter.mp hm).2
      simp at this
  · intro hp
    exact Evict_untracked c p ((not_mem_mapKeys_iff _ _).mp hp)
  · intro hK1 now
    obtain ⟨c2, hc2⟩ := Access_total (c.Evict p).1 p now (by rw [hKe, hKc]; omega)
    obtain ⟨hI2, hC2, hK2, _, _, ef, hent2, _, _⟩ :=
      Access_inv (c.Evict p).1 c2 p now cold' hot' _ hI' hC' hc2
    obtain ⟨cold2, hot2, hI2', hpages⟩ :=
      Access_pages (c.Evict p).1 c2 p now cold' hot' _ hI' hC' hc2
    have hget : mapGet c2.pageEntries p = some ef := by
      rw [hent2, mapGet_mapSet_same]
    have hcp := hC2 p
    rw [hget] at hcp
    have hcnt1 : countStep (countStep (List.foldl countStep (fun _ => 0) ops) (.evict p))
        (.access p now) p = 1 := by
      simp [countStep]
    rw [hcnt1] at hcp
    have hcount : ef.accessCount = 1 := by exact_mod_cast hcp.1
    have hflag : ef.isInHotList = false := by
      cases hf : ef.isInHotList with
      | false => rfl
      | true =>
        have := hcp.2.2.mp hf
        rw [hK2, hKe, hKc, hcount] at this
        omega
    refine ⟨c2, ef, cold2, hot2, hc2, hget, hcount, hflag, hI2'.entries.lists, ?_⟩
    rcases hpages with ⟨h1, _⟩ | ⟨_, h2⟩
    · rw [headToTail_push _ _ _ _ h1]
      rfl
    · exfalso
      have hmem : p ∈ pagesOf c2.heap hot2 := by
        rw [h2]
        exact List.mem_append_right _ (List.mem_singleton_self _)
      obtain ⟨e, he, hehot⟩ := (mem_pagesOf_hot_iff c2 cold2 hot2 hI2'.entries p).mp hmem
      rw [hget] at he
      have := Option.some.inj he
      subst this
      rw [hflag] at hehot
      cases hehot

/-- C29 for `K = 2` after `Access(1); Access(1); Access(2); Access(3)`:
`Evict(2)` returns true and leaves 3 tracked pages, `Evict(9)` returns false. -/
theorem C29_evict_forgets_page_witness :
    ((stateAfter 2 10 evictOps).Evict 2).2 = true ∧
    ((stateAfter 2 10 evictOps).Evict 9).2 = false ∧
    (stateAfter 2 10 evictOps).currentSize = 3 ∧
    ((stateAfter 2 10 evictOps).Evict 2).1.currentSize = 2 ∧
    mapGet ((stateAfter 2 10 evictOps).Evict 2).1.pageEntries 2 = none ∧
    (((stateAfter 2 10 evictOps).Evict 2).2 = true ↔
      2 ∈ mapKeys (stateAfter 2 10 evictOps).pageEntries) ∧
    ((stateAfter 2 10 evictOps).Evict 9) = (stateAfter 2 10 evictOps, false) :=
  ⟨rfl, rfl, rfl, rfl, rfl,
    (C29_evict_forgets_page 2 10 evictOps (stateAfter 2 10 evictOps) 2 rfl).1,
    (C29_evict_forgets_page 2 10 evictOps (stateAfter 2 10 evictOps) 9 rfl).2.2.2.2.2.2.1
      (by decide)⟩


/-! ## The bookkeeping structures agree in every reachable state -/

theorem Access_ok_K (c c' : LRUKCache) (p now : Nat) (hh : mapGet c.accessHistory p = none)
    (ha : c.Access p now = .ok c') : 0 ≤ c.K := by
  unfold LRUKCache.Access LRUKCache.updateAccessHistory LRUKCache.historyFor at ha
  rw [hh] at ha
  by_contra hk
  rw [if_pos (by omega)] at ha
  cases ha

theorem Access_ok_of_history (c : LRUKCache) (p now : Nat)
    (hh : (mapGet c.accessHistory p).isSome = true) : ∃ c', c.Access p now = .ok c' := by
  unfold LRUKCache.Access LRUKCache.updateAccessHistory LRUKCache.historyFor
  cases hg : mapGet c.accessHistory p with
  | none => rw [hg] at hh; cases hh
  | some x => exact ⟨_, rfl⟩

theorem isSome_mapSet {V : Type} (m : GoMap V) (k p : Nat) (v : V) :
    (mapGet (mapSet m k v) p).isSome = (decide (p = k) || (mapGet m p).isSome) := by
  by_cases h : p = k
  · subst h
    rw [mapGet_mapSet_same]
    simp
  · rw [mapGet_mapSet_ne _ _ _ _ h]
    simp [h]

theorem isSome_mapDel {V : Type} (m : GoMap V) (k p : Nat) :
    (mapGet (mapDel m k) p).isSome = (!decide (p = k) && (mapGet m p).isSome) := by
  by_cases h : p = k
  · subst h
    rw [mapGet_mapDel_same]
    simp
  · rw [mapGet_mapDel_ne _ _ _ h]
    simp [h]

/-- A frame is put into the frame table, its pin count is set and its page is
accessed in the replacer. -/
theorem agree_access (bp : BufferPool) (pid now : Nat) (frame : BufferFrame) (n : Int)
    (dp : GoMap Bool) (lru : LRUKCache) (h : bp.Agree)
    (ha : bp.lruKCache.Access pid now = .ok lru)
    (hdp : dp = bp.dirtyPages ∨ ∃ b, dp = mapSet bp.dirtyPages pid b)
    (hdirty : frame.isDirty = true → (mapGet dp pid).isSome = true) :
    BufferPool.Agree { bp with pages := mapSet bp.pages pid frame,
                               pinCounts := mapSet bp.pinCounts pid n,
                               dirtyPages := dp, lruKCache := lru } := by
  obtain ⟨cold, hot, cnt, hI, hC⟩ := h.lru_inv
  obtain ⟨hI', hC', hK, _, _, ef, hent, _, _⟩ :=
    Access_inv bp.lruKCache lru pid now cold hot cnt hI hC ha
  have hother : ∀ p, p ≠ pid → mapGet dp p = mapGet bp.dirtyPages p := by
    intro p hp
    rcases hdp with hdp | ⟨b, hdp⟩
    · rw [hdp]
    · rw [hdp, mapGet_mapSet_ne _ _ _ _ hp]
  refine ⟨?_, ?_, ?_, ?_, ?_, ⟨_, _, _, hI', hC'⟩, ?_⟩
  · intro p
    show (mapGet (mapSet bp.pinCounts pid n) p).isSome = (mapGet (mapSet bp.pages pid frame) p).isSome
    rw [isSome_mapSet, isSome_mapSet, h.pins_keys]
  · intro p
    show (mapGet lru.pageEntries p).isSome = (mapGet (mapSet bp.pages pid frame) p).isSome
    rw [hent, isSome_mapSet, isSome_mapSet, h.lru_keys]
  · intro p hp
    show (mapGet (mapSet bp.pages pid frame) p).isSome = true
    rw [isSome_mapSet]
    by_cases hpp : p = pid
    · simp [hpp]
    · have hp' : (mapGet dp p).isSome = true := hp
      rw [hother p hpp] at hp'
      simp [h.dirty_sub p hp']
  · intro p f hf hd
    show (mapGet dp p).isSome = true
    have hf' : mapGet (mapSet bp.pages pid frame) p = some f := hf
    by_cases hpp : p = pid
    · subst hpp
      rw [mapGet_mapSet_same] at hf'
      have := Option.some.inj hf'
      subst this
      exact hdirty hd
    · rw [mapGet_mapSet_ne _ _ _ _ hpp] at hf'
      rw [hother p hpp]
      exact h.dirty_flag p f hf' hd
  · show (mapKeys dp).Nodup
    rcases hdp with hdp | ⟨b, hdp⟩
    · rw [hdp]; exact h.dirty_nodup
    · rw [hdp]; exact mapKeys_mapSet_nodup _ _ _ h.dirty_nodup
  · intro p hp
    show 0 ≤ lru.K
    rw [hK]
    have hp' : (mapGet (mapSet bp.pages pid frame) p).isSome = true := hp
    cases hres : mapGet bp.pages pid with
    | some old => exact h.k_ok pid (by rw [hres]; rfl)
    | none =>
      have he : (mapGet bp.lruKCache.pageEntries pid).isSome = false := by
        rw [h.lru_keys, hres]; rfl
      have hh : mapGet bp.lruKCache.accessHistory pid = none := by
        have := hI.hist_keys pid
        rw [he] at this
        cases hx : mapGet bp.lruKCache.accessHistory pid with
        | none => rfl
        | some x => rw [hx] at this; cases this
      exact Access_ok_K _ _ _ _ hh ha

/-- The frame of a resident page is replaced; the keys of the pin counts stay,
and the dirty set changes at most at this page. -/
theorem agree_update (bp : BufferPool) (pid : Nat) (old frame : BufferFrame)
    (pins : GoMap Int) (dp : GoMap Bool) (h : bp.Agree)
    (hold : mapGet bp.pages pid = some old)
    (hpins : ∀ p, (mapGet pins p).isSome = (mapGet bp.pinCounts p).isSome)
    (hother : ∀ p, p ≠ pid → mapGet dp p = mapGet bp.dirtyPages p)
    (hnd : (mapKeys dp).Nodup)
    (hdirty : frame.isDirty = true → (mapGet dp pid).isSome = true) :
    BufferPool.Agree { bp with pages := mapSet bp.pages pid frame, pinCounts := pins,
                               dirtyPages := dp } := by
  have hkeys : ∀ p, (mapGet (mapSet bp.pages pid frame) p).isSome = (mapGet bp.pages p).isSome := by
    intro p
    rw [isSome_mapSet]
    by_cases hp : p = pid
    · subst hp
      rw [hold]
      simp
    · simp [hp]
  refine ⟨?_, ?_, ?_, ?_, hnd, h.lru_inv, ?_⟩
  · intro p
    show (mapGet pins p).isSome = (mapGet (mapSet bp.pages pid frame) p).isSome
    rw [hkeys, hpins, h.pins_keys]
  · intro p
    show (mapGet bp.lruKCache.pageEntries p).isSome = (mapGet (mapSet bp.pages pid frame) p).isSome
    rw [hkeys, h.lru_keys]
  · intro p hp
    show (mapGet (mapSet bp.pages pid frame) p).isSome = true
    rw [hkeys]
    by_cases hpp : p = pid
    · subst hpp
      rw [hold]
      rfl
    · have hp' : (mapGet dp p).isSome = true := hp
      rw [hother p hpp] at hp'
      exact h.dirty_sub p hp'
  · intro p f hf hd
    show (mapGet dp p).isSome = true
    have hf' : mapGet (mapSet bp.pages pid frame) p = some f := hf
    by_cases hpp : p = pid
    · subst hpp
      rw [mapGet_mapSet_same] at hf'
      have := Option.some.inj hf'
      subst this
      exact hdirty hd
    · rw [mapGet_mapSet_ne _ _ _ _ hpp] at hf'
      rw [hother p hpp]
      exact h.dirty_flag p f hf' hd
  · intro p hp
    have hp' : (mapGet (mapSet bp.pages pid frame) p).isSome = true := hp
    rw [hkeys] at hp'
    exact h.k_ok p hp'

/-- A page is removed from every structure of the pool. -/
theorem agree_evict (bp : BufferPool) (v : Nat) (h : bp.Agree) :
    BufferPool.Agree { bp with pages := mapDel bp.pages v, dirtyPages := mapDel bp.dirtyPages v,
                               pinCounts := mapDel bp.pinCounts v,
                               lruKCache := (bp.lruKCache.Evict v).1 } := by
  obtain ⟨cold, hot, cnt, hI, hC⟩ := h.lru_inv
  obtain ⟨hI', hC', hK, _, _⟩ := Evict_inv bp.lruKCache v cold hot cnt hI hC
  refine ⟨?_, ?_, ?_, ?_, ?_, ⟨_, _, _, hI', hC'⟩, ?_⟩
  · intro p
    show (mapGet (mapDel bp.pinCounts v) p).isSome = (mapGet (mapDel bp.pages v) p).isSome
    rw [isSome_mapDel, isSome_mapDel, h.pins_keys]
  · intro p
    show (mapGet (bp.lruKCache.Evict v).1.pageEntries p).isSome =
      (mapGet (mapDel bp.pages v) p).isSome
    rw [Evict_entries, isSome_mapDel, isSome_mapDel, h.lru_keys]
  · intro p hp
    have hp' : (mapGet (mapDel bp.dirtyPages v) p).isSome = true := hp
    show (mapGet (mapDel bp.pages v) p).isSome = true
    rw [isSome_mapDel] at hp' ⊢
    by_cases hpp : p = v
    · simp [hpp] at hp'
    · simp only [hpp, decide_False, Bool.not_false, Bool.true_and] at hp' ⊢
      exact h.dirty_sub p hp'
  · intro p f hf hd
    have hf' : mapGet (mapDel bp.pages v) p = some f := hf
    show (mapGet (mapDel bp.dirtyPages v) p).isSome = true
    by_cases hpp : p = v
    · subst hpp
      rw [mapGet_mapDel_same] at hf'
      cases hf'
    · rw [mapGet_mapDel_ne _ _ _ hpp] at hf' ⊢
      exact h.dirty_flag p f hf' hd
  · exact mapKeys_mapDel_nodup _ _ h.dirty_nodup
  · intro p hp
    have hp' : (mapGet (mapDel bp.pages v) p).isSome = true := hp
    show 0 ≤ (bp.lruKCache.Evict v).1.K
    rw [hK]
    rw [isSome_mapDel] at hp'
    by_cases hpp : p = v
    · simp [hpp] at hp'
    · simp only [hpp, decide_False, Bool.not_false, Bool.true_and] at hp'
      exact h.k_ok p hp'

theorem evictPage_agree (bp : BufferPool) (disk : Disk) (bp' : BufferPool) (err : Option String)
    (h : bp.Agree) (he : bp.evictPage disk = .ok (bp', err)) : bp'.Agree := by
  rcases evictPage_cases bp disk bp' err he with ⟨hb, _⟩ | ⟨_, v, frame, _, _, _, hb⟩
  · rw [hb]; exact h
  · rw [hb]; exact agree_evict bp v h

theorem evictIfFull_agree (bp : BufferPool) (disk : Disk) (bp' : BufferPool)
    (err : Option String) (h : bp.Agree) (he : bp.evictIfFull disk = .ok (bp', err)) :
    bp'.Agree := by
  unfold BufferPool.evictIfFull at he
  by_cases hfull : mapLen bp.pages ≥ bp.maxSize
  · rw [if_pos hfull] at he
    exact evictPage_agree bp disk bp' err h he
  · rw [if_neg hfull] at he
    cases he
    exact h

theorem GetPage_agree (bp : BufferPool) (disk : Disk) (tableName : String) (pageID now : Nat)
    (bp' : BufferPool) (r : Res BufferFrame) (h : bp.Agree)
    (hg : bp.GetPage disk tableName pageID now = .ok (bp', r)) : bp'.Agree := by
  unfold BufferPool.GetPage at hg
  cases hres : mapGet bp.pages pageID with
  | some frame =>
    rw [hres] at hg
    simp only at hg
    cases ha : bp.lruKCache.Access pageID now with
    | error m => rw [ha] at hg; cases hg
    | panic => rw [ha] at hg; cases hg
    | diverge => rw [ha] at hg; cases hg
    | ok lru =>
      rw [ha] at hg
      simp only [Res_ok_bind, Res_pure_eq] at hg
      have hb := congrArg Prod.fst (Res.ok.inj hg)
      simp only at hb
      rw [← hb]
      exact agree_access bp pageID now _ _ bp.dirtyPages lru h ha (Or.inl rfl)
        (fun hd => h.dirty_flag pageID frame hres hd)
  | none =>
    rw [hres] at hg
    simp only at hg
    cases he : bp.evictIfFull disk with
    | error m => rw [he] at hg; cases hg
    | panic => rw [he] at hg; cases hg
    | diverge => rw [he] at hg; cases hg
    | ok pr =>
      obtain ⟨bp1, err⟩ := pr
      have h1 := evictIfFull_agree bp disk bp1 err h he
      rw [he] at hg
      simp only [Res_ok_bind, Res_pure_eq] at hg
      cases err with
      | some e =>
        simp only at hg
        have hb := congrArg Prod.fst (Res.ok.inj hg)
        simp only at hb
        rw [← hb]; exact h1
      | none =>
        simp only at hg
        cases hrd : disk.readPage tableName pageID with
        | error m =>
          rw [hrd] at hg
          simp only [Res_pure_eq] at hg
          have hb := congrArg Prod.fst (Res.ok.inj hg)
          simp only at hb
          rw [← hb]; exact h1
        | panic => rw [hrd] at hg; cases hg
        | diverge => rw [hrd] at hg; cases hg
        | ok page =>
          rw [hrd] at hg
          simp only at hg
          cases ha : bp1.lruKCache.Access pageID now with
          | error m => rw [ha] at hg; cases hg
          | panic => rw [ha] at hg; cases hg
          | diverge => rw [ha] at hg; cases hg
          | ok lru =>
            rw [ha] at hg
            simp only [Res_ok_bind, Res_pure_eq] at hg
            have hb := congrArg Prod.fst (Res.ok.inj hg)
            simp only at hb
            rw [← hb]
            exact agree_access bp1 pageID now _ _ bp1.dirtyPages lru h1 ha (Or.inl rfl)
              (fun hd => by cases hd)

theorem AddNewPage_agree (bp : BufferPool) (disk : Disk) (tableName : String)
    (pageID now : Nat) (bp' : BufferPool) (r : Res BufferFrame) (h : bp.Agree)
    (hg : bp.AddNewPage disk tableName pageID now = .ok (bp', r)) : bp'.Agree := by
  unfold BufferPool.AddNewPage at hg
  cases hadd : disk.addNewPage tableName pageID with
  | error m =>
    rw [hadd] at hg
    simp only [Res_pure_eq] at hg
    have hb := congrArg Prod.fst (Res.ok.inj hg)
    simp only at hb
    rw [← hb]; exact h
  | panic => rw [hadd] at hg; cases hg
  | diverge => rw [hadd] at hg; cases hg
  | ok page =>
    rw [hadd] at hg
    simp only at hg
    cases he : bp.evictIfFull disk with
    | error m => rw [he] at hg; cases hg
    | panic => rw [he] at hg; cases hg
    | diverge => rw [he] at hg; cases hg
    | ok pr =>
      obtain ⟨bp1, err⟩ := pr
      have h1 := evictIfFull_agree bp disk bp1 err h he
      rw [he] at hg
      simp only [Res_ok_bind, Res_pure_eq] at hg
      cases err with
      | some e =>
        simp only at hg
        have hb := congrArg Prod.fst (Res.ok.inj hg)
        simp only at hb
        rw [← hb]; exact h1
      | none =>
        simp only at hg
        cases ha : bp1.lruKCache.Access pageID now with
        | error m => rw [ha] at hg; cases hg
        | panic => rw [ha] at hg; cases hg
        | diverge => rw [ha] at hg; cases hg
        | ok lru =>
          rw [ha] at hg
          simp only [Res_ok_bind, Res_pure_eq] at hg
          have hb := congrArg Prod.fst (Res.ok.inj hg)
          simp only at hb
          rw [← hb]
          exact agree_access bp1 pageID now _ _ (mapSet bp1.dirtyPages pageID false) lru h1 ha
            (Or.inr ⟨false, rfl⟩) (fun hd => by cases hd)

theorem MarkDirty_agree (bp : BufferPool) (tableName : String) (pageID : Nat) (h : bp.Agree) :
    (bp.MarkDirty tableName pageID).Agree := by
  unfold BufferPool.MarkDirty
  cases hres : mapGet bp.pages pageID with
  | none => exact h
  | some frame =>
    exact agree_update bp pageID frame _ bp.pinCounts (mapSet bp.dirtyPages pageID true) h hres
      (fun _ => rfl) (fun p hp => mapGet_mapSet_ne _ _ _ _ hp)
      (mapKeys_mapSet_nodup _ _ _ h.dirty_nodup)
      (fun _ => by rw [mapGet_mapSet_same]; rfl)

theorem Unpin_agree (bp : BufferPool) (tableName : String) (pageID : Nat) (h : bp.Agree) :
    (bp.Unpin tableName pageID).Agree := by
  unfold BufferPool.Unpin
  cases hres : mapGet bp.pages pageID with
  | none => exact h
  | some frame =>
    have hpin : (mapGet bp.pinCounts pageID).isSome = true := by
      rw [h.pins_keys, hres]; rfl
    simp only
    by_cases hle : frame.pinCount - 1 ≤ 0
    · rw [if_pos hle]
      refine agree_update bp pageID frame _ _ bp.dirtyPages h hres ?_ (fun _ _ => rfl)
        h.dirty_nodup (fun hd => h.dirty_flag pageID frame hres hd)
      intro p
      rw [isSome_mapSet, isSome_mapSet]
      by_cases hp : p = pageID
      · subst hp; simp [hpin]
      · simp [hp]
    · rw [if_neg hle]
      refine agree_update bp pageID frame _ _ bp.dirtyPages h hres ?_ (fun _ _ => rfl)
        h.dirty_nodup (fun hd => h.dirty_flag pageID frame hres hd)
      intro p
      rw [isSome_mapSet]
      by_cases hp : p = pageID
      · subst hp; simp [hpin]
      · simp [hp]

theorem flushOne_agree (disk : Disk) (bp bp' : BufferPool) (pageID : Nat) (h : bp.Agree)
    (hf : BufferPool.flushOne disk bp pageID = .ok bp') : bp'.Agree := by
  unfold BufferPool.flushOne at hf
  cases hres : mapGet bp.pages pageID with
  | none =>
    rw [hres] at hf
    cases hf
    exact h
  | some frame =>
    rw [hres] at hf
    simp only at hf
    cases hw : disk.writePage frame.tableName pageID frame.page with
    | error m => rw [hw] at hf; cases hf; exact h
    | panic => rw [hw] at hf; cases hf
    | diverge => rw [hw] at hf; cases hf
    | ok pg =>
      rw [hw] at hf
      simp only [Res_pure_eq] at hf
      rw [← Res.ok.inj hf]
      exact agree_update bp pageID frame _ bp.pinCounts (mapDel bp.dirtyPages pageID) h hres
        (fun _ => rfl) (fun p hp => mapGet_mapDel_ne _ _ _ hp)
        (mapKeys_mapDel_nodup _ _ h.dirty_nodup) (fun hd => by cases hd)

theorem flushLoop_agree (disk : Disk) (keys : List Nat) :
    ∀ (bp bp' : BufferPool), bp.Agree →
      keys.foldlM (BufferPool.flushOne disk) bp = .ok bp' → bp'.Agree := by
  induction keys with
  | nil =>
    intro bp bp' h hf
    cases hf
    exact h
  | cons k rest ih =>
    intro bp bp' h hf
    rw [List.foldlM_cons] at hf
    cases h1 : BufferPool.flushOne disk bp k with
    | error m => rw [h1] at hf; cases hf
    | panic => rw [h1] at hf; cases hf
    | diverge => rw [h1] at hf; cases hf
    | ok bp1 =>
      rw [h1] at hf
      exact ih bp1 bp' (flushOne_agree disk bp bp1 k h h1) hf

theorem apply_agree (bp bp' : BufferPool) (op : BPOp) (h : bp.Agree)
    (ha : bp.apply op = .ok bp') : bp'.Agree := by
  cases op with
  | getPage disk tableName pageID now =>
    simp only [BufferPool.apply] at ha
    cases hg : bp.GetPage disk tableName pageID now with
    | ok res =>
      obtain ⟨b, r⟩ := res
      rw [hg] at ha
      have := Res.ok.inj ha
      rw [← this]
      exact GetPage_agree bp disk tableName pageID now b r h hg
    | error m => rw [hg] at ha; cases ha
    | panic => rw [hg] at ha; cases ha
    | diverge => rw [hg] at ha; cases ha
  | addNewPage disk tableName pageID now =>
    simp only [BufferPool.apply] at ha
    cases hg : bp.AddNewPage disk tableName pageID now with
    | ok res =>
      obtain ⟨b, r⟩ := res
      rw [hg] at ha
      have := Res.ok.inj ha
      rw [← this]
      exact AddNewPage_agree bp disk tableName pageID now b r h hg
    | error m => rw [hg] at ha; cases ha
    | panic => rw [hg] at ha; cases ha
    | diverge => rw [hg] at ha; cases ha
  | markDirty tableName pageID =>
    have := Res.ok.inj ha
    rw [← this]
    exact MarkDirty_agree bp tableName pageID h
  | unpin tableName pageID =>
    have := Res.ok.inj ha
    rw [← this]
    exact Unpin_agree bp tableName pageID h
  | evictPage disk =>
    simp only [BufferPool.apply] at ha
    cases hg : bp.evictPage disk with
    | ok res =>
      obtain ⟨b, r⟩ := res
      rw [hg] at ha
      have := Res.ok.inj ha
      rw [← this]
      exact evictPage_agree bp disk b r h hg
    | error m => rw [hg] at ha; cases ha
    | panic => rw [hg] at ha; cases ha
    | diverge => rw [hg] at ha; cases ha
  | flushDirtyPages disk =>
    exact flushLoop_agree disk _ bp bp' h ha

theorem run_agree (ops : List BPOp) :
    ∀ (bp bp' : BufferPool), bp.Agree → bp.run ops = .ok bp' → bp'.Agree := by
  induction ops with
  | nil =>
    intro bp bp' h hr
    cases hr
    exact h
  | cons op rest ih =>
    intro bp bp' h hr
    unfold BufferPool.run at hr
    cases ha : bp.apply op with
    | error m => rw [ha] at hr; cases hr
    | panic => rw [ha] at hr; cases hr
    | diverge => rw [ha] at hr; cases hr
    | ok bp1 =>
      rw [ha] at hr
      exact ih bp1 bp' (apply_agree bp bp1 op h ha) hr

theorem NewBufferPool_agree (maxSize k : Int) : (NewBufferPool maxSize k).Agree where
  pins_keys := fun _ => rfl
  lru_keys := fun _ => rfl
  dirty_sub := fun _ h => by cases h
  dirty_flag := fun _ _ h _ => by cases h
  dirty_nodup := List.nodup_nil
  lru_inv := ⟨[], [], _, (NewLRUKCache_inv k maxSize).1, (NewLRUKCache_inv k maxSize).2⟩
  k_ok := fun _ h => by cases h

/-! ## The claims on the bookkeeping of the pool -/

theorem tracked_iff_listed (c : LRUKCache) (cold hot : List Nat) (h : c.EntriesInv cold hot)
    (p : Nat) : p ∈ pagesOf c.heap (cold ++ hot) ↔ (mapGet c.pageEntries p).isSome = true := by
  constructor
  · intro hp
    unfold pagesOf at hp
    obtain ⟨a, ha, hpa⟩ := List.mem_map.mp hp
    obtain ⟨e, he, _⟩ := h.node_entry a ha
    rw [← hpa, he]
    rfl
  · intro hp
    cases he : mapGet c.pageEntries p with
    | none => rw [he] at hp; cases hp
    | some e =>
      obtain ⟨_, a, _, hpa, hmem⟩ := h.entry_node p e he
      unfold pagesOf
      refine List.mem_map.mpr ⟨a, ?_, hpa⟩
      by_cases hh : e.isInHotList = true
      · rw [if_pos hh] at hmem
        exact List.mem_append_right _ hmem
      · rw [if_neg hh] at hmem
        exact List.mem_append_left _ hmem

theorem victimSpec_mem (pinned : Nat → Bool) (cp hp : List Nat)
    (hv : victimSpec pinned cp hp ≠ 0) :
    victimSpec pinned cp hp ∈ cp ++ hp ∧ pinned (victimSpec pinned cp hp) = false := by
  unfold victimSpec at hv ⊢
  cases hc : cp.find? (fun p => !pinned p) with
  | some p =>
    simp only
    have := List.find?_some hc
    exact ⟨List.mem_append_left _ (List.mem_of_find?_eq_some hc), by simpa using this⟩
  | none =>
    rw [hc] at hv
    simp only at hv ⊢
    cases hh : hp.find? (fun p => !pinned p) with
    | some p =>
      simp only
      have := List.find?_some hh
      exact ⟨List.mem_append_right _ (List.mem_of_find?_eq_some hh), by simpa using this⟩
    | none =>
      rw [hh] at hv
      exact absurd rfl hv

theorem write_error_ne (m : String) :
    "failed to write dirty page: " ++ m ≠ "victim page not found in buffer pool" := by
  intro h
  have h2 := congrArg (fun s => s.data.head?) h
  simp only [String.data_append] at h2
  have h3 : some (Char.ofNat 102) = some (Char.ofNat 118) := h2
  revert h3
  decide

/-- The victim `GetVictim` names in a pool whose structures agree is resident. -/
theorem victim_resident (bp : BufferPool) (h : bp.Agree) (pinned : Nat → Bool) :
    ∃ v, bp.lruKCache.GetVictim (some pinned) = .ok v ∧
      (v ≠ 0 → (mapGet bp.pages v).isSome = true ∧ pinned v = false) := by
  obtain ⟨cold, hot, cnt, hI, _⟩ := h.lru_inv
  refine ⟨_, GetVictim_spec bp.lruKCache cold hot hI.entries.lists pinned, ?_⟩
  intro hv
  obtain ⟨hm, hp⟩ := victimSpec_mem pinned _ _ hv
  refine ⟨?_, hp⟩
  rw [← h.lru_keys, ← tracked_iff_listed bp.lruKCache cold hot hI.entries]
  unfold pagesOf at hm ⊢
  rw [List.map_append]
  exact hm

/-- Claim C25: when the victim `GetVictim` chooses is resident and dirty and
`WritePage` of the disk manager fails for it, `evictPage` returns the write
error (wrapped as "failed to write dirty page") and the pool is the pool
before the call: `Pages`, `DirtyPages`, `PinCounts` and the LRU-K state are
unchanged, the victim is still resident and its frame is still dirty. -/
theorem C25_failed_write_aborts_eviction (bp : BufferPool) (disk : Disk) (v : Nat)
    (frame : BufferFrame) (e : String)
    (hv : bp.lruKCache.GetVictim (some fun pageID => decide (bp.pinCountOf pageID > 0)) = .ok v)
    (hv0 : v ≠ 0) (hf : mapGet bp.pages v = some frame) (hd : frame.isDirty = true)
    (hw : disk.writePage frame.tableName v frame.page = .error e) :
    ∃ bp', bp.evictPage disk = .ok (bp', some ("failed to write dirty page: " ++ e)) ∧
      bp'.pages = bp.pages ∧ bp'.dirtyPages = bp.dirtyPages ∧ bp'.pinCounts = bp.pinCounts ∧
      bp'.lruKCache = bp.lruKCache ∧ bp'.maxSize = bp.maxSize ∧
      mapGet bp'.pages v = some frame ∧ frame.isDirty = true := by
  refine ⟨bp, ?_, rfl, rfl, rfl, rfl, rfl, hf, hd⟩
  unfold BufferPool.evictPage
  simp only
  rw [hv]
  simp only [Res_ok_bind]
  rw [if_neg hv0, hf]
  simp only
  unfold writeBack
  rw [if_pos hd, hw]
  rfl

theorem dirtyPool_run : (NewBufferPool 1 2).run dirtyScenario = .ok dirtyPool := by
  rfl

theorem dirtyPool_frame : mapGet dirtyPool.pages 1 = some dirtyFrame := by
  decide

/-- Claim C25, witness: page 1 of `dirtyPool` is the victim and is dirty; on a
disk whose `WritePage` fails the eviction is aborted. -/
theorem C25_failed_write_aborts_eviction_witness :
    ∃ bp', dirtyPool.evictPage failingWriteDisk =
        .ok (bp', some ("failed to write dirty page: " ++ "disk full")) ∧
      bp'.pages = dirtyPool.pages ∧ bp'.dirtyPages = dirtyPool.dirtyPages ∧
      bp'.pinCounts = dirtyPool.pinCounts ∧ bp'.lruKCache = dirtyPool.lruKCache ∧
      bp'.maxSize = dirtyPool.maxSize ∧
      mapGet bp'.pages 1 = some dirtyFrame ∧ dirtyFrame.isDirty = true :=
  C25_failed_write_aborts_eviction dirtyPool failingWriteDisk 1 dirtyFrame "disk full"
    (by rfl) (by decide) dirtyPool_frame (by rfl) (by rfl)

/-- Claim C27: in every state reached from a new pool by `GetPage`,
`AddNewPage`, `MarkDirty`, `Unpin`, `evictPage` and `flushDirtyPages`, the keys
of `Pages`, the keys of `PinCounts` and the pages the LRU-K replacer tracks
(the keys of `PageEntries` and of `AccessHistory`, and the pages of the nodes
of its two lists) are the same set, every key of `DirtyPages` is a key of
`Pages`, and the page of every frame with `IsDirty = true` is a key of
`DirtyPages`. Hence `GetVictim` in `evictPage` returns the empty page id or a
resident page, and `evictPage` never returns the error "victim page not found
in buffer pool". -/
theorem C27_bookkeeping_agrees (maxSize k : Int) (ops : List BPOp) (bp : BufferPool)
    (hr : (NewBufferPool maxSize k).run ops = .ok bp) :
    (∀ p, p ∈ mapKeys bp.pages ↔ p ∈ mapKeys bp.pinCounts) ∧
    (∀ p, p ∈ mapKeys bp.pages ↔ p ∈ mapKeys bp.lruKCache.pageEntries) ∧
    (∀ p, p ∈ mapKeys bp.pages ↔ p ∈ mapKeys bp.lruKCache.accessHistory) ∧
    (∃ cold hot, bp.lruKCache.ListsInv cold hot ∧
      ∀ p, p ∈ mapKeys bp.pages ↔ p ∈ pagesOf bp.lruKCache.heap (cold ++ hot)) ∧
    (∀ p, p ∈ mapKeys bp.dirtyPages → p ∈ mapKeys bp.pages) ∧
    (∀ p f, mapGet bp.pages p = some f → f.isDirty = true → p ∈ mapKeys bp.dirtyPages) ∧
    (∃ v, bp.lruKCache.GetVictim (some fun pageID => decide (bp.pinCountOf pageID > 0)) = .ok v ∧
      (v ≠ 0 → v ∈ mapKeys bp.pages)) ∧
    (∀ disk bp' err, bp.evictPage disk = .ok (bp', err) →
      err ≠ some "victim page not found in buffer pool") := by
  have h := run_agree ops _ bp (NewBufferPool_agree maxSize k) hr
  obtain ⟨cold, hot, cnt, hI, hC⟩ := h.lru_inv
  obtain ⟨v, hv, hvres⟩ := victim_resident bp h (fun pageID => decide (bp.pinCountOf pageID > 0))
  refine ⟨?_, ?_, ?_, ⟨cold, hot, hI.entries.lists, ?_⟩, ?_, ?_, ⟨v, hv, ?_⟩, ?_⟩
  · intro p
    rw [mem_mapKeys_iff, mem_mapKeys_iff, h.pins_keys]
  · intro p
    rw [mem_mapKeys_iff, mem_mapKeys_iff, h.lru_keys]
  · intro p
    rw [mem_mapKeys_iff, mem_mapKeys_iff, hI.hist_keys, h.lru_keys]
  · intro p
    rw [mem_mapKeys_iff, tracked_iff_listed bp.lruKCache cold hot hI.entries, h.lru_keys]
  · intro p hp
    rw [mem_mapKeys_iff] at hp ⊢
    exact h.dirty_sub p hp
  · intro p f hf hd
    rw [mem_mapKeys_iff]
    exact h.dirty_flag p f hf hd
  · intro hv0
    rw [mem_mapKeys_iff]
    exact (hvres hv0).1
  · intro disk bp' err he
    unfold BufferPool.evictPage at he
    simp only at he
    rw [hv] at he
    simp only [Res_ok_bind] at he
    by_cases hz : v = 0
    · rw [if_pos hz] at he
      have hx : some "no evictable pages found (all pages are pinned)" = err :=
        congrArg Prod.snd (Res.ok.inj he)
      rw [← hx]
      decide
    · rw [if_neg hz] at he
      cases hf : mapGet bp.pages v with
      | none =>
        have := (hvres hz).1
        rw [hf] at this
        cases this
      | some frame =>
        rw [hf] at he
        simp only at he
        cases hw : writeBack disk frame v with
        | error m => rw [hw] at he; cases he
        | panic => rw [hw] at he; cases he
        | diverge => rw [hw] at he; cases he
        | ok o =>
          rw [hw] at he
          cases o with
          | none =>
            have hx : none = err := congrArg Prod.snd (Res.ok.inj he)
            rw [← hx]
            exact fun hx => by cases hx
          | some e =>
            have hx : some e = err := congrArg Prod.snd (Res.ok.inj he)
            rw [← hx]
            intro hx
            have hx' := Option.some.inj hx
            unfold writeBack at hw
            by_cases hd : frame.isDirty = true
            · rw [if_pos hd] at hw
              cases hwp : disk.writePage frame.tableName v frame.page with
              | ok pg => rw [hwp] at hw; cases hw
              | panic => rw [hwp] at hw; cases hw
              | diverge => rw [hwp] at hw; cases hw
              | error m =>
                rw [hwp] at hw
                have he2 := Option.some.inj (Res.ok.inj hw)
                rw [← he2] at hx'
                exact write_error_ne m hx'
            · rw [if_neg hd] at hw
              cases hw

/-- Claim C27, witness: the pool after `dirtyScenario`. -/
theorem C27_bookkeeping_agrees_witness :
    (NewBufferPool 1 2).run dirtyScenario = .ok dirtyPool ∧
    ((∀ p, p ∈ mapKeys dirtyPool.pages ↔ p ∈ mapKeys dirtyPool.pinCounts) ∧
    (∀ p, p ∈ mapKeys dirtyPool.pages ↔ p ∈ mapKeys dirtyPool.lruKCache.pageEntries) ∧
    (∀ p, p ∈ mapKeys dirtyPool.pages ↔ p ∈ mapKeys dirtyPool.lruKCache.accessHistory) ∧
    (∃ cold hot, dirtyPool.lruKCache.ListsInv cold hot ∧
      ∀ p, p ∈ mapKeys dirtyPool.pages ↔ p ∈ pagesOf dirtyPool.lruKCache.heap (cold ++ hot)) ∧
    (∀ p, p ∈ mapKeys dirtyPool.dirtyPages → p ∈ mapKeys dirtyPool.pages) ∧
    (∀ p f, mapGet dirtyPool.pages p = some f → f.isDirty = true →
      p ∈ mapKeys dirtyPool.dirtyPages) ∧
    (∃ v, dirtyPool.lruKCache.GetVictim
        (some fun pageID => decide (dirtyPool.pinCountOf pageID > 0)) = .ok v ∧
      (v ≠ 0 → v ∈ mapKeys dirtyPool.pages)) ∧
    (∀ disk bp' err, dirtyPool.evictPage disk = .ok (bp', err) →
      err ≠ some "victim page not found in buffer pool")) :=
  ⟨dirtyPool_run, C27_bookkeeping_agrees 1 2 dirtyScenario dirtyPool dirtyPool_run⟩

/-! ## `GetPage` for a resident page -/

theorem reachable_inv (maxSize k : Int) (ops : List BPOp) (bp : BufferPool)
    (hr : (NewBufferPool maxSize k).run ops = .ok bp) : bp.Agree ∧ bp.Inv maxSize :=
  ⟨run_agree ops _ bp (NewBufferPool_agree maxSize k) hr,
   run_inv maxSize ops _ bp (NewBufferPool_inv maxSize k) hr⟩

/-- Claim C23: in a state reached from a new pool in which `pid` is resident
with frame `frame`, `GetPage(table, pid)` returns, whatever the disk manager
would answer (no disk call is made), the resident frame: the frame stored for
`pid` after the call, which is `frame` with `PinCount` one higher, `IsPinned`
set and `LastAccessed = now`; `PinCounts[pid]` is one higher; the replacer has
seen one `Access(pid)` (the access count of the page is one higher); no page is
added or removed, the frames and pin counts of the other pages, `DirtyPages`
and `MaxSize` are unchanged. -/
theorem C23_getPage_hit (maxSize k : Int) (ops : List BPOp) (bp : BufferPool)
    (tableName : String) (pid now : Nat) (frame : BufferFrame)
    (hr : (NewBufferPool maxSize k).run ops = .ok bp)
    (hres : mapGet bp.pages pid = some frame) :
    ∃ bp' f,
      (∀ disk, bp.GetPage disk tableName pid now = .ok (bp', .ok f)) ∧
      mapGet bp'.pages pid = some f ∧
      f = { frame with lastAccessed := now, pinCount := frame.pinCount + 1, isPinned := true } ∧
      bp'.pinCountOf pid = bp.pinCountOf pid + 1 ∧
      bp.lruKCache.Access pid now = .ok bp'.lruKCache ∧
      (∃ e e', mapGet bp.lruKCache.pageEntries pid = some e ∧
        mapGet bp'.lruKCache.pageEntries pid = some e' ∧
        e'.accessCount = e.accessCount + 1 ∧ e'.lastAccess = now) ∧
      (∀ q, q ≠ pid → mapGet bp'.pages q = mapGet bp.pages q ∧
        mapGet bp'.pinCounts q = mapGet bp.pinCounts q) ∧
      (∀ q, (mapGet bp'.pages q).isSome = (mapGet bp.pages q).isSome) ∧
      mapLen bp'.pages = mapLen bp.pages ∧
      bp'.dirtyPages = bp.dirtyPages ∧ bp'.maxSize = bp.maxSize := by
  obtain ⟨h, hinv⟩ := reachable_inv maxSize k ops bp hr
  obtain ⟨cold, hot, cnt, hI, hC⟩ := h.lru_inv
  have hent : (mapGet bp.lruKCache.pageEntries pid).isSome = true := by
    rw [h.lru_keys, hres]; rfl
  have hhist : (mapGet bp.lruKCache.accessHistory pid).isSome = true := by
    rw [hI.hist_keys]; exact hent
  obtain ⟨lru, ha⟩ := Access_ok_of_history bp.lruKCache pid now hhist
  obtain ⟨_, hC', _, _, _, ef, hef, hlast, _⟩ :=
    Access_inv bp.lruKCache lru pid now cold hot cnt hI hC ha
  refine ⟨{ bp with lruKCache := lru, pages := mapSet bp.pages pid { frame with lastAccessed := now, pinCount := frame.pinCount + 1, isPinned := true }, pinCounts := mapSet bp.pinCounts pid (bp.pinCountOf pid + 1) },
    { frame with lastAccessed := now, pinCount := frame.pinCount + 1, isPinned := true },
    ?_, ?_, rfl, ?_, ha, ?_, ?_, ?_, ?_, rfl, rfl⟩
  · intro disk
    unfold BufferPool.GetPage
    rw [hres]
    simp only
    rw [ha]
    rfl
  · exact mapGet_mapSet_same _ _ _
  · show (mapGet (mapSet bp.pinCounts pid (bp.pinCountOf pid + 1)) pid).getD 0 = _
    rw [mapGet_mapSet_same]
    rfl
  · cases he : mapGet bp.lruKCache.pageEntries pid with
    | none => rw [he] at hent; cases hent
    | some e =>
      refine ⟨e, ef, rfl, ?_, ?_, hlast⟩
      · show mapGet lru.pageEntries pid = some ef
        rw [hef, mapGet_mapSet_same]
      · have h1 := hC pid
        rw [he] at h1
        have h2 := hC' pid
        rw [hef, mapGet_mapSet_same] at h2
        simp only [countStep, if_pos] at h2
        rw [h2.1, h1.1]
        push_cast
        rfl
  · intro q hq
    exact ⟨mapGet_mapSet_ne _ _ _ _ hq, mapGet_mapSet_ne _ _ _ _ hq⟩
  · intro q
    show (mapGet (mapSet bp.pages pid _) q).isSome = _
    rw [isSome_mapSet]
    by_cases hq : q = pid
    · subst hq
      rw [hres]
      simp
    · simp [hq]
  · exact mapLen_mapSet_of_present _ _ _ frame hinv.keys_nodup hres

theorem onePagePool_run :
    (NewBufferPool 5 2).run [.addNewPage healthyDisk "t" 1 0] = .ok onePagePool := by
  rfl

theorem onePagePool_frame : mapGet onePagePool.pages 1 = some onePageFrame := by
  decide

/-- Claim C23, witness: after `AddNewPage("t", 1)` the call `GetPage("t", 1)`
returns the frame of page 1 with pin count 2, and `PinCounts[1] = 2`. -/
theorem C23_getPage_hit_witness :
    (NewBufferPool 5 2).run [.addNewPage healthyDisk "t" 1 0] = .ok onePagePool ∧
    mapGet onePagePool.pages 1 = some onePageFrame ∧ onePageFrame.pinCount = 1 ∧
    ∃ bp' f, (∀ disk, onePagePool.GetPage disk "t" 1 1 = .ok (bp', .ok f)) ∧
      mapGet bp'.pages 1 = some f ∧ f.pinCount = 2 ∧ f.isPinned = true ∧
      f.page = onePageFrame.page ∧ bp'.pinCountOf 1 = 2 := by
  obtain ⟨bp', f, h1, h2, h3, h4, _⟩ :=
    C23_getPage_hit 5 2 [.addNewPage healthyDisk "t" 1 0] onePagePool "t" 1 1 onePageFrame
      onePagePool_run onePagePool_frame
  refine ⟨onePagePool_run, onePagePool_frame, rfl, bp', f, h1, h2, ?_, ?_, ?_, ?_⟩
  · rw [h3]; rfl
  · rw [h3]
  · rw [h3]
  · rw [h4]; rfl

/-! ## One pass of `flushDirtyPages` -/

/-- One iteration of the write loop changes the frame and the dirty entry of
its page only. -/
theorem flushOne_spec (disk : Disk) (bp : BufferPool) (k : Nat)
    (hret : ∀ f, mapGet bp.pages k = some f → writeReturns disk k f) :
    ∃ bp', BufferPool.flushOne disk bp k = .ok bp' ∧
      bp'.pinCounts = bp.pinCounts ∧ bp'.lruKCache = bp.lruKCache ∧ bp'.maxSize = bp.maxSize ∧
      (∀ p, mapGet bp'.pages p =
        if p = k then flushedFrame disk p (mapGet bp.pages p) else mapGet bp.pages p) ∧
      (∀ p, mapGet bp'.dirtyPages p =
        if p = k then flushedDirty disk p (mapGet bp.pages p) (mapGet bp.dirtyPages p)
        else mapGet bp.dirtyPages p) := by
  unfold BufferPool.flushOne
  cases hres : mapGet bp.pages k with
  | none =>
    refine ⟨bp, rfl, rfl, rfl, rfl, ?_, ?_⟩
    · intro p
      by_cases hp : p = k
      · subst hp
        rw [if_pos rfl, hres]
        rfl
      · rw [if_neg hp]
    · intro p
      by_cases hp : p = k
      · subst hp
        rw [if_pos rfl, hres]
        rfl
      · rw [if_neg hp]
  | some frame =>
    simp only
    rcases hret frame hres with ⟨r, hw⟩ | ⟨e, hw⟩
    · rw [hw]
      refine ⟨_, rfl, rfl, rfl, rfl, ?_, ?_⟩
      · intro p
        by_cases hp : p = k
        · subst hp
          rw [if_pos rfl, hres]
          show mapGet (mapSet bp.pages p _) p = _
          rw [mapGet_mapSet_same]
          unfold flushedFrame
          simp only
          rw [hw]
        · rw [if_neg hp]
          exact mapGet_mapSet_ne _ _ _ _ hp
      · intro p
        by_cases hp : p = k
        · subst hp
          rw [if_pos rfl, hres]
          show mapGet (mapDel bp.dirtyPages p) p = _
          rw [mapGet_mapDel_same]
          unfold flushedDirty
          simp only
          rw [hw]
        · rw [if_neg hp]
          exact mapGet_mapDel_ne _ _ _ hp
    · rw [hw]
      refine ⟨bp, rfl, rfl, rfl, rfl, ?_, ?_⟩
      · intro p
        by_cases hp : p = k
        · subst hp
          rw [if_pos rfl, hres]
          unfold flushedFrame
          simp only
          rw [hw]
        · rw [if_neg hp]
      · intro p
        by_cases hp : p = k
        · subst hp
          rw [if_pos rfl, hres]
          unfold flushedDirty
          simp only
          rw [hw]
        · rw [if_neg hp]

/-- The write loop over distinct keys: every key is visited with the frame the
pool held before the loop. -/
theorem flushLoop_spec (disk : Disk) (keys : List Nat) (hnd : keys.Nodup) :
    ∀ (bp : BufferPool),
      (∀ p ∈ keys, ∀ f, mapGet bp.pages p = some f → writeReturns disk p f) →
      ∃ bp', keys.foldlM (BufferPool.flushOne disk) bp = .ok bp' ∧
        bp'.pinCounts = bp.pinCounts ∧ bp'.lruKCache = bp.lruKCache ∧
        bp'.maxSize = bp.maxSize ∧
        (∀ p, mapGet bp'.pages p =
          if p ∈ keys then flushedFrame disk p (mapGet bp.pages p) else mapGet bp.pages p) ∧
        (∀ p, mapGet bp'.dirtyPages p =
          if p ∈ keys then flushedDirty disk p (mapGet bp.pages p) (mapGet bp.dirtyPages p)
          else mapGet bp.dirtyPages p) := by
  induction keys with
  | nil =>
    intro bp _
    exact ⟨bp, rfl, rfl, rfl, rfl, (fun p => by simp), (fun p => by simp)⟩
  | cons k rest ih =>
    intro bp hret
    obtain ⟨hk, hrest⟩ := List.nodup_cons.mp hnd
    obtain ⟨bp1, h1, hp1, hl1, hm1, hpg1, hd1⟩ :=
      flushOne_spec disk bp k (fun f hf => hret k (List.mem_cons_self _ _) f hf)
    have hret1 : ∀ p ∈ rest, ∀ f, mapGet bp1.pages p = some f → writeReturns disk p f := by
      intro p hp f hf
      have hpk : p ≠ k := fun e => hk (e ▸ hp)
      rw [hpg1, if_neg hpk] at hf
      exact hret p (List.mem_cons_of_mem _ hp) f hf
    obtain ⟨bp', h2, hp2, hl2, hm2, hpg2, hd2⟩ := ih hrest bp1 hret1
    refine ⟨bp', ?_, hp2.trans hp1, hl2.trans hl1, hm2.trans hm1, ?_, ?_⟩
    · rw [List.foldlM_cons, h1]
      exact h2
    · intro p
      rw [hpg2, hpg1]
      by_cases hpk : p = k
      · subst hpk
        rw [if_neg hk, if_pos rfl, if_pos (List.mem_cons_self _ _)]
      · rw [if_neg hpk]
        by_cases hpr : p ∈ rest
        · rw [if_pos hpr, if_pos (List.mem_cons_of_mem _ hpr)]
        · rw [if_neg hpr, if_neg (fun hm => by
            rcases List.mem_cons.mp hm with e | e
            · exact hpk e
            · exact hpr e)]
    · intro p
      rw [hd2, hpg1, hd1]
      by_cases hpk : p = k
      · subst hpk
        rw [if_neg hk, if_pos rfl, if_pos (List.mem_cons_self _ _)]
      · simp only [if_neg hpk]
        have hiff : p ∈ k :: rest ↔ p ∈ rest := by
          rw [List.mem_cons]
          exact ⟨fun hm => hm.resolve_left hpk, Or.inr⟩
        by_cases hpr : p ∈ rest
        · rw [if_pos hpr, if_pos (hiff.mpr hpr)]
        · rw [if_neg hpr, if_neg (fun hm => hpr (hiff.mp hm))]

/-- The write loop keeps the number of frames. -/
theorem flushLoop_len (disk : Disk) (keys : List Nat) :
    ∀ (bp bp' : BufferPool), (mapKeys bp.pages).Nodup →
      keys.foldlM (BufferPool.flushOne disk) bp = .ok bp' →
      (mapKeys bp'.pages).Nodup ∧ mapLen bp'.pages = mapLen bp.pages := by
  induction keys with
  | nil =>
    intro bp bp' hn hf
    cases hf
    exact ⟨hn, rfl⟩
  | cons k rest ih =>
    intro bp bp' hn hf
    rw [List.foldlM_cons] at hf
    cases h1 : BufferPool.flushOne disk bp k with
    | error m => rw [h1] at hf; cases hf
    | panic => rw [h1] at hf; cases hf
    | diverge => rw [h1] at hf; cases hf
    | ok bp1 =>
      rw [h1] at hf
      have hstep : (mapKeys bp1.pages).Nodup ∧ mapLen bp1.pages = mapLen bp.pages := by
        unfold BufferPool.flushOne at h1
        cases hres : mapGet bp.pages k with
        | none =>
          rw [hres] at h1
          cases h1
          exact ⟨hn, rfl⟩
        | some frame =>
          rw [hres] at h1
          simp only at h1
          cases hw : disk.writePage frame.tableName k frame.page with
          | error m => rw [hw] at h1; cases h1; exact ⟨hn, rfl⟩
          | panic => rw [hw] at h1; cases h1
          | diverge => rw [hw] at h1; cases h1
          | ok pg =>
            rw [hw] at h1
            simp only [Res_pure_eq] at h1
            rw [← Res.ok.inj h1]
            exact ⟨mapKeys_mapSet_nodup _ _ _ hn, mapLen_mapSet_of_present _ _ _ frame hn hres⟩
      obtain ⟨hn2, hl2⟩ := ih bp1 bp' hstep.1 hf
      exact ⟨hn2, hl2.trans hstep.2⟩

/-- Claim C26: in a state reached from a new pool, when `WritePage` returns
for the resident pages of the dirty set, one pass of `flushDirtyPages` returns
and: a resident page of the dirty set whose `WritePage` succeeded has its
frame with `IsDirty = false` and is no longer a key of `DirtyPages`; a page
whose `WritePage` failed keeps its frame (with its `IsDirty` flag) and its
entry of `DirtyPages`; the pages outside the dirty set keep their frames;
`PinCounts`, the LRU-K state and `MaxSize` are unchanged and the frame table
holds the same pages with the same frames up to the `IsDirty` flag. When every
write succeeds, no resident frame is dirty afterwards and `DirtyPages` is
empty. -/
theorem C26_flush_pass (maxSize k : Int) (ops : List BPOp) (bp : BufferPool) (disk : Disk)
    (hr : (NewBufferPool maxSize k).run ops = .ok bp)
    (hret : ∀ p f, p ∈ mapKeys bp.dirtyPages → mapGet bp.pages p = some f →
      writeReturns disk p f) :
    ∃ bp', bp.flushDirtyPages disk = .ok bp' ∧
      (∀ p f r, p ∈ mapKeys bp.dirtyPages → mapGet bp.pages p = some f →
        disk.writePage f.tableName p f.page = .ok r →
        mapGet bp'.pages p = some { f with isDirty := false } ∧ p ∉ mapKeys bp'.dirtyPages) ∧
      (∀ p f e, p ∈ mapKeys bp.dirtyPages → mapGet bp.pages p = some f →
        disk.writePage f.tableName p f.page = .error e →
        mapGet bp'.pages p = some f ∧ mapGet bp'.dirtyPages p = mapGet bp.dirtyPages p) ∧
      (∀ p, p ∉ mapKeys bp.dirtyPages →
        mapGet bp'.pages p = mapGet bp.pages p ∧ p ∉ mapKeys bp'.dirtyPages) ∧
      bp'.pinCounts = bp.pinCounts ∧ bp'.lruKCache = bp.lruKCache ∧ bp'.maxSize = bp.maxSize ∧
      (∀ p, (mapGet bp'.pages p).map (fun f => { f with isDirty := false }) =
        (mapGet bp.pages p).map (fun f => { f with isDirty := false })) ∧
      mapLen bp'.pages = mapLen bp.pages ∧
      ((∀ p f, p ∈ mapKeys bp.dirtyPages → mapGet bp.pages p = some f →
          ∃ r, disk.writePage f.tableName p f.page = .ok r) →
        (∀ p f, mapGet bp'.pages p = some f → f.isDirty = false) ∧
        mapKeys bp'.dirtyPages = []) := by
  obtain ⟨h, hinv⟩ := reachable_inv maxSize k ops bp hr
  obtain ⟨bp', hfl, hp, hl, hm, hpg, hd⟩ :=
    flushLoop_spec disk (mapKeys bp.dirtyPages) h.dirty_nodup bp (fun p hpm f hf => hret p f hpm hf)
  have hlen := flushLoop_len disk (mapKeys bp.dirtyPages) bp bp' hinv.keys_nodup hfl
  have hnot : ∀ p, p ∉ mapKeys bp.dirtyPages → mapGet bp.dirtyPages p = none := by
    intro p hpm
    rw [mem_mapKeys_iff] at hpm
    cases hx : mapGet bp.dirtyPages p with
    | none => rfl
    | some b => rw [hx] at hpm; exact absurd rfl hpm
  refine ⟨bp', hfl, ?_, ?_, ?_, hp, hl, hm, ?_, hlen.2, ?_⟩
  · intro p f r hpm hf hw
    rw [hpg, if_pos hpm, hf, mem_mapKeys_iff, hd, if_pos hpm, hf]
    unfold flushedFrame flushedDirty
    simp only
    rw [hw]
    exact ⟨rfl, by simp⟩
  · intro p f e hpm hf hw
    rw [hpg, if_pos hpm, hf, hd, if_pos hpm, hf]
    unfold flushedFrame flushedDirty
    simp only
    rw [hw]
    exact ⟨rfl, rfl⟩
  · intro p hpm
    rw [hpg, if_neg hpm, mem_mapKeys_iff, hd, if_neg hpm, hnot p hpm]
    exact ⟨rfl, by simp⟩
  · intro p
    rw [hpg]
    by_cases hpm : p ∈ mapKeys bp.dirtyPages
    · rw [if_pos hpm]
      cases hf : mapGet bp.pages p with
      | none => rfl
      | some f =>
        unfold flushedFrame
        simp only
        cases disk.writePage f.tableName p f.page <;> rfl
    · rw [if_neg hpm]
  · intro hall
    constructor
    · intro p f hf
      rw [hpg] at hf
      by_cases hpm : p ∈ mapKeys bp.dirtyPages
      · rw [if_pos hpm] at hf
        cases hf0 : mapGet bp.pages p with
        | none =>
          rw [hf0] at hf
          cases hf
        | some f0 =>
          obtain ⟨r, hw⟩ := hall p f0 hpm hf0
          rw [hf0] at hf
          unfold flushedFrame at hf
          simp only at hf
          rw [hw] at hf
          rw [← Option.some.inj hf]
      · rw [if_neg hpm] at hf
        cases hdf : f.isDirty with
        | false => rfl
        | true =>
          have := h.dirty_flag p f hf hdf
          rw [← mem_mapKeys_iff] at this
          exact absurd this hpm
    · rw [List.eq_nil_iff_forall_not_mem]
      intro p hpm'
      rw [mem_mapKeys_iff, hd] at hpm'
      by_cases hpm : p ∈ mapKeys bp.dirtyPages
      · rw [if_pos hpm] at hpm'
        have hres := h.dirty_sub p ((mem_mapKeys_iff _ _).mp hpm)
        cases hf0 : mapGet bp.pages p with
        | none => rw [hf0] at hres; cases hres
        | some f0 =>
          obtain ⟨r, hw⟩ := hall p f0 hpm hf0
          rw [hf0] at hpm'
          unfold flushedDirty at hpm'
          simp only at hpm'
          rw [hw] at hpm'
          cases hpm'
      · rw [if_neg hpm, hnot p hpm] at hpm'
        cases hpm'

theorem flushPool_run : (NewBufferPool 5 2).run flushScenario = .ok flushPool := by
  rfl

theorem page2FailsDisk_returns (p : Nat) (f : BufferFrame) : writeReturns page2FailsDisk p f := by
  unfold writeReturns page2FailsDisk
  by_cases hp : p = 2
  · right
    exact ⟨"disk full", by simp [hp]⟩
  · left
    exact ⟨f.page, by simp [hp]⟩

/-- Claim C26, witness: pages 1 and 2 are dirty, page 3 is clean, and the
write of page 2 fails: after the pass page 1 is clean and out of the dirty set,
page 2 is dirty and in the dirty set. -/
theorem C26_flush_pass_witness :
    (NewBufferPool 5 2).run flushScenario = .ok flushPool ∧
    (mapGet flushPool.pages 1).map (fun f => f.isDirty) = some true ∧
    (mapGet flushPool.pages 2).map (fun f => f.isDirty) = some true ∧
    ∃ bp', flushPool.flushDirtyPages page2FailsDisk = .ok bp' ∧
      (mapGet bp'.pages 1).map (fun f => f.isDirty) = some false ∧
      1 ∉ mapKeys bp'.dirtyPages ∧
      mapGet bp'.pages 2 = mapGet flushPool.pages 2 ∧
      mapGet bp'.dirtyPages 2 = some true ∧
      bp'.pinCounts = flushPool.pinCounts ∧ bp'.lruKCache = flushPool.lruKCache := by
  obtain ⟨bp', hfl, hok, herr, _, hp, hl, _⟩ :=
    C26_flush_pass 5 2 flushScenario flushPool page2FailsDisk flushPool_run
      (fun p f _ _ => page2FailsDisk_returns p f)
  have h1 := hok 1 _ (emptyPage 1) (by decide) (by decide : mapGet flushPool.pages 1 = some
    { pageID := 1, tableName := "t", page := emptyPage 1, isDirty := true, isPinned := true, lastAccessed := 0, pinCount := 1 }) rfl
  have h2 := herr 2 _ "disk full" (by decide) (by decide : mapGet flushPool.pages 2 = some
    { pageID := 2, tableName := "t", page := emptyPage 2, isDirty := true, isPinned := true, lastAccessed := 1, pinCount := 1 }) rfl
  refine ⟨flushPool_run, by decide, by decide, bp', hfl, ?_, h1.2, ?_, ?_, hp, hl⟩
  · rw [h1.1]; rfl
  · rw [h2.1]; decide
  · rw [h2.2]; decide

/-! ## A full pool whose pages are pinned -/

theorem victimSpec_all_pinned (pinned : Nat → Bool) (cp hp : List Nat)
    (h : ∀ p ∈ cp ++ hp, pinned p = true) : victimSpec pinned cp hp = 0 := by
  unfold victimSpec
  have hc : cp.find? (fun p => !pinned p) = none := by
    rw [List.find?_eq_none]
    intro p hp'
    simp [h p (List.mem_append_left _ hp')]
  have hh : hp.find? (fun p => !pinned p) = none := by
    rw [List.find?_eq_none]
    intro p hp'
    simp [h p (List.mem_append_right _ hp')]
  rw [hc, hh]

theorem victimSpec_only (pinned : Nat → Bool) (cp hp : List Nat) (q : Nat)
    (hq : q ∈ cp ++ hp) (hqp : pinned q = false)
    (h : ∀ p ∈ cp ++ hp, p ≠ q → pinned p = true) : victimSpec pinned cp hp = q := by
  have hsome : ∀ l : List Nat, (∀ p ∈ l, p ∈ cp ++ hp) → ∀ p,
      l.find? (fun p => !pinned p) = some p → p = q := by
    intro l hl p hf
    have h1 := List.find?_some hf
    have h2 := hl p (List.mem_of_find?_eq_some hf)
    by_contra hne
    have := h p h2 hne
    simp [this] at h1
  have hnone : ∀ l : List Nat, q ∈ l → l.find? (fun p => !pinned p) ≠ none := by
    intro l hl hf
    rw [List.find?_eq_none] at hf
    have := hf q hl
    simp [hqp] at this
  unfold victimSpec
  cases hc : cp.find? (fun p => !pinned p) with
  | some p =>
    exact hsome cp (fun p hp' => List.mem_append_left _ hp') p hc
  | none =>
    simp only
    have hqh : q ∈ hp := by
      rcases List.mem_append.mp hq with hq' | hq'
      · exact absurd hc (hnone cp hq')
      · exact hq'
    cases hh : hp.find? (fun p => !pinned p) with
    | some p =>
      exact hsome hp (fun p hp' => List.mem_append_right _ hp') p hh
    | none => exact absurd hh (hnone hp hqh)

theorem pagesOf_append (heap : Nat → Node) (l1 l2 : List Nat) :
    pagesOf heap (l1 ++ l2) = pagesOf heap l1 ++ pagesOf heap l2 := by
  unfold pagesOf
  exact List.map_append _ _ _

/-- With every resident page pinned `evictPage` finds no victim. -/
theorem evictPage_all_pinned (bp : BufferPool) (disk : Disk) (h : bp.Agree)
    (hpin : ∀ p, p ∈ mapKeys bp.pages → bp.pinCountOf p > 0) :
    bp.evictPage disk = .ok (bp, some "no evictable pages found (all pages are pinned)") := by
  obtain ⟨cold, hot, cnt, hI, _⟩ := h.lru_inv
  have hv := GetVictim_spec bp.lruKCache cold hot hI.entries.lists
    (fun pageID => decide (bp.pinCountOf pageID > 0))
  rw [victimSpec_all_pinned] at hv
  · unfold BufferPool.evictPage
    simp only
    rw [hv]
    rfl
  · intro p hp
    rw [← pagesOf_append, tracked_iff_listed bp.lruKCache cold hot hI.entries, h.lru_keys,
      ← mem_mapKeys_iff] at hp
    simpa using hpin p hp

/-- With exactly one resident page unpinned `evictPage` removes that page. -/
theorem evictPage_only (bp : BufferPool) (disk : Disk) (h : bp.Agree) (q : Nat)
    (fq : BufferFrame) (hq0 : q ≠ 0) (hfq : mapGet bp.pages q = some fq)
    (hqp : bp.pinCountOf q ≤ 0)
    (hpin : ∀ p, p ∈ mapKeys bp.pages → p ≠ q → bp.pinCountOf p > 0)
    (hwb : writeBack disk fq q = .ok none) :
    bp.evictPage disk =
      .ok ({ bp with pages := mapDel bp.pages q, dirtyPages := mapDel bp.dirtyPages q,
                     pinCounts := mapDel bp.pinCounts q,
                     lruKCache := (bp.lruKCache.Evict q).1 }, none) := by
  obtain ⟨cold, hot, cnt, hI, _⟩ := h.lru_inv
  have hv := GetVictim_spec bp.lruKCache cold hot hI.entries.lists
    (fun pageID => decide (bp.pinCountOf pageID > 0))
  have hres : ∀ p, p ∈ pagesOf bp.lruKCache.heap cold ++ pagesOf bp.lruKCache.heap hot ↔
      p ∈ mapKeys bp.pages := by
    intro p
    rw [← pagesOf_append, tracked_iff_listed bp.lruKCache cold hot hI.entries, h.lru_keys,
      ← mem_mapKeys_iff]
  rw [victimSpec_only _ _ _ q] at hv
  · unfold BufferPool.evictPage
    simp only
    rw [hv]
    simp only [Res_ok_bind]
    rw [if_neg hq0, hfq]
    simp only
    rw [hwb]
    rfl
  · rw [hres, mem_mapKeys_iff, hfq]
    rfl
  · simpa using hqp
  · intro p hp hne
    rw [hres] at hp
    simpa using hpin p hp hne

theorem Access_ok_of_K (c : LRUKCache) (p now : Nat) (hK : 0 ≤ c.K) :
    ∃ c', c.Access p now = .ok c' := by
  unfold LRUKCache.Access LRUKCache.updateAccessHistory LRUKCache.historyFor
  cases hg : mapGet c.accessHistory p with
  | none =>
    simp only
    rw [if_neg (by omega)]
    exact ⟨_, rfl⟩
  | some x => exact ⟨_, rfl⟩

/-- The calls `Unpin(q)` change the frame and the pin count of `q` only. -/
theorem unpins_spec (t : String) (q : Nat) : ∀ (n : Nat) (bp bp2 : BufferPool),
    (mapKeys bp.pages).Nodup →
    bp.run (List.replicate n (.unpin t q)) = .ok bp2 →
    bp2.lruKCache = bp.lruKCache ∧ bp2.maxSize = bp.maxSize ∧ bp2.dirtyPages = bp.dirtyPages ∧
    (∀ p, p ≠ q → mapGet bp2.pages p = mapGet bp.pages p ∧
      mapGet bp2.pinCounts p = mapGet bp.pinCounts p) ∧
    (∀ p, (mapGet bp2.pages p).isSome = (mapGet bp.pages p).isSome) ∧
    (mapKeys bp2.pages).Nodup ∧ mapLen bp2.pages = mapLen bp.pages := by
  intro n
  induction n with
  | zero =>
    intro bp bp2 hn hr
    cases hr
    exact ⟨rfl, rfl, rfl, fun _ _ => ⟨rfl, rfl⟩, fun _ => rfl, hn, rfl⟩
  | succ n ih =>
    intro bp bp2 hn hr
    rw [List.replicate_succ] at hr
    have hr' : (bp.Unpin t q).run (List.replicate n (.unpin t q)) = .ok bp2 := hr
    have hstep : (bp.Unpin t q).lruKCache = bp.lruKCache ∧ (bp.Unpin t q).maxSize = bp.maxSize ∧
        (bp.Unpin t q).dirtyPages = bp.dirtyPages ∧
        (∀ p, p ≠ q → mapGet (bp.Unpin t q).pages p = mapGet bp.pages p ∧
          mapGet (bp.Unpin t q).pinCounts p = mapGet bp.pinCounts p) ∧
        (∀ p, (mapGet (bp.Unpin t q).pages p).isSome = (mapGet bp.pages p).isSome) ∧
        (mapKeys (bp.Unpin t q).pages).Nodup ∧ mapLen (bp.Unpin t q).pages = mapLen bp.pages := by
      unfold BufferPool.Unpin
      cases hres : mapGet bp.pages q with
      | none => exact ⟨rfl, rfl, rfl, fun _ _ => ⟨rfl, rfl⟩, fun _ => rfl, hn, rfl⟩
      | some frame =>
        have hkeys : ∀ (f : BufferFrame) (p : Nat),
            (mapGet (mapSet bp.pages q f) p).isSome = (mapGet bp.pages p).isSome := by
          intro f p
          rw [isSome_mapSet]
          by_cases hp : p = q
          · subst hp
            rw [hres]
            simp
          · simp [hp]
        simp only
        by_cases hle : frame.pinCount - 1 ≤ 0
        · rw [if_pos hle]
          refine ⟨rfl, rfl, rfl, ?_, hkeys _, mapKeys_mapSet_nodup _ _ _ hn,
            mapLen_mapSet_of_present _ _ _ frame hn hres⟩
          intro p hp
          refine ⟨mapGet_mapSet_ne _ _ _ _ hp, ?_⟩
          show mapGet (mapSet (mapSet bp.pinCounts q _) q 0) p = _
          rw [mapGet_mapSet_ne _ _ _ _ hp, mapGet_mapSet_ne _ _ _ _ hp]
        · rw [if_neg hle]
          refine ⟨rfl, rfl, rfl, ?_, hkeys _, mapKeys_mapSet_nodup _ _ _ hn,
            mapLen_mapSet_of_present _ _ _ frame hn hres⟩
          intro p hp
          exact ⟨mapGet_mapSet_ne _ _ _ _ hp, mapGet_mapSet_ne _ _ _ _ hp⟩
    obtain ⟨a1, a2, a3, a4, a5, a6, a7⟩ := hstep
    obtain ⟨b1, b2, b3, b4, b5, b6, b7⟩ := ih (bp.Unpin t q) bp2 a6 hr'
    refine ⟨b1.trans a1, b2.trans a2, b3.trans a3, ?_, ?_, b6, b7.trans a7⟩
    · intro p hp
      exact ⟨(b4 p hp).1.trans (a4 p hp).1, (b4 p hp).2.trans (a4 p hp).2⟩
    · intro p
      exact (b5 p).trans (a5 p)

/-- The pool after the eviction of `q` and the installation of `pid`. -/
theorem evicted_installed (bp : BufferPool) (q pid : Nat) (fq frame : BufferFrame)
    (dp : GoMap Bool) (lru : LRUKCache) (ef : PageEntry)
    (hn : (mapKeys bp.pages).Nodup) (hfq : mapGet bp.pages q = some fq)
    (hpid : mapGet bp.pages pid = none)
    (hdp : dp = mapDel bp.dirtyPages q ∨ dp = mapSet (mapDel bp.dirtyPages q) pid false)
    (hlru : lru.pageEntries = mapSet (mapDel bp.lruKCache.pageEntries q) pid ef) :
    EvictedAndInstalled bp
      { bp with pages := mapSet (mapDel bp.pages q) pid frame,
                pinCounts := mapSet (mapDel bp.pinCounts q) pid 1,
                dirtyPages := dp, lruKCache := lru } q pid frame := by
  have hne : q ≠ pid := by
    intro e
    rw [e, hpid] at hfq
    cases hfq
  have hdq : mapGet dp q = none := by
    rcases hdp with hdp | hdp
    · rw [hdp, mapGet_mapDel_same]
    · rw [hdp, mapGet_mapSet_ne _ _ _ _ hne, mapGet_mapDel_same]
  have hdo : ∀ p, p ≠ q → p ≠ pid → mapGet dp p = mapGet bp.dirtyPages p := by
    intro p h1 h2
    rcases hdp with hdp | hdp
    · rw [hdp, mapGet_mapDel_ne _ _ _ h1]
    · rw [hdp, mapGet_mapSet_ne _ _ _ _ h2, mapGet_mapDel_ne _ _ _ h1]
  refine ⟨?_, ?_, hdq, ?_, ?_, ?_, ?_, ?_, ?_, rfl⟩
  · show mapGet (mapSet (mapDel bp.pages q) pid frame) q = none
    rw [mapGet_mapSet_ne _ _ _ _ hne, mapGet_mapDel_same]
  · show mapGet (mapSet (mapDel bp.pinCounts q) pid 1) q = none
    rw [mapGet_mapSet_ne _ _ _ _ hne, mapGet_mapDel_same]
  · show mapGet lru.pageEntries q = none
    rw [hlru, mapGet_mapSet_ne _ _ _ _ hne, mapGet_mapDel_same]
  · exact mapGet_mapSet_same _ _ _
  · exact mapGet_mapSet_same _ _ _
  · show (mapGet lru.pageEntries pid).isSome = true
    rw [hlru, mapGet_mapSet_same]
    rfl
  · intro p h1 h2
    refine ⟨?_, ?_, hdo p h1 h2, ?_⟩
    · show mapGet (mapSet (mapDel bp.pages q) pid frame) p = _
      rw [mapGet_mapSet_ne _ _ _ _ h2, mapGet_mapDel_ne _ _ _ h1]
    · show mapGet (mapSet (mapDel bp.pinCounts q) pid 1) p = _
      rw [mapGet_mapSet_ne _ _ _ _ h2, mapGet_mapDel_ne _ _ _ h1]
    · show mapGet lru.pageEntries p = _
      rw [hlru, mapGet_mapSet_ne _ _ _ _ h2, mapGet_mapDel_ne _ _ _ h1]
  · show mapLen (mapSet (mapDel bp.pages q) pid frame) = mapLen bp.pages
    have hpid' : mapGet (mapDel bp.pages q) pid = none := by
      rw [mapGet_mapDel_ne _ _ _ (fun e => hne e.symm), hpid]
    rw [mapLen_mapSet_of_absent _ _ _ hpid', mapLen_mapDel_of_present _ _ fq hn hfq]
    omega

theorem evictIfFull_full (bp : BufferPool) (disk : Disk) (hfull : mapLen bp.pages = bp.maxSize) :
    bp.evictIfFull disk = bp.evictPage disk := by
  unfold BufferPool.evictIfFull
  rw [if_pos (by omega)]

/-- Claim C24: in a state reached from a new pool whose frame table holds
`MaxSize` frames and in which `PinCounts` is positive for every resident page,
`GetPage` for a non-resident page returns the error "no evictable pages found
(all pages are pinned)" and the pool is unchanged; so does `AddNewPage` once
the disk manager has added the page (when the disk manager fails, its error is
returned, the pool unchanged as well). After calls of `Unpin` for a resident
page `q` that bring `PinCounts[q]` to 0 (they change the frame and the pin
count of `q` only), the same call for a non-resident page, with a disk manager
that writes the frame of `q` back if it is dirty and delivers the new page,
removes `q` from every structure and installs the new page, pinned once; the
other pages are untouched. Page id 0 is the empty page id of `GetVictim` and
is no page of a table. -/
theorem C24_full_pinned_pool (maxSize k : Int) (ops : List BPOp) (bp : BufferPool)
    (disk : Disk) (tableName : String) (pid now : Nat)
    (hr : (NewBufferPool maxSize k).run ops = .ok bp)
    (hfull : mapLen bp.pages = bp.maxSize)
    (hpin : ∀ p, p ∈ mapKeys bp.pages → bp.pinCountOf p > 0) :
    (mapGet bp.pages pid = none →
      bp.GetPage disk tableName pid now =
        .ok (bp, .error "no evictable pages found (all pages are pinned)")) ∧
    (∀ page, disk.addNewPage tableName pid = .ok page →
      bp.AddNewPage disk tableName pid now =
        .ok (bp, .error "no evictable pages found (all pages are pinned)")) ∧
    (∀ e, disk.addNewPage tableName pid = .error e →
      bp.AddNewPage disk tableName pid now = .ok (bp, .error e)) ∧
    (∀ (t : String) (q n : Nat) (bp2 : BufferPool) (fq : BufferFrame),
      q ≠ 0 → bp.run (List.replicate n (.unpin t q)) = .ok bp2 →
      mapGet bp2.pages q = some fq → bp2.pinCountOf q = 0 →
      writeBack disk fq q = .ok none → mapGet bp.pages pid = none →
      (∀ p, p ≠ q → mapGet bp2.pages p = mapGet bp.pages p ∧
        mapGet bp2.pinCounts p = mapGet bp.pinCounts p) ∧
      (∀ page, disk.readPage tableName pid = .ok page →
        ∃ bp', bp2.GetPage disk tableName pid now =
            .ok (bp', .ok (newFrame tableName pid page now)) ∧
          EvictedAndInstalled bp2 bp' q pid (newFrame tableName pid page now)) ∧
      (∀ page, disk.addNewPage tableName pid = .ok page →
        ∃ bp', bp2.AddNewPage disk tableName pid now =
            .ok (bp', .ok (newFrame tableName pid page now)) ∧
          EvictedAndInstalled bp2 bp' q pid (newFrame tableName pid page now))) := by
  obtain ⟨h, hinv⟩ := reachable_inv maxSize k ops bp hr
  have hev := evictPage_all_pinned bp disk h hpin
  refine ⟨?_, ?_, ?_, ?_⟩
  · intro hnone
    unfold BufferPool.GetPage
    rw [hnone]
    simp only
    rw [evictIfFull_full bp disk hfull, hev]
    rfl
  · intro page hadd
    unfold BufferPool.AddNewPage
    rw [hadd]
    simp only
    rw [evictIfFull_full bp disk hfull, hev]
    rfl
  · intro e hadd
    unfold BufferPool.AddNewPage
    rw [hadd]
    rfl
  · intro t q n bp2 fq hq0 hrun hfq hq hwb hnone
    obtain ⟨u1, u2, u3, u4, u5, u6, u7⟩ := unpins_spec t q n bp bp2 hinv.keys_nodup hrun
    have h2 : bp2.Agree := run_agree _ bp bp2 h hrun
    have hfull2 : mapLen bp2.pages = bp2.maxSize := by rw [u7, u2, hfull]
    have hnone2 : mapGet bp2.pages pid = none := by
      have := u5 pid
      rw [hnone] at this
      cases hx : mapGet bp2.pages pid with
      | none => rfl
      | some x => rw [hx] at this; cases this
    have hpin2 : ∀ p, p ∈ mapKeys bp2.pages → p ≠ q → bp2.pinCountOf p > 0 := by
      intro p hp hne
      have hp' : p ∈ mapKeys bp.pages := by
        rw [mem_mapKeys_iff] at hp ⊢
        rw [← u5]; exact hp
      have := hpin p hp'
      unfold BufferPool.pinCountOf at this ⊢
      rw [(u4 p hne).2]
      exact this
    have hev2 := evictPage_only bp2 disk h2 q fq hq0 hfq (by omega) hpin2 hwb
    obtain ⟨cold, hot, cnt, hI, hC⟩ := h2.lru_inv
    obtain ⟨hI', hC', hK, _, _⟩ := Evict_inv bp2.lruKCache q cold hot cnt hI hC
    have hK0 : 0 ≤ (bp2.lruKCache.Evict q).1.K := by
      rw [hK]
      exact h2.k_ok q (by rw [hfq]; rfl)
    obtain ⟨lru, ha⟩ := Access_ok_of_K (bp2.lruKCache.Evict q).1 pid now hK0
    obtain ⟨_, _, _, _, _, ef, hef, _, _⟩ :=
      Access_inv (bp2.lruKCache.Evict q).1 lru pid now _ _ _ hI' hC' ha
    rw [Evict_entries] at hef
    refine ⟨u4, ?_, ?_⟩
    · intro page hread
      refine ⟨_, ?_, evicted_installed bp2 q pid fq (newFrame tableName pid page now)
        (mapDel bp2.dirtyPages q) lru ef u6 hfq hnone2 (Or.inl rfl) hef⟩
      unfold BufferPool.GetPage
      rw [hnone2]
      simp only
      rw [evictIfFull_full bp2 disk hfull2, hev2]
      simp only [Res_ok_bind]
      rw [hread]
      simp only
      rw [ha]
      rfl
    · intro page hadd
      refine ⟨_, ?_, evicted_installed bp2 q pid fq (newFrame tableName pid page now)
        (mapSet (mapDel bp2.dirtyPages q) pid false) lru ef u6 hfq hnone2 (Or.inr rfl) hef⟩
      unfold BufferPool.AddNewPage
      rw [hadd]
      simp only
      rw [evictIfFull_full bp2 disk hfull2, hev2]
      simp only [Res_ok_bind]
      rw [ha]
      rfl

theorem fullPool_run : (NewBufferPool 2 2).run fullScenario = .ok fullPool := by
  rfl

/-- Claim C24, witness: with capacity 2 and pages 1 and 2 pinned, adding page
3 fails and changes nothing; after `Unpin` of page 1, adding page 3 evicts
page 1 and installs page 3. -/
theorem C24_full_pinned_pool_witness :
    (NewBufferPool 2 2).run fullScenario = .ok fullPool ∧
    mapLen fullPool.pages = fullPool.maxSize ∧
    (∀ p, p ∈ mapKeys fullPool.pages → fullPool.pinCountOf p > 0) ∧
    fullPool.AddNewPage healthyDisk "t" 3 2 =
      .ok (fullPool, .error "no evictable pages found (all pages are pinned)") ∧
    fullPool.GetPage healthyDisk "t" 3 2 =
      .ok (fullPool, .error "no evictable pages found (all pages are pinned)") ∧
    fullPool.run [.unpin "t" 1] = .ok fullPoolUnpinned ∧
    fullPoolUnpinned.pinCountOf 1 = 0 ∧
    ∃ bp', fullPoolUnpinned.AddNewPage healthyDisk "t" 3 2 =
        .ok (bp', .ok (newFrame "t" 3 (emptyPage 3) 2)) ∧
      EvictedAndInstalled fullPoolUnpinned bp' 1 3 (newFrame "t" 3 (emptyPage 3) 2) := by
  have hc := C24_full_pinned_pool 2 2 fullScenario fullPool healthyDisk "t" 3 2 fullPool_run
    (by decide) (by decide)
  obtain ⟨h1, h2, _, h4⟩ := hc
  obtain ⟨_, _, h5⟩ := h4 "t" 1 1 fullPoolUnpinned
    { pageID := 1, tableName := "t", page := emptyPage 1, isDirty := false, isPinned := false, lastAccessed := 0, pinCount := 0 }
    (by decide) rfl (by decide) (by decide) rfl (by decide)
  exact ⟨fullPool_run, by decide, by decide, h2 (emptyPage 3) rfl, h1 (by decide), rfl,
    by decide, h5 (emptyPage 3) rfl⟩


/-! ## Page offsets in `uint32` -/

/-- C36 (counterexample): page ids 1 and 1048577 = 2^20 + 1 get the same file
offset 12, because `(1048577 - 1) * 4096 = 2^32` wraps to 0 in `uint32`; the
exact value for page 1048577 is 4294967308. Writing a page image at the offset
of page 1048577 puts it where page 1 is read. -/
theorem C36_counterexample_offsets_wrap :
    pageOffset 1 = 12 ∧ pageOffset 1048577 = 12 ∧ exactPageOffset 1048577 = 4294967308 ∧
    (1 : Nat) < 4294967296 ∧ (1048577 : Nat) < 4294967296 ∧
    (∀ file b : List Byte, b.length = 4096 →
      window (fileWriteAt file (pageOffset 1048577) b) (pageOffset 1) 4096 = b) := by
  refine ⟨by decide, by decide, by decide, by decide, by decide, ?_⟩
  intro file b hb
  have h1 : pageOffset 1048577 = 12 := by decide
  have h2 : pageOffset 1 = 12 := by decide
  rw [h1, h2, ← hb]
  exact (fileWriteAt_window file 12 b).2

/-- C36 (amended): for distinct page ids `1 <= i, j <= 1048576 = 2^20` the
offset computed in `uint32` is the exact value `12 + (id - 1) * 4096`, the two
4096-byte ranges are disjoint, and writing 4096 bytes at the offset of page `i`
into a file that holds both pages leaves the bytes of page `j` as they were. -/
theorem C36_offsets_exact_and_disjoint (i j : Nat) (hi : 1 ≤ i ∧ i ≤ 1048576)
    (hj : 1 ≤ j ∧ j ≤ 1048576) (hne : i ≠ j) :
    pageOffset i = exactPageOffset i ∧ pageOffset j = exactPageOffset j ∧
    (pageOffset i + 4096 ≤ pageOffset j ∨ pageOffset j + 4096 ≤ pageOffset i) ∧
    ∀ (file b : List Byte), b.length = 4096 → pageOffset i + 4096 ≤ file.length →
      (fileWriteAt file (pageOffset i) b).length = file.length ∧
      window (fileWriteAt file (pageOffset i) b) (pageOffset j) 4096 =
        window file (pageOffset j) 4096 := by
  have e1 : pageOffset i = exactPageOffset i := by
    unfold pageOffset exactPageOffset u32sub u32 DATA_FILE_HEADER_SIZE PAGE_SIZE
    omega
  have e2 : pageOffset j = exactPageOffset j := by
    unfold pageOffset exactPageOffset u32sub u32 DATA_FILE_HEADER_SIZE PAGE_SIZE
    omega
  have hd : pageOffset i + 4096 ≤ pageOffset j ∨ pageOffset j + 4096 ≤ pageOffset i := by
    rw [e1, e2]
    unfold exactPageOffset
    omega
  refine ⟨e1, e2, hd, ?_⟩
  intro file b hb hfit
  exact fileWriteAt_frame file (pageOffset i) b (by omega) (pageOffset j) 4096
    (by rcases hd with h | h
        · right; omega
        · left; omega)

/-- C36 (amended) at the pages 1 and 1048576: the last page id whose offset is
exact. -/
theorem C36_offsets_exact_and_disjoint_witness :
    pageOffset 1 = 12 ∧ pageOffset 1048576 = 4294963212 ∧
    (pageOffset 1 + 4096 ≤ pageOffset 1048576 ∨ pageOffset 1048576 + 4096 ≤ pageOffset 1) :=
  ⟨(C36_offsets_exact_and_disjoint 1 1048576 (by decide) (by decide) (by decide)).1,
   (C36_offsets_exact_and_disjoint 1 1048576 (by decide) (by decide) (by decide)).2.1,
   (C36_offsets_exact_and_disjoint 1 1048576 (by decide) (by decide) (by decide)).2.2.1⟩

/-! ## The name length field of `MetaDataHeader` and `ColumnInfo` -/

theorem Slice_read_u64 (s : Slice) (hwf : s.len ≤ s.mem.length) (lo hi : Nat)
    (h : hi = lo + 8) (h2 : hi ≤ s.len) {β : Type} (f : Nat → Res β) :
    (s.reslice lo hi >>= fun x => x.uint64 >>= f) = f (beVal64 (window s.bytes lo 8)) := by
  obtain ⟨s', hs', hl, _, hb⟩ := Slice_reslice_within s hwf lo hi (by omega) h2
  have e : hi - lo = 8 := by omega
  rw [e] at hl hb
  rw [hs']
  simp only [Res_ok_bind, Slice.uint64, hl, Nat.le_refl, if_true, hb]

/-- The slice expression `data[lo : lo + n]` (the sum in `uint32`) on a buffer
of `size` bytes whose capacity is its length: the `n` bytes from `lo` when they
are inside the buffer, a panic otherwise. -/
theorem reslice_name (b : List Byte) (lo n : Nat) (hlo : lo ≤ b.length)
    (hbl : b.length < 4294967296) (hn : n < 4294967296) :
    (lo + n ≤ b.length →
      ∃ s', (Slice.ofBytes b).reslice lo (u32 (lo + n)) = .ok s' ∧ s'.bytes = window b lo n) ∧
    (b.length < lo + n → (Slice.ofBytes b).reslice lo (u32 (lo + n)) = .panic) := by
  constructor
  · intro hfit
    have hu : u32 (lo + n) = lo + n := u32_of_lt (by omega)
    rw [hu]
    obtain ⟨s', hs', _, _, hb'⟩ := Slice_reslice_within (Slice.ofBytes b)
      (Slice_ofBytes_wf b) lo (lo + n) (by omega) (by unfold Slice.ofBytes; exact hfit)
    refine ⟨s', hs', ?_⟩
    rw [hb', Slice_ofBytes_bytes]
    congr 1
    omega
  · intro hover
    unfold Slice.reslice Slice.ofBytes
    rw [if_neg]
    unfold u32
    intro ⟨h1, h2⟩
    simp only at h2
    omega

theorem MetaDataHeader_Deserialize_any (b : List Byte) (hb : b.length = 52) :
    (beVal (window b 4 4) ≤ 40 →
      MetaDataHeader.Deserialize (Slice.ofBytes b) =
        .ok { magicNumber := beVal (window b 0 4), tableNameLen := beVal (window b 4 4),
              columnCount := beVal (window b 8 4), nextRowID := beVal64 (window b 44 8),
              tableName := window b 12 (beVal (window b 4 4)) }) ∧
    (40 < beVal (window b 4 4) → MetaDataHeader.Deserialize (Slice.ofBytes b) = .panic) := by
  have hwf := Slice_ofBytes_wf b
  have hlen : (Slice.ofBytes b).len = 52 := hb
  have hn := beVal_lt_pow (window b 4 4)
  have hr := reslice_name b 12 (beVal (window b 4 4)) (by omega) (by omega) hn
  have hunf : MetaDataHeader.Deserialize (Slice.ofBytes b) =
      ((Slice.ofBytes b).reslice 12 (u32 (12 + beVal (window b 4 4))) >>= fun tableNameBytes =>
        pure { magicNumber := beVal (window b 0 4), tableNameLen := beVal (window b 4 4),
               columnCount := beVal (window b 8 4), nextRowID := beVal64 (window b 44 8),
               tableName := tableNameBytes.bytes }) := by
    unfold MetaDataHeader.Deserialize
    rw [if_neg (by rw [hlen]; decide)]
    rw [Slice_read_u32 _ hwf 0 4 rfl (by rw [hlen]; decide),
      Slice_read_u32 _ hwf 4 8 rfl (by rw [hlen]; decide),
      Slice_read_u32 _ hwf 8 12 rfl (by rw [hlen]; decide)]
    simp only [TABLE_NAME_MAX_LENGTH]
    rw [Slice_read_u64 _ hwf 44 52 rfl (by rw [hlen])]
    simp only [Slice_ofBytes_bytes]
  rw [hunf]
  constructor
  · intro hle
    obtain ⟨s', hs', hb'⟩ := hr.1 (by omega)
    rw [hs']
    simp only [Res_ok_bind, Res_pure_eq, hb']
  · intro hgt
    rw [hr.2 (by omega)]
    rfl

theorem ColumnInfo_Deserialize_any (b : List Byte) (hb : b.length = 56) :
    (beVal (window b 0 4) ≤ 32 →
      ColumnInfo.Deserialize (Slice.ofBytes b) =
        .ok { columnNameLength := beVal (window b 0 4), dataType := beVal (window b 4 4),
              isNullable := beVal (window b 8 4), isPrimaryKey := beVal (window b 12 4),
              isAutoIncrement := beVal (window b 16 4), defaultValue := beVal (window b 20 4),
              columnName := window b 24 (beVal (window b 0 4)) }) ∧
    (32 < beVal (window b 0 4) → ColumnInfo.Deserialize (Slice.ofBytes b) = .panic) := by
  have hwf := Slice_ofBytes_wf b
  have hlen : (Slice.ofBytes b).len = 56 := hb
  have hn := beVal_lt_pow (window b 0 4)
  have hr := reslice_name b 24 (beVal (window b 0 4)) (by omega) (by omega) hn
  have hunf : ColumnInfo.Deserialize (Slice.ofBytes b) =
      ((Slice.ofBytes b).reslice 24 (u32 (24 + beVal (window b 0 4))) >>= fun columnNameBytes =>
        pure { columnNameLength := beVal (window b 0 4), dataType := beVal (window b 4 4),
               isNullable := beVal (window b 8 4), isPrimaryKey := beVal (window b 12 4),
               isAutoIncrement := beVal (window b 16 4), defaultValue := beVal (window b 20 4),
               columnName := columnNameBytes.bytes }) := by
    unfold ColumnInfo.Deserialize
    rw [if_neg (by rw [hlen]; decide)]
    rw [Slice_read_u32 _ hwf 0 4 rfl (by rw [hlen]; decide),
      Slice_read_u32 _ hwf 4 8 rfl (by rw [hlen]; decide),
      Slice_read_u32 _ hwf 8 12 rfl (by rw [hlen]; decide),
      Slice_read_u32 _ hwf 12 16 rfl (by rw [hlen]; decide),
      Slice_read_u32 _ hwf 16 20 rfl (by rw [hlen]; decide),
      Slice_read_u32 _ hwf 20 24 rfl (by rw [hlen]; decide)]
    simp only [Slice_ofBytes_bytes]
  rw [hunf]
  constructor
  · intro hle
    obtain ⟨s', hs', hb'⟩ := hr.1 (by omega)
    rw [hs']
    simp only [Res_ok_bind, Res_pure_eq, hb']
  · intro hgt
    rw [hr.2 (by omega)]
    rfl

theorem window_length_le (b : List Byte) (off n : Nat) (h : off + n ≤ b.length) :
    (window b off n).length = n := by
  unfold window
  rw [List.length_take, List.length_drop]
  omega

/-- C35 (failing input): `MetaDataHeader.Deserialize` and
`ColumnInfo.Deserialize` use the name length field without comparing it with
32. For every 52-byte buffer whose field holds `n`, the header is returned with
the `n` bytes `[12, 12 + n)` as name when `n <= 40` (for `33 <= n <= 40` more
than 32 bytes, reaching into the `NextRowID` bytes `[44, 52)`), and the call
panics when `n > 40`; for every 56-byte buffer the column is returned when
`n <= 32` and the call panics when `n > 32`. Neither returns an error.
`TableEntry.Deserialize` returns an error for a length field of 33. -/
theorem C35_name_length_unchecked :
    (∀ b : List Byte, b.length = 52 →
      (beVal (window b 4 4) ≤ 40 →
        ∃ h, MetaDataHeader.Deserialize (Slice.ofBytes b) = .ok h ∧
          h.tableName = window b 12 (beVal (window b 4 4)) ∧
          h.tableName.length = beVal (window b 4 4)) ∧
      (40 < beVal (window b 4 4) → MetaDataHeader.Deserialize (Slice.ofBytes b) = .panic)) ∧
    (∀ b : List Byte, b.length = 56 →
      (beVal (window b 0 4) ≤ 32 →
        ∃ c, ColumnInfo.Deserialize (Slice.ofBytes b) = .ok c ∧
          c.columnName = window b 24 (beVal (window b 0 4)) ∧
          c.columnName.length = beVal (window b 0 4)) ∧
      (32 < beVal (window b 0 4) → ColumnInfo.Deserialize (Slice.ofBytes b) = .panic)) ∧
    (metaHeaderBuffer 40).length = 52 ∧
    MetaDataHeader.Deserialize (Slice.ofBytes (metaHeaderBuffer 40)) =
      .ok { magicNumber := 0xFEDCBA98, tableNameLen := 40, columnCount := 0,
            nextRowID := 18446744073709551615,
            tableName := List.replicate 32 1 ++ List.replicate 8 255 } ∧
    MetaDataHeader.Deserialize (Slice.ofBytes (metaHeaderBuffer 41)) = .panic ∧
    (columnBuffer 33).length = 56 ∧
    ColumnInfo.Deserialize (Slice.ofBytes (columnBuffer 33)) = .panic ∧
    TableEntry.Deserialize (Slice.ofBytes (entryBuffer 33)) =
      .error "table name length exceeds maximum" := by
  refine ⟨?_, ?_, by decide, by decide, by decide, by decide, by decide, by decide⟩
  · intro b hb
    obtain ⟨h1, h2⟩ := MetaDataHeader_Deserialize_any b hb
    refine ⟨fun hle => ⟨_, h1 hle, rfl, ?_⟩, h2⟩
    exact window_length_le b 12 _ (by omega)
  · intro b hb
    obtain ⟨h1, h2⟩ := ColumnInfo_Deserialize_any b hb
    refine ⟨fun hle => ⟨_, h1 hle, rfl, ?_⟩, h2⟩
    exact window_length_le b 24 _ (by omega)

/-! ## `ConvertRawTupleToRow` on a wrapping length field -/

/-- C34 (failing input): for the schema (Text, Text) and the 8-byte payload
`00 00 00 00 FF FF FF F8` the second column declares `2^32 - 8` bytes;
`4 + length` is `2^32 - 4` and `dataOffset + cellDataSize = 4 + (2^32 - 4)`
wraps to 0, the check against `len(Data)` passes and the slice expression
`Data[4:0]` panics. A bitmap that is too short is handled: the missing bits are
read as not-null. -/
theorem C34_convert_panics_on_wrap :
    wrapTextTuple.data.length = 8 ∧
    ConvertRawTupleToRow wrapTextTuple [textColumn, textColumn] = .panic ∧
    ConvertRawTupleToRow noBitmapTuple [intColumn] =
      .ok [{ dataType := INT_32_TYPE, data := .int32 7, isNull := false }] ∧
    (∀ (bitmap : List Byte) (i : Nat), bitmap.length ≤ i / 8 → nullBit bitmap i = false) := by
  refine ⟨rfl, by decide, by decide, ?_⟩
  intro bitmap i h
  unfold nullBit
  rw [List.get?_eq_none.mpr h]

/-! ## `Row.GetSize`, the tuple length and the serialized tuple -/

theorem nearHugeText_length : nearHugeText.length = 4294967283 := List.length_replicate _ _

theorem cellGetSize_of_typed (cell : DataCell) (ht : CellTyped cell)
    (hsz : 4 + (cellBytes cell).length < 4294967296) :
    cell.GetSize = .ok (cellBytes cell).length := by
  unfold DataCell.GetSize cellBytes
  unfold cellBytes at hsz
  by_cases hn : cell.isNull = true
  · rw [if_pos hn, if_pos hn]
    rfl
  · have hn' : cell.isNull = false := by simpa using hn
    rw [if_neg hn, if_neg hn]
    rw [if_neg hn] at hsz
    by_cases h1 : cell.dataType = INT_32_TYPE
    · rw [if_pos h1, if_pos h1]
      obtain ⟨v, hv, _, _⟩ := (ht hn').1 h1
      rw [hv]
      rfl
    · rw [if_neg h1, if_neg h1]
      rw [if_neg h1] at hsz
      by_cases h2 : cell.dataType = TEXT_TYPE
      · rw [if_pos h2, if_pos h2]
        rw [if_pos h2] at hsz
        obtain ⟨s, hs⟩ := (ht hn').2 h2
        rw [hs] at hsz ⊢
        simp only [List.length_append, beBytes_length] at hsz ⊢
        have h3 : u32 s.length = s.length := u32_of_lt (by omega)
        have h4 : u32 (4 + s.length) = 4 + s.length := u32_of_lt (by omega)
        rw [h3, h4]
      · rw [if_neg h2, if_neg h2]
        rfl

theorem cellSizes_of_typed : ∀ (row : Row), (∀ cell ∈ row, CellTyped cell) →
    ∀ init : Nat, 4 + init + (row.flatMap cellBytes).length < 4294967296 →
    row.foldlM (fun (size : Nat) (cell : DataCell) => do
      let c ← cell.GetSize
      pure (u32 (size + c))) init = Res.ok (init + (row.flatMap cellBytes).length)
  | [], _, init, _ => rfl
  | cell :: rest, ht, init, hsz => by
    rw [List.flatMap_cons, List.length_append] at hsz ⊢
    rw [List.foldlM_cons, cellGetSize_of_typed cell (ht cell (List.mem_cons_self _ _)) (by omega)]
    have hu : u32 (init + (cellBytes cell).length) = init + (cellBytes cell).length :=
      u32_of_lt (by omega)
    refine Eq.trans (cellSizes_of_typed rest (fun c hc => ht c (List.mem_cons_of_mem _ hc))
      (u32 (init + (cellBytes cell).length)) (by rw [hu]; omega)) ?_
    rw [hu]
    congr 1
    omega

theorem bitmapSizeOf_bounds (n : Nat) (hn : n ≤ 32) :
    1 ≤ bitmapSizeOf n ∧ bitmapSizeOf n ≤ 4 ∧ n ≤ 8 * bitmapSizeOf n := by
  unfold bitmapSizeOf
  by_cases h0 : n = 0
  · rw [if_pos h0]; omega
  · rw [if_neg h0]; omega

theorem bitmapSizeOf_pos (n : Nat) (h : n ≠ 0) : bitmapSizeOf n = (n + 7) / 8 := by
  unfold bitmapSizeOf
  rw [if_neg h]

theorem RowGetSize_eq (row : Row) (hn : row.length ≤ 32) (ht : ∀ cell ∈ row, CellTyped cell)
    (hsz : 8 + bitmapSizeOf row.length + (row.flatMap cellBytes).length < 4294967296) :
    Row.GetSize row = .ok (8 + bitmapSizeOf row.length + (row.flatMap cellBytes).length) := by
  obtain ⟨h1, h4, _⟩ := bitmapSizeOf_bounds row.length hn
  unfold Row.GetSize
  rw [cellSizes_of_typed row ht 0 (by omega)]
  by_cases h0 : row.length = 0
  · have hr : row = [] := List.length_eq_zero.mp h0
    subst hr
    rfl
  · have hk := CalculateNullBitmapSize_eq row.length (by omega) hn
    rw [← bitmapSizeOf_pos _ h0] at hk
    simp only [Res_ok_bind, Res_pure_eq, hk, TUPLE_LENGTH_FIELD_SIZE, TUPLE_NULL_BITMAP_SIZE]
    congr 1
    rw [u32_of_lt (by omega)]
    omega

theorem ConvertRowToRawTuple_eq (row : Row) (hn : row.length ≤ 32)
    (ht : ∀ cell ∈ row, CellTyped cell)
    (hsz : 8 + bitmapSizeOf row.length + (row.flatMap cellBytes).length < 4294967296) :
    ∃ bm, bm.length = bitmapSizeOf row.length ∧
      ConvertRowToRawTuple row =
        .ok { length := 8 + bitmapSizeOf row.length + (row.flatMap cellBytes).length,
              nullBitmapSize := bitmapSizeOf row.length, nullBitmap := bm,
              data := row.flatMap cellBytes } := by
  obtain ⟨h1, h4, h8⟩ := bitmapSizeOf_bounds row.length hn
  obtain ⟨bm, hbm, hbl, _⟩ := fillNullBitmap_spec row 0 (makeBytes (bitmapSizeOf row.length))
    (by simp only [makeBytes, List.length_replicate]; omega)
  have hbl' : bm.length = bitmapSizeOf row.length := by
    rw [hbl]; simp only [makeBytes, List.length_replicate]
  refine ⟨bm, hbl', ?_⟩
  have hgs := RowGetSize_eq row hn ht hsz
  have hd := serializeCells_of_typed row ht (by omega)
  have hu1 : u32 (row.flatMap cellBytes).length = (row.flatMap cellBytes).length :=
    u32_of_lt (by omega)
  by_cases h0 : row.length = 0
  · have hr : row = [] := List.length_eq_zero.mp h0
    subst hr
    have : bm = [0] := by
      have : fillNullBitmap 0 [] (makeBytes (bitmapSizeOf ([] : Row).length)) = .ok [0] := rfl
      rw [this] at hbm
      exact (Res.ok.inj hbm).symm
    subst this
    rfl
  · have hk := CalculateNullBitmapSize_eq row.length (by omega) hn
    rw [← bitmapSizeOf_pos _ h0] at hk
    unfold ConvertRowToRawTuple
    simp only [if_neg h0, hk, hbm, hgs, hd,
      Res_ok_bind, Res_pure_eq, TUPLE_LENGTH_FIELD_SIZE, TUPLE_NULL_BITMAP_SIZE, hu1]
    rw [u32_of_lt (by omega)]

/-- C33 (counterexample): for the one-cell row holding a Text of `2^32 - 13`
bytes the payload has `2^32 - 9` bytes and the tuple `2^32` bytes:
`Row.GetSize` and the `Length` field both wrap to 0, and `RawTuple.Serialize`
of the tuple panics (it makes a buffer of `Length = 0` bytes and writes the
length field into its first four bytes). -/
theorem C33_counterexample_length_wraps :
    [nearHugeCell].length = 1 ∧ nearHugeCell.dataType = TEXT_TYPE ∧
    nearHugeCell.isNull = false ∧ nearHugeCell.data = .str nearHugeText ∧
    nearHugeText.length = 4294967283 ∧
    Row.GetSize [nearHugeCell] = .ok 0 ∧
    ConvertRowToRawTuple [nearHugeCell] =
      .ok { length := 0, nullBitmapSize := 1, nullBitmap := [0],
            data := beBytes 4294967283 ++ nearHugeText } ∧
    RawTuple.Serialize { length := 0, nullBitmapSize := 1, nullBitmap := [0],
                         data := beBytes 4294967283 ++ nearHugeText } = .panic := by
  have hd : nearHugeCell.data = .str nearHugeText := rfl
  have hser : nearHugeCell.SerializeData = .ok (beBytes 4294967283 ++ nearHugeText) := by
    unfold DataCell.SerializeData
    have h1 : nearHugeCell.isNull = false := rfl
    have h2 : nearHugeCell.dataType = TEXT_TYPE := rfl
    rw [h1, h2, serializeText_eq nearHugeCell nearHugeText hd
      (by rw [nearHugeText_length]; decide), nearHugeText_length]
    rfl
  have hgs : nearHugeCell.GetSize = .ok 4294967287 := by
    unfold DataCell.GetSize
    have h1 : nearHugeCell.isNull = false := rfl
    have h2 : nearHugeCell.dataType = TEXT_TYPE := rfl
    rw [h1, h2, hd]
    simp only [nearHugeText_length]
    rfl
  have hrs : Row.GetSize [nearHugeCell] = .ok 0 := by
    unfold Row.GetSize
    rw [List.foldlM_cons, hgs]
    rfl
  have hb : fillNullBitmap 0 [nearHugeCell] (makeBytes 1) = .ok [0] := rfl
  have hsc : serializeCells [nearHugeCell] = .ok (beBytes 4294967283 ++ nearHugeText) := by
    unfold serializeCells
    rw [hser]
    simp only [Res_ok_bind, serializeCells, Res_pure_eq, List.append_nil]
  refine ⟨rfl, rfl, rfl, rfl, nearHugeText_length, hrs, ?_, rfl⟩
  unfold ConvertRowToRawTuple
  have hc : CalculateNullBitmapSize (1 : Int) = .ok 1 := by decide
  have hlen : (beBytes 4294967283 ++ nearHugeText).length = 4294967287 := by
    rw [List.length_append, nearHugeText_length]
    rfl
  have hl : u32 (TUPLE_LENGTH_FIELD_SIZE + TUPLE_NULL_BITMAP_SIZE + 1 + u32 4294967287) = 0 := by
    unfold u32 TUPLE_LENGTH_FIELD_SIZE TUPLE_NULL_BITMAP_SIZE
    omega
  simp only [List.length_singleton, Nat.cast_one, hc, one_ne_zero, if_false, hb, hrs, hsc,
    Res_ok_bind, Res_pure_eq, hlen, hl]

/-- C33 (amended): for every row of 0 to 32 cells whose non-null cells carry a
value of their type and whose tuple has fewer than 2^32 bytes
(`8 + bitmap size + len(payload) < 2^32`), `Row.GetSize()` equals the `Length`
of the tuple `ConvertRowToRawTuple` returns, and `RawTuple.Serialize` of that
tuple returns exactly that many bytes. -/
theorem C33_size_agrees (row : Row) (hn : row.length ≤ 32)
    (ht : ∀ cell ∈ row, CellTyped cell)
    (hsz : 8 + bitmapSizeOf row.length + (row.flatMap cellBytes).length < 4294967296) :
    ∃ size tuple bytes, Row.GetSize row = .ok size ∧ ConvertRowToRawTuple row = .ok tuple ∧
      tuple.Serialize = .ok bytes ∧ size = tuple.length ∧ tuple.length = bytes.length ∧
      size = 8 + bitmapSizeOf row.length + (row.flatMap cellBytes).length := by
  obtain ⟨bm, hbl, hconv⟩ := ConvertRowToRawTuple_eq row hn ht hsz
  refine ⟨_, _, _, RowGetSize_eq row hn ht hsz, hconv,
    RawTuple_Serialize_eq _ hbl rfl hsz, rfl, ?_, rfl⟩
  rw [RawTuple_length_bytes]
  show _ = 8 + bm.length + (row.flatMap cellBytes).length
  rw [hbl]

/-- C33 (amended) on the empty row (9 bytes) and on the row (Int32 7, Text
NULL, Text "hi") (19 bytes). -/
theorem C33_size_agrees_witness :
    Row.GetSize [] = .ok 9 ∧ Row.GetSize mixedRow = .ok 19 ∧
    (∃ size tuple bytes, Row.GetSize [] = .ok size ∧ ConvertRowToRawTuple [] = .ok tuple ∧
      tuple.Serialize = .ok bytes ∧ size = tuple.length ∧ tuple.length = bytes.length ∧
      size = 8 + bitmapSizeOf ([] : Row).length + (([] : Row).flatMap cellBytes).length) ∧
    (∃ size tuple bytes, Row.GetSize mixedRow = .ok size ∧
      ConvertRowToRawTuple mixedRow = .ok tuple ∧
      tuple.Serialize = .ok bytes ∧ size = tuple.length ∧ tuple.length = bytes.length ∧
      size = 8 + bitmapSizeOf mixedRow.length + (mixedRow.flatMap cellBytes).length) :=
  ⟨by decide, by decide,
   C33_size_agrees [] (by decide) (fun _ h => by cases h) (by decide),
   C33_size_agrees mixedRow (by decide) mixedRow_typed (by decide)⟩


/-! ## `GetPage`, `MarkDirty` and `Unpin` ignore the table name -/

/-- The hit branch of `GetPage`. -/
theorem GetPage_hit (bp : BufferPool) (h : bp.Agree) (pid now : Nat) (frame : BufferFrame)
    (hres : mapGet bp.pages pid = some frame) :
    ∃ lru, bp.lruKCache.Access pid now = .ok lru ∧
      ∀ (disk : Disk) (tableName : String), bp.GetPage disk tableName pid now =
        .ok ({ bp with lruKCache := lru, pages := mapSet bp.pages pid { frame with lastAccessed := now, pinCount := frame.pinCount + 1, isPinned := true }, pinCounts := mapSet bp.pinCounts pid (bp.pinCountOf pid + 1) },
             .ok { frame with lastAccessed := now, pinCount := frame.pinCount + 1, isPinned := true }) := by
  obtain ⟨cold, hot, cnt, hI, hC⟩ := h.lru_inv
  have hent : (mapGet bp.lruKCache.pageEntries pid).isSome = true := by
    rw [h.lru_keys, hres]; rfl
  have hhist : (mapGet bp.lruKCache.accessHistory pid).isSome = true := by
    rw [hI.hist_keys]; exact hent
  obtain ⟨lru, ha⟩ := Access_ok_of_history bp.lruKCache pid now hhist
  refine ⟨lru, ha, ?_⟩
  intro disk tableName
  unfold BufferPool.GetPage
  rw [hres]
  simp only
  rw [ha]
  rfl

/-- Claim C37: in a state reached from a new pool in which `pid` is resident
with frame `frame`, `GetPage(t1, pid)` and `GetPage(t2, pid)` give the same
result for any two table names (and any answers of the disk manager): the
resident frame, with the `TableName`, `PageID` and page it was installed with;
`MarkDirty(t1, pid)` and `MarkDirty(t2, pid)` give the same pool, in which that
frame is dirty, and `Unpin(t1, pid)` and `Unpin(t2, pid)` give the same pool,
in which the pin count of that frame is one lower. -/
theorem C37_frames_keyed_by_page (maxSize k : Int) (ops : List BPOp) (bp : BufferPool)
    (pid now : Nat) (frame : BufferFrame) (t1 t2 : String) (d1 d2 : Disk)
    (hr : (NewBufferPool maxSize k).run ops = .ok bp)
    (hres : mapGet bp.pages pid = some frame) :
    bp.GetPage d1 t1 pid now = bp.GetPage d2 t2 pid now ∧
    (∃ bp' f, bp.GetPage d1 t1 pid now = .ok (bp', .ok f) ∧ mapGet bp'.pages pid = some f ∧
      f.tableName = frame.tableName ∧ f.pageID = frame.pageID ∧ f.page = frame.page ∧
      f.isDirty = frame.isDirty ∧ f.pinCount = frame.pinCount + 1) ∧
    bp.MarkDirty t1 pid = bp.MarkDirty t2 pid ∧
    mapGet (bp.MarkDirty t1 pid).pages pid = some { frame with isDirty := true } ∧
    bp.Unpin t1 pid = bp.Unpin t2 pid ∧
    (∃ f, mapGet (bp.Unpin t1 pid).pages pid = some f ∧ f.tableName = frame.tableName ∧
      f.page = frame.page ∧ f.pinCount = frame.pinCount - 1) := by
  obtain ⟨h, _⟩ := reachable_inv maxSize k ops bp hr
  obtain ⟨lru, _, hg⟩ := GetPage_hit bp h pid now frame hres
  refine ⟨by rw [hg d1 t1, hg d2 t2], ⟨_, _, hg d1 t1, mapGet_mapSet_same _ _ _,
    rfl, rfl, rfl, rfl, rfl⟩, rfl, ?_, rfl, ?_⟩
  · unfold BufferPool.MarkDirty
    rw [hres]
    exact mapGet_mapSet_same _ _ _
  · unfold BufferPool.Unpin
    rw [hres]
    simp only
    by_cases hle : frame.pinCount - 1 ≤ 0
    · rw [if_pos hle]
      exact ⟨_, mapGet_mapSet_same _ _ _, rfl, rfl, rfl⟩
    · rw [if_neg hle]
      exact ⟨_, mapGet_mapSet_same _ _ _, rfl, rfl, rfl⟩

theorem tablePool_run : (NewBufferPool 5 2).run [.getPage healthyDisk "a" 1 0] = .ok tablePool := by
  rfl

/-- Claim C37, witness: page 1 was installed by `GetPage("a", 1)`; the call
`GetPage("b", 1)` returns that frame, whose table name is "a". -/
theorem C37_frames_keyed_by_page_witness :
    (NewBufferPool 5 2).run [.getPage healthyDisk "a" 1 0] = .ok tablePool ∧
    mapGet tablePool.pages 1 = some (newFrame "a" 1 (emptyPage 1) 0) ∧
    tablePool.GetPage healthyDisk "b" 1 1 = tablePool.GetPage failingReadDisk "a" 1 1 ∧
    (∃ bp' f, tablePool.GetPage healthyDisk "b" 1 1 = .ok (bp', .ok f) ∧
      mapGet bp'.pages 1 = some f ∧ f.tableName = "a" ∧ f.pinCount = 2) ∧
    tablePool.MarkDirty "b" 1 = tablePool.MarkDirty "a" 1 ∧
    tablePool.Unpin "b" 1 = tablePool.Unpin "a" 1 := by
  have hc := C37_frames_keyed_by_page 5 2 [.getPage healthyDisk "a" 1 0] tablePool 1 1
    (newFrame "a" 1 (emptyPage 1) 0) "b" "a" healthyDisk failingReadDisk tablePool_run (by decide)
  obtain ⟨h1, ⟨bp', f, h2, h3, h4, _, _, _, h5⟩, h6, _, h7, _⟩ := hc
  exact ⟨tablePool_run, by decide, h1, ⟨bp', f, h2, h3, h4, h5⟩, h6, h7⟩

/-! ## `AddNewPage` for a resident page, and eviction before the read -/

theorem writeBack_ok_none (disk : Disk) (frame : BufferFrame) (v : Nat)
    (h : writeBack disk frame v = .ok none) :
    frame.isDirty = true → ∃ w, disk.writePage frame.tableName v frame.page = .ok w := by
  intro hd
  unfold writeBack at h
  rw [if_pos hd] at h
  cases hw : disk.writePage frame.tableName v frame.page with
  | ok w => exact ⟨w, rfl⟩
  | error m => rw [hw] at h; cases h
  | panic => rw [hw] at h; cases h
  | diverge => rw [hw] at h; cases h

theorem writeBack_congr (d d' : Disk) (frame : BufferFrame) (v : Nat)
    (h : ∀ tableName page, d'.writePage tableName v page = d.writePage tableName v page) :
    writeBack d' frame v = writeBack d frame v := by
  unfold writeBack
  rw [h]

/-- What `evictPage` does once the victim is known. -/
theorem evictPage_of_victim (bp : BufferPool) (disk : Disk) (v : Nat) (frame : BufferFrame)
    (hv : bp.lruKCache.GetVictim (some fun pageID => decide (bp.pinCountOf pageID > 0)) = .ok v)
    (hv0 : v ≠ 0) (hf : mapGet bp.pages v = some frame) :
    bp.evictPage disk =
      (writeBack disk frame v >>= fun err =>
        match err with
        | some e => pure (bp, some e)
        | none =>
            pure ({ bp with pages := mapDel bp.pages v, dirtyPages := mapDel bp.dirtyPages v,
                            pinCounts := mapDel bp.pinCounts v,
                            lruKCache := (bp.lruKCache.Evict v).1 }, none)) := by
  unfold BufferPool.evictPage
  simp only
  rw [hv]
  simp only [Res_ok_bind]
  rw [if_neg hv0, hf]

/-- A successful eviction: the victim `GetVictim` names is resident, not pinned,
written back if dirty, and removed from every structure. -/
theorem evictPage_ok_inv (bp : BufferPool) (disk : Disk) (bp1 : BufferPool)
    (h : bp.evictPage disk = .ok (bp1, none)) :
    ∃ v frame,
      bp.lruKCache.GetVictim (some fun pageID => decide (bp.pinCountOf pageID > 0)) = .ok v ∧
      v ≠ 0 ∧ bp.pinCountOf v ≤ 0 ∧ mapGet bp.pages v = some frame ∧
      writeBack disk frame v = .ok none ∧
      bp1 = { bp with pages := mapDel bp.pages v, dirtyPages := mapDel bp.dirtyPages v,
                      pinCounts := mapDel bp.pinCounts v,
                      lruKCache := (bp.lruKCache.Evict v).1 } := by
  cases hv : bp.lruKCache.GetVictim (some fun pageID => decide (bp.pinCountOf pageID > 0)) with
  | error m => unfold BufferPool.evictPage at h; simp only at h; rw [hv] at h; cases h
  | panic => unfold BufferPool.evictPage at h; simp only at h; rw [hv] at h; cases h
  | diverge => unfold BufferPool.evictPage at h; simp only at h; rw [hv] at h; cases h
  | ok v =>
    by_cases hz : v = 0
    · unfold BufferPool.evictPage at h
      simp only at h
      rw [hv] at h
      simp only [Res_ok_bind] at h
      rw [if_pos hz] at h
      have hx : some "no evictable pages found (all pages are pinned)" = (none : Option String) :=
        congrArg Prod.snd (Res.ok.inj h)
      cases hx
    · have hpin := GetVictim_sound _ _ v hv hz
      have hpin' : bp.pinCountOf v ≤ 0 := by simpa using hpin
      cases hf : mapGet bp.pages v with
      | none =>
        unfold BufferPool.evictPage at h
        simp only at h
        rw [hv] at h
        simp only [Res_ok_bind] at h
        rw [if_neg hz, hf] at h
        have hx : some "victim page not found in buffer pool" = (none : Option String) :=
          congrArg Prod.snd (Res.ok.inj h)
        cases hx
      | some frame =>
        rw [evictPage_of_victim bp disk v frame hv hz hf] at h
        cases hw : writeBack disk frame v with
        | error m => rw [hw] at h; cases h
        | panic => rw [hw] at h; cases h
        | diverge => rw [hw] at h; cases h
        | ok o =>
          rw [hw] at h
          cases o with
          | some e =>
            have hx : some e = (none : Option String) := congrArg Prod.snd (Res.ok.inj h)
            cases hx
          | none =>
            have hx := congrArg Prod.fst (Res.ok.inj h)
            exact ⟨v, frame, rfl, hz, hpin', hf, hw, hx.symm⟩

/-- A successful `AddNewPage`: the eviction step succeeded and the new frame
is installed in the pool it left. -/
theorem AddNewPage_ok_inv (bp : BufferPool) (disk : Disk) (tableName : String)
    (pid now : Nat) (page : Page) (bp' : BufferPool) (f : BufferFrame)
    (hadd : disk.addNewPage tableName pid = .ok page)
    (hok : bp.AddNewPage disk tableName pid now = .ok (bp', .ok f)) :
    ∃ bp1 lru, bp.evictIfFull disk = .ok (bp1, none) ∧
      bp1.lruKCache.Access pid now = .ok lru ∧ f = newFrame tableName pid page now ∧
      bp' = { bp1 with pages := mapSet bp1.pages pid (newFrame tableName pid page now),
                       pinCounts := mapSet bp1.pinCounts pid 1,
                       dirtyPages := mapSet bp1.dirtyPages pid false, lruKCache := lru } := by
  unfold BufferPool.AddNewPage at hok
  rw [hadd] at hok
  simp only at hok
  cases he : bp.evictIfFull disk with
  | error m => rw [he] at hok; cases hok
  | panic => rw [he] at hok; cases hok
  | diverge => rw [he] at hok; cases hok
  | ok pr =>
    obtain ⟨bp1, err⟩ := pr
    rw [he] at hok
    simp only [Res_ok_bind, Res_pure_eq] at hok
    cases err with
    | some e =>
      simp only at hok
      have hx : (Res.error e : Res BufferFrame) = .ok f := congrArg Prod.snd (Res.ok.inj hok)
      cases hx
    | none =>
      simp only at hok
      cases ha : bp1.lruKCache.Access pid now with
      | error m => rw [ha] at hok; cases hok
      | panic => rw [ha] at hok; cases hok
      | diverge => rw [ha] at hok; cases hok
      | ok lru =>
        rw [ha] at hok
        simp only [Res_ok_bind, Res_pure_eq] at hok
        have h1 := congrArg Prod.fst (Res.ok.inj hok)
        have h2 : Res.ok _ = Res.ok f := congrArg Prod.snd (Res.ok.inj hok)
        exact ⟨bp1, lru, rfl, ha, (Res.ok.inj h2).symm, h1.symm⟩

/-- The same call with a disk manager that gives the same answers where the
call asks. -/
theorem AddNewPage_congr (bp : BufferPool) (d d' : Disk) (tableName : String) (pid now : Nat)
    (hadd : d'.addNewPage tableName pid = d.addNewPage tableName pid)
    (hev : bp.evictIfFull d' = bp.evictIfFull d) :
    bp.AddNewPage d' tableName pid now = bp.AddNewPage d tableName pid now := by
  unfold BufferPool.AddNewPage
  rw [hadd, hev]

theorem evictIfFull_not_full (bp : BufferPool) (disk : Disk)
    (h : mapLen bp.pages < bp.maxSize) : bp.evictIfFull disk = .ok (bp, none) := by
  unfold BufferPool.evictIfFull
  rw [if_neg (by omega)]

theorem evictIfFull_ge (bp : BufferPool) (disk : Disk) (h : mapLen bp.pages ≥ bp.maxSize) :
    bp.evictIfFull disk = bp.evictPage disk := by
  unfold BufferPool.evictIfFull
  rw [if_pos h]

/-- C38 (counterexample): the pool of capacity 1 holds page 1, dirty and not
pinned. `AddNewPage("t", 1)` chooses page 1 itself as the victim: on a disk
manager whose `WritePage` fails the call returns the write error of the
write-back, and on a working disk manager it succeeds and page 1 is still the
only resident page, no other page having been evicted. -/
theorem C38_counterexample_victim_is_page :
    mapKeys dirtyPool.pages = [1] ∧ mapGet dirtyPool.pages 1 = some dirtyFrame ∧
    dirtyFrame.isDirty = true ∧ mapLen dirtyPool.pages = dirtyPool.maxSize ∧
    failingWriteDisk.addNewPage "t" 1 = .ok (emptyPage 1) ∧
    dirtyPool.AddNewPage failingWriteDisk "t" 1 5 =
      .ok (dirtyPool, .error "failed to write dirty page: disk full") ∧
    dirtyPool.AddNewPage healthyDisk "t" 1 5 =
      .ok (replacedPool, .ok (newFrame "t" 1 (emptyPage 1) 5)) ∧
    mapKeys replacedPool.pages = [1] := by
  refine ⟨by decide, by decide, rfl, by decide, rfl, rfl, rfl, by decide⟩

/-- C38 (amended): when `AddNewPage(table, pid)` succeeds in a state reached
from a new pool in which `pid` is resident, the frame of `pid` is afterwards a
fresh frame with `PinCount = 1` and `IsDirty = false`, `PinCounts[pid] = 1` and
`DirtyPages[pid] = false`, whatever the previous frame was. When the pool was
not at capacity nothing else changes and no `WritePage` answer is used. When
it was at capacity, the victim of `evictPage` was written back if dirty and
evicted first: if the victim is another page, that page is gone, the pool
holds one frame less, and the call does not depend on `WritePage` for `pid`
(the previous frame is not written back); the victim can also be `pid` itself,
then the previous frame is the one written back. -/
theorem C38_addNewPage_replaces (maxSize k : Int) (ops : List BPOp) (bp : BufferPool)
    (disk : Disk) (tableName : String) (pid now : Nat) (old : BufferFrame) (page : Page)
    (bp' : BufferPool) (f : BufferFrame)
    (hr : (NewBufferPool maxSize k).run ops = .ok bp)
    (hres : mapGet bp.pages pid = some old)
    (hadd : disk.addNewPage tableName pid = .ok page)
    (hok : bp.AddNewPage disk tableName pid now = .ok (bp', .ok f)) :
    f = newFrame tableName pid page now ∧ mapGet bp'.pages pid = some f ∧
    mapGet bp'.pinCounts pid = some 1 ∧ mapGet bp'.dirtyPages pid = some false ∧
    (mapLen bp.pages < bp.maxSize →
      (∀ q, q ≠ pid → mapGet bp'.pages q = mapGet bp.pages q ∧
        mapGet bp'.pinCounts q = mapGet bp.pinCounts q ∧
        mapGet bp'.dirtyPages q = mapGet bp.dirtyPages q) ∧
      mapLen bp'.pages = mapLen bp.pages ∧
      ∀ disk' : Disk, disk'.addNewPage tableName pid = .ok page →
        bp.AddNewPage disk' tableName pid now = .ok (bp', .ok f)) ∧
    (mapLen bp.pages ≥ bp.maxSize →
      ∃ v victim,
        bp.lruKCache.GetVictim (some fun pageID => decide (bp.pinCountOf pageID > 0)) = .ok v ∧
        v ≠ 0 ∧ bp.pinCountOf v ≤ 0 ∧ mapGet bp.pages v = some victim ∧
        (victim.isDirty = true →
          ∃ w, disk.writePage victim.tableName v victim.page = .ok w) ∧
        (∀ q, q ≠ pid → q ≠ v → mapGet bp'.pages q = mapGet bp.pages q ∧
          mapGet bp'.pinCounts q = mapGet bp.pinCounts q ∧
          mapGet bp'.dirtyPages q = mapGet bp.dirtyPages q) ∧
        (v ≠ pid → mapGet bp'.pages v = none ∧ mapLen bp'.pages = mapLen bp.pages - 1 ∧
          ∀ disk' : Disk, disk'.addNewPage tableName pid = .ok page →
            (∀ t pg, disk'.writePage t v pg = disk.writePage t v pg) →
            bp.AddNewPage disk' tableName pid now = .ok (bp', .ok f)) ∧
        (v = pid → mapLen bp'.pages = mapLen bp.pages)) := by
  obtain ⟨h, hinv⟩ := reachable_inv maxSize k ops bp hr
  obtain ⟨bp1, lru, hev, ha, hf, hbp'⟩ :=
    AddNewPage_ok_inv bp disk tableName pid now page bp' f hadd hok
  refine ⟨hf, ?_, ?_, ?_, ?_, ?_⟩
  · rw [hbp', hf]; exact mapGet_mapSet_same _ _ _
  · rw [hbp']; exact mapGet_mapSet_same _ _ _
  · rw [hbp']; exact mapGet_mapSet_same _ _ _
  · intro hlt
    rw [evictIfFull_not_full bp disk hlt] at hev
    have e : bp1 = bp := (congrArg Prod.fst (Res.ok.inj hev)).symm
    subst e
    refine ⟨?_, ?_, ?_⟩
    · intro q hq
      rw [hbp']
      exact ⟨mapGet_mapSet_ne _ _ _ _ hq, mapGet_mapSet_ne _ _ _ _ hq,
        mapGet_mapSet_ne _ _ _ _ hq⟩
    · rw [hbp']
      exact mapLen_mapSet_of_present _ _ _ old hinv.keys_nodup hres
    · intro disk' hadd'
      rw [AddNewPage_congr bp1 disk disk' tableName pid now (by rw [hadd', hadd])
        (by rw [evictIfFull_not_full bp1 disk' hlt, evictIfFull_not_full bp1 disk hlt])]
      exact hok
  · intro hge
    rw [evictIfFull_ge bp disk hge] at hev
    obtain ⟨v, victim, hv, hv0, hpin, hfv, hwb, hbp1⟩ := evictPage_ok_inv bp disk bp1 hev
    refine ⟨v, victim, hv, hv0, hpin, hfv, writeBack_ok_none disk victim v hwb, ?_, ?_, ?_⟩
    · intro q hq hqv
      rw [hbp', hbp1]
      refine ⟨?_, ?_, ?_⟩
      · show mapGet (mapSet (mapDel bp.pages v) pid _) q = _
        rw [mapGet_mapSet_ne _ _ _ _ hq, mapGet_mapDel_ne _ _ _ hqv]
      · show mapGet (mapSet (mapDel bp.pinCounts v) pid _) q = _
        rw [mapGet_mapSet_ne _ _ _ _ hq, mapGet_mapDel_ne _ _ _ hqv]
      · show mapGet (mapSet (mapDel bp.dirtyPages v) pid _) q = _
        rw [mapGet_mapSet_ne _ _ _ _ hq, mapGet_mapDel_ne _ _ _ hqv]
    · intro hne
      have hpres : mapGet (mapDel bp.pages v) pid = some old := by
        rw [mapGet_mapDel_ne _ _ _ (fun e => hne e.symm), hres]
      refine ⟨?_, ?_, ?_⟩
      · rw [hbp', hbp1]
        show mapGet (mapSet (mapDel bp.pages v) pid _) v = none
        rw [mapGet_mapSet_ne _ _ _ _ hne, mapGet_mapDel_same]
      · rw [hbp', hbp1]
        show mapLen (mapSet (mapDel bp.pages v) pid _) = _
        rw [mapLen_mapSet_of_present _ _ _ old (mapKeys_mapDel_nodup _ _ hinv.keys_nodup) hpres,
          mapLen_mapDel_of_present _ _ victim hinv.keys_nodup hfv]
      · intro disk' hadd' hw'
        rw [AddNewPage_congr bp disk disk' tableName pid now (by rw [hadd', hadd])
          (by rw [evictIfFull_ge bp disk' hge, evictIfFull_ge bp disk hge,
                evictPage_of_victim bp disk' v victim hv hv0 hfv,
                evictPage_of_victim bp disk v victim hv hv0 hfv,
                writeBack_congr disk disk' victim v hw'])]
        exact hok
    · intro heq
      subst heq
      rw [hbp', hbp1]
      show mapLen (mapSet (mapDel bp.pages v) v _) = _
      rw [mapLen_mapSet_of_absent _ _ _ (mapGet_mapDel_same _ _),
        mapLen_mapDel_of_present _ _ victim hinv.keys_nodup hfv]
      omega

/-- C38 (amended), witness: the pool of capacity 2 holds pages 1 and 2, both
pinned; after `MarkDirty(1)` and `Unpin(2)`, `AddNewPage("t", 1)` evicts page 2
and replaces the dirty, pinned frame of page 1 by a fresh one. -/
theorem C38_addNewPage_replaces_witness :
    ∃ bp bp' f, fullPool.run [.markDirty "t" 1, .unpin "t" 2] = .ok bp ∧
      bp.AddNewPage healthyDisk "t" 1 7 = .ok (bp', .ok f) ∧
      f = newFrame "t" 1 (emptyPage 1) 7 ∧ mapGet bp'.pages 1 = some f ∧
      mapGet bp'.pinCounts 1 = some 1 ∧ mapGet bp'.dirtyPages 1 = some false := by
  have hrun : (NewBufferPool 2 2).run (fullScenario ++ [.markDirty "t" 1, .unpin "t" 2]) =
      .ok ((fullPool.MarkDirty "t" 1).Unpin "t" 2) := rfl
  have hok : ((fullPool.MarkDirty "t" 1).Unpin "t" 2).AddNewPage healthyDisk "t" 1 7 =
      .ok ((match ((fullPool.MarkDirty "t" 1).Unpin "t" 2).AddNewPage healthyDisk "t" 1 7 with
            | .ok (b, _) => b
            | _ => fullPool), .ok (newFrame "t" 1 (emptyPage 1) 7)) := rfl
  have hc := C38_addNewPage_replaces 2 2 (fullScenario ++ [.markDirty "t" 1, .unpin "t" 2])
    ((fullPool.MarkDirty "t" 1).Unpin "t" 2) healthyDisk "t" 1 7
    { newFrame "t" 1 (emptyPage 1) 0 with isDirty := true } (emptyPage 1) _ _ hrun
    (by decide) rfl hok
  exact ⟨_, _, _, rfl, hok, hc.1, hc.2.1, hc.2.2.1, hc.2.2.2.1⟩

/-! ## What a failed call leaves behind -/

theorem getD_split (pre : List Byte) (c : Byte) (rest : List Byte) (p : Nat)
    (hp : p = pre.length) : (pre ++ c :: rest).getD p 0 = c := by
  subst hp
  rw [List.getD_eq_getElem?_getD, List.getElem?_append_right (Nat.le_refl _)]
  simp

theorem drop_split (pre s : List Byte) (p : Nat) (hp : p = pre.length) :
    (pre ++ s).drop p = s := by
  subst hp
  simp

theorem drop_succ_split (pre : List Byte) (c : Byte) (rest : List Byte) (p : Nat)
    (hp : p = pre.length) : (pre ++ c :: rest).drop (p + 1) = rest := by
  subst hp
  have h : pre ++ c :: rest = (pre ++ [c]) ++ rest := by simp
  rw [h]
  exact drop_split (pre ++ [c]) rest _ (by simp)

theorem scanDelimited_one (delimiter c : Byte) (value : List Byte) (pointer : Nat) :
    scanDelimited delimiter [c] value pointer =
      if c = delimiter then some (value, pointer + 1) else none := by
  rw [scanDelimited]

theorem scanDelimited_two (delimiter c d : Byte) (rest value : List Byte) (pointer : Nat) :
    scanDelimited delimiter (c :: d :: rest) value pointer =
      if c = delimiter then
        if d = delimiter then
          scanDelimited delimiter rest (value ++ [delimiter, delimiter]) (pointer + 2)
        else some (value, pointer + 1)
      else scanDelimited delimiter (d :: rest) (value ++ [c]) (pointer + 1) := by
  rw [scanDelimited]

theorem scanDelimited_at_close (delimiter : Byte) (rest value : List Byte) (pointer : Nat)
    (hrest : rest.head? ≠ some delimiter) :
    scanDelimited delimiter (delimiter :: rest) value pointer = some (value, pointer + 1) := by
  cases rest with
  | nil => rw [scanDelimited_one, if_pos rfl]
  | cons d rest' =>
    have hd : d ≠ delimiter := fun e => hrest (by rw [e]; rfl)
    rw [scanDelimited_two, if_pos rfl, if_neg hd]

/-- The scan over an escaped body that is followed by a closing delimiter
returns the body and the position past the closing delimiter. -/
theorem scanDelimited_closed (delimiter : Byte) (n : Nat) :
    ∀ (body rest value : List Byte) (pointer : Nat), body.length ≤ n →
      escapedBody delimiter body = true → rest.head? ≠ some delimiter →
      scanDelimited delimiter (body ++ delimiter :: rest) value pointer =
        some (value ++ body, pointer + body.length + 1) := by
  induction n with
  | zero =>
    intro body rest value pointer hn _ hrest
    have hb : body = [] := List.length_eq_zero.mp (Nat.le_zero.mp hn)
    subst hb
    rw [List.nil_append, scanDelimited_at_close delimiter rest value pointer hrest,
      List.append_nil]
    rfl
  | succ n ih =>
    intro body rest value pointer hn hbody hrest
    cases body with
    | nil =>
      rw [List.nil_append, scanDelimited_at_close delimiter rest value pointer hrest,
        List.append_nil]
      rfl
    | cons c body' =>
      cases body' with
      | nil =>
        have hc : c ≠ delimiter := by simpa [escapedBody] using hbody
        have h := ih [] rest (value ++ [c]) (pointer + 1) (Nat.zero_le _) rfl hrest
        rw [List.nil_append] at h
        have e : [c] ++ delimiter :: rest = c :: delimiter :: rest := rfl
        rw [e, scanDelimited_two, if_neg hc, h]
        simp
      | cons d body'' =>
        have hlen : (c :: d :: body'').length = body''.length + 2 := rfl
        rw [hlen] at hn
        have e : c :: d :: body'' ++ delimiter :: rest =
            c :: d :: (body'' ++ delimiter :: rest) := rfl
        rw [e, scanDelimited_two, hlen]
        by_cases hc : c = delimiter
        · have hb : d = delimiter ∧ escapedBody delimiter body'' = true := by
            simpa [escapedBody, hc] using hbody
          rw [if_pos hc, if_pos hb.1,
            ih body'' rest _ (pointer + 2) (by omega) hb.2 hrest, hc, hb.1]
          have e1 : value ++ [delimiter, delimiter] ++ body'' =
              value ++ delimiter :: delimiter :: body'' := by simp
          have e2 : pointer + 2 + body''.length + 1 = pointer + (body''.length + 2) + 1 := by
            omega
          rw [e1, e2]
        · have hb : escapedBody delimiter (d :: body'') = true := by
            simpa [escapedBody, hc] using hbody
          have h := ih (d :: body'') rest (value ++ [c]) (pointer + 1)
            (by rw [List.length_cons]; omega) hb hrest
          have e0 : d :: body'' ++ delimiter :: rest = d :: (body'' ++ delimiter :: rest) := rfl
          rw [e0] at h
          rw [if_neg hc, h]
          have e1 : value ++ [c] ++ d :: body'' = value ++ c :: d :: body'' := by simp
          have e2 : pointer + 1 + (d :: body'').length + 1 =
              pointer + (body''.length + 2) + 1 := by
            rw [List.length_cons]
            omega
          rw [e1, e2]

/-- The scan over an escaped body that runs to the end of the source finds no
closing delimiter. -/
theorem scanDelimited_open (delimiter : Byte) (n : Nat) :
    ∀ (body value : List Byte) (pointer : Nat), body.length ≤ n →
      escapedBody delimiter body = true →
      scanDelimited delimiter body value pointer = none := by
  induction n with
  | zero =>
    intro body value pointer hn _
    have hb : body = [] := List.length_eq_zero.mp (Nat.le_zero.mp hn)
    subst hb
    rfl
  | succ n ih =>
    intro body value pointer hn hbody
    cases body with
    | nil => rfl
    | cons c body' =>
      cases body' with
      | nil =>
        have hc : c ≠ delimiter := by simpa [escapedBody] using hbody
        rw [scanDelimited_one, if_neg hc]
      | cons d body'' =>
        have hlen : (c :: d :: body'').length = body''.length + 2 := rfl
        rw [hlen] at hn
        rw [scanDelimited_two]
        by_cases hc : c = delimiter
        · have hb : d = delimiter ∧ escapedBody delimiter body'' = true := by
            simpa [escapedBody, hc] using hbody
          rw [if_pos hc, if_pos hb.1]
          exact ih body'' _ _ (by omega) hb.2
        · have hb : escapedBody delimiter (d :: body'') = true := by
            simpa [escapedBody, hc] using hbody
          rw [if_neg hc]
          exact ih (d :: body'') _ _ (by rw [List.length_cons]; omega) hb

/-- Claim C32: a single quote at position `len(before)` that opens a literal
whose text `body` consists of bytes other than the quote and of doubled quotes,
closed by a quote that is not followed by another quote: `lexString` succeeds,
returns the position just past the closing quote and a `StringToken` whose
value is `body` itself, doubled quotes kept. When the text after the opening
quote runs to the end of the source without a closing quote, `lexString` fails
and returns the start position. -/
theorem C32_lexString_literal (before body rest : List Byte)
    (hbody : escapedBody 39 body = true) :
    (rest.head? ≠ some 39 →
      lexString (before ++ [39] ++ body ++ [39] ++ rest) before.length =
        (some ⟨body, .StringToken⟩, before.length + body.length + 2, true)) ∧
    lexString (before ++ [39] ++ body) before.length = (none, before.length, false) := by
  constructor
  · intro hrest
    have hsrc : before ++ [39] ++ body ++ [39] ++ rest =
        before ++ (39 : Byte) :: (body ++ 39 :: rest) := by simp
    rw [hsrc]
    unfold lexString lexCharacterDelimited
    have hlen : ¬ before.length ≥ (before ++ (39 : Byte) :: (body ++ 39 :: rest)).length := by
      simp only [List.length_append, List.length_cons]
      omega
    rw [if_neg hlen, getD_split before 39 _ _ rfl, drop_succ_split before 39 _ _ rfl,
      scanDelimited_closed 39 body.length body rest [] _ (Nat.le_refl _) hbody hrest]
    simp only [ne_eq, not_true_eq_false, if_false, List.nil_append]
    have e : before.length + 1 + body.length + 1 = before.length + body.length + 2 := by omega
    rw [e]
  · have hsrc : before ++ [39] ++ body = before ++ (39 : Byte) :: body := by simp
    rw [hsrc]
    unfold lexString lexCharacterDelimited
    have hlen : ¬ before.length ≥ (before ++ (39 : Byte) :: body).length := by
      simp only [List.length_append, List.length_cons]
      omega
    rw [if_neg hlen, getD_split before 39 _ _ rfl, drop_succ_split before 39 _ _ rfl,
      scanDelimited_open 39 body.length body [] _ (Nat.le_refl _) hbody]
    simp only [ne_eq, not_true_eq_false, if_false]

/-- Claim C32 on `VALUES ('he''llo');`: the literal at position 8 gives the
token `he''llo` and position 17; the unclosed `'he''llo` fails at its start
position. -/
theorem C32_lexString_literal_witness :
    escapedBody 39 (goBytes "he''llo") = true ∧
    goBytes "VALUES (" ++ [39] ++ goBytes "he''llo" ++ [39] ++ goBytes ");" =
      goBytes "VALUES ('he''llo');" ∧
    lexString (goBytes "VALUES ('he''llo');") 8 =
      (some ⟨goBytes "he''llo", .StringToken⟩, 17, true) ∧
    lexString (goBytes "VALUES ('he''llo") 8 = (none, 8, false) := by
  have h := C32_lexString_literal (goBytes "VALUES (") (goBytes "he''llo") (goBytes ");")
    (by decide)
  exact ⟨by decide, by decide, h.1 (by decide), h.2⟩

/-! ## The lexer: longest match -/

theorem maxOptionLength_fold (options : List (List Byte)) :
    ∀ init : Nat,
      init ≤ options.foldl
        (fun maxLen option => if option.length > maxLen then option.length else maxLen) init ∧
      ∀ o ∈ options, o.length ≤ options.foldl
        (fun maxLen option => if option.length > maxLen then option.length else maxLen) init := by
  induction options with
  | nil => intro init; exact ⟨Nat.le_refl _, fun o ho => by cases ho⟩
  | cons a rest ih =>
    intro init
    simp only [List.foldl_cons]
    obtain ⟨h1, h2⟩ := ih (if a.length > init then a.length else init)
    refine ⟨?_, ?_⟩
    · refine Nat.le_trans ?_ h1
      split <;> omega
    · intro o ho
      rcases List.mem_cons.mp ho with e | ho'
      · subst e
        refine Nat.le_trans ?_ h1
        split <;> omega
      · exact h2 o ho'

theorem maxOptionLength_ge (options : List (List Byte)) (o : List Byte) (ho : o ∈ options) :
    o.length ≤ maxOptionLength options :=
  (maxOptionLength_fold options 0).2 o ho

/-- The inner loop of `longestMatch` keeps the match, or replaces it by the
accumulated value when that is a longer option. -/
theorem updateMatch_spec (options : List (List Byte)) (cur : List Byte) :
    ∀ m : List Byte,
      (updateMatch options cur m = m ∨
        (updateMatch options cur m = cur ∧ cur ∈ options ∧ m.length < cur.length)) ∧
      m.length ≤ (updateMatch options cur m).length ∧
      (cur ∈ options → cur.length ≤ (updateMatch options cur m).length) := by
  induction options with
  | nil => intro m; exact ⟨Or.inl rfl, Nat.le_refl _, fun h => by cases h⟩
  | cons o rest ih =>
    intro m
    unfold updateMatch
    simp only [List.foldl_cons]
    by_cases hoc : o = cur
    · subst hoc
      by_cases hlen : o.length > m.length
      · simp only [if_true, if_pos hlen]
        obtain ⟨h1, h2, _⟩ := ih o
        unfold updateMatch at h1 h2
        have hU : List.foldl (fun m option =>
            if option = o then (if option.length > m.length then option else m) else m) o rest
            = o := by
          rcases h1 with h | h
          · exact h
          · exact h.1
        rw [hU]
        exact ⟨Or.inr ⟨rfl, List.mem_cons_self _ _, hlen⟩, Nat.le_of_lt hlen,
          fun _ => Nat.le_refl _⟩
      · simp only [if_true, if_neg hlen]
        obtain ⟨h1, h2, _⟩ := ih m
        unfold updateMatch at h1 h2
        refine ⟨?_, h2, fun _ => Nat.le_trans (Nat.le_of_not_gt hlen) h2⟩
        rcases h1 with h | h
        · exact Or.inl h
        · exact Or.inr ⟨h.1, List.mem_cons_of_mem _ h.2.1, h.2.2⟩
    · simp only [if_neg hoc]
      obtain ⟨h1, h2, h3⟩ := ih m
      unfold updateMatch at h1 h2 h3
      refine ⟨?_, h2, fun hmem => ?_⟩
      · rcases h1 with h | h
        · exact Or.inl h
        · exact Or.inr ⟨h.1, List.mem_cons_of_mem _ h.2.1, h.2.2⟩
      · rcases List.mem_cons.mp hmem with e | hmem'
        · exact absurd e.symm hoc
        · exact h3 hmem'

theorem lowerAll_cons (c : Byte) (s : List Byte) :
    lowerAll (c :: s) = lowerOfByte c ++ lowerAll s := by
  simp [lowerAll]

theorem lowerAll_append (a b : List Byte) : lowerAll (a ++ b) = lowerAll a ++ lowerAll b := by
  simp [lowerAll]

theorem utf8Bytes_length (c : Nat) : 1 ≤ (utf8Bytes c).length := by
  unfold utf8Bytes
  split
  · simp
  · split
    · simp
    · split <;> simp

theorem lowerOfByte_length (c : Byte) : 1 ≤ (lowerOfByte c).length := by
  unfold lowerOfByte
  split
  · simp
  · exact utf8Bytes_length _

/-- The outer loop of `longestMatch`: the result is the match it started with
or a longer option that equals the accumulated value after some number of
bytes, and no option that equals an accumulated value is longer than the
result. -/
theorem longestMatchLoop_spec (options : List (List Byte)) (maxLen : Nat)
    (hmax : ∀ o ∈ options, o.length ≤ maxLen) :
    ∀ (s cur m : List Byte),
      (longestMatchLoop options maxLen s cur m = m ∨
        (longestMatchLoop options maxLen s cur m ∈ options ∧
          m.length < (longestMatchLoop options maxLen s cur m).length ∧
          ∃ j, 1 ≤ j ∧ j ≤ s.length ∧
            longestMatchLoop options maxLen s cur m = cur ++ lowerAll (s.take j))) ∧
      m.length ≤ (longestMatchLoop options maxLen s cur m).length ∧
      (∀ o ∈ options, ∀ j, 1 ≤ j → j ≤ s.length → o = cur ++ lowerAll (s.take j) →
        o.length ≤ (longestMatchLoop options maxLen s cur m).length) := by
  intro s
  induction s with
  | nil =>
    intro cur m
    refine ⟨Or.inl rfl, Nat.le_refl _, ?_⟩
    intro o _ j h1 h2 _
    simp only [List.length_nil] at h2
    omega
  | cons c rest ih =>
    intro cur m
    obtain ⟨u1, u2, u3⟩ := updateMatch_spec options (cur ++ lowerOfByte c) m
    have hone : cur ++ lowerAll ((c :: rest).take 1) = cur ++ lowerOfByte c := by
      simp [lowerAll]
    have hsucc : ∀ j, cur ++ lowerAll ((c :: rest).take (j + 1)) =
        (cur ++ lowerOfByte c) ++ lowerAll (rest.take j) := by
      intro j
      simp [lowerAll]
    unfold longestMatchLoop
    by_cases hbr : (cur ++ lowerOfByte c).length > maxLen
    · rw [if_pos hbr]
      refine ⟨?_, u2, ?_⟩
      · rcases u1 with h | ⟨h, hmem, hlt⟩
        · exact Or.inl h
        · refine Or.inr ⟨by rw [h]; exact hmem, by rw [h]; exact hlt, 1, Nat.le_refl _, ?_, ?_⟩
          · simp
          · rw [h, hone]
      · intro o ho j h1 h2 he
        obtain ⟨j', rfl⟩ : ∃ j', j = j' + 1 := ⟨j - 1, by omega⟩
        rw [hsucc] at he
        have := hmax o ho
        have hl : (cur ++ lowerOfByte c).length ≤ o.length := by
          rw [he]
          simp only [List.length_append]
          omega
        omega
    · rw [if_neg hbr]
      obtain ⟨r1, r2, r3⟩ := ih (cur ++ lowerOfByte c)
        (updateMatch options (cur ++ lowerOfByte c) m)
      refine ⟨?_, Nat.le_trans u2 r2, ?_⟩
      · rcases r1 with h | ⟨hmem, hlt, j, hj1, hj2, he⟩
        · rw [h]
          rcases u1 with h' | ⟨h', hmem, hlt⟩
          · exact Or.inl h'
          · refine Or.inr ⟨by rw [h']; exact hmem, by rw [h']; exact hlt, 1, Nat.le_refl _,
              ?_, ?_⟩
            · simp
            · rw [h', hone]
        · refine Or.inr ⟨hmem, by omega, j + 1, by omega, ?_, ?_⟩
          · simp only [List.length_cons]
            omega
          · rw [he, hsucc]
      · intro o ho j h1 h2 he
        obtain ⟨j', rfl⟩ : ∃ j', j = j' + 1 := ⟨j - 1, by omega⟩
        rw [hsucc] at he
        by_cases hj : j' = 0
        · subst hj
          simp only [List.take_zero, lowerAll, List.flatMap_nil, List.append_nil] at he
          have := u3 (by rw [← he]; exact ho)
          rw [he]
          omega
        · simp only [List.length_cons] at h2
          exact r3 o ho j' (by omega) (by omega) he

theorem startsWith_iff (s o : List Byte) : startsWith s o = true ↔ s.take o.length = o := by
  simp [startsWith]

theorem startsWith_append (o t : List Byte) : startsWith (o ++ t) o = true := by
  simp [startsWith]

theorem lowerAll_take (s : List Byte) (j : Nat) :
    startsWith (lowerAll s) (lowerAll (s.take j)) = true := by
  have h : lowerAll s = lowerAll (s.take j) ++ lowerAll (s.drop j) := by
    rw [← lowerAll_append, List.take_append_drop]
  rw [h]
  exact startsWith_append _ _

/-- The function `longestMatch` returns the empty string when no option is the
start of the lowered text at the position. -/
theorem longestMatch_none (source : List Byte) (start : Nat) (options : List (List Byte))
    (h : ∀ o ∈ options, o ≠ [] → startsWith (lowerAll (source.drop start)) o = false) :
    longestMatch source start options = [] := by
  obtain ⟨r1, _, _⟩ := longestMatchLoop_spec options (maxOptionLength options)
    (maxOptionLength_ge options) (source.drop start) [] []
  rcases r1 with e | ⟨hmem, hlt, j, _, _, he⟩
  · exact e
  · exfalso
    have hne : longestMatch source start options ≠ [] := by
      intro e
      unfold longestMatch at e
      rw [e] at hlt
      simp at hlt
    have := h _ hmem hne
    unfold longestMatch at this
    rw [he, List.nil_append, lowerAll_take] at this
    cases this

/-- The function `longestMatch` returns the longest option that is the start
of the lowered text at the position. -/
theorem longestMatch_best (source : List Byte) (start : Nat) (options : List (List Byte))
    (kw : List Byte) (j : Nat) (hkw : kw ∈ options) (hne : kw ≠ []) (hj1 : 1 ≤ j)
    (hj2 : j ≤ (source.drop start).length) (hj : kw = lowerAll ((source.drop start).take j))
    (hbest : ∀ o ∈ options, startsWith (lowerAll (source.drop start)) o = true →
      o.length ≤ kw.length) :
    longestMatch source start options = kw := by
  obtain ⟨r1, _, r3⟩ := longestMatchLoop_spec options (maxOptionLength options)
    (maxOptionLength_ge options) (source.drop start) [] []
  have hge := r3 kw hkw j hj1 hj2 (by rw [List.nil_append]; exact hj)
  have hpos : 0 < kw.length := List.length_pos.mpr hne
  rcases r1 with e | ⟨hmem, _, j', _, _, he⟩
  · rw [e] at hge
    simp only [List.length_nil] at hge
    omega
  · rw [List.nil_append] at he
    have hs : startsWith (lowerAll (source.drop start))
        (longestMatchLoop options (maxOptionLength options) (source.drop start) [] []) = true := by
      rw [he]
      exact lowerAll_take _ _
    have hle := hbest _ hmem hs
    have hlen : (longestMatchLoop options (maxOptionLength options) (source.drop start)
        [] []).length = kw.length := by omega
    have h1 := (startsWith_iff _ _).mp hs
    have h2 := (startsWith_iff _ _).mp (by rw [hj]; exact lowerAll_take _ _ :
      startsWith (lowerAll (source.drop start)) kw = true)
    unfold longestMatch
    rw [← h1, hlen, h2]

/-! ## The lexer: every round moves forward -/

theorem lexOptions_advances (options : List (List Byte)) (kind : TokenKind)
    (source : List Byte) (p : Nat) (h : (lexOptions options kind source p).2.2 = true) :
    p < (lexOptions options kind source p).2.1 := by
  unfold lexOptions at h ⊢
  by_cases hm : longestMatch source p options = []
  · rw [if_pos hm] at h
    cases h
  · rw [if_neg hm]
    have := List.length_pos.mpr hm
    show p < p + _
    omega

theorem scanDelimited_advances (delimiter : Byte) (n : Nat) :
    ∀ (s value : List Byte) (pointer : Nat) (r : List Byte × Nat), s.length ≤ n →
      scanDelimited delimiter s value pointer = some r → pointer < r.2 := by
  induction n with
  | zero =>
    intro s value pointer r hn h
    have hs : s = [] := List.length_eq_zero.mp (Nat.le_zero.mp hn)
    subst hs
    cases h
  | succ n ih =>
    intro s value pointer r hn h
    cases s with
    | nil => cases h
    | cons c s' =>
      cases s' with
      | nil =>
        rw [scanDelimited_one] at h
        by_cases hc : c = delimiter
        · rw [if_pos hc] at h
          cases h
          exact Nat.lt_succ_self _
        · rw [if_neg hc] at h
          cases h
      | cons d s'' =>
        have hlen : (c :: d :: s'').length = s''.length + 2 := rfl
        rw [hlen] at hn
        rw [scanDelimited_two] at h
        by_cases hc : c = delimiter
        · rw [if_pos hc] at h
          by_cases hd : d = delimiter
          · rw [if_pos hd] at h
            have := ih s'' _ _ r (by omega) h
            omega
          · rw [if_neg hd] at h
            cases h
            exact Nat.lt_succ_self _
        · rw [if_neg hc] at h
          have := ih (d :: s'') _ _ r (by rw [List.length_cons]; omega) h
          omega

theorem lexCharacterDelimited_advances (source : List Byte) (p : Nat) (delimiter : Byte)
    (h : (lexCharacterDelimited source p delimiter).2.2 = true) :
    p < (lexCharacterDelimited source p delimiter).2.1 := by
  unfold lexCharacterDelimited at h ⊢
  by_cases h1 : p ≥ source.length
  · rw [if_pos h1] at h
    cases h
  · rw [if_neg h1] at h ⊢
    by_cases h2 : source.getD p 0 ≠ delimiter
    · rw [if_pos h2] at h
      cases h
    · rw [if_neg h2] at h ⊢
      cases hscan : scanDelimited delimiter (source.drop (p + 1)) [] (p + 1) with
      | none =>
        rw [hscan] at h
        cases h
      | some r =>
        have := scanDelimited_advances delimiter _ _ _ _ r (Nat.le_refl _) hscan
        show p < r.2
        omega

theorem identifierLoop_advances :
    ∀ (s value : List Byte) (pointer : Nat), pointer ≤ (identifierLoop s value pointer).2 := by
  intro s
  induction s with
  | nil => intro value pointer; exact Nat.le_refl _
  | cons c rest ih =>
    intro value pointer
    unfold identifierLoop
    split
    · exact Nat.le_trans (Nat.le_succ _) (ih _ _)
    · exact Nat.le_refl _

theorem numericLoop_one (c : Byte) (pointer : Nat) (periodFound expMarkerFound : Bool) :
    numericLoop [c] pointer periodFound expMarkerFound =
      if c = 46 then (if periodFound then none else some (pointer + 1))
      else if c = 101 then none
      else if !isDigit c then some pointer
      else some (pointer + 1) := by
  rw [numericLoop]

theorem numericLoop_two (c d : Byte) (rest : List Byte) (pointer : Nat)
    (periodFound expMarkerFound : Bool) :
    numericLoop (c :: d :: rest) pointer periodFound expMarkerFound =
      if c = 46 then
        (if periodFound then none
          else numericLoop (d :: rest) (pointer + 1) true expMarkerFound)
      else if c = 101 then
        if expMarkerFound then none
        else if d = 45 ∨ d = 43 then numericLoop rest (pointer + 2) true true
        else numericLoop (d :: rest) (pointer + 1) true true
      else if !isDigit c then some pointer
      else numericLoop (d :: rest) (pointer + 1) periodFound expMarkerFound := by
  rw [numericLoop]

theorem numericLoop_advances (n : Nat) :
    ∀ (s : List Byte) (pointer : Nat) (a b : Bool) (r : Nat), s.length ≤ n →
      numericLoop s pointer a b = some r → pointer ≤ r := by
  induction n with
  | zero =>
    intro s pointer a b r hn h
    have hs : s = [] := List.length_eq_zero.mp (Nat.le_zero.mp hn)
    subst hs
    cases h
    exact Nat.le_refl _
  | succ n ih =>
    intro s pointer a b r hn h
    cases s with
    | nil =>
      cases h
      exact Nat.le_refl _
    | cons c s' =>
      cases s' with
      | nil =>
        rw [numericLoop_one] at h
        split at h
        · split at h
          · cases h
          · cases h
            exact Nat.le_succ _
        · split at h
          · cases h
          · split at h
            · cases h
              exact Nat.le_refl _
            · cases h
              exact Nat.le_succ _
      | cons d s'' =>
        have hlen : (c :: d :: s'').length = s''.length + 2 := rfl
        rw [hlen] at hn
        rw [numericLoop_two] at h
        split at h
        · split at h
          · cases h
          · have := ih (d :: s'') _ _ _ r (by rw [List.length_cons]; omega) h
            omega
        · split at h
          · split at h
            · cases h
            · split at h
              · have := ih s'' _ _ _ r (by omega) h
                omega
              · have := ih (d :: s'') _ _ _ r (by rw [List.length_cons]; omega) h
                omega
          · split at h
            · cases h
              exact Nat.le_refl _
            · have := ih (d :: s'') _ _ _ r (by rw [List.length_cons]; omega) h
              omega

theorem lexNumeric_advances (source : List Byte) (p : Nat)
    (h : (lexNumeric source p).2.2 = true) : p < (lexNumeric source p).2.1 := by
  unfold lexNumeric at h ⊢
  by_cases h1 : p ≥ source.length
  · rw [if_pos h1] at h
    cases h
  · rw [if_neg h1] at h ⊢
    split at h
    · cases h
    · rename_i h2
      rw [if_neg h2]
      cases hloop : numericLoop (source.drop (p + 1)) (p + 1)
          (decide (source.getD p 0 = 46)) false with
      | none =>
        rw [hloop] at h
        cases h
      | some r =>
        have hr := numericLoop_advances _ _ _ _ _ r (Nat.le_refl _) hloop
        have hne : r ≠ p := by omega
        simp only [if_neg hne]
        omega

theorem lexIdentifier_advances (source : List Byte) (p : Nat)
    (h : (lexIdentifier source p).2.2 = true) : p < (lexIdentifier source p).2.1 := by
  unfold lexIdentifier at h ⊢
  by_cases h1 : p ≥ source.length
  · rw [if_pos h1] at h
    cases h
  · rw [if_neg h1] at h ⊢
    by_cases h2 : (lexCharacterDelimited source p 34).2.2 = true
    · rw [if_pos h2]
      exact lexCharacterDelimited_advances source p 34 h2
    · rw [if_neg h2] at h ⊢
      split at h
      · cases h
      · rename_i h3
        rw [if_neg h3]
        have := identifierLoop_advances (source.drop (p + 1)) [source.getD p 0] (p + 1)
        show p < (identifierLoop (source.drop (p + 1)) [source.getD p 0] (p + 1)).2
        omega

theorem lexSymbol_advances (source : List Byte) (p : Nat)
    (h : (lexSymbol source p).2.2 = true) : p < (lexSymbol source p).2.1 := by
  unfold lexSymbol at h ⊢
  by_cases h1 : p ≥ source.length
  · rw [if_pos h1] at h
    cases h
  · rw [if_neg h1] at h ⊢
    split
    · exact Nat.lt_succ_self _
    · rename_i h2
      rw [if_neg h2] at h
      exact lexOptions_advances _ _ _ _ h

theorem guarded_lexOptions_advances (options : List (List Byte)) (kind : TokenKind)
    (source : List Byte) (p : Nat)
    (h : (if p ≥ source.length then ((none, p, false) : LexResult)
      else lexOptions options kind source p).2.2 = true) :
    p < (if p ≥ source.length then ((none, p, false) : LexResult)
      else lexOptions options kind source p).2.1 := by
  by_cases h1 : p ≥ source.length
  · rw [if_pos h1] at h
    cases h
  · rw [if_neg h1] at h ⊢
    exact lexOptions_advances _ _ _ _ h

/-- Every lexer function of `Lex` that matches returns a position past the one
it started at. -/
theorem lexers_advance (source : List Byte) (p : Nat) :
    ∀ lexFunc ∈ lexers, (lexFunc source p).2.2 = true → p < (lexFunc source p).2.1 := by
  intro lexFunc hmem h
  simp only [lexers, List.mem_cons, List.mem_singleton, List.not_mem_nil, or_false] at hmem
  rcases hmem with e | e | e | e | e | e | e <;> subst e
  · exact guarded_lexOptions_advances _ _ _ _ h
  · exact lexSymbol_advances _ _ h
  · exact guarded_lexOptions_advances _ _ _ _ h
  · exact guarded_lexOptions_advances _ _ _ _ h
  · exact lexCharacterDelimited_advances _ _ _ h
  · exact lexNumeric_advances _ _ h
  · exact lexIdentifier_advances _ _ h

theorem tryLexers_advances (source : List Byte) (p : Nat) :
    ∀ (fs : List (List Byte → Nat → LexResult)),
      (∀ lexFunc ∈ fs, (lexFunc source p).2.2 = true → p < (lexFunc source p).2.1) →
      ∀ r, tryLexers source p fs = some r → p < r.2 := by
  intro fs
  induction fs with
  | nil => intro _ r h; cases h
  | cons f rest ih =>
    intro hall r h
    unfold tryLexers at h
    by_cases hf : (f source p).2.2 = true
    · rw [if_pos hf] at h
      cases h
      exact hall f (List.mem_cons_self _ _) hf
    · rw [if_neg hf] at h
      exact ih (fun g hg => hall g (List.mem_cons_of_mem _ hg)) r h

/-- The loop of `Lex` ends: with enough rounds left it returns the lex error or
a token list that extends the tokens found so far. -/
theorem lexLoop_outcome (source : List Byte) :
    ∀ (fuel : Nat) (tokens : List Token) (pointer : Nat), source.length ≤ fuel + pointer →
      lexLoop source fuel tokens pointer = .error "unable to lex token%s, at position %d" ∨
      ∃ more, lexLoop source fuel tokens pointer = .ok (tokens ++ more) := by
  intro fuel
  induction fuel with
  | zero =>
    intro tokens pointer hf
    unfold lexLoop
    rw [if_neg (by omega)]
    exact Or.inr ⟨[], by rw [List.append_nil]⟩
  | succ fuel ih =>
    intro tokens pointer hf
    unfold lexLoop
    by_cases hp : pointer < source.length
    · rw [if_pos hp]
      cases htry : tryLexers source pointer lexers with
      | none => exact Or.inl rfl
      | some r =>
        have hadv := tryLexers_advances source pointer lexers (lexers_advance source pointer)
          r htry
        rcases ih (appendToken tokens r.1) r.2 (by omega) with e | ⟨more, e⟩
        · exact Or.inl e
        · refine Or.inr ⟨appendToken [] r.1 ++ more, ?_⟩
          show lexLoop source fuel (appendToken tokens r.1) r.2 = _
          rw [e]
          cases r.1 with
          | none => rfl
          | some token => simp [appendToken]
    · rw [if_neg hp]
      exact Or.inr ⟨[], by rw [List.append_nil]⟩

/-- The method `Lex` returns on every source: the lex error or a token list. -/
theorem Lex_total (source : List Byte) :
    Lex source = .error "unable to lex token%s, at position %d" ∨
    ∃ tokens, Lex source = .ok tokens := by
  rcases lexLoop_outcome source source.length [] 0 (Nat.le_refl _) with e | ⟨more, e⟩
  · exact Or.inl e
  · exact Or.inr ⟨more, e⟩

/-! ## The lexer: words -/

theorem drop_cons_facts :
    ∀ (source : List Byte) (start : Nat) (c : Byte) (r : List Byte),
      source.drop start = c :: r →
      start < source.length ∧ source.getD start 0 = c ∧ source.drop (start + 1) = r := by
  intro source
  induction source with
  | nil =>
    intro start c r h
    rw [List.drop_nil] at h
    cases h
  | cons a l ih =>
    intro start c r h
    cases start with
    | zero =>
      rw [List.drop_zero] at h
      cases h
      exact ⟨Nat.succ_pos _, rfl, rfl⟩
    | succ k =>
      rw [List.drop_succ_cons] at h
      obtain ⟨h1, h2, h3⟩ := ih k c r h
      refine ⟨Nat.succ_lt_succ h1, ?_, ?_⟩
      · rw [List.getD_cons_succ]
        exact h2
      · rw [List.drop_succ_cons]
        exact h3

theorem drop_advance :
    ∀ (A source : List Byte) (p : Nat) (rest : List Byte), source.drop p = A ++ rest →
      source.drop (p + A.length) = rest := by
  intro A
  induction A with
  | nil => intro source p rest h; exact h
  | cons a A ih =>
    intro source p rest h
    have h3 := (drop_cons_facts source p a (A ++ rest) h).2.2
    have := ih source (p + 1) rest h3
    rw [List.length_cons, ← this]
    congr 1
    omega

theorem drop_nil_ge (source : List Byte) (p : Nat) (h : source.drop p = []) :
    ¬ p < source.length := by
  intro hlt
  have : (source.drop p).length = source.length - p := List.length_drop _ _
  rw [h, List.length_nil] at this
  omega

theorem alphabetical_facts : ∀ b : Byte, isAlphabetical b = true →
    lowerOfByte b = [lowerByte b] ∧ isLowerLetter (lowerByte b) = true ∧
    isWordByte b = true ∧ b ≠ 10 ∧ b ≠ 9 ∧ b ≠ 32 ∧ b ≠ 39 ∧ b ≠ 34 ∧ b ≠ 46 ∧
    isDigit b = false := by
  decide!

theorem wordByte_lower : ∀ b : Byte, isWordByte b = true → lowerOfByte b = [lowerByte b] := by
  decide!

theorem nonWord_head : ∀ b : Byte, isWordByte b = false →
    (lowerOfByte b).head?.all (fun x => !isLowerLetter x) = true := by
  decide!

theorem lowerAll_word (w : List Byte) (hw : ∀ b ∈ w, isWordByte b = true) :
    lowerAll w = w.map lowerByte := by
  induction w with
  | nil => rfl
  | cons c rest ih =>
    rw [lowerAll_cons, wordByte_lower c (hw c (List.mem_cons_self _ _)),
      ih (fun b hb => hw b (List.mem_cons_of_mem _ hb))]
    rfl

theorem isWord_bytes (w : List Byte) (h : isWord w = true) :
    ∃ c rest, w = c :: rest ∧ isAlphabetical c = true ∧
      (∀ b ∈ rest, isWordByte b = true) ∧ ∀ b ∈ w, isWordByte b = true := by
  cases w with
  | nil => cases h
  | cons c rest =>
    unfold isWord at h
    rw [Bool.and_eq_true, List.all_eq_true] at h
    refine ⟨c, rest, rfl, h.1, h.2, ?_⟩
    intro b hb
    rcases List.mem_cons.mp hb with e | hb'
    · rw [e]
      exact (alphabetical_facts c h.1).2.2.1
    · exact h.2 b hb'

theorem take_append_stop (P : Byte → Bool) :
    ∀ (A B o : List Byte), (A ++ B).take o.length = o → (∀ x ∈ o, P x = true) →
      B.head?.all (fun x => !P x) = true → A.take o.length = o := by
  intro A
  induction A with
  | nil =>
    intro B o h ho hB
    cases o with
    | nil => rfl
    | cons x o' =>
      exfalso
      cases B with
      | nil =>
        rw [List.nil_append, List.take_nil] at h
        cases h
      | cons y B' =>
        rw [List.nil_append, List.length_cons, List.take_succ_cons] at h
        have hy : y = x := List.head_eq_of_cons_eq h
        have hx := ho x (List.mem_cons_self _ _)
        rw [hy] at hB
        simp only [List.head?_cons, Option.all_some, Bool.not_eq_true'] at hB
        rw [hx] at hB
        cases hB
  | cons a A ih =>
    intro B o h ho hB
    cases o with
    | nil => rfl
    | cons x o' =>
      rw [List.cons_append, List.length_cons, List.take_succ_cons] at h
      rw [List.length_cons, List.take_succ_cons]
      have hax : a = x := List.head_eq_of_cons_eq h
      have ht : (A ++ B).take o'.length = o' := List.tail_eq_of_cons_eq h
      rw [hax, ih B o' ht (fun y hy => ho y (List.mem_cons_of_mem _ hy)) hB]

theorem lowerAll_head (tail : List Byte) (ht : endsWord tail = true) :
    (lowerAll tail).head?.all (fun x => !isLowerLetter x) = true := by
  cases tail with
  | nil => rfl
  | cons b t =>
    have hb : isWordByte b = false := by
      simpa [endsWord] using ht
    have h := nonWord_head b hb
    rw [lowerAll_cons]
    have hne : lowerOfByte b ≠ [] := by
      intro e
      have := lowerOfByte_length b
      rw [e] at this
      simp at this
    cases hl : lowerOfByte b with
    | nil => exact absurd hl hne
    | cons y ys =>
      rw [hl] at h
      exact h

/-- An option of lower-case letters that starts the lowered text of a word and
of what follows it starts the lowered word itself. -/
theorem startsWith_word (w tail o : List Byte) (hw : ∀ b ∈ w, isWordByte b = true)
    (ht : endsWord tail = true) (ho : ∀ x ∈ o, isLowerLetter x = true)
    (h : startsWith (lowerAll (w ++ tail)) o = true) :
    startsWith (w.map lowerByte) o = true := by
  rw [startsWith_iff] at h ⊢
  rw [lowerAll_append, lowerAll_word w hw] at h
  exact take_append_stop isLowerLetter _ _ o h ho (lowerAll_head tail ht)

theorem startsWith_length (s o : List Byte) (h : startsWith s o = true) :
    o.length ≤ s.length := by
  rw [startsWith_iff] at h
  have := congrArg List.length h
  rw [List.length_take] at this
  omega

/-- The longest option at a word: `lexOptions` returns the longest option that
starts the lowered word, and fails when there is none. -/
theorem lexOptions_word (options : List (List Byte)) (kind : TokenKind)
    (hopt : ∀ o ∈ options, o ≠ [] ∧ ∀ x ∈ o, isLowerLetter x = true)
    (source : List Byte) (p : Nat) (w tail : List Byte) (hs : source.drop p = w ++ tail)
    (hw : ∀ b ∈ w, isWordByte b = true) (ht : endsWord tail = true) :
    (∀ kw ∈ options, startsWith (w.map lowerByte) kw = true →
      (∀ o ∈ options, startsWith (w.map lowerByte) o = true → o.length ≤ kw.length) →
      lexOptions options kind source p = (some ⟨kw, kind⟩, p + kw.length, true)) ∧
    ((∀ o ∈ options, startsWith (w.map lowerByte) o = false) →
      lexOptions options kind source p = (none, p, false)) := by
  constructor
  · intro kw hkw hst hbest
    have hlen : kw.length ≤ w.length := by
      have := startsWith_length _ _ hst
      rw [List.length_map] at this
      exact this
    have hj : kw = lowerAll ((source.drop p).take kw.length) := by
      rw [hs, List.take_append_of_le_length hlen,
        lowerAll_word _ (fun b hb => hw b (List.mem_of_mem_take hb)), List.map_take]
      exact ((startsWith_iff _ _).mp hst).symm
    have hm : longestMatch source p options = kw := by
      refine longestMatch_best source p options kw kw.length hkw (hopt kw hkw).1
        (List.length_pos.mpr (hopt kw hkw).1) ?_ hj ?_
      · rw [hs, List.length_append]
        omega
      · intro o ho hso
        rw [hs] at hso
        exact hbest o ho (startsWith_word w tail o hw ht (hopt o ho).2 hso)
    unfold lexOptions
    rw [hm, if_neg (hopt kw hkw).1]
  · intro hnone
    have hm : longestMatch source p options = [] := by
      refine longestMatch_none source p options ?_
      intro o ho _
      cases hso : startsWith (lowerAll (source.drop p)) o with
      | false => rfl
      | true =>
        rw [hs] at hso
        have := startsWith_word w tail o hw ht (hopt o ho).2 hso
        rw [hnone o ho] at this
        cases this
    unfold lexOptions
    rw [hm, if_pos rfl]

theorem startsWith_head (s o : List Byte) (h : startsWith s o = true) (ho : o ≠ []) :
    o.head? = s.head? := by
  rw [startsWith_iff] at h
  cases o with
  | nil => exact absurd rfl ho
  | cons x o' =>
    cases s with
    | nil =>
      rw [List.take_nil] at h
      cases h
    | cons y s' =>
      rw [List.length_cons, List.take_succ_cons] at h
      rw [List.head_eq_of_cons_eq h]
      rfl

/-- No option starts with the lowered first byte: `lexOptions` fails. -/
theorem lexOptions_head (options : List (List Byte)) (kind : TokenKind) (source : List Byte)
    (p : Nat) (c : Byte) (rest : List Byte) (hs : source.drop p = c :: rest)
    (h : ∀ o ∈ options, o.head? ≠ (lowerOfByte c).head?) :
    lexOptions options kind source p = (none, p, false) := by
  have hm : longestMatch source p options = [] := by
    refine longestMatch_none source p options ?_
    intro o ho hne
    cases hso : startsWith (lowerAll (source.drop p)) o with
    | false => rfl
    | true =>
      exfalso
      have hh := startsWith_head _ _ hso hne
      rw [hs, lowerAll_cons] at hh
      have hl := lowerOfByte_length c
      cases hlb : lowerOfByte c with
      | nil =>
        rw [hlb] at hl
        simp at hl
      | cons y ys =>
        rw [hlb] at hh
        exact h o ho (by rw [hlb]; exact hh)
  unfold lexOptions
  rw [hm, if_pos rfl]

theorem identifierLoop_word :
    ∀ (rest tail value : List Byte) (p : Nat), (∀ b ∈ rest, isWordByte b = true) →
      endsWord tail = true →
      identifierLoop (rest ++ tail) value p = (value ++ rest, p + rest.length) := by
  intro rest
  induction rest with
  | nil =>
    intro tail value p _ ht
    cases tail with
    | nil => simp [identifierLoop]
    | cons b t =>
      have hb : isWordByte b = false := by
        simpa [endsWord] using ht
      unfold isWordByte at hb
      rw [List.nil_append, identifierLoop, hb]
      simp
  | cons c rest ih =>
    intro tail value p hw ht
    have hc : isWordByte c = true := hw c (List.mem_cons_self _ _)
    unfold isWordByte at hc
    rw [List.cons_append, identifierLoop, hc, if_pos rfl,
      ih tail _ _ (fun b hb => hw b (List.mem_cons_of_mem _ hb)) ht]
    simp only [List.append_assoc, List.singleton_append, List.length_cons, Prod.mk.injEq,
      true_and]
    omega

theorem Keywords_letters : ∀ o ∈ Keywords, o ≠ [] ∧ ∀ x ∈ o, isLowerLetter x = true := by
  decide!

theorem Null_letters : ∀ o ∈ [NullValueKeyword], o ≠ [] ∧ ∀ x ∈ o, isLowerLetter x = true := by
  decide!

theorem symbols_heads : ∀ o ∈ symbols, o.head?.all (fun x => !isLowerLetter x) = true := by
  decide

theorem mathOperators_heads :
    ∀ o ∈ mathOperators, o.head?.all (fun x => !isLowerLetter x) = true := by
  decide

theorem heads_differ (options : List (List Byte)) (c : Byte)
    (hopt : ∀ o ∈ options, o.head?.all (fun x => !isLowerLetter x) = true)
    (hc : isAlphabetical c = true) : ∀ o ∈ options, o.head? ≠ (lowerOfByte c).head? := by
  intro o ho e
  have h := hopt o ho
  rw [e, (alphabetical_facts c hc).1] at h
  simp only [List.head?_cons, Option.all_some, Bool.not_eq_true'] at h
  rw [(alphabetical_facts c hc).2.1] at h
  cases h

theorem lexCharacterDelimited_other (source : List Byte) (p : Nat) (delimiter c : Byte)
    (hc : source.getD p 0 = c) (hne : c ≠ delimiter) :
    lexCharacterDelimited source p delimiter = (none, p, false) := by
  unfold lexCharacterDelimited
  split
  · rfl
  · rw [hc, if_pos hne]

/-- At a word that starts with no keyword and not with `null`, followed by the
end of the source or by a byte that cannot belong to an identifier, the first
lexer function that matches is `lexIdentifier`, with the lowered word. -/
theorem tryLexers_identifier (source : List Byte) (p : Nat) (w tail : List Byte)
    (hs : source.drop p = w ++ tail) (hw : isWord w = true) (ht : endsWord tail = true)
    (hk : ∀ kw ∈ Keywords, startsWith (w.map lowerByte) kw = false)
    (hn : startsWith (w.map lowerByte) NullValueKeyword = false) :
    tryLexers source p lexers =
      some (some ⟨w.map lowerByte, .IdentifierToken⟩, p + w.length) := by
  obtain ⟨c, rest, hwc, hc, hrest, hall⟩ := isWord_bytes w hw
  have hs' : source.drop p = c :: (rest ++ tail) := by rw [hs, hwc]; rfl
  obtain ⟨hlt, hget, hdrop⟩ := drop_cons_facts source p c _ hs'
  obtain ⟨_, _, _, c10, c9, c32, c39, c34, c46, cdig⟩ := alphabetical_facts c hc
  have hge : ¬ p ≥ source.length := by omega
  have h1 : lexKeyword source p = (none, p, false) := by
    unfold lexKeyword
    rw [if_neg hge]
    exact (lexOptions_word Keywords _ Keywords_letters source p w tail hs hall ht).2 hk
  have h2 : lexSymbol source p = (none, p, false) := by
    unfold lexSymbol
    rw [if_neg hge, hget, if_neg (by simp [c10, c9, c32])]
    exact lexOptions_head symbols _ source p c _ hs' (heads_differ symbols c symbols_heads hc)
  have h3 : lexNull source p = (none, p, false) := by
    unfold lexNull
    rw [if_neg hge]
    refine (lexOptions_word [NullValueKeyword] _ Null_letters source p w tail hs hall ht).2 ?_
    intro o ho
    rw [List.mem_singleton.mp ho]
    exact hn
  have h4 : lexMathOperator source p = (none, p, false) := by
    unfold lexMathOperator
    rw [if_neg hge]
    exact lexOptions_head mathOperators _ source p c _ hs'
      (heads_differ mathOperators c mathOperators_heads hc)
  have h5 : lexString source p = (none, p, false) :=
    lexCharacterDelimited_other source p 39 c hget c39
  have h6 : lexNumeric source p = (none, p, false) := by
    unfold lexNumeric
    rw [if_neg hge, hget, cdig]
    simp [c46]
  have h7 : lexIdentifier source p =
      (some ⟨w.map lowerByte, .IdentifierToken⟩, p + w.length, true) := by
    unfold lexIdentifier
    rw [if_neg hge, lexCharacterDelimited_other source p 34 c hget c34]
    simp only [Bool.false_eq_true, if_false]
    rw [hget, hc, hdrop, identifierLoop_word rest tail [c] (p + 1) hrest ht, hwc]
    simp only [Bool.not_true, Bool.false_eq_true, if_false, List.singleton_append,
      List.length_cons]
    rw [Nat.add_assoc, Nat.add_comm 1]
  simp only [lexers, tryLexers, h1, h2, h3, h4, h5, h6, h7, Bool.false_eq_true, if_false,
    if_true]

/-- At a word that starts with a keyword, the first lexer function that matches
is `lexKeyword`, with the longest keyword that starts the lowered word. -/
theorem tryLexers_keyword (source : List Byte) (p : Nat) (w tail kw : List Byte)
    (hs : source.drop p = w ++ tail) (hne : w ≠ []) (hw : ∀ b ∈ w, isWordByte b = true)
    (ht : endsWord tail = true) (hkw : kw ∈ Keywords)
    (hst : startsWith (w.map lowerByte) kw = true)
    (hbest : ∀ o ∈ Keywords, startsWith (w.map lowerByte) o = true → o.length ≤ kw.length) :
    lexKeyword source p = (some ⟨kw, .KeywordToken⟩, p + kw.length, true) ∧
    tryLexers source p lexers = some (some ⟨kw, .KeywordToken⟩, p + kw.length) := by
  obtain ⟨c, rest, hwc⟩ : ∃ c rest, w = c :: rest := by
    cases w with
    | nil => exact absurd rfl hne
    | cons c rest => exact ⟨c, rest, rfl⟩
  have hs' : source.drop p = c :: (rest ++ tail) := by rw [hs, hwc]; rfl
  obtain ⟨hlt, _, _⟩ := drop_cons_facts source p c _ hs'
  have hge : ¬ p ≥ source.length := by omega
  have h1 : lexKeyword source p = (some ⟨kw, .KeywordToken⟩, p + kw.length, true) := by
    unfold lexKeyword
    rw [if_neg hge]
    exact (lexOptions_word Keywords _ Keywords_letters source p w tail hs hw ht).1 kw hkw
      hst hbest
  refine ⟨h1, ?_⟩
  simp only [lexers, tryLexers, h1, if_true]

/-- One round of the loop of `Lex`. -/
theorem lexLoop_step (source : List Byte) (fuel : Nat) (tokens : List Token) (p : Nat)
    (A rest : List Byte) (tok : Option Token) (hfuel : source.length ≤ fuel + p)
    (hs : source.drop p = A ++ rest) (hA : A ≠ [])
    (htry : tryLexers source p lexers = some (tok, p + A.length)) :
    lexLoop source fuel tokens p =
      lexLoop source (fuel - 1) (appendToken tokens tok) (p + A.length) ∧
    source.length ≤ (fuel - 1) + (p + A.length) ∧ source.drop (p + A.length) = rest := by
  obtain ⟨c, A', hAc⟩ : ∃ c A', A = c :: A' := by
    cases A with
    | nil => exact absurd rfl hA
    | cons c A' => exact ⟨c, A', rfl⟩
  have hs' : source.drop p = c :: (A' ++ rest) := by rw [hs, hAc]; rfl
  obtain ⟨hlt, _, _⟩ := drop_cons_facts source p c _ hs'
  have hpos : 0 < A.length := List.length_pos.mpr hA
  refine ⟨?_, by omega, drop_advance A source p rest hs⟩
  cases fuel with
  | zero => omega
  | succ f =>
    rw [lexLoop, if_pos hlt, htry]
    rfl

/-- The loop of `Lex` at the end of the source. -/
theorem lexLoop_end (source : List Byte) (fuel : Nat) (tokens : List Token) (p : Nat)
    (hs : source.drop p = []) : lexLoop source fuel tokens p = .ok tokens := by
  have := drop_nil_ge source p hs
  cases fuel with
  | zero => rw [lexLoop, if_neg this]
  | succ f => rw [lexLoop, if_neg this]

/-- C40 (counterexample): `int_x` is a word whose lower-case form starts with
the keyword `int`; `lexKeyword` matches `int` at position 0, but `Lex` returns
the lex error for the rest `_x`, and with it no token at all. -/
theorem C40_counterexample_lex_error :
    isWord (goBytes "int_x") = true ∧
    startsWith ((goBytes "int_x").map lowerByte) (goBytes "int") = true ∧
    lexKeyword (goBytes "int_x") 0 = (some ⟨goBytes "int", .KeywordToken⟩, 3, true) ∧
    Lex (goBytes "int_x") = .error "unable to lex token%s, at position %d" ∧
    Lex (goBytes "int1e") = .error "unable to lex token%s, at position %d" := by
  decide

/-- C40 (amended): for every word `w` (a letter followed by letters, digits,
`_` or `$`): when `kw` is the longest keyword that starts the lower-case form of
`w`, `lexKeyword` matches `kw` at position 0, and `Lex(w)` either fails with the
lex error on the rest of the word or returns a token list whose first token is
the `KeywordToken` `kw`; it never returns the single `IdentifierToken` holding
`w`. When the lower-case form of `w` starts with no keyword and not with
`null`, `Lex(w)` is the single `IdentifierToken` lower(`w`). -/
theorem C40_word_lexing (w : List Byte) (hw : isWord w = true) :
    (∀ kw ∈ Keywords, startsWith (w.map lowerByte) kw = true →
      (∀ o ∈ Keywords, startsWith (w.map lowerByte) o = true → o.length ≤ kw.length) →
      lexKeyword w 0 = (some ⟨kw, .KeywordToken⟩, kw.length, true) ∧
      (Lex w = .error "unable to lex token%s, at position %d" ∨
        ∃ more, Lex w = .ok (⟨kw, .KeywordToken⟩ :: more)) ∧
      Lex w ≠ .ok [⟨w.map lowerByte, .IdentifierToken⟩]) ∧
    ((∀ kw ∈ Keywords, startsWith (w.map lowerByte) kw = false) →
      startsWith (w.map lowerByte) NullValueKeyword = false →
      Lex w = .ok [⟨w.map lowerByte, .IdentifierToken⟩]) := by
  obtain ⟨c, rest, hwc, hc, hrest, hall⟩ := isWord_bytes w hw
  have hne : w ≠ [] := by rw [hwc]; exact List.cons_ne_nil _ _
  have hs : w.drop 0 = w ++ [] := by rw [List.drop_zero, List.append_nil]
  constructor
  · intro kw hkw hst hbest
    obtain ⟨h1, h2⟩ := tryLexers_keyword w 0 w [] kw hs hne hall rfl hkw hst hbest
    rw [Nat.zero_add] at h1 h2
    have hkpos : 0 < kw.length := List.length_pos.mpr (Keywords_letters kw hkw).1
    have hstep : Lex w = lexLoop w (w.length - 1) [⟨kw, .KeywordToken⟩] kw.length := by
      unfold Lex
      have hlen : w.length = (w.length - 1) + 1 := by
        have := List.length_pos.mpr hne
        omega
      rw [hlen, lexLoop, if_pos (by omega), h2]
      rfl
    have hout := lexLoop_outcome w (w.length - 1) [⟨kw, .KeywordToken⟩] kw.length (by omega)
    have hcases : Lex w = .error "unable to lex token%s, at position %d" ∨
        ∃ more, Lex w = .ok (⟨kw, .KeywordToken⟩ :: more) := by
      rcases hout with e | ⟨more, e⟩
      · exact Or.inl (hstep.trans e)
      · exact Or.inr ⟨more, hstep.trans e⟩
    refine ⟨h1, hcases, ?_⟩
    intro e
    rcases hcases with e' | ⟨more, e'⟩
    · rw [e'] at e
      cases e
    · rw [e'] at e
      have := Res.ok.inj e
      have hk := congrArg (fun l => l.head?.map Token.kind) this
      cases hk
  · intro hk hn
    have htry := tryLexers_identifier w 0 w [] hs hw rfl hk hn
    obtain ⟨e1, _, e3⟩ := lexLoop_step w w.length [] 0 w [] _ (Nat.le_refl _) hs hne htry
    unfold Lex
    rw [e1, lexLoop_end w _ _ _ e3]
    rfl

/-- C40 (amended) on three words: `tables` starts with the keyword `table` and
lexes as that keyword followed by the identifier `s`; `INTO` lexes as the
keyword `into`, not `int`; `Users` starts with no keyword and lexes as the
identifier `users`. -/
theorem C40_word_lexing_witness :
    lexKeyword (goBytes "tables") 0 = (some ⟨goBytes "table", .KeywordToken⟩, 5, true) ∧
    Lex (goBytes "tables") =
      .ok [⟨goBytes "table", .KeywordToken⟩, ⟨goBytes "s", .IdentifierToken⟩] ∧
    Lex (goBytes "INTO") = .ok [⟨goBytes "into", .KeywordToken⟩] ∧
    Lex (goBytes "Users") = .ok [⟨goBytes "users", .IdentifierToken⟩] :=
  ⟨((C40_word_lexing (goBytes "tables") (by decide)).1 (goBytes "table") (by decide)
      (by decide) (by decide)).1,
    by decide, by decide,
    (C40_word_lexing (goBytes "Users") (by decide)).2 (by decide) (by decide)⟩

/-! ## The parser: `SELECT` statements -/

theorem Keywords_heads_blank : ∀ o ∈ Keywords, o.head? ≠ (lowerOfByte 32).head? := by
  decide!

/-- At a blank the first lexer function that matches is `lexSymbol`, which
skips it without a token. -/
theorem tryLexers_blank (source : List Byte) (p : Nat) (rest : List Byte)
    (hs : source.drop p = 32 :: rest) : tryLexers source p lexers = some (none, p + 1) := by
  obtain ⟨hlt, hget, _⟩ := drop_cons_facts source p 32 rest hs
  have hge : ¬ p ≥ source.length := by omega
  have h1 : lexKeyword source p = (none, p, false) := by
    unfold lexKeyword
    rw [if_neg hge]
    exact lexOptions_head Keywords _ source p 32 rest hs Keywords_heads_blank
  have h2 : lexSymbol source p = (none, p + 1, true) := by
    unfold lexSymbol
    rw [if_neg hge, hget, if_pos (Or.inr (Or.inr rfl))]
  simp only [lexers, tryLexers, h1, h2, Bool.false_eq_true, if_false, if_true]

theorem symbol_facts : ∀ c : Byte, [c] ∈ symbols →
    (∀ o ∈ Keywords, o.head? ≠ (lowerOfByte c).head?) ∧ lowerOfByte c = [c] ∧
    c ≠ 10 ∧ c ≠ 9 ∧ c ≠ 32 := by
  decide!

theorem symbols_short : ∀ o ∈ symbols, o.length ≤ 1 := by
  decide!

/-- At one of the symbols `,` `(` `)` `;` `*` the first lexer function that
matches is `lexSymbol`, with that symbol. -/
theorem tryLexers_symbol (source : List Byte) (p : Nat) (c : Byte) (rest : List Byte)
    (hs : source.drop p = c :: rest) (hc : [c] ∈ symbols) :
    tryLexers source p lexers = some (some ⟨[c], .SymbolToken⟩, p + 1) := by
  obtain ⟨hlt, hget, _⟩ := drop_cons_facts source p c rest hs
  obtain ⟨hheads, hlow, c10, c9, c32⟩ := symbol_facts c hc
  have hge : ¬ p ≥ source.length := by omega
  have h1 : lexKeyword source p = (none, p, false) := by
    unfold lexKeyword
    rw [if_neg hge]
    exact lexOptions_head Keywords _ source p c rest hs hheads
  have hm : longestMatch source p symbols = [c] := by
    refine longestMatch_best source p symbols [c] 1 hc (List.cons_ne_nil _ _) (Nat.le_refl _)
      ?_ ?_ ?_
    · rw [hs, List.length_cons]
      omega
    · rw [hs, List.take_succ_cons, List.take_zero, lowerAll_cons, hlow]
      rfl
    · intro o ho _
      exact symbols_short o ho
  have h2 : lexSymbol source p = (some ⟨[c], .SymbolToken⟩, p + 1, true) := by
    unfold lexSymbol
    rw [if_neg hge, hget, if_neg (by simp [c10, c9, c32])]
    unfold lexOptions
    rw [hm, if_neg (List.cons_ne_nil _ _)]
    rfl
  simp only [lexers, tryLexers, h1, h2, Bool.false_eq_true, if_false, if_true]

theorem select_word_facts :
    goBytes "SELECT" ≠ [] ∧ (∀ b ∈ goBytes "SELECT", isWordByte b = true) ∧
    goBytes "select" ∈ Keywords ∧
    startsWith ((goBytes "SELECT").map lowerByte) (goBytes "select") = true ∧
    ∀ o ∈ Keywords, startsWith ((goBytes "SELECT").map lowerByte) o = true →
      o.length ≤ (goBytes "select").length := by
  decide!

theorem from_word_facts :
    goBytes "FROM" ≠ [] ∧ (∀ b ∈ goBytes "FROM", isWordByte b = true) ∧
    goBytes "from" ∈ Keywords ∧
    startsWith ((goBytes "FROM").map lowerByte) (goBytes "from") = true ∧
    ∀ o ∈ Keywords, startsWith ((goBytes "FROM").map lowerByte) o = true →
      o.length ≤ (goBytes "from").length := by
  decide!

theorem symbols_mem : [(42 : Byte)] ∈ symbols ∧ [(59 : Byte)] ∈ symbols := by
  decide!

/-- The end of a `SELECT` query, ` FROM t;` for a word `t` that starts with no
keyword and not with `null`, gives the keyword `from`, the identifier and the
semicolon. -/
theorem lexLoop_from_table (source : List Byte) (fuel : Nat) (tokens : List Token) (p : Nat)
    (t : List Byte) (hfuel : source.length ≤ fuel + p)
    (hs : source.drop p = [32] ++ (goBytes "FROM" ++ ([32] ++ (t ++ ([59] ++ [])))))
    (ht : isWord t = true)
    (hk : ∀ kw ∈ Keywords, startsWith (t.map lowerByte) kw = false)
    (hn : startsWith (t.map lowerByte) NullValueKeyword = false) :
    lexLoop source fuel tokens p =
      .ok (tokens ++ [⟨goBytes "from", .KeywordToken⟩, ⟨t.map lowerByte, .IdentifierToken⟩,
        ⟨goBytes ";", .SymbolToken⟩]) := by
  have htne : t ≠ [] := by
    intro e
    rw [e] at ht
    cases ht
  obtain ⟨e1, f1, d1⟩ := lexLoop_step source fuel tokens p [32] _ none hfuel hs
    (List.cons_ne_nil _ _) (tryLexers_blank source p _ hs)
  obtain ⟨e2, f2, d2⟩ := lexLoop_step source _ (appendToken tokens none) _ (goBytes "FROM") _
    (some ⟨goBytes "from", .KeywordToken⟩) f1 d1 from_word_facts.1
    (tryLexers_keyword source _ (goBytes "FROM") _ (goBytes "from") d1 from_word_facts.1
      from_word_facts.2.1 rfl from_word_facts.2.2.1 from_word_facts.2.2.2.1
      from_word_facts.2.2.2.2).2
  obtain ⟨e3, f3, d3⟩ := lexLoop_step source _ _ _ [32] _ none f2 d2
    (List.cons_ne_nil _ _) (tryLexers_blank source _ _ d2)
  obtain ⟨e4, f4, d4⟩ := lexLoop_step source _ _ _ t _
    (some ⟨t.map lowerByte, .IdentifierToken⟩) f3 d3 htne
    (tryLexers_identifier source _ t _ d3 ht rfl hk hn)
  obtain ⟨e5, f5, d5⟩ := lexLoop_step source _ _ _ [59] _
    (some ⟨[59], .SymbolToken⟩) f4 d4 (List.cons_ne_nil _ _)
    (tryLexers_symbol source _ 59 _ d4 symbols_mem.2)
  rw [e1, e2, e3, e4, e5, lexLoop_end source _ _ _ d5]
  simp [appendToken]
  rfl

/-- The tokens of `SELECT * FROM t;`. -/
theorem Lex_select_star (t : List Byte) (ht : isWord t = true)
    (hk : ∀ kw ∈ Keywords, startsWith (t.map lowerByte) kw = false)
    (hn : startsWith (t.map lowerByte) NullValueKeyword = false) :
    Lex (goBytes "SELECT * FROM " ++ t ++ goBytes ";") =
      .ok [⟨goBytes "select", .KeywordToken⟩, ⟨goBytes "*", .SymbolToken⟩,
        ⟨goBytes "from", .KeywordToken⟩, ⟨t.map lowerByte, .IdentifierToken⟩,
        ⟨goBytes ";", .SymbolToken⟩] := by
  have hsrc : goBytes "SELECT * FROM " ++ t ++ goBytes ";" =
      goBytes "SELECT" ++ ([32] ++ ([42] ++
        ([32] ++ (goBytes "FROM" ++ ([32] ++ (t ++ ([59] ++ []))))))) := by
    simp
    rfl
  rw [hsrc]
  generalize hdef : goBytes "SELECT" ++ ([32] ++ ([42] ++
    ([32] ++ (goBytes "FROM" ++ ([32] ++ (t ++ ([59] ++ []))))))) = source
  have d0 : source.drop 0 = goBytes "SELECT" ++ ([32] ++ ([42] ++
      ([32] ++ (goBytes "FROM" ++ ([32] ++ (t ++ ([59] ++ []))))))) := by
    rw [List.drop_zero, hdef]
  obtain ⟨e1, f1, d1⟩ := lexLoop_step source source.length [] 0 (goBytes "SELECT") _
    (some ⟨goBytes "select", .KeywordToken⟩) (Nat.le_refl _) d0 select_word_facts.1
    (tryLexers_keyword source 0 (goBytes "SELECT") _ (goBytes "select") d0 select_word_facts.1
      select_word_facts.2.1 rfl select_word_facts.2.2.1 select_word_facts.2.2.2.1
      select_word_facts.2.2.2.2).2
  obtain ⟨e2, f2, d2⟩ := lexLoop_step source _ _ _ [32] _ none f1 d1
    (List.cons_ne_nil _ _) (tryLexers_blank source _ _ d1)
  obtain ⟨e3, f3, d3⟩ := lexLoop_step source _ _ _ [42] _
    (some ⟨[42], .SymbolToken⟩) f2 d2 (List.cons_ne_nil _ _)
    (tryLexers_symbol source _ 42 _ d2 symbols_mem.1)
  unfold Lex
  rw [e1, e2, e3, lexLoop_from_table source _ _ _ t f3 d3 ht hk hn]
  rfl

/-- The tokens of `SELECT c FROM t;`. -/
theorem Lex_select_column (c t : List Byte) (hc : isWord c = true)
    (hck : ∀ kw ∈ Keywords, startsWith (c.map lowerByte) kw = false)
    (hcn : startsWith (c.map lowerByte) NullValueKeyword = false) (ht : isWord t = true)
    (hk : ∀ kw ∈ Keywords, startsWith (t.map lowerByte) kw = false)
    (hn : startsWith (t.map lowerByte) NullValueKeyword = false) :
    Lex (goBytes "SELECT " ++ c ++ goBytes " FROM " ++ t ++ goBytes ";") =
      .ok [⟨goBytes "select", .KeywordToken⟩, ⟨c.map lowerByte, .IdentifierToken⟩,
        ⟨goBytes "from", .KeywordToken⟩, ⟨t.map lowerByte, .IdentifierToken⟩,
        ⟨goBytes ";", .SymbolToken⟩] := by
  have hcne : c ≠ [] := by
    intro e
    rw [e] at hc
    cases hc
  have hsrc : goBytes "SELECT " ++ c ++ goBytes " FROM " ++ t ++ goBytes ";" =
      goBytes "SELECT" ++ ([32] ++ (c ++
        ([32] ++ (goBytes "FROM" ++ ([32] ++ (t ++ ([59] ++ []))))))) := by
    simp
    rfl
  rw [hsrc]
  generalize hdef : goBytes "SELECT" ++ ([32] ++ (c ++
    ([32] ++ (goBytes "FROM" ++ ([32] ++ (t ++ ([59] ++ []))))))) = source
  have d0 : source.drop 0 = goBytes "SELECT" ++ ([32] ++ (c ++
      ([32] ++ (goBytes "FROM" ++ ([32] ++ (t ++ ([59] ++ []))))))) := by
    rw [List.drop_zero, hdef]
  obtain ⟨e1, f1, d1⟩ := lexLoop_step source source.length [] 0 (goBytes "SELECT") _
    (some ⟨goBytes "select", .KeywordToken⟩) (Nat.le_refl _) d0 select_word_facts.1
    (tryLexers_keyword source 0 (goBytes "SELECT") _ (goBytes "select") d0 select_word_facts.1
      select_word_facts.2.1 rfl select_word_facts.2.2.1 select_word_facts.2.2.2.1
      select_word_facts.2.2.2.2).2
  obtain ⟨e2, f2, d2⟩ := lexLoop_step source _ _ _ [32] _ none f1 d1
    (List.cons_ne_nil _ _) (tryLexers_blank source _ _ d1)
  obtain ⟨e3, f3, d3⟩ := lexLoop_step source _ _ _ c _
    (some ⟨c.map lowerByte, .IdentifierToken⟩) f2 d2 hcne
    (tryLexers_identifier source _ c _ d2 hc rfl hck hcn)
  unfold Lex
  rw [e1, e2, e3, lexLoop_from_table source _ _ _ t f3 d3 ht hk hn]
  rfl

theorem parseLoop_select_star (tv : List Byte) :
    parseLoop [⟨goBytes "select", .KeywordToken⟩, ⟨goBytes "*", .SymbolToken⟩,
        ⟨goBytes "from", .KeywordToken⟩, ⟨tv, .IdentifierToken⟩,
        ⟨goBytes ";", .SymbolToken⟩] 6 0 [] =
      .ok ⟨[⟨.SelectKind, some ⟨⟨tv, .IdentifierToken⟩, []⟩, none, none, none⟩]⟩ := by
  rfl

theorem token_ne_kind (a b : Token) (h : a.kind ≠ b.kind) : decide (a = b) = false := by
  rw [decide_eq_false_iff_not]
  intro e
  exact h (by rw [e])

theorem expectToken_kind (tokens : List Token) (pointer : Nat) (expected current : Token)
    (hc : tokens[pointer]? = some current) (h : expected.kind ≠ current.kind) :
    expectToken tokens pointer expected = false := by
  unfold expectToken
  rw [hc]
  exact token_ne_kind _ _ h

theorem parseLoop_select_column (cv tv : List Byte) :
    parseLoop [⟨goBytes "select", .KeywordToken⟩, ⟨cv, .IdentifierToken⟩,
        ⟨goBytes "from", .KeywordToken⟩, ⟨tv, .IdentifierToken⟩,
        ⟨goBytes ";", .SymbolToken⟩] 6 0 [] =
      .ok ⟨[⟨.SelectKind, some ⟨⟨tv, .IdentifierToken⟩, [⟨⟨cv, .IdentifierToken⟩⟩]⟩,
        none, none, none⟩]⟩ := by
  generalize htoks : ([⟨goBytes "select", .KeywordToken⟩, ⟨cv, .IdentifierToken⟩,
        ⟨goBytes "from", .KeywordToken⟩, ⟨tv, .IdentifierToken⟩,
        ⟨goBytes ";", .SymbolToken⟩] : List Token) = tokens
  have h0 : expectToken tokens 0 (tokenFromKeyword (goBytes "select")) = true := by
    rw [← htoks]; rfl
  have h1 : expectToken tokens 1 (tokenFromSymbol (goBytes "*")) = false := by
    refine expectToken_kind tokens 1 _ ⟨cv, .IdentifierToken⟩ (by rw [← htoks]; rfl) ?_
    intro e
    cases e
  have hx : parseExpressions tokens 1
      [tokenFromKeyword (goBytes "from"), tokenFromSymbol (goBytes ";")] =
      .ok (some ([⟨⟨cv, .IdentifierToken⟩⟩], 2)) := by
    rw [← htoks]
    unfold parseExpressions
    simp only [List.length_cons, List.length_nil]
    rw [parseExpressionsLoop]
    simp only [List.getElem?_cons_succ, List.getElem?_cons_zero, List.any_cons, List.any_nil,
      token_ne_kind (tokenFromKeyword (goBytes "from")) ⟨cv, .IdentifierToken⟩
        (by intro e; cases e),
      token_ne_kind (tokenFromSymbol (goBytes ";")) ⟨cv, .IdentifierToken⟩
        (by intro e; cases e), Bool.or_false, Bool.false_eq_true, if_false, List.length_nil,
      Nat.lt_irrefl, false_and]
    rfl
  have hf : parseSelectFrom tokens 2 [⟨⟨cv, .IdentifierToken⟩⟩] =
      .ok (some (⟨⟨tv, .IdentifierToken⟩, [⟨⟨cv, .IdentifierToken⟩⟩]⟩, 4)) := by
    rw [← htoks]; rfl
  have hs : parseSelectStatement tokens 0 =
      .ok (some (⟨⟨tv, .IdentifierToken⟩, [⟨⟨cv, .IdentifierToken⟩⟩]⟩, 4)) := by
    unfold parseSelectStatement
    rw [h0]
    simp only [Bool.true_eq_false, if_false, Nat.zero_add, h1, Bool.false_eq_true, hx]
    exact hf
  have hlen : tokens.length = 5 := by rw [← htoks]; rfl
  have hsemi : countSemicolons (tokens.drop 4) = 1 := by rw [← htoks]; rfl
  rw [parseLoop, hlen, if_pos (by decide), parseStatement, hs]
  simp only [Res.bind, hsemi, one_ne_zero, if_false]
  rw [parseLoop, hlen, if_neg (by decide)]
  rfl

/-! ## The validator: identifiers -/

theorem upperEquals_ascii :
    ∀ (v K : List Byte), (∀ b ∈ v, b.val < 128) → upperEquals v K = true →
      v.map upperByte = K := by
  intro v
  induction v with
  | nil =>
    intro K _ h
    cases K with
    | nil => rfl
    | cons k ks =>
      rw [upperEquals] at h
      cases h
  | cons c rest ih =>
    intro K hv h
    cases K with
    | nil =>
      rw [upperEquals] at h
      cases h
    | cons k ks =>
      unfold upperEquals at h
      rw [if_pos (hv c (List.mem_cons_self _ _)), Bool.and_eq_true, decide_eq_true_eq] at h
      rw [List.map_cons, h.1, ih ks (fun b hb => hv b (List.mem_cons_of_mem _ hb)) h.2]

theorem wordByte_facts : ∀ b : Byte, isWordByte b = true →
    (lowerByte b).val < 128 ∧ lowerByte (upperByte (lowerByte b)) = lowerByte b ∧
    decide (lowerByte b ∈ invalidIdentifierBytes) = false := by
  decide!

theorem validatorKeywords_lower : ∀ K ∈ validatorKeywords,
    K.map lowerByte ∈ Keywords ∨ K.map lowerByte = NullValueKeyword := by
  decide!

theorem startsWith_self (s : List Byte) : startsWith s s = true := by
  rw [startsWith_iff, List.take_length]

/-- The validator accepts the lower-case form of a word that starts with no
keyword and not with `null` as an identifier. -/
theorem validateIdentifier_word (w : List Byte) (context : String) (hw : isWord w = true)
    (hk : ∀ kw ∈ Keywords, startsWith (w.map lowerByte) kw = false)
    (hn : startsWith (w.map lowerByte) NullValueKeyword = false) :
    validateIdentifier (w.map lowerByte) context = none := by
  obtain ⟨c, rest, hwc, _, _, hall⟩ := isWord_bytes w hw
  have hne : w.map lowerByte ≠ [] := by
    rw [hwc]
    exact List.cons_ne_nil _ _
  have hkw : validatorKeywords.any (fun keyword => upperEquals (w.map lowerByte) keyword) =
      false := by
    rw [List.any_eq_false]
    intro K hK hup
    have hasc : ∀ b ∈ w.map lowerByte, b.val < 128 := by
      intro b hb
      obtain ⟨a, ha, rfl⟩ := List.mem_map.mp hb
      exact (wordByte_facts a (hall a ha)).1
    have e := upperEquals_ascii _ K hasc hup
    have e2 : w.map lowerByte = K.map lowerByte := by
      rw [← e, List.map_map, List.map_map]
      refine (List.map_congr_left ?_).symm
      intro a ha
      exact (wordByte_facts a (hall a ha)).2.1
    rcases validatorKeywords_lower K hK with hmem | hnull
    · have := hk _ hmem
      rw [← e2, startsWith_self] at this
      cases this
    · rw [← hnull, ← e2, startsWith_self] at hn
      cases hn
  have hinv : (w.map lowerByte).any (fun b => decide (b ∈ invalidIdentifierBytes)) = false := by
    rw [List.any_eq_false]
    intro b hb hbad
    obtain ⟨a, ha, rfl⟩ := List.mem_map.mp hb
    rw [(wordByte_facts a (hall a ha)).2.2] at hbad
    cases hbad
  unfold validateIdentifier
  rw [if_neg hne, hkw, hinv]
  rfl

/-- Claim C31: for every word `t` that starts with no keyword and not with
`null`, `Parse("SELECT * FROM t;")` fails: `ast.Parse` builds the one `SELECT`
statement with table lower(`t`) and an empty column list, and the validator
rejects the empty column list with "SELECT statement must specify columns or
use *"; `Parse("SELECT c FROM t;")` succeeds for every such word `c` and returns
exactly one statement of kind `SELECT` whose table is lower(`t`). -/
theorem C31_select_star_rejected (t : List Byte) (ht : isWord t = true)
    (hk : ∀ kw ∈ Keywords, startsWith (t.map lowerByte) kw = false)
    (hn : startsWith (t.map lowerByte) NullValueKeyword = false) :
    Parse (goBytes "SELECT * FROM " ++ t ++ goBytes ";") =
      .error "Validation error: SELECT statement must specify columns or use *" ∧
    ast.Parse (goBytes "SELECT * FROM " ++ t ++ goBytes ";") =
      .ok ⟨[⟨.SelectKind, some ⟨⟨t.map lowerByte, .IdentifierToken⟩, []⟩,
        none, none, none⟩]⟩ ∧
    ∀ c : List Byte, isWord c = true →
      (∀ kw ∈ Keywords, startsWith (c.map lowerByte) kw = false) →
      startsWith (c.map lowerByte) NullValueKeyword = false →
      Parse (goBytes "SELECT " ++ c ++ goBytes " FROM " ++ t ++ goBytes ";") =
        .ok ⟨[⟨.SelectKind, some ⟨⟨t.map lowerByte, .IdentifierToken⟩,
          [⟨⟨c.map lowerByte, .IdentifierToken⟩⟩]⟩, none, none, none⟩]⟩ := by
  have hne : t.map lowerByte ≠ [] := by
    intro e
    rw [List.map_eq_nil_iff] at e
    rw [e] at ht
    cases ht
  have hast : ast.Parse (goBytes "SELECT * FROM " ++ t ++ goBytes ";") =
      .ok ⟨[⟨.SelectKind, some ⟨⟨t.map lowerByte, .IdentifierToken⟩, []⟩,
        none, none, none⟩]⟩ := by
    unfold ast.Parse
    rw [Lex_select_star t ht hk hn]
    exact parseLoop_select_star _
  refine ⟨?_, hast, ?_⟩
  · unfold Parse
    rw [hast]
    simp only [Res.bind, ValidateAST, List.length_singleton, one_ne_zero, if_false,
      firstError, validateStatement, validateSelectStatement, if_neg hne,
      validateIdentifier_word t "table name" ht hk hn, List.length_nil, if_true]
  · intro c hc hck hcn
    have hast2 : ast.Parse (goBytes "SELECT " ++ c ++ goBytes " FROM " ++ t ++ goBytes ";") =
        .ok ⟨[⟨.SelectKind, some ⟨⟨t.map lowerByte, .IdentifierToken⟩,
          [⟨⟨c.map lowerByte, .IdentifierToken⟩⟩]⟩, none, none, none⟩]⟩ := by
      unfold ast.Parse
      rw [Lex_select_column c t hc hck hcn ht hk hn]
      exact parseLoop_select_column _ _
    unfold Parse
    rw [hast2]
    simp only [Res.bind, ValidateAST, List.length_singleton, one_ne_zero, if_false,
      firstError, validateStatement, validateSelectStatement, if_neg hne,
      validateIdentifier_word t "table name" ht hk hn,
      validateIdentifier_word c "column name" hc hck hcn]

theorem users_word_facts :
    isWord (goBytes "users") = true ∧
    (∀ kw ∈ Keywords, startsWith ((goBytes "users").map lowerByte) kw = false) ∧
    startsWith ((goBytes "users").map lowerByte) NullValueKeyword = false ∧
    isWord (goBytes "id") = true ∧
    (∀ kw ∈ Keywords, startsWith ((goBytes "id").map lowerByte) kw = false) ∧
    startsWith ((goBytes "id").map lowerByte) NullValueKeyword = false := by
  decide!

/-- Claim C31 on the table `users`: `Parse("SELECT * FROM users;")` returns the
validation error, `Parse("SELECT id FROM users;")` the one `SELECT` statement on
`users`. -/
theorem C31_select_star_rejected_witness :
    Parse (goBytes "SELECT * FROM users;") =
      .error "Validation error: SELECT statement must specify columns or use *" ∧
    ast.Parse (goBytes "SELECT * FROM users;") =
      .ok ⟨[⟨.SelectKind, some ⟨⟨goBytes "users", .IdentifierToken⟩, []⟩,
        none, none, none⟩]⟩ ∧
    Parse (goBytes "SELECT id FROM users;") =
      .ok ⟨[⟨.SelectKind, some ⟨⟨goBytes "users", .IdentifierToken⟩,
        [⟨⟨goBytes "id", .IdentifierToken⟩⟩]⟩, none, none, none⟩]⟩ :=
  ⟨(C31_select_star_rejected (goBytes "users") users_word_facts.1 users_word_facts.2.1
      users_word_facts.2.2.1).1,
    (C31_select_star_rejected (goBytes "users") users_word_facts.1 users_word_facts.2.1
      users_word_facts.2.2.1).2.1,
    (C31_select_star_rejected (goBytes "users") users_word_facts.1 users_word_facts.2.1
      users_word_facts.2.2.1).2.2 (goBytes "id") users_word_facts.2.2.2.1
      users_word_facts.2.2.2.2.1 users_word_facts.2.2.2.2.2⟩


end CustomDB
